import Mathlib

/-!
# AL_USDMaya `TransformationMatrix`: a shallow embedding

Source: `plugin/al/lib/AL_USDMaya/AL/usdmaya/nodes/TransformationMatrix.cpp`.

Conventions of the embedding

* `double` values are idealised as rationals with exact arithmetic; narrowing to
  `float`, `half` and `int` goes through the conversion functions of `Host`. A rational
  stands for a finite double: rounding of double arithmetic, infinities and NaN are outside
  the model, so a statement quantified over values speaks of finite values.
* The backing prim (`m_prim` / `m_xform`) is threaded through as a `UsdStage`
  value; it keeps a journal of the mutating calls issued against it.
* C++ reference parameters that receive a result (`MVector& result`) become an
  input holding the old content and an output holding the new content.
* A read of an out-of-range vector element is undefined behaviour; functions
  that can reach one return `Option`, with `none` standing for it.
-/

namespace ALUsdMaya

/-! ## Host (Maya) value types -/

/-- Maya `MVector`; `MPoint` is given the same representation (its `w` is 1 everywhere in
the source). The components are exact rationals standing for finite doubles: no component is a
NaN or an infinity, and sums and differences do not round. -/
structure MVector where
  x : ℚ
  y : ℚ
  z : ℚ
deriving DecidableEq, Repr

/-- Maya `MPoint`, cartesian part. -/
abbrev MPoint := MVector

/-- Maya `MEulerRotation::RotationOrder`. -/
inductive RotationOrder where
  | kXYZ
  | kYZX
  | kZXY
  | kXZY
  | kYXZ
  | kZYX
deriving DecidableEq, Repr

/-- Maya `MEulerRotation`. -/
structure MEulerRotation where
  x : ℚ
  y : ℚ
  z : ℚ
  order : RotationOrder
deriving DecidableEq, Repr

/-- Maya `MQuaternion`. -/
structure MQuaternion where
  x : ℚ
  y : ℚ
  z : ℚ
  w : ℚ
deriving DecidableEq, Repr

/-- A 4x4 matrix of doubles: `GfMatrix4d` and `MMatrix` share the layout (the source
reinterprets one as the other). -/
abbrev GfMatrix4d := Fin 4 → Fin 4 → ℚ

/-- Maya `MMatrix`. -/
abbrev MMatrix := GfMatrix4d

/-- The identity matrix, the value of a default-constructed `MMatrix` and of
`GfMatrix4d(1.0)`: ones on the diagonal, zeros elsewhere. -/
def MMatrix.identity : MMatrix := fun i j => if i = j then 1 else 0

/-- Maya `MStatus`, reduced to success or failure. -/
inductive MStatus where
  | kSuccess
  | kFailure
deriving DecidableEq, Repr

/-- The conversion `MStatus::operator bool`. -/
def MStatus.toBool : MStatus → Bool
  | .kSuccess => true
  | .kFailure => false

/-- The tolerance `MVector_kTol` = `MPoint_kTol` = 1.0e-10 of the Maya SDK. -/
def kTol : ℚ := 1 / 10000000000

/-- `MVector(x, y, z)` with the default arguments of the Maya constructor spelled out. -/
def MVector.zero : MVector := ⟨0, 0, 0⟩

/-- The vector `MVector(1.0, 1.0, 1.0)`. -/
def MVector.one : MVector := ⟨1, 1, 1⟩

/-- Maya `MVector::operator+`. -/
def MVector.add (a b : MVector) : MVector := ⟨a.x + b.x, a.y + b.y, a.z + b.z⟩

/-- Maya `MVector::operator-` (also `MPoint - MPoint`). -/
def MVector.sub (a b : MVector) : MVector := ⟨a.x - b.x, a.y - b.y, a.z - b.z⟩

/-- Maya `MVector::operator*=(double)`. -/
def MVector.scale (a : MVector) (k : ℚ) : MVector := ⟨a.x * k, a.y * k, a.z * k⟩

/-- Maya `MVector::isEquivalent` / `MPoint::isEquivalent` with the default tolerance:
every component within `kTol`. -/
def MVector.isEquivalent (a b : MVector) : Bool :=
  decide (|a.x - b.x| ≤ kTol) && decide (|a.y - b.y| ≤ kTol) && decide (|a.z - b.z| ≤ kTol)

/-- Maya `MEulerRotation::isEquivalent` with the default tolerance. -/
def MEulerRotation.isEquivalent (a b : MEulerRotation) : Bool :=
  decide (|a.x - b.x| ≤ kTol) && decide (|a.y - b.y| ≤ kTol) && decide (|a.z - b.z| ≤ kTol)
    && decide (a.order = b.order)

/-- Maya `MQuaternion::isEquivalent` with the default tolerance. -/
def MQuaternion.isEquivalent (a b : MQuaternion) : Bool :=
  decide (|a.x - b.x| ≤ kTol) && decide (|a.y - b.y| ≤ kTol) && decide (|a.z - b.z| ≤ kTol)
    && decide (|a.w - b.w| ≤ kTol)

/-- The identity quaternion `MQuaternion(0, 0, 0, 1.0)`. -/
def MQuaternion.identity : MQuaternion := ⟨0, 0, 0, 1⟩

/-- Maya `MQuaternion::operator*` (Hamilton product). -/
def MQuaternion.mul (a b : MQuaternion) : MQuaternion :=
  ⟨a.w * b.x + a.x * b.w + a.y * b.z - a.z * b.y,
   a.w * b.y - a.x * b.z + a.y * b.w + a.z * b.x,
   a.w * b.z + a.x * b.y - a.y * b.x + a.z * b.w,
   a.w * b.w - a.x * b.x - a.y * b.y - a.z * b.z⟩

/-- Maya `MQuaternion::inverse`: the conjugate over the squared norm. -/
def MQuaternion.inverse (a : MQuaternion) : MQuaternion :=
  let n := a.x * a.x + a.y * a.y + a.z * a.z + a.w * a.w
  ⟨-a.x / n, -a.y / n, -a.z / n, a.w / n⟩

/-- The constant `M_PI` of `<cmath>`: the double nearest to pi, as an exact rational. -/
def M_PI : ℚ := 884279719003555 / 281474976710656

/-- The local constant `degToRad` of `readRotation`. -/
def degToRad : ℚ := M_PI / 180

/-- The local constant `radToDeg` of `pushRotation`. -/
def radToDeg : ℚ := 180 / M_PI

/-- The protected data members of the Maya base class `MPxTransformationMatrix` that the
source reads and writes: the live, host-visible value of every channel. -/
structure MPxTransformationMatrix where
  scaleValue : MVector
  rotationValue : MEulerRotation
  translationValue : MVector
  shearValue : MVector
  scalePivotValue : MPoint
  scalePivotTranslationValue : MVector
  rotatePivotValue : MPoint
  rotatePivotTranslationValue : MVector
  rotateOrientationValue : MQuaternion
deriving DecidableEq

/-- Maya `MSpace::Space`. -/
inductive MSpace where
  | kTransform
  | kObject
  | kWorld
deriving DecidableEq, Repr

/-- What the embedding takes from the host SDK and the C++ numeric conversions without
looking inside: narrowing of a double to `float`, `GfHalf` and `int32_t`, the
trigonometric conversions between Euler angles and quaternions, and the composition
`MPxTransformationMatrix::asMatrix`. -/
structure Host where
  toFloat : ℚ → ℚ
  toHalf : ℚ → ℚ
  toInt : ℚ → ℚ
  asQuaternion : MEulerRotation → MQuaternion
  asEulerRotation : MQuaternion → MEulerRotation
  asMatrix : MPxTransformationMatrix → MMatrix

/-- Rounding to the nearest multiple of `2 ^ (-k)`. -/
def roundToBits (k : ℕ) (q : ℚ) : ℚ := (⌊q * 2 ^ k + 1 / 2⌋ : ℤ) / 2 ^ k

/-- Truncation toward zero, the C++ conversion of a double to an integer. -/
def truncToInt (q : ℚ) : ℚ := if 0 ≤ q then (⌊q⌋ : ℤ) else (⌈q⌉ : ℤ)

/-- A concrete host used to run the embedding: fixed-point stand-ins for the narrowing
conversions, a small-angle stand-in for the trigonometry and a scale-and-translate
stand-in for the matrix composition. -/
def Host.sample : Host where
  toFloat := roundToBits 24
  toHalf := roundToBits 11
  toInt := truncToInt
  asQuaternion := fun e => ⟨e.x / 2, e.y / 2, e.z / 2, 1⟩
  asEulerRotation := fun q => ⟨2 * q.x, 2 * q.y, 2 * q.z, .kXYZ⟩
  asMatrix := fun b =>
    ![![b.scaleValue.x, 0, 0, 0], ![0, b.scaleValue.y, 0, 0], ![0, 0, b.scaleValue.z, 0],
      ![b.translationValue.x, b.translationValue.y, b.translationValue.z, 1]]

/-! ## The backing store (USD) -/

/-- The enumerators of `AL::usdmaya::utils::UsdDataType` that the source switches on;
`kUnknown` stands for every other one. -/
inductive UsdDataType where
  | kVec3d
  | kVec3f
  | kVec3h
  | kVec3i
  | kMatrix4d
  | kHalf
  | kFloat
  | kDouble
  | kInt
  | kUnknown
deriving DecidableEq, Repr

/-- USD `UsdGeomXformOp::Type`. -/
inductive XformOpType where
  | TypeInvalid
  | TypeTranslate
  | TypeScale
  | TypeRotateX
  | TypeRotateY
  | TypeRotateZ
  | TypeRotateXYZ
  | TypeRotateXZY
  | TypeRotateYXZ
  | TypeRotateYZX
  | TypeRotateZXY
  | TypeRotateZYX
  | TypeOrient
  | TypeTransform
deriving DecidableEq, Repr

/-- USD `UsdGeomXformOp::Precision`. -/
inductive Precision where
  | PrecisionDouble
  | PrecisionFloat
  | PrecisionHalf
deriving DecidableEq, Repr

/-- The operator-name tokens `UsdMayaXformStackTokens` used by the source. -/
inductive TfToken where
  | translate
  | rotatePivotTranslate
  | rotatePivot
  | rotate
  | rotateAxis
  | scalePivotTranslate
  | scalePivot
  | shear
  | scale
  | pivot
  | transform
deriving DecidableEq, Repr

/-- USD `UsdTimeCode`: the default time or a numeric time. -/
inductive UsdTimeCode where
  | Default
  | time (t : ℚ)
deriving DecidableEq, Repr

/-- USD `UsdTimeCode::IsDefault`. -/
def UsdTimeCode.IsDefault : UsdTimeCode → Bool
  | .Default => true
  | .time _ => false

/-- A `GfVec3d` / `GfVec3f` / `GfVec3h` / `GfVec3i`; the components are held as the rationals
the narrowing produced. -/
structure GfVec3 where
  v0 : ℚ
  v1 : ℚ
  v2 : ℚ
deriving DecidableEq, Repr

/-- A value held by an attribute (`VtValue`). -/
inductive VtValue where
  | vec3 (v : GfVec3)
  | matrix (m : GfMatrix4d)
  | scalar (x : ℚ)
deriving DecidableEq

/-- One `SdfPropertySpec` of an attribute: the opinion of one layer. -/
structure SdfPropertySpec where
  defaultValue : Option VtValue
  timeSamples : List (ℚ × VtValue)
deriving DecidableEq

/-- An attribute of the prim: its value type and its property stack, strongest opinion
first. Edits are authored in the head of the stack. -/
structure UsdAttribute where
  typeName : UsdDataType
  propertyStack : List SdfPropertySpec
deriving DecidableEq

/-- A `UsdGeomXformOp` handle: the attribute `xformOp:<opType>:<name>` it stands for, plus the
inversion marker. -/
structure UsdGeomXformOp where
  opType : XformOpType
  name : TfToken
  isInverseOp : Bool
deriving DecidableEq, Repr

/-- A mutating call issued against the backing prim. -/
inductive StoreEvent where
  | set (op : UsdGeomXformOp) (value : VtValue) (time : UsdTimeCode)
  | addXformOp (op : UsdGeomXformOp)
  | setXformOpOrder (order : List UsdGeomXformOp) (resetXformStack : Bool)
deriving DecidableEq

/-- The part of the stage the engine talks to: the transform attributes of the bound prim,
its `xformOpOrder`, and the journal of mutating calls. -/
structure UsdStage where
  attrs : List ((XformOpType × TfToken) × UsdAttribute)
  xformOpOrder : List UsdGeomXformOp
  resetXformStack : Bool
  journal : List StoreEvent
deriving DecidableEq

/-- USD `UsdGeomXformOp::GetAttr`: the attribute behind the operator, if the prim has it. -/
def UsdGeomXformOp.GetAttr (stage : UsdStage) (op : UsdGeomXformOp) : Option UsdAttribute :=
  stage.attrs.lookup (op.opType, op.name)

/-- USD `UsdGeomXformOp::GetTypeName` followed by `AL::usdmaya::utils::getAttributeType`. -/
def UsdGeomXformOp.GetTypeName (stage : UsdStage) (op : UsdGeomXformOp) : UsdDataType :=
  match op.GetAttr stage with
  | some a => a.typeName
  | none => .kUnknown

/-- The opinion that wins value resolution over all times: the strongest spec that has time
samples or a default value. -/
def UsdAttribute.resolved (a : UsdAttribute) : Option SdfPropertySpec :=
  a.propertyStack.find? (fun s => !s.timeSamples.isEmpty || s.defaultValue.isSome)

/-- USD `UsdAttribute::GetNumTimeSamples`. -/
def UsdAttribute.GetNumTimeSamples (a : UsdAttribute) : ℕ :=
  match a.resolved with
  | some s => s.timeSamples.length
  | none => 0

/-- USD `UsdGeomXformOp::GetNumTimeSamples`. -/
def UsdGeomXformOp.GetNumTimeSamples (stage : UsdStage) (op : UsdGeomXformOp) : ℕ :=
  match op.GetAttr stage with
  | some a => a.GetNumTimeSamples
  | none => 0

/-- The value of a list of time samples at `t`: the sample at `t` if there is one, otherwise
the one held from the closest earlier time (the first one when `t` precedes them all). -/
def sampleAt (samples : List (ℚ × VtValue)) (t : ℚ) : Option VtValue :=
  match samples.lookup t with
  | some v => some v
  | none =>
    match (samples.filter (fun s => decide (s.1 < t))).getLast? with
    | some s => some s.2
    | none => samples.head?.map (fun s => s.2)

/-- Authoring a time sample: the sample at `t` is replaced or added, in time order. -/
def setSample (samples : List (ℚ × VtValue)) (t : ℚ) (v : VtValue) : List (ℚ × VtValue) :=
  samples.filter (fun s => decide (s.1 < t)) ++ (t, v) :: samples.filter (fun s => decide (t < s.1))

/-- USD `UsdAttribute::Get(value, time)`: value resolution at a time code; `none` when the
attribute has no value there. -/
def UsdAttribute.Get (a : UsdAttribute) : UsdTimeCode → Option VtValue
  | .Default => a.propertyStack.findSome? (fun s => s.defaultValue)
  | .time t =>
    match a.resolved with
    | some s => if s.timeSamples.isEmpty then s.defaultValue else sampleAt s.timeSamples t
    | none => none

/-- USD `UsdAttribute::Set(value, time)` on the attribute itself: the opinion is authored in
the strongest spec, which is created when the stack is empty. -/
def UsdAttribute.author (a : UsdAttribute) (value : VtValue) : UsdTimeCode → UsdAttribute
  | .Default =>
    match a.propertyStack with
    | [] => { a with propertyStack := [⟨some value, []⟩] }
    | s :: rest => { a with propertyStack := { s with defaultValue := some value } :: rest }
  | .time t =>
    match a.propertyStack with
    | [] => { a with propertyStack := [⟨none, [(t, value)]⟩] }
    | s :: rest =>
      { a with propertyStack := { s with timeSamples := setSample s.timeSamples t value } :: rest }

/-- USD `UsdGeomXformOp::Get(value, time)`; `none` stands for a `false` return, after which the
C++ output variable keeps its indeterminate initial content. -/
def UsdGeomXformOp.Get (stage : UsdStage) (op : UsdGeomXformOp) (time : UsdTimeCode) :
    Option VtValue :=
  match op.GetAttr stage with
  | some a => a.Get time
  | none => none

/-- Replacing the attribute stored under a key. -/
def UsdStage.putAttr (stage : UsdStage) (key : XformOpType × TfToken) (a : UsdAttribute) :
    List ((XformOpType × TfToken) × UsdAttribute) :=
  stage.attrs.map (fun kv => if kv.1 = key then (kv.1, a) else kv)

/-- USD `UsdGeomXformOp::Set(value, time)`: refused on an inverse operator and on a missing
attribute, otherwise authored. Every call is entered in the journal. -/
def UsdGeomXformOp.Set (stage : UsdStage) (op : UsdGeomXformOp) (value : VtValue)
    (time : UsdTimeCode) : Bool × UsdStage :=
  let logged := { stage with journal := stage.journal ++ [StoreEvent.set op value time] }
  if op.isInverseOp then (false, logged)
  else
    match op.GetAttr stage with
    | none => (false, logged)
    | some a =>
      (true, { logged with attrs := stage.putAttr (op.opType, op.name) (a.author value time) })

/-- USD `UsdGeomXformOp::GetValueTypeName`, composed with `getAttributeType`: the value type
of the attribute created for an operator type and precision. -/
def GetValueTypeName : XformOpType → Precision → Option UsdDataType
  | .TypeInvalid, _ => none
  | .TypeTransform, _ => some .kMatrix4d
  | .TypeOrient, _ => some .kUnknown
  | .TypeRotateX, .PrecisionDouble => some .kDouble
  | .TypeRotateX, .PrecisionFloat => some .kFloat
  | .TypeRotateX, .PrecisionHalf => some .kHalf
  | .TypeRotateY, .PrecisionDouble => some .kDouble
  | .TypeRotateY, .PrecisionFloat => some .kFloat
  | .TypeRotateY, .PrecisionHalf => some .kHalf
  | .TypeRotateZ, .PrecisionDouble => some .kDouble
  | .TypeRotateZ, .PrecisionFloat => some .kFloat
  | .TypeRotateZ, .PrecisionHalf => some .kHalf
  | _, .PrecisionDouble => some .kVec3d
  | _, .PrecisionFloat => some .kVec3f
  | _, .PrecisionHalf => some .kVec3h

/-- USD `UsdGeomXformable::AddXformOp`: fails when the prim is invalid (`valid = false`), when
the operator is already listed in `xformOpOrder`, or when the type is invalid; otherwise the
attribute is reused or created (with one empty spec) and the operator is appended to
`xformOpOrder`. -/
def AddXformOp (valid : Bool) (stage : UsdStage) (opType : XformOpType) (precision : Precision)
    (opName : TfToken) (isInverseOp : Bool) : Option UsdGeomXformOp × UsdStage :=
  let op : UsdGeomXformOp := ⟨opType, opName, isInverseOp⟩
  if !valid || stage.xformOpOrder.contains op then (none, stage)
  else
    match stage.attrs.lookup (opType, opName), GetValueTypeName opType precision with
    | some _, _ =>
      (some op, { stage with xformOpOrder := stage.xformOpOrder ++ [op],
                             journal := stage.journal ++ [StoreEvent.addXformOp op] })
    | none, some ty =>
      (some op, { stage with attrs := stage.attrs ++ [((opType, opName), ⟨ty, [⟨none, []⟩]⟩)],
                             xformOpOrder := stage.xformOpOrder ++ [op],
                             journal := stage.journal ++ [StoreEvent.addXformOp op] })
    | none, none => (none, stage)

/-- USD `UsdGeomXformable::SetXformOpOrder`. -/
def SetXformOpOrder (stage : UsdStage) (ops : List UsdGeomXformOp) (resetXformStack : Bool) :
    UsdStage :=
  { stage with xformOpOrder := ops, resetXformStack := resetXformStack,
               journal := stage.journal ++ [StoreEvent.setXformOpOrder ops resetXformStack] }

/-- The number of `Set` calls recorded in a journal. -/
def countSets (journal : List StoreEvent) : ℕ :=
  (journal.filter (fun e => match e with | .set _ _ _ => true | _ => false)).length

/-- The number of `AddXformOp` calls that created an operator, as recorded in a journal. -/
def countAdds (journal : List StoreEvent) : ℕ :=
  (journal.filter (fun e => match e with | .addXformOp _ => true | _ => false)).length

/-! ## The attribute codec -/

/-- Source: `hasEmptyDefaultValue` (anonymous namespace). -/
def hasEmptyDefaultValue (stage : UsdStage) (op : UsdGeomXformOp) (_time : UsdTimeCode) : Bool :=
  match op.GetAttr stage with
  | none => false
  | some a => a.propertyStack.any (fun propSpec => propSpec.defaultValue.isNone)

/-- The prologue shared by the write codecs:
`if(timeCode.IsDefault() && op.GetNumTimeSamples()) { if(!hasEmptyDefaultValue(op, timeCode)) return false; }`;
`true` when the write is rejected. -/
def timeSampleGate (stage : UsdStage) (op : UsdGeomXformOp) (timeCode : UsdTimeCode) : Bool :=
  timeCode.IsDefault && decide (op.GetNumTimeSamples stage ≠ 0) &&
    !hasEmptyDefaultValue stage op timeCode

/-- `GfVec3d value(result.x, result.y, result.z)`, and the narrowing variants. -/
def toGfVec3 (conv : ℚ → ℚ) (result : MVector) : GfVec3 :=
  ⟨conv result.x, conv result.y, conv result.z⟩

/-- `op.GetAs<GfVec3*>(&value, timeCode)`. -/
def GetAsVec3 (stage : UsdStage) (op : UsdGeomXformOp) (timeCode : UsdTimeCode) : Option GfVec3 :=
  match op.Get stage timeCode with
  | some (.vec3 v) => some v
  | _ => none

/-- `op.GetAs<GfMatrix4d>(&value, timeCode)`. -/
def GetAsMatrix (stage : UsdStage) (op : UsdGeomXformOp) (timeCode : UsdTimeCode) :
    Option GfMatrix4d :=
  match op.Get stage timeCode with
  | some (.matrix m) => some m
  | _ => none

/-- `op.Get<T>(&value, timeCode)` for a scalar `T`. -/
def GetScalar (stage : UsdStage) (op : UsdGeomXformOp) (timeCode : UsdTimeCode) : Option ℚ :=
  match op.Get stage timeCode with
  | some (.scalar x) => some x
  | _ => none

/-- The guarded write `op.Get(&oldValue, timeCode); if(value != oldValue) op.Set(value, timeCode);`.
A failed `Get` leaves `oldValue` indeterminate; it is taken to differ from `value`. -/
def setIfChanged (stage : UsdStage) (op : UsdGeomXformOp) (value : VtValue)
    (getTime setTime : UsdTimeCode) : Bool × UsdStage :=
  if op.Get stage getTime ≠ some value then op.Set stage value setTime else (true, stage)

/-- Source: `TransformationMatrix::readVector`. -/
def readVector (stage : UsdStage) (result : MVector) (op : UsdGeomXformOp)
    (timeCode : UsdTimeCode) : Bool × MVector :=
  match op.GetTypeName stage with
  | .kVec3d | .kVec3f | .kVec3h | .kVec3i =>
    match GetAsVec3 stage op timeCode with
    | none => (false, result)
    | some value => (true, ⟨value.v0, value.v1, value.v2⟩)
  | _ => (false, result)

/-- Source: `TransformationMatrix::pushVector`. -/
def pushVector (H : Host) (stage : UsdStage) (result : MVector) (op : UsdGeomXformOp)
    (timeCode : UsdTimeCode) : Bool × UsdStage :=
  match op.GetAttr stage with
  | none => (false, stage)
  | some _ =>
    if timeSampleGate stage op timeCode then (false, stage)
    else
      match op.GetTypeName stage with
      | .kVec3d => (true, (setIfChanged stage op (.vec3 (toGfVec3 id result)) timeCode timeCode).2)
      | .kVec3f =>
        (true, (setIfChanged stage op (.vec3 (toGfVec3 H.toFloat result)) timeCode timeCode).2)
      | .kVec3h =>
        (true, (setIfChanged stage op (.vec3 (toGfVec3 H.toHalf result)) timeCode timeCode).2)
      | .kVec3i =>
        (true, (setIfChanged stage op (.vec3 (toGfVec3 H.toInt result)) timeCode timeCode).2)
      | _ => (false, stage)

/-- The matrix `pushShear` builds from a shear vector. -/
def shearMatrix (result : MVector) : GfMatrix4d :=
  ![![1, 0, 0, 0], ![result.x, 1, 0, 0], ![result.y, result.z, 1, 0], ![0, 0, 0, 1]]

/-- Source: `TransformationMatrix::pushShear`. -/
def pushShear (stage : UsdStage) (result : MVector) (op : UsdGeomXformOp)
    (timeCode : UsdTimeCode) : Bool × UsdStage :=
  if timeSampleGate stage op timeCode then (false, stage)
  else
    match op.GetTypeName stage with
    | .kMatrix4d =>
      (false, (setIfChanged stage op (.matrix (shearMatrix result)) timeCode timeCode).2)
    | _ => (false, stage)

/-- Source: `TransformationMatrix::readShear`. -/
def readShear (stage : UsdStage) (result : MVector) (op : UsdGeomXformOp)
    (timeCode : UsdTimeCode) : Bool × MVector :=
  match op.GetTypeName stage with
  | .kMatrix4d =>
    match GetAsMatrix stage op timeCode with
    | none => (false, result)
    | some value => (true, ⟨value 1 0, value 2 0, value 2 1⟩)
  | _ => (false, result)

/-- Source: `TransformationMatrix::readPoint`. -/
def readPoint (stage : UsdStage) (result : MPoint) (op : UsdGeomXformOp)
    (timeCode : UsdTimeCode) : Bool × MPoint :=
  match op.GetTypeName stage with
  | .kVec3d | .kVec3f | .kVec3h | .kVec3i =>
    match GetAsVec3 stage op timeCode with
    | none => (false, result)
    | some value => (true, ⟨value.v0, value.v1, value.v2⟩)
  | _ => (false, result)

/-- Source: `TransformationMatrix::readMatrix`. -/
def readMatrix (stage : UsdStage) (result : MMatrix) (op : UsdGeomXformOp)
    (timeCode : UsdTimeCode) : Bool × MMatrix :=
  match op.GetTypeName stage with
  | .kMatrix4d =>
    match GetAsMatrix stage op timeCode with
    | none => (false, result)
    | some value => (true, value)
  | _ => (false, result)

/-- Source: `TransformationMatrix::pushMatrix`. -/
def pushMatrix (stage : UsdStage) (result : MMatrix) (op : UsdGeomXformOp)
    (timeCode : UsdTimeCode) : Bool × UsdStage :=
  if timeSampleGate stage op timeCode then (false, stage)
  else
    match op.GetTypeName stage with
    | .kMatrix4d =>
      if op.Get stage timeCode ≠ some (.matrix result) then
        let r := op.Set stage (.matrix result) timeCode
        if !r.1 then (false, r.2) else (true, r.2)
      else (true, stage)
    | _ => (false, stage)

/-- Source: `TransformationMatrix::pushPoint`. -/
def pushPoint (H : Host) (stage : UsdStage) (result : MPoint) (op : UsdGeomXformOp)
    (timeCode : UsdTimeCode) : Bool × UsdStage :=
  if timeSampleGate stage op timeCode then (false, stage)
  else
    match op.GetTypeName stage with
    | .kVec3d => (true, (setIfChanged stage op (.vec3 (toGfVec3 id result)) timeCode timeCode).2)
    | .kVec3f =>
      (true, (setIfChanged stage op (.vec3 (toGfVec3 H.toFloat result)) timeCode timeCode).2)
    | .kVec3h =>
      (true, (setIfChanged stage op (.vec3 (toGfVec3 H.toHalf result)) timeCode timeCode).2)
    | .kVec3i =>
      (true, (setIfChanged stage op (.vec3 (toGfVec3 H.toInt result)) timeCode timeCode).2)
    | _ => (false, stage)

/-- Source: `TransformationMatrix::readDouble`. -/
def readDouble (stage : UsdStage) (op : UsdGeomXformOp) (timeCode : UsdTimeCode) : ℚ :=
  match op.GetTypeName stage with
  | .kHalf | .kFloat | .kDouble | .kInt =>
    match GetScalar stage op timeCode with
    | some value => value
    | none => 0
  | _ => 0

/-- Source: `TransformationMatrix::pushDouble`. The old value is read with `op.Get(&oldValue)`,
that is at the default time, and the new one is written at `timeCode`. -/
def pushDouble (H : Host) (stage : UsdStage) (value : ℚ) (op : UsdGeomXformOp)
    (timeCode : UsdTimeCode) : UsdStage :=
  if timeSampleGate stage op timeCode then stage
  else
    match op.GetTypeName stage with
    | .kHalf => (setIfChanged stage op (.scalar (H.toHalf value)) .Default timeCode).2
    | .kFloat => (setIfChanged stage op (.scalar (H.toFloat value)) .Default timeCode).2
    | .kDouble => (setIfChanged stage op (.scalar value) .Default timeCode).2
    | .kInt => (setIfChanged stage op (.scalar (H.toInt value)) .Default timeCode).2
    | _ => stage

/-- Source: `TransformationMatrix::readRotation`. -/
def readRotation (stage : UsdStage) (result : MEulerRotation) (op : UsdGeomXformOp)
    (timeCode : UsdTimeCode) : Bool × MEulerRotation :=
  let three (order : RotationOrder) : Bool × MEulerRotation :=
    match readVector stage MVector.zero op timeCode with
    | (true, v) => (true, ⟨v.x * degToRad, v.y * degToRad, v.z * degToRad, order⟩)
    | (false, _) => (false, result)
  match op.opType with
  | .TypeRotateX => (true, ⟨readDouble stage op timeCode * degToRad, 0, 0, .kXYZ⟩)
  | .TypeRotateY => (true, ⟨0, readDouble stage op timeCode * degToRad, 0, .kXYZ⟩)
  | .TypeRotateZ => (true, ⟨0, 0, readDouble stage op timeCode * degToRad, .kXYZ⟩)
  | .TypeRotateXYZ => three .kXYZ
  | .TypeRotateXZY => three .kXZY
  | .TypeRotateYXZ => three .kYXZ
  | .TypeRotateYZX => three .kYZX
  | .TypeRotateZXY => three .kZXY
  | .TypeRotateZYX => three .kZYX
  | _ => (false, result)

/-- Source: `TransformationMatrix::pushRotation`. -/
def pushRotation (H : Host) (stage : UsdStage) (value : MEulerRotation) (op : UsdGeomXformOp)
    (timeCode : UsdTimeCode) : Bool × UsdStage :=
  if timeSampleGate stage op timeCode then (false, stage)
  else
    match op.opType with
    | .TypeRotateX => (true, pushDouble H stage (value.x * radToDeg) op timeCode)
    | .TypeRotateY => (true, pushDouble H stage (value.y * radToDeg) op timeCode)
    | .TypeRotateZ => (true, pushDouble H stage (value.z * radToDeg) op timeCode)
    | .TypeRotateXYZ | .TypeRotateXZY | .TypeRotateYXZ | .TypeRotateYZX | .TypeRotateZYX
    | .TypeRotateZXY =>
      pushVector H stage (MVector.scale ⟨value.x, value.y, value.z⟩ radToDeg) op timeCode
    | _ => (false, stage)

/-! ## Operator classification catalog -/

/-- USD-Maya `UsdMayaXformOpClassification`: name, operator type, inversion marker. -/
structure UsdMayaXformOpClassification where
  name : TfToken
  opType : XformOpType
  isInvertedTwin : Bool
deriving DecidableEq, Repr

/-- USD-Maya `UsdMayaXformStack`: the ordered template and its inversion-twin index pairs. -/
structure UsdMayaXformStack where
  ops : List UsdMayaXformOpClassification
  inversionTwins : List (ℕ × ℕ)
deriving DecidableEq, Repr

/-- The constant `UsdMayaXformStack::NO_INDEX`, the largest `size_t`. -/
def NO_INDEX : ℕ := 2 ^ 64 - 1

/-- Modelled from the spec: `UsdMayaXformStack::MayaStack()` is defined in the xform-stack
utility of the repository, outside the sources at hand. This is the host-canonical template:
the single-pivot template of `MayaSinglePivotStack` with the combined pivot split into the
rotate pivot and the scale pivot, each paired with its inverted twin. -/
def MayaStack : UsdMayaXformStack where
  ops :=
    [⟨.translate, .TypeTranslate, false⟩,
     ⟨.rotatePivotTranslate, .TypeTranslate, false⟩,
     ⟨.rotatePivot, .TypeTranslate, false⟩,
     ⟨.rotate, .TypeRotateXYZ, false⟩,
     ⟨.rotateAxis, .TypeRotateXYZ, false⟩,
     ⟨.rotatePivot, .TypeTranslate, true⟩,
     ⟨.scalePivotTranslate, .TypeTranslate, false⟩,
     ⟨.scalePivot, .TypeTranslate, false⟩,
     ⟨.shear, .TypeTransform, false⟩,
     ⟨.scale, .TypeScale, false⟩,
     ⟨.scalePivot, .TypeTranslate, true⟩]
  inversionTwins := [(2, 5), (7, 10)]

/-- Source: `TransformationMatrix::MayaSinglePivotStack`. -/
def MayaSinglePivotStack : UsdMayaXformStack where
  ops :=
    [⟨.translate, .TypeTranslate, false⟩,
     ⟨.rotatePivotTranslate, .TypeTranslate, false⟩,
     ⟨.pivot, .TypeTranslate, false⟩,
     ⟨.rotate, .TypeRotateXYZ, false⟩,
     ⟨.rotateAxis, .TypeRotateXYZ, false⟩,
     ⟨.scalePivotTranslate, .TypeTranslate, false⟩,
     ⟨.shear, .TypeTransform, false⟩,
     ⟨.scale, .TypeScale, false⟩,
     ⟨.pivot, .TypeTranslate, true⟩]
  inversionTwins := [(2, 8)]

/-- Modelled from the spec: `UsdMayaXformStack::FindOpIndexPair` belongs to the xform-stack
utility outside the sources at hand. `FindOpIndexPair(name) -> (primaryIndex, twinIndexOrNone)`:
the position of the named operator in the template, with the position of its inverted twin
or `NO_INDEX`; both are `NO_INDEX` for a name the template does not have. -/
def UsdMayaXformStack.FindOpIndexPair (stack : UsdMayaXformStack) (opName : TfToken) : ℕ × ℕ :=
  match stack.ops.findIdx? (fun c => decide (c.name = opName)) with
  | none => (NO_INDEX, NO_INDEX)
  | some i =>
    match stack.inversionTwins.find? (fun p => decide (p.1 = i)) with
    | some p => (p.1, p.2)
    | none => (i, NO_INDEX)

/-- Modelled from the spec: `UsdMayaXformStack::FindOpIndex` belongs to the xform-stack utility
outside the sources at hand. `FindOpIndex(name, isInvertedTwin) -> position`: the twin member
of the pair for an inverted twin, the primary member otherwise. -/
def UsdMayaXformStack.FindOpIndex (stack : UsdMayaXformStack) (opName : TfToken)
    (isInvertedTwin : Bool) : ℕ :=
  if isInvertedTwin then (stack.FindOpIndexPair opName).2 else (stack.FindOpIndexPair opName).1

/-! ## Flags -/

/-- Modelled from the spec: the enumeration `TransformationMatrix::Flags` is declared in the
class header, outside the sources at hand. The state keeps "a bitfield of flags: which
components are structurally present in the backing stack, which are time-varying, whether
write-back is currently enabled, whether the prim's stack resets inheritance, whether it
matches a known schema, whether it represents push-whole-matrix mode"; every enumerator
below is one bit of the 32-bit word `m_flags`, the masks are unions of them. -/
abbrev Flags := ℕ

/-- The flag `kAnimatedScale`. -/
def kAnimatedScale : Flags := 2 ^ 0
/-- The flag `kAnimatedRotation`. -/
def kAnimatedRotation : Flags := 2 ^ 1
/-- The flag `kAnimatedTranslation`. -/
def kAnimatedTranslation : Flags := 2 ^ 2
/-- The flag `kAnimatedMatrix`. -/
def kAnimatedMatrix : Flags := 2 ^ 3
/-- The flag `kAnimatedShear`. -/
def kAnimatedShear : Flags := 2 ^ 4
/-- The flag `kFromMatrix`. -/
def kFromMatrix : Flags := 2 ^ 8
/-- The flag `kFromMayaSchema`. -/
def kFromMayaSchema : Flags := 2 ^ 9
/-- The flag `kSinglePivotSchema`. -/
def kSinglePivotSchema : Flags := 2 ^ 10
/-- The flag `kPrimHasScale`. -/
def kPrimHasScale : Flags := 2 ^ 16
/-- The flag `kPrimHasRotation`. -/
def kPrimHasRotation : Flags := 2 ^ 17
/-- The flag `kPrimHasTranslation`. -/
def kPrimHasTranslation : Flags := 2 ^ 18
/-- The flag `kPrimHasShear`. -/
def kPrimHasShear : Flags := 2 ^ 19
/-- The flag `kPrimHasScalePivot`. -/
def kPrimHasScalePivot : Flags := 2 ^ 20
/-- The flag `kPrimHasScalePivotTranslate`. -/
def kPrimHasScalePivotTranslate : Flags := 2 ^ 21
/-- The flag `kPrimHasRotatePivot`. -/
def kPrimHasRotatePivot : Flags := 2 ^ 22
/-- The flag `kPrimHasRotatePivotTranslate`. -/
def kPrimHasRotatePivotTranslate : Flags := 2 ^ 23
/-- The flag `kPrimHasRotateAxes`. -/
def kPrimHasRotateAxes : Flags := 2 ^ 24
/-- The flag `kPrimHasPivot`. -/
def kPrimHasPivot : Flags := 2 ^ 25
/-- The flag `kPrimHasTransform`. -/
def kPrimHasTransform : Flags := 2 ^ 26
/-- The flag `kPushToPrimEnabled`. -/
def kPushToPrimEnabled : Flags := 2 ^ 28
/-- The flag `kInheritsTransform`. -/
def kInheritsTransform : Flags := 2 ^ 29
/-- The flag `kPushPrimToMatrix`. -/
def kPushPrimToMatrix : Flags := 2 ^ 30
/-- The flag `kReadAnimatedValues`. -/
def kReadAnimatedValues : Flags := 2 ^ 31
/-- The mask `kAnyKnownSchema`. -/
def kAnyKnownSchema : Flags := kFromMayaSchema ||| kSinglePivotSchema ||| kFromMatrix
/-- The mask `kAnimationMask`. -/
def kAnimationMask : Flags :=
  kAnimatedShear ||| kAnimatedScale ||| kAnimatedRotation ||| kAnimatedTranslation |||
    kAnimatedMatrix
/-- The mask `kPreservationMask`. -/
def kPreservationMask : Flags := kPushToPrimEnabled ||| kReadAnimatedValues

/-- All 32 bits of the flag word. -/
def allFlagBits : Flags := 2 ^ 32 - 1

/-- The test `(m_flags & flag) != 0`. -/
def hasFlag (m_flags flag : Flags) : Bool := decide (m_flags &&& flag ≠ 0)

/-- The update `m_flags |= flag`. -/
def setFlag (m_flags flag : Flags) : Flags := m_flags ||| flag

/-- The update `m_flags &= ~flag` on a 32-bit word. -/
def clearFlag (m_flags flag : Flags) : Flags := m_flags &&& (allFlagBits ^^^ flag)

/-! ## The reconciliation engine state -/

/-- The data members of `TransformationMatrix` (with those of its bases
`BasicTransformationMatrix` and `MPxTransformationMatrix`), the lock state of the transform
node's plugs that `isTranslateLocked()` and its siblings query, and the backing prim. -/
structure TransformationMatrix extends MPxTransformationMatrix where
  translateLocked : Bool
  scaleLocked : Bool
  shearLocked : Bool
  rotateLocked : Bool
  primValid : Bool
  stage : UsdStage
  m_time : UsdTimeCode
  m_xformops : List UsdGeomXformOp
  m_orderedOps : List UsdMayaXformOpClassification
  m_orderedOpMayaIndices : List ℕ
  m_scaleTweak : MVector
  m_rotationTweak : MEulerRotation
  m_translationTweak : MVector
  m_shearTweak : MVector
  m_scalePivotTweak : MPoint
  m_scalePivotTranslationTweak : MVector
  m_rotatePivotTweak : MPoint
  m_rotatePivotTranslationTweak : MVector
  m_rotateOrientationTweak : MQuaternion
  m_scaleFromUsd : MVector
  m_rotationFromUsd : MEulerRotation
  m_translationFromUsd : MVector
  m_shearFromUsd : MVector
  m_scalePivotFromUsd : MPoint
  m_scalePivotTranslationFromUsd : MVector
  m_rotatePivotFromUsd : MPoint
  m_rotatePivotTranslationFromUsd : MVector
  m_rotateOrientationFromUsd : MQuaternion
  m_localTranslateOffset : MVector
  m_flags : Flags
  m_enableUsdWriteback : Bool
deriving DecidableEq

namespace TransformationMatrix

/-- Modelled from the spec: the inline accessors of the class header (outside the sources at
hand) test one presence bit of `m_flags` each: "which components are structurally present in
the backing stack". -/
def primHasTranslation (s : TransformationMatrix) : Bool := hasFlag s.m_flags kPrimHasTranslation
/-- Header accessor `primHasScale`, see `primHasTranslation`. -/
def primHasScale (s : TransformationMatrix) : Bool := hasFlag s.m_flags kPrimHasScale
/-- Header accessor `primHasShear`, see `primHasTranslation`. -/
def primHasShear (s : TransformationMatrix) : Bool := hasFlag s.m_flags kPrimHasShear
/-- Header accessor `primHasRotation`, see `primHasTranslation`. -/
def primHasRotation (s : TransformationMatrix) : Bool := hasFlag s.m_flags kPrimHasRotation
/-- Header accessor `primHasScalePivot`, see `primHasTranslation`. -/
def primHasScalePivot (s : TransformationMatrix) : Bool := hasFlag s.m_flags kPrimHasScalePivot
/-- Header accessor `primHasScalePivotTranslate`, see `primHasTranslation`. -/
def primHasScalePivotTranslate (s : TransformationMatrix) : Bool :=
  hasFlag s.m_flags kPrimHasScalePivotTranslate
/-- Header accessor `primHasRotatePivot`, see `primHasTranslation`. -/
def primHasRotatePivot (s : TransformationMatrix) : Bool := hasFlag s.m_flags kPrimHasRotatePivot
/-- Header accessor `primHasRotatePivotTranslate`, see `primHasTranslation`. -/
def primHasRotatePivotTranslate (s : TransformationMatrix) : Bool :=
  hasFlag s.m_flags kPrimHasRotatePivotTranslate
/-- Header accessor `primHasRotateAxes`, see `primHasTranslation`. -/
def primHasRotateAxes (s : TransformationMatrix) : Bool := hasFlag s.m_flags kPrimHasRotateAxes
/-- Header accessor `primHasPivot`, see `primHasTranslation`. -/
def primHasPivot (s : TransformationMatrix) : Bool := hasFlag s.m_flags kPrimHasPivot
/-- Header accessor `primHasTransform`, see `primHasTranslation`. -/
def primHasTransform (s : TransformationMatrix) : Bool := hasFlag s.m_flags kPrimHasTransform
/-- Header accessor `pushPrimToMatrix`: the push-whole-matrix mode bit. -/
def pushPrimToMatrix (s : TransformationMatrix) : Bool := hasFlag s.m_flags kPushPrimToMatrix
/-- Header accessor `pushToPrimEnabled`: the write-back bit. -/
def pushToPrimEnabled (s : TransformationMatrix) : Bool := hasFlag s.m_flags kPushToPrimEnabled
/-- Header accessor `readAnimatedValues`. -/
def readAnimatedValues (s : TransformationMatrix) : Bool := hasFlag s.m_flags kReadAnimatedValues

/-- Modelled from the spec: `pushToPrimAvailable()` is an inline accessor of the class header,
outside the sources at hand: write-back is available when it "is currently enabled" and the
object is bound to a valid prim. -/
def pushToPrimAvailable (s : TransformationMatrix) : Bool := s.pushToPrimEnabled && s.primValid

/-- Modelled from the spec: `getTimeCode()` is an inline accessor of the class header, outside
the sources at hand: the cached time when animated values are read, the default time
otherwise. -/
def getTimeCode (s : TransformationMatrix) : UsdTimeCode :=
  if s.readAnimatedValues then s.m_time else .Default

/-- Source: `TransformationMatrix::buildOrderedOpMayaIndices`. -/
def buildOrderedOpMayaIndices (s : TransformationMatrix) : TransformationMatrix :=
  if s.m_orderedOpMayaIndices.isEmpty && !s.m_orderedOps.isEmpty then
    if hasFlag s.m_flags kFromMayaSchema then
      { s with m_orderedOpMayaIndices :=
          s.m_orderedOps.map (fun op => MayaStack.FindOpIndex op.name op.isInvertedTwin) }
    else if hasFlag s.m_flags kSinglePivotSchema then
      { s with m_orderedOpMayaIndices :=
          s.m_orderedOps.map (fun op =>
            let name :=
              if op.name = .pivot then
                (if op.isInvertedTwin then TfToken.scalePivot else TfToken.rotatePivot)
              else op.name
            MayaStack.FindOpIndex name op.isInvertedTwin) }
    else s
  else s

/-- The start value `m_orderedOps.size() - 1` of the loop counter of `removeOp`, in `size_t`
arithmetic: it wraps to the largest `size_t` for an empty vector. -/
def removeStart (size : ℕ) : ℕ := if size = 0 then NO_INDEX else size - 1

/-- The backward loop of `removeOp`, from counter value `i` with the current `foundOne`.
`none`: an element outside a vector was read or erased. -/
def removeOpLoop (opName : TfToken) :
    ℕ → Bool → List UsdMayaXformOpClassification → List UsdGeomXformOp → List ℕ →
      Option (Bool × List UsdMayaXformOpClassification × List UsdGeomXformOp × List ℕ)
  | i, foundOne, ops, xformops, indices =>
    match ops[i]? with
    | none => none
    | some c =>
      if opName = c.name then
        if i < xformops.length ∧ (indices.isEmpty ∨ i < indices.length) then
          let ops1 := ops.eraseIdx i
          let xformops1 := xformops.eraseIdx i
          let indices1 := if !indices.isEmpty then indices.eraseIdx i else indices
          if foundOne then some (true, ops1, xformops1, indices1)
          else
            match i with
            | 0 => some (true, ops1, xformops1, indices1)
            | j + 1 => removeOpLoop opName j true ops1 xformops1 indices1
        else none
      else
        match i with
        | 0 => some (foundOne, ops, xformops, indices)
        | j + 1 => removeOpLoop opName j foundOne ops xformops indices

/-- Source: `TransformationMatrix::removeOp`. -/
def removeOp (s : TransformationMatrix) (opName : TfToken) (oldFlag : Flags) :
    Option (MStatus × TransformationMatrix) :=
  let s1 := s.buildOrderedOpMayaIndices
  match removeOpLoop opName (removeStart s1.m_orderedOps.length) false s1.m_orderedOps
      s1.m_xformops s1.m_orderedOpMayaIndices with
  | none => none
  | some (foundOne, ops, xformops, indices) =>
    let s2 := { s1 with m_orderedOps := ops, m_xformops := xformops,
                        m_orderedOpMayaIndices := indices,
                        m_flags := clearFlag s1.m_flags oldFlag }
    if !foundOne then some (.kFailure, s2)
    else
      some (.kSuccess,
        { s2 with stage := SetXformOpOrder s2.stage s2.m_xformops
                    (!hasFlag s2.m_flags kInheritsTransform) })

/-- The lambda `findOpInsertPos` of `insertOp`: `std::lower_bound` over
`m_orderedOpMayaIndices`, the position of the first entry that is not less than `opIndex`. -/
def findOpInsertPos (s : TransformationMatrix) (opIndex : ℕ) : ℕ :=
  s.m_orderedOpMayaIndices.findIdx (fun x => decide (opIndex ≤ x))

/-- The lambda `addOp` of `insertOp`. The integer is the insert position, `-1` when
`AddXformOp` failed. `none`: `mayaStack[opIndex]` or an insert position is out of range. -/
def addOp (s : TransformationMatrix) (opType : XformOpType) (precision : Precision)
    (opName : TfToken) (opIndex : ℕ) (insertAtBeginning : Bool) :
    Option (ℤ × TransformationMatrix) :=
  match MayaStack.ops[opIndex]? with
  | none => none
  | some opClass =>
    match AddXformOp s.primValid s.stage opType precision opName opClass.isInvertedTwin with
    | (none, stage1) => some (-1, { s with stage := stage1 })
    | (some op, stage1) =>
      let insertIndex := if insertAtBeginning then 0 else s.findOpInsertPos opIndex
      if insertIndex ≤ s.m_orderedOps.length ∧ insertIndex ≤ s.m_xformops.length ∧
          insertIndex ≤ s.m_orderedOpMayaIndices.length then
        some ((insertIndex : ℤ),
          { s with stage := stage1,
                   m_orderedOps := s.m_orderedOps.insertIdx insertIndex opClass,
                   m_xformops := s.m_xformops.insertIdx insertIndex op,
                   m_orderedOpMayaIndices := s.m_orderedOpMayaIndices.insertIdx insertIndex opIndex })
      else none

/-- Source: `TransformationMatrix::insertOp`. -/
def insertOp (s : TransformationMatrix) (opType : XformOpType) (precision : Precision)
    (opName : TfToken) (newFlag : Flags) (insertAtBeginning : Bool) :
    Option (MStatus × TransformationMatrix) :=
  let s0 := s.buildOrderedOpMayaIndices
  let opPair := MayaStack.FindOpIndexPair opName
  let second : Option (ℤ × TransformationMatrix) :=
    if opPair.2 ≠ NO_INDEX then addOp s0 opType precision opName opPair.2 insertAtBeginning
    else some (-1, s0)
  match second with
  | none => none
  | some (secondPos, s1) =>
    if opPair.2 ≠ NO_INDEX ∧ secondPos = -1 then some (.kFailure, s1)
    else
      match addOp s1 opType precision opName opPair.1 insertAtBeginning with
      | none => none
      | some (firstPos, s2) =>
        if firstPos = -1 then
          if opPair.2 ≠ NO_INDEX ∧ secondPos ≠ -1 then
            some (.kFailure,
              { s2 with m_orderedOps := s2.m_orderedOps.eraseIdx secondPos.toNat,
                        m_xformops := s2.m_xformops.eraseIdx secondPos.toNat,
                        m_orderedOpMayaIndices :=
                          s2.m_orderedOpMayaIndices.eraseIdx secondPos.toNat })
          else some (.kFailure, s2)
        else
          some (.kSuccess,
            { s2 with stage := SetXformOpOrder s2.stage s2.m_xformops
                        (!hasFlag s2.m_flags kInheritsTransform),
                      m_flags := setFlag s2.m_flags newFlag })

/-- Source: `TransformationMatrix::insertTranslateOp`. -/
def insertTranslateOp (s : TransformationMatrix) : Option (MStatus × TransformationMatrix) :=
  s.insertOp .TypeTranslate .PrecisionFloat .translate kPrimHasTranslation true

/-- Source: `TransformationMatrix::insertScaleOp`. -/
def insertScaleOp (s : TransformationMatrix) : Option (MStatus × TransformationMatrix) :=
  s.insertOp .TypeScale .PrecisionFloat .scale kPrimHasScale false

/-- Source: `TransformationMatrix::insertShearOp`. -/
def insertShearOp (s : TransformationMatrix) : Option (MStatus × TransformationMatrix) :=
  s.insertOp .TypeTransform .PrecisionDouble .shear kPrimHasShear false

/-- Source: `TransformationMatrix::insertScalePivotOp`. -/
def insertScalePivotOp (s : TransformationMatrix) : Option (MStatus × TransformationMatrix) :=
  s.insertOp .TypeTranslate .PrecisionFloat .scalePivot kPrimHasScalePivot false

/-- Source: `TransformationMatrix::insertScalePivotTranslationOp`. -/
def insertScalePivotTranslationOp (s : TransformationMatrix) :
    Option (MStatus × TransformationMatrix) :=
  s.insertOp .TypeTranslate .PrecisionFloat .scalePivotTranslate kPrimHasScalePivotTranslate false

/-- Source: `TransformationMatrix::insertRotatePivotOp`. -/
def insertRotatePivotOp (s : TransformationMatrix) : Option (MStatus × TransformationMatrix) :=
  s.insertOp .TypeTranslate .PrecisionFloat .rotatePivot kPrimHasRotatePivot false

/-- Source: `TransformationMatrix::insertRotatePivotTranslationOp`. -/
def insertRotatePivotTranslationOp (s : TransformationMatrix) :
    Option (MStatus × TransformationMatrix) :=
  s.insertOp .TypeTranslate .PrecisionFloat .rotatePivotTranslate kPrimHasRotatePivotTranslate
    false

/-- The operator type `insertRotateOp` picks for the rotation order of the live rotation. -/
def rotateOpType : RotationOrder → XformOpType
  | .kXYZ => .TypeRotateXYZ
  | .kXZY => .TypeRotateXZY
  | .kYXZ => .TypeRotateYXZ
  | .kYZX => .TypeRotateYZX
  | .kZXY => .TypeRotateZXY
  | .kZYX => .TypeRotateZYX

/-- Source: `TransformationMatrix::insertRotateOp`. -/
def insertRotateOp (s : TransformationMatrix) : Option (MStatus × TransformationMatrix) :=
  s.insertOp (rotateOpType s.rotationValue.order) .PrecisionFloat .rotate kPrimHasRotation false

/-- Source: `TransformationMatrix::insertRotateAxesOp`. -/
def insertRotateAxesOp (s : TransformationMatrix) : Option (MStatus × TransformationMatrix) :=
  s.insertOp .TypeRotateXYZ .PrecisionFloat .rotateAxis kPrimHasRotateAxes false

/-! ### The base class

`MPxTransformationMatrix` belongs to the Maya SDK. Its setters are modelled as storing the
argument in the live field of their channel when they succeed and leaving the object untouched
when they fail; the status they answer with is an input of the model. Space conversion and
the pivot `balance` compensation are outside the model. -/

/-- Maya `MPxTransformationMatrix::translateTo`. -/
def baseTranslateTo (b : MPxTransformationMatrix) (status : MStatus) (vector : MVector)
    (_space : MSpace) : MStatus × MPxTransformationMatrix :=
  if status.toBool then (status, { b with translationValue := vector }) else (status, b)

/-- Maya `MPxTransformationMatrix::scaleTo`. -/
def baseScaleTo (b : MPxTransformationMatrix) (status : MStatus) (scale : MVector)
    (_space : MSpace) : MStatus × MPxTransformationMatrix :=
  if status.toBool then (status, { b with scaleValue := scale }) else (status, b)

/-- Maya `MPxTransformationMatrix::shearTo`. -/
def baseShearTo (b : MPxTransformationMatrix) (status : MStatus) (shear : MVector)
    (_space : MSpace) : MStatus × MPxTransformationMatrix :=
  if status.toBool then (status, { b with shearValue := shear }) else (status, b)

/-- Maya `MPxTransformationMatrix::setScalePivot`. -/
def baseSetScalePivot (b : MPxTransformationMatrix) (status : MStatus) (sp : MPoint)
    (_space : MSpace) (_balance : Bool) : MStatus × MPxTransformationMatrix :=
  if status.toBool then (status, { b with scalePivotValue := sp }) else (status, b)

/-- Maya `MPxTransformationMatrix::setScalePivotTranslation`. -/
def baseSetScalePivotTranslation (b : MPxTransformationMatrix) (status : MStatus) (sp : MVector)
    (_space : MSpace) : MStatus × MPxTransformationMatrix :=
  if status.toBool then (status, { b with scalePivotTranslationValue := sp }) else (status, b)

/-- Maya `MPxTransformationMatrix::setRotatePivot`. -/
def baseSetRotatePivot (b : MPxTransformationMatrix) (status : MStatus) (pivot : MPoint)
    (_space : MSpace) (_balance : Bool) : MStatus × MPxTransformationMatrix :=
  if status.toBool then (status, { b with rotatePivotValue := pivot }) else (status, b)

/-- Maya `MPxTransformationMatrix::setRotatePivotTranslation`. -/
def baseSetRotatePivotTranslation (b : MPxTransformationMatrix) (status : MStatus)
    (vector : MVector) (_space : MSpace) : MStatus × MPxTransformationMatrix :=
  if status.toBool then (status, { b with rotatePivotTranslationValue := vector }) else (status, b)

/-- Maya `MPxTransformationMatrix::rotateTo(const MEulerRotation&, ...)`. -/
def baseRotateTo (b : MPxTransformationMatrix) (status : MStatus) (e : MEulerRotation)
    (_space : MSpace) : MStatus × MPxTransformationMatrix :=
  if status.toBool then (status, { b with rotationValue := e }) else (status, b)

/-- Maya `MPxTransformationMatrix::setRotateOrientation(const MQuaternion&, ...)`. -/
def baseSetRotateOrientation (b : MPxTransformationMatrix) (status : MStatus) (q : MQuaternion)
    (_space : MSpace) (_balance : Bool) : MStatus × MPxTransformationMatrix :=
  if status.toBool then (status, { b with rotateOrientationValue := q }) else (status, b)

/-! ### Pushing values to the prim -/

/-- The lockstep walk `for(it = m_xformops.begin(), opIt = m_orderedOps.begin(); ...)` that
every push function opens with: the operator paired with the first classification of the given
name. The walk of the model ends with the shorter vector. -/
def findOp (s : TransformationMatrix) (name : TfToken) : Option UsdGeomXformOp :=
  ((s.m_orderedOps.zip s.m_xformops).find? (fun p => decide (p.1.name = name))).map (fun p => p.2)

/-- Header helper `internal_readVector`: `readVector` at `getTimeCode()`. -/
def internal_readVector (s : TransformationMatrix) (result : MVector) (op : UsdGeomXformOp) :
    Bool × MVector :=
  readVector s.stage result op s.getTimeCode

/-- Header helper `internal_readPoint`: `readPoint` at `getTimeCode()`. -/
def internal_readPoint (s : TransformationMatrix) (result : MPoint) (op : UsdGeomXformOp) :
    Bool × MPoint :=
  readPoint s.stage result op s.getTimeCode

/-- Header helper `internal_readRotation`: `readRotation` at `getTimeCode()`. -/
def internal_readRotation (s : TransformationMatrix) (result : MEulerRotation)
    (op : UsdGeomXformOp) : Bool × MEulerRotation :=
  readRotation s.stage result op s.getTimeCode

/-- Header helper `internal_pushVector`: `pushVector` at `getTimeCode()`. -/
def internal_pushVector (H : Host) (s : TransformationMatrix) (result : MVector)
    (op : UsdGeomXformOp) : Bool × UsdStage :=
  pushVector H s.stage result op s.getTimeCode

/-- Header helper `internal_pushPoint`: `pushPoint` at `getTimeCode()`. -/
def internal_pushPoint (H : Host) (s : TransformationMatrix) (result : MPoint)
    (op : UsdGeomXformOp) : Bool × UsdStage :=
  pushPoint H s.stage result op s.getTimeCode

/-- Header helper `internal_pushRotation`: `pushRotation` at `getTimeCode()`. -/
def internal_pushRotation (H : Host) (s : TransformationMatrix) (result : MEulerRotation)
    (op : UsdGeomXformOp) : Bool × UsdStage :=
  pushRotation H s.stage result op s.getTimeCode

/-- Header helper `internal_pushShear`: `pushShear` at `getTimeCode()`. -/
def internal_pushShear (s : TransformationMatrix) (result : MVector) (op : UsdGeomXformOp) :
    Bool × UsdStage :=
  pushShear s.stage result op s.getTimeCode

/-- Header helper `internal_pushMatrix`: `pushMatrix` at `getTimeCode()`. -/
def internal_pushMatrix (s : TransformationMatrix) (result : MMatrix) (op : UsdGeomXformOp) :
    Bool × UsdStage :=
  pushMatrix s.stage result op s.getTimeCode

/-- The statement `m[i][j] += d`. -/
def addAt (m : MMatrix) (i j : Fin 4) (d : ℚ) : MMatrix :=
  fun a b => if a = i ∧ b = j then m a b + d else m a b

/-- Source: `TransformationMatrix::asMatrix() const`. -/
def asMatrix (H : Host) (s : TransformationMatrix) : MMatrix :=
  let m := H.asMatrix s.toMPxTransformationMatrix
  let x := s.m_localTranslateOffset.x
  let y := s.m_localTranslateOffset.y
  let z := s.m_localTranslateOffset.z
  let m := addAt m 3 0 (m 0 0 * x)
  let m := addAt m 3 1 (m 0 1 * x)
  let m := addAt m 3 2 (m 0 2 * x)
  let m := addAt m 3 0 (m 1 0 * y)
  let m := addAt m 3 1 (m 1 1 * y)
  let m := addAt m 3 2 (m 1 2 * y)
  let m := addAt m 3 0 (m 2 0 * z)
  let m := addAt m 3 1 (m 2 1 * z)
  let m := addAt m 3 2 (m 2 2 * z)
  m

/-- Source: `TransformationMatrix::pushTransformToPrim`. -/
def pushTransformToPrim (H : Host) (s : TransformationMatrix) : TransformationMatrix :=
  match s.findOp .transform with
  | some op =>
    if s.pushPrimToMatrix then { s with stage := (s.internal_pushMatrix (s.asMatrix H) op).2 }
    else s
  | none => s

/-- Source: `TransformationMatrix::pushTranslateToPrim`. -/
def pushTranslateToPrim (H : Host) (s : TransformationMatrix) : TransformationMatrix :=
  match s.findOp .translate with
  | some op =>
    let tempTranslation := (s.internal_readVector MVector.zero op).2
    if !tempTranslation.isEquivalent s.translationValue then
      { s with stage := (s.internal_pushVector H s.translationValue op).2,
               m_translationFromUsd := s.translationValue,
               m_translationTweak := MVector.zero }
    else s
  | none => if s.m_enableUsdWriteback then s.pushTransformToPrim H else s

/-- Source: `TransformationMatrix::pushPivotToPrim`. -/
def pushPivotToPrim (H : Host) (s : TransformationMatrix) : TransformationMatrix :=
  match s.findOp .pivot with
  | some op =>
    let tempPivot := (s.internal_readPoint MVector.zero op).2
    if !tempPivot.isEquivalent s.rotatePivotValue then
      { s with stage := (s.internal_pushPoint H s.rotatePivotValue op).2,
               m_rotatePivotFromUsd := s.rotatePivotValue,
               m_rotatePivotTweak := MVector.zero,
               m_scalePivotFromUsd := s.scalePivotValue,
               m_scalePivotTweak := MVector.zero }
    else s
  | none => if s.m_enableUsdWriteback then s.pushTransformToPrim H else s

/-- Source: `TransformationMatrix::pushRotatePivotToPrim`. -/
def pushRotatePivotToPrim (H : Host) (s : TransformationMatrix) : TransformationMatrix :=
  match s.findOp .rotatePivot with
  | some op =>
    let tempPivot := (s.internal_readPoint MVector.zero op).2
    if !tempPivot.isEquivalent s.rotatePivotValue then
      { s with stage := (s.internal_pushPoint H s.rotatePivotValue op).2,
               m_rotatePivotFromUsd := s.rotatePivotValue,
               m_rotatePivotTweak := MVector.zero }
    else s
  | none => if s.m_enableUsdWriteback then s.pushTransformToPrim H else s

/-- Source: `TransformationMatrix::pushRotatePivotTranslateToPrim`. -/
def pushRotatePivotTranslateToPrim (H : Host) (s : TransformationMatrix) : TransformationMatrix :=
  match s.findOp .rotatePivotTranslate with
  | some op =>
    let tempPivotTranslation := (s.internal_readVector MVector.zero op).2
    if !tempPivotTranslation.isEquivalent s.rotatePivotTranslationValue then
      { s with stage := (s.internal_pushPoint H s.rotatePivotTranslationValue op).2,
               m_rotatePivotTranslationFromUsd := s.rotatePivotTranslationValue,
               m_rotatePivotTranslationTweak := MVector.zero }
    else s
  | none => if s.m_enableUsdWriteback then s.pushTransformToPrim H else s

/-- Source: `TransformationMatrix::pushRotateToPrim`. -/
def pushRotateToPrim (H : Host) (s : TransformationMatrix) : TransformationMatrix :=
  match s.findOp .rotate with
  | some op =>
    let tempRotate := (s.internal_readRotation ⟨0, 0, 0, .kXYZ⟩ op).2
    if !tempRotate.isEquivalent s.rotationValue then
      { s with stage := (s.internal_pushRotation H s.rotationValue op).2,
               m_rotationFromUsd := s.rotationValue,
               m_rotationTweak := ⟨0, 0, 0, .kXYZ⟩ }
    else s
  | none => if s.m_enableUsdWriteback then s.pushTransformToPrim H else s

/-- Source: `TransformationMatrix::pushRotateAxisToPrim`. -/
def pushRotateAxisToPrim (H : Host) (s : TransformationMatrix) : TransformationMatrix :=
  match s.findOp .rotateAxis with
  | some op =>
    let tempRotateAxis := ((s.internal_readVector MVector.zero op).2).scale (M_PI / 180)
    let temp : MEulerRotation := ⟨tempRotateAxis.x, tempRotateAxis.y, tempRotateAxis.z, .kXYZ⟩
    if !(H.asQuaternion temp).isEquivalent s.m_rotateOrientationFromUsd then
      let e := H.asEulerRotation s.m_rotateOrientationFromUsd
      let vec : MVector := ⟨e.x * radToDeg, e.y * radToDeg, e.z * radToDeg⟩
      { s with stage := (s.internal_pushVector H vec op).2 }
    else s
  | none => if s.m_enableUsdWriteback then s.pushTransformToPrim H else s

/-- Source: `TransformationMatrix::pushScalePivotTranslateToPrim`. -/
def pushScalePivotTranslateToPrim (H : Host) (s : TransformationMatrix) : TransformationMatrix :=
  match s.findOp .scalePivotTranslate with
  | some op =>
    let tempPivotTranslation := (s.internal_readVector MVector.zero op).2
    if !tempPivotTranslation.isEquivalent s.scalePivotTranslationValue then
      { s with stage := (s.internal_pushVector H s.scalePivotTranslationValue op).2,
               m_scalePivotTranslationFromUsd := s.scalePivotTranslationValue,
               m_scalePivotTranslationTweak := MVector.zero }
    else s
  | none => if s.m_enableUsdWriteback then s.pushTransformToPrim H else s

/-- Source: `TransformationMatrix::pushScalePivotToPrim`. -/
def pushScalePivotToPrim (H : Host) (s : TransformationMatrix) : TransformationMatrix :=
  match s.findOp .scalePivot with
  | some op =>
    let tempPivot := (s.internal_readPoint MVector.zero op).2
    if !tempPivot.isEquivalent s.scalePivotValue then
      { s with stage := (s.internal_pushPoint H s.scalePivotValue op).2,
               m_scalePivotFromUsd := s.scalePivotValue,
               m_scalePivotTweak := MVector.zero }
    else s
  | none => if s.m_enableUsdWriteback then s.pushTransformToPrim H else s

/-- Source: `TransformationMatrix::pushScaleToPrim`. -/
def pushScaleToPrim (H : Host) (s : TransformationMatrix) : TransformationMatrix :=
  match s.findOp .scale with
  | some op =>
    let tempScale := (s.internal_readVector MVector.one op).2
    if !tempScale.isEquivalent s.scaleValue then
      { s with stage := (s.internal_pushVector H s.scaleValue op).2,
               m_scaleFromUsd := s.scaleValue,
               m_scaleTweak := MVector.zero }
    else s
  | none => if s.m_enableUsdWriteback then s.pushTransformToPrim H else s

/-- Source: `TransformationMatrix::pushShearToPrim`. -/
def pushShearToPrim (H : Host) (s : TransformationMatrix) : TransformationMatrix :=
  match s.findOp .shear with
  | some op =>
    { s with stage := (s.internal_pushShear s.shearValue op).2,
             m_shearFromUsd := s.shearValue,
             m_shearTweak := MVector.zero }
  | none => if s.m_enableUsdWriteback then s.pushTransformToPrim H else s

/-! ### Pivot splitting and the setters

`AL_MAYA_CHECK_ERROR(status, msg)` (helper macros, outside the sources at hand) reports and
returns `status` from the enclosing function when it is a failure; the matches on `.kFailure`
below are its expansion. -/

/-- The tail of `insertAndPushPivotOp`: the two `if (insert...Pivot)` blocks. -/
def insertPivotOps (H : Host) (s : TransformationMatrix) (insertScalePivot insertRotatePivot : Bool) :
    Option (MStatus × TransformationMatrix) :=
  let afterScale : Option (MStatus × TransformationMatrix) :=
    if insertScalePivot then
      match s.insertScalePivotOp with
      | none => none
      | some (.kFailure, s1) => some (.kFailure, s1)
      | some (.kSuccess, s1) => some (.kSuccess, s1.pushScalePivotToPrim H)
    else some (.kSuccess, s)
  match afterScale with
  | none => none
  | some (.kFailure, s1) => some (.kFailure, s1)
  | some (.kSuccess, s1) =>
    if insertRotatePivot then
      match s1.insertRotatePivotOp with
      | none => none
      | some (.kFailure, s2) => some (.kFailure, s2)
      | some (.kSuccess, s2) => some (.kSuccess, s2.pushRotatePivotToPrim H)
    else some (.kSuccess, s1)

/-- Source: `TransformationMatrix::insertAndPushPivotOp`. -/
def insertAndPushPivotOp (H : Host) (s : TransformationMatrix) (pivotName : TfToken) :
    Option (MStatus × TransformationMatrix) :=
  if pivotName ≠ .scalePivot ∧ pivotName ≠ .rotatePivot then some (.kFailure, s)
  else
    let insertScalePivot := decide (pivotName = .scalePivot)
    let insertRotatePivot := !insertScalePivot
    if s.primHasPivot then
      if s.scalePivotValue = s.rotatePivotValue then some (.kSuccess, s.pushPivotToPrim H)
      else
        match s.removeOp .pivot kPrimHasPivot with
        | none => none
        | some (.kFailure, s1) => some (.kFailure, s1)
        | some (.kSuccess, s1) => s1.insertPivotOps H true true
    else s.insertPivotOps H insertScalePivot insertRotatePivot

/-- Source: `TransformationMatrix::translateTo`. -/
def translateTo (H : Host) (s : TransformationMatrix) (baseStatus : MStatus) (vector : MVector)
    (space : MSpace) : Option (MStatus × TransformationMatrix) :=
  let r := baseTranslateTo s.toMPxTransformationMatrix baseStatus vector space
  let status := r.1
  let s0 := { s with toMPxTransformationMatrix := r.2 }
  if s.translateLocked then some (status, s0)
  else
    let s1 :=
      if status.toBool then
        { s0 with m_translationTweak := s0.translationValue.sub s0.m_translationFromUsd }
      else s0
    if s1.pushToPrimAvailable then
      let inserted : Option (MStatus × TransformationMatrix) :=
        if s1.primHasTranslation then some (.kSuccess, s1)
        else if !s1.pushPrimToMatrix && decide (vector ≠ MVector.zero) then s1.insertTranslateOp
        else some (.kSuccess, s1)
      match inserted with
      | none => none
      | some (.kFailure, s2) => some (.kFailure, s2)
      | some (.kSuccess, s2) =>
        if !vector.isEquivalent s2.m_translationFromUsd then some (status, s2.pushTranslateToPrim H)
        else some (status, s2)
    else some (status, s1)

/-- Source: `TransformationMatrix::scaleTo`. -/
def scaleTo (H : Host) (s : TransformationMatrix) (baseStatus : MStatus) (scale : MVector)
    (space : MSpace) : Option (MStatus × TransformationMatrix) :=
  let r := baseScaleTo s.toMPxTransformationMatrix baseStatus scale space
  let status := r.1
  let s0 := { s with toMPxTransformationMatrix := r.2 }
  if s.scaleLocked then some (status, s0)
  else
    let s1 :=
      if status.toBool then { s0 with m_scaleTweak := s0.scaleValue.sub s0.m_scaleFromUsd }
      else s0
    if s1.pushToPrimAvailable then
      let inserted : Option (MStatus × TransformationMatrix) :=
        if s1.primHasScale then some (.kSuccess, s1)
        else if !s1.pushPrimToMatrix && decide (scale ≠ MVector.one) then s1.insertScaleOp
        else some (.kSuccess, s1)
      match inserted with
      | none => none
      | some (.kFailure, s2) => some (.kFailure, s2)
      | some (.kSuccess, s2) =>
        if !scale.isEquivalent s2.m_scaleFromUsd then some (status, s2.pushScaleToPrim H)
        else some (status, s2)
    else some (status, s1)

/-- Source: `TransformationMatrix::shearTo`. -/
def shearTo (H : Host) (s : TransformationMatrix) (baseStatus : MStatus) (shear : MVector)
    (space : MSpace) : Option (MStatus × TransformationMatrix) :=
  let r := baseShearTo s.toMPxTransformationMatrix baseStatus shear space
  let status := r.1
  let s0 := { s with toMPxTransformationMatrix := r.2 }
  if s.shearLocked then some (status, s0)
  else
    let s1 :=
      if status.toBool then { s0 with m_shearTweak := s0.shearValue.sub s0.m_shearFromUsd }
      else s0
    if s1.pushToPrimAvailable then
      let inserted : Option (MStatus × TransformationMatrix) :=
        if s1.primHasShear then some (.kSuccess, s1)
        else if !s1.pushPrimToMatrix && decide (shear ≠ MVector.zero) then s1.insertShearOp
        else some (.kSuccess, s1)
      match inserted with
      | none => none
      | some (.kFailure, s2) => some (.kFailure, s2)
      | some (.kSuccess, s2) =>
        if !shear.isEquivalent s2.m_shearFromUsd then some (status, s2.pushShearToPrim H)
        else some (status, s2)
    else some (status, s1)

/-- Source: `TransformationMatrix::setScalePivot`. -/
def setScalePivot (H : Host) (s : TransformationMatrix) (baseStatus : MStatus) (sp : MPoint)
    (space : MSpace) (balance : Bool) : Option (MStatus × TransformationMatrix) :=
  let r := baseSetScalePivot s.toMPxTransformationMatrix baseStatus sp space balance
  let status := r.1
  let s0 := { s with toMPxTransformationMatrix := r.2 }
  let s1 :=
    if status.toBool then
      { s0 with m_scalePivotTweak := s0.scalePivotValue.sub s0.m_scalePivotFromUsd }
    else s0
  if s1.pushToPrimAvailable then
    if !s1.primHasScalePivot && (!s1.pushPrimToMatrix && decide (sp ≠ MVector.zero)) then
      s1.insertAndPushPivotOp H .scalePivot
    else if !sp.isEquivalent s1.m_scalePivotFromUsd then some (status, s1.pushScalePivotToPrim H)
    else some (status, s1)
  else some (status, s1)

/-- Source: `TransformationMatrix::setScalePivotTranslation`. -/
def setScalePivotTranslation (H : Host) (s : TransformationMatrix) (baseStatus : MStatus)
    (sp : MVector) (space : MSpace) : Option (MStatus × TransformationMatrix) :=
  let r := baseSetScalePivotTranslation s.toMPxTransformationMatrix baseStatus sp space
  let status := r.1
  let s0 := { s with toMPxTransformationMatrix := r.2 }
  let s1 :=
    if status.toBool then
      { s0 with m_scalePivotTranslationTweak :=
          s0.scalePivotTranslationValue.sub s0.m_scalePivotTranslationFromUsd }
    else s0
  if s1.pushToPrimAvailable then
    let inserted : Option (MStatus × TransformationMatrix) :=
      if s1.primHasScalePivotTranslate then some (.kSuccess, s1)
      else if !s1.pushPrimToMatrix && decide (sp ≠ MVector.zero) then
        s1.insertScalePivotTranslationOp
      else some (.kSuccess, s1)
    match inserted with
    | none => none
    | some (.kFailure, s2) => some (.kFailure, s2)
    | some (.kSuccess, s2) =>
      if !sp.isEquivalent s2.m_scalePivotTranslationFromUsd then
        some (status, s2.pushScalePivotTranslateToPrim H)
      else some (status, s2)
  else some (status, s1)

/-- Source: `TransformationMatrix::setRotatePivot`. -/
def setRotatePivot (H : Host) (s : TransformationMatrix) (baseStatus : MStatus) (pivot : MPoint)
    (space : MSpace) (balance : Bool) : Option (MStatus × TransformationMatrix) :=
  let r := baseSetRotatePivot s.toMPxTransformationMatrix baseStatus pivot space balance
  let status := r.1
  let s0 := { s with toMPxTransformationMatrix := r.2 }
  let s1 :=
    if status.toBool then
      { s0 with m_rotatePivotTweak := s0.rotatePivotValue.sub s0.m_rotatePivotFromUsd }
    else s0
  if s1.pushToPrimAvailable then
    if !s1.primHasRotatePivot && (!s1.pushPrimToMatrix && decide (pivot ≠ MVector.zero)) then
      s1.insertAndPushPivotOp H .rotatePivot
    else if !pivot.isEquivalent s1.m_rotatePivotFromUsd then
      some (status, s1.pushRotatePivotToPrim H)
    else some (status, s1)
  else some (status, s1)

/-- Source: `TransformationMatrix::setRotatePivotTranslation`. -/
def setRotatePivotTranslation (H : Host) (s : TransformationMatrix) (baseStatus : MStatus)
    (vector : MVector) (space : MSpace) : Option (MStatus × TransformationMatrix) :=
  let r := baseSetRotatePivotTranslation s.toMPxTransformationMatrix baseStatus vector space
  let status := r.1
  let s0 := { s with toMPxTransformationMatrix := r.2 }
  let s1 :=
    if status.toBool then
      { s0 with m_rotatePivotTranslationTweak :=
          s0.rotatePivotTranslationValue.sub s0.m_rotatePivotTranslationFromUsd }
    else s0
  if s1.pushToPrimAvailable then
    let inserted : Option (MStatus × TransformationMatrix) :=
      if s1.primHasRotatePivotTranslate then some (.kSuccess, s1)
      else if !s1.pushPrimToMatrix && decide (vector ≠ MVector.zero) then
        s1.insertRotatePivotTranslationOp
      else some (.kSuccess, s1)
    match inserted with
    | none => none
    | some (.kFailure, s2) => some (.kFailure, s2)
    | some (.kSuccess, s2) =>
      if !vector.isEquivalent s2.m_rotatePivotTranslationFromUsd then
        some (status, s2.pushRotatePivotTranslateToPrim H)
      else some (status, s2)
  else some (status, s1)

/-- The assignments to `m_rotationTweak.x`, `.y`, `.z` shared by the two `rotateTo` overloads. -/
def updateRotationTweak (s : TransformationMatrix) : TransformationMatrix :=
  { s with m_rotationTweak :=
      { s.m_rotationTweak with
        x := s.rotationValue.x - s.m_rotationFromUsd.x,
        y := s.rotationValue.y - s.m_rotationFromUsd.y,
        z := s.rotationValue.z - s.m_rotationFromUsd.z } }

/-- Source: `TransformationMatrix::rotateTo(const MEulerRotation&, MSpace::Space)`. -/
def rotateTo (H : Host) (s : TransformationMatrix) (baseStatus : MStatus) (e : MEulerRotation)
    (space : MSpace) : Option (MStatus × TransformationMatrix) :=
  let r := baseRotateTo s.toMPxTransformationMatrix baseStatus e space
  let status := r.1
  let s0 := { s with toMPxTransformationMatrix := r.2 }
  if s.rotateLocked then some (status, s0)
  else
    let s1 := if status.toBool then s0.updateRotationTweak else s0
    if s1.pushToPrimAvailable then
      let inserted : Option (MStatus × TransformationMatrix) :=
        if s1.primHasRotation then some (.kSuccess, s1)
        else if !s1.pushPrimToMatrix && decide (e ≠ ⟨0, 0, 0, .kXYZ⟩) then s1.insertRotateOp
        else some (.kSuccess, s1)
      match inserted with
      | none => none
      | some (.kFailure, s2) => some (.kFailure, s2)
      | some (.kSuccess, s2) =>
        if s2.m_enableUsdWriteback then
          if !e.isEquivalent s2.m_rotationFromUsd then some (status, s2.pushRotateToPrim H)
          else some (status, s2)
        else some (status, s2)
    else some (status, s1)

/-- Source: `TransformationMatrix::rotateTo(const MQuaternion&, MSpace::Space)`; the base
class stores the Euler form of the quaternion. -/
def rotateToQuaternion (H : Host) (s : TransformationMatrix) (baseStatus : MStatus)
    (q : MQuaternion) (space : MSpace) : Option (MStatus × TransformationMatrix) :=
  let r := baseRotateTo s.toMPxTransformationMatrix baseStatus (H.asEulerRotation q) space
  let status := r.1
  let s0 := { s with toMPxTransformationMatrix := r.2 }
  if s.rotateLocked then some (status, s0)
  else
    let s1 := if status.toBool then s0.updateRotationTweak else s0
    if s1.pushToPrimAvailable then
      let inserted : Option (MStatus × TransformationMatrix) :=
        if s1.primHasRotation then some (.kSuccess, s1)
        else if !s1.pushPrimToMatrix && decide (q ≠ MQuaternion.identity) then s1.insertRotateOp
        else some (.kSuccess, s1)
      match inserted with
      | none => none
      | some (.kFailure, s2) => some (.kFailure, s2)
      | some (.kSuccess, s2) =>
        if s2.m_enableUsdWriteback then
          if !s2.rotationValue.isEquivalent s2.m_rotationFromUsd then
            some (status, s2.pushRotateToPrim H)
          else some (status, s2)
        else some (status, s2)
    else some (status, s1)

/-- Source: `TransformationMatrix::setRotationOrder`. -/
def setRotationOrder (s : TransformationMatrix) (_order : RotationOrder) (_reorder : Bool) :
    MStatus × TransformationMatrix :=
  (.kFailure, s)

/-- Source: `TransformationMatrix::setRotateOrientation(const MQuaternion&, ...)`. -/
def setRotateOrientation (H : Host) (s : TransformationMatrix) (baseStatus : MStatus)
    (q : MQuaternion) (space : MSpace) (balance : Bool) :
    Option (MStatus × TransformationMatrix) :=
  let r := baseSetRotateOrientation s.toMPxTransformationMatrix baseStatus q space balance
  let status := r.1
  let s0 := { s with toMPxTransformationMatrix := r.2 }
  let s1 :=
    if status.toBool then
      { s0 with m_rotateOrientationFromUsd :=
          s0.rotateOrientationValue.mul s0.m_rotateOrientationTweak.inverse }
    else s0
  if s1.pushToPrimAvailable then
    let inserted : Option (MStatus × TransformationMatrix) :=
      if s1.primHasRotateAxes then some (.kSuccess, s1)
      else if !s1.pushPrimToMatrix && decide (q ≠ MQuaternion.identity) then s1.insertRotateAxesOp
      else some (.kSuccess, s1)
    match inserted with
    | none => none
    | some (.kFailure, s2) => some (.kFailure, s2)
    | some (.kSuccess, s2) =>
      if s2.m_enableUsdWriteback then some (status, s2.pushRotateAxisToPrim H)
      else some (status, s2)
  else some (status, s1)

/-- Source: `TransformationMatrix::setRotateOrientation(const MEulerRotation&, ...)`; the base
class stores the quaternion form of the Euler angles. -/
def setRotateOrientationEuler (H : Host) (s : TransformationMatrix) (baseStatus : MStatus)
    (euler : MEulerRotation) (space : MSpace) (balance : Bool) :
    Option (MStatus × TransformationMatrix) :=
  let r := baseSetRotateOrientation s.toMPxTransformationMatrix baseStatus
    (H.asQuaternion euler) space balance
  let status := r.1
  let s0 := { s with toMPxTransformationMatrix := r.2 }
  let s1 :=
    if status.toBool then
      { s0 with m_rotateOrientationFromUsd :=
          s0.rotateOrientationValue.mul s0.m_rotateOrientationTweak.inverse }
    else s0
  if s1.pushToPrimAvailable then
    let inserted : Option (MStatus × TransformationMatrix) :=
      if s1.primHasRotateAxes then some (.kSuccess, s1)
      else if !s1.pushPrimToMatrix && decide (euler ≠ ⟨0, 0, 0, .kXYZ⟩) then s1.insertRotateAxesOp
      else some (.kSuccess, s1)
    match inserted with
    | none => none
    | some (.kFailure, s2) => some (.kFailure, s2)
    | some (.kSuccess, s2) =>
      if s2.m_enableUsdWriteback then some (status, s2.pushRotateAxisToPrim H)
      else some (status, s2)
  else some (status, s1)

end TransformationMatrix

/-! ## Auxiliary definitions and sample data -/

/-- The converted value the vector codecs write to an attribute of the given stored type. -/
def Host.narrow (H : Host) : UsdDataType → ℚ → ℚ
  | .kVec3f => H.toFloat
  | .kFloat => H.toFloat
  | .kVec3h => H.toHalf
  | .kHalf => H.toHalf
  | .kVec3i => H.toInt
  | .kInt => H.toInt
  | _ => id

/-- An animated double-precision translate attribute: default value and two time samples. -/
def animatedTranslateStage : UsdStage where
  attrs := [((.TypeTranslate, .translate),
    ⟨.kVec3d, [⟨some (.vec3 ⟨1, 2, 3⟩), [(1, .vec3 ⟨0, 0, 0⟩), (2, .vec3 ⟨1, 1, 1⟩)]⟩]⟩)]
  xformOpOrder := [⟨.TypeTranslate, .translate, false⟩]
  resetXformStack := false
  journal := []

/-- The translate operator of `animatedTranslateStage`. -/
def translateOp : UsdGeomXformOp := ⟨.TypeTranslate, .translate, false⟩

/-- A static double-precision translate attribute holding (1, 2, 3) as its default value. -/
def staticTranslateStage : UsdStage where
  attrs := [((.TypeTranslate, .translate), ⟨.kVec3d, [⟨some (.vec3 ⟨1, 2, 3⟩), []⟩]⟩)]
  xformOpOrder := [⟨.TypeTranslate, .translate, false⟩]
  resetXformStack := false
  journal := []

/-- The stored types the vector and point codecs support. -/
def vec3Types : List UsdDataType := [.kVec3d, .kVec3f, .kVec3h, .kVec3i]

/-- The entries of `xs` whose parallel classification is not named `opName`. -/
def dropNamed {α : Type} (opName : TfToken) (ops : List UsdMayaXformOpClassification)
    (xs : List α) : List α :=
  ((ops.zip xs).filter (fun p => decide (p.1.name ≠ opName))).map (fun p => p.2)

/-- The list `xs` after the backward scan of `removeOp` has dealt with its first `n` positions:
the named entries among them are gone, the rest of the list is as before. -/
def keepPar {α : Type} (opName : TfToken) (ops : List UsdMayaXformOpClassification)
    (xs : List α) (n : ℕ) : List α :=
  dropNamed opName (ops.take n) (xs.take n) ++ xs.drop n

/-- The number of classifications named `opName`. -/
def countNamed (opName : TfToken) (ops : List UsdMayaXformOpClassification) : ℕ :=
  ops.countP (fun c => decide (c.name = opName))

/-- A bound engine with the given flags, operator lists and stage; every channel at its
identity, every tweak zero, nothing locked. -/
def sampleEngine (flags : Flags) (ops : List UsdMayaXformOpClassification)
    (xformops : List UsdGeomXformOp) (indices : List ℕ) (stage : UsdStage) :
    TransformationMatrix where
  scaleValue := MVector.one
  rotationValue := ⟨0, 0, 0, .kXYZ⟩
  translationValue := MVector.zero
  shearValue := MVector.zero
  scalePivotValue := MVector.zero
  scalePivotTranslationValue := MVector.zero
  rotatePivotValue := MVector.zero
  rotatePivotTranslationValue := MVector.zero
  rotateOrientationValue := MQuaternion.identity
  translateLocked := false
  scaleLocked := false
  shearLocked := false
  rotateLocked := false
  primValid := true
  stage := stage
  m_time := .Default
  m_xformops := xformops
  m_orderedOps := ops
  m_orderedOpMayaIndices := indices
  m_scaleTweak := MVector.zero
  m_rotationTweak := ⟨0, 0, 0, .kXYZ⟩
  m_translationTweak := MVector.zero
  m_shearTweak := MVector.zero
  m_scalePivotTweak := MVector.zero
  m_scalePivotTranslationTweak := MVector.zero
  m_rotatePivotTweak := MVector.zero
  m_rotatePivotTranslationTweak := MVector.zero
  m_rotateOrientationTweak := MQuaternion.identity
  m_scaleFromUsd := MVector.one
  m_rotationFromUsd := ⟨0, 0, 0, .kXYZ⟩
  m_translationFromUsd := MVector.zero
  m_shearFromUsd := MVector.zero
  m_scalePivotFromUsd := MVector.zero
  m_scalePivotTranslationFromUsd := MVector.zero
  m_rotatePivotFromUsd := MVector.zero
  m_rotatePivotTranslationFromUsd := MVector.zero
  m_rotateOrientationFromUsd := MQuaternion.identity
  m_localTranslateOffset := MVector.zero
  m_flags := flags
  m_enableUsdWriteback := true

/-- The stage of a valid prim that has no transform operator and no transform attribute. -/
def emptyStage : UsdStage := ⟨[], [], false, []⟩

/-- An engine bound to a prim without operators, write-back enabled: the state
`initialiseToPrim` and `enablePushToPrim(true)` leave for an empty `xformOpOrder`. -/
def emptyPrimEngine : TransformationMatrix :=
  sampleEngine (kFromMayaSchema ||| kInheritsTransform ||| kPushToPrimEnabled) [] [] [] emptyStage

/-- A float-precision translate attribute named `name` holding `v` as its default value. -/
def floatAttr (name : TfToken) (v : GfVec3) : (XformOpType × TfToken) × UsdAttribute :=
  ((.TypeTranslate, name), ⟨.kVec3f, [⟨some (.vec3 v), []⟩]⟩)

/-- The stage of a single-pivot prim: translate (0, 0, 0), the combined pivot (1, 2, 3) and
its inverted twin. -/
def singlePivotStage : UsdStage where
  attrs := [floatAttr .translate ⟨0, 0, 0⟩, floatAttr .pivot ⟨1, 2, 3⟩]
  xformOpOrder := [⟨.TypeTranslate, .translate, false⟩, ⟨.TypeTranslate, .pivot, false⟩,
    ⟨.TypeTranslate, .pivot, true⟩]
  resetXformStack := false
  journal := []

/-- An engine bound to `singlePivotStage` with both live pivots at (1, 2, 3) and write-back
enabled. -/
def singlePivotEngine : TransformationMatrix :=
  { sampleEngine
      (kSinglePivotSchema ||| kInheritsTransform ||| kPushToPrimEnabled ||| kPrimHasTranslation
        ||| kPrimHasPivot)
      [⟨.translate, .TypeTranslate, false⟩, ⟨.pivot, .TypeTranslate, false⟩,
        ⟨.pivot, .TypeTranslate, true⟩]
      [⟨.TypeTranslate, .translate, false⟩, ⟨.TypeTranslate, .pivot, false⟩,
        ⟨.TypeTranslate, .pivot, true⟩]
      [] singlePivotStage with
    scalePivotValue := ⟨1, 2, 3⟩
    rotatePivotValue := ⟨1, 2, 3⟩
    m_scalePivotFromUsd := ⟨1, 2, 3⟩
    m_rotatePivotFromUsd := ⟨1, 2, 3⟩ }

/-- A host-canonical engine holding a single translate operator whose index cache has not been
built yet. -/
def translateOnlyEngine : TransformationMatrix :=
  sampleEngine (kFromMayaSchema ||| kInheritsTransform ||| kPushToPrimEnabled |||
      kPrimHasTranslation)
    [⟨.translate, .TypeTranslate, false⟩] [⟨.TypeTranslate, .translate, false⟩] []
    staticTranslateStage

/-- The state `insertOp` ends in when both members were added: the operator order is rewritten
and the presence flag set. -/
def insertDone (s : TransformationMatrix) (newFlag : Flags) : TransformationMatrix :=
  { s with stage := SetXformOpOrder s.stage s.m_xformops (!hasFlag s.m_flags kInheritsTransform),
           m_flags := setFlag s.m_flags newFlag }

/-- The state `insertOp` ends in when the twin was added at `secondPos` and the primary member
failed: the twin is erased from the three lists again. -/
def insertUndone (s : TransformationMatrix) (secondPos : ℤ) : TransformationMatrix :=
  { s with m_orderedOps := s.m_orderedOps.eraseIdx secondPos.toNat,
           m_xformops := s.m_xformops.eraseIdx secondPos.toNat,
           m_orderedOpMayaIndices := s.m_orderedOpMayaIndices.eraseIdx secondPos.toNat }

/-- The number of `SetXformOpOrder` calls recorded in a journal. -/
def countOrderWrites (journal : List StoreEvent) : ℕ :=
  (journal.filter (fun e => match e with | .setXformOpOrder _ _ => true | _ => false)).length

/-- The index cache is no longer than the two operator vectors, so that every insert position
`findOpInsertPos` computes exists in all three. -/
def IndicesInRange (s : TransformationMatrix) : Prop :=
  s.m_orderedOpMayaIndices.length ≤ s.m_orderedOps.length ∧
    s.m_orderedOpMayaIndices.length ≤ s.m_xformops.length

/-- A float-precision rotate attribute holding `v` as its default value. -/
def rotateAttr (v : GfVec3) : (XformOpType × TfToken) × UsdAttribute :=
  ((.TypeRotateXYZ, .rotate), ⟨.kVec3f, [⟨some (.vec3 v), []⟩]⟩)

/-- The stage of a host-canonical prim with a translate and a rotate operator. -/
def translateRotateStage : UsdStage where
  attrs := [floatAttr .translate ⟨0, 0, 0⟩, rotateAttr ⟨0, 0, 0⟩]
  xformOpOrder := [⟨.TypeTranslate, .translate, false⟩, ⟨.TypeRotateXYZ, .rotate, false⟩]
  resetXformStack := false
  journal := []

/-- An engine bound to `translateRotateStage`: the stack [translate, rotate] with its index
cache [0, 3]. -/
def translateRotateEngine : TransformationMatrix :=
  sampleEngine
    (kFromMayaSchema ||| kInheritsTransform ||| kPushToPrimEnabled ||| kPrimHasTranslation |||
      kPrimHasRotation)
    [⟨.translate, .TypeTranslate, false⟩, ⟨.rotate, .TypeRotateXYZ, false⟩]
    [⟨.TypeTranslate, .translate, false⟩, ⟨.TypeRotateXYZ, .rotate, false⟩]
    [0, 3] translateRotateStage

/-- An engine without operators whose prim already lists a non-inverted rotate pivot in its
`xformOpOrder` (the stage was edited behind the engine's back): adding the inverted twin
succeeds, adding the primary member fails. -/
def staleOrderEngine : TransformationMatrix :=
  sampleEngine (kFromMayaSchema ||| kInheritsTransform ||| kPushToPrimEnabled) [] [] []
    { attrs := [floatAttr .rotatePivot ⟨1, 2, 3⟩]
      xformOpOrder := [⟨.TypeTranslate, .rotatePivot, false⟩]
      resetXformStack := false
      journal := [] }

/-- The state in which `setScalePivot(sp)` goes on after a successful base-class call: the
base class has stored `sp` and the scale-pivot tweak is recomputed. -/
def afterBaseSetScalePivot (s : TransformationMatrix) (sp : MPoint) : TransformationMatrix :=
  { s with scalePivotValue := sp, m_scalePivotTweak := sp.sub s.m_scalePivotFromUsd }

/-- An engine bound to a single-pivot prim whose combined pivot is at the origin, write-back
enabled. -/
def originPivotEngine : TransformationMatrix :=
  { singlePivotEngine with
    scalePivotValue := MVector.zero
    rotatePivotValue := MVector.zero
    m_scalePivotFromUsd := MVector.zero
    m_rotatePivotFromUsd := MVector.zero
    stage :=
      { singlePivotStage with
        attrs := [floatAttr .translate ⟨0, 0, 0⟩, floatAttr .pivot ⟨0, 0, 0⟩] } }

/-- The `fromUsd + tweak == live value` invariant over the eight channels that have a tweak
added to a value read from the prim, in the words of the specification. For the rotation the
three angles are compared. `TweakTracksLive` is the form in which the code establishes it. -/
def FromUsdPlusTweak (s : TransformationMatrix) : Prop :=
  s.m_translationFromUsd.add s.m_translationTweak = s.translationValue ∧
  (s.m_rotationFromUsd.x + s.m_rotationTweak.x = s.rotationValue.x ∧
    s.m_rotationFromUsd.y + s.m_rotationTweak.y = s.rotationValue.y ∧
    s.m_rotationFromUsd.z + s.m_rotationTweak.z = s.rotationValue.z) ∧
  s.m_scaleFromUsd.add s.m_scaleTweak = s.scaleValue ∧
  s.m_shearFromUsd.add s.m_shearTweak = s.shearValue ∧
  s.m_scalePivotFromUsd.add s.m_scalePivotTweak = s.scalePivotValue ∧
  s.m_scalePivotTranslationFromUsd.add s.m_scalePivotTranslationTweak
    = s.scalePivotTranslationValue ∧
  s.m_rotatePivotFromUsd.add s.m_rotatePivotTweak = s.rotatePivotValue ∧
  s.m_rotatePivotTranslationFromUsd.add s.m_rotatePivotTranslationTweak
    = s.rotatePivotTranslationValue

instance (s : TransformationMatrix) : Decidable (FromUsdPlusTweak s) := by
  unfold FromUsdPlusTweak
  infer_instance

/-- The channel data of the engine: the live values, the tweaks and the values read from the
prim. The operator lists, the flags and the stage are left out. -/
def channels (s : TransformationMatrix) :
    MPxTransformationMatrix × List MVector × MEulerRotation × MEulerRotation :=
  (s.toMPxTransformationMatrix,
    [s.m_translationFromUsd, s.m_translationTweak, s.m_scaleFromUsd, s.m_scaleTweak,
      s.m_shearFromUsd, s.m_shearTweak, s.m_scalePivotFromUsd, s.m_scalePivotTweak,
      s.m_scalePivotTranslationFromUsd, s.m_scalePivotTranslationTweak,
      s.m_rotatePivotFromUsd, s.m_rotatePivotTweak,
      s.m_rotatePivotTranslationFromUsd, s.m_rotatePivotTranslationTweak],
    s.m_rotationFromUsd, s.m_rotationTweak)

/-- An engine without operators whose translate plug is locked. -/
def lockedTranslateEngine : TransformationMatrix :=
  { emptyPrimEngine with translateLocked := true }

/-- The state `s` with the five members the structural operations (`insertOp`, `removeOp`,
`buildOrderedOpMayaIndices`) write taken from `s'`: the stage, the three parallel lists and
the flags. -/
def withStructureOf (s s' : TransformationMatrix) : TransformationMatrix :=
  { s with stage := s'.stage, m_orderedOps := s'.m_orderedOps, m_xformops := s'.m_xformops,
           m_orderedOpMayaIndices := s'.m_orderedOpMayaIndices, m_flags := s'.m_flags }

/-- What the pivot split relies on when the combined pivot operator is present: one or two
entries named `pivot` in `m_orderedOps`, the three lists parallel, every cached operator paired
with the classification of its own name, and no scale-pivot operator cached yet. -/
def SplitReady (s : TransformationMatrix) : Prop :=
  (countNamed .pivot s.m_orderedOps = 1 ∨ countNamed .pivot s.m_orderedOps = 2) ∧
  s.m_xformops.length = s.m_orderedOps.length ∧
  (s.m_orderedOpMayaIndices = [] ∨
    s.m_orderedOpMayaIndices.length = s.m_orderedOps.length) ∧
  (∀ p ∈ s.m_orderedOps.zip s.m_xformops, p.2.name = p.1.name) ∧
  (∀ op ∈ s.m_xformops, op.name ≠ .scalePivot)

/-- One call of a per-component setter, with its arguments. The two overloads of `rotateTo` and
of `setRotateOrientation` are separate cases. -/
inductive SetterCall where
  | translateTo (vector : MVector) (space : MSpace)
  | scaleTo (scale : MVector) (space : MSpace)
  | shearTo (shear : MVector) (space : MSpace)
  | rotateTo (e : MEulerRotation) (space : MSpace)
  | rotateToQuaternion (q : MQuaternion) (space : MSpace)
  | setScalePivot (sp : MPoint) (space : MSpace) (balance : Bool)
  | setRotatePivot (pivot : MPoint) (space : MSpace) (balance : Bool)
  | setScalePivotTranslation (sp : MVector) (space : MSpace)
  | setRotatePivotTranslation (vector : MVector) (space : MSpace)
  | setRotateOrientation (q : MQuaternion) (space : MSpace) (balance : Bool)
  | setRotateOrientationEuler (euler : MEulerRotation) (space : MSpace) (balance : Bool)

/-- Runs a setter call on an engine whose base-class setter succeeds. -/
def SetterCall.run (H : Host) (s : TransformationMatrix) :
    SetterCall → Option (MStatus × TransformationMatrix)
  | .translateTo vector space => s.translateTo H .kSuccess vector space
  | .scaleTo scale space => s.scaleTo H .kSuccess scale space
  | .shearTo shear space => s.shearTo H .kSuccess shear space
  | .rotateTo e space => s.rotateTo H .kSuccess e space
  | .rotateToQuaternion q space => s.rotateToQuaternion H .kSuccess q space
  | .setScalePivot sp space balance => s.setScalePivot H .kSuccess sp space balance
  | .setRotatePivot pivot space balance => s.setRotatePivot H .kSuccess pivot space balance
  | .setScalePivotTranslation sp space => s.setScalePivotTranslation H .kSuccess sp space
  | .setRotatePivotTranslation vector space =>
    s.setRotatePivotTranslation H .kSuccess vector space
  | .setRotateOrientation q space balance => s.setRotateOrientation H .kSuccess q space balance
  | .setRotateOrientationEuler euler space balance =>
    s.setRotateOrientationEuler H .kSuccess euler space balance

/-- Consistency of the operator caches with the prim, as `initialiseToPrim` leaves them: the
operator cached for the matrix, combined-pivot and rotate-axis slots is the primary one (not an
inverted twin), and an engine holding the combined pivot can split it (`SplitReady`). -/
def SetterReady (s : TransformationMatrix) : Prop :=
  (∀ op, s.findOp .transform = some op → op.isInverseOp = false) ∧
  (∀ op, s.findOp .pivot = some op → op.isInverseOp = false) ∧
  (∀ op, s.findOp .rotateAxis = some op → op.isInverseOp = false) ∧
  (s.primHasPivot = true → SplitReady s)

/-- An integer-precision translate attribute without a value, as `AddXformOp` creates it. -/
def intTranslateStage : UsdStage where
  attrs := [((.TypeTranslate, .translate), ⟨.kVec3i, [⟨none, []⟩]⟩)]
  xformOpOrder := [⟨.TypeTranslate, .translate, false⟩]
  resetXformStack := false
  journal := []

/-- The shear operator of the host-canonical stack. -/
def shearOp : UsdGeomXformOp := ⟨.TypeTransform, .shear, false⟩

/-- A Matrix4d shear attribute without a value, as `AddXformOp` creates it. -/
def shearStage : UsdStage where
  attrs := [((.TypeTransform, .shear), ⟨.kMatrix4d, [⟨none, []⟩]⟩)]
  xformOpOrder := [shearOp]
  resetXformStack := false
  journal := []

/-- The stored types the scalar codecs support. -/
def scalarTypes : List UsdDataType := [.kHalf, .kFloat, .kDouble, .kInt]

/-- The three single-axis rotation operator types. -/
def singleAxisTypes : List XformOpType := [.TypeRotateX, .TypeRotateY, .TypeRotateZ]

/-- The six three-axis rotation operator types. -/
def threeAxisTypes : List XformOpType :=
  [.TypeRotateXYZ, .TypeRotateXZY, .TypeRotateYXZ, .TypeRotateYZX, .TypeRotateZXY, .TypeRotateZYX]

/-- A single-axis rotation operator whose attribute holds a 3-vector, a stored type the scalar
codec does not support. -/
def rotateXOp : UsdGeomXformOp := ⟨.TypeRotateX, .rotate, false⟩

/-- The stage of `rotateXOp`. -/
def rotateXVectorStage : UsdStage where
  attrs := [((.TypeRotateX, .rotate), ⟨.kVec3f, [⟨some (.vec3 ⟨90, 0, 0⟩), []⟩]⟩)]
  xformOpOrder := [rotateXOp]
  resetXformStack := false
  journal := []

/-- A three-axis rotation operator. -/
def rotateXYZOp : UsdGeomXformOp := ⟨.TypeRotateXYZ, .rotate, false⟩

/-- A float-precision three-axis rotate attribute without a value, as `AddXformOp` creates
it. -/
def freshRotateStage : UsdStage where
  attrs := [((.TypeRotateXYZ, .rotate), ⟨.kVec3f, [⟨none, []⟩]⟩)]
  xformOpOrder := [rotateXYZOp]
  resetXformStack := false
  journal := []

/-! ## Schema detection and time refresh -/

/-- Modelled from the spec: `UsdMayaXformStack::MatrixStack()` is defined in the xform-stack
utility of the repository, outside the sources at hand. This is the "raw-matrix variant" of the
three canonical classifications: a single matrix-valued operator named `transform`. -/
def MatrixStack : UsdMayaXformStack where
  ops := [⟨.transform, .TypeTransform, false⟩]
  inversionTwins := []

/-- Modelled from the spec: the type test of the matching service belongs to the xform-stack
utility outside the sources at hand. An operator has a "geometric type
(translate/rotate-variant/scale/matrix)": a template entry accepts an operator of its own type,
and a rotate entry accepts every rotate variant. -/
def UsdMayaXformOpClassification.IsCompatibleType (c : UsdMayaXformOpClassification)
    (otherType : XformOpType) : Bool :=
  decide (c.opType = otherType) ||
    (decide (c.opType ∈ threeAxisTypes) &&
      decide (otherType ∈ singleAxisTypes ++ threeAxisTypes))

/-- One operator of the alignment of `MatchingSubstack`: the state is the template position the
search may not go back before, the template positions found so far, and the classifications
collected; `none` once the alignment has failed. -/
def UsdMayaXformStack.matchStep (stack : UsdMayaXformStack)
    (acc : Option (ℕ × List ℕ × List UsdMayaXformOpClassification)) (xformOp : UsdGeomXformOp) :
    Option (ℕ × List ℕ × List UsdMayaXformOpClassification) :=
  match acc with
  | none => none
  | some (nextOpIndex, found, ret) =>
    let foundOpIdx := stack.FindOpIndex xformOp.name xformOp.isInverseOp
    match stack.ops[foundOpIdx]? with
    | none => none
    | some foundOp =>
      if foundOpIdx < nextOpIndex || !foundOp.IsCompatibleType xformOp.opType then none
      else some (foundOpIdx + 1, foundOpIdx :: found, ret ++ [foundOp])

/-- Modelled from the spec: `UsdMayaXformStack::MatchingSubstack` belongs to the xform-stack
utility outside the sources at hand. `MatchingSubstack(opList) -> orderedClassification`
"attempts to align a concrete operator list against a named classification's template,
respecting twin pairing, returning an empty result if no alignment exists for that
classification": the operators are looked up by name and inversion marker, in template order
and with a compatible type, and an operator is accepted only together with its twin. -/
def UsdMayaXformStack.MatchingSubstack (stack : UsdMayaXformStack)
    (xformops : List UsdGeomXformOp) : List UsdMayaXformOpClassification :=
  match xformops.foldl stack.matchStep (some (0, [], [])) with
  | none => []
  | some (_, found, ret) =>
    if stack.inversionTwins.all (fun p => found.contains p.1 == found.contains p.2) then ret
    else []

/-- What schema detection and time refresh take from the host SDK and from the store without
looking inside: `MPxTransformationMatrix::decomposeMatrix`, the composed local matrix of
`UsdGeomXformable::GetLocalTransformation` (`none` when it answers `false`), and the accessors
of the `MTransformationMatrix` that `matrixToMTransformationMatrix` builds from a matrix. -/
structure Decomposer where
  decomposeMatrix : MMatrix → MPxTransformationMatrix → MPxTransformationMatrix
  GetLocalTransformation : UsdStage → UsdTimeCode → Option GfMatrix4d
  eulerRotation : GfMatrix4d → MEulerRotation
  getTranslation : GfMatrix4d → MVector
  getScale : GfMatrix4d → MVector
  getShear : GfMatrix4d → MVector

/-- A concrete decomposer used to run the embedding: it reads the translation row and the
diagonal of a matrix, and composes the identity for a prim without operators. -/
def Decomposer.sample : Decomposer where
  decomposeMatrix := fun m b =>
    { b with translationValue := ⟨m 3 0, m 3 1, m 3 2⟩, scaleValue := ⟨m 0 0, m 1 1, m 2 2⟩ }
  GetLocalTransformation := fun stage _ => if stage.xformOpOrder.isEmpty then some MMatrix.identity else none
  eulerRotation := fun _ => ⟨0, 0, 0, .kXYZ⟩
  getTranslation := fun m => ⟨m 3 0, m 3 1, m 3 2⟩
  getScale := fun m => ⟨m 0 0, m 1 1, m 2 2⟩
  getShear := fun m => ⟨m 1 0, m 2 0, m 2 1⟩

namespace TransformationMatrix

/-- Header helper `internal_readShear`: `readShear` at `getTimeCode()`. -/
def internal_readShear (s : TransformationMatrix) (result : MVector) (op : UsdGeomXformOp) :
    Bool × MVector :=
  readShear s.stage result op s.getTimeCode

/-- Header helper `internal_readMatrix`: `readMatrix` at `getTimeCode()`. -/
def internal_readMatrix (s : TransformationMatrix) (result : MMatrix) (op : UsdGeomXformOp) :
    Bool × MMatrix :=
  readMatrix s.stage result op s.getTimeCode

/-- Source: `TransformationMatrix::setFromMatrix`. -/
def setFromMatrix (D : Decomposer) (s : TransformationMatrix) (m : MMatrix) :
    TransformationMatrix :=
  let b := D.decomposeMatrix m s.toMPxTransformationMatrix
  { s with
    toMPxTransformationMatrix := b
    m_scaleFromUsd := b.scaleValue
    m_rotationFromUsd := b.rotationValue
    m_translationFromUsd := b.translationValue
    m_shearFromUsd := b.shearValue
    m_scalePivotFromUsd := b.scalePivotValue
    m_scalePivotTranslationFromUsd := b.scalePivotTranslationValue
    m_rotatePivotFromUsd := b.rotatePivotValue
    m_rotatePivotTranslationFromUsd := b.rotatePivotTranslationValue
    m_rotateOrientationFromUsd := b.rotateOrientationValue }

/-- Source: `TransformationMatrix::setFromPrimMatrix`. -/
def setFromPrimMatrix (D : Decomposer) (s : TransformationMatrix) : TransformationMatrix :=
  if !s.primValid then s
  else
    match D.GetLocalTransformation s.stage s.getTimeCode with
    | some matrix =>
      let s1 := s.setFromMatrix D matrix
      if s.stage.resetXformStack then
        { s1 with m_flags := clearFlag s1.m_flags kInheritsTransform }
      else { s1 with m_flags := setFlag s1.m_flags kInheritsTransform }
    | none => s

/-- The loop over `stackFlagPairs` of `initialiseToPrim`: the first stack whose
`MatchingSubstack` is not empty gives `m_orderedOps` and its schema flag; when none matches,
`m_orderedOps` is left with the last, empty, result. -/
def matchStacks (s : TransformationMatrix) : TransformationMatrix :=
  let r1 := MayaStack.MatchingSubstack s.m_xformops
  if !r1.isEmpty then { s with m_orderedOps := r1, m_flags := setFlag s.m_flags kFromMayaSchema }
  else
    let r2 := MayaSinglePivotStack.MatchingSubstack s.m_xformops
    if !r2.isEmpty then
      { s with m_orderedOps := r2, m_flags := setFlag s.m_flags kSinglePivotSchema }
    else
      let r3 := MatrixStack.MatchingSubstack s.m_xformops
      if !r3.isEmpty then { s with m_orderedOps := r3, m_flags := setFlag s.m_flags kFromMatrix }
      else { s with m_orderedOps := r3 }

/-- The update `m_flags |= flag` on the engine. -/
def orFlag (s : TransformationMatrix) (flag : Flags) : TransformationMatrix :=
  { s with m_flags := setFlag s.m_flags flag }

/-- The test `if(op.GetNumTimeSamples() > 1) m_flags |= flag` of `initialiseToPrim`. -/
def orFlagIfAnimated (s : TransformationMatrix) (op : UsdGeomXformOp) (flag : Flags) :
    TransformationMatrix :=
  if op.GetNumTimeSamples s.stage > 1 then s.orFlag flag else s

/-- The body of the loop of `initialiseToPrim` for one operator and its classification. The
writes to the plugs of the transform node (`MPlug::setValue`, `MFnTransform::setRotation`) come
back from the host as calls of the matching setter of this engine, which is why the pass runs
under the scoped disable; the three component plugs of a channel are taken as one call with the
complete value, answered by the base class with `baseStatus`. -/
def initialiseOp (H : Host) (D : Decomposer) (baseStatus : MStatus)
    (readFromPrim transformNode : Bool) (s : TransformationMatrix)
    (opClass : UsdMayaXformOpClassification) (op : UsdGeomXformOp) :
    Option TransformationMatrix :=
  if opClass.isInvertedTwin then some s
  else
    match opClass.name with
    | .translate =>
      let s1 := (s.orFlag kPrimHasTranslation).orFlagIfAnimated op kAnimatedTranslation
      if readFromPrim then
        let tempTranslation := (s1.internal_readVector MVector.zero op).2
        if transformNode then
          (s1.translateTo H baseStatus tempTranslation .kTransform).map (fun r =>
            { r.2 with m_translationTweak := MVector.zero
                       m_translationFromUsd := tempTranslation })
        else some s1
      else some s1
    | .pivot =>
      let s1 := s.orFlag kPrimHasPivot
      if readFromPrim then
        let s2 := { s1 with
          m_scalePivotFromUsd := (s1.internal_readPoint s1.m_scalePivotFromUsd op).2 }
        let s3 := { s2 with m_rotatePivotFromUsd := s2.m_scalePivotFromUsd }
        if transformNode then
          (s3.setRotatePivot H baseStatus s3.m_rotatePivotFromUsd .kTransform false).bind
            (fun r => (r.2.setScalePivot H baseStatus r.2.m_scalePivotFromUsd .kTransform
              false).map (fun r' => r'.2))
        else some s3
      else some s1
    | .rotatePivotTranslate =>
      let s1 := s.orFlag kPrimHasRotatePivotTranslate
      if readFromPrim then
        let s2 := { s1 with m_rotatePivotTranslationFromUsd :=
          (s1.internal_readVector s1.m_rotatePivotTranslationFromUsd op).2 }
        if transformNode then
          (s2.setRotatePivotTranslation H baseStatus s2.m_rotatePivotTranslationFromUsd
            .kTransform).map (fun r => r.2)
        else some s2
      else some s1
    | .rotatePivot =>
      let s1 := s.orFlag kPrimHasRotatePivot
      if readFromPrim then
        let s2 := { s1 with
          m_rotatePivotFromUsd := (s1.internal_readPoint s1.m_rotatePivotFromUsd op).2 }
        if transformNode then
          (s2.setRotatePivot H baseStatus s2.m_rotatePivotFromUsd .kTransform false).map
            (fun r => r.2)
        else some s2
      else some s1
    | .rotate =>
      let s1 := (s.orFlag kPrimHasRotation).orFlagIfAnimated op kAnimatedRotation
      if readFromPrim then
        let s2 := { s1 with
          m_rotationFromUsd := (s1.internal_readRotation s1.m_rotationFromUsd op).2 }
        if transformNode then
          let s3 := { s2 with m_rotationTweak := { s2.m_rotationTweak with x := 0, y := 0, z := 0 } }
          (s3.rotateTo H baseStatus s3.m_rotationFromUsd .kTransform).map (fun r => r.2)
        else some s2
      else some s1
    | .rotateAxis =>
      let s1 := s.orFlag kPrimHasRotateAxes
      if readFromPrim then
        let eulers := (s1.internal_readRotation ⟨0, 0, 0, .kXYZ⟩ op).2
        let s2 := { s1 with m_rotateOrientationFromUsd := H.asQuaternion eulers }
        if transformNode then
          (s2.setRotateOrientationEuler H baseStatus eulers .kTransform false).map (fun r => r.2)
        else some s2
      else some s1
    | .scalePivotTranslate =>
      let s1 := s.orFlag kPrimHasScalePivotTranslate
      if readFromPrim then
        let s2 := { s1 with m_scalePivotTranslationFromUsd :=
          (s1.internal_readVector s1.m_scalePivotTranslationFromUsd op).2 }
        if transformNode then
          (s2.setScalePivotTranslation H baseStatus s2.m_scalePivotTranslationFromUsd
            .kTransform).map (fun r => r.2)
        else some s2
      else some s1
    | .scalePivot =>
      let s1 := s.orFlag kPrimHasScalePivot
      if readFromPrim then
        let s2 := { s1 with
          m_scalePivotFromUsd := (s1.internal_readPoint s1.m_scalePivotFromUsd op).2 }
        if transformNode then
          (s2.setScalePivot H baseStatus s2.m_scalePivotFromUsd .kTransform false).map
            (fun r => r.2)
        else some s2
      else some s1
    | .shear =>
      let s1 := (s.orFlag kPrimHasShear).orFlagIfAnimated op kAnimatedShear
      if readFromPrim then
        let tempShear := (s1.internal_readShear MVector.zero op).2
        if transformNode then
          (s1.shearTo H baseStatus tempShear .kTransform).map (fun r =>
            { r.2 with m_shearTweak := MVector.zero, m_shearFromUsd := tempShear })
        else some s1
      else some s1
    | .scale =>
      let s1 := (s.orFlag kPrimHasScale).orFlagIfAnimated op kAnimatedScale
      if readFromPrim then
        let tempScale := (s1.internal_readVector MVector.one op).2
        if transformNode then
          (s1.scaleTo H baseStatus tempScale .kTransform).map (fun r =>
            { r.2 with m_scaleTweak := MVector.zero, m_scaleFromUsd := tempScale })
        else some s1
      else some s1
    | .transform =>
      let s1 := (((s.orFlag kPrimHasTransform).orFlag kFromMatrix).orFlag
        kPushPrimToMatrix).orFlagIfAnimated op kAnimatedMatrix
      if readFromPrim then
        match s1.m_xformops.head? with
        | none => none
        | some op0 => some (s1.setFromMatrix D (s1.internal_readMatrix MMatrix.identity op0).2)
      else some s1

/-- The lockstep loop `for(it = m_xformops.begin(), opIt = m_orderedOps.begin(); ...)` of
`initialiseToPrim` and `updateToTime`, which reads a classification for every operator: `none`
when `m_orderedOps` is the shorter vector (a read past its end) or when a step has no result. -/
def lockstep (step : TransformationMatrix → UsdMayaXformOpClassification → UsdGeomXformOp →
    Option TransformationMatrix) (s : TransformationMatrix) : Option TransformationMatrix :=
  if s.m_orderedOps.length < s.m_xformops.length then none
  else (s.m_orderedOps.zip s.m_xformops).foldlM (fun t p => step t p.1 p.2) s

/-- Modelled from the spec: the guard class `Scoped_DisablePushToPrim` is declared in the class
header, outside the sources at hand. "Writes to host attribute plugs are temporarily suppressed
for the duration of this pass (scoped disable)": the guard clears the write-back bit when it is
created. -/
def disablePushToPrim (s : TransformationMatrix) : TransformationMatrix :=
  { s with m_flags := clearFlag s.m_flags kPushToPrimEnabled }

/-- Modelled from the spec: the end of the scope of `Scoped_DisablePushToPrim`, see
`disablePushToPrim`: "push to prim will now be reset to its original state", the state the guard
found when it was created. -/
def restorePushToPrim (s : TransformationMatrix) (wasEnabled : Bool) : TransformationMatrix :=
  if wasEnabled then { s with m_flags := setFlag s.m_flags kPushToPrimEnabled } else s

/-- The opening of `initialiseToPrim`: the operator list and the inheritance marker are fetched
with `GetOrderedXformOps`, the caches are cleared, and the schema is detected. -/
def detectSchema (s : TransformationMatrix) : TransformationMatrix :=
  let s1 := { s with m_xformops := s.stage.xformOpOrder, m_orderedOps := [],
                     m_orderedOpMayaIndices := [] }
  let s2 := if !s1.stage.resetXformStack then s1.orFlag kInheritsTransform else s1
  if s2.m_xformops.isEmpty then s2.orFlag kFromMayaSchema else s2.matchStacks

/-- The closing of `initialiseToPrim`:
`if(m_flags & kAnimationMask) { m_flags &= ~kPushToPrimEnabled; m_flags |= kReadAnimatedValues; }`. -/
def animationGate (s : TransformationMatrix) : TransformationMatrix :=
  if hasFlag s.m_flags kAnimationMask then
    { s with m_flags := setFlag (clearFlag s.m_flags kPushToPrimEnabled) kReadAnimatedValues }
  else s

/-- Source: `TransformationMatrix::initialiseToPrim`. -/
def initialiseToPrim (H : Host) (D : Decomposer) (baseStatus : MStatus)
    (s : TransformationMatrix) (readFromPrim transformNode : Bool) :
    Option TransformationMatrix :=
  if !s.primValid then some s
  else
    let s3 := s.detectSchema
    let wasEnabled := s3.pushToPrimEnabled
    let s4 := s3.disablePushToPrim
    let pass : Option TransformationMatrix :=
      if hasFlag s4.m_flags kAnyKnownSchema then
        lockstep (initialiseOp H D baseStatus readFromPrim transformNode) s4
      else some (s4.setFromPrimMatrix D)
    pass.map (fun s5 => (s5.restorePushToPrim wasEnabled).animationGate)

/-- The body of the loop of `updateToTime` for one operator and its classification; `none`
when the matrix of a `transform` operator cannot be read, which leaves the C++ local
indeterminate. -/
def updateOp (D : Decomposer) (s : TransformationMatrix)
    (opClass : UsdMayaXformOpClassification) (op : UsdGeomXformOp) :
    Option TransformationMatrix :=
  match opClass.name with
  | .translate =>
    if op.GetNumTimeSamples s.stage ≥ 1 then
      let s1 := s.orFlag kAnimatedTranslation
      let s2 := { s1 with
        m_translationFromUsd := (s1.internal_readVector s1.m_translationFromUsd op).2 }
      some { s2 with translationValue := s2.m_translationFromUsd.add s2.m_translationTweak }
    else some s
  | .rotate =>
    if op.GetNumTimeSamples s.stage ≥ 1 then
      let s1 := s.orFlag kAnimatedRotation
      let s2 := { s1 with
        m_rotationFromUsd := (s1.internal_readRotation s1.m_rotationFromUsd op).2 }
      some { s2 with rotationValue :=
        { s2.m_rotationFromUsd with
          x := s2.m_rotationFromUsd.x + s2.m_rotationTweak.x
          y := s2.m_rotationFromUsd.y + s2.m_rotationTweak.y
          z := s2.m_rotationFromUsd.z + s2.m_rotationTweak.z } }
    else some s
  | .scale =>
    if op.GetNumTimeSamples s.stage ≥ 1 then
      let s1 := s.orFlag kAnimatedScale
      let s2 := { s1 with m_scaleFromUsd := (s1.internal_readVector s1.m_scaleFromUsd op).2 }
      some { s2 with scaleValue := s2.m_scaleFromUsd.add s2.m_scaleTweak }
    else some s
  | .shear =>
    if op.GetNumTimeSamples s.stage ≥ 1 then
      let s1 := s.orFlag kAnimatedShear
      let s2 := { s1 with m_shearFromUsd := (s1.internal_readShear s1.m_shearFromUsd op).2 }
      some { s2 with shearValue := s2.m_shearFromUsd.add s2.m_shearTweak }
    else some s
  | .transform =>
    if op.GetNumTimeSamples s.stage ≥ 1 then
      let s1 := s.orFlag kAnimatedMatrix
      match GetAsMatrix s1.stage op s1.getTimeCode with
      | none => none
      | some matrix =>
        let s2 := { s1 with
          m_rotationFromUsd := D.eulerRotation matrix
          m_translationFromUsd := D.getTranslation matrix
          m_scaleFromUsd := D.getScale matrix
          m_shearFromUsd := D.getShear matrix }
        some { s2 with
          rotationValue :=
            { s2.rotationValue with
              x := s2.m_rotationFromUsd.x + s2.m_rotationTweak.x
              y := s2.m_rotationFromUsd.y + s2.m_rotationTweak.y
              z := s2.m_rotationFromUsd.z + s2.m_rotationTweak.z }
          translationValue := s2.m_translationFromUsd.add s2.m_translationTweak
          scaleValue := s2.m_scaleFromUsd.add s2.m_scaleTweak
          shearValue := s2.m_shearFromUsd.add s2.m_shearTweak }
    else some s
  | _ => some s

/-- Source: `TransformationMatrix::updateToTime`. -/
def updateToTime (D : Decomposer) (s : TransformationMatrix) (time : UsdTimeCode) :
    Option TransformationMatrix :=
  if !s.primValid then some s
  else if s.m_time ≠ time then
    let s1 := { s with m_time := time }
    if hasFlag s1.m_flags kAnyKnownSchema then lockstep (updateOp D) s1
    else some (s1.setFromPrimMatrix D)
  else some s

end TransformationMatrix

/-- The fields of the engine that neither the loop of `initialiseToPrim` nor a setter called
with write-back disabled touches. -/
def SameStructure (t s : TransformationMatrix) : Prop :=
  t.stage = s.stage ∧ t.m_orderedOps = s.m_orderedOps ∧ t.m_xformops = s.m_xformops ∧
  t.m_orderedOpMayaIndices = s.m_orderedOpMayaIndices ∧ t.primValid = s.primValid ∧
  t.m_time = s.m_time ∧ t.m_enableUsdWriteback = s.m_enableUsdWriteback

/-- The flag bits the loop body of `initialiseToPrim` sets for one operator: the presence flag
of its classification, the animated flag when it carries more than one time sample, and the
whole-matrix flags for `transform`; nothing for an inverted twin. -/
def initBits (stage : UsdStage) (c : UsdMayaXformOpClassification) (op : UsdGeomXformOp) :
    Flags :=
  if c.isInvertedTwin then 0
  else
    match c.name with
    | .translate =>
      kPrimHasTranslation ||| (if op.GetNumTimeSamples stage > 1 then kAnimatedTranslation else 0)
    | .pivot => kPrimHasPivot
    | .rotatePivotTranslate => kPrimHasRotatePivotTranslate
    | .rotatePivot => kPrimHasRotatePivot
    | .rotate =>
      kPrimHasRotation ||| (if op.GetNumTimeSamples stage > 1 then kAnimatedRotation else 0)
    | .rotateAxis => kPrimHasRotateAxes
    | .scalePivotTranslate => kPrimHasScalePivotTranslate
    | .scalePivot => kPrimHasScalePivot
    | .shear => kPrimHasShear ||| (if op.GetNumTimeSamples stage > 1 then kAnimatedShear else 0)
    | .scale => kPrimHasScale ||| (if op.GetNumTimeSamples stage > 1 then kAnimatedScale else 0)
    | .transform =>
      kPrimHasTransform ||| kFromMatrix ||| kPushPrimToMatrix |||
        (if op.GetNumTimeSamples stage > 1 then kAnimatedMatrix else 0)

/-- The flags the loop of `initialiseToPrim` never sets: the user preferences, the inheritance
marker and the two component-schema flags. -/
def stableFlags : List Flags :=
  [kPushToPrimEnabled, kReadAnimatedValues, kInheritsTransform, kFromMayaSchema,
    kSinglePivotSchema]

/-- The flag bits the loop of `initialiseToPrim` sets for a list of classified operators. -/
def passBits (stage : UsdStage) :
    List (UsdMayaXformOpClassification × UsdGeomXformOp) → Flags
  | [] => 0
  | p :: l => initBits stage p.1 p.2 ||| passBits stage l

/-- The eleven presence flags `kPrimHas*`. -/
def presenceFlags : List Flags :=
  [kPrimHasScale, kPrimHasRotation, kPrimHasTranslation, kPrimHasShear, kPrimHasScalePivot,
    kPrimHasScalePivotTranslate, kPrimHasRotatePivot, kPrimHasRotatePivotTranslate,
    kPrimHasRotateAxes, kPrimHasPivot, kPrimHasTransform]

/-- The five animated flags, the bits of `kAnimationMask`. -/
def animatedFlags : List Flags :=
  [kAnimatedScale, kAnimatedRotation, kAnimatedTranslation, kAnimatedMatrix, kAnimatedShear]

/-- The operator list that is the single-pivot template itself: every entry of
`MayaSinglePivotStack` once, the combined pivot at position 2 and its inverted twin at
position 8. -/
def singlePivotTemplateOps : List UsdGeomXformOp :=
  MayaSinglePivotStack.ops.map (fun c => ⟨c.opType, c.name, c.isInvertedTwin⟩)

/-- An engine bound to a valid prim whose operator order is `singlePivotTemplateOps`, before
`initialiseToPrim`: only the write-back preference is set. -/
def singlePivotTemplateEngine : TransformationMatrix :=
  sampleEngine kPushToPrimEnabled [] [] [] ⟨[], singlePivotTemplateOps, false, []⟩

/-- An engine bound to the prim of `animatedTranslateStage`, whose translate operator carries
two time samples, before `initialiseToPrim`: only the write-back preference is set. -/
def animatedOnlyEngine : TransformationMatrix :=
  sampleEngine kPushToPrimEnabled [] [] [] animatedTranslateStage

/-- An engine bound to a valid prim without operators, before `initialiseToPrim`: only the
write-back preference is set. -/
def unboundEmptyEngine : TransformationMatrix :=
  sampleEngine kPushToPrimEnabled [] [] [] emptyStage

/-- What no step of the loop of `updateToTime` touches: the store, the cached time, the
operator lists, the read-animated preference, every tweak, and the pivot, pivot-translation and
rotate-orientation channels. -/
def TimeFrame (t s : TransformationMatrix) : Prop :=
  t.stage = s.stage ∧ t.m_time = s.m_time ∧ t.primValid = s.primValid ∧
  t.m_orderedOps = s.m_orderedOps ∧ t.m_xformops = s.m_xformops ∧
  hasFlag t.m_flags kReadAnimatedValues = hasFlag s.m_flags kReadAnimatedValues ∧
  hasFlag t.m_flags kPushToPrimEnabled = hasFlag s.m_flags kPushToPrimEnabled ∧
  t.m_translationTweak = s.m_translationTweak ∧ t.m_rotationTweak = s.m_rotationTweak ∧
  t.m_scaleTweak = s.m_scaleTweak ∧ t.m_shearTweak = s.m_shearTweak ∧
  t.m_scalePivotTweak = s.m_scalePivotTweak ∧
  t.m_scalePivotTranslationTweak = s.m_scalePivotTranslationTweak ∧
  t.m_rotatePivotTweak = s.m_rotatePivotTweak ∧
  t.m_rotatePivotTranslationTweak = s.m_rotatePivotTranslationTweak ∧
  t.m_rotateOrientationTweak = s.m_rotateOrientationTweak ∧
  t.m_scalePivotFromUsd = s.m_scalePivotFromUsd ∧
  t.m_scalePivotTranslationFromUsd = s.m_scalePivotTranslationFromUsd ∧
  t.m_rotatePivotFromUsd = s.m_rotatePivotFromUsd ∧
  t.m_rotatePivotTranslationFromUsd = s.m_rotatePivotTranslationFromUsd ∧
  t.m_rotateOrientationFromUsd = s.m_rotateOrientationFromUsd ∧
  t.scalePivotValue = s.scalePivotValue ∧
  t.scalePivotTranslationValue = s.scalePivotTranslationValue ∧
  t.rotatePivotValue = s.rotatePivotValue ∧
  t.rotatePivotTranslationValue = s.rotatePivotTranslationValue ∧
  t.rotateOrientationValue = s.rotateOrientationValue

/-- The operator `op` is the one the lockstep walk of the engine pairs with the classification
named `name`: it occurs under that name, and nothing else does. -/
def IsTheOp (s : TransformationMatrix) (name : TfToken) (op : UsdGeomXformOp) : Prop :=
  (∃ c, (c, op) ∈ s.m_orderedOps.zip s.m_xformops ∧ c.name = name) ∧
  ∀ p ∈ s.m_orderedOps.zip s.m_xformops, p.1.name = name → p.2 = op

/-- No operator classified `name` carries a time sample: the channel is absent from the stack
or static. -/
def IsStatic (s : TransformationMatrix) (name : TfToken) : Prop :=
  ∀ p ∈ s.m_orderedOps.zip s.m_xformops, p.1.name = name → p.2.GetNumTimeSamples s.stage = 0

/-- A host-canonical engine bound to the prim of `animatedTranslateStage`, reading animated
values at the default time: fromUsd (1, 2, 3), a translation tweak of (10, 0, 0), and the live
translation their sum. -/
def tweakedAnimatedEngine : TransformationMatrix :=
  { sampleEngine (kFromMayaSchema ||| kInheritsTransform ||| kReadAnimatedValues |||
        kPrimHasTranslation ||| kAnimatedTranslation)
      [⟨.translate, .TypeTranslate, false⟩] [translateOp] [] animatedTranslateStage with
    translationValue := ⟨11, 2, 3⟩
    m_translationFromUsd := ⟨1, 2, 3⟩
    m_translationTweak := ⟨10, 0, 0⟩ }

/-- A double-precision translate attribute with the default value (1, 2, 3) and exactly one
time sample, (4, 5, 6) at time 1. -/
def oneSampleTranslateStage : UsdStage where
  attrs := [((.TypeTranslate, .translate),
    ⟨.kVec3d, [⟨some (.vec3 ⟨1, 2, 3⟩), [(1, .vec3 ⟨4, 5, 6⟩)]⟩]⟩)]
  xformOpOrder := [⟨.TypeTranslate, .translate, false⟩]
  resetXformStack := false
  journal := []

/-- An engine bound to the prim of `oneSampleTranslateStage`, before `initialiseToPrim`: the
write-back and read-animated-values preferences are set. -/
def oneSampleEngine : TransformationMatrix :=
  sampleEngine (kPushToPrimEnabled ||| kReadAnimatedValues) [] [] [] oneSampleTranslateStage

/-- An engine without operators, write-back enabled, whose translate, scale, shear and rotate
plugs are all locked. -/
def lockedEngine : TransformationMatrix :=
  { emptyPrimEngine with translateLocked := true, scaleLocked := true, shearLocked := true,
                         rotateLocked := true }

/-- The backing store `st'` differs from `st` by `Set` calls at most: the operator order and
the inheritance marker are as before, and the journal has gained no `AddXformOp` and no
`SetXformOpOrder` entry. -/
def OnlySets (st' st : UsdStage) : Prop :=
  st'.xformOpOrder = st.xformOpOrder ∧ st'.resetXformStack = st.resetXformStack ∧
  countAdds st'.journal = countAdds st.journal ∧
  countOrderWrites st'.journal = countOrderWrites st.journal

/-- No operator was inserted or removed between `s` and `t`: the three operator lists and
`m_flags` are as before, and the store has seen `Set` calls at most. -/
def NoInsertion (t s : TransformationMatrix) : Prop :=
  t.m_orderedOps = s.m_orderedOps ∧ t.m_xformops = s.m_xformops ∧
  t.m_orderedOpMayaIndices = s.m_orderedOpMayaIndices ∧ t.m_flags = s.m_flags ∧
  t.primValid = s.primValid ∧ OnlySets t.stage s.stage

/-- An engine without operators, write-back enabled, bound to the prim of
`staticTranslateStage`, whose `xformOpOrder` already lists the translate operator (the stage was
edited behind the engine's back): `AddXformOp` refuses the translate operator. -/
def staleTranslateEngine : TransformationMatrix :=
  sampleEngine (kFromMayaSchema ||| kInheritsTransform ||| kPushToPrimEnabled) [] [] []
    staticTranslateStage

/-- The single-pivot engine after both live pivots were moved to (4, 5, 6): the combined pivot
operator still holds (1, 2, 3). -/
def movedPivotEngine : TransformationMatrix :=
  { singlePivotEngine with scalePivotValue := ⟨4, 5, 6⟩, rotatePivotValue := ⟨4, 5, 6⟩ }

/-- Source: `TransformationMatrix::asMatrix(double percent) const`. The composition
`MPxTransformationMatrix::asMatrix(percent)` of the Maya base class comes in as `basePercent`. -/
def TransformationMatrix.asMatrixPercent (basePercent : MPxTransformationMatrix → ℚ → MMatrix)
    (s : TransformationMatrix) (percent : ℚ) : MMatrix :=
  let m := basePercent s.toMPxTransformationMatrix percent
  let x := s.m_localTranslateOffset.x * percent
  let y := s.m_localTranslateOffset.y * percent
  let z := s.m_localTranslateOffset.z * percent
  let m := addAt m 3 0 (m 0 0 * x)
  let m := addAt m 3 1 (m 0 1 * x)
  let m := addAt m 3 2 (m 0 2 * x)
  let m := addAt m 3 0 (m 1 0 * y)
  let m := addAt m 3 1 (m 1 1 * y)
  let m := addAt m 3 2 (m 1 2 * y)
  let m := addAt m 3 0 (m 2 0 * z)
  let m := addAt m 3 1 (m 2 1 * z)
  let m := addAt m 3 2 (m 2 2 * z)
  m

/-- A bound engine without operators whose local translate offset is (1, 2, 3). -/
def offsetEngine : TransformationMatrix :=
  { emptyPrimEngine with m_localTranslateOffset := ⟨1, 2, 3⟩ }

/-! ## The user attribute writer registry -/

namespace UsdMayaUserAttributeWriterRegistry

/-- The type `UserAttributeWriter`, a `std::function`: `none` is the empty function, which
compares equal to `nullptr`, `some w` a callable writer. -/
abbrev UserAttributeWriter (W : Type) := Option W

/-- The type `_WriterRegistry = std::map<TfToken, UserAttributeWriter>`: the entries of the map
in key order. `Token` stands for `TfToken` with its `operator<`. -/
abbrev _WriterRegistry (Token W : Type) := List (Token × UserAttributeWriter W)

/-- C++ `std::map::find`: the mapped value of the entry with the key, `none` for `end()`. -/
def find {Token W : Type} [DecidableEq Token] (reg : _WriterRegistry Token W) (key : Token) :
    Option (UserAttributeWriter W) :=
  reg.lookup key

/-- C++ `std::map::insert`: no effect when the map has an entry with the key, otherwise the
entry is added at its place in key order. -/
def insert {Token W : Type} [LinearOrder Token] (reg : _WriterRegistry Token W)
    (entry : Token × UserAttributeWriter W) : _WriterRegistry Token W :=
  match find reg entry.1 with
  | some _ => reg
  | none => reg.orderedInsert (fun a b => a.1 ≤ b.1) entry

/-- Source: `UsdMayaUserAttributeWriterRegistry::RegisterWriter`, on the file-level map
`_writerReg`. -/
def RegisterWriter {Token W : Type} [LinearOrder Token] (_writerReg : _WriterRegistry Token W)
    (name : Token) (fn : UserAttributeWriter W) : _WriterRegistry Token W :=
  insert _writerReg (name, fn)

/-- The calls `UsdMaya_RegistryHelper::LoadUserAttributeWriterPlugins()` and
`TfRegistryManager::GetInstance().SubscribeTo<UsdMayaUserAttributeWriterRegistry>()` that open
`_ListWriters` and `_GetWriter`: the plugins and registry functions not run yet are run, and
what they do to this registry is the list `pending` of their `RegisterWriter` calls. -/
def loadPlugins {Token W : Type} [LinearOrder Token]
    (pending : List (Token × UserAttributeWriter W)) (_writerReg : _WriterRegistry Token W) :
    _WriterRegistry Token W :=
  pending.foldl (fun reg c => RegisterWriter reg c.1 c.2) _writerReg

/-- Source: `UsdMayaUserAttributeWriterRegistry::_ListWriters`; the second component is the map
after the call. -/
def _ListWriters {Token W : Type} [LinearOrder Token]
    (pending : List (Token × UserAttributeWriter W)) (_writerReg : _WriterRegistry Token W) :
    List Token × _WriterRegistry Token W :=
  let reg := loadPlugins pending _writerReg
  (reg.map (fun nameAndWriter => nameAndWriter.1), reg)

/-- Source: `UsdMayaUserAttributeWriterRegistry::_GetWriter`; the second component is the map
after the call. -/
def _GetWriter {Token W : Type} [LinearOrder Token]
    (pending : List (Token × UserAttributeWriter W)) (_writerReg : _WriterRegistry Token W)
    (name : Token) : UserAttributeWriter W × _WriterRegistry Token W :=
  let reg := loadPlugins pending _writerReg
  (match find reg name with
    | none => none
    | some second => second, reg)

/-- Source: the static `UsdMayaUserAttributeWriterRegistry::ListWriters` of the header. -/
def ListWriters {Token W : Type} [LinearOrder Token]
    (pending : List (Token × UserAttributeWriter W)) (_writerReg : _WriterRegistry Token W) :
    List Token :=
  (_ListWriters pending _writerReg).1

/-- Source: the static `UsdMayaUserAttributeWriterRegistry::GetWriter` of the header. -/
def GetWriter {Token W : Type} [LinearOrder Token]
    (pending : List (Token × UserAttributeWriter W)) (_writerReg : _WriterRegistry Token W)
    (name : Token) : UserAttributeWriter W :=
  (_GetWriter pending _writerReg name).1

/-- The map `_writerReg` after the given `RegisterWriter` calls, in order, on the empty map of
program start. -/
def registryAfter {Token W : Type} [LinearOrder Token]
    (calls : List (Token × UserAttributeWriter W)) : _WriterRegistry Token W :=
  calls.foldl (fun reg c => RegisterWriter reg c.1 c.2) []

end UsdMayaUserAttributeWriterRegistry

/-- The presence flag a setter tests before it inserts its operator (`primHasTranslation()`,
`primHasScale()`, ... in the guard of the insertion). -/
def SetterCall.presenceFlag : SetterCall → Flags
  | .translateTo _ _ => kPrimHasTranslation
  | .scaleTo _ _ => kPrimHasScale
  | .shearTo _ _ => kPrimHasShear
  | .rotateTo _ _ => kPrimHasRotation
  | .rotateToQuaternion _ _ => kPrimHasRotation
  | .setScalePivot _ _ _ => kPrimHasScalePivot
  | .setRotatePivot _ _ _ => kPrimHasRotatePivot
  | .setScalePivotTranslation _ _ => kPrimHasScalePivotTranslate
  | .setRotatePivotTranslation _ _ => kPrimHasRotatePivotTranslate
  | .setRotateOrientation _ _ _ => kPrimHasRotateAxes
  | .setRotateOrientationEuler _ _ _ => kPrimHasRotateAxes

/-- The name of the operator a setter inserts. -/
def SetterCall.opName : SetterCall → TfToken
  | .translateTo _ _ => .translate
  | .scaleTo _ _ => .scale
  | .shearTo _ _ => .shear
  | .rotateTo _ _ => .rotate
  | .rotateToQuaternion _ _ => .rotate
  | .setScalePivot _ _ _ => .scalePivot
  | .setRotatePivot _ _ _ => .rotatePivot
  | .setScalePivotTranslation _ _ => .scalePivotTranslate
  | .setRotatePivotTranslation _ _ => .rotatePivotTranslate
  | .setRotateOrientation _ _ _ => .rotateAxis
  | .setRotateOrientationEuler _ _ _ => .rotateAxis

/-- The test `value != identity` in the guard of a setter's insertion, on the argument as
passed: `MVector(0, 0, 0)` for translate and shear, `MVector(1.0, 1.0, 1.0)` for scale,
`MPoint(0, 0, 0)` for the pivots, `MVector(0, 0, 0)` for the pivot translations,
`MEulerRotation(0, 0, 0, kXYZ)` and `MQuaternion::identity` for the rotation and the rotate
orientation. -/
def SetterCall.differsFromIdentity : SetterCall → Bool
  | .translateTo vector _ => decide (vector ≠ MVector.zero)
  | .scaleTo scale _ => decide (scale ≠ MVector.one)
  | .shearTo shear _ => decide (shear ≠ MVector.zero)
  | .rotateTo e _ => decide (e ≠ ⟨0, 0, 0, .kXYZ⟩)
  | .rotateToQuaternion q _ => decide (q ≠ MQuaternion.identity)
  | .setScalePivot sp _ _ => decide (sp ≠ MVector.zero)
  | .setRotatePivot pivot _ _ => decide (pivot ≠ MVector.zero)
  | .setScalePivotTranslation sp _ => decide (sp ≠ MVector.zero)
  | .setRotatePivotTranslation vector _ => decide (vector ≠ MVector.zero)
  | .setRotateOrientation q _ _ => decide (q ≠ MQuaternion.identity)
  | .setRotateOrientationEuler euler _ _ => decide (euler ≠ ⟨0, 0, 0, .kXYZ⟩)

/-- The lock a setter checks before anything else (`isTranslateLocked()` and so on); the pivot,
pivot-translation and rotate-orientation setters check none. -/
def SetterCall.locked (s : TransformationMatrix) : SetterCall → Bool
  | .translateTo _ _ => s.translateLocked
  | .scaleTo _ _ => s.scaleLocked
  | .shearTo _ _ => s.shearLocked
  | .rotateTo _ _ => s.rotateLocked
  | .rotateToQuaternion _ _ => s.rotateLocked
  | _ => false

/-- The branch of `insertAndPushPivotOp` that writes the combined pivot in place: a pivot setter
is called on an engine holding the combined pivot operator, and the two live pivots are equal
once the new value is stored. -/
def SetterCall.combinedPivotInPlace (s : TransformationMatrix) : SetterCall → Bool
  | .setScalePivot sp _ _ => s.primHasPivot && decide (sp = s.rotatePivotValue)
  | .setRotatePivot pivot _ _ => s.primHasPivot && decide (s.scalePivotValue = pivot)
  | _ => false

/-- Source: `TransformationMatrix::setPrimInternal`. The prim argument comes in as the store of
the prim, `none` for an invalid prim (`m_prim = UsdPrim()`: the engine is unbound, and the store
it held before is left as it is); `readingFile` is `MFileIO::isReadingFile()`, and
`transformNode` tells whether the node pointer is non-null. `none` when `initialiseToPrim` has
no result. -/
def TransformationMatrix.setPrimInternal (H : Host) (D : Decomposer) (baseStatus : MStatus)
    (s : TransformationMatrix) (prim : Option UsdStage) (readingFile transformNode : Bool) :
    Option TransformationMatrix :=
  let s0 := { s with m_enableUsdWriteback := false }
  let s1 : TransformationMatrix :=
    match prim with
    | some stage => { s0 with primValid := true, stage := stage }
    | none => { s0 with primValid := false }
  let s2 := { s1 with
    m_flags := s1.m_flags &&& kPreservationMask
    m_scaleTweak := ⟨0, 0, 0⟩
    m_rotationTweak := ⟨0, 0, 0, .kXYZ⟩
    m_translationTweak := ⟨0, 0, 0⟩
    m_shearTweak := ⟨0, 0, 0⟩
    m_scalePivotTweak := ⟨0, 0, 0⟩
    m_scalePivotTranslationTweak := ⟨0, 0, 0⟩
    m_rotatePivotTweak := ⟨0, 0, 0⟩
    m_rotatePivotTranslationTweak := ⟨0, 0, 0⟩
    m_rotateOrientationTweak := ⟨0, 0, 0, 1⟩
    m_localTranslateOffset := ⟨0, 0, 0⟩ }
  if s2.primValid then
    let s3 := { s2 with
      m_scaleFromUsd := ⟨1, 1, 1⟩
      m_rotationFromUsd := ⟨0, 0, 0, .kXYZ⟩
      m_translationFromUsd := ⟨0, 0, 0⟩
      m_shearFromUsd := ⟨0, 0, 0⟩
      m_scalePivotFromUsd := ⟨0, 0, 0⟩
      m_scalePivotTranslationFromUsd := ⟨0, 0, 0⟩
      m_rotatePivotFromUsd := ⟨0, 0, 0⟩
      m_rotatePivotTranslationFromUsd := ⟨0, 0, 0⟩
      m_rotateOrientationFromUsd := ⟨0, 0, 0, 1⟩ }
    (s3.initialiseToPrim H D baseStatus (!readingFile) transformNode).map (fun s4 =>
      { s4 with
        scaleValue := s4.m_scaleFromUsd
        rotationValue := s4.m_rotationFromUsd
        translationValue := s4.m_translationFromUsd
        shearValue := s4.m_shearFromUsd
        scalePivotValue := s4.m_scalePivotFromUsd
        scalePivotTranslationValue := s4.m_scalePivotTranslationFromUsd
        rotatePivotValue := s4.m_rotatePivotFromUsd
        rotatePivotTranslationValue := s4.m_rotatePivotTranslationFromUsd
        rotateOrientationValue := s4.m_rotateOrientationFromUsd
        m_enableUsdWriteback := true })
  else some { s2 with m_enableUsdWriteback := true }

/-- Every tweak and the local translate offset hold the value `setPrimInternal` resets them to:
zero, and the identity for the rotate-orientation tweak. -/
def TweaksReset (s : TransformationMatrix) : Prop :=
  s.m_scaleTweak = ⟨0, 0, 0⟩ ∧ s.m_rotationTweak = ⟨0, 0, 0, .kXYZ⟩ ∧
  s.m_translationTweak = ⟨0, 0, 0⟩ ∧ s.m_shearTweak = ⟨0, 0, 0⟩ ∧
  s.m_scalePivotTweak = ⟨0, 0, 0⟩ ∧ s.m_scalePivotTranslationTweak = ⟨0, 0, 0⟩ ∧
  s.m_rotatePivotTweak = ⟨0, 0, 0⟩ ∧ s.m_rotatePivotTranslationTweak = ⟨0, 0, 0⟩ ∧
  s.m_rotateOrientationTweak = ⟨0, 0, 0, 1⟩ ∧ s.m_localTranslateOffset = ⟨0, 0, 0⟩

namespace TransformationMatrix

/-- One statement `if(primHasX() || x() != identity) setter(x());` of the sweep of
`enablePushToPrim`: the status the setter returns is dropped. `none` when the setter has no
result. -/
def sweepCall (s : TransformationMatrix) (cond : Bool)
    (setter : Option (MStatus × TransformationMatrix)) : Option TransformationMatrix :=
  if cond then setter.map (fun r => r.2) else some s

/-- The per-component sweep of `enablePushToPrim`, the body of `if(!pushPrimToMatrix())`. The
accessors `translation()`, `scale()`, ... of the base class return the live values;
`rotation()` returns the live rotation as a quaternion, which selects the quaternion overload
of `rotateTo`. The base class answers every setter with `baseStatus`. -/
def reconcileComponents (H : Host) (baseStatus : MStatus) (s0 : TransformationMatrix) :
    Option TransformationMatrix :=
  (s0.sweepCall (s0.primHasTranslation || decide (s0.translationValue ≠ MVector.zero))
    (s0.translateTo H baseStatus s0.translationValue .kTransform)).bind fun s1 =>
  (s1.sweepCall (s1.primHasScale || decide (s1.scaleValue ≠ MVector.one))
    (s1.scaleTo H baseStatus s1.scaleValue .kTransform)).bind fun s2 =>
  (s2.sweepCall (s2.primHasShear || decide (s2.shearValue ≠ MVector.zero))
    (s2.shearTo H baseStatus s2.shearValue .kTransform)).bind fun s3 =>
  (s3.sweepCall (s3.primHasScalePivot || decide (s3.scalePivotValue ≠ MVector.zero))
    (s3.setScalePivot H baseStatus s3.scalePivotValue .kTransform false)).bind fun s4 =>
  (s4.sweepCall
    (s4.primHasScalePivotTranslate || decide (s4.scalePivotTranslationValue ≠ MVector.zero))
    (s4.setScalePivotTranslation H baseStatus s4.scalePivotTranslationValue
      .kTransform)).bind fun s5 =>
  (s5.sweepCall (s5.primHasRotatePivot || decide (s5.rotatePivotValue ≠ MVector.zero))
    (s5.setRotatePivot H baseStatus s5.rotatePivotValue .kTransform false)).bind fun s6 =>
  (s6.sweepCall
    (s6.primHasRotatePivotTranslate || decide (s6.rotatePivotTranslationValue ≠ MVector.zero))
    (s6.setRotatePivotTranslation H baseStatus s6.rotatePivotTranslationValue
      .kTransform)).bind fun s7 =>
  (s7.sweepCall
    (s7.primHasRotation || decide (H.asQuaternion s7.rotationValue ≠ MQuaternion.identity))
    (s7.rotateToQuaternion H baseStatus (H.asQuaternion s7.rotationValue)
      .kTransform)).bind fun s8 =>
  s8.sweepCall (s8.primHasRotateAxes || decide (s8.rotateOrientationValue ≠ MQuaternion.identity))
    (s8.setRotateOrientation H baseStatus s8.rotateOrientationValue .kTransform false)

/-- The whole-matrix branch of `enablePushToPrim`: the loop over `m_orderedOps` that pushes
`asMatrix()` to `m_xformops[i]` for the first `i` named `transform`. `none` when `m_xformops`
is read past its end. -/
def reconcileMatrix (H : Host) (s0 : TransformationMatrix) : Option TransformationMatrix :=
  match s0.m_orderedOps.findIdx? (fun c => decide (c.name = .transform)) with
  | none => some s0
  | some i =>
    match s0.m_xformops[i]? with
    | none => none
    | some op => some { s0 with stage := (s0.internal_pushMatrix (s0.asMatrix H) op).2 }

/-- Source: `TransformationMatrix::enablePushToPrim`. -/
def enablePushToPrim (H : Host) (baseStatus : MStatus) (s : TransformationMatrix)
    (enabled : Bool) : Option TransformationMatrix :=
  let s0 :=
    if enabled then { s with m_flags := setFlag s.m_flags kPushToPrimEnabled }
    else { s with m_flags := clearFlag s.m_flags kPushToPrimEnabled }
  if !s0.primValid then some s0
  else if enabled && decide (s0.getTimeCode = .Default) then
    if !s0.pushPrimToMatrix then s0.reconcileComponents H baseStatus
    else if s0.primHasTransform then s0.reconcileMatrix H
    else some s0
  else some s0

end TransformationMatrix

/-- An engine without operators whose live translation is (1, 0, 0) and whose live scale is
(2, 2, 2), write-back disabled. -/
def pendingEngine : TransformationMatrix :=
  { sampleEngine (kFromMayaSchema ||| kInheritsTransform) [] [] [] emptyStage with
    translationValue := ⟨1, 0, 0⟩
    scaleValue := ⟨2, 2, 2⟩
    m_translationTweak := ⟨1, 0, 0⟩
    m_scaleTweak := ⟨1, 1, 1⟩ }

/-- The engine `pendingEngine` reading animated values at time 5. -/
def pendingTimedEngine : TransformationMatrix :=
  { pendingEngine with
    m_flags := kFromMayaSchema ||| kInheritsTransform ||| kReadAnimatedValues
    m_time := .time 5 }

/-- The engine `pendingEngine` with its translate plug locked. -/
def pendingLockedEngine : TransformationMatrix :=
  { pendingEngine with translateLocked := true }

/-- The sweep of `enablePushToPrim(true)` in the words of the specification: "for every channel
whose live host value differs from its identity, the corresponding setter is invoked once", in
the order of the source and with the live value as argument; a channel whose operator is present
is swept as well. Each entry gives the call made on the state the sweep has reached, if any. -/
def reconcileCalls (H : Host) : List (TransformationMatrix → Option SetterCall) :=
  [fun t => if t.primHasTranslation || decide (t.translationValue ≠ MVector.zero) then
      some (.translateTo t.translationValue .kTransform) else none,
   fun t => if t.primHasScale || decide (t.scaleValue ≠ MVector.one) then
      some (.scaleTo t.scaleValue .kTransform) else none,
   fun t => if t.primHasShear || decide (t.shearValue ≠ MVector.zero) then
      some (.shearTo t.shearValue .kTransform) else none,
   fun t => if t.primHasScalePivot || decide (t.scalePivotValue ≠ MVector.zero) then
      some (.setScalePivot t.scalePivotValue .kTransform false) else none,
   fun t => if t.primHasScalePivotTranslate ||
        decide (t.scalePivotTranslationValue ≠ MVector.zero) then
      some (.setScalePivotTranslation t.scalePivotTranslationValue .kTransform) else none,
   fun t => if t.primHasRotatePivot || decide (t.rotatePivotValue ≠ MVector.zero) then
      some (.setRotatePivot t.rotatePivotValue .kTransform false) else none,
   fun t => if t.primHasRotatePivotTranslate ||
        decide (t.rotatePivotTranslationValue ≠ MVector.zero) then
      some (.setRotatePivotTranslation t.rotatePivotTranslationValue .kTransform) else none,
   fun t => if t.primHasRotation ||
        decide (H.asQuaternion t.rotationValue ≠ MQuaternion.identity) then
      some (.rotateToQuaternion (H.asQuaternion t.rotationValue) .kTransform) else none,
   fun t => if t.primHasRotateAxes ||
        decide (t.rotateOrientationValue ≠ MQuaternion.identity) then
      some (.setRotateOrientation t.rotateOrientationValue .kTransform false) else none]

/-- Runs a list of conditional setter calls in order, each on the state the previous one left;
the statuses are dropped. -/
def runCalls (H : Host) (calls : List (TransformationMatrix → Option SetterCall))
    (s : TransformationMatrix) : Option TransformationMatrix :=
  calls.foldlM (fun t f =>
    match f t with
    | none => some t
    | some call => (call.run H t).map (fun r => r.2)) s

/-- Maya `MTransformationMatrix::RotationOrder`, the enumeration `rotationOrder()` returns and
`insertRotateOp` switches on. -/
inductive MTransformationMatrix.RotationOrder where
  | kInvalid
  | kXYZ
  | kYZX
  | kZXY
  | kXZY
  | kYXZ
  | kZYX
  | kLast
deriving DecidableEq, Repr

/-- Maya `MPxTransformationMatrix::rotationOrder()`: the order of the live rotation, in the
enumeration of `MTransformationMatrix`. -/
def MPxTransformationMatrix.rotationOrder (b : MPxTransformationMatrix) :
    MTransformationMatrix.RotationOrder :=
  match b.rotationValue.order with
  | .kXYZ => .kXYZ
  | .kYZX => .kYZX
  | .kZXY => .kZXY
  | .kXZY => .kXZY
  | .kYXZ => .kYXZ
  | .kZYX => .kZYX

/-- The `switch(rotationOrder())` of `TransformationMatrix::insertRotateOp`, its `default`
branch included. -/
def insertRotateOpType : MTransformationMatrix.RotationOrder → XformOpType
  | .kXYZ => .TypeRotateXYZ
  | .kXZY => .TypeRotateXZY
  | .kYXZ => .TypeRotateYXZ
  | .kYZX => .TypeRotateYZX
  | .kZXY => .TypeRotateZXY
  | .kZYX => .TypeRotateZYX
  | _ => .TypeRotateXYZ

/-- A stage holding one float-precision rotate operator of the type `insertRotateOp` picks for
the order `o`, with the stored value (90, 0, 0) degrees. -/
def threeAxisStage (o : RotationOrder) : UsdStage where
  attrs := [((TransformationMatrix.rotateOpType o, .rotate), ⟨.kVec3f, [⟨some (.vec3 ⟨90, 0, 0⟩), []⟩]⟩)]
  xformOpOrder := [⟨TransformationMatrix.rotateOpType o, .rotate, false⟩]
  resetXformStack := false
  journal := []

/-- An animated double-precision single-axis rotate attribute: default value 30 and one time
sample, 10 at time 5. -/
def animatedRotateXStage : UsdStage where
  attrs := [((.TypeRotateX, .rotate), ⟨.kDouble, [⟨some (.scalar 30), [(5, .scalar 10)]⟩]⟩)]
  xformOpOrder := [rotateXOp]
  resetXformStack := false
  journal := []

/-- A host-canonical engine holding a single translate operator whose `kPrimHasPivot` flag is
set although no operator is named `pivot`. -/
def stalePivotFlagEngine : TransformationMatrix :=
  { translateOnlyEngine with m_flags := setFlag translateOnlyEngine.m_flags kPrimHasPivot }

/-- A host-canonical engine bound to the prim of `animatedTranslateStage` with write-back
enabled and animated values not read, so that `getTimeCode()` is the default time: fromUsd
(1, 2, 3), a translation tweak of (10, 0, 0), and the live translation their sum. -/
def gatedTranslateEngine : TransformationMatrix :=
  { tweakedAnimatedEngine with
    m_flags := kFromMayaSchema ||| kInheritsTransform ||| kPushToPrimEnabled |||
      kPrimHasTranslation ||| kAnimatedTranslation }

/-- The codec write to `op` at the current time code is carried out: the operator is not an
inverted twin (the store refuses `Set` on those), the time-sample gate lets the write pass, and
the stored type is one of `types`, those the codec supports. -/
def WriteAccepted (s : TransformationMatrix) (op : UsdGeomXformOp) (types : List UsdDataType) :
    Prop :=
  op.isInverseOp = false ∧ timeSampleGate s.stage op s.getTimeCode = false ∧
    op.GetTypeName s.stage ∈ types

/-- The value a 3-vector operator of the stored type `ty` holds after `v` was written to it:
the components converted to the precision of `ty`, `v` itself for double precision. -/
def Host.narrowVector (H : Host) (ty : UsdDataType) (v : MVector) : MVector :=
  ⟨H.narrow ty v.x, H.narrow ty v.y, H.narrow ty v.z⟩

/-- The read-back `read` of a 3-vector operator of the stored type `ty` decodes to the live
value `live`: it succeeded with `live` converted to the precision of `ty`, which is `live`
itself for a double-precision operator. -/
def StoreHolds (H : Host) (ty : UsdDataType) (read : Bool × MVector) (live : MVector) : Prop :=
  read = (true, H.narrowVector ty live) ∧ (ty = .kVec3d → read = (true, live))

/-- The engine `translateOnlyEngine` after the live translation was moved to (5, 6, 7): the
translate operator still holds (1, 2, 3). -/
def movedTranslateEngine : TransformationMatrix :=
  { translateOnlyEngine with translationValue := ⟨5, 6, 7⟩, m_translationTweak := ⟨5, 6, 7⟩ }

namespace TransformationMatrix

/-- The body of the loop of `pushToPrim` for one operator and its classification: an inverted
twin is skipped (`continue`), every other entry is dispatched on its name. -/
def pushOp (H : Host) (s : TransformationMatrix) (opClass : UsdMayaXformOpClassification)
    (op : UsdGeomXformOp) : TransformationMatrix :=
  if opClass.isInvertedTwin then s
  else
    match opClass.name with
    | .translate =>
      { s with stage := (s.internal_pushVector H s.translationValue op).2,
               m_translationFromUsd := s.translationValue,
               m_translationTweak := MVector.zero }
    | .pivot =>
      { s with stage := (s.internal_pushPoint H s.rotatePivotValue op).2,
               m_rotatePivotFromUsd := s.rotatePivotValue,
               m_rotatePivotTweak := MVector.zero,
               m_scalePivotFromUsd := s.scalePivotValue,
               m_scalePivotTweak := MVector.zero }
    | .rotatePivotTranslate =>
      { s with stage := (s.internal_pushPoint H s.rotatePivotTranslationValue op).2,
               m_rotatePivotTranslationFromUsd := s.rotatePivotTranslationValue,
               m_rotatePivotTranslationTweak := MVector.zero }
    | .rotatePivot =>
      { s with stage := (s.internal_pushPoint H s.rotatePivotValue op).2,
               m_rotatePivotFromUsd := s.rotatePivotValue,
               m_rotatePivotTweak := MVector.zero }
    | .rotate =>
      { s with stage := (s.internal_pushRotation H s.rotationValue op).2,
               m_rotationFromUsd := s.rotationValue,
               m_rotationTweak := ⟨0, 0, 0, .kXYZ⟩ }
    | .rotateAxis =>
      let e := H.asEulerRotation s.m_rotateOrientationFromUsd
      let vec : MVector := ⟨e.x * radToDeg, e.y * radToDeg, e.z * radToDeg⟩
      { s with stage := (s.internal_pushVector H vec op).2 }
    | .scalePivotTranslate =>
      { s with stage := (s.internal_pushVector H s.scalePivotTranslationValue op).2,
               m_scalePivotTranslationFromUsd := s.scalePivotTranslationValue,
               m_scalePivotTranslationTweak := MVector.zero }
    | .scalePivot =>
      { s with stage := (s.internal_pushPoint H s.scalePivotValue op).2,
               m_scalePivotFromUsd := s.scalePivotValue,
               m_scalePivotTweak := MVector.zero }
    | .shear =>
      { s with stage := (s.internal_pushShear s.shearValue op).2,
               m_shearFromUsd := s.shearValue,
               m_shearTweak := MVector.zero }
    | .scale =>
      { s with stage := (s.internal_pushVector H s.scaleValue op).2,
               m_scaleFromUsd := s.scaleValue,
               m_scaleTweak := MVector.zero }
    | .transform =>
      if s.pushPrimToMatrix then { s with stage := (s.internal_pushMatrix (s.asMatrix H) op).2 }
      else s

/-- Source: `TransformationMatrix::pushToPrim`. The composed matrix read with
`GetLocalTransformation` before the loop is used by `notifyProxyShapeOfRedraw` only, which
tells the proxy shape of the transform node to redraw and touches neither the engine nor the
prim. `none`: the lockstep walk read past the end of `m_orderedOps`. -/
def pushToPrim (H : Host) (s : TransformationMatrix) : Option TransformationMatrix :=
  if !s.primValid then some s
  else lockstep (fun t opClass op => some (t.pushOp H opClass op)) s

/-- An entry of `m_orderedOps` that is not an inverted twin has the given name. -/
def hasOperator (s : TransformationMatrix) (name : TfToken) : Bool :=
  s.m_orderedOps.any (fun c => !c.isInvertedTwin && decide (c.name = name))

end TransformationMatrix

/-- The store `st'` differs from `st` by at most one `Set` call, issued on `op` at the time
code `tc`. -/
def WroteAtMost (op : UsdGeomXformOp) (tc : UsdTimeCode) (st' st : UsdStage) : Prop :=
  st'.journal = st.journal ∨ ∃ v, st'.journal = st.journal ++ [StoreEvent.set op v tc]

/-- The journal `j` continues the journal of the store of `s` with `Set` calls only, each of
them on an operator that the lockstep walk pairs with an entry of `m_orderedOps` that is not an
inverted twin, at the current time code. -/
def SetsOnPrimaries (s : TransformationMatrix) (j : List StoreEvent) : Prop :=
  ∃ extra, j = s.stage.journal ++ extra ∧
    ∀ e ∈ extra, ∃ c op v, (c, op) ∈ s.m_orderedOps.zip s.m_xformops ∧
      c.isInvertedTwin = false ∧ e = StoreEvent.set op v s.getTimeCode

/-- The single-pivot engine with a pending edit of both pivots: the live pivots are (4, 5, 6),
carried by tweaks of (3, 3, 3) over the (1, 2, 3) read from the combined pivot operator. -/
def pendingPivotEngine : TransformationMatrix :=
  { singlePivotEngine with scalePivotValue := ⟨4, 5, 6⟩, rotatePivotValue := ⟨4, 5, 6⟩,
                           m_scalePivotTweak := ⟨3, 3, 3⟩, m_rotatePivotTweak := ⟨3, 3, 3⟩ }

/-- An engine bound to a valid prim whose two operators match no known schema (two translate
operators of different names in the wrong order): `m_xformops` holds them, `m_orderedOps` is
empty, no schema flag is set. -/
def unknownSchemaEngine : TransformationMatrix :=
  sampleEngine (kInheritsTransform ||| kPushToPrimEnabled) []
    [⟨.TypeTranslate, .scalePivot, false⟩, ⟨.TypeTranslate, .translate, false⟩] []
    ⟨[floatAttr .scalePivot ⟨1, 0, 0⟩, floatAttr .translate ⟨0, 1, 0⟩],
      [⟨.TypeTranslate, .scalePivot, false⟩, ⟨.TypeTranslate, .translate, false⟩], false, []⟩

/-- The invariant `m_orderedOps.size() == m_xformops.size()` that the source asserts. -/
def ListsParallel (s : TransformationMatrix) : Prop :=
  s.m_xformops.length = s.m_orderedOps.length

/-- The operator stack of the prim matches a known schema: it is empty, or one of the three
canonical stacks aligns with it. -/
def KnownSchema (stage : UsdStage) : Prop :=
  stage.xformOpOrder = [] ∨ MayaStack.MatchingSubstack stage.xformOpOrder ≠ [] ∨
    MayaSinglePivotStack.MatchingSubstack stage.xformOpOrder ≠ [] ∨
    MatrixStack.MatchingSubstack stage.xformOpOrder ≠ []

/-- Runs a setter call on an engine whose base-class setter answers with `baseStatus`. -/
def SetterCall.runWith (H : Host) (baseStatus : MStatus) (s : TransformationMatrix) :
    SetterCall → Option (MStatus × TransformationMatrix)
  | .translateTo vector space => s.translateTo H baseStatus vector space
  | .scaleTo scale space => s.scaleTo H baseStatus scale space
  | .shearTo shear space => s.shearTo H baseStatus shear space
  | .rotateTo e space => s.rotateTo H baseStatus e space
  | .rotateToQuaternion q space => s.rotateToQuaternion H baseStatus q space
  | .setScalePivot sp space balance => s.setScalePivot H baseStatus sp space balance
  | .setRotatePivot pivot space balance => s.setRotatePivot H baseStatus pivot space balance
  | .setScalePivotTranslation sp space => s.setScalePivotTranslation H baseStatus sp space
  | .setRotatePivotTranslation vector space =>
    s.setRotatePivotTranslation H baseStatus vector space
  | .setRotateOrientation q space balance =>
    s.setRotateOrientation H baseStatus q space balance
  | .setRotateOrientationEuler euler space balance =>
    s.setRotateOrientationEuler H baseStatus euler space balance

/-- The states the engine reaches from `setPrimInternal` on a valid prim of a known schema
through the public setters, `insertOp` and `removeOp`, whatever their arguments and results. -/
inductive Reachable (H : Host) (D : Decomposer) : TransformationMatrix → Prop where
  | bound (s0 : TransformationMatrix) (stage : UsdStage) (baseStatus : MStatus)
      (readingFile transformNode : Bool) (r : TransformationMatrix) :
      KnownSchema stage →
      s0.setPrimInternal H D baseStatus (some stage) readingFile transformNode = some r →
      Reachable H D r
  | setter (s : TransformationMatrix) (call : SetterCall) (baseStatus status : MStatus)
      (r : TransformationMatrix) :
      Reachable H D s → call.runWith H baseStatus s = some (status, r) → Reachable H D r
  | inserted (s : TransformationMatrix) (opType : XformOpType) (precision : Precision)
      (opName : TfToken) (newFlag : Flags) (insertAtBeginning : Bool) (status : MStatus)
      (r : TransformationMatrix) :
      Reachable H D s →
      s.insertOp opType precision opName newFlag insertAtBeginning = some (status, r) →
      Reachable H D r
  | removed (s : TransformationMatrix) (opName : TfToken) (oldFlag : Flags) (status : MStatus)
      (r : TransformationMatrix) :
      Reachable H D s → s.removeOp opName oldFlag = some (status, r) → Reachable H D r

/-- An engine bound to a valid prim without operators (empty `xformOpOrder`, write-back enabled)
on which a float-precision translate attribute is left over holding (1, 0, 0), as after the
operator was taken out of the operator order: `AddXformOp` finds the attribute and reuses it. -/
def leftoverTranslateEngine : TransformationMatrix :=
  sampleEngine (kFromMayaSchema ||| kInheritsTransform ||| kPushToPrimEnabled) [] [] []
    { attrs := [floatAttr .translate ⟨1, 0, 0⟩]
      xformOpOrder := []
      resetXformStack := false
      journal := [] }

/-- The stage of a valid prim whose operator order lists the rotate pivot without its inverted
twin: one float-precision translate operator `xformOp:translate:rotatePivot` holding (1, 2, 3).
No canonical stack matches it. -/
def lonePivotStage : UsdStage where
  attrs := [floatAttr .rotatePivot ⟨1, 2, 3⟩]
  xformOpOrder := [⟨.TypeTranslate, .rotatePivot, false⟩]
  resetXformStack := false
  journal := []

/-- The relation between tweak, fromUsd and live value in the form the code establishes it, over
the eight channels that have a tweak added to a value read from the prim: the tweak is the
difference `live - fromUsd` as the setter computes it, or fromUsd is the live value and the
tweak is zero, as a push leaves them. For the rotation the three angles are compared. -/
def TweakTracksLive (s : TransformationMatrix) : Prop :=
  (s.m_translationTweak = s.translationValue.sub s.m_translationFromUsd ∨
    (s.m_translationFromUsd = s.translationValue ∧ s.m_translationTweak = MVector.zero)) ∧
  ((s.m_rotationTweak.x = s.rotationValue.x - s.m_rotationFromUsd.x ∧
      s.m_rotationTweak.y = s.rotationValue.y - s.m_rotationFromUsd.y ∧
      s.m_rotationTweak.z = s.rotationValue.z - s.m_rotationFromUsd.z) ∨
    (s.m_rotationFromUsd.x = s.rotationValue.x ∧ s.m_rotationFromUsd.y = s.rotationValue.y ∧
      s.m_rotationFromUsd.z = s.rotationValue.z ∧ s.m_rotationTweak.x = 0 ∧
      s.m_rotationTweak.y = 0 ∧ s.m_rotationTweak.z = 0)) ∧
  (s.m_scaleTweak = s.scaleValue.sub s.m_scaleFromUsd ∨
    (s.m_scaleFromUsd = s.scaleValue ∧ s.m_scaleTweak = MVector.zero)) ∧
  (s.m_shearTweak = s.shearValue.sub s.m_shearFromUsd ∨
    (s.m_shearFromUsd = s.shearValue ∧ s.m_shearTweak = MVector.zero)) ∧
  (s.m_scalePivotTweak = s.scalePivotValue.sub s.m_scalePivotFromUsd ∨
    (s.m_scalePivotFromUsd = s.scalePivotValue ∧ s.m_scalePivotTweak = MVector.zero)) ∧
  (s.m_scalePivotTranslationTweak
      = s.scalePivotTranslationValue.sub s.m_scalePivotTranslationFromUsd ∨
    (s.m_scalePivotTranslationFromUsd = s.scalePivotTranslationValue ∧
      s.m_scalePivotTranslationTweak = MVector.zero)) ∧
  (s.m_rotatePivotTweak = s.rotatePivotValue.sub s.m_rotatePivotFromUsd ∨
    (s.m_rotatePivotFromUsd = s.rotatePivotValue ∧ s.m_rotatePivotTweak = MVector.zero)) ∧
  (s.m_rotatePivotTranslationTweak
      = s.rotatePivotTranslationValue.sub s.m_rotatePivotTranslationFromUsd ∨
    (s.m_rotatePivotTranslationFromUsd = s.rotatePivotTranslationValue ∧
      s.m_rotatePivotTranslationTweak = MVector.zero))

instance (s : TransformationMatrix) : Decidable (TweakTracksLive s) := by
  unfold TweakTracksLive
  infer_instance

/-- The prim can take the operator a setter inserts: its operator order lists no operator of
the channel's name, so that `AddXformOp` does not refuse it, and, where a pivot setter finds the
combined pivot operator (which it has to split), the operator list of the engine holds no scale
or rotate pivot operator. -/
def SetterCall.StoreAccepts (s : TransformationMatrix) (call : SetterCall) : Prop :=
  (∀ op ∈ s.stage.xformOpOrder, op.name ≠ call.opName) ∧
  (s.primHasPivot = true → (call.opName = .scalePivot ∨ call.opName = .rotatePivot) →
    ∀ op ∈ s.m_xformops, op.name ≠ .scalePivot ∧ op.name ≠ .rotatePivot)

instance (s : TransformationMatrix) (call : SetterCall) : Decidable (call.StoreAccepts s) := by
  unfold SetterCall.StoreAccepts
  infer_instance

/-- The presence flag of the channel whose operator has the given name. -/
def presenceFlagOf : TfToken → Flags
  | .translate => kPrimHasTranslation
  | .rotatePivotTranslate => kPrimHasRotatePivotTranslate
  | .rotatePivot => kPrimHasRotatePivot
  | .rotate => kPrimHasRotation
  | .rotateAxis => kPrimHasRotateAxes
  | .scalePivotTranslate => kPrimHasScalePivotTranslate
  | .scalePivot => kPrimHasScalePivot
  | .shear => kPrimHasShear
  | .scale => kPrimHasScale
  | .pivot => kPrimHasPivot
  | .transform => kPrimHasTransform

/-- The members of the engine that belong to the channel whose operator has the given name: its
live value, its fromUsd value, its tweak and its lock. -/
def channelData (X : TfToken) (t : TransformationMatrix) :
    List MVector × List MEulerRotation × List MQuaternion × Bool :=
  match X with
  | .translate =>
    ([t.translationValue, t.m_translationFromUsd, t.m_translationTweak], [], [],
      t.translateLocked)
  | .scale => ([t.scaleValue, t.m_scaleFromUsd, t.m_scaleTweak], [], [], t.scaleLocked)
  | .shear => ([t.shearValue, t.m_shearFromUsd, t.m_shearTweak], [], [], t.shearLocked)
  | .scalePivot =>
    ([t.scalePivotValue, t.m_scalePivotFromUsd, t.m_scalePivotTweak], [], [], false)
  | .scalePivotTranslate =>
    ([t.scalePivotTranslationValue, t.m_scalePivotTranslationFromUsd,
      t.m_scalePivotTranslationTweak], [], [], false)
  | .rotatePivot =>
    ([t.rotatePivotValue, t.m_rotatePivotFromUsd, t.m_rotatePivotTweak], [], [], false)
  | .rotatePivotTranslate =>
    ([t.rotatePivotTranslationValue, t.m_rotatePivotTranslationFromUsd,
      t.m_rotatePivotTranslationTweak], [], [], false)
  | .rotate =>
    ([], [t.rotationValue, t.m_rotationFromUsd, t.m_rotationTweak], [], t.rotateLocked)
  | .rotateAxis =>
    ([], [], [t.rotateOrientationValue, t.m_rotateOrientationFromUsd,
      t.m_rotateOrientationTweak], false)
  | .pivot => ([], [], [], false)
  | .transform => ([], [], [], false)

/-- The operator lists of the engine as binding and insertion keep them, on a prim in component
mode without the combined pivot: `m_xformops` and `m_orderedOps` are parallel, the index cache
is no longer than they are, every operator carries the name of the classification it is paired
with, `kPrimHasPivot` and `kPushPrimToMatrix` are clear. -/
def SweepReady (t : TransformationMatrix) : Prop :=
  t.m_xformops.length = t.m_orderedOps.length ∧ IndicesInRange t ∧
  (∀ p ∈ t.m_orderedOps.zip t.m_xformops, p.2.name = p.1.name) ∧
  t.primHasPivot = false ∧ t.pushPrimToMatrix = false

/-- No operator of the name `X` is known to the prim or to the engine: none is listed in the
operator order of the prim, none is in `m_xformops`. -/
def Unlisted (X : TfToken) (t : TransformationMatrix) : Prop :=
  (∀ op ∈ t.stage.xformOpOrder, op.name ≠ X) ∧ (∀ op ∈ t.m_xformops, op.name ≠ X)

/-- The channel of the operator name `X` is in `t'` as it is in `t`: the same data, the same
presence flag, the same operator found by the lockstep walk, the same attributes of that name on
the prim, and no operator of that name listed if none was. -/
def ChannelKept (X : TfToken) (t t' : TransformationMatrix) : Prop :=
  channelData X t' = channelData X t ∧
  hasFlag t'.m_flags (presenceFlagOf X) = hasFlag t.m_flags (presenceFlagOf X) ∧
  t'.findOp X = t.findOp X ∧
  (∀ ty, t'.stage.attrs.lookup (ty, X) = t.stage.attrs.lookup (ty, X)) ∧
  (Unlisted X t → Unlisted X t')

/-- One step of the channel of the operator name `nm` on an engine that is `SweepReady`: the
result is `SweepReady`, the binding, the cached time, the write-back and read-animated-values
preferences and the write-back switch of the rotations are as before, and every other channel is kept. -/
def ChannelStep (nm : TfToken) (t t' : TransformationMatrix) : Prop :=
  SweepReady t →
    SweepReady t' ∧ t'.primValid = t.primValid ∧ t'.m_time = t.m_time ∧
    hasFlag t'.m_flags kPushToPrimEnabled = hasFlag t.m_flags kPushToPrimEnabled ∧
    hasFlag t'.m_flags kReadAnimatedValues = hasFlag t.m_flags kReadAnimatedValues ∧
    t'.m_enableUsdWriteback = t.m_enableUsdWriteback ∧
    ∀ X, X ≠ nm → ChannelKept X t t'

/-- The store `st'` holds, under every key but that of `op`, the attribute that `st` holds. -/
def AttrsKept (op : UsdGeomXformOp) (st' st : UsdStage) : Prop :=
  ∀ key, key ≠ (op.opType, op.name) → st'.attrs.lookup key = st.attrs.lookup key

/-- The engine `t'` is `SweepReady`, has the binding, the cached time, the write-back and
read-animated-values preferences and the write-back switch of `t`, and keeps the channel of the
operator name `X` as it is in `t`. -/
def SweepKept (X : TfToken) (t t' : TransformationMatrix) : Prop :=
  SweepReady t' ∧ t'.primValid = t.primValid ∧ t'.m_time = t.m_time ∧
  hasFlag t'.m_flags kPushToPrimEnabled = hasFlag t.m_flags kPushToPrimEnabled ∧
  hasFlag t'.m_flags kReadAnimatedValues = hasFlag t.m_flags kReadAnimatedValues ∧
  t'.m_enableUsdWriteback = t.m_enableUsdWriteback ∧
  ChannelKept X t t'

/-- The states `t1`, ..., `t9` the nine statements of the per-component sweep of
`enablePushToPrim` pass through from `s0`, each statement being a step of its own channel. -/
def SweepRun (H : Host) (s0 t1 t2 t3 t4 t5 t6 t7 t8 t9 : TransformationMatrix) : Prop :=
  (s0.sweepCall (s0.primHasTranslation || decide (s0.translationValue ≠ MVector.zero))
      (s0.translateTo H .kSuccess s0.translationValue .kTransform) = some t1 ∧
    ChannelStep .translate s0 t1) ∧
  (t1.sweepCall (t1.primHasScale || decide (t1.scaleValue ≠ MVector.one))
      (t1.scaleTo H .kSuccess t1.scaleValue .kTransform) = some t2 ∧
    ChannelStep .scale t1 t2) ∧
  (t2.sweepCall (t2.primHasShear || decide (t2.shearValue ≠ MVector.zero))
      (t2.shearTo H .kSuccess t2.shearValue .kTransform) = some t3 ∧
    ChannelStep .shear t2 t3) ∧
  (t3.sweepCall (t3.primHasScalePivot || decide (t3.scalePivotValue ≠ MVector.zero))
      (t3.setScalePivot H .kSuccess t3.scalePivotValue .kTransform false) = some t4 ∧
    ChannelStep .scalePivot t3 t4) ∧
  (t4.sweepCall
      (t4.primHasScalePivotTranslate || decide (t4.scalePivotTranslationValue ≠ MVector.zero))
      (t4.setScalePivotTranslation H .kSuccess t4.scalePivotTranslationValue .kTransform)
        = some t5 ∧
    ChannelStep .scalePivotTranslate t4 t5) ∧
  (t5.sweepCall (t5.primHasRotatePivot || decide (t5.rotatePivotValue ≠ MVector.zero))
      (t5.setRotatePivot H .kSuccess t5.rotatePivotValue .kTransform false) = some t6 ∧
    ChannelStep .rotatePivot t5 t6) ∧
  (t6.sweepCall
      (t6.primHasRotatePivotTranslate ||
        decide (t6.rotatePivotTranslationValue ≠ MVector.zero))
      (t6.setRotatePivotTranslation H .kSuccess t6.rotatePivotTranslationValue .kTransform)
        = some t7 ∧
    ChannelStep .rotatePivotTranslate t6 t7) ∧
  (t7.sweepCall
      (t7.primHasRotation || decide (H.asQuaternion t7.rotationValue ≠ MQuaternion.identity))
      (t7.rotateToQuaternion H .kSuccess (H.asQuaternion t7.rotationValue) .kTransform)
        = some t8 ∧
    ChannelStep .rotate t7 t8) ∧
  (t8.sweepCall
      (t8.primHasRotateAxes || decide (t8.rotateOrientationValue ≠ MQuaternion.identity))
      (t8.setRotateOrientation H .kSuccess t8.rotateOrientationValue .kTransform false)
        = some t9 ∧
    ChannelStep .rotateAxis t8 t9)

/-- The channel of the operator name `X`, a 3-vector channel whose operator `insertOp` creates
with the type `ty` in float precision, can take the write of the live value `live`: either its
operator is present (the presence flag is set, the lockstep walk finds `op`, the codec write to
`op` is accepted, `vty` is the stored type of `op` and the value `op` decodes to, `ident` where
it holds none, is not within tolerance of `live`), or it is absent (the presence flag is clear,
no operator of the name is listed on the prim or in the engine, the prim has no attribute for
it, `op` is the operator `insertOp` creates, `vty` is float precision and `ident` is not within
tolerance of `live`). -/
def VectorReady (s : TransformationMatrix) (X : TfToken) (ty : XformOpType) (ident live : MVector)
    (read : UsdStage → MVector → UsdGeomXformOp → UsdTimeCode → Bool × MVector)
    (op : UsdGeomXformOp) (vty : UsdDataType) : Prop :=
  (hasFlag s.m_flags (presenceFlagOf X) = true ∧ s.findOp X = some op ∧
      WriteAccepted s op vec3Types ∧ vty = op.GetTypeName s.stage ∧
      (read s.stage ident op s.getTimeCode).2.isEquivalent live = false) ∨
  (hasFlag s.m_flags (presenceFlagOf X) = false ∧ Unlisted X s ∧
      s.stage.attrs.lookup (ty, X) = none ∧ op = ⟨ty, X, false⟩ ∧ vty = .kVec3f ∧
      ident.isEquivalent live = false)

/-- The operator `op` backs the channel of the operator name `X` and holds `live`: the lockstep
walk finds `op` under that name, and the value stored on `op` at the current time code decodes
to `live` converted to the precision of the stored type `vty`, which is `live` itself for double
precision. -/
def VectorHeld (H : Host) (r : TransformationMatrix) (X : TfToken)
    (read : UsdStage → MVector → UsdGeomXformOp → UsdTimeCode → Bool × MVector)
    (op : UsdGeomXformOp) (vty : UsdDataType) (live : MVector) : Prop :=
  r.findOp X = some op ∧ StoreHolds H vty (read r.stage MVector.zero op r.getTimeCode) live

/-- The shear channel can take the write of the live shear: either its operator is present (the
presence flag is set, the lockstep walk finds `op`, and the codec write to `op`, a Matrix4d
operator, is accepted), or it is absent (the presence flag is clear, the live shear is not zero,
no operator named shear is listed on the prim or in the engine, the prim has no attribute for it,
and `op` is the operator `insertOp` creates). -/
def ShearReady (s : TransformationMatrix) (op : UsdGeomXformOp) : Prop :=
  (hasFlag s.m_flags (presenceFlagOf .shear) = true ∧ s.findOp .shear = some op ∧
      WriteAccepted s op [.kMatrix4d]) ∨
  (hasFlag s.m_flags (presenceFlagOf .shear) = false ∧ s.shearValue ≠ MVector.zero ∧
      Unlisted .shear s ∧ s.stage.attrs.lookup (.TypeTransform, .shear) = none ∧
      op = ⟨.TypeTransform, .shear, false⟩)

/-- The operator `op` backs the shear channel and holds `live`: the lockstep walk finds `op`
under the name shear, and the matrix stored on `op` at the current time code decodes to
`live`. -/
def ShearHeld (r : TransformationMatrix) (op : UsdGeomXformOp) (live : MVector) : Prop :=
  r.findOp .shear = some op ∧ readShear r.stage MVector.zero op r.getTimeCode = (true, live)

/-- The rotate channel can take the write of `live`, the live rotation as `rotateTo` stores it
(the Euler form of the quaternion `rotation()` returns): either its operator is present (the
presence flag is set, the lockstep walk finds `op`, a three-axis operator of the order `o`, the
codec write to `op` is accepted, `vty` is the stored type of `op`, and the rotation `op` decodes
to is not within tolerance of `live`), or it is absent (the presence flag is clear, the
quaternion of the live rotation is not the identity, no operator named rotate is listed on the
prim or in the engine, the prim has no attribute for the operator `insertRotateOp` creates, `op`
is that operator, `o` the order of `live`, `vty` float precision, and the zero rotation is not
within tolerance of `live`). -/
def RotationReady (H : Host) (s : TransformationMatrix) (live : MEulerRotation)
    (op : UsdGeomXformOp) (vty : UsdDataType) (o : RotationOrder) : Prop :=
  (hasFlag s.m_flags (presenceFlagOf .rotate) = true ∧ s.findOp .rotate = some op ∧
      WriteAccepted s op vec3Types ∧ op.opType = TransformationMatrix.rotateOpType o ∧
      vty = op.GetTypeName s.stage ∧
      (readRotation s.stage ⟨0, 0, 0, .kXYZ⟩ op s.getTimeCode).2.isEquivalent live = false) ∨
  (hasFlag s.m_flags (presenceFlagOf .rotate) = false ∧
      H.asQuaternion s.rotationValue ≠ MQuaternion.identity ∧ Unlisted .rotate s ∧
      s.stage.attrs.lookup (TransformationMatrix.rotateOpType live.order, .rotate) = none ∧
      op = ⟨TransformationMatrix.rotateOpType live.order, .rotate, false⟩ ∧ o = live.order ∧
      vty = .kVec3f ∧
      MEulerRotation.isEquivalent ⟨0, 0, 0, .kXYZ⟩ live = false)

/-- The operator `op` backs the rotate channel and holds `live`: the lockstep walk finds `op`
under the name rotate, and the value stored on `op` at the current time code decodes to what the
codec computes from the angles of `live` (each converted to degrees, narrowed to the precision
of the stored type `vty` and converted back to radians on the read), with the order `o`. -/
def RotationHeld (H : Host) (r : TransformationMatrix) (op : UsdGeomXformOp) (vty : UsdDataType)
    (o : RotationOrder) (live : MEulerRotation) : Prop :=
  r.findOp .rotate = some op ∧
  readRotation r.stage ⟨0, 0, 0, .kXYZ⟩ op r.getTimeCode
    = (true, ⟨H.narrow vty (live.x * radToDeg) * degToRad,
        H.narrow vty (live.y * radToDeg) * degToRad,
        H.narrow vty (live.z * radToDeg) * degToRad, o⟩)

/-- The quaternion `pushRotateAxisToPrim` compares with `m_rotateOrientationFromUsd`: that of
the Euler rotation whose angles are the stored degrees `v` converted to radians. -/
def rotateAxisQuaternion (H : Host) (v : MVector) : MQuaternion :=
  H.asQuaternion ⟨(v.scale (M_PI / 180)).x, (v.scale (M_PI / 180)).y,
    (v.scale (M_PI / 180)).z, .kXYZ⟩

/-- The vector `pushRotateAxisToPrim` writes for the rotate orientation `q`: the angles of its
Euler form, in degrees. -/
def rotateAxisDegrees (H : Host) (q : MQuaternion) : MVector :=
  ⟨(H.asEulerRotation q).x * radToDeg, (H.asEulerRotation q).y * radToDeg,
    (H.asEulerRotation q).z * radToDeg⟩

/-- The rotate-orientation channel can take the write of `stored`, the value
`setRotateOrientation` keeps as fromUsd (the live rotate orientation times the inverse tweak):
either its operator is present (the presence flag is set, the lockstep walk finds `op`, the
codec write to `op` is accepted, `vty` is the stored type of `op`, and the quaternion of the
angles `op` decodes to is not within tolerance of `stored`), or it is absent (the presence flag
is clear, the live rotate orientation is not the identity, no operator named rotateAxis is
listed on the prim or in the engine, the prim has no attribute for it, `op` is the operator
`insertRotateAxesOp` creates, `vty` float precision, and the quaternion of the zero angles is
not within tolerance of `stored`). -/
def RotateAxisReady (H : Host) (s : TransformationMatrix) (stored : MQuaternion)
    (op : UsdGeomXformOp) (vty : UsdDataType) : Prop :=
  (hasFlag s.m_flags (presenceFlagOf .rotateAxis) = true ∧ s.findOp .rotateAxis = some op ∧
      WriteAccepted s op vec3Types ∧ vty = op.GetTypeName s.stage ∧
      (rotateAxisQuaternion H
        (readVector s.stage MVector.zero op s.getTimeCode).2).isEquivalent stored = false) ∨
  (hasFlag s.m_flags (presenceFlagOf .rotateAxis) = false ∧
      s.rotateOrientationValue ≠ MQuaternion.identity ∧ Unlisted .rotateAxis s ∧
      s.stage.attrs.lookup (.TypeRotateXYZ, .rotateAxis) = none ∧
      op = ⟨.TypeRotateXYZ, .rotateAxis, false⟩ ∧ vty = .kVec3f ∧
      (rotateAxisQuaternion H MVector.zero).isEquivalent stored = false)

/-- The operator `op` backs the rotate-orientation channel and holds `stored`: the lockstep walk
finds `op` under the name rotateAxis, and the value stored on `op` at the current time code
decodes to the angles of the Euler form of `stored`, in degrees, converted to the precision of
the stored type `vty`. -/
def RotateAxisHeld (H : Host) (r : TransformationMatrix) (op : UsdGeomXformOp)
    (vty : UsdDataType) (stored : MQuaternion) : Prop :=
  r.findOp .rotateAxis = some op ∧
  readVector r.stage MVector.zero op r.getTimeCode
    = (true, H.narrowVector vty (rotateAxisDegrees H stored))

instance (t : TransformationMatrix) : Decidable (SweepReady t) := by
  unfold SweepReady IndicesInRange
  exact inferInstance

instance (X : TfToken) (t : TransformationMatrix) : Decidable (Unlisted X t) := by
  unfold Unlisted
  exact inferInstance

/-- The engine `pendingEngine` with a live translation of (1e-11, 0, 0): different from the
identity, yet within the tolerance of the comparisons. -/
def pendingTinyEngine : TransformationMatrix :=
  { pendingEngine with translationValue := ⟨1 / 100000000000, 0, 0⟩ }

/-- An engine without operators, write-back disabled, with the live translation (5, 0, 0), bound
to the prim of `staticTranslateStage`, whose `xformOpOrder` already lists the translate
operator: `AddXformOp` refuses the translate operator. -/
def pendingStaleEngine : TransformationMatrix :=
  { sampleEngine (kFromMayaSchema ||| kInheritsTransform) [] [] [] staticTranslateStage with
    translationValue := ⟨5, 0, 0⟩ }

/-- The engine `tweakedAnimatedEngine` with write-back disabled and animated values not read,
so that `getTimeCode()` is the default time: its translate operator carries time samples and
holds the default value (1, 2, 3), the live translation is (11, 2, 3). -/
def pendingGatedEngine : TransformationMatrix :=
  { tweakedAnimatedEngine with
    m_flags := kFromMayaSchema ||| kInheritsTransform ||| kPrimHasTranslation |||
      kAnimatedTranslation }

/-- An engine without operators, write-back disabled, with the live rotation (1, 0, 0) and the
member `m_enableUsdWriteback` cleared. -/
def pendingRotateEngine : TransformationMatrix :=
  { sampleEngine (kFromMayaSchema ||| kInheritsTransform) [] [] [] emptyStage with
    rotationValue := ⟨1, 0, 0, .kXYZ⟩
    m_enableUsdWriteback := false }

/-- The single-pivot engine `movedPivotEngine`, both live pivots at (4, 5, 6), with write-back
disabled. -/
def pendingCombinedEngine : TransformationMatrix :=
  { movedPivotEngine with
    m_flags := kSinglePivotSchema ||| kInheritsTransform ||| kPrimHasTranslation |||
      kPrimHasPivot }

/-- An engine without operators, write-back disabled, with the live rotate orientation
(1, 0, 0, 1) and the rotate-orientation tweak (0, 0, 0, 2). -/
def pendingAxisEngine : TransformationMatrix :=
  { sampleEngine (kFromMayaSchema ||| kInheritsTransform) [] [] [] emptyStage with
    rotateOrientationValue := ⟨1, 0, 0, 1⟩
    m_rotateOrientationTweak := ⟨0, 0, 0, 2⟩ }

/-- The stage of a prim with a single-axis rotate operator of float precision that holds a
default value of 30 degrees and one time sample, 10 degrees at time 5. -/
def sampledRotateXStage : UsdStage where
  attrs := [((.TypeRotateX, .rotate), ⟨.kFloat, [⟨some (.scalar 30), [(5, .scalar 10)]⟩]⟩)]
  xformOpOrder := [rotateXOp]
  resetXformStack := false
  journal := []

/-- An engine before binding that has write-back and the reading of animated values enabled
and sits at time 5. -/
def timedUnboundEngine : TransformationMatrix :=
  { sampleEngine (kPushToPrimEnabled ||| kReadAnimatedValues) [] [] [] emptyStage with
    m_time := .time 5 }

/-- A host-canonical engine whose rotate-axis slot holds an inverted operator. -/
def invertedAxisEngine : TransformationMatrix :=
  sampleEngine
    (kFromMayaSchema ||| kInheritsTransform ||| kPushToPrimEnabled ||| kPrimHasRotateAxes)
    [⟨.rotateAxis, .TypeRotateXYZ, false⟩] [⟨.TypeRotateXYZ, .rotateAxis, true⟩] []
    ⟨[((.TypeRotateXYZ, .rotateAxis), ⟨.kVec3f, [⟨some (.vec3 ⟨0, 0, 0⟩), []⟩]⟩)],
      [⟨.TypeRotateXYZ, .rotateAxis, true⟩], false, []⟩

/-- A whole-matrix engine whose transform slot holds an inverted operator. -/
def invertedTransformEngine : TransformationMatrix :=
  { sampleEngine
      (kFromMatrix ||| kInheritsTransform ||| kPushToPrimEnabled ||| kPushPrimToMatrix |||
        kPrimHasTransform)
      [⟨.transform, .TypeTransform, false⟩] [⟨.TypeTransform, .transform, true⟩] []
      ⟨[((.TypeTransform, .transform), ⟨.kMatrix4d, [⟨none, []⟩]⟩)],
        [⟨.TypeTransform, .transform, true⟩], false, []⟩ with
    m_enableUsdWriteback := true }

/-- The engine of `singlePivotEngine` with the live scale pivot at (4, 5, 6) and the inverted
twin of the combined pivot cached ahead of the operator itself. -/
def invertedPivotEngine : TransformationMatrix :=
  { singlePivotEngine with
    scalePivotValue := ⟨4, 5, 6⟩
    m_xformops := [⟨.TypeTranslate, .translate, false⟩, ⟨.TypeTranslate, .pivot, true⟩,
      ⟨.TypeTranslate, .pivot, false⟩] }

/-- The engine of `singlePivotEngine` on a prim that lists a scale-pivot operator next to the
combined pivot, `kPrimHasScalePivot` being clear. -/
def staleScalePivotEngine : TransformationMatrix :=
  { singlePivotEngine with
    m_orderedOps := [⟨.translate, .TypeTranslate, false⟩, ⟨.pivot, .TypeTranslate, false⟩,
      ⟨.scalePivot, .TypeTranslate, false⟩, ⟨.pivot, .TypeTranslate, true⟩]
    m_xformops := [⟨.TypeTranslate, .translate, false⟩, ⟨.TypeTranslate, .pivot, false⟩,
      ⟨.TypeTranslate, .scalePivot, false⟩, ⟨.TypeTranslate, .pivot, true⟩]
    stage := { singlePivotStage with
      attrs := singlePivotStage.attrs ++ [floatAttr .scalePivot ⟨1, 2, 3⟩]
      xformOpOrder := [⟨.TypeTranslate, .translate, false⟩, ⟨.TypeTranslate, .pivot, false⟩,
        ⟨.TypeTranslate, .scalePivot, false⟩, ⟨.TypeTranslate, .pivot, true⟩] } }

/-- Two consecutive calls of the same setter with the same arguments: the number of `Set` calls
in the journal and the number of cached operators after the first call, and the same two
numbers after the second. -/
def SetterCall.twice (H : Host) (baseStatus : MStatus) (s : TransformationMatrix)
    (call : SetterCall) : Option ((ℕ × ℕ) × (ℕ × ℕ)) :=
  (call.runWith H baseStatus s).bind (fun a =>
    (call.runWith H baseStatus a.2).map (fun b =>
      ((countSets a.2.stage.journal, a.2.m_xformops.length),
        (countSets b.2.stage.journal, b.2.m_xformops.length))))

/-- The engine of `singlePivotEngine` with the live scale pivot moved to (4, 5, 6), away from
the (1, 2, 3) the prim holds. -/
def pendingSplitEngine : TransformationMatrix :=
  { singlePivotEngine with scalePivotValue := ⟨4, 5, 6⟩ }

/-- A Maya-schema engine whose translate slot holds an inverted operator, with the live
translation at (5, 5, 5) and the attribute on the prim at the origin. -/
def invertedTranslateEngine : TransformationMatrix :=
  { sampleEngine
      (kFromMayaSchema ||| kInheritsTransform ||| kPushToPrimEnabled ||| kPrimHasTranslation)
      [⟨.translate, .TypeTranslate, false⟩] [⟨.TypeTranslate, .translate, true⟩] []
      ⟨[floatAttr .translate ⟨0, 0, 0⟩], [⟨.TypeTranslate, .translate, true⟩], false, []⟩ with
    translationValue := ⟨5, 5, 5⟩ }

/-- What a setter call needs of the engine when the base-class setter fails, so that the live
value stays what it was and the write-back compares it with the stored one. The operator cached
for the channel of the call is no inverted twin: its `Set` would be refused and the stored
value would never catch up. For `rotateTo` with Euler angles the rotate operator is moreover
not a single-axis one unless the engine sits at the default time, `pushDouble` reading the
stored angle at the default time whatever the time of the write. `rotateTo` with a quaternion
gates its write-back on the live rotation, which the write-back copies into the value last read
from the prim, and asks nothing; the rotate-orientation setters ask nothing beyond
`SetterReady`. -/
def SetterCall.FailureReady (s : TransformationMatrix) : SetterCall → Prop
  | .translateTo _ _ => ∀ op, s.findOp .translate = some op → op.isInverseOp = false
  | .scaleTo _ _ => ∀ op, s.findOp .scale = some op → op.isInverseOp = false
  | .shearTo _ _ => ∀ op, s.findOp .shear = some op → op.isInverseOp = false
  | .rotateTo _ _ => ∀ op, s.findOp .rotate = some op → op.isInverseOp = false ∧
      ((op.opType ≠ .TypeRotateX ∧ op.opType ≠ .TypeRotateY ∧ op.opType ≠ .TypeRotateZ) ∨
        s.getTimeCode = .Default)
  | .rotateToQuaternion _ _ => True
  | .setScalePivot _ _ _ => ∀ op, s.findOp .scalePivot = some op → op.isInverseOp = false
  | .setRotatePivot _ _ _ => ∀ op, s.findOp .rotatePivot = some op → op.isInverseOp = false
  | .setScalePivotTranslation _ _ =>
    ∀ op, s.findOp .scalePivotTranslate = some op → op.isInverseOp = false
  | .setRotatePivotTranslation _ _ =>
    ∀ op, s.findOp .rotatePivotTranslate = some op → op.isInverseOp = false
  | .setRotateOrientation _ _ _ => True
  | .setRotateOrientationEuler _ _ _ => True

/-! # Theorems -/

/-! ## Codec gating (C9, C10) -/

theorem timeSampleGate_of (stage : UsdStage) (op : UsdGeomXformOp)
    (hn : 1 ≤ op.GetNumTimeSamples stage)
    (hd : ∀ a, op.GetAttr stage = some a → ∀ spec ∈ a.propertyStack, spec.defaultValue ≠ none) :
    timeSampleGate stage op .Default = true := by
  have h1 : hasEmptyDefaultValue stage op .Default = false := by
    unfold hasEmptyDefaultValue
    cases ha : op.GetAttr stage with
    | none => rfl
    | some a =>
      simp only [List.any_eq_false]
      intro spec hs
      have := hd a ha spec hs
      cases hv : spec.defaultValue with
      | none => exact absurd hv this
      | some v => simp
  have h2 : op.GetNumTimeSamples stage ≠ 0 := by omega
  simp [timeSampleGate, UsdTimeCode.IsDefault, h1, h2]

/-- C9. Time-sample gating: at the default time, on an operator that has at least one time
sample and whose property stack has no spec with an empty default value, every write codec
leaves the stage (and so its journal of `Set` calls) untouched, and those that return a
boolean return `false`. -/
theorem C9_time_sample_gating (H : Host) (stage : UsdStage) (op : UsdGeomXformOp)
    (hn : 1 ≤ op.GetNumTimeSamples stage)
    (hd : ∀ a, op.GetAttr stage = some a → ∀ spec ∈ a.propertyStack, spec.defaultValue ≠ none)
    (v : MVector) (m : MMatrix) (e : MEulerRotation) (x : ℚ) :
    pushVector H stage v op .Default = (false, stage) ∧
    pushPoint H stage v op .Default = (false, stage) ∧
    pushShear stage v op .Default = (false, stage) ∧
    pushMatrix stage m op .Default = (false, stage) ∧
    pushRotation H stage e op .Default = (false, stage) ∧
    pushDouble H stage x op .Default = stage := by
  have hg := timeSampleGate_of stage op hn hd
  refine ⟨?_, ?_, ?_, ?_, ?_, ?_⟩
  · unfold pushVector
    cases op.GetAttr stage <;> simp [hg]
  · simp [pushPoint, hg]
  · simp [pushShear, hg]
  · simp [pushMatrix, hg]
  · simp [pushRotation, hg]
  · simp [pushDouble, hg]

/-- C9 witness: the gate at an animated translate attribute with a non-empty default. -/
theorem C9_time_sample_gating_witness :
    (1 ≤ translateOp.GetNumTimeSamples animatedTranslateStage ∧
      ∀ a, translateOp.GetAttr animatedTranslateStage = some a →
        ∀ spec ∈ a.propertyStack, spec.defaultValue ≠ none) ∧
    pushVector Host.sample animatedTranslateStage ⟨7, 8, 9⟩ translateOp .Default
      = (false, animatedTranslateStage) := by
  have h1 : 1 ≤ translateOp.GetNumTimeSamples animatedTranslateStage := by decide
  have h2 : ∀ a, translateOp.GetAttr animatedTranslateStage = some a →
        ∀ spec ∈ a.propertyStack, spec.defaultValue ≠ none := by
    intro a ha spec hs
    have ha2 : a = ⟨.kVec3d, [⟨some (.vec3 ⟨1, 2, 3⟩), [(1, .vec3 ⟨0, 0, 0⟩), (2, .vec3 ⟨1, 1, 1⟩)]⟩]⟩ := by
      have : translateOp.GetAttr animatedTranslateStage = some ⟨.kVec3d, [⟨some (.vec3 ⟨1, 2, 3⟩), [(1, .vec3 ⟨0, 0, 0⟩), (2, .vec3 ⟨1, 1, 1⟩)]⟩]⟩ := by decide
      rw [this] at ha
      exact (Option.some.inj ha).symm
    subst ha2
    simp at hs
    subst hs
    simp
  exact ⟨⟨h1, h2⟩, (C9_time_sample_gating Host.sample animatedTranslateStage translateOp h1 h2
    ⟨7, 8, 9⟩ (fun _ _ => 0) ⟨0, 0, 0, .kXYZ⟩ 0).1⟩

theorem getAttr_isSome_of_typeName (stage : UsdStage) (op : UsdGeomXformOp)
    (h : op.GetTypeName stage ≠ .kUnknown) : ∃ a, op.GetAttr stage = some a := by
  unfold UsdGeomXformOp.GetTypeName at h
  cases ha : op.GetAttr stage with
  | none => simp [ha] at h
  | some a => exact ⟨a, rfl⟩

theorem setIfChanged_same (stage : UsdStage) (op : UsdGeomXformOp) (value : VtValue)
    (tc setTime : UsdTimeCode) (h : op.Get stage tc = some value) :
    setIfChanged stage op value tc setTime = (true, stage) := by
  simp [setIfChanged, h]

/-- C10 (as stated, refuted). On a double-precision translate attribute that holds (1, 2, 3),
writing (1, 2, 3) again with `pushVector` is a redundant write, and the codec returns `true`,
not `false`. -/
theorem C10_counterexample :
    translateOp.GetTypeName staticTranslateStage = .kVec3d ∧
    translateOp.Get staticTranslateStage .Default
      = some (.vec3 (toGfVec3 (Host.sample.narrow .kVec3d) ⟨1, 2, 3⟩)) ∧
    pushVector Host.sample staticTranslateStage ⟨1, 2, 3⟩ translateOp .Default
      = (true, staticTranslateStage) := by
  decide!

/-- C10 (amended). When the new value, converted to the operator's precision, equals the value
stored at the given time, `pushVector`, `pushPoint`, `pushShear` and `pushMatrix` leave the
stage untouched (no `Set`); `pushVector`, `pushPoint` and `pushMatrix` then return `true`
whenever the time-sample gate does not reject the write. -/
theorem C10_redundant_write_suppressed (H : Host) (stage : UsdStage) (op : UsdGeomXformOp)
    (tc : UsdTimeCode) (v : MVector) (m : MMatrix) :
    (op.GetTypeName stage ∈ vec3Types →
      op.Get stage tc = some (.vec3 (toGfVec3 (H.narrow (op.GetTypeName stage)) v)) →
        (pushVector H stage v op tc).2 = stage ∧ (pushPoint H stage v op tc).2 = stage ∧
        (timeSampleGate stage op tc = false →
          (pushVector H stage v op tc).1 = true ∧ (pushPoint H stage v op tc).1 = true)) ∧
    (op.GetTypeName stage = .kMatrix4d → op.Get stage tc = some (.matrix (shearMatrix v)) →
        (pushShear stage v op tc).2 = stage) ∧
    (op.GetTypeName stage = .kMatrix4d → op.Get stage tc = some (.matrix m) →
        (pushMatrix stage m op tc).2 = stage ∧
        (timeSampleGate stage op tc = false → (pushMatrix stage m op tc).1 = true)) := by
  refine ⟨?_, ?_, ?_⟩
  · intro hty hold
    have hne : op.GetTypeName stage ≠ .kUnknown := by
      intro h
      rw [h] at hty
      simp [vec3Types] at hty
    obtain ⟨a, ha⟩ := getAttr_isSome_of_typeName stage op hne
    simp only [vec3Types, List.mem_cons, List.mem_singleton, List.not_mem_nil, or_false] at hty
    cases hg : timeSampleGate stage op tc <;>
      rcases hty with h | h | h | h <;>
      simp [pushVector, pushPoint, ha, hg, h, Host.narrow, h ▸ hold, setIfChanged_same]
  · intro hty hold
    cases hg : timeSampleGate stage op tc <;>
      simp [pushShear, hg, hty, setIfChanged_same _ _ _ _ _ hold]
  · intro hty hold
    cases hg : timeSampleGate stage op tc <;> simp [pushMatrix, hg, hty, hold]

/-- C10 witness: the amended statement at the static translate attribute holding (1, 2, 3). -/
theorem C10_redundant_write_suppressed_witness :
    (pushVector Host.sample staticTranslateStage ⟨1, 2, 3⟩ translateOp .Default).2
      = staticTranslateStage ∧
    (pushVector Host.sample staticTranslateStage ⟨1, 2, 3⟩ translateOp .Default).1 = true := by
  have h := (C10_redundant_write_suppressed Host.sample staticTranslateStage translateOp .Default
    ⟨1, 2, 3⟩ (fun _ _ => 0)).1 (by decide) (by decide!)
  exact ⟨h.1, (h.2.2 (by decide)).1⟩

/-! ## Operator removal (C7, C8) -/

theorem dropNamed_append {α : Type} (opName : TfToken)
    (o1 o2 : List UsdMayaXformOpClassification) (x1 x2 : List α) (h : o1.length = x1.length) :
    dropNamed opName (o1 ++ o2) (x1 ++ x2) = dropNamed opName o1 x1 ++ dropNamed opName o2 x2 := by
  simp [dropNamed, List.zip_append h]

theorem dropNamed_of_count_zero {α : Type} (opName : TfToken) :
    ∀ (ops : List UsdMayaXformOpClassification) (xs : List α), ops.length = xs.length →
      countNamed opName ops = 0 → dropNamed opName ops xs = xs
  | [], [], _, _ => rfl
  | [], _ :: _, h, _ => by simp at h
  | _ :: _, [], h, _ => by simp at h
  | c :: ops, x :: xs, h, hc => by
    have hlen : ops.length = xs.length := by simpa using h
    by_cases hn : c.name = opName
    · simp [countNamed, List.countP_cons, hn] at hc
    · have hc2 : countNamed opName ops = 0 := by
        simpa [countNamed, List.countP_cons, hn] using hc
      have ih := dropNamed_of_count_zero opName ops xs hlen hc2
      simp only [dropNamed] at ih ⊢
      simp only [decide_not] at ih
      simp [hn, ih]

theorem keepPar_zero {α : Type} (opName : TfToken) (ops : List UsdMayaXformOpClassification)
    (xs : List α) : keepPar opName ops xs 0 = xs := by
  simp [keepPar, dropNamed]

theorem keepPar_succ_match {α : Type} (opName : TfToken)
    (ops : List UsdMayaXformOpClassification) (xs : List α) (i : ℕ)
    (c : UsdMayaXformOpClassification) (hlen : xs.length = ops.length)
    (hc : ops[i]? = some c) (hm : c.name = opName) :
    keepPar opName ops xs (i + 1) = keepPar opName (ops.eraseIdx i) (xs.eraseIdx i) i := by
  obtain ⟨hi, hci⟩ := List.getElem?_eq_some.mp hc
  have hix : i < xs.length := by omega
  have e1 : (ops.eraseIdx i).take i = ops.take i := by
    rw [List.eraseIdx_eq_take_drop_succ, List.take_append_of_le_length (by simp; omega)]
    simp
  have e2 : (xs.eraseIdx i).take i = xs.take i := by
    rw [List.eraseIdx_eq_take_drop_succ, List.take_append_of_le_length (by simp; omega)]
    simp
  have e3 : (xs.eraseIdx i).drop i = xs.drop (i + 1) := by
    rw [List.eraseIdx_eq_take_drop_succ, List.drop_append_of_le_length (by simp; omega)]
    simp [List.drop_take]
  unfold keepPar
  rw [e1, e2, e3, List.take_succ, List.take_succ, hc, List.getElem?_eq_getElem hix]
  rw [dropNamed_append _ _ _ _ _ (by simp; omega)]
  simp [dropNamed, hm]

theorem keepPar_succ_other {α : Type} (opName : TfToken)
    (ops : List UsdMayaXformOpClassification) (xs : List α) (i : ℕ)
    (c : UsdMayaXformOpClassification) (hlen : xs.length = ops.length)
    (hc : ops[i]? = some c) (hm : c.name ≠ opName) :
    keepPar opName ops xs (i + 1) = keepPar opName ops xs i := by
  obtain ⟨hi, hci⟩ := List.getElem?_eq_some.mp hc
  have hix : i < xs.length := by omega
  unfold keepPar
  rw [List.take_succ, List.take_succ, hc, List.getElem?_eq_getElem hix]
  rw [dropNamed_append _ _ _ _ _ (by simp; omega)]
  rw [List.drop_eq_getElem_cons hix]
  simp [dropNamed, hm]

theorem countNamed_take_succ (opName : TfToken) (ops : List UsdMayaXformOpClassification)
    (i : ℕ) (c : UsdMayaXformOpClassification) (hc : ops[i]? = some c) :
    countNamed opName (ops.take (i + 1))
      = countNamed opName (ops.take i) + (if c.name = opName then 1 else 0) := by
  rw [List.take_succ, hc]
  simp [countNamed, List.countP_append, List.countP_cons]

theorem keepPar_of_count_zero {α : Type} (opName : TfToken)
    (ops : List UsdMayaXformOpClassification) (xs : List α) (n : ℕ)
    (hlen : xs.length = ops.length) (h0 : countNamed opName (ops.take n) = 0) :
    keepPar opName ops xs n = xs := by
  unfold keepPar
  rw [dropNamed_of_count_zero opName _ _ (by simp [hlen]) h0]
  exact List.take_append_drop n xs
theorem keepPar_nil {α : Type} (opName : TfToken) (ops : List UsdMayaXformOpClassification)
    (n : ℕ) : keepPar opName ops ([] : List α) n = [] := by
  simp [keepPar, dropNamed]

theorem removeOpLoop_spec (opName : TfToken) :
    ∀ (i : ℕ) (foundOne : Bool) (ops : List UsdMayaXformOpClassification)
      (xformops : List UsdGeomXformOp) (indices : List ℕ),
      i < ops.length → xformops.length = ops.length →
      (indices = [] ∨ indices.length = ops.length) →
      countNamed opName (ops.take (i + 1)) + (if foundOne then 1 else 0) ≤ 2 →
      TransformationMatrix.removeOpLoop opName i foundOne ops xformops indices =
        some (foundOne || decide (0 < countNamed opName (ops.take (i + 1))),
              keepPar opName ops ops (i + 1), keepPar opName ops xformops (i + 1),
              keepPar opName ops indices (i + 1)) := by
  intro i
  induction i with
  | zero =>
    intro foundOne ops xformops indices hi hx hidx hcnt
    have hc : ops[0]? = some ops[0] := List.getElem?_eq_getElem hi
    rw [TransformationMatrix.removeOpLoop, hc]
    simp only
    have hcount := countNamed_take_succ opName ops 0 ops[0] hc
    simp only [List.take_zero, countNamed, List.countP_nil, zero_add] at hcount
    by_cases hm : ops[0].name = opName
    · have hm' : opName = ops[0].name := hm.symm
      have hrange : 0 < xformops.length ∧ (indices.isEmpty = true ∨ 0 < indices.length) := by
        refine ⟨by omega, ?_⟩
        rcases hidx with h | h
        · left; simp [h]
        · right; omega
      have k1 := keepPar_succ_match opName ops ops 0 ops[0] rfl hc hm
      have k2 := keepPar_succ_match opName ops xformops 0 ops[0] hx hc hm
      have k3 : keepPar opName ops indices (0 + 1) =
          (if (!indices.isEmpty) = true then indices.eraseIdx 0 else indices) := by
        rcases hidx with h | h
        · subst h; simp [keepPar_nil]
        · have hne : indices ≠ [] := by
            intro h0; subst h0; simp at h; omega
          rw [keepPar_succ_match opName ops indices 0 ops[0] h hc hm, keepPar_zero]
          simp [hne]
      rw [keepPar_zero] at k1 k2
      simp only [zero_add] at k1 k2 k3 hcount ⊢
      simp only [countNamed] at k1 k2 k3 ⊢
      rw [if_pos hm', if_pos hrange, k1, k2, k3]
      cases foundOne <;> simp [hcount, hm]
    · have hm' : ¬ opName = ops[0].name := fun h => hm h.symm
      have k1 := keepPar_succ_other opName ops ops 0 ops[0] rfl hc hm
      have k2 := keepPar_succ_other opName ops xformops 0 ops[0] hx hc hm
      have k3 : keepPar opName ops indices (0 + 1) = indices := by
        rcases hidx with h | h
        · subst h; simp [keepPar_nil]
        · rw [keepPar_succ_other opName ops indices 0 ops[0] h hc hm, keepPar_zero]
      rw [keepPar_zero] at k1 k2
      simp only [zero_add] at k1 k2 k3 hcount ⊢
      simp only [countNamed] at k1 k2 k3 ⊢
      rw [if_neg hm', k1, k2, k3]
      simp [hcount, hm]
  | succ j ih =>
    intro foundOne ops xformops indices hi hx hidx hcnt
    have hc : ops[j + 1]? = some ops[j + 1] := List.getElem?_eq_getElem hi
    rw [TransformationMatrix.removeOpLoop, hc]
    simp only
    have hcount := countNamed_take_succ opName ops (j + 1) ops[j + 1] hc
    by_cases hm : ops[j + 1].name = opName
    · have hm' : opName = ops[j + 1].name := hm.symm
      have hrange : j + 1 < xformops.length ∧
          (indices.isEmpty = true ∨ j + 1 < indices.length) := by
        refine ⟨by omega, ?_⟩
        rcases hidx with h | h
        · left; simp [h]
        · right; omega
      have k1 := keepPar_succ_match opName ops ops (j + 1) ops[j + 1] rfl hc hm
      have k2 := keepPar_succ_match opName ops xformops (j + 1) ops[j + 1] hx hc hm
      have k3 : keepPar opName ops indices (j + 1 + 1) =
          keepPar opName (ops.eraseIdx (j + 1))
            (if (!indices.isEmpty) = true then indices.eraseIdx (j + 1) else indices) (j + 1) := by
        rcases hidx with h | h
        · subst h; simp [keepPar_nil]
        · have hne : indices ≠ [] := by
            intro h0; subst h0; simp at h; omega
          rw [keepPar_succ_match opName ops indices (j + 1) ops[j + 1] h hc hm]
          simp [hne]
      rw [if_pos hm', if_pos hrange]
      rw [if_pos hm] at hcount
      have e1 : (ops.eraseIdx (j + 1)).take (j + 1) = ops.take (j + 1) := by
        rw [List.eraseIdx_eq_take_drop_succ, List.take_append_of_le_length (by simp; omega)]
        simp
      cases foundOne with
      | true =>
        have h0 : countNamed opName (ops.take (j + 1)) = 0 := by simp at hcnt; omega
        have h0' : countNamed opName ((ops.eraseIdx (j + 1)).take (j + 1)) = 0 := by rw [e1]; exact h0
        have hl1 : (ops.eraseIdx (j + 1)).length = ops.length - 1 := List.length_eraseIdx_of_lt hi
        rw [k1, k2, k3]
        rw [keepPar_of_count_zero opName _ _ _ rfl h0']
        rw [keepPar_of_count_zero opName _ (xformops.eraseIdx (j + 1)) _
          (by rw [List.length_eraseIdx_of_lt (by omega), hl1, hx]) h0']
        have k4 : keepPar opName (ops.eraseIdx (j + 1))
            (if (!indices.isEmpty) = true then indices.eraseIdx (j + 1) else indices) (j + 1)
            = (if (!indices.isEmpty) = true then indices.eraseIdx (j + 1) else indices) := by
          rcases hidx with h | h
          · subst h; simp [keepPar_nil]
          · have hne : indices ≠ [] := by
              intro h0; subst h0; simp at h; omega
            have hie : (!indices.isEmpty) = true := by
              cases indices with
              | nil => exact absurd rfl hne
              | cons _ _ => rfl
            rw [if_pos hie]
            rw [keepPar_of_count_zero opName _ (indices.eraseIdx (j + 1)) _
              (by rw [List.length_eraseIdx_of_lt (by omega), hl1, h]) h0']
        rw [k4]
        simp
      | false =>
        simp only [Bool.false_eq_true, if_false]
        have hl1 : (ops.eraseIdx (j + 1)).length = ops.length - 1 := List.length_eraseIdx_of_lt hi
        have hcnt2 : countNamed opName (ops.take (j + 1)) ≤ 1 := by simp at hcnt; omega
        by_cases hj : j < (ops.eraseIdx (j + 1)).length
        · rw [ih true (ops.eraseIdx (j + 1)) (xformops.eraseIdx (j + 1))
            (if (!indices.isEmpty) = true then indices.eraseIdx (j + 1) else indices) hj
            (by rw [List.length_eraseIdx_of_lt (by omega), hl1, hx])
            (by
              rcases hidx with h | h
              · left; subst h; simp
              · right
                have hne : indices ≠ [] := by
                  intro h0; subst h0; simp at h; omega
                have hie : (!indices.isEmpty) = true := by
                  cases indices with
                  | nil => exact absurd rfl hne
                  | cons _ _ => rfl
                rw [if_pos hie]
                rw [List.length_eraseIdx_of_lt (by omega), hl1, h])
            (by rw [e1]; simp; omega)]
          rw [k1, k2, k3]
          simp
          omega
        · exfalso
          rw [hl1] at hj
          omega
    · have hm' : ¬ opName = ops[j + 1].name := fun h => hm h.symm
      have k1 := keepPar_succ_other opName ops ops (j + 1) ops[j + 1] rfl hc hm
      have k2 := keepPar_succ_other opName ops xformops (j + 1) ops[j + 1] hx hc hm
      have k3 : keepPar opName ops indices (j + 1 + 1) = keepPar opName ops indices (j + 1) := by
        rcases hidx with h | h
        · subst h; simp [keepPar_nil]
        · rw [keepPar_succ_other opName ops indices (j + 1) ops[j + 1] h hc hm]
      rw [if_neg hm']
      rw [if_neg hm] at hcount
      rw [ih foundOne ops xformops indices (by omega) hx hidx (by omega), k1, k2, k3, hcount]
      simp
theorem dropNamed_self (opName : TfToken) :
    ∀ ops : List UsdMayaXformOpClassification,
      dropNamed opName ops ops = ops.filter (fun c => decide (c.name ≠ opName))
  | [] => rfl
  | c :: ops => by
    have ih := dropNamed_self opName ops
    simp only [dropNamed, decide_not] at ih ⊢
    by_cases h : c.name = opName <;> simp [h, ih]

theorem keepPar_length {α : Type} (opName : TfToken) (ops : List UsdMayaXformOpClassification)
    (xs : List α) (h : xs = [] ∨ xs.length = ops.length) :
    keepPar opName ops xs ops.length = dropNamed opName ops xs := by
  rcases h with h | h
  · subst h; simp [keepPar, dropNamed]
  · have ht : List.take ops.length ops = ops := List.take_length ops
    have hx : List.take ops.length xs = xs := by rw [← h]; exact List.take_length xs
    have hd : List.drop ops.length xs = [] := by rw [← h]; exact List.drop_length xs
    unfold keepPar
    rw [ht, hx, hd, List.append_nil]

theorem hasFlag_clearFlag_self (m f : Flags) (hf : f < 2 ^ 32) :
    hasFlag (clearFlag m f) f = false := by
  have h : (m &&& (allFlagBits ^^^ f)) &&& f = 0 := by
    apply Nat.eq_of_testBit_eq
    intro i
    simp only [Nat.testBit_and, Nat.testBit_xor, allFlagBits, Nat.testBit_two_pow_sub_one,
      Nat.zero_testBit]
    by_cases hi : i < 32
    · cases m.testBit i <;> cases f.testBit i <;> simp [hi]
    · have : f.testBit i = false := by
        apply Nat.testBit_lt_two_pow
        calc f < 2 ^ 32 := hf
          _ ≤ 2 ^ i := Nat.pow_le_pow_right (by norm_num) (by omega)
      simp [this]
  simp [hasFlag, clearFlag, h]

theorem buildOrderedOpMayaIndices_parallel (s : TransformationMatrix)
    (hidx : s.m_orderedOpMayaIndices = [] ∨
      s.m_orderedOpMayaIndices.length = s.m_orderedOps.length) :
    s.buildOrderedOpMayaIndices.m_orderedOpMayaIndices = [] ∨
      s.buildOrderedOpMayaIndices.m_orderedOpMayaIndices.length = s.m_orderedOps.length := by
  unfold TransformationMatrix.buildOrderedOpMayaIndices
  split_ifs <;> simp_all

theorem buildOrderedOpMayaIndices_frame (s : TransformationMatrix) :
    s.buildOrderedOpMayaIndices.m_orderedOps = s.m_orderedOps ∧
    s.buildOrderedOpMayaIndices.m_xformops = s.m_xformops ∧
    s.buildOrderedOpMayaIndices.m_flags = s.m_flags ∧
    s.buildOrderedOpMayaIndices.stage = s.stage := by
  unfold TransformationMatrix.buildOrderedOpMayaIndices
  split_ifs <;> simp

/-- C7. `removeOp` removes every match: when `m_orderedOps` (parallel to `m_xformops` and, when
non-empty, to `m_orderedOpMayaIndices`) holds one or two operators of the given name, the call
succeeds, exactly the entries at the matching positions are gone from the three lists (the
others keep their order), no operator of that name remains, `oldFlag` is cleared, and the
operator-order attribute is rewritten with the resulting `m_xformops`. -/
theorem C7_removeOp_removes_every_match (s : TransformationMatrix) (opName : TfToken)
    (oldFlag : Flags) (hflag : oldFlag < 2 ^ 32)
    (hx : s.m_xformops.length = s.m_orderedOps.length)
    (hidx : s.m_orderedOpMayaIndices = [] ∨
      s.m_orderedOpMayaIndices.length = s.m_orderedOps.length)
    (hcount : countNamed opName s.m_orderedOps = 1 ∨ countNamed opName s.m_orderedOps = 2) :
    ∃ s', s.removeOp opName oldFlag = some (.kSuccess, s') ∧
      s'.m_orderedOps = s.m_orderedOps.filter (fun c => decide (c.name ≠ opName)) ∧
      (∀ c ∈ s'.m_orderedOps, c.name ≠ opName) ∧
      s'.m_xformops = dropNamed opName s.m_orderedOps s.m_xformops ∧
      s'.m_orderedOpMayaIndices =
        dropNamed opName s.m_orderedOps s.buildOrderedOpMayaIndices.m_orderedOpMayaIndices ∧
      s'.m_flags = clearFlag s.m_flags oldFlag ∧
      hasFlag s'.m_flags oldFlag = false ∧
      s'.stage = SetXformOpOrder s.stage s'.m_xformops (!hasFlag s'.m_flags kInheritsTransform) := by
  obtain ⟨b1, b2, b3, b4⟩ := buildOrderedOpMayaIndices_frame s
  have hidx' := buildOrderedOpMayaIndices_parallel s hidx
  have hpos : 0 < s.m_orderedOps.length := by
    rcases Nat.eq_zero_or_pos s.m_orderedOps.length with h | h
    · have : s.m_orderedOps = [] := List.length_eq_zero.mp h
      rw [this] at hcount
      simp [countNamed] at hcount
    · exact h
  have hstart : TransformationMatrix.removeStart s.m_orderedOps.length + 1
      = s.m_orderedOps.length := by
    unfold TransformationMatrix.removeStart
    rw [if_neg (by omega)]
    omega
  have hspec := removeOpLoop_spec opName (TransformationMatrix.removeStart s.m_orderedOps.length)
    false s.m_orderedOps s.m_xformops s.buildOrderedOpMayaIndices.m_orderedOpMayaIndices
    (by omega) hx hidx'
    (by rw [hstart, List.take_length]; rcases hcount with h | h <;> simp [h])
  rw [hstart, List.take_length, keepPar_length opName _ _ (Or.inr rfl),
    keepPar_length opName _ _ (Or.inr hx), keepPar_length opName _ _ hidx', dropNamed_self] at hspec
  have hfound : decide (0 < countNamed opName s.m_orderedOps) = true := by
    rcases hcount with h | h <;> simp [h]
  rw [hfound] at hspec
  unfold TransformationMatrix.removeOp
  simp only [b1, b2, b3, b4, hspec, Bool.false_or, Bool.not_true, Bool.false_eq_true, if_false]
  refine ⟨_, rfl, rfl, ?_, rfl, rfl, rfl, hasFlag_clearFlag_self _ _ hflag, rfl⟩
  intro c hc
  simpa using (List.mem_filter.mp hc).2

/-- C7 witness: removing the combined pivot pair from a single-pivot engine. -/
theorem C7_removeOp_removes_every_match_witness :
    ∃ s', singlePivotEngine.removeOp .pivot kPrimHasPivot = some (.kSuccess, s') ∧
      s'.m_orderedOps = [⟨.translate, .TypeTranslate, false⟩] ∧
      s'.m_xformops = [⟨.TypeTranslate, .translate, false⟩] ∧
      hasFlag s'.m_flags kPrimHasPivot = false := by
  obtain ⟨s', h1, h2, _, h4, _, _, h7, _⟩ :=
    C7_removeOp_removes_every_match singlePivotEngine .pivot kPrimHasPivot (by decide)
      (by decide) (by decide) (by decide)
  refine ⟨s', h1, ?_, ?_, h7⟩
  · rw [h2]; decide
  · rw [h4]; decide

theorem removeOp_no_match (s : TransformationMatrix) (opName : TfToken) (oldFlag : Flags)
    (hne : s.m_orderedOps ≠ [])
    (hx : s.m_xformops.length = s.m_orderedOps.length)
    (hidx : s.m_orderedOpMayaIndices = [] ∨
      s.m_orderedOpMayaIndices.length = s.m_orderedOps.length)
    (hcount : countNamed opName s.m_orderedOps = 0) :
    s.removeOp opName oldFlag =
      some (.kFailure, { s.buildOrderedOpMayaIndices with
        m_flags := clearFlag s.m_flags oldFlag }) := by
  obtain ⟨b1, b2, b3, b4⟩ := buildOrderedOpMayaIndices_frame s
  have hidx' := buildOrderedOpMayaIndices_parallel s hidx
  have hpos : 0 < s.m_orderedOps.length := List.length_pos.mpr hne
  have hstart : TransformationMatrix.removeStart s.m_orderedOps.length + 1
      = s.m_orderedOps.length := by
    unfold TransformationMatrix.removeStart
    rw [if_neg (by omega)]
    omega
  have hspec := removeOpLoop_spec opName (TransformationMatrix.removeStart s.m_orderedOps.length)
    false s.m_orderedOps s.m_xformops s.buildOrderedOpMayaIndices.m_orderedOpMayaIndices
    (by omega) hx hidx' (by rw [hstart, List.take_length, hcount]; simp)
  rw [hstart, List.take_length, hcount] at hspec
  have z0 : countNamed opName (List.take s.m_orderedOps.length s.m_orderedOps) = 0 := by
    rw [List.take_length]; exact hcount
  rw [keepPar_of_count_zero opName _ _ _ rfl z0, keepPar_of_count_zero opName _ _ _ hx z0] at hspec
  have hk : keepPar opName s.m_orderedOps s.buildOrderedOpMayaIndices.m_orderedOpMayaIndices
      s.m_orderedOps.length = s.buildOrderedOpMayaIndices.m_orderedOpMayaIndices := by
    rcases hidx' with h | h
    · rw [h]; exact keepPar_nil _ _ _
    · exact keepPar_of_count_zero opName _ _ _ h z0
  rw [hk] at hspec
  unfold TransformationMatrix.removeOp
  simp only [b1, b2, b3, hspec]
  simp [← b1, ← b2]

/-- The empty case of `removeOp`, evaluated. On an engine whose `m_orderedOps` is empty the
loop counter of `removeOp` starts at `size() - 1`, which wraps to the largest `size_t`; the
first statement of the loop body reads `m_orderedOps[i]` outside the vector, so the call has
no defined result instead of returning failure. -/
theorem removeOp_empty_out_of_range :
    emptyPrimEngine.m_orderedOps = [] ∧
    TransformationMatrix.removeStart emptyPrimEngine.m_orderedOps.length = 2 ^ 64 - 1 ∧
    emptyPrimEngine.m_orderedOps[TransformationMatrix.removeStart
      emptyPrimEngine.m_orderedOps.length]? = none ∧
    emptyPrimEngine.removeOp .pivot kPrimHasPivot = none := by
  decide
theorem buildOrderedOpMayaIndices_of_ne_nil (s : TransformationMatrix)
    (h : s.m_orderedOpMayaIndices ≠ []) : s.buildOrderedOpMayaIndices = s := by
  unfold TransformationMatrix.buildOrderedOpMayaIndices
  have : s.m_orderedOpMayaIndices.isEmpty = false := by
    cases hl : s.m_orderedOpMayaIndices with
    | nil => exact absurd hl h
    | cons _ _ => rfl
  simp [this]

/-- C8 (as stated, refuted). A failing `removeOp` does not leave `m_orderedOpMayaIndices`
unchanged: it first runs `buildOrderedOpMayaIndices`, which fills the empty index cache of a
host-canonical engine. -/
theorem C8_counterexample :
    countNamed .scale translateOnlyEngine.m_orderedOps = 0 ∧
    translateOnlyEngine.m_orderedOpMayaIndices = [] ∧
    (translateOnlyEngine.removeOp .scale kPrimHasScale).map
      (fun r => (r.1, r.2.m_orderedOpMayaIndices)) = some (.kFailure, [0]) := by
  decide

/-- C8 (amended). For every state with a non-empty `m_orderedOps` (parallel to `m_xformops`
and, when non-empty, to `m_orderedOpMayaIndices`) in which no operator has the given name,
`removeOp` returns failure, leaves `m_orderedOps`, `m_xformops` and the stage (hence the
operator-order attribute and the journal) unchanged, and leaves `m_orderedOpMayaIndices` as
`buildOrderedOpMayaIndices` makes it: unchanged when it was non-empty. -/
theorem C8_removeOp_fails_without_match (s : TransformationMatrix) (opName : TfToken)
    (oldFlag : Flags) (hne : s.m_orderedOps ≠ [])
    (hx : s.m_xformops.length = s.m_orderedOps.length)
    (hidx : s.m_orderedOpMayaIndices = [] ∨
      s.m_orderedOpMayaIndices.length = s.m_orderedOps.length)
    (hcount : countNamed opName s.m_orderedOps = 0) :
    ∃ s', s.removeOp opName oldFlag = some (.kFailure, s') ∧
      s'.m_orderedOps = s.m_orderedOps ∧ s'.m_xformops = s.m_xformops ∧
      s'.m_orderedOpMayaIndices = s.buildOrderedOpMayaIndices.m_orderedOpMayaIndices ∧
      (s.m_orderedOpMayaIndices ≠ [] → s'.m_orderedOpMayaIndices = s.m_orderedOpMayaIndices) ∧
      s'.stage = s.stage := by
  obtain ⟨b1, b2, _, b4⟩ := buildOrderedOpMayaIndices_frame s
  refine ⟨_, removeOp_no_match s opName oldFlag hne hx hidx hcount, b1, b2, rfl, ?_, b4⟩
  intro h
  simp [buildOrderedOpMayaIndices_of_ne_nil s h]

/-- C8 witness: removing a scale operator from an engine that only has a translate. -/
theorem C8_removeOp_fails_without_match_witness :
    ∃ s', translateOnlyEngine.removeOp .scale kPrimHasScale = some (.kFailure, s') ∧
      s'.m_orderedOps = translateOnlyEngine.m_orderedOps ∧
      s'.m_xformops = translateOnlyEngine.m_xformops ∧
      s'.stage = translateOnlyEngine.stage := by
  obtain ⟨s', h1, h2, h3, _, _, h6⟩ :=
    C8_removeOp_fails_without_match translateOnlyEngine .scale kPrimHasScale (by decide)
      (by decide) (by decide) (by decide)
  exact ⟨s', h1, h2, h3, h6⟩

/-! ## Operator insertion (C5, C6) -/

theorem sorted_insert_findIdx :
    ∀ (l : List ℕ) (x : ℕ), l.Pairwise (· < ·) → x ∉ l →
      (l.insertIdx (l.findIdx (fun y => decide (x ≤ y))) x).Pairwise (· < ·)
  | [], x, _, _ => by simp [List.findIdx, List.insertIdx]
  | a :: t, x, hs, hx => by
    have hxa : x ≠ a := fun h => hx (by simp [h])
    have hxt : x ∉ t := fun h => hx (by simp [h])
    rw [List.pairwise_cons] at hs
    by_cases hle : x ≤ a
    · have : (a :: t).findIdx (fun y => decide (x ≤ y)) = 0 := by
        simp [List.findIdx_cons, hle]
      rw [this]
      simp only [List.insertIdx_zero, List.pairwise_cons]
      refine ⟨?_, hs⟩
      intro b hb
      rcases List.mem_cons.mp hb with h | h
      · omega
      · have := hs.1 b h
        omega
    · have : (a :: t).findIdx (fun y => decide (x ≤ y))
          = t.findIdx (fun y => decide (x ≤ y)) + 1 := by
        simp [List.findIdx_cons, hle]
      rw [this, List.insertIdx_succ_cons, List.pairwise_cons]
      refine ⟨?_, sorted_insert_findIdx t x hs.2 hxt⟩
      intro b hb
      have hb' : b = x ∨ b ∈ t := by
        have := (List.mem_insertIdx (List.findIdx_le_length _)).mp hb
        exact this
      rcases hb' with h | h
      · omega
      · exact hs.1 b h
theorem AddXformOp_none_stage (valid : Bool) (stage : UsdStage) (ty : XformOpType)
    (pr : Precision) (nm : TfToken) (inv : Bool)
    (h : (AddXformOp valid stage ty pr nm inv).1 = none) :
    (AddXformOp valid stage ty pr nm inv).2 = stage := by
  simp only [AddXformOp] at h ⊢
  split_ifs at h ⊢ with h1
  · rfl
  · split at h <;> simp_all

theorem AddXformOp_some_op (valid : Bool) (stage : UsdStage) (ty : XformOpType)
    (pr : Precision) (nm : TfToken) (inv : Bool) (op : UsdGeomXformOp)
    (h : (AddXformOp valid stage ty pr nm inv).1 = some op) : op = ⟨ty, nm, inv⟩ := by
  simp only [AddXformOp] at h
  split_ifs at h with h1
  split at h <;> simp_all

theorem addOp_cases (s : TransformationMatrix) (ty : XformOpType) (pr : Precision)
    (nm : TfToken) (idx : ℕ) (beg : Bool) (r : ℤ) (s' : TransformationMatrix)
    (h : s.addOp ty pr nm idx beg = some (r, s')) :
    ∃ cls, MayaStack.ops[idx]? = some cls ∧
      ((r = -1 ∧ (AddXformOp s.primValid s.stage ty pr nm cls.isInvertedTwin).1 = none ∧ s' = s) ∨
       (∃ p : ℕ, r = (p : ℤ) ∧ p = (if beg then 0 else s.findOpInsertPos idx) ∧
          p ≤ s.m_orderedOps.length ∧ p ≤ s.m_xformops.length ∧
          p ≤ s.m_orderedOpMayaIndices.length ∧
          (AddXformOp s.primValid s.stage ty pr nm cls.isInvertedTwin).1
            = some ⟨ty, nm, cls.isInvertedTwin⟩ ∧
          s' = { s with
            stage := (AddXformOp s.primValid s.stage ty pr nm cls.isInvertedTwin).2,
            m_orderedOps := s.m_orderedOps.insertIdx p cls,
            m_xformops := s.m_xformops.insertIdx p ⟨ty, nm, cls.isInvertedTwin⟩,
            m_orderedOpMayaIndices := s.m_orderedOpMayaIndices.insertIdx p idx })) := by
  unfold TransformationMatrix.addOp at h
  cases hc : MayaStack.ops[idx]? with
  | none => simp [hc] at h
  | some cls =>
    refine ⟨cls, rfl, ?_⟩
    simp only [hc] at h
    cases ha : AddXformOp s.primValid s.stage ty pr nm cls.isInvertedTwin with
    | mk o stage1 =>
      rw [ha] at h
      cases o with
      | none =>
        left
        simp only [Option.some.injEq, Prod.mk.injEq] at h
        have hst : stage1 = s.stage := by
          have := AddXformOp_none_stage s.primValid s.stage ty pr nm cls.isInvertedTwin
            (by rw [ha])
          rw [ha] at this
          exact this
        refine ⟨h.1.symm, rfl, ?_⟩
        rw [← h.2, hst]
      | some op =>
        right
        have hop := AddXformOp_some_op s.primValid s.stage ty pr nm cls.isInvertedTwin op
          (by rw [ha])
        subst hop
        simp only at h
        generalize hp : (if beg = true then 0 else s.findOpInsertPos idx) = p at h
        split_ifs at h with hr
        simp only [Option.some.injEq, Prod.mk.injEq] at h
        exact ⟨p, h.1.symm, rfl, hr.1, hr.2.1, hr.2.2, rfl, h.2.symm⟩
theorem insertOp_cases (s : TransformationMatrix) (ty : XformOpType) (pr : Precision)
    (nm : TfToken) (flag : Flags) (beg : Bool) (st : MStatus) (s' : TransformationMatrix)
    (h : s.insertOp ty pr nm flag beg = some (st, s')) :
    ((MayaStack.FindOpIndexPair nm).2 = NO_INDEX ∧
      ∃ r s2, s.buildOrderedOpMayaIndices.addOp ty pr nm (MayaStack.FindOpIndexPair nm).1 beg
          = some (r, s2) ∧
        ((r = -1 ∧ st = .kFailure ∧ s' = s2) ∨
         (r ≠ -1 ∧ st = .kSuccess ∧ s' = insertDone s2 flag))) ∨
    ((MayaStack.FindOpIndexPair nm).2 ≠ NO_INDEX ∧
      ∃ r2 s1, s.buildOrderedOpMayaIndices.addOp ty pr nm (MayaStack.FindOpIndexPair nm).2 beg
          = some (r2, s1) ∧
        ((r2 = -1 ∧ st = .kFailure ∧ s' = s1) ∨
         (r2 ≠ -1 ∧ ∃ r1 s2, s1.addOp ty pr nm (MayaStack.FindOpIndexPair nm).1 beg
            = some (r1, s2) ∧
            ((r1 = -1 ∧ st = .kFailure ∧ s' = insertUndone s2 r2) ∨
             (r1 ≠ -1 ∧ st = .kSuccess ∧ s' = insertDone s2 flag))))) := by
  unfold TransformationMatrix.insertOp at h
  simp only at h
  by_cases hp : (MayaStack.FindOpIndexPair nm).2 = NO_INDEX
  · left
    refine ⟨hp, ?_⟩
    simp only [hp, ne_eq, not_true_eq_false, if_false, false_and] at h
    cases ha : s.buildOrderedOpMayaIndices.addOp ty pr nm (MayaStack.FindOpIndexPair nm).1 beg with
    | none => simp [ha] at h
    | some x =>
      obtain ⟨r, s2⟩ := x
      refine ⟨r, s2, rfl, ?_⟩
      simp only [ha] at h
      by_cases hr : r = -1
      · left
        simp only [hr, if_true, Option.some.injEq, Prod.mk.injEq] at h
        exact ⟨hr, h.1.symm, h.2.symm⟩
      · right
        simp only [hr, if_false, Option.some.injEq, Prod.mk.injEq] at h
        exact ⟨hr, h.1.symm, h.2.symm⟩
  · right
    refine ⟨hp, ?_⟩
    simp only [ne_eq, hp, not_false_eq_true, if_true, true_and] at h
    cases hb : s.buildOrderedOpMayaIndices.addOp ty pr nm (MayaStack.FindOpIndexPair nm).2 beg with
    | none => simp [hb] at h
    | some y =>
      obtain ⟨r2, s1⟩ := y
      refine ⟨r2, s1, rfl, ?_⟩
      simp only [hb] at h
      by_cases hr2 : r2 = -1
      · left
        simp only [hr2, if_true, Option.some.injEq, Prod.mk.injEq] at h
        exact ⟨hr2, h.1.symm, h.2.symm⟩
      · right
        refine ⟨hr2, ?_⟩
        simp only [hr2, if_false] at h
        cases ha : s1.addOp ty pr nm (MayaStack.FindOpIndexPair nm).1 beg with
        | none => simp [ha] at h
        | some x =>
          obtain ⟨r1, s2⟩ := x
          refine ⟨r1, s2, rfl, ?_⟩
          simp only [ha] at h
          by_cases hr1 : r1 = -1
          · left
            simp only [hr1, if_true, not_false_eq_true, Option.some.injEq, Prod.mk.injEq] at h
            exact ⟨hr1, h.1.symm, h.2.symm⟩
          · right
            simp only [hr1, if_false, Option.some.injEq, Prod.mk.injEq] at h
            exact ⟨hr1, h.1.symm, h.2.symm⟩
theorem indicesInRange_build (s : TransformationMatrix)
    (hx : s.m_xformops.length = s.m_orderedOps.length)
    (hidx : s.m_orderedOpMayaIndices = [] ∨
      s.m_orderedOpMayaIndices.length = s.m_orderedOps.length) :
    IndicesInRange s.buildOrderedOpMayaIndices := by
  obtain ⟨b1, b2, _, _⟩ := buildOrderedOpMayaIndices_frame s
  have h := buildOrderedOpMayaIndices_parallel s hidx
  unfold IndicesInRange
  rw [b1, b2]
  rcases h with h | h
  · rw [h]; simp
  · omega

theorem insertPos_le (s : TransformationMatrix) (idx : ℕ) (beg : Bool) :
    (if beg = true then 0 else s.findOpInsertPos idx) ≤ s.m_orderedOpMayaIndices.length := by
  split_ifs
  · omega
  · exact List.findIdx_le_length _

theorem addOp_fail (s : TransformationMatrix) (ty : XformOpType) (pr : Precision)
    (nm : TfToken) (idx : ℕ) (beg : Bool) (cls : UsdMayaXformOpClassification)
    (hc : MayaStack.ops[idx]? = some cls)
    (ha : (AddXformOp s.primValid s.stage ty pr nm cls.isInvertedTwin).1 = none) :
    s.addOp ty pr nm idx beg = some (-1, s) := by
  have hst := AddXformOp_none_stage _ _ _ _ _ _ ha
  unfold TransformationMatrix.addOp
  simp only [hc]
  cases hr : AddXformOp s.primValid s.stage ty pr nm cls.isInvertedTwin with
  | mk o stage1 =>
    rw [hr] at ha hst
    simp only at ha hst
    subst ha
    subst hst
    rfl

theorem addOp_ok (s : TransformationMatrix) (ty : XformOpType) (pr : Precision)
    (nm : TfToken) (idx : ℕ) (beg : Bool) (cls : UsdMayaXformOpClassification)
    (op : UsdGeomXformOp) (hc : MayaStack.ops[idx]? = some cls)
    (ha : (AddXformOp s.primValid s.stage ty pr nm cls.isInvertedTwin).1 = some op)
    (hr : IndicesInRange s) :
    s.addOp ty pr nm idx beg =
      some (((if beg = true then 0 else s.findOpInsertPos idx : ℕ) : ℤ),
        { s with
          stage := (AddXformOp s.primValid s.stage ty pr nm cls.isInvertedTwin).2,
          m_orderedOps :=
            s.m_orderedOps.insertIdx (if beg = true then 0 else s.findOpInsertPos idx) cls,
          m_xformops := s.m_xformops.insertIdx (if beg = true then 0 else s.findOpInsertPos idx)
            ⟨ty, nm, cls.isInvertedTwin⟩,
          m_orderedOpMayaIndices := s.m_orderedOpMayaIndices.insertIdx
            (if beg = true then 0 else s.findOpInsertPos idx) idx }) := by
  have hop := AddXformOp_some_op _ _ _ _ _ _ _ ha
  have hp := insertPos_le s idx beg
  unfold IndicesInRange at hr
  unfold TransformationMatrix.addOp
  simp only [hc]
  cases hres : AddXformOp s.primValid s.stage ty pr nm cls.isInvertedTwin with
  | mk o stage1 =>
    rw [hres] at ha
    simp only at ha
    subst ha
    subst hop
    simp only
    rw [if_pos ⟨by omega, by omega, hp⟩]

theorem countOrderWrites_AddXformOp (valid : Bool) (stage : UsdStage) (ty : XformOpType)
    (pr : Precision) (nm : TfToken) (inv : Bool) :
    countOrderWrites (AddXformOp valid stage ty pr nm inv).2.journal
      = countOrderWrites stage.journal := by
  simp only [AddXformOp]
  split_ifs
  · rfl
  · split <;> simp [countOrderWrites, List.filter_append]

/-- Engine-side rollback of a failed pair insertion: for `rotatePivot` and `scalePivot`, when
`AddXformOp` fails for the inverted twin (added first) or for the primary member (added after
it), `insertOp` returns failure; `m_orderedOps`, `m_xformops` and `m_orderedOpMayaIndices` are
what they were just before the first member was added (that is, after
`buildOrderedOpMayaIndices`); `m_flags` is unchanged, so `newFlag` is not set; and no
`SetXformOpOrder` call is issued. The stage is untouched when the twin failed, and holds the
effect of the twin's successful `AddXformOp` when the primary member failed. -/
theorem insertOp_twin_failure_rollback (s : TransformationMatrix) (ty : XformOpType)
    (pr : Precision)
    (nm : TfToken) (newFlag : Flags) (beg : Bool)
    (hnm : nm = .rotatePivot ∨ nm = .scalePivot)
    (hx : s.m_xformops.length = s.m_orderedOps.length)
    (hidx : s.m_orderedOpMayaIndices = [] ∨
      s.m_orderedOpMayaIndices.length = s.m_orderedOps.length)
    (hfail : (AddXformOp s.primValid s.stage ty pr nm true).1 = none ∨
      (AddXformOp s.primValid (AddXformOp s.primValid s.stage ty pr nm true).2 ty pr nm false).1
        = none) :
    ∃ s', s.insertOp ty pr nm newFlag beg = some (.kFailure, s') ∧
      s'.m_orderedOps = s.buildOrderedOpMayaIndices.m_orderedOps ∧
      s'.m_xformops = s.buildOrderedOpMayaIndices.m_xformops ∧
      s'.m_orderedOpMayaIndices = s.buildOrderedOpMayaIndices.m_orderedOpMayaIndices ∧
      s'.m_flags = s.m_flags ∧
      countOrderWrites s'.stage.journal = countOrderWrites s.stage.journal ∧
      (s'.stage = s.stage ∨ s'.stage = (AddXformOp s.primValid s.stage ty pr nm true).2) := by
  obtain ⟨b1, b2, b3, b4⟩ := buildOrderedOpMayaIndices_frame s
  have hr0 := indicesInRange_build s hx hidx
  have hv : s.buildOrderedOpMayaIndices.primValid = s.primValid := by
    unfold TransformationMatrix.buildOrderedOpMayaIndices
    split_ifs <;> rfl
  obtain ⟨i1, i2, c1, c2, hpair, hc1, hc2, hi1, hi2, hne⟩ :
      ∃ i1 i2 c1 c2, MayaStack.FindOpIndexPair nm = (i1, i2) ∧ MayaStack.ops[i1]? = some c1 ∧
        MayaStack.ops[i2]? = some c2 ∧ c1.isInvertedTwin = false ∧ c2.isInvertedTwin = true ∧
        i2 ≠ NO_INDEX := by
    rcases hnm with h | h <;> subst h
    · exact ⟨2, 5, ⟨.rotatePivot, .TypeTranslate, false⟩, ⟨.rotatePivot, .TypeTranslate, true⟩,
        by decide, by decide, by decide, rfl, rfl, by decide⟩
    · exact ⟨7, 10, ⟨.scalePivot, .TypeTranslate, false⟩, ⟨.scalePivot, .TypeTranslate, true⟩,
        by decide, by decide, by decide, rfl, rfl, by decide⟩
  unfold TransformationMatrix.insertOp
  simp only [hpair, ne_eq, hne, not_false_eq_true, if_true, true_and]
  cases htwin : (AddXformOp s.primValid s.stage ty pr nm true).1 with
  | none =>
    have h2 := addOp_fail s.buildOrderedOpMayaIndices ty pr nm i2 beg c2 hc2
      (by rw [hi2, hv, b4]; exact htwin)
    rw [h2]
    simp only [if_true]
    exact ⟨_, rfl, rfl, rfl, rfl, b3, by rw [b4], Or.inl b4⟩
  | some op =>
    have hprim : (AddXformOp s.primValid (AddXformOp s.primValid s.stage ty pr nm true).2
        ty pr nm false).1 = none := by
      rcases hfail with h | h
      · rw [htwin] at h; simp at h
      · exact h
    have h2 := addOp_ok s.buildOrderedOpMayaIndices ty pr nm i2 beg c2 op hc2
      (by rw [hi2, hv, b4]; exact htwin) hr0
    rw [h2]
    have hneg : ¬ (((if beg = true then 0
        else s.buildOrderedOpMayaIndices.findOpInsertPos i2 : ℕ) : ℤ) = -1) := by omega
    simp only [hneg, if_false]
    rw [addOp_fail _ ty pr nm i1 beg c1 hc1 (by simp only [hi1, hi2, hv, b4]; exact hprim)]
    simp only [if_true, hneg, not_false_eq_true]
    refine ⟨_, rfl, ?_, ?_, ?_, b3, ?_, Or.inr (by simp only [hi2, hv, b4])⟩
    · cases beg <;> simp [List.eraseIdx_insertIdx]
    · cases beg <;> simp [List.eraseIdx_insertIdx]
    · cases beg <;> simp [List.eraseIdx_insertIdx]
    · simp only [hi2, hv, b4]
      exact countOrderWrites_AddXformOp _ _ _ _ _ _
theorem mayaStack_pair_lt (nm : TfToken) (h : (MayaStack.FindOpIndexPair nm).2 ≠ NO_INDEX) :
    (MayaStack.FindOpIndexPair nm).1 < (MayaStack.FindOpIndexPair nm).2 := by
  cases nm <;> revert h <;> decide

theorem mayaStack_pair_first_ne_zero (nm : TfToken)
    (h : (MayaStack.FindOpIndexPair nm).2 ≠ NO_INDEX) : (MayaStack.FindOpIndexPair nm).1 ≠ 0 := by
  cases nm <;> revert h <;> decide

theorem findIdx_le_of_getElem (l : List ℕ) (x q : ℕ) (hq : q < l.length) (h : x ≤ l[q]) :
    l.findIdx (fun y => decide (x ≤ y)) ≤ q := by
  by_contra hlt
  have := @List.not_of_lt_findIdx ℕ (fun y => decide (x ≤ y)) l q (by omega)
  simp at this
  omega

theorem buildOrderedOpMayaIndices_of_parallel (s : TransformationMatrix)
    (h : s.m_orderedOps.length = s.m_orderedOpMayaIndices.length) :
    s.buildOrderedOpMayaIndices = s := by
  unfold TransformationMatrix.buildOrderedOpMayaIndices
  cases hi : s.m_orderedOpMayaIndices with
  | nil =>
    have : s.m_orderedOps = [] := by
      rw [hi] at h
      exact List.length_eq_zero.mp h
    simp [this]
  | cons a t => simp

theorem findIdx_zero_le (l : List ℕ) : l.findIdx (fun y => decide (0 ≤ y)) = 0 := by
  cases l <;> simp [List.findIdx_cons]

/-- C5. Insertion keeps the canonical order: when `m_orderedOpMayaIndices` is strictly
increasing, parallel to `m_orderedOps` and `m_xformops`, and holds neither canonical index of
the named operator, a successful `insertOp` (with `insertAtBeginning` false, or true for an
operator whose canonical index is 0) leaves the index list strictly increasing and the three
lists parallel; the primary member is inserted at one position `p` of all three lists and, for
a twin pair, the inverted twin at one position `q` of all three, with `p ≤ q`, so that the
non-inverted member precedes the inverted one. -/
theorem C5_insertion_keeps_canonical_order (s : TransformationMatrix) (ty : XformOpType)
    (pr : Precision) (nm : TfToken) (newFlag : Flags) (beg : Bool) (s' : TransformationMatrix)
    (hsorted : s.m_orderedOpMayaIndices.Pairwise (· < ·))
    (hpar1 : s.m_orderedOps.length = s.m_orderedOpMayaIndices.length)
    (hpar2 : s.m_xformops.length = s.m_orderedOpMayaIndices.length)
    (hnot1 : (MayaStack.FindOpIndexPair nm).1 ∉ s.m_orderedOpMayaIndices)
    (hnot2 : (MayaStack.FindOpIndexPair nm).2 ∉ s.m_orderedOpMayaIndices)
    (hbeg : beg = false ∨ (MayaStack.FindOpIndexPair nm).1 = 0)
    (hsucc : s.insertOp ty pr nm newFlag beg = some (.kSuccess, s')) :
    s'.m_orderedOpMayaIndices.Pairwise (· < ·) ∧
    s'.m_orderedOps.length = s'.m_orderedOpMayaIndices.length ∧
    s'.m_xformops.length = s'.m_orderedOpMayaIndices.length ∧
    ∃ p c1, p ≤ s.m_orderedOpMayaIndices.length ∧
      MayaStack.ops[(MayaStack.FindOpIndexPair nm).1]? = some c1 ∧
      (((MayaStack.FindOpIndexPair nm).2 = NO_INDEX ∧
        s'.m_orderedOps = s.m_orderedOps.insertIdx p c1 ∧
        s'.m_xformops = s.m_xformops.insertIdx p ⟨ty, nm, c1.isInvertedTwin⟩ ∧
        s'.m_orderedOpMayaIndices
          = s.m_orderedOpMayaIndices.insertIdx p (MayaStack.FindOpIndexPair nm).1) ∨
       ((MayaStack.FindOpIndexPair nm).2 ≠ NO_INDEX ∧
        ∃ q c2, p ≤ q ∧ q ≤ s.m_orderedOpMayaIndices.length ∧
          MayaStack.ops[(MayaStack.FindOpIndexPair nm).2]? = some c2 ∧
          s'.m_orderedOps = (s.m_orderedOps.insertIdx q c2).insertIdx p c1 ∧
          s'.m_xformops = (s.m_xformops.insertIdx q ⟨ty, nm, c2.isInvertedTwin⟩).insertIdx p
            ⟨ty, nm, c1.isInvertedTwin⟩ ∧
          s'.m_orderedOpMayaIndices =
            (s.m_orderedOpMayaIndices.insertIdx q (MayaStack.FindOpIndexPair nm).2).insertIdx p
              (MayaStack.FindOpIndexPair nm).1)) := by
  have hb := buildOrderedOpMayaIndices_of_parallel s hpar1
  have hcases := insertOp_cases s ty pr nm newFlag beg .kSuccess s' hsucc
  rw [hb] at hcases
  rcases hcases with ⟨hp, r, s2, ha, hres⟩ | ⟨hp, r2, s1, hb2, hres⟩
  · -- a single operator
    rcases hres with ⟨_, hst, _⟩ | ⟨hr, _, hs'⟩
    · exact absurd hst (by decide)
    obtain ⟨c1, hc1, hor⟩ := addOp_cases s ty pr nm _ beg r s2 ha
    rcases hor with ⟨hr', _, _⟩ | ⟨p, _, hpdef, hp1, hp2, hp3, _, hs2⟩
    · exact absurd hr' hr
    have hpf : p = s.m_orderedOpMayaIndices.findIdx
        (fun y => decide ((MayaStack.FindOpIndexPair nm).1 ≤ y)) := by
      rw [hpdef]
      rcases hbeg with h | h
      · simp [h, TransformationMatrix.findOpInsertPos]
      · split_ifs
        · rw [h, findIdx_zero_le]
        · rfl
    subst hs' hs2
    simp only [insertDone]
    refine ⟨?_, ?_, ?_, p, c1, hp3, hc1, Or.inl ⟨hp, rfl, rfl, rfl⟩⟩
    · rw [hpf]
      exact sorted_insert_findIdx _ _ hsorted hnot1
    · rw [List.length_insertIdx _ _ hp1, List.length_insertIdx _ _ hp3, hpar1]
    · rw [List.length_insertIdx _ _ hp2, List.length_insertIdx _ _ hp3, hpar2]
  · -- a twin pair
    have hlt := mayaStack_pair_lt nm hp
    have hbf : beg = false := by
      rcases hbeg with h | h
      · exact h
      · exact absurd h (mayaStack_pair_first_ne_zero nm hp)
    rcases hres with ⟨_, hst, _⟩ | ⟨hr2, r1, s2, ha, hres2⟩
    · exact absurd hst (by decide)
    rcases hres2 with ⟨_, hst, _⟩ | ⟨hr1, _, hs'⟩
    · exact absurd hst (by decide)
    obtain ⟨c2, hc2, hor2⟩ := addOp_cases s ty pr nm _ beg r2 s1 hb2
    rcases hor2 with ⟨hr', _, _⟩ | ⟨q, _, hqdef, hq1, hq2, hq3, _, hs1⟩
    · exact absurd hr' hr2
    obtain ⟨c1, hc1, hor1⟩ := addOp_cases s1 ty pr nm _ beg r1 s2 ha
    rcases hor1 with ⟨hr', _, _⟩ | ⟨p, _, hpdef, hp1, hp2, hp3, _, hs2⟩
    · exact absurd hr' hr1
    subst hbf
    simp only [Bool.false_eq_true, if_false, TransformationMatrix.findOpInsertPos] at hqdef hpdef
    have hsorted1 : (s.m_orderedOpMayaIndices.insertIdx q (MayaStack.FindOpIndexPair nm).2).Pairwise
        (· < ·) := by
      rw [hqdef]
      exact sorted_insert_findIdx _ _ hsorted hnot2
    subst hs1
    simp only at hpdef hp1 hp2 hp3
    have hnot1' : (MayaStack.FindOpIndexPair nm).1 ∉
        s.m_orderedOpMayaIndices.insertIdx q (MayaStack.FindOpIndexPair nm).2 := by
      intro hmem
      rcases (List.mem_insertIdx hq3).mp hmem with h | h
      · omega
      · exact hnot1 h
    have hlen1 : (s.m_orderedOpMayaIndices.insertIdx q (MayaStack.FindOpIndexPair nm).2).length
        = s.m_orderedOpMayaIndices.length + 1 := List.length_insertIdx _ _ hq3
    have hpq : p ≤ q := by
      rw [hpdef]
      apply findIdx_le_of_getElem _ _ q (by omega)
      rw [List.getElem_insertIdx_self _ _ _ hq3]
      omega
    subst hs' hs2
    simp only [insertDone]
    refine ⟨?_, ?_, ?_, p, c1, by omega, hc1, Or.inr ⟨hp, q, c2, hpq, hq3, hc2, rfl, rfl, rfl⟩⟩
    · rw [hpdef]
      exact sorted_insert_findIdx _ _ hsorted1 hnot1'
    · rw [List.length_insertIdx _ _ hp1, List.length_insertIdx _ _ hp3,
        List.length_insertIdx _ _ hq1, hlen1, hpar1]
    · rw [List.length_insertIdx _ _ hp2, List.length_insertIdx _ _ hp3,
        List.length_insertIdx _ _ hq2, hlen1, hpar2]
theorem exists_of_map_fst {α β : Type} (o : Option (α × β)) (a : α)
    (h : o.map Prod.fst = some a) : ∃ b, o = some (a, b) := by
  cases o with
  | none => simp at h
  | some r =>
    obtain ⟨x, b⟩ := r
    simp at h
    exact ⟨b, by rw [h]⟩

/-- C6 (the code departs from the claim): the primary member of the `rotatePivot` pair fails
after the inverted twin was added. The rollback of `insertOp` erases the twin from
`m_orderedOps`, `m_xformops` and `m_orderedOpMayaIndices` only: the call returns failure with
the three vectors and the flags as before, but the `AddXformOp` of the twin has appended it to
the operator order of the prim, which changes from [rotatePivot] to
[rotatePivot, inverted rotatePivot] and is not restored. First on `staleOrderEngine` through
`insertOp`, then through the public calls: `setPrimInternal` on the prim of `lonePivotStage`
followed by `setRotatePivot((4, 5, 6))`. -/
theorem C6_failed_pair_insertion_keeps_twin_in_store :
    ((AddXformOp staleOrderEngine.primValid staleOrderEngine.stage .TypeTranslate .PrecisionFloat
        .rotatePivot true).1 = some ⟨.TypeTranslate, .rotatePivot, true⟩ ∧
      (AddXformOp staleOrderEngine.primValid
        (AddXformOp staleOrderEngine.primValid staleOrderEngine.stage .TypeTranslate
          .PrecisionFloat .rotatePivot true).2 .TypeTranslate .PrecisionFloat
        .rotatePivot false).1 = none ∧
      staleOrderEngine.stage.xformOpOrder = [⟨.TypeTranslate, .rotatePivot, false⟩] ∧
      (staleOrderEngine.insertOp .TypeTranslate .PrecisionFloat .rotatePivot
          kPrimHasRotatePivot false).map
        (fun r => (r.1, r.2.m_orderedOps.length, r.2.m_xformops, r.2.m_orderedOpMayaIndices,
          decide (r.2.m_flags = staleOrderEngine.m_flags)))
        = some (.kFailure, 0, [], [], true) ∧
      (staleOrderEngine.insertOp .TypeTranslate .PrecisionFloat .rotatePivot
          kPrimHasRotatePivot false).map
        (fun r => (r.2.stage.xformOpOrder, r.2.stage.journal))
        = some ([⟨.TypeTranslate, .rotatePivot, false⟩, ⟨.TypeTranslate, .rotatePivot, true⟩],
            [.addXformOp ⟨.TypeTranslate, .rotatePivot, true⟩])) ∧
    ((unboundEmptyEngine.setPrimInternal Host.sample Decomposer.sample .kSuccess
          (some lonePivotStage) false true).map
        (fun r => (r.primValid, r.pushToPrimAvailable, r.primHasRotatePivot, r.m_xformops,
          r.stage.xformOpOrder))
        = some (true, true, false, [⟨.TypeTranslate, .rotatePivot, false⟩],
            [⟨.TypeTranslate, .rotatePivot, false⟩]) ∧
      ((unboundEmptyEngine.setPrimInternal Host.sample Decomposer.sample .kSuccess
          (some lonePivotStage) false true).bind
        (fun r => r.setRotatePivot Host.sample .kSuccess ⟨4, 5, 6⟩ .kTransform false)).map
        (fun q => (q.1, q.2.m_orderedOps.length, q.2.m_xformops, q.2.m_orderedOpMayaIndices,
          q.2.primHasRotatePivot))
        = some (.kFailure, 0, [⟨.TypeTranslate, .rotatePivot, false⟩], [], false) ∧
      ((unboundEmptyEngine.setPrimInternal Host.sample Decomposer.sample .kSuccess
          (some lonePivotStage) false true).bind
        (fun r => r.setRotatePivot Host.sample .kSuccess ⟨4, 5, 6⟩ .kTransform false)).map
        (fun q => (q.2.stage.xformOpOrder, q.2.stage.journal))
        = some ([⟨.TypeTranslate, .rotatePivot, false⟩, ⟨.TypeTranslate, .rotatePivot, true⟩],
            [.addXformOp ⟨.TypeTranslate, .rotatePivot, true⟩])) := by
  refine ⟨⟨by decide, by decide, by decide, ?_, ?_⟩, ⟨?_, ?_, ?_⟩⟩ <;> decide!

/-- C5 witness: inserting `rotatePivotTranslate` into the stack [translate, rotate] yields
[translate, rotatePivotTranslate, rotate]; inserting the `rotatePivot` pair yields
[translate, rotatePivot, rotate, inverted rotatePivot]. -/
theorem C5_insertion_keeps_canonical_order_witness :
    (∃ s', translateRotateEngine.insertOp .TypeTranslate .PrecisionFloat .rotatePivotTranslate
        kPrimHasRotatePivotTranslate false = some (.kSuccess, s') ∧
      s'.m_orderedOps.map (fun c => c.name) = [.translate, .rotatePivotTranslate, .rotate] ∧
      s'.m_orderedOpMayaIndices.Pairwise (· < ·) ∧
      s'.m_orderedOps.length = s'.m_orderedOpMayaIndices.length ∧
      s'.m_xformops.length = s'.m_orderedOpMayaIndices.length) ∧
    (∃ s', translateRotateEngine.insertOp .TypeTranslate .PrecisionFloat .rotatePivot
        kPrimHasRotatePivot false = some (.kSuccess, s') ∧
      s'.m_orderedOps.map (fun c => (c.name, c.isInvertedTwin))
        = [(.translate, false), (.rotatePivot, false), (.rotate, false), (.rotatePivot, true)] ∧
      s'.m_orderedOpMayaIndices.Pairwise (· < ·)) := by
  constructor
  · obtain ⟨s', hs'⟩ := exists_of_map_fst
      (translateRotateEngine.insertOp .TypeTranslate .PrecisionFloat .rotatePivotTranslate
        kPrimHasRotatePivotTranslate false) .kSuccess (by decide)
    have hnames : (translateRotateEngine.insertOp .TypeTranslate .PrecisionFloat
        .rotatePivotTranslate kPrimHasRotatePivotTranslate false).map
          (fun r => r.2.m_orderedOps.map (fun c => c.name))
        = some [.translate, .rotatePivotTranslate, .rotate] := by decide
    rw [hs'] at hnames
    obtain ⟨h1, h2, h3, _⟩ := C5_insertion_keeps_canonical_order translateRotateEngine
      .TypeTranslate .PrecisionFloat .rotatePivotTranslate kPrimHasRotatePivotTranslate false s'
      (by decide) (by decide) (by decide) (by decide) (by decide) (Or.inl rfl) hs'
    exact ⟨s', hs', by simpa using hnames, h1, h2, h3⟩
  · obtain ⟨s', hs'⟩ := exists_of_map_fst
      (translateRotateEngine.insertOp .TypeTranslate .PrecisionFloat .rotatePivot
        kPrimHasRotatePivot false) .kSuccess (by decide)
    have hnames : (translateRotateEngine.insertOp .TypeTranslate .PrecisionFloat
        .rotatePivot kPrimHasRotatePivot false).map
          (fun r => r.2.m_orderedOps.map (fun c => (c.name, c.isInvertedTwin)))
        = some [(.translate, false), (.rotatePivot, false), (.rotate, false),
            (.rotatePivot, true)] := by decide
    rw [hs'] at hnames
    obtain ⟨h1, _, _, _⟩ := C5_insertion_keeps_canonical_order translateRotateEngine
      .TypeTranslate .PrecisionFloat .rotatePivot kPrimHasRotatePivot false s'
      (by decide) (by decide) (by decide) (by decide) (by decide) (Or.inl rfl) hs'
    exact ⟨s', hs', by simpa using hnames, h1⟩

open TransformationMatrix

/-! ## Store lemmas -/

theorem lookup_filter_lt_none (samples : List (ℚ × VtValue)) (t : ℚ) :
    (samples.filter (fun s => decide (s.1 < t))).lookup t = none := by
  induction samples with
  | nil => rfl
  | cons a l ih =>
    by_cases h : a.1 < t
    · have hne : (t == a.1) = false := by
        simp only [beq_eq_false_iff_ne, ne_eq]
        intro h'
        rw [h'] at h
        exact lt_irrefl _ h
      obtain ⟨k, v⟩ := a
      simp only [List.filter_cons, h, decide_True, if_true]
      simp only [List.lookup, hne] at *
      exact ih
    · simp [List.filter_cons, h, ih]

theorem lookup_append_of_none {α β : Type} [BEq α] (l1 l2 : List (α × β)) (k : α)
    (h : l1.lookup k = none) : (l1 ++ l2).lookup k = l2.lookup k := by
  induction l1 with
  | nil => rfl
  | cons a l ih =>
    obtain ⟨k', v⟩ := a
    simp only [List.cons_append, List.lookup] at h ⊢
    cases hk : (k == k') with
    | true => simp [hk] at h
    | false =>
      simp only [hk] at h ⊢
      exact ih h

theorem sampleAt_setSample (samples : List (ℚ × VtValue)) (t : ℚ) (v : VtValue) :
    sampleAt (setSample samples t v) t = some v := by
  unfold sampleAt setSample
  rw [lookup_append_of_none _ _ _ (lookup_filter_lt_none samples t)]
  simp [List.lookup]

theorem setSample_ne_nil (samples : List (ℚ × VtValue)) (t : ℚ) (v : VtValue) :
    (setSample samples t v).isEmpty = false := by
  unfold setSample
  cases h : List.filter (fun s => decide (s.1 < t)) samples <;> simp

theorem Get_author (a : UsdAttribute) (value : VtValue) (tc : UsdTimeCode) :
    (a.author value tc).Get tc = some value := by
  cases tc with
  | Default =>
    cases hp : a.propertyStack with
    | nil => simp [UsdAttribute.author, UsdAttribute.Get, hp]
    | cons s rest => simp [UsdAttribute.author, UsdAttribute.Get, hp]
  | time t =>
    cases hp : a.propertyStack with
    | nil =>
      simp [UsdAttribute.author, UsdAttribute.Get, UsdAttribute.resolved, hp, sampleAt, List.lookup]
    | cons s rest =>
      simp [UsdAttribute.author, UsdAttribute.Get, UsdAttribute.resolved, hp, setSample_ne_nil,
        sampleAt_setSample]

theorem lookup_map_put_self (l : List ((XformOpType × TfToken) × UsdAttribute))
    (key : XformOpType × TfToken) (a a' : UsdAttribute) (h : l.lookup key = some a) :
    (l.map (fun kv => if kv.1 = key then (kv.1, a') else kv)).lookup key = some a' := by
  induction l with
  | nil => simp [List.lookup] at h
  | cons kv l ih =>
    obtain ⟨k, v⟩ := kv
    rw [List.map_cons]
    by_cases hk : k = key
    · rw [if_pos hk]
      simp [List.lookup, hk]
    · have hk' : (key == k) = false := by
        simp only [beq_eq_false_iff_ne, ne_eq]
        exact fun h' => hk h'.symm
      rw [if_neg hk]
      simp only [List.lookup, hk'] at h ⊢
      exact ih h

theorem lookup_map_put_other (l : List ((XformOpType × TfToken) × UsdAttribute))
    (key key' : XformOpType × TfToken) (a' : UsdAttribute) (h : key' ≠ key) :
    (l.map (fun kv => if kv.1 = key then (kv.1, a') else kv)).lookup key' = l.lookup key' := by
  induction l with
  | nil => rfl
  | cons kv l ih =>
    obtain ⟨k, v⟩ := kv
    rw [List.map_cons]
    by_cases hk : k = key
    · rw [if_pos hk]
      have hk' : (key' == k) = false := by
        simp only [beq_eq_false_iff_ne, ne_eq]
        rw [hk]
        exact h
      simp only [List.lookup, hk']
      exact ih
    · rw [if_neg hk]
      simp only [List.lookup]
      cases (key' == k)
      · exact ih
      · rfl

theorem lookup_putAttr_self (stage : UsdStage) (key : XformOpType × TfToken)
    (a a' : UsdAttribute) (h : stage.attrs.lookup key = some a) :
    (stage.putAttr key a').lookup key = some a' :=
  lookup_map_put_self stage.attrs key a a' h

theorem lookup_putAttr_other (stage : UsdStage) (key key' : XformOpType × TfToken)
    (a' : UsdAttribute) (h : key' ≠ key) :
    (stage.putAttr key a').lookup key' = stage.attrs.lookup key' :=
  lookup_map_put_other stage.attrs key key' a' h

theorem Get_after_Set (stage : UsdStage) (op : UsdGeomXformOp) (value : VtValue)
    (tc : UsdTimeCode) (hinv : op.isInverseOp = false) (a : UsdAttribute)
    (ha : op.GetAttr stage = some a) :
    op.Get (op.Set stage value tc).2 tc = some value := by
  unfold UsdGeomXformOp.GetAttr at ha
  simp only [UsdGeomXformOp.Set, hinv, Bool.false_eq_true, if_false, UsdGeomXformOp.GetAttr, ha,
    UsdGeomXformOp.Get]
  rw [lookup_putAttr_self stage _ a _ ha]
  exact Get_author a value tc
theorem Get_fresh (ty : UsdDataType) (tc : UsdTimeCode) :
    (⟨ty, [⟨none, []⟩]⟩ : UsdAttribute).Get tc = none := by
  cases tc <;> simp [UsdAttribute.Get, UsdAttribute.resolved]

theorem timeSampleGate_fresh (stage : UsdStage) (op : UsdGeomXformOp) (ty : UsdDataType)
    (tc : UsdTimeCode) (h : op.GetAttr stage = some ⟨ty, [⟨none, []⟩]⟩) :
    timeSampleGate stage op tc = false := by
  simp [timeSampleGate, UsdGeomXformOp.GetNumTimeSamples, h, UsdAttribute.GetNumTimeSamples,
    UsdAttribute.resolved]

theorem journal_Set (stage : UsdStage) (op : UsdGeomXformOp) (value : VtValue)
    (tc : UsdTimeCode) :
    (op.Set stage value tc).2.journal = stage.journal ++ [StoreEvent.set op value tc] := by
  simp only [UsdGeomXformOp.Set]
  split_ifs
  · rfl
  · split <;> rfl

theorem GetAttr_after_Set (stage : UsdStage) (op : UsdGeomXformOp) (value : VtValue)
    (tc : UsdTimeCode) (hinv : op.isInverseOp = false) (a : UsdAttribute)
    (ha : op.GetAttr stage = some a) :
    op.GetAttr (op.Set stage value tc).2 = some (a.author value tc) := by
  unfold UsdGeomXformOp.GetAttr at ha
  simp only [UsdGeomXformOp.Set, hinv, Bool.false_eq_true, if_false, UsdGeomXformOp.GetAttr, ha]
  exact lookup_putAttr_self stage _ a _ ha

theorem typeName_author (a : UsdAttribute) (value : VtValue) (tc : UsdTimeCode) :
    (a.author value tc).typeName = a.typeName := by
  cases tc <;> simp only [UsdAttribute.author] <;> split <;> rfl

theorem pushVector_fresh_float (H : Host) (stage : UsdStage) (op : UsdGeomXformOp)
    (v : MVector) (tc : UsdTimeCode) (h : op.GetAttr stage = some ⟨.kVec3f, [⟨none, []⟩]⟩) :
    pushVector H stage v op tc
      = (true, (op.Set stage (.vec3 (toGfVec3 H.toFloat v)) tc).2) := by
  simp [pushVector, h, timeSampleGate_fresh stage op _ tc h, UsdGeomXformOp.GetTypeName,
    setIfChanged, UsdGeomXformOp.Get, Get_fresh]

theorem pushPoint_fresh_float (H : Host) (stage : UsdStage) (op : UsdGeomXformOp)
    (v : MVector) (tc : UsdTimeCode) (h : op.GetAttr stage = some ⟨.kVec3f, [⟨none, []⟩]⟩) :
    pushPoint H stage v op tc
      = (true, (op.Set stage (.vec3 (toGfVec3 H.toFloat v)) tc).2) := by
  simp [pushPoint, h, timeSampleGate_fresh stage op _ tc h, UsdGeomXformOp.GetTypeName,
    setIfChanged, UsdGeomXformOp.Get, Get_fresh]

theorem readVector_fresh (stage : UsdStage) (op : UsdGeomXformOp) (r : MVector)
    (ty : UsdDataType) (tc : UsdTimeCode) (h : op.GetAttr stage = some ⟨ty, [⟨none, []⟩]⟩) :
    readVector stage r op tc = (false, r) := by
  simp only [readVector, UsdGeomXformOp.GetTypeName, h, GetAsVec3, UsdGeomXformOp.Get, Get_fresh]
  cases ty <;> rfl

theorem readPoint_fresh (stage : UsdStage) (op : UsdGeomXformOp) (r : MVector)
    (ty : UsdDataType) (tc : UsdTimeCode) (h : op.GetAttr stage = some ⟨ty, [⟨none, []⟩]⟩) :
    readPoint stage r op tc = (false, r) := by
  simp only [readPoint, UsdGeomXformOp.GetTypeName, h, GetAsVec3, UsdGeomXformOp.Get, Get_fresh]
  cases ty <;> rfl

theorem readVector_after_Set (stage : UsdStage) (op : UsdGeomXformOp) (g : GfVec3)
    (r : MVector) (tc : UsdTimeCode) (hinv : op.isInverseOp = false) (a : UsdAttribute)
    (ha : op.GetAttr stage = some a) (hty : a.typeName ∈ vec3Types) :
    readVector (op.Set stage (.vec3 g) tc).2 r op tc = (true, ⟨g.v0, g.v1, g.v2⟩) := by
  have h1 := GetAttr_after_Set stage op (.vec3 g) tc hinv a ha
  have h2 := Get_after_Set stage op (.vec3 g) tc hinv a ha
  simp only [vec3Types, List.mem_cons, List.mem_singleton, List.not_mem_nil, or_false] at hty
  simp only [readVector, UsdGeomXformOp.GetTypeName, h1, typeName_author, GetAsVec3, h2]
  rcases hty with h | h | h | h <;> simp [h]

theorem readPoint_after_Set (stage : UsdStage) (op : UsdGeomXformOp) (g : GfVec3)
    (r : MVector) (tc : UsdTimeCode) (hinv : op.isInverseOp = false) (a : UsdAttribute)
    (ha : op.GetAttr stage = some a) (hty : a.typeName ∈ vec3Types) :
    readPoint (op.Set stage (.vec3 g) tc).2 r op tc = (true, ⟨g.v0, g.v1, g.v2⟩) := by
  have h1 := GetAttr_after_Set stage op (.vec3 g) tc hinv a ha
  have h2 := Get_after_Set stage op (.vec3 g) tc hinv a ha
  simp only [vec3Types, List.mem_cons, List.mem_singleton, List.not_mem_nil, or_false] at hty
  simp only [readPoint, UsdGeomXformOp.GetTypeName, h1, typeName_author, GetAsVec3, h2]
  rcases hty with h | h | h | h <;> simp [h]

/-! ## End-to-end translate (C1) -/

theorem hasFlag_setFlag_self (m f : Flags) (hf : f ≠ 0) : hasFlag (setFlag m f) f = true := by
  have h : (m ||| f) &&& f = f := by
    apply Nat.eq_of_testBit_eq
    intro i
    simp only [Nat.testBit_and, Nat.testBit_or]
    cases m.testBit i <;> cases f.testBit i <;> rfl
  simp [hasFlag, setFlag, h, hf]

theorem setFlag_and_other (m f g : Flags) (h : f &&& g = 0) : setFlag m f &&& g = m &&& g := by
  apply Nat.eq_of_testBit_eq
  intro i
  have hi : (f &&& g).testBit i = false := by rw [h]; exact Nat.zero_testBit i
  simp only [setFlag, Nat.testBit_and, Nat.testBit_or] at hi ⊢
  cases hm : m.testBit i <;> cases hf : f.testBit i <;> cases hg : g.testBit i <;> simp_all

theorem hasFlag_setFlag_other (m f g : Flags) (h : f &&& g = 0) :
    hasFlag (setFlag m f) g = hasFlag m g := by
  simp only [hasFlag, setFlag_and_other m f g h]

theorem clearFlag_and_other (m f g : Flags) (h : f &&& g = 0) (hg : g < 2 ^ 32) :
    clearFlag m f &&& g = m &&& g := by
  apply Nat.eq_of_testBit_eq
  intro i
  have hi : (f &&& g).testBit i = false := by rw [h]; exact Nat.zero_testBit i
  simp only [clearFlag, allFlagBits, Nat.testBit_and, Nat.testBit_xor,
    Nat.testBit_two_pow_sub_one] at hi ⊢
  by_cases h32 : i < 32
  · cases hm : m.testBit i <;> cases hf : f.testBit i <;> cases hgi : g.testBit i <;> simp_all
  · have : g.testBit i = false := by
      apply Nat.testBit_lt_two_pow
      calc g < 2 ^ 32 := hg
        _ ≤ 2 ^ i := Nat.pow_le_pow_right (by norm_num) (by omega)
    simp [this]

theorem hasFlag_clearFlag_other (m f g : Flags) (h : f &&& g = 0) (hg : g < 2 ^ 32) :
    hasFlag (clearFlag m f) g = hasFlag m g := by
  simp only [hasFlag, clearFlag_and_other m f g h hg]

theorem lookup_append_single {α β : Type} [BEq α] [LawfulBEq α] (l : List (α × β)) (k : α) (b : β)
    (h : l.lookup k = none) : (l ++ [(k, b)]).lookup k = some b := by
  rw [lookup_append_of_none l _ k h]
  simp [List.lookup]

theorem isEquivalent_zero_unit : MVector.isEquivalent MVector.zero ⟨1, 0, 0⟩ = false := by
  decide!

theorem isEquivalent_unit_zero : MVector.isEquivalent ⟨1, 0, 0⟩ MVector.zero = false := by
  decide!

theorem removeOp_of_match (s : TransformationMatrix) (opName : TfToken) (oldFlag : Flags)
    (hx : s.m_xformops.length = s.m_orderedOps.length)
    (hidx : s.m_orderedOpMayaIndices = [] ∨
      s.m_orderedOpMayaIndices.length = s.m_orderedOps.length)
    (hcount : countNamed opName s.m_orderedOps = 1 ∨ countNamed opName s.m_orderedOps = 2) :
    s.removeOp opName oldFlag = some (.kSuccess,
      { s.buildOrderedOpMayaIndices with
        m_orderedOps := s.m_orderedOps.filter (fun c => decide (c.name ≠ opName))
        m_xformops := dropNamed opName s.m_orderedOps s.m_xformops
        m_orderedOpMayaIndices :=
          dropNamed opName s.m_orderedOps s.buildOrderedOpMayaIndices.m_orderedOpMayaIndices
        m_flags := clearFlag s.m_flags oldFlag
        stage := SetXformOpOrder s.stage (dropNamed opName s.m_orderedOps s.m_xformops)
          (!hasFlag (clearFlag s.m_flags oldFlag) kInheritsTransform) }) := by
  obtain ⟨b1, b2, b3, b4⟩ := buildOrderedOpMayaIndices_frame s
  have hidx' := buildOrderedOpMayaIndices_parallel s hidx
  have hpos : 0 < s.m_orderedOps.length := by
    rcases Nat.eq_zero_or_pos s.m_orderedOps.length with h | h
    · have : s.m_orderedOps = [] := List.length_eq_zero.mp h
      rw [this] at hcount
      simp [countNamed] at hcount
    · exact h
  have hstart : removeStart s.m_orderedOps.length + 1 = s.m_orderedOps.length := by
    unfold removeStart
    rw [if_neg (by omega)]
    omega
  have hspec := removeOpLoop_spec opName (removeStart s.m_orderedOps.length)
    false s.m_orderedOps s.m_xformops s.buildOrderedOpMayaIndices.m_orderedOpMayaIndices
    (by omega) hx hidx'
    (by rw [hstart, List.take_length]; rcases hcount with h | h <;> simp [h])
  rw [hstart, List.take_length, keepPar_length opName _ _ (Or.inr rfl),
    keepPar_length opName _ _ (Or.inr hx), keepPar_length opName _ _ hidx', dropNamed_self] at hspec
  have hfound : decide (0 < countNamed opName s.m_orderedOps) = true := by
    rcases hcount with h | h <;> simp [h]
  rw [hfound] at hspec
  unfold removeOp
  simp only [b1, b2, b3, b4, hspec, Bool.false_or, Bool.not_true, Bool.false_eq_true, if_false]

theorem length_dropNamed {α : Type} (opName : TfToken) :
    ∀ (ops : List UsdMayaXformOpClassification) (xs : List α), xs.length = ops.length →
      (dropNamed opName ops xs).length
        = (ops.filter (fun c => decide (c.name ≠ opName))).length
  | [], [], _ => rfl
  | [], _ :: _, h => by simp at h
  | _ :: _, [], h => by simp at h
  | c :: ops, x :: xs, h => by
    have ih := length_dropNamed opName ops xs (by simpa using h)
    simp only [dropNamed, decide_not] at ih ⊢
    by_cases hc : c.name = opName <;> simp [hc, ih]

theorem mem_dropNamed {α : Type} (opName : TfToken)
    (ops : List UsdMayaXformOpClassification) (xs : List α) (x : α)
    (h : x ∈ dropNamed opName ops xs) : x ∈ xs := by
  simp only [dropNamed, List.mem_map, List.mem_filter] at h
  obtain ⟨p, ⟨hp, _⟩, rfl⟩ := h
  exact (List.of_mem_zip hp).2

theorem AddXformOp_fresh (stage : UsdStage) (ty : XformOpType) (pr : Precision) (nm : TfToken)
    (inv : Bool) (dty : UsdDataType) (ho : (⟨ty, nm, inv⟩ : UsdGeomXformOp) ∉ stage.xformOpOrder)
    (hattr : stage.attrs.lookup (ty, nm) = none) (hty : GetValueTypeName ty pr = some dty) :
    AddXformOp true stage ty pr nm inv =
      (some ⟨ty, nm, inv⟩,
        { stage with
          attrs := stage.attrs ++ [((ty, nm), ⟨dty, [⟨none, []⟩]⟩)]
          xformOpOrder := stage.xformOpOrder ++ [⟨ty, nm, inv⟩]
          journal := stage.journal ++ [StoreEvent.addXformOp ⟨ty, nm, inv⟩] }) := by
  simp [AddXformOp, ho, hattr, hty]

theorem AddXformOp_reuse (stage : UsdStage) (ty : XformOpType) (pr : Precision) (nm : TfToken)
    (inv : Bool) (a : UsdAttribute) (ho : (⟨ty, nm, inv⟩ : UsdGeomXformOp) ∉ stage.xformOpOrder)
    (hattr : stage.attrs.lookup (ty, nm) = some a) :
    AddXformOp true stage ty pr nm inv =
      (some ⟨ty, nm, inv⟩,
        { stage with
          xformOpOrder := stage.xformOpOrder ++ [⟨ty, nm, inv⟩]
          journal := stage.journal ++ [StoreEvent.addXformOp ⟨ty, nm, inv⟩] }) := by
  simp [AddXformOp, ho, hattr]

theorem primValid_build (s : TransformationMatrix) :
    s.buildOrderedOpMayaIndices.primValid = s.primValid := by
  unfold buildOrderedOpMayaIndices
  split_ifs <;> rfl

theorem indicesInRange_build_of (s : TransformationMatrix)
    (hx : s.m_xformops.length = s.m_orderedOps.length) (hr : IndicesInRange s) :
    IndicesInRange s.buildOrderedOpMayaIndices := by
  unfold IndicesInRange at hr ⊢
  unfold buildOrderedOpMayaIndices
  split_ifs <;> simp [hx, hr.1, hr.2]

/-- The state a successful twin-pair `insertOp` produces, with the twin inserted at `q` and then
the primary member at `p`. -/
theorem insertOp_twin_ok (t : TransformationMatrix) (nm : TfToken) (flag : Flags) (i1 i2 : ℕ)
    (c1 c2 : UsdMayaXformOpClassification)
    (hpair : MayaStack.FindOpIndexPair nm = (i1, i2)) (hne : i2 ≠ NO_INDEX)
    (hc1 : MayaStack.ops[i1]? = some c1) (hc2 : MayaStack.ops[i2]? = some c2)
    (hi1 : c1.isInvertedTwin = false) (hi2 : c2.isInvertedTwin = true) (hlt : i1 ≤ i2)
    (hx : t.m_xformops.length = t.m_orderedOps.length)
    (hr : IndicesInRange t)
    (hv : t.primValid = true)
    (ho1 : (⟨.TypeTranslate, nm, false⟩ : UsdGeomXformOp) ∉ t.stage.xformOpOrder)
    (ho2 : (⟨.TypeTranslate, nm, true⟩ : UsdGeomXformOp) ∉ t.stage.xformOpOrder)
    (hattr : t.stage.attrs.lookup (.TypeTranslate, nm) = none) :
    ∃ p q, p ≤ q ∧ q ≤ t.m_orderedOps.length ∧
      q ≤ t.buildOrderedOpMayaIndices.m_orderedOpMayaIndices.length ∧
      t.insertOp .TypeTranslate .PrecisionFloat nm flag false = some (.kSuccess,
        { t.buildOrderedOpMayaIndices with
          m_orderedOps := (t.m_orderedOps.insertIdx q c2).insertIdx p c1
          m_xformops := (t.m_xformops.insertIdx q ⟨.TypeTranslate, nm, true⟩).insertIdx p
            ⟨.TypeTranslate, nm, false⟩
          m_orderedOpMayaIndices :=
            (t.buildOrderedOpMayaIndices.m_orderedOpMayaIndices.insertIdx q i2).insertIdx p i1
          m_flags := setFlag t.m_flags flag
          stage := SetXformOpOrder
            { t.stage with
              attrs := t.stage.attrs ++ [((.TypeTranslate, nm), ⟨.kVec3f, [⟨none, []⟩]⟩)]
              xformOpOrder := t.stage.xformOpOrder ++
                [⟨.TypeTranslate, nm, true⟩, ⟨.TypeTranslate, nm, false⟩]
              journal := t.stage.journal ++
                [StoreEvent.addXformOp ⟨.TypeTranslate, nm, true⟩,
                 StoreEvent.addXformOp ⟨.TypeTranslate, nm, false⟩] }
            ((t.m_xformops.insertIdx q ⟨.TypeTranslate, nm, true⟩).insertIdx p
              ⟨.TypeTranslate, nm, false⟩)
            (!hasFlag t.m_flags kInheritsTransform) }) := by
  obtain ⟨b1, b2, b3, b4⟩ := buildOrderedOpMayaIndices_frame t
  have hr0 := indicesInRange_build_of t hx hr
  have hv0 := primValid_build t
  -- the twin
  have hA2 := AddXformOp_fresh t.stage .TypeTranslate .PrecisionFloat nm true .kVec3f ho2 hattr rfl
  have h2 := addOp_ok t.buildOrderedOpMayaIndices .TypeTranslate .PrecisionFloat nm i2 false c2
    ⟨.TypeTranslate, nm, true⟩ hc2 (by rw [hi2, hv0, hv, b4, hA2]) hr0
  simp only [Bool.false_eq_true, if_false, hi2, hv0, hv, b4, hA2, b1, b2] at h2
  generalize hq : t.buildOrderedOpMayaIndices.findOpInsertPos i2 = q at h2
  have hq3 : q ≤ t.buildOrderedOpMayaIndices.m_orderedOpMayaIndices.length := by
    rw [← hq]; exact List.findIdx_le_length _
  have hq1 : q ≤ t.m_orderedOps.length := by
    have := hr0.1; rw [b1] at this; omega
  have hq2 : q ≤ t.m_xformops.length := by
    have := hr0.2; rw [b2] at this; omega
  -- the primary member
  have hpq : List.findIdx (fun y => decide (i1 ≤ y))
      (List.insertIdx q i2 t.buildOrderedOpMayaIndices.m_orderedOpMayaIndices) ≤ q := by
    apply findIdx_le_of_getElem _ _ q (by rw [List.length_insertIdx _ _ hq3]; omega)
    rw [List.getElem_insertIdx_self _ _ _ hq3]
    exact hlt
  have ho1' : (⟨.TypeTranslate, nm, false⟩ : UsdGeomXformOp) ∉
      t.stage.xformOpOrder ++ [(⟨.TypeTranslate, nm, true⟩ : UsdGeomXformOp)] := by
    simp only [List.mem_append, List.mem_singleton, not_or]
    exact ⟨ho1, by simp⟩
  have hattr1 : List.lookup (XformOpType.TypeTranslate, nm)
      (t.stage.attrs ++ [((XformOpType.TypeTranslate, nm),
        (⟨.kVec3f, [⟨none, []⟩]⟩ : UsdAttribute))])
      = some ⟨.kVec3f, [⟨none, []⟩]⟩ := lookup_append_single _ _ _ hattr
  refine ⟨_, q, hpq, hq1, hq3, ?_⟩
  unfold insertOp
  simp only [hpair, ne_eq, hne, not_false_eq_true, if_true, true_and]
  rw [h2]
  have hneg : ¬ ((q : ℤ) = -1) := by omega
  simp only [hneg, if_false]
  rw [addOp_ok _ .TypeTranslate .PrecisionFloat nm i1 false c1 ⟨.TypeTranslate, nm, false⟩ hc1]
  rotate_left
  · simp only [hi1, hv0, hv]
    rw [AddXformOp_reuse _ _ _ _ _ _ ho1' hattr1]
  · unfold IndicesInRange at hr0 ⊢
    simp only [List.length_insertIdx _ _ hq1, List.length_insertIdx _ _ hq2,
      List.length_insertIdx _ _ hq3]
    rw [b1, b2] at hr0
    omega
  simp only [Bool.false_eq_true, if_false, hi1, hv0, hv, findOpInsertPos]
  rw [AddXformOp_reuse _ _ _ _ _ _ ho1' hattr1]
  have hneg1 : ∀ p : ℕ, ¬ ((p : ℤ) = -1) := by intro p; omega
  simp only [hneg1, if_false, SetXformOpOrder, b3, List.append_assoc, List.singleton_append]

theorem buildOrderedOpMayaIndices_eq (s : TransformationMatrix) :
    s.buildOrderedOpMayaIndices =
      { s with m_orderedOpMayaIndices := s.buildOrderedOpMayaIndices.m_orderedOpMayaIndices } := by
  unfold buildOrderedOpMayaIndices
  split_ifs <;> rfl

theorem find_zip_insertIdx {α β : Type} (P : α → Bool) (c : α) (x : β) (hP : P c = true) :
    ∀ (p : ℕ) (l1 : List α) (l2 : List β), p ≤ l1.length → p ≤ l2.length →
      (∀ k (hk : k < l1.length), k < p → P l1[k] = false) →
      ((l1.insertIdx p c).zip (l2.insertIdx p x)).find? (fun pr => P pr.1) = some (c, x)
  | 0, l1, l2, _, _, _ => by simp [List.insertIdx_zero, hP]
  | p + 1, [], _, h1, _, _ => by simp at h1
  | p + 1, _ :: _, [], _, h2, _ => by simp at h2
  | p + 1, a :: l1, b :: l2, h1, h2, h => by
    have ha : P a = false := h 0 (by simp) (by omega)
    have ih := find_zip_insertIdx P c x hP p l1 l2 (by simpa using h1) (by simpa using h2)
      (fun k hk hkp => by
        have := h (k + 1) (by simpa using hk) (by omega)
        simpa using this)
    simp only [List.insertIdx_succ_cons, List.zip_cons_cons, List.find?_cons, ha]
    exact ih

theorem countNamed_insertIdx (nm : TfToken) (ops : List UsdMayaXformOpClassification)
    (c : UsdMayaXformOpClassification) (p : ℕ) (hp : p ≤ ops.length) :
    countNamed nm (ops.insertIdx p c) = countNamed nm ops + (if c.name = nm then 1 else 0) := by
  unfold countNamed
  rw [(List.perm_insertIdx c ops hp).countP_eq, List.countP_cons]
  simp

theorem countNamed_filter_self (nm : TfToken) (ops : List UsdMayaXformOpClassification) :
    countNamed nm (ops.filter (fun c => decide (c.name ≠ nm))) = 0 := by
  unfold countNamed
  rw [List.countP_eq_zero]
  intro a ha
  simp only [List.mem_filter, decide_eq_true_eq] at ha
  simpa using ha.2

theorem countNamed_filter_zero (nm nm' : TfToken) (ops : List UsdMayaXformOpClassification)
    (h : countNamed nm ops = 0) :
    countNamed nm (ops.filter (fun c => decide (c.name ≠ nm'))) = 0 := by
  unfold countNamed at h ⊢
  rw [List.countP_eq_zero] at h ⊢
  intro a ha
  exact h a (List.mem_filter.mp ha).1

/-- What a successful twin-pair `insertOp` leaves behind, as a list of facts about the new
state. -/
theorem insertOp_twin_spec (t : TransformationMatrix) (nm : TfToken) (flag : Flags) (i1 i2 : ℕ)
    (c1 c2 : UsdMayaXformOpClassification)
    (hpair : MayaStack.FindOpIndexPair nm = (i1, i2)) (hne : i2 ≠ NO_INDEX)
    (hc1 : MayaStack.ops[i1]? = some c1) (hc2 : MayaStack.ops[i2]? = some c2)
    (hi1 : c1.isInvertedTwin = false) (hi2 : c2.isInvertedTwin = true) (hlt : i1 ≤ i2)
    (hn1 : c1.name = nm)
    (hx : t.m_xformops.length = t.m_orderedOps.length)
    (hr : IndicesInRange t)
    (hv : t.primValid = true)
    (ho1 : (⟨.TypeTranslate, nm, false⟩ : UsdGeomXformOp) ∉ t.stage.xformOpOrder)
    (ho2 : (⟨.TypeTranslate, nm, true⟩ : UsdGeomXformOp) ∉ t.stage.xformOpOrder)
    (hattr : t.stage.attrs.lookup (.TypeTranslate, nm) = none)
    (hcnt : countNamed nm t.m_orderedOps = 0) :
    ∃ t', t.insertOp .TypeTranslate .PrecisionFloat nm flag false = some (.kSuccess, t') ∧
      t'.toMPxTransformationMatrix = t.toMPxTransformationMatrix ∧
      t'.primValid = t.primValid ∧ t'.m_time = t.m_time ∧
      t'.m_flags = setFlag t.m_flags flag ∧
      t'.m_xformops.length = t'.m_orderedOps.length ∧
      IndicesInRange t' ∧
      t'.m_orderedOps.Perm (c1 :: c2 :: t.m_orderedOps) ∧
      t'.m_xformops.Perm (⟨.TypeTranslate, nm, false⟩ :: ⟨.TypeTranslate, nm, true⟩ :: t.m_xformops) ∧
      t'.stage.xformOpOrder = t'.m_xformops ∧
      t'.stage.attrs = t.stage.attrs ++ [((.TypeTranslate, nm), ⟨.kVec3f, [⟨none, []⟩]⟩)] ∧
      t'.findOp nm = some ⟨.TypeTranslate, nm, false⟩ := by
  obtain ⟨p, q, hpq, hq, hq3, h⟩ := insertOp_twin_ok t nm flag i1 i2 c1 c2 hpair hne hc1 hc2
    hi1 hi2 hlt hx hr hv ho1 ho2 hattr
  have hb := buildOrderedOpMayaIndices_eq t
  have hr0 := indicesInRange_build_of t hx hr
  obtain ⟨b1, b2, b3, b4⟩ := buildOrderedOpMayaIndices_frame t
  have hqx : q ≤ t.m_xformops.length := by omega
  have hp1 : p ≤ (t.m_orderedOps.insertIdx q c2).length := by
    rw [List.length_insertIdx _ _ hq]; omega
  have hp2 : p ≤ (t.m_xformops.insertIdx q (⟨.TypeTranslate, nm, true⟩ : UsdGeomXformOp)).length := by
    rw [List.length_insertIdx _ _ hqx]; omega
  refine ⟨_, h, ?_, ?_, ?_, rfl, ?_, ?_, ?_, ?_, rfl, rfl, ?_⟩
  · rw [hb]
  · rw [hb]
  · rw [hb]
  · simp only [List.length_insertIdx _ _ hp1, List.length_insertIdx _ _ hp2,
      List.length_insertIdx _ _ hq, List.length_insertIdx _ _ hqx, hx]
  · unfold IndicesInRange at hr0 ⊢
    have hp3 : p ≤ (t.buildOrderedOpMayaIndices.m_orderedOpMayaIndices.insertIdx q i2).length := by
      rw [List.length_insertIdx _ _ hq3]; omega
    simp only [List.length_insertIdx _ _ hp1, List.length_insertIdx _ _ hp2,
      List.length_insertIdx _ _ hq, List.length_insertIdx _ _ hqx,
      List.length_insertIdx _ _ hp3, List.length_insertIdx _ _ hq3]
    rw [b1, b2] at hr0
    omega
  · exact (List.perm_insertIdx c1 _ hp1).trans ((List.perm_insertIdx c2 _ hq).cons c1)
  · exact (List.perm_insertIdx _ _ hp2).trans ((List.perm_insertIdx _ _ hqx).cons _)
  · simp only [findOp]
    rw [find_zip_insertIdx (fun c => decide (c.name = nm)) c1 _ (by simp [hn1]) p _ _ hp1 hp2]
    · rfl
    · intro k hk hkp
      rw [List.getElem_insertIdx_of_lt _ _ _ _ (by omega) (by omega)]
      unfold countNamed at hcnt
      rw [List.countP_eq_zero] at hcnt
      have := hcnt _ (List.getElem_mem (show k < t.m_orderedOps.length by omega))
      simpa using this

theorem readPoint_congr (st1 st2 : UsdStage) (op : UsdGeomXformOp) (r : MPoint)
    (tc : UsdTimeCode) (h : op.GetAttr st1 = op.GetAttr st2) :
    readPoint st1 r op tc = readPoint st2 r op tc := by
  simp only [readPoint, UsdGeomXformOp.GetTypeName, GetAsVec3, UsdGeomXformOp.Get, h]

/-- The first push into the attribute `AddXformOp` has just created: the value is authored,
the operator order and the other attributes are left alone. -/
theorem pushPoint_fresh_spec (H : Host) (st : UsdStage) (nm : TfToken) (v : MPoint)
    (tc : UsdTimeCode)
    (ha : (UsdGeomXformOp.mk .TypeTranslate nm false).GetAttr st
      = some ⟨.kVec3f, [⟨none, []⟩]⟩) :
    (pushPoint H st v ⟨.TypeTranslate, nm, false⟩ tc).2.xformOpOrder = st.xformOpOrder ∧
    (∀ k, k ≠ (XformOpType.TypeTranslate, nm) →
      (pushPoint H st v ⟨.TypeTranslate, nm, false⟩ tc).2.attrs.lookup k = st.attrs.lookup k) ∧
    readPoint (pushPoint H st v ⟨.TypeTranslate, nm, false⟩ tc).2 MVector.zero
      ⟨.TypeTranslate, nm, false⟩ tc = (true, ⟨H.toFloat v.x, H.toFloat v.y, H.toFloat v.z⟩) := by
  rw [pushPoint_fresh_float H st _ v tc ha]
  refine ⟨?_, ?_, ?_⟩
  · simp only [UsdGeomXformOp.Set, Bool.false_eq_true, if_false, ha]
  · intro k hk
    simp only [UsdGeomXformOp.Set, Bool.false_eq_true, if_false, ha]
    exact lookup_putAttr_other st _ k _ hk
  · exact readPoint_after_Set st _ _ _ tc rfl _ ha (by decide)

theorem hasFlag_congr (m m' f : Flags) (h : m = m') : hasFlag m f = hasFlag m' f := by rw [h]

/-- Frame and effect of `pushScalePivotToPrim` right after the scale-pivot pair was inserted. -/
theorem pushScalePivotToPrim_fresh (H : Host) (t : TransformationMatrix)
    (hf : t.findOp .scalePivot = some ⟨.TypeTranslate, .scalePivot, false⟩)
    (ha : (UsdGeomXformOp.mk .TypeTranslate .scalePivot false).GetAttr t.stage
      = some ⟨.kVec3f, [⟨none, []⟩]⟩) :
    (t.pushScalePivotToPrim H).toMPxTransformationMatrix = t.toMPxTransformationMatrix ∧
    (t.pushScalePivotToPrim H).primValid = t.primValid ∧
    (t.pushScalePivotToPrim H).m_time = t.m_time ∧
    (t.pushScalePivotToPrim H).m_flags = t.m_flags ∧
    (t.pushScalePivotToPrim H).m_orderedOps = t.m_orderedOps ∧
    (t.pushScalePivotToPrim H).m_xformops = t.m_xformops ∧
    (t.pushScalePivotToPrim H).m_orderedOpMayaIndices = t.m_orderedOpMayaIndices ∧
    (t.pushScalePivotToPrim H).stage.xformOpOrder = t.stage.xformOpOrder ∧
    (∀ k, k ≠ (XformOpType.TypeTranslate, TfToken.scalePivot) →
      (t.pushScalePivotToPrim H).stage.attrs.lookup k = t.stage.attrs.lookup k) ∧
    (MVector.isEquivalent MVector.zero t.scalePivotValue = false →
      readPoint (t.pushScalePivotToPrim H).stage MVector.zero
        ⟨.TypeTranslate, .scalePivot, false⟩ t.getTimeCode
        = (true, ⟨H.toFloat t.scalePivotValue.x, H.toFloat t.scalePivotValue.y,
            H.toFloat t.scalePivotValue.z⟩)) := by
  obtain ⟨p1, p2, p3⟩ := pushPoint_fresh_spec H t.stage .scalePivot t.scalePivotValue
    t.getTimeCode ha
  simp only [pushScalePivotToPrim, hf, internal_readPoint,
    readPoint_fresh t.stage _ MVector.zero _ t.getTimeCode ha, internal_pushPoint]
  cases he : MVector.isEquivalent MVector.zero t.scalePivotValue
  · simp only [Bool.not_false, if_true, true_and]
    exact ⟨p1, p2, fun _ => p3⟩
  · simp

/-- Frame and effect of `pushRotatePivotToPrim` right after the rotate-pivot pair was
inserted. -/
theorem pushRotatePivotToPrim_fresh (H : Host) (t : TransformationMatrix)
    (hf : t.findOp .rotatePivot = some ⟨.TypeTranslate, .rotatePivot, false⟩)
    (ha : (UsdGeomXformOp.mk .TypeTranslate .rotatePivot false).GetAttr t.stage
      = some ⟨.kVec3f, [⟨none, []⟩]⟩) :
    (t.pushRotatePivotToPrim H).toMPxTransformationMatrix = t.toMPxTransformationMatrix ∧
    (t.pushRotatePivotToPrim H).primValid = t.primValid ∧
    (t.pushRotatePivotToPrim H).m_time = t.m_time ∧
    (t.pushRotatePivotToPrim H).m_flags = t.m_flags ∧
    (t.pushRotatePivotToPrim H).m_orderedOps = t.m_orderedOps ∧
    (t.pushRotatePivotToPrim H).m_xformops = t.m_xformops ∧
    (t.pushRotatePivotToPrim H).m_orderedOpMayaIndices = t.m_orderedOpMayaIndices ∧
    (t.pushRotatePivotToPrim H).stage.xformOpOrder = t.stage.xformOpOrder ∧
    (∀ k, k ≠ (XformOpType.TypeTranslate, TfToken.rotatePivot) →
      (t.pushRotatePivotToPrim H).stage.attrs.lookup k = t.stage.attrs.lookup k) ∧
    (MVector.isEquivalent MVector.zero t.rotatePivotValue = false →
      readPoint (t.pushRotatePivotToPrim H).stage MVector.zero
        ⟨.TypeTranslate, .rotatePivot, false⟩ t.getTimeCode
        = (true, ⟨H.toFloat t.rotatePivotValue.x, H.toFloat t.rotatePivotValue.y,
            H.toFloat t.rotatePivotValue.z⟩)) := by
  obtain ⟨p1, p2, p3⟩ := pushPoint_fresh_spec H t.stage .rotatePivot t.rotatePivotValue
    t.getTimeCode ha
  simp only [pushRotatePivotToPrim, hf, internal_readPoint,
    readPoint_fresh t.stage _ MVector.zero _ t.getTimeCode ha, internal_pushPoint]
  cases he : MVector.isEquivalent MVector.zero t.rotatePivotValue
  · simp only [Bool.not_false, if_true, true_and]
    exact ⟨p1, p2, fun _ => p3⟩
  · simp

/-- What a successful `removeOp` leaves behind, as a list of facts about the new state. -/
theorem removeOp_spec (s : TransformationMatrix) (opName : TfToken) (oldFlag : Flags)
    (hx : s.m_xformops.length = s.m_orderedOps.length)
    (hidx : s.m_orderedOpMayaIndices = [] ∨
      s.m_orderedOpMayaIndices.length = s.m_orderedOps.length)
    (hcount : countNamed opName s.m_orderedOps = 1 ∨ countNamed opName s.m_orderedOps = 2) :
    ∃ s', s.removeOp opName oldFlag = some (.kSuccess, s') ∧
      s'.toMPxTransformationMatrix = s.toMPxTransformationMatrix ∧
      s'.primValid = s.primValid ∧ s'.m_time = s.m_time ∧
      s'.m_flags = clearFlag s.m_flags oldFlag ∧
      s'.m_orderedOps = s.m_orderedOps.filter (fun c => decide (c.name ≠ opName)) ∧
      s'.m_xformops = dropNamed opName s.m_orderedOps s.m_xformops ∧
      s'.m_xformops.length = s'.m_orderedOps.length ∧
      IndicesInRange s' ∧
      s'.stage.xformOpOrder = s'.m_xformops ∧
      s'.stage.attrs = s.stage.attrs := by
  have hb := buildOrderedOpMayaIndices_eq s
  have hpar := buildOrderedOpMayaIndices_parallel s hidx
  have hl := length_dropNamed opName s.m_orderedOps s.m_xformops hx
  refine ⟨_, removeOp_of_match s opName oldFlag hx hidx hcount, ?_, ?_, ?_, rfl, rfl, rfl, hl,
    ?_, rfl, rfl⟩
  · rw [hb]
  · rw [hb]
  · rw [hb]
  · unfold IndicesInRange
    simp only [hl]
    rcases hpar with h | h
    · rw [h]; simp [dropNamed]
    · rw [length_dropNamed opName s.m_orderedOps _ h]; simp

theorem getTimeCode_congr (t t' : TransformationMatrix)
    (hf : hasFlag t.m_flags kReadAnimatedValues = hasFlag t'.m_flags kReadAnimatedValues)
    (ht : t.m_time = t'.m_time) : t.getTimeCode = t'.getTimeCode := by
  simp only [getTimeCode, readAnimatedValues, hf, ht]

theorem lookup_append_other (l : List ((XformOpType × TfToken) × UsdAttribute))
    (k k' : XformOpType × TfToken) (a : UsdAttribute) (h : k ≠ k') :
    (l ++ [(k', a)]).lookup k = l.lookup k := by
  rw [List.lookup_append]
  have : ([(k', a)] : List ((XformOpType × TfToken) × UsdAttribute)).lookup k = none := by
    have hb : (k == k') = false := by simpa using h
    simp [List.lookup, hb]
  rw [this, Option.or_none]

theorem tweakTracksLive_congr (s s' : TransformationMatrix) (h : channels s' = channels s)
    (hinv : TweakTracksLive s) : TweakTracksLive s' := by
  simp only [channels, Prod.mk.injEq, List.cons.injEq, and_true] at h
  obtain ⟨h0, ⟨h1, h2, h3, h4, h5, h6, h7, h8, h9, h10, h11, h12, h13, h14⟩, h15, h16⟩ := h
  unfold TweakTracksLive at hinv ⊢
  have e1 : s'.translationValue = s.translationValue := by
    show s'.toMPxTransformationMatrix.translationValue = _; rw [h0]
  have e2 : s'.rotationValue = s.rotationValue := by
    show s'.toMPxTransformationMatrix.rotationValue = _; rw [h0]
  have e3 : s'.scaleValue = s.scaleValue := by
    show s'.toMPxTransformationMatrix.scaleValue = _; rw [h0]
  have e4 : s'.shearValue = s.shearValue := by
    show s'.toMPxTransformationMatrix.shearValue = _; rw [h0]
  have e5 : s'.scalePivotValue = s.scalePivotValue := by
    show s'.toMPxTransformationMatrix.scalePivotValue = _; rw [h0]
  have e6 : s'.scalePivotTranslationValue = s.scalePivotTranslationValue := by
    show s'.toMPxTransformationMatrix.scalePivotTranslationValue = _; rw [h0]
  have e7 : s'.rotatePivotValue = s.rotatePivotValue := by
    show s'.toMPxTransformationMatrix.rotatePivotValue = _; rw [h0]
  have e8 : s'.rotatePivotTranslationValue = s.rotatePivotTranslationValue := by
    show s'.toMPxTransformationMatrix.rotatePivotTranslationValue = _; rw [h0]
  rw [h1, h2, h3, h4, h5, h6, h7, h8, h9, h10, h11, h12, h13, h14, h15, h16, e1, e2, e3, e4, e5,
    e6, e7, e8]
  exact hinv

theorem channels_build (s : TransformationMatrix) :
    channels s.buildOrderedOpMayaIndices = channels s := by
  rw [buildOrderedOpMayaIndices_eq]
  rfl

theorem channels_addOp (s : TransformationMatrix) (ty : XformOpType) (pr : Precision)
    (nm : TfToken) (idx : ℕ) (beg : Bool) (r : ℤ) (s' : TransformationMatrix)
    (h : s.addOp ty pr nm idx beg = some (r, s')) : channels s' = channels s := by
  obtain ⟨cls, _, h | ⟨p, _, _, _, _, _, _, h⟩⟩ := addOp_cases s ty pr nm idx beg r s' h
  · rw [h.2.2]
  · rw [h]; rfl

theorem channels_insertOp (s : TransformationMatrix) (ty : XformOpType) (pr : Precision)
    (nm : TfToken) (flag : Flags) (beg : Bool) (st : MStatus) (s' : TransformationMatrix)
    (h : s.insertOp ty pr nm flag beg = some (st, s')) : channels s' = channels s := by
  have hb := channels_build s
  rcases insertOp_cases s ty pr nm flag beg st s' h with
    ⟨_, r, s2, h2, ⟨_, _, e⟩ | ⟨_, _, e⟩⟩ |
    ⟨_, r2, s1, h1, ⟨_, _, e⟩ | ⟨_, r1, s2, h2, ⟨_, _, e⟩ | ⟨_, _, e⟩⟩⟩
  · rw [e, channels_addOp _ _ _ _ _ _ _ _ h2, hb]
  · rw [e, ← hb, ← channels_addOp _ _ _ _ _ _ _ _ h2]; rfl
  · rw [e, channels_addOp _ _ _ _ _ _ _ _ h1, hb]
  · rw [← hb, ← channels_addOp _ _ _ _ _ _ _ _ h1, ← channels_addOp _ _ _ _ _ _ _ _ h2, e]; rfl
  · rw [← hb, ← channels_addOp _ _ _ _ _ _ _ _ h1, ← channels_addOp _ _ _ _ _ _ _ _ h2, e]; rfl

theorem channels_removeOp (s : TransformationMatrix) (opName : TfToken) (oldFlag : Flags)
    (st : MStatus) (s' : TransformationMatrix)
    (h : s.removeOp opName oldFlag = some (st, s')) : channels s' = channels s := by
  have hb := channels_build s
  simp only [removeOp] at h
  cases hl : removeOpLoop opName (removeStart s.buildOrderedOpMayaIndices.m_orderedOps.length)
      false s.buildOrderedOpMayaIndices.m_orderedOps s.buildOrderedOpMayaIndices.m_xformops
      s.buildOrderedOpMayaIndices.m_orderedOpMayaIndices with
  | none => rw [hl] at h; exact absurd h (by simp)
  | some r =>
    obtain ⟨f, ops, x, idx⟩ := r
    rw [hl] at h
    simp only at h
    split_ifs at h
    · simp only [Option.some.injEq, Prod.mk.injEq] at h
      rw [← h.2, ← hb]; rfl
    · simp only [Option.some.injEq, Prod.mk.injEq] at h
      rw [← h.2, ← hb]; rfl

theorem channels_pushTransformToPrim (H : Host) (s : TransformationMatrix) :
    channels (s.pushTransformToPrim H) = channels s := by
  unfold pushTransformToPrim
  split
  · split_ifs <;> rfl
  · rfl

theorem tweakTracksLive_pushTransformToPrim (H : Host) (s : TransformationMatrix)
    (hinv : TweakTracksLive s) : TweakTracksLive (s.pushTransformToPrim H) :=
  tweakTracksLive_congr _ _ (channels_pushTransformToPrim H s) hinv

theorem tweakTracksLive_writeback (H : Host) (s : TransformationMatrix)
    (hinv : TweakTracksLive s) :
    TweakTracksLive (if s.m_enableUsdWriteback = true then s.pushTransformToPrim H else s) := by
  split_ifs
  · exact tweakTracksLive_pushTransformToPrim H s hinv
  · exact hinv

theorem tweakTracksLive_pushTranslateToPrim (H : Host) (s : TransformationMatrix)
    (hinv : TweakTracksLive s) : TweakTracksLive (s.pushTranslateToPrim H) := by
  unfold pushTranslateToPrim
  split
  · simp only
    split_ifs
    · obtain ⟨_, h2, h3, h4, h5, h6, h7, h8⟩ := hinv
      exact ⟨Or.inr ⟨rfl, rfl⟩, h2, h3, h4, h5, h6, h7, h8⟩
    · exact hinv
  · exact tweakTracksLive_writeback H s hinv

theorem tweakTracksLive_pushScaleToPrim (H : Host) (s : TransformationMatrix)
    (hinv : TweakTracksLive s) : TweakTracksLive (s.pushScaleToPrim H) := by
  unfold pushScaleToPrim
  split
  · simp only
    split_ifs
    · obtain ⟨h1, h2, _, h4, h5, h6, h7, h8⟩ := hinv
      exact ⟨h1, h2, Or.inr ⟨rfl, rfl⟩, h4, h5, h6, h7, h8⟩
    · exact hinv
  · exact tweakTracksLive_writeback H s hinv

theorem tweakTracksLive_pushShearToPrim (H : Host) (s : TransformationMatrix)
    (hinv : TweakTracksLive s) : TweakTracksLive (s.pushShearToPrim H) := by
  unfold pushShearToPrim
  split
  · obtain ⟨h1, h2, h3, _, h5, h6, h7, h8⟩ := hinv
    exact ⟨h1, h2, h3, Or.inr ⟨rfl, rfl⟩, h5, h6, h7, h8⟩
  · exact tweakTracksLive_writeback H s hinv

theorem tweakTracksLive_pushRotateToPrim (H : Host) (s : TransformationMatrix)
    (hinv : TweakTracksLive s) : TweakTracksLive (s.pushRotateToPrim H) := by
  unfold pushRotateToPrim
  split
  · simp only
    split_ifs
    · obtain ⟨h1, _, h3, h4, h5, h6, h7, h8⟩ := hinv
      exact ⟨h1, Or.inr ⟨rfl, rfl, rfl, rfl, rfl, rfl⟩, h3, h4, h5, h6, h7, h8⟩
    · exact hinv
  · exact tweakTracksLive_writeback H s hinv

theorem tweakTracksLive_pushScalePivotToPrim (H : Host) (s : TransformationMatrix)
    (hinv : TweakTracksLive s) : TweakTracksLive (s.pushScalePivotToPrim H) := by
  unfold pushScalePivotToPrim
  split
  · simp only
    split_ifs
    · obtain ⟨h1, h2, h3, h4, _, h6, h7, h8⟩ := hinv
      exact ⟨h1, h2, h3, h4, Or.inr ⟨rfl, rfl⟩, h6, h7, h8⟩
    · exact hinv
  · exact tweakTracksLive_writeback H s hinv

theorem tweakTracksLive_pushScalePivotTranslateToPrim (H : Host) (s : TransformationMatrix)
    (hinv : TweakTracksLive s) : TweakTracksLive (s.pushScalePivotTranslateToPrim H) := by
  unfold pushScalePivotTranslateToPrim
  split
  · simp only
    split_ifs
    · obtain ⟨h1, h2, h3, h4, h5, _, h7, h8⟩ := hinv
      exact ⟨h1, h2, h3, h4, h5, Or.inr ⟨rfl, rfl⟩, h7, h8⟩
    · exact hinv
  · exact tweakTracksLive_writeback H s hinv

theorem tweakTracksLive_pushRotatePivotToPrim (H : Host) (s : TransformationMatrix)
    (hinv : TweakTracksLive s) : TweakTracksLive (s.pushRotatePivotToPrim H) := by
  unfold pushRotatePivotToPrim
  split
  · simp only
    split_ifs
    · obtain ⟨h1, h2, h3, h4, h5, h6, _, h8⟩ := hinv
      exact ⟨h1, h2, h3, h4, h5, h6, Or.inr ⟨rfl, rfl⟩, h8⟩
    · exact hinv
  · exact tweakTracksLive_writeback H s hinv

theorem tweakTracksLive_pushRotatePivotTranslateToPrim (H : Host) (s : TransformationMatrix)
    (hinv : TweakTracksLive s) : TweakTracksLive (s.pushRotatePivotTranslateToPrim H) := by
  unfold pushRotatePivotTranslateToPrim
  split
  · simp only
    split_ifs
    · obtain ⟨h1, h2, h3, h4, h5, h6, h7, _⟩ := hinv
      exact ⟨h1, h2, h3, h4, h5, h6, h7, Or.inr ⟨rfl, rfl⟩⟩
    · exact hinv
  · exact tweakTracksLive_writeback H s hinv

theorem tweakTracksLive_pushPivotToPrim (H : Host) (s : TransformationMatrix)
    (hinv : TweakTracksLive s) : TweakTracksLive (s.pushPivotToPrim H) := by
  unfold pushPivotToPrim
  split
  · simp only
    split_ifs
    · obtain ⟨h1, h2, h3, h4, _, h6, _, h8⟩ := hinv
      exact ⟨h1, h2, h3, h4, Or.inr ⟨rfl, rfl⟩, h6, Or.inr ⟨rfl, rfl⟩, h8⟩
    · exact hinv
  · exact tweakTracksLive_writeback H s hinv

theorem tweakTracksLive_insertOp (s : TransformationMatrix) (ty : XformOpType) (pr : Precision)
    (nm : TfToken) (flag : Flags) (beg : Bool) (st : MStatus) (s' : TransformationMatrix)
    (h : s.insertOp ty pr nm flag beg = some (st, s')) (hinv : TweakTracksLive s) :
    TweakTracksLive s' :=
  tweakTracksLive_congr _ _ (channels_insertOp s ty pr nm flag beg st s' h) hinv

theorem tweakTracksLive_insertPivotOps (H : Host) (s : TransformationMatrix) (a b : Bool)
    (st : MStatus) (s' : TransformationMatrix)
    (h : s.insertPivotOps H a b = some (st, s')) (hinv : TweakTracksLive s) :
    TweakTracksLive s' := by
  simp only [insertPivotOps, insertScalePivotOp, insertRotatePivotOp] at h
  have hA : ∀ (o : Option (MStatus × TransformationMatrix)) st1 s1,
      (if a = true then o else some (.kSuccess, s)) = some (st1, s1) →
      (∀ st0 s0, o = some (st0, s0) → TweakTracksLive s0) → TweakTracksLive s1 := by
    intro o st1 s1 h1 ho
    split_ifs at h1
    · exact ho _ _ h1
    · simp only [Option.some.injEq, Prod.mk.injEq] at h1
      rw [← h1.2]; exact hinv
  have hS : ∀ st0 s0,
      (match s.insertOp .TypeTranslate .PrecisionFloat .scalePivot kPrimHasScalePivot false with
        | none => none
        | some (.kFailure, s1) => some (MStatus.kFailure, s1)
        | some (.kSuccess, s1) => some (MStatus.kSuccess, s1.pushScalePivotToPrim H))
        = some (st0, s0) → TweakTracksLive s0 := by
    intro st0 s0 h0
    split at h0
    · exact absurd h0 (by simp)
    · rename_i s1 hi
      simp only [Option.some.injEq, Prod.mk.injEq] at h0
      rw [← h0.2]; exact tweakTracksLive_insertOp _ _ _ _ _ _ _ _ hi hinv
    · rename_i s1 hi
      simp only [Option.some.injEq, Prod.mk.injEq] at h0
      rw [← h0.2]
      exact tweakTracksLive_pushScalePivotToPrim H s1
        (tweakTracksLive_insertOp _ _ _ _ _ _ _ _ hi hinv)
  split at h
  · exact absurd h (by simp)
  · rename_i s1 heq
    simp only [Option.some.injEq, Prod.mk.injEq] at h
    rw [← h.2]; exact hA _ _ _ heq hS
  · rename_i s1 heq
    have h1 := hA _ _ _ heq hS
    split_ifs at h
    · split at h
      · exact absurd h (by simp)
      · rename_i s2 hi
        simp only [Option.some.injEq, Prod.mk.injEq] at h
        rw [← h.2]; exact tweakTracksLive_insertOp _ _ _ _ _ _ _ _ hi h1
      · rename_i s2 hi
        simp only [Option.some.injEq, Prod.mk.injEq] at h
        rw [← h.2]
        exact tweakTracksLive_pushRotatePivotToPrim H s2
          (tweakTracksLive_insertOp _ _ _ _ _ _ _ _ hi h1)
    · simp only [Option.some.injEq, Prod.mk.injEq] at h
      rw [← h.2]; exact h1

theorem tweakTracksLive_insertAndPushPivotOp (H : Host) (s : TransformationMatrix)
    (nm : TfToken) (st : MStatus) (s' : TransformationMatrix)
    (h : s.insertAndPushPivotOp H nm = some (st, s')) (hinv : TweakTracksLive s) :
    TweakTracksLive s' := by
  simp only [insertAndPushPivotOp] at h
  split_ifs at h
  · simp only [Option.some.injEq, Prod.mk.injEq] at h
    rw [← h.2]; exact hinv
  · simp only [Option.some.injEq, Prod.mk.injEq] at h
    rw [← h.2]; exact tweakTracksLive_pushPivotToPrim H s hinv
  · cases hr : s.removeOp .pivot kPrimHasPivot with
    | none => rw [hr] at h; exact absurd h (by simp)
    | some r =>
      obtain ⟨st0, s0⟩ := r
      have h0 := tweakTracksLive_congr _ _ (channels_removeOp _ _ _ _ _ hr) hinv
      rw [hr] at h
      cases st0 <;> simp only at h
      · exact tweakTracksLive_insertPivotOps H s0 _ _ st s' h h0
      · simp only [Option.some.injEq, Prod.mk.injEq] at h
        rw [← h.2]; exact h0
  · exact tweakTracksLive_insertPivotOps H s _ _ st s' h hinv

/-- The part the setters share after the tweak is recomputed: insert the operator when it is
missing, push when the value changed. Every step keeps the invariant. -/
theorem tweakTracksLive_setter_tail (s1 : TransformationMatrix) (avail has c : Bool)
    (o : Option (MStatus × TransformationMatrix)) (cond : TransformationMatrix → Bool)
    (push : TransformationMatrix → TransformationMatrix) (status : MStatus)
    (h1 : TweakTracksLive s1)
    (ho : ∀ st2 s2, o = some (st2, s2) → TweakTracksLive s2)
    (hpush : ∀ t, TweakTracksLive t → TweakTracksLive (push t))
    (st : MStatus) (s' : TransformationMatrix)
    (h : (if avail = true then
        match (if has = true then some (MStatus.kSuccess, s1)
          else if c = true then o else some (MStatus.kSuccess, s1)) with
        | none => none
        | some (.kFailure, s2) => some (MStatus.kFailure, s2)
        | some (.kSuccess, s2) =>
          if cond s2 = true then some (status, push s2) else some (status, s2)
      else some (status, s1)) = some (st, s')) : TweakTracksLive s' := by
  have hI : ∀ st2 s2, (if has = true then some (MStatus.kSuccess, s1)
      else if c = true then o else some (MStatus.kSuccess, s1)) = some (st2, s2) →
      TweakTracksLive s2 := by
    intro st2 s2 heq
    split_ifs at heq
    · simp only [Option.some.injEq, Prod.mk.injEq] at heq
      rw [← heq.2]; exact h1
    · exact ho _ _ heq
    · simp only [Option.some.injEq, Prod.mk.injEq] at heq
      rw [← heq.2]; exact h1
  by_cases ha : avail = true
  · rw [if_pos ha] at h
    split at h
    · exact absurd h (by simp)
    · rename_i s2 heq
      simp only [Option.some.injEq, Prod.mk.injEq] at h
      rw [← h.2]; exact hI _ _ heq
    · rename_i s2 heq
      have h2 := hI _ _ heq
      split_ifs at h
      · simp only [Option.some.injEq, Prod.mk.injEq] at h
        rw [← h.2]; exact hpush _ h2
      · simp only [Option.some.injEq, Prod.mk.injEq] at h
        rw [← h.2]; exact h2
  · rw [if_neg ha] at h
    simp only [Option.some.injEq, Prod.mk.injEq] at h
    rw [← h.2]; exact h1

theorem tweakTracksLive_translateTo (H : Host) (s : TransformationMatrix) (baseStatus : MStatus)
    (v : MVector) (space : MSpace) (hlock : s.translateLocked = false)
    (hinv : TweakTracksLive s) (st : MStatus) (s' : TransformationMatrix)
    (h : s.translateTo H baseStatus v space = some (st, s')) : TweakTracksLive s' := by
  obtain ⟨s1, hs1, h1⟩ : ∃ s1, s1 =
      (if (baseTranslateTo s.toMPxTransformationMatrix baseStatus v space).1.toBool then
        { s with
          toMPxTransformationMatrix :=
            (baseTranslateTo s.toMPxTransformationMatrix baseStatus v space).2
          m_translationTweak :=
            (baseTranslateTo s.toMPxTransformationMatrix baseStatus v space).2.translationValue.sub
              s.m_translationFromUsd }
      else { s with toMPxTransformationMatrix :=
        (baseTranslateTo s.toMPxTransformationMatrix baseStatus v space).2 }) ∧
      TweakTracksLive s1 := by
    refine ⟨_, rfl, ?_⟩
    obtain ⟨_, h2, h3, h4, h5, h6, h7, h8⟩ := hinv
    cases baseStatus
    · exact ⟨Or.inl rfl, h2, h3, h4, h5, h6, h7, h8⟩
    · exact ⟨by assumption, h2, h3, h4, h5, h6, h7, h8⟩
  simp only [translateTo, hlock, Bool.false_eq_true, if_false, insertTranslateOp] at h
  simp only [hlock] at hs1
  rw [← hs1] at h
  exact tweakTracksLive_setter_tail s1 _ _ _ _ _ _ _ h1
    (fun _ _ hi => tweakTracksLive_insertOp _ _ _ _ _ _ _ _ hi h1)
    (tweakTracksLive_pushTranslateToPrim H) st s' h

theorem tweakTracksLive_scaleTo (H : Host) (s : TransformationMatrix) (baseStatus : MStatus)
    (v : MVector) (space : MSpace) (hlock : s.scaleLocked = false)
    (hinv : TweakTracksLive s) (st : MStatus) (s' : TransformationMatrix)
    (h : s.scaleTo H baseStatus v space = some (st, s')) : TweakTracksLive s' := by
  obtain ⟨s1, hs1, h1⟩ : ∃ s1, s1 =
      (if (baseScaleTo s.toMPxTransformationMatrix baseStatus v space).1.toBool then
        { s with
          toMPxTransformationMatrix :=
            (baseScaleTo s.toMPxTransformationMatrix baseStatus v space).2
          m_scaleTweak :=
            (baseScaleTo s.toMPxTransformationMatrix baseStatus v space).2.scaleValue.sub
              s.m_scaleFromUsd }
      else { s with toMPxTransformationMatrix :=
        (baseScaleTo s.toMPxTransformationMatrix baseStatus v space).2 }) ∧
      TweakTracksLive s1 := by
    refine ⟨_, rfl, ?_⟩
    obtain ⟨g1, g2, _, g4, g5, g6, g7, g8⟩ := hinv
    cases baseStatus
    · exact ⟨g1, g2, Or.inl rfl, g4, g5, g6, g7, g8⟩
    · exact ⟨g1, g2, by assumption, g4, g5, g6, g7, g8⟩
  simp only [scaleTo, hlock, Bool.false_eq_true, if_false, insertScaleOp] at h
  simp only [hlock] at hs1
  rw [← hs1] at h
  exact tweakTracksLive_setter_tail s1 _ _ _ _ _ _ _ h1
    (fun _ _ hi => tweakTracksLive_insertOp _ _ _ _ _ _ _ _ hi h1)
    (tweakTracksLive_pushScaleToPrim H) st s' h

theorem tweakTracksLive_shearTo (H : Host) (s : TransformationMatrix) (baseStatus : MStatus)
    (v : MVector) (space : MSpace) (hlock : s.shearLocked = false)
    (hinv : TweakTracksLive s) (st : MStatus) (s' : TransformationMatrix)
    (h : s.shearTo H baseStatus v space = some (st, s')) : TweakTracksLive s' := by
  obtain ⟨s1, hs1, h1⟩ : ∃ s1, s1 =
      (if (baseShearTo s.toMPxTransformationMatrix baseStatus v space).1.toBool then
        { s with
          toMPxTransformationMatrix :=
            (baseShearTo s.toMPxTransformationMatrix baseStatus v space).2
          m_shearTweak :=
            (baseShearTo s.toMPxTransformationMatrix baseStatus v space).2.shearValue.sub
              s.m_shearFromUsd }
      else { s with toMPxTransformationMatrix :=
        (baseShearTo s.toMPxTransformationMatrix baseStatus v space).2 }) ∧
      TweakTracksLive s1 := by
    refine ⟨_, rfl, ?_⟩
    obtain ⟨g1, g2, g3, _, g5, g6, g7, g8⟩ := hinv
    cases baseStatus
    · exact ⟨g1, g2, g3, Or.inl rfl, g5, g6, g7, g8⟩
    · exact ⟨g1, g2, g3, by assumption, g5, g6, g7, g8⟩
  simp only [shearTo, hlock, Bool.false_eq_true, if_false, insertShearOp] at h
  simp only [hlock] at hs1
  rw [← hs1] at h
  exact tweakTracksLive_setter_tail s1 _ _ _ _ _ _ _ h1
    (fun _ _ hi => tweakTracksLive_insertOp _ _ _ _ _ _ _ _ hi h1)
    (tweakTracksLive_pushShearToPrim H) st s' h

theorem tweakTracksLive_setScalePivotTranslation (H : Host) (s : TransformationMatrix) (baseStatus : MStatus)
    (v : MVector) (space : MSpace)
    (hinv : TweakTracksLive s) (st : MStatus) (s' : TransformationMatrix)
    (h : s.setScalePivotTranslation H baseStatus v space = some (st, s')) : TweakTracksLive s' := by
  obtain ⟨s1, hs1, h1⟩ : ∃ s1, s1 =
      (if (baseSetScalePivotTranslation s.toMPxTransformationMatrix baseStatus v space).1.toBool then
        { s with
          toMPxTransformationMatrix :=
            (baseSetScalePivotTranslation s.toMPxTransformationMatrix baseStatus v space).2
          m_scalePivotTranslationTweak :=
            (baseSetScalePivotTranslation s.toMPxTransformationMatrix baseStatus v space).2.scalePivotTranslationValue.sub
              s.m_scalePivotTranslationFromUsd }
      else { s with toMPxTransformationMatrix :=
        (baseSetScalePivotTranslation s.toMPxTransformationMatrix baseStatus v space).2 }) ∧
      TweakTracksLive s1 := by
    refine ⟨_, rfl, ?_⟩
    obtain ⟨g1, g2, g3, g4, g5, _, g7, g8⟩ := hinv
    cases baseStatus
    · exact ⟨g1, g2, g3, g4, g5, Or.inl rfl, g7, g8⟩
    · exact ⟨g1, g2, g3, g4, g5, by assumption, g7, g8⟩
  simp only [setScalePivotTranslation, insertScalePivotTranslationOp] at h
  rw [← hs1] at h
  exact tweakTracksLive_setter_tail s1 _ _ _ _ _ _ _ h1
    (fun _ _ hi => tweakTracksLive_insertOp _ _ _ _ _ _ _ _ hi h1)
    (tweakTracksLive_pushScalePivotTranslateToPrim H) st s' h

theorem tweakTracksLive_setRotatePivotTranslation (H : Host) (s : TransformationMatrix) (baseStatus : MStatus)
    (v : MVector) (space : MSpace)
    (hinv : TweakTracksLive s) (st : MStatus) (s' : TransformationMatrix)
    (h : s.setRotatePivotTranslation H baseStatus v space = some (st, s')) : TweakTracksLive s' := by
  obtain ⟨s1, hs1, h1⟩ : ∃ s1, s1 =
      (if (baseSetRotatePivotTranslation s.toMPxTransformationMatrix baseStatus v space).1.toBool then
        { s with
          toMPxTransformationMatrix :=
            (baseSetRotatePivotTranslation s.toMPxTransformationMatrix baseStatus v space).2
          m_rotatePivotTranslationTweak :=
            (baseSetRotatePivotTranslation s.toMPxTransformationMatrix baseStatus v space).2.rotatePivotTranslationValue.sub
              s.m_rotatePivotTranslationFromUsd }
      else { s with toMPxTransformationMatrix :=
        (baseSetRotatePivotTranslation s.toMPxTransformationMatrix baseStatus v space).2 }) ∧
      TweakTracksLive s1 := by
    refine ⟨_, rfl, ?_⟩
    obtain ⟨g1, g2, g3, g4, g5, g6, g7, _⟩ := hinv
    cases baseStatus
    · exact ⟨g1, g2, g3, g4, g5, g6, g7, Or.inl rfl⟩
    · exact ⟨g1, g2, g3, g4, g5, g6, g7, by assumption⟩
  simp only [setRotatePivotTranslation, insertRotatePivotTranslationOp] at h
  rw [← hs1] at h
  exact tweakTracksLive_setter_tail s1 _ _ _ _ _ _ _ h1
    (fun _ _ hi => tweakTracksLive_insertOp _ _ _ _ _ _ _ _ hi h1)
    (tweakTracksLive_pushRotatePivotTranslateToPrim H) st s' h

theorem tweakTracksLive_rotateTo (H : Host) (s : TransformationMatrix) (baseStatus : MStatus)
    (e : MEulerRotation) (space : MSpace) (hlock : s.rotateLocked = false)
    (hinv : TweakTracksLive s) (st : MStatus) (s' : TransformationMatrix)
    (h : s.rotateTo H baseStatus e space = some (st, s')) : TweakTracksLive s' := by
  obtain ⟨s1, hs1, h1⟩ : ∃ s1, s1 =
      (if (baseRotateTo s.toMPxTransformationMatrix baseStatus e space).1.toBool then
        updateRotationTweak { s with
          toMPxTransformationMatrix :=
            (baseRotateTo s.toMPxTransformationMatrix baseStatus e space).2 }
      else { s with toMPxTransformationMatrix :=
        (baseRotateTo s.toMPxTransformationMatrix baseStatus e space).2 }) ∧
      TweakTracksLive s1 := by
    refine ⟨_, rfl, ?_⟩
    obtain ⟨g1, g2, g3, g4, g5, g6, g7, g8⟩ := hinv
    cases baseStatus
    · exact ⟨g1, Or.inl ⟨rfl, rfl, rfl⟩, g3, g4, g5, g6,
        g7, g8⟩
    · exact ⟨g1, g2, g3, g4, g5, g6, g7, g8⟩
  simp only [rotateTo, hlock, Bool.false_eq_true, if_false, insertRotateOp] at h
  simp only [hlock] at hs1
  rw [← hs1] at h
  have hI : ∀ (has c : Bool) (o : Option (MStatus × TransformationMatrix)) st2 s2,
      (∀ st3 s3, o = some (st3, s3) → TweakTracksLive s3) →
      (if has = true then some (MStatus.kSuccess, s1)
        else if c = true then o else some (MStatus.kSuccess, s1)) = some (st2, s2) →
      TweakTracksLive s2 := by
    intro has c o st2 s2 ho heq
    split_ifs at heq
    · simp only [Option.some.injEq, Prod.mk.injEq] at heq
      rw [← heq.2]; exact h1
    · exact ho _ _ heq
    · simp only [Option.some.injEq, Prod.mk.injEq] at heq
      rw [← heq.2]; exact h1
  have ho : ∀ st3 s3,
      s1.insertOp (rotateOpType s1.rotationValue.order) .PrecisionFloat .rotate kPrimHasRotation
        false = some (st3, s3) → TweakTracksLive s3 :=
    fun _ _ hi => tweakTracksLive_insertOp _ _ _ _ _ _ _ _ hi h1
  by_cases ha : s1.pushToPrimAvailable = true
  · rw [if_pos ha] at h
    split at h
    · exact absurd h (by simp)
    · rename_i s2 heq
      simp only [Option.some.injEq, Prod.mk.injEq] at h
      rw [← h.2]; exact hI _ _ _ _ _ ho heq
    · rename_i s2 heq
      have h2 := hI _ _ _ _ _ ho heq
      split_ifs at h
      · simp only [Option.some.injEq, Prod.mk.injEq] at h
        rw [← h.2]; exact tweakTracksLive_pushRotateToPrim H s2 h2
      · simp only [Option.some.injEq, Prod.mk.injEq] at h
        rw [← h.2]; exact h2
      · simp only [Option.some.injEq, Prod.mk.injEq] at h
        rw [← h.2]; exact h2
  · rw [if_neg ha] at h
    simp only [Option.some.injEq, Prod.mk.injEq] at h
    rw [← h.2]; exact h1

theorem tweakTracksLive_rotateToQuaternion (H : Host) (s : TransformationMatrix) (baseStatus : MStatus)
    (q : MQuaternion) (space : MSpace) (hlock : s.rotateLocked = false)
    (hinv : TweakTracksLive s) (st : MStatus) (s' : TransformationMatrix)
    (h : s.rotateToQuaternion H baseStatus q space = some (st, s')) : TweakTracksLive s' := by
  obtain ⟨s1, hs1, h1⟩ : ∃ s1, s1 =
      (if (baseRotateTo s.toMPxTransformationMatrix baseStatus (H.asEulerRotation q) space).1.toBool then
        updateRotationTweak { s with
          toMPxTransformationMatrix :=
            (baseRotateTo s.toMPxTransformationMatrix baseStatus (H.asEulerRotation q) space).2 }
      else { s with toMPxTransformationMatrix :=
        (baseRotateTo s.toMPxTransformationMatrix baseStatus (H.asEulerRotation q) space).2 }) ∧
      TweakTracksLive s1 := by
    refine ⟨_, rfl, ?_⟩
    obtain ⟨g1, g2, g3, g4, g5, g6, g7, g8⟩ := hinv
    cases baseStatus
    · exact ⟨g1, Or.inl ⟨rfl, rfl, rfl⟩, g3, g4, g5, g6,
        g7, g8⟩
    · exact ⟨g1, g2, g3, g4, g5, g6, g7, g8⟩
  simp only [rotateToQuaternion, hlock, Bool.false_eq_true, if_false, insertRotateOp] at h
  simp only [hlock] at hs1
  rw [← hs1] at h
  have hI : ∀ (has c : Bool) (o : Option (MStatus × TransformationMatrix)) st2 s2,
      (∀ st3 s3, o = some (st3, s3) → TweakTracksLive s3) →
      (if has = true then some (MStatus.kSuccess, s1)
        else if c = true then o else some (MStatus.kSuccess, s1)) = some (st2, s2) →
      TweakTracksLive s2 := by
    intro has c o st2 s2 ho heq
    split_ifs at heq
    · simp only [Option.some.injEq, Prod.mk.injEq] at heq
      rw [← heq.2]; exact h1
    · exact ho _ _ heq
    · simp only [Option.some.injEq, Prod.mk.injEq] at heq
      rw [← heq.2]; exact h1
  have ho : ∀ st3 s3,
      s1.insertOp (rotateOpType s1.rotationValue.order) .PrecisionFloat .rotate kPrimHasRotation
        false = some (st3, s3) → TweakTracksLive s3 :=
    fun _ _ hi => tweakTracksLive_insertOp _ _ _ _ _ _ _ _ hi h1
  by_cases ha : s1.pushToPrimAvailable = true
  · rw [if_pos ha] at h
    split at h
    · exact absurd h (by simp)
    · rename_i s2 heq
      simp only [Option.some.injEq, Prod.mk.injEq] at h
      rw [← h.2]; exact hI _ _ _ _ _ ho heq
    · rename_i s2 heq
      have h2 := hI _ _ _ _ _ ho heq
      split_ifs at h
      · simp only [Option.some.injEq, Prod.mk.injEq] at h
        rw [← h.2]; exact tweakTracksLive_pushRotateToPrim H s2 h2
      · simp only [Option.some.injEq, Prod.mk.injEq] at h
        rw [← h.2]; exact h2
      · simp only [Option.some.injEq, Prod.mk.injEq] at h
        rw [← h.2]; exact h2
  · rw [if_neg ha] at h
    simp only [Option.some.injEq, Prod.mk.injEq] at h
    rw [← h.2]; exact h1

theorem tweakTracksLive_setScalePivot (H : Host) (s : TransformationMatrix)
    (baseStatus : MStatus) (v : MPoint) (space : MSpace) (balance : Bool)
    (hinv : TweakTracksLive s) (st : MStatus) (s' : TransformationMatrix)
    (h : s.setScalePivot H baseStatus v space balance = some (st, s')) :
    TweakTracksLive s' := by
  obtain ⟨s1, hs1, h1⟩ : ∃ s1, s1 =
      (if (baseSetScalePivot s.toMPxTransformationMatrix baseStatus v space balance).1.toBool then
        { s with
          toMPxTransformationMatrix :=
            (baseSetScalePivot s.toMPxTransformationMatrix baseStatus v space balance).2
          m_scalePivotTweak :=
            (baseSetScalePivot s.toMPxTransformationMatrix baseStatus v space
              balance).2.scalePivotValue.sub s.m_scalePivotFromUsd }
      else { s with toMPxTransformationMatrix :=
        (baseSetScalePivot s.toMPxTransformationMatrix baseStatus v space balance).2 }) ∧
      TweakTracksLive s1 := by
    refine ⟨_, rfl, ?_⟩
    obtain ⟨g1, g2, g3, g4, _, g6, g7, g8⟩ := hinv
    cases baseStatus
    · exact ⟨g1, g2, g3, g4, Or.inl rfl, g6, g7, g8⟩
    · exact ⟨g1, g2, g3, g4, by assumption, g6, g7, g8⟩
  simp only [setScalePivot] at h
  rw [← hs1] at h
  split_ifs at h
  · exact tweakTracksLive_insertAndPushPivotOp H s1 _ st s' h h1
  · simp only [Option.some.injEq, Prod.mk.injEq] at h
    rw [← h.2]; exact tweakTracksLive_pushScalePivotToPrim H s1 h1
  · simp only [Option.some.injEq, Prod.mk.injEq] at h
    rw [← h.2]; exact h1
  · simp only [Option.some.injEq, Prod.mk.injEq] at h
    rw [← h.2]; exact h1

theorem tweakTracksLive_setRotatePivot (H : Host) (s : TransformationMatrix)
    (baseStatus : MStatus) (v : MPoint) (space : MSpace) (balance : Bool)
    (hinv : TweakTracksLive s) (st : MStatus) (s' : TransformationMatrix)
    (h : s.setRotatePivot H baseStatus v space balance = some (st, s')) :
    TweakTracksLive s' := by
  obtain ⟨s1, hs1, h1⟩ : ∃ s1, s1 =
      (if (baseSetRotatePivot s.toMPxTransformationMatrix baseStatus v space balance).1.toBool then
        { s with
          toMPxTransformationMatrix :=
            (baseSetRotatePivot s.toMPxTransformationMatrix baseStatus v space balance).2
          m_rotatePivotTweak :=
            (baseSetRotatePivot s.toMPxTransformationMatrix baseStatus v space
              balance).2.rotatePivotValue.sub s.m_rotatePivotFromUsd }
      else { s with toMPxTransformationMatrix :=
        (baseSetRotatePivot s.toMPxTransformationMatrix baseStatus v space balance).2 }) ∧
      TweakTracksLive s1 := by
    refine ⟨_, rfl, ?_⟩
    obtain ⟨g1, g2, g3, g4, g5, g6, _, g8⟩ := hinv
    cases baseStatus
    · exact ⟨g1, g2, g3, g4, g5, g6, Or.inl rfl, g8⟩
    · exact ⟨g1, g2, g3, g4, g5, g6, by assumption, g8⟩
  simp only [setRotatePivot] at h
  rw [← hs1] at h
  split_ifs at h
  · exact tweakTracksLive_insertAndPushPivotOp H s1 _ st s' h h1
  · simp only [Option.some.injEq, Prod.mk.injEq] at h
    rw [← h.2]; exact tweakTracksLive_pushRotatePivotToPrim H s1 h1
  · simp only [Option.some.injEq, Prod.mk.injEq] at h
    rw [← h.2]; exact h1
  · simp only [Option.some.injEq, Prod.mk.injEq] at h
    rw [← h.2]; exact h1

theorem buildOrderedOpMayaIndices_of_built (s t : TransformationMatrix)
    (h1 : t.m_orderedOpMayaIndices = s.buildOrderedOpMayaIndices.m_orderedOpMayaIndices)
    (h2 : t.m_orderedOps = s.m_orderedOps) (h3 : t.m_flags = s.m_flags) :
    t.buildOrderedOpMayaIndices = t := by
  unfold buildOrderedOpMayaIndices at h1 ⊢
  rw [h2, h3]
  by_cases hc : (s.m_orderedOpMayaIndices.isEmpty && !s.m_orderedOps.isEmpty) = true
  · have hops : s.m_orderedOps ≠ [] := by
      intro h0
      simp [h0] at hc
    rw [if_pos hc] at h1
    by_cases hm : hasFlag s.m_flags kFromMayaSchema = true
    · rw [if_pos hm] at h1
      simp only at h1
      have : t.m_orderedOpMayaIndices.isEmpty = false := by
        rw [h1]
        cases hl : s.m_orderedOps with
        | nil => exact absurd hl hops
        | cons a l => rfl
      simp [this]
    · rw [if_neg hm] at h1
      by_cases hp : hasFlag s.m_flags kSinglePivotSchema = true
      · rw [if_pos hp] at h1
        simp only at h1
        have : t.m_orderedOpMayaIndices.isEmpty = false := by
          rw [h1]
          cases hl : s.m_orderedOps with
          | nil => exact absurd hl hops
          | cons a l => rfl
        simp [this]
      · simp [hm, hp]
  · rw [if_neg hc] at h1
    rw [h1, if_neg hc]

theorem buildOrderedOpMayaIndices_idem (s : TransformationMatrix) :
    s.buildOrderedOpMayaIndices.buildOrderedOpMayaIndices = s.buildOrderedOpMayaIndices := by
  obtain ⟨b1, b2, b3, b4⟩ := buildOrderedOpMayaIndices_frame s
  exact buildOrderedOpMayaIndices_of_built s _ rfl b1 b3

theorem AddXformOp_mem (valid : Bool) (stage : UsdStage) (ty : XformOpType) (pr : Precision)
    (nm : TfToken) (inv : Bool) (op : UsdGeomXformOp)
    (h : (AddXformOp valid stage ty pr nm inv).1 = some op) :
    (⟨ty, nm, inv⟩ : UsdGeomXformOp) ∈ (AddXformOp valid stage ty pr nm inv).2.xformOpOrder := by
  simp only [AddXformOp] at h ⊢
  split_ifs at h ⊢ with h1
  split <;> simp_all

theorem AddXformOp_again (valid : Bool) (stage : UsdStage) (ty : XformOpType) (pr : Precision)
    (nm : TfToken) (inv : Bool) (h : (⟨ty, nm, inv⟩ : UsdGeomXformOp) ∈ stage.xformOpOrder) :
    AddXformOp valid stage ty pr nm inv = (none, stage) := by
  simp [AddXformOp, h]

theorem withStructureOf_trans (s t t' : TransformationMatrix) (h1 : t' = withStructureOf t t')
    (h2 : t = withStructureOf s t) : t' = withStructureOf s t' :=
  calc t' = withStructureOf t t' := h1
    _ = withStructureOf (withStructureOf s t) t' := by rw [← h2]
    _ = withStructureOf s t' := rfl

theorem withStructureOf_build (s : TransformationMatrix) :
    s.buildOrderedOpMayaIndices = withStructureOf s s.buildOrderedOpMayaIndices := by
  obtain ⟨b1, b2, b3, b4⟩ := buildOrderedOpMayaIndices_frame s
  have hb := buildOrderedOpMayaIndices_eq s
  unfold withStructureOf
  rw [b1, b2, b3, b4]
  exact hb

theorem withStructureOf_addOp (s : TransformationMatrix) (ty : XformOpType) (pr : Precision)
    (nm : TfToken) (idx : ℕ) (beg : Bool) (r : ℤ) (s' : TransformationMatrix)
    (h : s.addOp ty pr nm idx beg = some (r, s')) : s' = withStructureOf s s' := by
  obtain ⟨cls, _, h | ⟨p, _, _, _, _, _, _, h⟩⟩ := addOp_cases s ty pr nm idx beg r s' h
  · rw [h.2.2]; rfl
  · rw [h]; rfl

theorem withStructureOf_insertOp (s : TransformationMatrix) (ty : XformOpType) (pr : Precision)
    (nm : TfToken) (flag : Flags) (beg : Bool) (st : MStatus) (s' : TransformationMatrix)
    (h : s.insertOp ty pr nm flag beg = some (st, s')) : s' = withStructureOf s s' := by
  have hb := withStructureOf_build s
  rcases insertOp_cases s ty pr nm flag beg st s' h with
    ⟨_, r, s2, h2, ⟨_, _, e⟩ | ⟨_, _, e⟩⟩ |
    ⟨_, r2, s1, h1, ⟨_, _, e⟩ | ⟨_, r1, s2, h2, ⟨_, _, e⟩ | ⟨_, _, e⟩⟩⟩
  · rw [e]
    exact withStructureOf_trans _ _ _ (withStructureOf_addOp _ _ _ _ _ _ _ _ h2) hb
  · have h3 := withStructureOf_trans _ _ _ (withStructureOf_addOp _ _ _ _ _ _ _ _ h2) hb
    exact withStructureOf_trans _ _ _ (by rw [e]; rfl) h3
  · rw [e]
    exact withStructureOf_trans _ _ _ (withStructureOf_addOp _ _ _ _ _ _ _ _ h1) hb
  · have h3 := withStructureOf_trans _ _ _ (withStructureOf_addOp _ _ _ _ _ _ _ _ h1) hb
    have h4 := withStructureOf_trans _ _ _ (withStructureOf_addOp _ _ _ _ _ _ _ _ h2) h3
    exact withStructureOf_trans _ _ _ (by rw [e]; rfl) h4
  · have h3 := withStructureOf_trans _ _ _ (withStructureOf_addOp _ _ _ _ _ _ _ _ h1) hb
    have h4 := withStructureOf_trans _ _ _ (withStructureOf_addOp _ _ _ _ _ _ _ _ h2) h3
    exact withStructureOf_trans _ _ _ (by rw [e]; rfl) h4

/-- A failed `insertOp` fails again, in the same way, from the state it left. -/
theorem insertOp_fail_again (s : TransformationMatrix) (ty : XformOpType) (pr : Precision)
    (nm : TfToken) (flag : Flags) (beg : Bool) (s' : TransformationMatrix)
    (h : s.insertOp ty pr nm flag beg = some (.kFailure, s')) :
    s'.insertOp ty pr nm flag beg = some (.kFailure, s') := by
  obtain ⟨b1, b2, b3, b4⟩ := buildOrderedOpMayaIndices_frame s
  have hbb := buildOrderedOpMayaIndices_idem s
  rcases insertOp_cases s ty pr nm flag beg .kFailure s' h with
    ⟨hp, r, s2, h2, ⟨hr, _, e⟩ | ⟨_, hst, _⟩⟩ |
    ⟨hp, r2, s1, h1, ⟨hr, _, e⟩ | ⟨hr2, r1, s2, h2, ⟨hr1, _, e⟩ | ⟨_, hst, _⟩⟩⟩
  · -- a single operator whose `AddXformOp` failed
    obtain ⟨cls, hc, hf | ⟨p, hp', _⟩⟩ := addOp_cases _ _ _ _ _ _ _ _ h2
    · have hs2 : s2 = s.buildOrderedOpMayaIndices := hf.2.2
      subst hr
      subst hs2
      rw [e]
      unfold insertOp
      simp only [hbb, hp, ne_eq, not_true_eq_false, if_false, false_and]
      rw [h2]
      simp
    · omega
  · exact absurd hst (by simp)
  · -- the twin's `AddXformOp` failed
    obtain ⟨cls, hc, hf | ⟨p, hp', _⟩⟩ := addOp_cases _ _ _ _ _ _ _ _ h1
    · have hs1 : s1 = s.buildOrderedOpMayaIndices := hf.2.2
      subst hr
      subst hs1
      rw [e]
      unfold insertOp
      simp only [hbb, ne_eq, hp, not_false_eq_true, if_true]
      rw [h1]
      simp
    · omega
  · -- the twin was added, the primary member's `AddXformOp` failed
    obtain ⟨cls2, hc2, hf | ⟨p, hp', hpe, hl1, hl2, hl3, ha, hs1⟩⟩ :=
      addOp_cases _ _ _ _ _ _ _ _ h1
    · exact absurd hf.1 hr2
    · obtain ⟨cls1, hc1, hf1 | ⟨p1, hp1, _⟩⟩ := addOp_cases _ _ _ _ _ _ _ _ h2
      · have hs2 : s2 = s1 := hf1.2.2
        have hmem := AddXformOp_mem _ _ _ _ _ _ _ ha
        have hs' : s' = { s.buildOrderedOpMayaIndices with
            stage := (AddXformOp s.buildOrderedOpMayaIndices.primValid
              s.buildOrderedOpMayaIndices.stage ty pr nm cls2.isInvertedTwin).2 } := by
          rw [e, hs2, hs1, hp']
          simp only [insertUndone, Int.toNat_ofNat]
          rw [List.eraseIdx_insertIdx, List.eraseIdx_insertIdx, List.eraseIdx_insertIdx]
        have hbuild : s'.buildOrderedOpMayaIndices = s' := by
          apply buildOrderedOpMayaIndices_of_built s
          · rw [hs']
          · rw [hs']; exact b1
          · rw [hs']; exact b3
        have hadd : s'.addOp ty pr nm (MayaStack.FindOpIndexPair nm).2 beg = some (-1, s') := by
          apply addOp_fail _ _ _ _ _ _ cls2 hc2
          rw [hs']
          simp only
          rw [AddXformOp_again _ _ _ _ _ _ hmem]
        unfold insertOp
        simp only [hbuild, ne_eq, hp, not_false_eq_true, if_true, hadd, and_self]
      · omega
  · exact absurd hst (by simp)

theorem mayaStack_name (nm : TfToken) (cls : UsdMayaXformOpClassification) :
    (MayaStack.ops[(MayaStack.FindOpIndexPair nm).1]? = some cls → cls.name = nm) ∧
    (MayaStack.ops[(MayaStack.FindOpIndexPair nm).2]? = some cls → cls.name = nm) := by
  cases nm <;> refine ⟨fun h => ?_, fun h => ?_⟩ <;> first
    | (cases h; rfl)
    | exact Option.noConfusion (h.symm.trans (by decide : _ = none))

theorem find_zip_insertIdx_other {α β : Type} (P : α → Bool) (c : α) (x : β)
    (hP : P c = false) :
    ∀ (p : ℕ) (l1 : List α) (l2 : List β), p ≤ l1.length → p ≤ l2.length →
      ((l1.insertIdx p c).zip (l2.insertIdx p x)).find? (fun pr => P pr.1)
        = (l1.zip l2).find? (fun pr => P pr.1)
  | 0, l1, l2, _, _ => by simp [List.insertIdx_zero, hP]
  | p + 1, [], _, h1, _ => by simp at h1
  | p + 1, _ :: _, [], _, h2 => by simp at h2
  | p + 1, a :: l1, b :: l2, h1, h2 => by
    have ih := find_zip_insertIdx_other P c x hP p l1 l2 (by simpa using h1) (by simpa using h2)
    simp only [List.insertIdx_succ_cons, List.zip_cons_cons, List.find?_cons]
    rw [ih]

theorem findOp_addOp_other (s : TransformationMatrix) (ty : XformOpType) (pr : Precision)
    (nm nm' : TfToken) (idx : ℕ) (beg : Bool) (r : ℤ) (s' : TransformationMatrix)
    (hidx : idx = (MayaStack.FindOpIndexPair nm).1 ∨ idx = (MayaStack.FindOpIndexPair nm).2)
    (h : s.addOp ty pr nm idx beg = some (r, s')) (hne : nm' ≠ nm) :
    s'.findOp nm' = s.findOp nm' := by
  obtain ⟨cls, hc, h | ⟨p, _, _, hp1, hp2, _, _, h⟩⟩ := addOp_cases s ty pr nm idx beg r s' h
  · rw [h.2.2]
  · have hn : cls.name = nm := by
      rcases hidx with hi | hi
      · exact (mayaStack_name nm cls).1 (by rw [← hi]; exact hc)
      · exact (mayaStack_name nm cls).2 (by rw [← hi]; exact hc)
    rw [h]
    simp only [findOp]
    rw [find_zip_insertIdx_other (fun c => decide (c.name = nm')) cls _
      (by simp [hn]; exact fun h => hne h.symm) p _ _ hp1 hp2]

theorem findOp_build (s : TransformationMatrix) (nm : TfToken) :
    s.buildOrderedOpMayaIndices.findOp nm = s.findOp nm := by
  obtain ⟨b1, b2, _, _⟩ := buildOrderedOpMayaIndices_frame s
  simp only [findOp, b1, b2]

/-- A successful `insertOp` sets the flag and leaves the operators of other names where the
lockstep walk finds them. -/
theorem insertOp_success_frame (s : TransformationMatrix) (ty : XformOpType) (pr : Precision)
    (nm : TfToken) (flag : Flags) (beg : Bool) (s' : TransformationMatrix)
    (h : s.insertOp ty pr nm flag beg = some (.kSuccess, s')) :
    s'.m_flags = setFlag s.m_flags flag ∧ ∀ nm', nm' ≠ nm → s'.findOp nm' = s.findOp nm' := by
  obtain ⟨b1, b2, b3, b4⟩ := buildOrderedOpMayaIndices_frame s
  rcases insertOp_cases s ty pr nm flag beg .kSuccess s' h with
    ⟨_, r, s2, h2, ⟨_, hst, _⟩ | ⟨_, _, e⟩⟩ |
    ⟨_, r2, s1, h1, ⟨_, hst, _⟩ | ⟨_, r1, s2, h2, ⟨_, hst, _⟩ | ⟨_, _, e⟩⟩⟩
  · exact absurd hst (by simp)
  · have hw := withStructureOf_addOp _ _ _ _ _ _ _ _ h2
    have hf : s2.m_flags = s.m_flags := by
      obtain ⟨cls, _, hh | ⟨p, _, _, _, _, _, _, hh⟩⟩ := addOp_cases _ _ _ _ _ _ _ _ h2
      · rw [hh.2.2, b3]
      · rw [hh]; exact b3
    refine ⟨by rw [e]; simp only [insertDone, hf], ?_⟩
    intro nm' hne
    rw [e]
    show s2.findOp nm' = _
    rw [findOp_addOp_other _ _ _ _ _ _ _ _ _ (Or.inl rfl) h2 hne, findOp_build]
  · exact absurd hst (by simp)
  · exact absurd hst (by simp)
  · have hf1 : s1.m_flags = s.m_flags := by
      obtain ⟨cls, _, hh | ⟨p, _, _, _, _, _, _, hh⟩⟩ := addOp_cases _ _ _ _ _ _ _ _ h1
      · rw [hh.2.2, b3]
      · rw [hh]; exact b3
    have hf : s2.m_flags = s.m_flags := by
      obtain ⟨cls, _, hh | ⟨p, _, _, _, _, _, _, hh⟩⟩ := addOp_cases _ _ _ _ _ _ _ _ h2
      · rw [hh.2.2, hf1]
      · rw [hh]; exact hf1
    refine ⟨by rw [e]; simp only [insertDone, hf], ?_⟩
    intro nm' hne
    rw [e]
    show s2.findOp nm' = _
    rw [findOp_addOp_other _ _ _ _ _ _ _ _ _ (Or.inl rfl) h2 hne,
      findOp_addOp_other _ _ _ _ _ _ _ _ _ (Or.inr rfl) h1 hne, findOp_build]

theorem setIfChanged_fixed (st : UsdStage) (op : UsdGeomXformOp) (val : VtValue)
    (tc : UsdTimeCode) (h : op.Get st tc = some val) : setIfChanged st op val tc tc = (true, st) := by
  simp [setIfChanged, h]

/-- After the guarded write of a non-inverse operator that has an attribute, the operator
holds the value, and the type of its attribute is the same. -/
theorem setIfChanged_spec (st : UsdStage) (op : UsdGeomXformOp) (val : VtValue)
    (tc : UsdTimeCode) (hinv : op.isInverseOp = false) (a : UsdAttribute)
    (ha : op.GetAttr st = some a) :
    op.Get (setIfChanged st op val tc tc).2 tc = some val ∧
    op.GetTypeName (setIfChanged st op val tc tc).2 = op.GetTypeName st ∧
    ∃ a', op.GetAttr (setIfChanged st op val tc tc).2 = some a' := by
  unfold setIfChanged
  split_ifs with h
  · refine ⟨Get_after_Set st op val tc hinv a ha, ?_, _, GetAttr_after_Set st op val tc hinv a ha⟩
    simp only [UsdGeomXformOp.GetTypeName, GetAttr_after_Set st op val tc hinv a ha, ha,
      typeName_author]
  · exact ⟨not_not.mp h, rfl, a, ha⟩

theorem pushVector_idem (H : Host) (st : UsdStage) (v : MVector) (op : UsdGeomXformOp)
    (tc : UsdTimeCode) (hinv : op.isInverseOp = false) :
    (pushVector H (pushVector H st v op tc).2 v op tc).2 = (pushVector H st v op tc).2 := by
  have key : ∀ val : VtValue, ∀ a, op.GetAttr st = some a →
      (op.GetTypeName st = .kVec3d → val = .vec3 (toGfVec3 id v)) →
      (op.GetTypeName st = .kVec3f → val = .vec3 (toGfVec3 H.toFloat v)) →
      (op.GetTypeName st = .kVec3h → val = .vec3 (toGfVec3 H.toHalf v)) →
      (op.GetTypeName st = .kVec3i → val = .vec3 (toGfVec3 H.toInt v)) →
      (pushVector H (setIfChanged st op val tc tc).2 v op tc).2
        = (setIfChanged st op val tc tc).2 := by
    intro val a ha h1 h2 h3 h4
    obtain ⟨g1, g2, a', g3⟩ := setIfChanged_spec st op val tc hinv a ha
    simp only [pushVector, g3, g2]
    split_ifs
    · rfl
    · cases hty : op.GetTypeName st <;> simp only [] <;> first
        | rfl
        | (rw [setIfChanged_fixed _ _ _ _ (by first
            | rw [← h1 hty]; exact g1
            | rw [← h2 hty]; exact g1
            | rw [← h3 hty]; exact g1
            | rw [← h4 hty]; exact g1)])
  cases ha : op.GetAttr st with
  | none => simp [pushVector, ha]
  | some a =>
    by_cases hg : timeSampleGate st op tc = true
    · simp [pushVector, ha, hg]
    · have e : ∀ val, (pushVector H st v op tc).2 = (setIfChanged st op val tc tc).2 →
          (op.GetTypeName st = .kVec3d → val = .vec3 (toGfVec3 id v)) →
          (op.GetTypeName st = .kVec3f → val = .vec3 (toGfVec3 H.toFloat v)) →
          (op.GetTypeName st = .kVec3h → val = .vec3 (toGfVec3 H.toHalf v)) →
          (op.GetTypeName st = .kVec3i → val = .vec3 (toGfVec3 H.toInt v)) →
          (pushVector H (pushVector H st v op tc).2 v op tc).2 = (pushVector H st v op tc).2 := by
        intro val hv h1 h2 h3 h4
        rw [hv]
        exact key val a ha h1 h2 h3 h4
      cases hty : op.GetTypeName st with
      | kVec3d =>
        exact e (.vec3 (toGfVec3 id v)) (by simp [pushVector, ha, hg, hty]) (fun _ => rfl)
          (fun h => by rw [hty] at h; cases h) (fun h => by rw [hty] at h; cases h)
          (fun h => by rw [hty] at h; cases h)
      | kVec3f =>
        exact e (.vec3 (toGfVec3 H.toFloat v)) (by simp [pushVector, ha, hg, hty])
          (fun h => by rw [hty] at h; cases h) (fun _ => rfl)
          (fun h => by rw [hty] at h; cases h) (fun h => by rw [hty] at h; cases h)
      | kVec3h =>
        exact e (.vec3 (toGfVec3 H.toHalf v)) (by simp [pushVector, ha, hg, hty])
          (fun h => by rw [hty] at h; cases h) (fun h => by rw [hty] at h; cases h)
          (fun _ => rfl) (fun h => by rw [hty] at h; cases h)
      | kVec3i =>
        exact e (.vec3 (toGfVec3 H.toInt v)) (by simp [pushVector, ha, hg, hty])
          (fun h => by rw [hty] at h; cases h) (fun h => by rw [hty] at h; cases h)
          (fun h => by rw [hty] at h; cases h) (fun _ => rfl)
      | _ => simp [pushVector, ha, hg, hty]

theorem pushPoint_idem (H : Host) (st : UsdStage) (v : MPoint) (op : UsdGeomXformOp)
    (tc : UsdTimeCode) (hinv : op.isInverseOp = false) :
    (pushPoint H (pushPoint H st v op tc).2 v op tc).2 = (pushPoint H st v op tc).2 := by
  have key : ∀ val : VtValue, ∀ a, op.GetAttr st = some a →
      (op.GetTypeName st = .kVec3d → val = .vec3 (toGfVec3 id v)) →
      (op.GetTypeName st = .kVec3f → val = .vec3 (toGfVec3 H.toFloat v)) →
      (op.GetTypeName st = .kVec3h → val = .vec3 (toGfVec3 H.toHalf v)) →
      (op.GetTypeName st = .kVec3i → val = .vec3 (toGfVec3 H.toInt v)) →
      (pushPoint H (setIfChanged st op val tc tc).2 v op tc).2
        = (setIfChanged st op val tc tc).2 := by
    intro val a ha h1 h2 h3 h4
    obtain ⟨g1, g2, a', g3⟩ := setIfChanged_spec st op val tc hinv a ha
    simp only [pushPoint, g2]
    split_ifs
    · rfl
    · cases hty : op.GetTypeName st <;> simp only [] <;> first
        | rfl
        | (rw [setIfChanged_fixed _ _ _ _ (by first
            | rw [← h1 hty]; exact g1
            | rw [← h2 hty]; exact g1
            | rw [← h3 hty]; exact g1
            | rw [← h4 hty]; exact g1)])
  cases ha : op.GetAttr st with
  | none => simp [pushPoint, UsdGeomXformOp.GetTypeName, ha]
  | some a =>
    by_cases hg : timeSampleGate st op tc = true
    · simp [pushPoint, hg]
    · have e : ∀ val, (pushPoint H st v op tc).2 = (setIfChanged st op val tc tc).2 →
          (op.GetTypeName st = .kVec3d → val = .vec3 (toGfVec3 id v)) →
          (op.GetTypeName st = .kVec3f → val = .vec3 (toGfVec3 H.toFloat v)) →
          (op.GetTypeName st = .kVec3h → val = .vec3 (toGfVec3 H.toHalf v)) →
          (op.GetTypeName st = .kVec3i → val = .vec3 (toGfVec3 H.toInt v)) →
          (pushPoint H (pushPoint H st v op tc).2 v op tc).2 = (pushPoint H st v op tc).2 := by
        intro val hv h1 h2 h3 h4
        rw [hv]
        exact key val a ha h1 h2 h3 h4
      cases hty : op.GetTypeName st with
      | kVec3d =>
        exact e (.vec3 (toGfVec3 id v)) (by simp [pushPoint, hg, hty]) (fun _ => rfl)
          (fun h => by rw [hty] at h; cases h) (fun h => by rw [hty] at h; cases h)
          (fun h => by rw [hty] at h; cases h)
      | kVec3f =>
        exact e (.vec3 (toGfVec3 H.toFloat v)) (by simp [pushPoint, hg, hty])
          (fun h => by rw [hty] at h; cases h) (fun _ => rfl)
          (fun h => by rw [hty] at h; cases h) (fun h => by rw [hty] at h; cases h)
      | kVec3h =>
        exact e (.vec3 (toGfVec3 H.toHalf v)) (by simp [pushPoint, hg, hty])
          (fun h => by rw [hty] at h; cases h) (fun h => by rw [hty] at h; cases h)
          (fun _ => rfl) (fun h => by rw [hty] at h; cases h)
      | kVec3i =>
        exact e (.vec3 (toGfVec3 H.toInt v)) (by simp [pushPoint, hg, hty])
          (fun h => by rw [hty] at h; cases h) (fun h => by rw [hty] at h; cases h)
          (fun h => by rw [hty] at h; cases h) (fun _ => rfl)
      | _ => simp [pushPoint, hg, hty]

theorem pushMatrix_idem (st : UsdStage) (M : MMatrix) (op : UsdGeomXformOp)
    (tc : UsdTimeCode) (hinv : op.isInverseOp = false) :
    (pushMatrix (pushMatrix st M op tc).2 M op tc).2 = (pushMatrix st M op tc).2 := by
  by_cases hg : timeSampleGate st op tc = true
  · simp [pushMatrix, hg]
  · cases hty : op.GetTypeName st with
    | kMatrix4d =>
      by_cases hget : op.Get st tc = some (.matrix M)
      · simp [pushMatrix, hg, hty, hget]
      · have ha : ∃ a, op.GetAttr st = some a := by
          cases h : op.GetAttr st with
          | none => simp [UsdGeomXformOp.GetTypeName, h] at hty
          | some a => exact ⟨a, rfl⟩
        obtain ⟨a, ha⟩ := ha
        have e : (pushMatrix st M op tc).2 = (op.Set st (.matrix M) tc).2 := by
          simp only [pushMatrix, hg, hty, ne_eq, hget, not_false_eq_true, if_true,
            Bool.false_eq_true, if_false]
          split_ifs <;> rfl
        have g1 := Get_after_Set st op (.matrix M) tc hinv a ha
        have g2 : op.GetTypeName (op.Set st (.matrix M) tc).2 = .kMatrix4d := by
          simp only [UsdGeomXformOp.GetTypeName, GetAttr_after_Set st op _ tc hinv a ha,
            typeName_author]
          simpa [UsdGeomXformOp.GetTypeName, ha] using hty
        rw [e]
        simp only [pushMatrix, g2, g1, ne_eq, not_true_eq_false, if_false]
        split_ifs <;> rfl
    | _ => simp [pushMatrix, hg, hty]

theorem pushTransformToPrim_idem (H : Host) (t : TransformationMatrix)
    (hwf : ∀ op, t.findOp .transform = some op → op.isInverseOp = false) :
    (t.pushTransformToPrim H).pushTransformToPrim H = t.pushTransformToPrim H := by
  cases hf : t.findOp .transform with
  | none => simp [pushTransformToPrim, hf]
  | some op =>
    by_cases hp : t.pushPrimToMatrix = true
    · have e : t.pushTransformToPrim H
          = { t with stage := (pushMatrix t.stage (t.asMatrix H) op t.getTimeCode).2 } := by
        simp [pushTransformToPrim, hf, hp, internal_pushMatrix]
      rw [e]
      have hf' : findOp { t with stage := (pushMatrix t.stage (t.asMatrix H) op t.getTimeCode).2 }
          .transform = some op := hf
      have hp' : pushPrimToMatrix
          { t with stage := (pushMatrix t.stage (t.asMatrix H) op t.getTimeCode).2 } = true := hp
      simp only [pushTransformToPrim, hf', hp', if_true, internal_pushMatrix]
      have := pushMatrix_idem t.stage (t.asMatrix H) op t.getTimeCode (hwf op hf)
      exact congrArg (fun st => { t with stage := st }) this
    · simp [pushTransformToPrim, hf, hp]

theorem writeback_idem (H : Host) (t : TransformationMatrix)
    (hwf : ∀ op, t.findOp .transform = some op → op.isInverseOp = false) :
    (if (if t.m_enableUsdWriteback = true then t.pushTransformToPrim H else t).m_enableUsdWriteback
        = true
      then (if t.m_enableUsdWriteback = true then t.pushTransformToPrim H else t).pushTransformToPrim H
      else (if t.m_enableUsdWriteback = true then t.pushTransformToPrim H else t))
      = (if t.m_enableUsdWriteback = true then t.pushTransformToPrim H else t) := by
  by_cases hw : t.m_enableUsdWriteback = true
  · have hw' : (t.pushTransformToPrim H).m_enableUsdWriteback = true := by
      unfold pushTransformToPrim
      split
      · split_ifs <;> exact hw
      · exact hw
    simp only [hw, if_true, hw']
    exact pushTransformToPrim_idem H t hwf
  · simp [hw]

/-- The fixpoint argument the setters share. `P` holds the facts that make the first part of
the setter (base call, tweak) the identity; `G` adds what the pushes need. -/
theorem setter_tail_fixpoint (P G : TransformationMatrix → Prop)
    (avail has c : TransformationMatrix → Bool)
    (ins : TransformationMatrix → Option (MStatus × TransformationMatrix))
    (cond : TransformationMatrix → Bool)
    (push : TransformationMatrix → TransformationMatrix) (status : MStatus)
    (hPG : ∀ t, G t → P t)
    (h_ok : ∀ t t', G t → ins t = some (.kSuccess, t') →
      G t' ∧ avail t' = avail t ∧ has t' = true)
    (h_fail : ∀ t t', G t → ins t = some (.kFailure, t') →
      P t' ∧ avail t' = avail t ∧ has t' = has t ∧ c t' = c t ∧ ins t' = some (.kFailure, t'))
    (h_frame : ∀ t, G t →
      G (push t) ∧ avail (push t) = avail t ∧ has (push t) = has t ∧ c (push t) = c t)
    (h_idem : ∀ t, G t → cond t = true → cond (push t) = true → push (push t) = push t)
    (tail : TransformationMatrix → Option (MStatus × TransformationMatrix))
    (htail : ∀ t, tail t = (if avail t = true then
        match (if has t = true then some (MStatus.kSuccess, t)
          else if c t = true then ins t else some (MStatus.kSuccess, t)) with
        | none => none
        | some (.kFailure, s2) => some (MStatus.kFailure, s2)
        | some (.kSuccess, s2) =>
          if cond s2 = true then some (status, push s2) else some (status, s2)
      else some (status, t)))
    (s : TransformationMatrix) (hG : G s) (st : MStatus) (s3 : TransformationMatrix)
    (h : tail s = some (st, s3)) : (∃ st', tail s3 = some (st', s3)) ∧ P s3 := by
  -- a state in which no operator has to be inserted
  have settled : ∀ t, G t → avail t = true → (has t = true ∨ c t = false) →
      ∀ st3 t3, (if cond t = true then some (status, push t) else some (status, t))
        = some (st3, t3) → (∃ st', tail t3 = some (st', t3)) ∧ P t3 := by
    intro t hGt hav hno st3 t3 h3
    have hI : (if has t = true then some (MStatus.kSuccess, t)
          else if c t = true then ins t else some (MStatus.kSuccess, t))
        = some (MStatus.kSuccess, t) := by
      rcases hno with hh | hc
      · rw [if_pos hh]
      · split_ifs
        · rfl
        · rename_i h1 h2; rw [hc] at h2; exact absurd h2 (by simp)
        · rfl
    by_cases hc : cond t = true
    · rw [if_pos hc] at h3
      simp only [Option.some.injEq, Prod.mk.injEq] at h3
      obtain ⟨f1, f2, f3, f4⟩ := h_frame t hGt
      have hI' : (if has (push t) = true then some (MStatus.kSuccess, push t)
            else if c (push t) = true then ins (push t) else some (MStatus.kSuccess, push t))
          = some (MStatus.kSuccess, push t) := by
        rw [f3, f4]
        rcases hno with hh | hc'
        · rw [if_pos hh]
        · split_ifs
          · rfl
          · rename_i h1 h2; rw [hc'] at h2; exact absurd h2 (by simp)
          · rfl
      rw [← h3.2]
      refine ⟨?_, hPG _ f1⟩
      rw [htail, f2, if_pos hav, hI']
      simp only
      by_cases hc2 : cond (push t) = true
      · rw [if_pos hc2, h_idem t hGt hc hc2]
        exact ⟨_, rfl⟩
      · rw [if_neg hc2]
        exact ⟨_, rfl⟩
    · rw [if_neg hc] at h3
      simp only [Option.some.injEq, Prod.mk.injEq] at h3
      rw [← h3.2]
      refine ⟨?_, hPG _ hGt⟩
      rw [htail, if_pos hav, hI]
      simp only
      rw [if_neg hc]
      exact ⟨_, rfl⟩
  rw [htail] at h
  by_cases hav : avail s = true
  · rw [if_pos hav] at h
    by_cases hh : has s = true
    · rw [if_pos hh] at h
      exact settled s hG hav (Or.inl hh) st s3 h
    · rw [if_neg hh] at h
      by_cases hc : c s = true
      · rw [if_pos hc] at h
        cases hi : ins s with
        | none => rw [hi] at h; exact absurd h (by simp)
        | some r =>
          obtain ⟨sti, si⟩ := r
          rw [hi] at h
          cases sti with
          | kSuccess =>
            simp only at h
            obtain ⟨o1, o2, o3⟩ := h_ok s si hG hi
            exact settled si o1 (by rw [o2, hav]) (Or.inl o3) st s3 h
          | kFailure =>
            simp only [Option.some.injEq, Prod.mk.injEq] at h
            obtain ⟨o1, o2, o3, o4, o5⟩ := h_fail s si hG hi
            rw [← h.2]
            refine ⟨?_, o1⟩
            rw [htail, o2, if_pos hav, o3, if_neg hh, o4, if_pos hc, o5]
            exact ⟨_, rfl⟩
      · rw [if_neg hc] at h
        exact settled s hG hav (Or.inr (by simpa using hc)) st s3 h
  · rw [if_neg hav] at h
    simp only [Option.some.injEq, Prod.mk.injEq] at h
    rw [← h.2]
    refine ⟨?_, hPG _ hG⟩
    rw [htail, if_neg hav]
    exact ⟨_, rfl⟩

theorem MVector.sub_self (v : MVector) : v.sub v = MVector.zero := by
  cases v
  simp [MVector.sub, MVector.zero]

theorem MVector.isEquivalent_refl (v : MVector) : v.isEquivalent v = true := by
  simp [MVector.isEquivalent, kTol]

theorem MEulerRotation.isEquivalent_self (e : MEulerRotation) : e.isEquivalent e = true := by
  simp [MEulerRotation.isEquivalent, kTol]

theorem insertOp_fail_flags (s : TransformationMatrix) (ty : XformOpType) (pr : Precision)
    (nm : TfToken) (flag : Flags) (beg : Bool) (s' : TransformationMatrix)
    (h : s.insertOp ty pr nm flag beg = some (.kFailure, s')) : s'.m_flags = s.m_flags := by
  obtain ⟨b1, b2, b3, b4⟩ := buildOrderedOpMayaIndices_frame s
  have hadd : ∀ (t : TransformationMatrix) (idx : ℕ) (r : ℤ) (t' : TransformationMatrix),
      t.addOp ty pr nm idx beg = some (r, t') → t'.m_flags = t.m_flags := by
    intro t idx r t' ht
    obtain ⟨cls, _, hh | ⟨p, _, _, _, _, _, _, hh⟩⟩ := addOp_cases _ _ _ _ _ _ _ _ ht
    · rw [hh.2.2]
    · rw [hh]
  rcases insertOp_cases s ty pr nm flag beg .kFailure s' h with
    ⟨_, r, s2, h2, ⟨_, _, e⟩ | ⟨_, hst, _⟩⟩ |
    ⟨_, r2, s1, h1, ⟨_, _, e⟩ | ⟨_, r1, s2, h2, ⟨_, _, e⟩ | ⟨_, hst, _⟩⟩⟩
  · rw [e, hadd _ _ _ _ h2, b3]
  · exact absurd hst (by simp)
  · rw [e, hadd _ _ _ _ h1, b3]
  · rw [e]
    show s2.m_flags = _
    rw [hadd _ _ _ _ h2, hadd _ _ _ _ h1, b3]
  · exact absurd hst (by simp)

theorem pushToPrimAvailable_congr (t t' : TransformationMatrix)
    (hf : hasFlag t'.m_flags kPushToPrimEnabled = hasFlag t.m_flags kPushToPrimEnabled)
    (hv : t'.primValid = t.primValid) : t'.pushToPrimAvailable = t.pushToPrimAvailable := by
  simp only [pushToPrimAvailable, pushToPrimEnabled, hf, hv]

theorem primValid_withStructureOf (t t' : TransformationMatrix) (h : t' = withStructureOf t t') :
    t'.primValid = t.primValid := by
  rw [h]; rfl

theorem pushTransformToPrim_stage (H : Host) (t : TransformationMatrix) :
    t.pushTransformToPrim H = { t with stage := (t.pushTransformToPrim H).stage } := by
  unfold pushTransformToPrim
  split
  · split_ifs <;> rfl
  · rfl

theorem writeback_stage (H : Host) (t : TransformationMatrix) :
    (if t.m_enableUsdWriteback = true then t.pushTransformToPrim H else t)
      = { t with stage :=
          (if t.m_enableUsdWriteback = true then t.pushTransformToPrim H else t).stage } := by
  split_ifs
  · exact pushTransformToPrim_stage H t
  · rfl

theorem translateTo_prep_fix (v : MVector) (t : TransformationMatrix)
    (h1 : t.translationValue = v) (h2 : t.m_translationTweak = v.sub t.m_translationFromUsd) :
    ({ t with
        toMPxTransformationMatrix := { t.toMPxTransformationMatrix with translationValue := v }
        m_translationTweak := v.sub t.m_translationFromUsd } : TransformationMatrix) = t := by
  cases t
  rename_i b _ _ _ _ _ _ _ _ _ _ _ _ _ _ _ _ _ _ _ _ _ _ _ _ _ _ _ _ _ _ _
  cases b
  simp only at h1 h2
  subst h1
  rw [← h2]

theorem pushTranslateToPrim_cases (H : Host) (t : TransformationMatrix) :
    t.pushTranslateToPrim H = t ∨
    (∃ st, t.pushTranslateToPrim H =
      { t with stage := st, m_translationFromUsd := t.translationValue,
               m_translationTweak := MVector.zero }) ∨
    (t.findOp .translate = none ∧ t.pushTranslateToPrim H =
      (if t.m_enableUsdWriteback = true then t.pushTransformToPrim H else t)) := by
  unfold pushTranslateToPrim
  cases hf : t.findOp .translate with
  | none => exact Or.inr (Or.inr ⟨rfl, rfl⟩)
  | some op =>
    simp only
    split
    · exact Or.inr (Or.inl ⟨_, rfl⟩)
    · exact Or.inl rfl

theorem translateTo_fixpoint (H : Host) (s : TransformationMatrix) (v : MVector) (space : MSpace)
    (hwf : ∀ op, s.findOp .transform = some op → op.isInverseOp = false)
    (st : MStatus) (s3 : TransformationMatrix)
    (h : s.translateTo H .kSuccess v space = some (st, s3)) :
    ∃ st', s3.translateTo H .kSuccess v space = some (st', s3) := by
  by_cases hl : s.translateLocked = true
  · simp only [translateTo, hl, if_true, baseTranslateTo, MStatus.toBool, Option.some.injEq,
      Prod.mk.injEq] at h
    rw [← h.2]
    exact ⟨.kSuccess, by simp only [translateTo, hl, if_true, baseTranslateTo, MStatus.toBool]⟩
  · have hl' : s.translateLocked = false := by simpa using hl
    have hstep : ∀ t : TransformationMatrix, t.translateLocked = false →
        t.translateTo H .kSuccess v space =
          (fun t : TransformationMatrix =>
            if t.pushToPrimAvailable = true then
              match (if t.primHasTranslation = true then some (MStatus.kSuccess, t)
                else if (!t.pushPrimToMatrix && decide (v ≠ MVector.zero)) = true
                  then t.insertTranslateOp else some (MStatus.kSuccess, t)) with
              | none => none
              | some (.kFailure, s2) => some (MStatus.kFailure, s2)
              | some (.kSuccess, s2) =>
                if (!v.isEquivalent s2.m_translationFromUsd) = true
                  then some (MStatus.kSuccess, s2.pushTranslateToPrim H)
                  else some (MStatus.kSuccess, s2)
            else some (MStatus.kSuccess, t))
          { t with
            toMPxTransformationMatrix :=
              { t.toMPxTransformationMatrix with translationValue := v }
            m_translationTweak := v.sub t.m_translationFromUsd } := by
      intro t ht
      simp only [translateTo, ht, Bool.false_eq_true, if_false, baseTranslateTo, MStatus.toBool,
        if_true]
    rw [hstep s hl'] at h
    obtain ⟨⟨st', hfix⟩, hP⟩ := setter_tail_fixpoint
      (fun t => t.translateLocked = false ∧ t.translationValue = v ∧
        t.m_translationTweak = v.sub t.m_translationFromUsd)
      (fun t => (t.translateLocked = false ∧ t.translationValue = v ∧
        t.m_translationTweak = v.sub t.m_translationFromUsd) ∧
        ∀ op, t.findOp .transform = some op → op.isInverseOp = false)
      (fun t => t.pushToPrimAvailable) (fun t => t.primHasTranslation)
      (fun t => !t.pushPrimToMatrix && decide (v ≠ MVector.zero))
      (fun t => t.insertTranslateOp)
      (fun t => !v.isEquivalent t.m_translationFromUsd)
      (pushTranslateToPrim H) .kSuccess
      (fun t hG => hG.1)
      (by
        intro t t' hG hi
        have hw := withStructureOf_insertOp _ _ _ _ _ _ _ _ hi
        obtain ⟨hf, hfind⟩ := insertOp_success_frame _ _ _ _ _ _ _ hi
        refine ⟨⟨?_, ?_⟩, ?_, ?_⟩
        · rw [hw]; exact hG.1
        · intro op hop
          rw [hfind .transform (by decide)] at hop
          exact hG.2 op hop
        · exact pushToPrimAvailable_congr _ _
            (by rw [hf]; exact hasFlag_setFlag_other _ _ _ (by decide))
            (primValid_withStructureOf _ _ hw)
        · show hasFlag t'.m_flags kPrimHasTranslation = true
          rw [hf]; exact hasFlag_setFlag_self _ _ (by decide))
      (by
        intro t t' hG hi
        have hw := withStructureOf_insertOp _ _ _ _ _ _ _ _ hi
        have hf := insertOp_fail_flags _ _ _ _ _ _ _ hi
        refine ⟨?_, ?_, ?_, ?_, insertOp_fail_again _ _ _ _ _ _ _ hi⟩
        · rw [hw]; exact hG.1
        · exact pushToPrimAvailable_congr _ _ (by rw [hf]) (primValid_withStructureOf _ _ hw)
        · show hasFlag t'.m_flags _ = hasFlag t.m_flags _
          rw [hf]
        · show (!hasFlag t'.m_flags _ && _) = (!hasFlag t.m_flags _ && _)
          rw [hf])
      (by
        intro t hG
        obtain ⟨⟨g1, g2, g3⟩, g4⟩ := hG
        rcases pushTranslateToPrim_cases H t with e | ⟨st1, e⟩ | ⟨_, e⟩
        · rw [e]; exact ⟨⟨⟨g1, g2, g3⟩, g4⟩, rfl, rfl, rfl⟩
        · rw [e]
          refine ⟨⟨⟨g1, g2, ?_⟩, g4⟩, rfl, rfl, rfl⟩
          show MVector.zero = v.sub t.translationValue
          rw [g2, MVector.sub_self]
        · rw [e, writeback_stage H t]
          exact ⟨⟨⟨g1, g2, g3⟩, g4⟩, rfl, rfl, rfl⟩)
      (by
        intro t hG hc hc2
        obtain ⟨⟨g1, g2, g3⟩, g4⟩ := hG
        rcases pushTranslateToPrim_cases H t with e | ⟨st1, e⟩ | ⟨hnone, e⟩
        · rw [e, e]
        · rw [e] at hc2
          simp only [g2, MVector.isEquivalent_refl, Bool.not_true, Bool.false_eq_true] at hc2
        · rw [e]
          have hnone' : findOp (if t.m_enableUsdWriteback = true then t.pushTransformToPrim H
              else t) .translate = none := by
            rw [writeback_stage H t]; exact hnone
          simp only [pushTranslateToPrim, hnone']
          exact writeback_idem H t g4)
      _ (fun t => rfl)
      { s with
        toMPxTransformationMatrix := { s.toMPxTransformationMatrix with translationValue := v }
        m_translationTweak := v.sub s.m_translationFromUsd }
      ⟨⟨hl', rfl, rfl⟩, hwf⟩ st s3 h
    refine ⟨st', ?_⟩
    rw [hstep s3 hP.1, translateTo_prep_fix v s3 hP.2.1 hP.2.2]
    exact hfix

theorem scaleTo_prep_fix (v : MVector) (t : TransformationMatrix)
    (h1 : t.scaleValue = v) (h2 : t.m_scaleTweak = v.sub t.m_scaleFromUsd) :
    ({ t with
        toMPxTransformationMatrix := { t.toMPxTransformationMatrix with scaleValue := v }
        m_scaleTweak := v.sub t.m_scaleFromUsd } : TransformationMatrix) = t := by
  cases t
  rename_i b _ _ _ _ _ _ _ _ _ _ _ _ _ _ _ _ _ _ _ _ _ _ _ _ _ _ _ _ _ _ _
  cases b
  simp only at h1 h2
  subst h1
  rw [← h2]

theorem pushScaleToPrim_cases (H : Host) (t : TransformationMatrix) :
    t.pushScaleToPrim H = t ∨
    (∃ st, t.pushScaleToPrim H =
      { t with stage := st, m_scaleFromUsd := t.scaleValue,
               m_scaleTweak := MVector.zero }) ∨
    (t.findOp .scale = none ∧ t.pushScaleToPrim H =
      (if t.m_enableUsdWriteback = true then t.pushTransformToPrim H else t)) := by
  unfold pushScaleToPrim
  cases hf : t.findOp .scale with
  | none => exact Or.inr (Or.inr ⟨rfl, rfl⟩)
  | some op =>
    simp only
    split
    · exact Or.inr (Or.inl ⟨_, rfl⟩)
    · exact Or.inl rfl

theorem scaleTo_fixpoint (H : Host) (s : TransformationMatrix) (v : MVector) (space : MSpace)
    (hwf : ∀ op, s.findOp .transform = some op → op.isInverseOp = false)
    (st : MStatus) (s3 : TransformationMatrix)
    (h : s.scaleTo H .kSuccess v space = some (st, s3)) :
    ∃ st', s3.scaleTo H .kSuccess v space = some (st', s3) := by
  by_cases hl : s.scaleLocked = true
  · simp only [scaleTo, hl, if_true, baseScaleTo, MStatus.toBool, Option.some.injEq,
      Prod.mk.injEq] at h
    rw [← h.2]
    exact ⟨.kSuccess, by simp only [scaleTo, hl, if_true, baseScaleTo, MStatus.toBool]⟩
  · have hl' : s.scaleLocked = false := by simpa using hl
    have hstep : ∀ t : TransformationMatrix, t.scaleLocked = false →
        t.scaleTo H .kSuccess v space =
          (fun t : TransformationMatrix =>
            if t.pushToPrimAvailable = true then
              match (if t.primHasScale = true then some (MStatus.kSuccess, t)
                else if (!t.pushPrimToMatrix && decide (v ≠ MVector.one)) = true
                  then t.insertScaleOp else some (MStatus.kSuccess, t)) with
              | none => none
              | some (.kFailure, s2) => some (MStatus.kFailure, s2)
              | some (.kSuccess, s2) =>
                if (!v.isEquivalent s2.m_scaleFromUsd) = true
                  then some (MStatus.kSuccess, s2.pushScaleToPrim H)
                  else some (MStatus.kSuccess, s2)
            else some (MStatus.kSuccess, t))
          { t with
            toMPxTransformationMatrix :=
              { t.toMPxTransformationMatrix with scaleValue := v }
            m_scaleTweak := v.sub t.m_scaleFromUsd } := by
      intro t ht
      simp only [scaleTo, ht, Bool.false_eq_true, if_false, baseScaleTo, MStatus.toBool,
        if_true]
    rw [hstep s hl'] at h
    obtain ⟨⟨st', hfix⟩, hP⟩ := setter_tail_fixpoint
      (fun t => t.scaleLocked = false ∧ t.scaleValue = v ∧
        t.m_scaleTweak = v.sub t.m_scaleFromUsd)
      (fun t => (t.scaleLocked = false ∧ t.scaleValue = v ∧
        t.m_scaleTweak = v.sub t.m_scaleFromUsd) ∧
        ∀ op, t.findOp .transform = some op → op.isInverseOp = false)
      (fun t => t.pushToPrimAvailable) (fun t => t.primHasScale)
      (fun t => !t.pushPrimToMatrix && decide (v ≠ MVector.one))
      (fun t => t.insertScaleOp)
      (fun t => !v.isEquivalent t.m_scaleFromUsd)
      (pushScaleToPrim H) .kSuccess
      (fun t hG => hG.1)
      (by
        intro t t' hG hi
        have hw := withStructureOf_insertOp _ _ _ _ _ _ _ _ hi
        obtain ⟨hf, hfind⟩ := insertOp_success_frame _ _ _ _ _ _ _ hi
        refine ⟨⟨?_, ?_⟩, ?_, ?_⟩
        · rw [hw]; exact hG.1
        · intro op hop
          rw [hfind .transform (by decide)] at hop
          exact hG.2 op hop
        · exact pushToPrimAvailable_congr _ _
            (by rw [hf]; exact hasFlag_setFlag_other _ _ _ (by decide))
            (primValid_withStructureOf _ _ hw)
        · show hasFlag t'.m_flags kPrimHasScale = true
          rw [hf]; exact hasFlag_setFlag_self _ _ (by decide))
      (by
        intro t t' hG hi
        have hw := withStructureOf_insertOp _ _ _ _ _ _ _ _ hi
        have hf := insertOp_fail_flags _ _ _ _ _ _ _ hi
        refine ⟨?_, ?_, ?_, ?_, insertOp_fail_again _ _ _ _ _ _ _ hi⟩
        · rw [hw]; exact hG.1
        · exact pushToPrimAvailable_congr _ _ (by rw [hf]) (primValid_withStructureOf _ _ hw)
        · show hasFlag t'.m_flags _ = hasFlag t.m_flags _
          rw [hf]
        · show (!hasFlag t'.m_flags _ && _) = (!hasFlag t.m_flags _ && _)
          rw [hf])
      (by
        intro t hG
        obtain ⟨⟨g1, g2, g3⟩, g4⟩ := hG
        rcases pushScaleToPrim_cases H t with e | ⟨st1, e⟩ | ⟨_, e⟩
        · rw [e]; exact ⟨⟨⟨g1, g2, g3⟩, g4⟩, rfl, rfl, rfl⟩
        · rw [e]
          refine ⟨⟨⟨g1, g2, ?_⟩, g4⟩, rfl, rfl, rfl⟩
          show MVector.zero = v.sub t.scaleValue
          rw [g2, MVector.sub_self]
        · rw [e, writeback_stage H t]
          exact ⟨⟨⟨g1, g2, g3⟩, g4⟩, rfl, rfl, rfl⟩)
      (by
        intro t hG hc hc2
        obtain ⟨⟨g1, g2, g3⟩, g4⟩ := hG
        rcases pushScaleToPrim_cases H t with e | ⟨st1, e⟩ | ⟨hnone, e⟩
        · rw [e, e]
        · rw [e] at hc2
          simp only [g2, MVector.isEquivalent_refl, Bool.not_true, Bool.false_eq_true] at hc2
        · rw [e]
          have hnone' : findOp (if t.m_enableUsdWriteback = true then t.pushTransformToPrim H
              else t) .scale = none := by
            rw [writeback_stage H t]; exact hnone
          simp only [pushScaleToPrim, hnone']
          exact writeback_idem H t g4)
      _ (fun t => rfl)
      { s with
        toMPxTransformationMatrix := { s.toMPxTransformationMatrix with scaleValue := v }
        m_scaleTweak := v.sub s.m_scaleFromUsd }
      ⟨⟨hl', rfl, rfl⟩, hwf⟩ st s3 h
    refine ⟨st', ?_⟩
    rw [hstep s3 hP.1, scaleTo_prep_fix v s3 hP.2.1 hP.2.2]
    exact hfix

theorem shearTo_prep_fix (v : MVector) (t : TransformationMatrix)
    (h1 : t.shearValue = v) (h2 : t.m_shearTweak = v.sub t.m_shearFromUsd) :
    ({ t with
        toMPxTransformationMatrix := { t.toMPxTransformationMatrix with shearValue := v }
        m_shearTweak := v.sub t.m_shearFromUsd } : TransformationMatrix) = t := by
  cases t
  rename_i b _ _ _ _ _ _ _ _ _ _ _ _ _ _ _ _ _ _ _ _ _ _ _ _ _ _ _ _ _ _ _
  cases b
  simp only at h1 h2
  subst h1
  rw [← h2]

theorem pushShearToPrim_cases (H : Host) (t : TransformationMatrix) :
    t.pushShearToPrim H = t ∨
    (∃ st, t.pushShearToPrim H =
      { t with stage := st, m_shearFromUsd := t.shearValue,
               m_shearTweak := MVector.zero }) ∨
    (t.findOp .shear = none ∧ t.pushShearToPrim H =
      (if t.m_enableUsdWriteback = true then t.pushTransformToPrim H else t)) := by
  unfold pushShearToPrim
  cases hf : t.findOp .shear with
  | none => exact Or.inr (Or.inr ⟨rfl, rfl⟩)
  | some op =>
    exact Or.inr (Or.inl ⟨_, rfl⟩)

theorem shearTo_fixpoint (H : Host) (s : TransformationMatrix) (v : MVector) (space : MSpace)
    (hwf : ∀ op, s.findOp .transform = some op → op.isInverseOp = false)
    (st : MStatus) (s3 : TransformationMatrix)
    (h : s.shearTo H .kSuccess v space = some (st, s3)) :
    ∃ st', s3.shearTo H .kSuccess v space = some (st', s3) := by
  by_cases hl : s.shearLocked = true
  · simp only [shearTo, hl, if_true, baseShearTo, MStatus.toBool, Option.some.injEq,
      Prod.mk.injEq] at h
    rw [← h.2]
    exact ⟨.kSuccess, by simp only [shearTo, hl, if_true, baseShearTo, MStatus.toBool]⟩
  · have hl' : s.shearLocked = false := by simpa using hl
    have hstep : ∀ t : TransformationMatrix, t.shearLocked = false →
        t.shearTo H .kSuccess v space =
          (fun t : TransformationMatrix =>
            if t.pushToPrimAvailable = true then
              match (if t.primHasShear = true then some (MStatus.kSuccess, t)
                else if (!t.pushPrimToMatrix && decide (v ≠ MVector.zero)) = true
                  then t.insertShearOp else some (MStatus.kSuccess, t)) with
              | none => none
              | some (.kFailure, s2) => some (MStatus.kFailure, s2)
              | some (.kSuccess, s2) =>
                if (!v.isEquivalent s2.m_shearFromUsd) = true
                  then some (MStatus.kSuccess, s2.pushShearToPrim H)
                  else some (MStatus.kSuccess, s2)
            else some (MStatus.kSuccess, t))
          { t with
            toMPxTransformationMatrix :=
              { t.toMPxTransformationMatrix with shearValue := v }
            m_shearTweak := v.sub t.m_shearFromUsd } := by
      intro t ht
      simp only [shearTo, ht, Bool.false_eq_true, if_false, baseShearTo, MStatus.toBool,
        if_true]
    rw [hstep s hl'] at h
    obtain ⟨⟨st', hfix⟩, hP⟩ := setter_tail_fixpoint
      (fun t => t.shearLocked = false ∧ t.shearValue = v ∧
        t.m_shearTweak = v.sub t.m_shearFromUsd)
      (fun t => (t.shearLocked = false ∧ t.shearValue = v ∧
        t.m_shearTweak = v.sub t.m_shearFromUsd) ∧
        ∀ op, t.findOp .transform = some op → op.isInverseOp = false)
      (fun t => t.pushToPrimAvailable) (fun t => t.primHasShear)
      (fun t => !t.pushPrimToMatrix && decide (v ≠ MVector.zero))
      (fun t => t.insertShearOp)
      (fun t => !v.isEquivalent t.m_shearFromUsd)
      (pushShearToPrim H) .kSuccess
      (fun t hG => hG.1)
      (by
        intro t t' hG hi
        have hw := withStructureOf_insertOp _ _ _ _ _ _ _ _ hi
        obtain ⟨hf, hfind⟩ := insertOp_success_frame _ _ _ _ _ _ _ hi
        refine ⟨⟨?_, ?_⟩, ?_, ?_⟩
        · rw [hw]; exact hG.1
        · intro op hop
          rw [hfind .transform (by decide)] at hop
          exact hG.2 op hop
        · exact pushToPrimAvailable_congr _ _
            (by rw [hf]; exact hasFlag_setFlag_other _ _ _ (by decide))
            (primValid_withStructureOf _ _ hw)
        · show hasFlag t'.m_flags kPrimHasShear = true
          rw [hf]; exact hasFlag_setFlag_self _ _ (by decide))
      (by
        intro t t' hG hi
        have hw := withStructureOf_insertOp _ _ _ _ _ _ _ _ hi
        have hf := insertOp_fail_flags _ _ _ _ _ _ _ hi
        refine ⟨?_, ?_, ?_, ?_, insertOp_fail_again _ _ _ _ _ _ _ hi⟩
        · rw [hw]; exact hG.1
        · exact pushToPrimAvailable_congr _ _ (by rw [hf]) (primValid_withStructureOf _ _ hw)
        · show hasFlag t'.m_flags _ = hasFlag t.m_flags _
          rw [hf]
        · show (!hasFlag t'.m_flags _ && _) = (!hasFlag t.m_flags _ && _)
          rw [hf])
      (by
        intro t hG
        obtain ⟨⟨g1, g2, g3⟩, g4⟩ := hG
        rcases pushShearToPrim_cases H t with e | ⟨st1, e⟩ | ⟨_, e⟩
        · rw [e]; exact ⟨⟨⟨g1, g2, g3⟩, g4⟩, rfl, rfl, rfl⟩
        · rw [e]
          refine ⟨⟨⟨g1, g2, ?_⟩, g4⟩, rfl, rfl, rfl⟩
          show MVector.zero = v.sub t.shearValue
          rw [g2, MVector.sub_self]
        · rw [e, writeback_stage H t]
          exact ⟨⟨⟨g1, g2, g3⟩, g4⟩, rfl, rfl, rfl⟩)
      (by
        intro t hG hc hc2
        obtain ⟨⟨g1, g2, g3⟩, g4⟩ := hG
        rcases pushShearToPrim_cases H t with e | ⟨st1, e⟩ | ⟨hnone, e⟩
        · rw [e, e]
        · rw [e] at hc2
          simp only [g2, MVector.isEquivalent_refl, Bool.not_true, Bool.false_eq_true] at hc2
        · rw [e]
          have hnone' : findOp (if t.m_enableUsdWriteback = true then t.pushTransformToPrim H
              else t) .shear = none := by
            rw [writeback_stage H t]; exact hnone
          simp only [pushShearToPrim, hnone']
          exact writeback_idem H t g4)
      _ (fun t => rfl)
      { s with
        toMPxTransformationMatrix := { s.toMPxTransformationMatrix with shearValue := v }
        m_shearTweak := v.sub s.m_shearFromUsd }
      ⟨⟨hl', rfl, rfl⟩, hwf⟩ st s3 h
    refine ⟨st', ?_⟩
    rw [hstep s3 hP.1, shearTo_prep_fix v s3 hP.2.1 hP.2.2]
    exact hfix

theorem setScalePivotTranslation_prep_fix (v : MVector) (t : TransformationMatrix)
    (h1 : t.scalePivotTranslationValue = v) (h2 : t.m_scalePivotTranslationTweak = v.sub t.m_scalePivotTranslationFromUsd) :
    ({ t with
        toMPxTransformationMatrix := { t.toMPxTransformationMatrix with scalePivotTranslationValue := v }
        m_scalePivotTranslationTweak := v.sub t.m_scalePivotTranslationFromUsd } : TransformationMatrix) = t := by
  cases t
  rename_i b _ _ _ _ _ _ _ _ _ _ _ _ _ _ _ _ _ _ _ _ _ _ _ _ _ _ _ _ _ _ _
  cases b
  simp only at h1 h2
  subst h1
  rw [← h2]

theorem pushScalePivotTranslateToPrim_cases (H : Host) (t : TransformationMatrix) :
    t.pushScalePivotTranslateToPrim H = t ∨
    (∃ st, t.pushScalePivotTranslateToPrim H =
      { t with stage := st, m_scalePivotTranslationFromUsd := t.scalePivotTranslationValue,
               m_scalePivotTranslationTweak := MVector.zero }) ∨
    (t.findOp .scalePivotTranslate = none ∧ t.pushScalePivotTranslateToPrim H =
      (if t.m_enableUsdWriteback = true then t.pushTransformToPrim H else t)) := by
  unfold pushScalePivotTranslateToPrim
  cases hf : t.findOp .scalePivotTranslate with
  | none => exact Or.inr (Or.inr ⟨rfl, rfl⟩)
  | some op =>
    simp only
    split
    · exact Or.inr (Or.inl ⟨_, rfl⟩)
    · exact Or.inl rfl

theorem setScalePivotTranslation_fixpoint (H : Host) (s : TransformationMatrix) (v : MVector) (space : MSpace)
    (hwf : ∀ op, s.findOp .transform = some op → op.isInverseOp = false)
    (st : MStatus) (s3 : TransformationMatrix)
    (h : s.setScalePivotTranslation H .kSuccess v space = some (st, s3)) :
    ∃ st', s3.setScalePivotTranslation H .kSuccess v space = some (st', s3) := by
  have hstep : ∀ t : TransformationMatrix,
      t.setScalePivotTranslation H .kSuccess v space =
        (fun t : TransformationMatrix =>
          if t.pushToPrimAvailable = true then
            match (if t.primHasScalePivotTranslate = true then some (MStatus.kSuccess, t)
              else if (!t.pushPrimToMatrix && decide (v ≠ MVector.zero)) = true
                then t.insertScalePivotTranslationOp else some (MStatus.kSuccess, t)) with
            | none => none
            | some (.kFailure, s2) => some (MStatus.kFailure, s2)
            | some (.kSuccess, s2) =>
              if (!v.isEquivalent s2.m_scalePivotTranslationFromUsd) = true
                then some (MStatus.kSuccess, s2.pushScalePivotTranslateToPrim H)
                else some (MStatus.kSuccess, s2)
          else some (MStatus.kSuccess, t))
        { t with
          toMPxTransformationMatrix :=
            { t.toMPxTransformationMatrix with scalePivotTranslationValue := v }
          m_scalePivotTranslationTweak := v.sub t.m_scalePivotTranslationFromUsd } := by
    intro t
    simp only [setScalePivotTranslation, baseSetScalePivotTranslation, MStatus.toBool,
      if_true]
  rw [hstep s] at h
  obtain ⟨⟨st', hfix⟩, hP⟩ := setter_tail_fixpoint
    (fun t => t.scalePivotTranslationValue = v ∧
      t.m_scalePivotTranslationTweak = v.sub t.m_scalePivotTranslationFromUsd)
    (fun t => (t.scalePivotTranslationValue = v ∧
      t.m_scalePivotTranslationTweak = v.sub t.m_scalePivotTranslationFromUsd) ∧
      ∀ op, t.findOp .transform = some op → op.isInverseOp = false)
    (fun t => t.pushToPrimAvailable) (fun t => t.primHasScalePivotTranslate)
    (fun t => !t.pushPrimToMatrix && decide (v ≠ MVector.zero))
    (fun t => t.insertScalePivotTranslationOp)
    (fun t => !v.isEquivalent t.m_scalePivotTranslationFromUsd)
    (pushScalePivotTranslateToPrim H) .kSuccess
    (fun t hG => hG.1)
    (by
      intro t t' hG hi
      have hw := withStructureOf_insertOp _ _ _ _ _ _ _ _ hi
      obtain ⟨hf, hfind⟩ := insertOp_success_frame _ _ _ _ _ _ _ hi
      refine ⟨⟨?_, ?_⟩, ?_, ?_⟩
      · rw [hw]; exact hG.1
      · intro op hop
        rw [hfind .transform (by decide)] at hop
        exact hG.2 op hop
      · exact pushToPrimAvailable_congr _ _
          (by rw [hf]; exact hasFlag_setFlag_other _ _ _ (by decide))
          (primValid_withStructureOf _ _ hw)
      · show hasFlag t'.m_flags kPrimHasScalePivotTranslate = true
        rw [hf]; exact hasFlag_setFlag_self _ _ (by decide))
    (by
      intro t t' hG hi
      have hw := withStructureOf_insertOp _ _ _ _ _ _ _ _ hi
      have hf := insertOp_fail_flags _ _ _ _ _ _ _ hi
      refine ⟨?_, ?_, ?_, ?_, insertOp_fail_again _ _ _ _ _ _ _ hi⟩
      · rw [hw]; exact hG.1
      · exact pushToPrimAvailable_congr _ _ (by rw [hf]) (primValid_withStructureOf _ _ hw)
      · show hasFlag t'.m_flags _ = hasFlag t.m_flags _
        rw [hf]
      · show (!hasFlag t'.m_flags _ && _) = (!hasFlag t.m_flags _ && _)
        rw [hf])
    (by
      intro t hG
      obtain ⟨⟨g2, g3⟩, g4⟩ := hG
      rcases pushScalePivotTranslateToPrim_cases H t with e | ⟨st1, e⟩ | ⟨_, e⟩
      · rw [e]; exact ⟨⟨⟨g2, g3⟩, g4⟩, rfl, rfl, rfl⟩
      · rw [e]
        refine ⟨⟨⟨g2, ?_⟩, g4⟩, rfl, rfl, rfl⟩
        show MVector.zero = v.sub t.scalePivotTranslationValue
        rw [g2, MVector.sub_self]
      · rw [e, writeback_stage H t]
        exact ⟨⟨⟨g2, g3⟩, g4⟩, rfl, rfl, rfl⟩)
    (by
      intro t hG hc hc2
      obtain ⟨⟨g2, g3⟩, g4⟩ := hG
      rcases pushScalePivotTranslateToPrim_cases H t with e | ⟨st1, e⟩ | ⟨hnone, e⟩
      · rw [e, e]
      · rw [e] at hc2
        simp only [g2, MVector.isEquivalent_refl, Bool.not_true, Bool.false_eq_true] at hc2
      · rw [e]
        have hnone' : findOp (if t.m_enableUsdWriteback = true then t.pushTransformToPrim H
            else t) .scalePivotTranslate = none := by
          rw [writeback_stage H t]; exact hnone
        simp only [pushScalePivotTranslateToPrim, hnone']
        exact writeback_idem H t g4)
    _ (fun t => rfl)
    { s with
      toMPxTransformationMatrix := { s.toMPxTransformationMatrix with scalePivotTranslationValue := v }
      m_scalePivotTranslationTweak := v.sub s.m_scalePivotTranslationFromUsd }
    ⟨⟨rfl, rfl⟩, hwf⟩ st s3 h
  refine ⟨st', ?_⟩
  rw [hstep s3, setScalePivotTranslation_prep_fix v s3 hP.1 hP.2]
  exact hfix

theorem setRotatePivotTranslation_prep_fix (v : MVector) (t : TransformationMatrix)
    (h1 : t.rotatePivotTranslationValue = v) (h2 : t.m_rotatePivotTranslationTweak = v.sub t.m_rotatePivotTranslationFromUsd) :
    ({ t with
        toMPxTransformationMatrix := { t.toMPxTransformationMatrix with rotatePivotTranslationValue := v }
        m_rotatePivotTranslationTweak := v.sub t.m_rotatePivotTranslationFromUsd } : TransformationMatrix) = t := by
  cases t
  rename_i b _ _ _ _ _ _ _ _ _ _ _ _ _ _ _ _ _ _ _ _ _ _ _ _ _ _ _ _ _ _ _
  cases b
  simp only at h1 h2
  subst h1
  rw [← h2]

theorem pushRotatePivotTranslateToPrim_cases (H : Host) (t : TransformationMatrix) :
    t.pushRotatePivotTranslateToPrim H = t ∨
    (∃ st, t.pushRotatePivotTranslateToPrim H =
      { t with stage := st, m_rotatePivotTranslationFromUsd := t.rotatePivotTranslationValue,
               m_rotatePivotTranslationTweak := MVector.zero }) ∨
    (t.findOp .rotatePivotTranslate = none ∧ t.pushRotatePivotTranslateToPrim H =
      (if t.m_enableUsdWriteback = true then t.pushTransformToPrim H else t)) := by
  unfold pushRotatePivotTranslateToPrim
  cases hf : t.findOp .rotatePivotTranslate with
  | none => exact Or.inr (Or.inr ⟨rfl, rfl⟩)
  | some op =>
    simp only
    split
    · exact Or.inr (Or.inl ⟨_, rfl⟩)
    · exact Or.inl rfl

theorem setRotatePivotTranslation_fixpoint (H : Host) (s : TransformationMatrix) (v : MVector) (space : MSpace)
    (hwf : ∀ op, s.findOp .transform = some op → op.isInverseOp = false)
    (st : MStatus) (s3 : TransformationMatrix)
    (h : s.setRotatePivotTranslation H .kSuccess v space = some (st, s3)) :
    ∃ st', s3.setRotatePivotTranslation H .kSuccess v space = some (st', s3) := by
  have hstep : ∀ t : TransformationMatrix,
      t.setRotatePivotTranslation H .kSuccess v space =
        (fun t : TransformationMatrix =>
          if t.pushToPrimAvailable = true then
            match (if t.primHasRotatePivotTranslate = true then some (MStatus.kSuccess, t)
              else if (!t.pushPrimToMatrix && decide (v ≠ MVector.zero)) = true
                then t.insertRotatePivotTranslationOp else some (MStatus.kSuccess, t)) with
            | none => none
            | some (.kFailure, s2) => some (MStatus.kFailure, s2)
            | some (.kSuccess, s2) =>
              if (!v.isEquivalent s2.m_rotatePivotTranslationFromUsd) = true
                then some (MStatus.kSuccess, s2.pushRotatePivotTranslateToPrim H)
                else some (MStatus.kSuccess, s2)
          else some (MStatus.kSuccess, t))
        { t with
          toMPxTransformationMatrix :=
            { t.toMPxTransformationMatrix with rotatePivotTranslationValue := v }
          m_rotatePivotTranslationTweak := v.sub t.m_rotatePivotTranslationFromUsd } := by
    intro t
    simp only [setRotatePivotTranslation, baseSetRotatePivotTranslation, MStatus.toBool,
      if_true]
  rw [hstep s] at h
  obtain ⟨⟨st', hfix⟩, hP⟩ := setter_tail_fixpoint
    (fun t => t.rotatePivotTranslationValue = v ∧
      t.m_rotatePivotTranslationTweak = v.sub t.m_rotatePivotTranslationFromUsd)
    (fun t => (t.rotatePivotTranslationValue = v ∧
      t.m_rotatePivotTranslationTweak = v.sub t.m_rotatePivotTranslationFromUsd) ∧
      ∀ op, t.findOp .transform = some op → op.isInverseOp = false)
    (fun t => t.pushToPrimAvailable) (fun t => t.primHasRotatePivotTranslate)
    (fun t => !t.pushPrimToMatrix && decide (v ≠ MVector.zero))
    (fun t => t.insertRotatePivotTranslationOp)
    (fun t => !v.isEquivalent t.m_rotatePivotTranslationFromUsd)
    (pushRotatePivotTranslateToPrim H) .kSuccess
    (fun t hG => hG.1)
    (by
      intro t t' hG hi
      have hw := withStructureOf_insertOp _ _ _ _ _ _ _ _ hi
      obtain ⟨hf, hfind⟩ := insertOp_success_frame _ _ _ _ _ _ _ hi
      refine ⟨⟨?_, ?_⟩, ?_, ?_⟩
      · rw [hw]; exact hG.1
      · intro op hop
        rw [hfind .transform (by decide)] at hop
        exact hG.2 op hop
      · exact pushToPrimAvailable_congr _ _
          (by rw [hf]; exact hasFlag_setFlag_other _ _ _ (by decide))
          (primValid_withStructureOf _ _ hw)
      · show hasFlag t'.m_flags kPrimHasRotatePivotTranslate = true
        rw [hf]; exact hasFlag_setFlag_self _ _ (by decide))
    (by
      intro t t' hG hi
      have hw := withStructureOf_insertOp _ _ _ _ _ _ _ _ hi
      have hf := insertOp_fail_flags _ _ _ _ _ _ _ hi
      refine ⟨?_, ?_, ?_, ?_, insertOp_fail_again _ _ _ _ _ _ _ hi⟩
      · rw [hw]; exact hG.1
      · exact pushToPrimAvailable_congr _ _ (by rw [hf]) (primValid_withStructureOf _ _ hw)
      · show hasFlag t'.m_flags _ = hasFlag t.m_flags _
        rw [hf]
      · show (!hasFlag t'.m_flags _ && _) = (!hasFlag t.m_flags _ && _)
        rw [hf])
    (by
      intro t hG
      obtain ⟨⟨g2, g3⟩, g4⟩ := hG
      rcases pushRotatePivotTranslateToPrim_cases H t with e | ⟨st1, e⟩ | ⟨_, e⟩
      · rw [e]; exact ⟨⟨⟨g2, g3⟩, g4⟩, rfl, rfl, rfl⟩
      · rw [e]
        refine ⟨⟨⟨g2, ?_⟩, g4⟩, rfl, rfl, rfl⟩
        show MVector.zero = v.sub t.rotatePivotTranslationValue
        rw [g2, MVector.sub_self]
      · rw [e, writeback_stage H t]
        exact ⟨⟨⟨g2, g3⟩, g4⟩, rfl, rfl, rfl⟩)
    (by
      intro t hG hc hc2
      obtain ⟨⟨g2, g3⟩, g4⟩ := hG
      rcases pushRotatePivotTranslateToPrim_cases H t with e | ⟨st1, e⟩ | ⟨hnone, e⟩
      · rw [e, e]
      · rw [e] at hc2
        simp only [g2, MVector.isEquivalent_refl, Bool.not_true, Bool.false_eq_true] at hc2
      · rw [e]
        have hnone' : findOp (if t.m_enableUsdWriteback = true then t.pushTransformToPrim H
            else t) .rotatePivotTranslate = none := by
          rw [writeback_stage H t]; exact hnone
        simp only [pushRotatePivotTranslateToPrim, hnone']
        exact writeback_idem H t g4)
    _ (fun t => rfl)
    { s with
      toMPxTransformationMatrix := { s.toMPxTransformationMatrix with rotatePivotTranslationValue := v }
      m_rotatePivotTranslationTweak := v.sub s.m_rotatePivotTranslationFromUsd }
    ⟨⟨rfl, rfl⟩, hwf⟩ st s3 h
  refine ⟨st', ?_⟩
  rw [hstep s3, setRotatePivotTranslation_prep_fix v s3 hP.1 hP.2]
  exact hfix

theorem status_match_congr (o : Option (MStatus × TransformationMatrix))
    (f g : TransformationMatrix → Option (MStatus × TransformationMatrix))
    (hfg : ∀ s2, f s2 = g s2) :
    (match o with
      | none => none
      | some (.kFailure, s2) => some (MStatus.kFailure, s2)
      | some (.kSuccess, s2) => f s2)
    = (match o with
      | none => none
      | some (.kFailure, s2) => some (MStatus.kFailure, s2)
      | some (.kSuccess, s2) => g s2) := by
  rcases o with _ | ⟨st, s2⟩
  · rfl
  · cases st
    · exact hfg s2
    · rfl

theorem rotateTo_prep_fix (e : MEulerRotation) (t : TransformationMatrix)
    (h1 : t.rotationValue = e)
    (h2 : t.m_rotationTweak.x = e.x - t.m_rotationFromUsd.x ∧
      t.m_rotationTweak.y = e.y - t.m_rotationFromUsd.y ∧
      t.m_rotationTweak.z = e.z - t.m_rotationFromUsd.z) :
    updateRotationTweak { t with
        toMPxTransformationMatrix := { t.toMPxTransformationMatrix with rotationValue := e } }
      = t := by
  cases t
  rename_i b _ _ _ _ _ _ _ _ _ _ _ tw _ _ _ _ _ _ _ _ _ _ _ _ _ _ _ _ _ _ _
  cases b
  cases tw
  simp only at h1 h2
  subst h1
  obtain ⟨h2, h3, h4⟩ := h2
  simp only [updateRotationTweak, ← h2, ← h3, ← h4]

theorem pushRotateToPrim_cases (H : Host) (t : TransformationMatrix) :
    t.pushRotateToPrim H = t ∨
    (∃ st, t.pushRotateToPrim H =
      { t with stage := st, m_rotationFromUsd := t.rotationValue,
               m_rotationTweak := ⟨0, 0, 0, .kXYZ⟩ }) ∨
    (t.findOp .rotate = none ∧ t.pushRotateToPrim H =
      (if t.m_enableUsdWriteback = true then t.pushTransformToPrim H else t)) := by
  unfold pushRotateToPrim
  cases hf : t.findOp .rotate with
  | none => exact Or.inr (Or.inr ⟨rfl, rfl⟩)
  | some op =>
    simp only
    split
    · exact Or.inr (Or.inl ⟨_, rfl⟩)
    · exact Or.inl rfl

theorem rotateTo_fixpoint (H : Host) (s : TransformationMatrix) (e : MEulerRotation)
    (space : MSpace)
    (hwf : ∀ op, s.findOp .transform = some op → op.isInverseOp = false)
    (st : MStatus) (s3 : TransformationMatrix)
    (h : s.rotateTo H .kSuccess e space = some (st, s3)) :
    ∃ st', s3.rotateTo H .kSuccess e space = some (st', s3) := by
  by_cases hl : s.rotateLocked = true
  · simp only [rotateTo, hl, if_true, baseRotateTo, MStatus.toBool, Option.some.injEq,
      Prod.mk.injEq] at h
    rw [← h.2]
    exact ⟨.kSuccess, by simp only [rotateTo, hl, if_true, baseRotateTo, MStatus.toBool]⟩
  · have hl' : s.rotateLocked = false := by simpa using hl
    have hstep : ∀ t : TransformationMatrix, t.rotateLocked = false →
        t.rotateTo H .kSuccess e space =
          (fun t : TransformationMatrix =>
            if t.pushToPrimAvailable = true then
              match (if t.primHasRotation = true then some (MStatus.kSuccess, t)
                else if (!t.pushPrimToMatrix && decide (e ≠ ⟨0, 0, 0, .kXYZ⟩)) = true
                  then t.insertRotateOp else some (MStatus.kSuccess, t)) with
              | none => none
              | some (.kFailure, s2) => some (MStatus.kFailure, s2)
              | some (.kSuccess, s2) =>
                if (s2.m_enableUsdWriteback && !e.isEquivalent s2.m_rotationFromUsd) = true
                  then some (MStatus.kSuccess, s2.pushRotateToPrim H)
                  else some (MStatus.kSuccess, s2)
            else some (MStatus.kSuccess, t))
          (updateRotationTweak { t with
            toMPxTransformationMatrix :=
              { t.toMPxTransformationMatrix with rotationValue := e } }) := by
      intro t ht
      simp only [rotateTo, ht, Bool.false_eq_true, if_false, baseRotateTo, MStatus.toBool,
        if_true]
      refine if_congr Iff.rfl (status_match_congr _ _ _ ?_) rfl
      intro s2
      by_cases h1 : s2.m_enableUsdWriteback = true
      · simp only [h1, if_true, Bool.true_and]
      · simp only [h1, if_false, Bool.false_eq_true, Bool.false_and]
    rw [hstep s hl'] at h
    obtain ⟨⟨st', hfix⟩, hP⟩ := setter_tail_fixpoint
      (fun t => t.rotateLocked = false ∧ t.rotationValue = e ∧
        (t.m_rotationTweak.x = e.x - t.m_rotationFromUsd.x ∧
          t.m_rotationTweak.y = e.y - t.m_rotationFromUsd.y ∧
          t.m_rotationTweak.z = e.z - t.m_rotationFromUsd.z))
      (fun t => (t.rotateLocked = false ∧ t.rotationValue = e ∧
        (t.m_rotationTweak.x = e.x - t.m_rotationFromUsd.x ∧
          t.m_rotationTweak.y = e.y - t.m_rotationFromUsd.y ∧
          t.m_rotationTweak.z = e.z - t.m_rotationFromUsd.z)) ∧
        ∀ op, t.findOp .transform = some op → op.isInverseOp = false)
      (fun t => t.pushToPrimAvailable) (fun t => t.primHasRotation)
      (fun t => !t.pushPrimToMatrix && decide (e ≠ ⟨0, 0, 0, .kXYZ⟩))
      (fun t => t.insertRotateOp)
      (fun t => t.m_enableUsdWriteback && !e.isEquivalent t.m_rotationFromUsd)
      (pushRotateToPrim H) .kSuccess
      (fun t hG => hG.1)
      (by
        intro t t' hG hi
        have hw := withStructureOf_insertOp _ _ _ _ _ _ _ _ hi
        obtain ⟨hf, hfind⟩ := insertOp_success_frame _ _ _ _ _ _ _ hi
        refine ⟨⟨?_, ?_⟩, ?_, ?_⟩
        · rw [hw]; exact hG.1
        · intro op hop
          rw [hfind .transform (by decide)] at hop
          exact hG.2 op hop
        · exact pushToPrimAvailable_congr _ _
            (by rw [hf]; exact hasFlag_setFlag_other _ _ _ (by decide))
            (primValid_withStructureOf _ _ hw)
        · show hasFlag t'.m_flags kPrimHasRotation = true
          rw [hf]; exact hasFlag_setFlag_self _ _ (by decide))
      (by
        intro t t' hG hi
        have hw := withStructureOf_insertOp _ _ _ _ _ _ _ _ hi
        have hf := insertOp_fail_flags _ _ _ _ _ _ _ hi
        have hagain := insertOp_fail_again _ _ _ _ _ _ _ hi
        have hrv : t'.rotationValue = t.rotationValue := by rw [hw]; rfl
        refine ⟨?_, ?_, ?_, ?_, ?_⟩
        · rw [hw]; exact hG.1
        · exact pushToPrimAvailable_congr _ _ (by rw [hf]) (primValid_withStructureOf _ _ hw)
        · show hasFlag t'.m_flags _ = hasFlag t.m_flags _
          rw [hf]
        · show (!hasFlag t'.m_flags _ && _) = (!hasFlag t.m_flags _ && _)
          rw [hf]
        · show t'.insertOp (rotateOpType t'.rotationValue.order) _ _ _ _ = _
          rw [hrv]; exact hagain)
      (by
        intro t hG
        obtain ⟨⟨g1, g2, g3⟩, g4⟩ := hG
        rcases pushRotateToPrim_cases H t with e1 | ⟨st1, e1⟩ | ⟨_, e1⟩
        · rw [e1]; exact ⟨⟨⟨g1, g2, g3⟩, g4⟩, rfl, rfl, rfl⟩
        · rw [e1]
          refine ⟨⟨⟨g1, g2, ?_⟩, g4⟩, rfl, rfl, rfl⟩
          show (0 : ℚ) = e.x - t.rotationValue.x ∧ (0 : ℚ) = e.y - t.rotationValue.y ∧
            (0 : ℚ) = e.z - t.rotationValue.z
          rw [g2]; simp
        · rw [e1, writeback_stage H t]
          exact ⟨⟨⟨g1, g2, g3⟩, g4⟩, rfl, rfl, rfl⟩)
      (by
        intro t hG hc hc2
        obtain ⟨⟨g1, g2, g3⟩, g4⟩ := hG
        rcases pushRotateToPrim_cases H t with e1 | ⟨st1, e1⟩ | ⟨hnone, e1⟩
        · rw [e1, e1]
        · rw [e1] at hc2
          simp only [g2, MEulerRotation.isEquivalent_self, Bool.not_true, Bool.and_false,
            Bool.false_eq_true] at hc2
        · rw [e1]
          have hnone' : findOp (if t.m_enableUsdWriteback = true then t.pushTransformToPrim H
              else t) .rotate = none := by
            rw [writeback_stage H t]; exact hnone
          simp only [pushRotateToPrim, hnone']
          exact writeback_idem H t g4)
      _ (fun t => rfl)
      (updateRotationTweak { s with
        toMPxTransformationMatrix := { s.toMPxTransformationMatrix with rotationValue := e } })
      ⟨⟨hl', rfl, rfl, rfl, rfl⟩, hwf⟩ st s3 h
    refine ⟨st', ?_⟩
    rw [hstep s3 hP.1, rotateTo_prep_fix e s3 hP.2.1 hP.2.2]
    exact hfix

theorem rotateToQuaternion_fixpoint_aux (H : Host) (s : TransformationMatrix) (q : MQuaternion)
    (e : MEulerRotation) (he : H.asEulerRotation q = e) (space : MSpace)
    (hwf : ∀ op, s.findOp .transform = some op → op.isInverseOp = false)
    (st : MStatus) (s3 : TransformationMatrix)
    (h : s.rotateToQuaternion H .kSuccess q space = some (st, s3)) :
    ∃ st', s3.rotateToQuaternion H .kSuccess q space = some (st', s3) := by
  by_cases hl : s.rotateLocked = true
  · simp only [rotateToQuaternion, he, hl, if_true, baseRotateTo, MStatus.toBool, Option.some.injEq,
      Prod.mk.injEq] at h
    rw [← h.2]
    exact ⟨.kSuccess, by simp only [rotateToQuaternion, he, hl, if_true, baseRotateTo, MStatus.toBool]⟩
  · have hl' : s.rotateLocked = false := by simpa using hl
    have hstep : ∀ t : TransformationMatrix, t.rotateLocked = false →
        t.rotateToQuaternion H .kSuccess q space =
          (fun t : TransformationMatrix =>
            if t.pushToPrimAvailable = true then
              match (if t.primHasRotation = true then some (MStatus.kSuccess, t)
                else if (!t.pushPrimToMatrix && decide (q ≠ MQuaternion.identity)) = true
                  then t.insertRotateOp else some (MStatus.kSuccess, t)) with
              | none => none
              | some (.kFailure, s2) => some (MStatus.kFailure, s2)
              | some (.kSuccess, s2) =>
                if (s2.m_enableUsdWriteback && !s2.rotationValue.isEquivalent s2.m_rotationFromUsd) = true
                  then some (MStatus.kSuccess, s2.pushRotateToPrim H)
                  else some (MStatus.kSuccess, s2)
            else some (MStatus.kSuccess, t))
          (updateRotationTweak { t with
            toMPxTransformationMatrix :=
              { t.toMPxTransformationMatrix with rotationValue := e } }) := by
      intro t ht
      simp only [rotateToQuaternion, he, ht, Bool.false_eq_true, if_false, baseRotateTo, MStatus.toBool,
        if_true]
      refine if_congr Iff.rfl (status_match_congr _ _ _ ?_) rfl
      intro s2
      by_cases h1 : s2.m_enableUsdWriteback = true
      · simp only [h1, if_true, Bool.true_and]
      · simp only [h1, if_false, Bool.false_eq_true, Bool.false_and]
    rw [hstep s hl'] at h
    obtain ⟨⟨st', hfix⟩, hP⟩ := setter_tail_fixpoint
      (fun t => t.rotateLocked = false ∧ t.rotationValue = e ∧
        (t.m_rotationTweak.x = e.x - t.m_rotationFromUsd.x ∧
          t.m_rotationTweak.y = e.y - t.m_rotationFromUsd.y ∧
          t.m_rotationTweak.z = e.z - t.m_rotationFromUsd.z))
      (fun t => (t.rotateLocked = false ∧ t.rotationValue = e ∧
        (t.m_rotationTweak.x = e.x - t.m_rotationFromUsd.x ∧
          t.m_rotationTweak.y = e.y - t.m_rotationFromUsd.y ∧
          t.m_rotationTweak.z = e.z - t.m_rotationFromUsd.z)) ∧
        ∀ op, t.findOp .transform = some op → op.isInverseOp = false)
      (fun t => t.pushToPrimAvailable) (fun t => t.primHasRotation)
      (fun t => !t.pushPrimToMatrix && decide (q ≠ MQuaternion.identity))
      (fun t => t.insertRotateOp)
      (fun t => t.m_enableUsdWriteback && !t.rotationValue.isEquivalent t.m_rotationFromUsd)
      (pushRotateToPrim H) .kSuccess
      (fun t hG => hG.1)
      (by
        intro t t' hG hi
        have hw := withStructureOf_insertOp _ _ _ _ _ _ _ _ hi
        obtain ⟨hf, hfind⟩ := insertOp_success_frame _ _ _ _ _ _ _ hi
        refine ⟨⟨?_, ?_⟩, ?_, ?_⟩
        · rw [hw]; exact hG.1
        · intro op hop
          rw [hfind .transform (by decide)] at hop
          exact hG.2 op hop
        · exact pushToPrimAvailable_congr _ _
            (by rw [hf]; exact hasFlag_setFlag_other _ _ _ (by decide))
            (primValid_withStructureOf _ _ hw)
        · show hasFlag t'.m_flags kPrimHasRotation = true
          rw [hf]; exact hasFlag_setFlag_self _ _ (by decide))
      (by
        intro t t' hG hi
        have hw := withStructureOf_insertOp _ _ _ _ _ _ _ _ hi
        have hf := insertOp_fail_flags _ _ _ _ _ _ _ hi
        have hagain := insertOp_fail_again _ _ _ _ _ _ _ hi
        have hrv : t'.rotationValue = t.rotationValue := by rw [hw]; rfl
        refine ⟨?_, ?_, ?_, ?_, ?_⟩
        · rw [hw]; exact hG.1
        · exact pushToPrimAvailable_congr _ _ (by rw [hf]) (primValid_withStructureOf _ _ hw)
        · show hasFlag t'.m_flags _ = hasFlag t.m_flags _
          rw [hf]
        · show (!hasFlag t'.m_flags _ && _) = (!hasFlag t.m_flags _ && _)
          rw [hf]
        · show t'.insertOp (rotateOpType t'.rotationValue.order) _ _ _ _ = _
          rw [hrv]; exact hagain)
      (by
        intro t hG
        obtain ⟨⟨g1, g2, g3⟩, g4⟩ := hG
        rcases pushRotateToPrim_cases H t with e1 | ⟨st1, e1⟩ | ⟨_, e1⟩
        · rw [e1]; exact ⟨⟨⟨g1, g2, g3⟩, g4⟩, rfl, rfl, rfl⟩
        · rw [e1]
          refine ⟨⟨⟨g1, g2, ?_⟩, g4⟩, rfl, rfl, rfl⟩
          show (0 : ℚ) = e.x - t.rotationValue.x ∧ (0 : ℚ) = e.y - t.rotationValue.y ∧
            (0 : ℚ) = e.z - t.rotationValue.z
          rw [g2]; simp
        · rw [e1, writeback_stage H t]
          exact ⟨⟨⟨g1, g2, g3⟩, g4⟩, rfl, rfl, rfl⟩)
      (by
        intro t hG hc hc2
        obtain ⟨⟨g1, g2, g3⟩, g4⟩ := hG
        rcases pushRotateToPrim_cases H t with e1 | ⟨st1, e1⟩ | ⟨hnone, e1⟩
        · rw [e1, e1]
        · rw [e1] at hc2
          simp only [MEulerRotation.isEquivalent_self, Bool.not_true, Bool.and_false,
            Bool.false_eq_true] at hc2
        · rw [e1]
          have hnone' : findOp (if t.m_enableUsdWriteback = true then t.pushTransformToPrim H
              else t) .rotate = none := by
            rw [writeback_stage H t]; exact hnone
          simp only [pushRotateToPrim, hnone']
          exact writeback_idem H t g4)
      _ (fun t => rfl)
      (updateRotationTweak { s with
        toMPxTransformationMatrix := { s.toMPxTransformationMatrix with rotationValue := e } })
      ⟨⟨hl', rfl, rfl, rfl, rfl⟩, hwf⟩ st s3 h
    refine ⟨st', ?_⟩
    rw [hstep s3 hP.1, rotateTo_prep_fix e s3 hP.2.1 hP.2.2]
    exact hfix

theorem rotateToQuaternion_fixpoint (H : Host) (s : TransformationMatrix) (q : MQuaternion)
    (space : MSpace)
    (hwf : ∀ op, s.findOp .transform = some op → op.isInverseOp = false)
    (st : MStatus) (s3 : TransformationMatrix)
    (h : s.rotateToQuaternion H .kSuccess q space = some (st, s3)) :
    ∃ st', s3.rotateToQuaternion H .kSuccess q space = some (st', s3) :=
  rotateToQuaternion_fixpoint_aux H s q _ rfl space hwf st s3 h

theorem mayaStack_primary (nm : TfToken) (cls : UsdMayaXformOpClassification)
    (h : MayaStack.ops[(MayaStack.FindOpIndexPair nm).1]? = some cls) :
    cls.isInvertedTwin = false := by
  cases nm <;> first
    | (cases h; rfl)
    | exact Option.noConfusion (h.symm.trans (by decide : _ = none))

theorem find_zip_insertIdx_cases {α β : Type} (P : α → Bool) (c : α) (x : β) (y : α × β) :
    ∀ (p : ℕ) (l1 : List α) (l2 : List β), p ≤ l1.length → p ≤ l2.length →
      ((l1.insertIdx p c).zip (l2.insertIdx p x)).find? (fun pr => P pr.1) = some y →
      y = (c, x) ∨ (l1.zip l2).find? (fun pr => P pr.1) = some y
  | 0, l1, l2, _, _, h => by
    simp only [List.insertIdx_zero, List.zip_cons_cons, List.find?_cons] at h
    cases hc : P c
    · rw [hc] at h; exact Or.inr h
    · rw [hc] at h; simp only [Option.some.injEq] at h; exact Or.inl h.symm
  | p + 1, [], _, h1, _, _ => by simp at h1
  | p + 1, _ :: _, [], _, h2, _ => by simp at h2
  | p + 1, a :: l1, b :: l2, h1, h2, h => by
    simp only [List.insertIdx_succ_cons, List.zip_cons_cons, List.find?_cons] at h ⊢
    cases ha : P a
    · rw [ha] at h
      simp only
      exact find_zip_insertIdx_cases P c x y p l1 l2 (by simpa using h1) (by simpa using h2) h
    · rw [ha] at h
      exact Or.inr h

/-- After a successful insertion of an operator that has no twin, the operator the lockstep walk
finds under that name is the new one or the one it found before. -/
theorem insertOp_single_found (s : TransformationMatrix) (ty : XformOpType) (pr : Precision)
    (nm : TfToken) (flag : Flags) (beg : Bool) (s' : TransformationMatrix)
    (hp : (MayaStack.FindOpIndexPair nm).2 = NO_INDEX)
    (h : s.insertOp ty pr nm flag beg = some (.kSuccess, s')) (op : UsdGeomXformOp)
    (hfound : s'.findOp nm = some op) : op = ⟨ty, nm, false⟩ ∨ s.findOp nm = some op := by
  obtain ⟨b1, b2, b3, b4⟩ := buildOrderedOpMayaIndices_frame s
  rcases insertOp_cases s ty pr nm flag beg .kSuccess s' h with
    ⟨_, r, s2, h2, ⟨_, hst, _⟩ | ⟨hr, _, e⟩⟩ | ⟨hp', _⟩
  · exact absurd hst (by simp)
  · obtain ⟨cls, hc, hh | ⟨p, _, _, hp1, hp2, _, _, hh⟩⟩ := addOp_cases _ _ _ _ _ _ _ _ h2
    · exact absurd hh.1 hr
    · have hinv := mayaStack_primary nm cls hc
      rw [e] at hfound
      have hfound' : s2.findOp nm = some op := hfound
      rw [hh] at hfound'
      simp only [findOp, Option.map_eq_some'] at hfound'
      obtain ⟨y, hy, hy2⟩ := hfound'
      rcases find_zip_insertIdx_cases (fun c => decide (c.name = nm)) cls _ y p _ _ hp1 hp2 hy
        with e1 | e1
      · left
        rw [← hy2, e1, hinv]
      · right
        rw [b1, b2] at e1
        simp only [findOp, e1, Option.map_some', hy2]
  · exact absurd hp hp'

theorem pushRotateAxisToPrim_idem (H : Host) (t : TransformationMatrix)
    (hT : ∀ op, t.findOp .transform = some op → op.isInverseOp = false)
    (hA : ∀ op, t.findOp .rotateAxis = some op → op.isInverseOp = false) :
    (t.pushRotateAxisToPrim H).pushRotateAxisToPrim H = t.pushRotateAxisToPrim H := by
  cases hf : t.findOp .rotateAxis with
  | none =>
    have e : t.pushRotateAxisToPrim H
        = (if t.m_enableUsdWriteback = true then t.pushTransformToPrim H else t) := by
      simp only [pushRotateAxisToPrim, hf]
    rw [e]
    have hnone' : findOp (if t.m_enableUsdWriteback = true then t.pushTransformToPrim H
        else t) .rotateAxis = none := by
      rw [writeback_stage H t]; exact hf
    simp only [pushRotateAxisToPrim, hnone']
    exact writeback_idem H t hT
  | some op =>
    by_cases hg : (!(H.asQuaternion
        ⟨((t.internal_readVector MVector.zero op).2.scale (M_PI / 180)).x,
          ((t.internal_readVector MVector.zero op).2.scale (M_PI / 180)).y,
          ((t.internal_readVector MVector.zero op).2.scale (M_PI / 180)).z, .kXYZ⟩).isEquivalent
        t.m_rotateOrientationFromUsd) = true
    · have e : t.pushRotateAxisToPrim H = { t with stage :=
          (pushVector H t.stage
            ⟨(H.asEulerRotation t.m_rotateOrientationFromUsd).x * radToDeg,
              (H.asEulerRotation t.m_rotateOrientationFromUsd).y * radToDeg,
              (H.asEulerRotation t.m_rotateOrientationFromUsd).z * radToDeg⟩ op t.getTimeCode).2 } := by
        simp only [pushRotateAxisToPrim, hf, hg, if_true, internal_pushVector]
      rw [e]
      have hf' : findOp { t with stage :=
          (pushVector H t.stage
            ⟨(H.asEulerRotation t.m_rotateOrientationFromUsd).x * radToDeg,
              (H.asEulerRotation t.m_rotateOrientationFromUsd).y * radToDeg,
              (H.asEulerRotation t.m_rotateOrientationFromUsd).z * radToDeg⟩ op t.getTimeCode).2 }
          .rotateAxis = some op := hf
      simp only [pushRotateAxisToPrim, hf']
      split
      · simp only [internal_pushVector]
        have := pushVector_idem H t.stage
          ⟨(H.asEulerRotation t.m_rotateOrientationFromUsd).x * radToDeg,
            (H.asEulerRotation t.m_rotateOrientationFromUsd).y * radToDeg,
            (H.asEulerRotation t.m_rotateOrientationFromUsd).z * radToDeg⟩ op t.getTimeCode
          (hA op hf)
        exact congrArg (fun st => { t with stage := st }) this
      · rfl
    · have e : t.pushRotateAxisToPrim H = t := by
        simp only [pushRotateAxisToPrim, hf, hg, Bool.false_eq_true, if_false]
      rw [e, e]

theorem pushRotateAxisToPrim_stage (H : Host) (t : TransformationMatrix) :
    t.pushRotateAxisToPrim H = { t with stage := (t.pushRotateAxisToPrim H).stage } := by
  unfold pushRotateAxisToPrim
  split
  · simp only
    split <;> rfl
  · exact writeback_stage H t

theorem setRotateOrientation_prep_fix (q : MQuaternion) (t : TransformationMatrix)
    (h1 : t.rotateOrientationValue = q)
    (h2 : t.m_rotateOrientationFromUsd = q.mul t.m_rotateOrientationTweak.inverse) :
    ({ t with
        toMPxTransformationMatrix :=
          { t.toMPxTransformationMatrix with rotateOrientationValue := q }
        m_rotateOrientationFromUsd := q.mul t.m_rotateOrientationTweak.inverse }
      : TransformationMatrix) = t := by
  cases t
  rename_i b _ _ _ _ _ _ _ _ _ _ _ _ _ _ _ _ _ _ _ _ _ _ _ _ _ _ _ _ _ _ _
  cases b
  simp only at h1 h2
  subst h1
  rw [← h2]

theorem setRotateOrientation_fixpoint_aux (H : Host) (s : TransformationMatrix)
    (q : MQuaternion) (ins : Bool)
    (hT : ∀ op, s.findOp .transform = some op → op.isInverseOp = false)
    (hA : ∀ op, s.findOp .rotateAxis = some op → op.isInverseOp = false)
    (st : MStatus) (s3 : TransformationMatrix)
    (h : (fun t : TransformationMatrix =>
        if t.pushToPrimAvailable = true then
          match (if t.primHasRotateAxes = true then some (MStatus.kSuccess, t)
            else if (!t.pushPrimToMatrix && ins) = true
              then t.insertRotateAxesOp else some (MStatus.kSuccess, t)) with
          | none => none
          | some (.kFailure, s2) => some (MStatus.kFailure, s2)
          | some (.kSuccess, s2) =>
            if s2.m_enableUsdWriteback = true
              then some (MStatus.kSuccess, s2.pushRotateAxisToPrim H)
              else some (MStatus.kSuccess, s2)
        else some (MStatus.kSuccess, t))
      { s with
        toMPxTransformationMatrix :=
          { s.toMPxTransformationMatrix with rotateOrientationValue := q }
        m_rotateOrientationFromUsd := q.mul s.m_rotateOrientationTweak.inverse }
      = some (st, s3)) :
    (∃ st', (fun t : TransformationMatrix =>
        if t.pushToPrimAvailable = true then
          match (if t.primHasRotateAxes = true then some (MStatus.kSuccess, t)
            else if (!t.pushPrimToMatrix && ins) = true
              then t.insertRotateAxesOp else some (MStatus.kSuccess, t)) with
          | none => none
          | some (.kFailure, s2) => some (MStatus.kFailure, s2)
          | some (.kSuccess, s2) =>
            if s2.m_enableUsdWriteback = true
              then some (MStatus.kSuccess, s2.pushRotateAxisToPrim H)
              else some (MStatus.kSuccess, s2)
        else some (MStatus.kSuccess, t)) s3 = some (st', s3)) ∧
      (s3.rotateOrientationValue = q ∧
        s3.m_rotateOrientationFromUsd = q.mul s3.m_rotateOrientationTweak.inverse) :=
  setter_tail_fixpoint
    (fun t => t.rotateOrientationValue = q ∧
      t.m_rotateOrientationFromUsd = q.mul t.m_rotateOrientationTweak.inverse)
    (fun t => (t.rotateOrientationValue = q ∧
      t.m_rotateOrientationFromUsd = q.mul t.m_rotateOrientationTweak.inverse) ∧
      (∀ op, t.findOp .transform = some op → op.isInverseOp = false) ∧
      (∀ op, t.findOp .rotateAxis = some op → op.isInverseOp = false))
    (fun t => t.pushToPrimAvailable) (fun t => t.primHasRotateAxes)
    (fun t => !t.pushPrimToMatrix && ins)
    (fun t => t.insertRotateAxesOp)
    (fun t => t.m_enableUsdWriteback)
    (pushRotateAxisToPrim H) .kSuccess
    (fun t hG => hG.1)
    (by
      intro t t' hG hi
      have hw := withStructureOf_insertOp _ _ _ _ _ _ _ _ hi
      obtain ⟨hf, hfind⟩ := insertOp_success_frame _ _ _ _ _ _ _ hi
      refine ⟨⟨?_, ?_, ?_⟩, ?_, ?_⟩
      · rw [hw]; exact hG.1
      · intro op hop
        rw [hfind .transform (by decide)] at hop
        exact hG.2.1 op hop
      · intro op hop
        rcases insertOp_single_found _ _ _ _ _ _ _ (by decide) hi op hop with e | e
        · rw [e]
        · exact hG.2.2 op e
      · exact pushToPrimAvailable_congr _ _
          (by rw [hf]; exact hasFlag_setFlag_other _ _ _ (by decide))
          (primValid_withStructureOf _ _ hw)
      · show hasFlag t'.m_flags kPrimHasRotateAxes = true
        rw [hf]; exact hasFlag_setFlag_self _ _ (by decide))
    (by
      intro t t' hG hi
      have hw := withStructureOf_insertOp _ _ _ _ _ _ _ _ hi
      have hf := insertOp_fail_flags _ _ _ _ _ _ _ hi
      refine ⟨?_, ?_, ?_, ?_, insertOp_fail_again _ _ _ _ _ _ _ hi⟩
      · rw [hw]; exact hG.1
      · exact pushToPrimAvailable_congr _ _ (by rw [hf]) (primValid_withStructureOf _ _ hw)
      · show hasFlag t'.m_flags _ = hasFlag t.m_flags _
        rw [hf]
      · show (!hasFlag t'.m_flags _ && _) = (!hasFlag t.m_flags _ && _)
        rw [hf])
    (by
      intro t hG
      rw [pushRotateAxisToPrim_stage H t]
      exact ⟨hG, rfl, rfl, rfl⟩)
    (by
      intro t hG _ _
      exact pushRotateAxisToPrim_idem H t hG.2.1 hG.2.2)
    _ (fun t => rfl)
    { s with
      toMPxTransformationMatrix :=
        { s.toMPxTransformationMatrix with rotateOrientationValue := q }
      m_rotateOrientationFromUsd := q.mul s.m_rotateOrientationTweak.inverse }
    ⟨⟨rfl, rfl⟩, hT, hA⟩ st s3 h

theorem setRotateOrientation_fixpoint (H : Host) (s : TransformationMatrix) (q : MQuaternion)
    (space : MSpace) (balance : Bool)
    (hT : ∀ op, s.findOp .transform = some op → op.isInverseOp = false)
    (hA : ∀ op, s.findOp .rotateAxis = some op → op.isInverseOp = false)
    (st : MStatus) (s3 : TransformationMatrix)
    (h : s.setRotateOrientation H .kSuccess q space balance = some (st, s3)) :
    ∃ st', s3.setRotateOrientation H .kSuccess q space balance = some (st', s3) := by
  have hstep : ∀ t : TransformationMatrix,
      t.setRotateOrientation H .kSuccess q space balance =
        (fun t : TransformationMatrix =>
          if t.pushToPrimAvailable = true then
            match (if t.primHasRotateAxes = true then some (MStatus.kSuccess, t)
              else if (!t.pushPrimToMatrix && decide (q ≠ MQuaternion.identity)) = true
                then t.insertRotateAxesOp else some (MStatus.kSuccess, t)) with
            | none => none
            | some (.kFailure, s2) => some (MStatus.kFailure, s2)
            | some (.kSuccess, s2) =>
              if s2.m_enableUsdWriteback = true
                then some (MStatus.kSuccess, s2.pushRotateAxisToPrim H)
                else some (MStatus.kSuccess, s2)
          else some (MStatus.kSuccess, t))
        { t with
          toMPxTransformationMatrix :=
            { t.toMPxTransformationMatrix with rotateOrientationValue := q }
          m_rotateOrientationFromUsd := q.mul t.m_rotateOrientationTweak.inverse } := by
    intro t
    simp only [setRotateOrientation, baseSetRotateOrientation, MStatus.toBool, if_true]
  rw [hstep s] at h
  obtain ⟨⟨st', hfix⟩, hP⟩ := setRotateOrientation_fixpoint_aux H s q _ hT hA st s3 h
  refine ⟨st', ?_⟩
  rw [hstep s3, setRotateOrientation_prep_fix q s3 hP.1 hP.2]
  exact hfix

theorem setRotateOrientationEuler_fixpoint (H : Host) (s : TransformationMatrix)
    (euler : MEulerRotation) (space : MSpace) (balance : Bool)
    (hT : ∀ op, s.findOp .transform = some op → op.isInverseOp = false)
    (hA : ∀ op, s.findOp .rotateAxis = some op → op.isInverseOp = false)
    (st : MStatus) (s3 : TransformationMatrix)
    (h : s.setRotateOrientationEuler H .kSuccess euler space balance = some (st, s3)) :
    ∃ st', s3.setRotateOrientationEuler H .kSuccess euler space balance = some (st', s3) := by
  have hstep : ∀ t : TransformationMatrix,
      t.setRotateOrientationEuler H .kSuccess euler space balance =
        (fun t : TransformationMatrix =>
          if t.pushToPrimAvailable = true then
            match (if t.primHasRotateAxes = true then some (MStatus.kSuccess, t)
              else if (!t.pushPrimToMatrix && decide (euler ≠ ⟨0, 0, 0, .kXYZ⟩)) = true
                then t.insertRotateAxesOp else some (MStatus.kSuccess, t)) with
            | none => none
            | some (.kFailure, s2) => some (MStatus.kFailure, s2)
            | some (.kSuccess, s2) =>
              if s2.m_enableUsdWriteback = true
                then some (MStatus.kSuccess, s2.pushRotateAxisToPrim H)
                else some (MStatus.kSuccess, s2)
          else some (MStatus.kSuccess, t))
        { t with
          toMPxTransformationMatrix :=
            { t.toMPxTransformationMatrix with rotateOrientationValue := H.asQuaternion euler }
          m_rotateOrientationFromUsd :=
            (H.asQuaternion euler).mul t.m_rotateOrientationTweak.inverse } := by
    intro t
    simp only [setRotateOrientationEuler, baseSetRotateOrientation, MStatus.toBool, if_true]
  rw [hstep s] at h
  obtain ⟨⟨st', hfix⟩, hP⟩ :=
    setRotateOrientation_fixpoint_aux H s (H.asQuaternion euler) _ hT hA st s3 h
  refine ⟨st', ?_⟩
  rw [hstep s3, setRotateOrientation_prep_fix _ s3 hP.1 hP.2]
  exact hfix

theorem pushScalePivotToPrim_cases (H : Host) (t : TransformationMatrix) :
    t.pushScalePivotToPrim H = t ∨
    (∃ st, t.pushScalePivotToPrim H =
      { t with stage := st, m_scalePivotFromUsd := t.scalePivotValue,
               m_scalePivotTweak := MVector.zero }) ∨
    (t.findOp .scalePivot = none ∧ t.pushScalePivotToPrim H =
      (if t.m_enableUsdWriteback = true then t.pushTransformToPrim H else t)) := by
  unfold pushScalePivotToPrim
  cases hf : t.findOp .scalePivot with
  | none => exact Or.inr (Or.inr ⟨rfl, rfl⟩)
  | some op =>
    simp only
    split
    · exact Or.inr (Or.inl ⟨_, rfl⟩)
    · exact Or.inl rfl

theorem pushRotatePivotToPrim_cases (H : Host) (t : TransformationMatrix) :
    t.pushRotatePivotToPrim H = t ∨
    (∃ st, t.pushRotatePivotToPrim H =
      { t with stage := st, m_rotatePivotFromUsd := t.rotatePivotValue,
               m_rotatePivotTweak := MVector.zero }) ∨
    (t.findOp .rotatePivot = none ∧ t.pushRotatePivotToPrim H =
      (if t.m_enableUsdWriteback = true then t.pushTransformToPrim H else t)) := by
  unfold pushRotatePivotToPrim
  cases hf : t.findOp .rotatePivot with
  | none => exact Or.inr (Or.inr ⟨rfl, rfl⟩)
  | some op =>
    simp only
    split
    · exact Or.inr (Or.inl ⟨_, rfl⟩)
    · exact Or.inl rfl

theorem pushPivotToPrim_cases (H : Host) (t : TransformationMatrix) :
    t.pushPivotToPrim H = t ∨
    (∃ st, t.pushPivotToPrim H =
      { t with stage := st, m_rotatePivotFromUsd := t.rotatePivotValue,
               m_rotatePivotTweak := MVector.zero,
               m_scalePivotFromUsd := t.scalePivotValue,
               m_scalePivotTweak := MVector.zero }) ∨
    (t.findOp .pivot = none ∧ t.pushPivotToPrim H =
      (if t.m_enableUsdWriteback = true then t.pushTransformToPrim H else t)) := by
  unfold pushPivotToPrim
  cases hf : t.findOp .pivot with
  | none => exact Or.inr (Or.inr ⟨rfl, rfl⟩)
  | some op =>
    simp only
    split
    · exact Or.inr (Or.inl ⟨_, rfl⟩)
    · exact Or.inl rfl

theorem pushPivotToPrim_idem (H : Host) (t : TransformationMatrix)
    (hT : ∀ op, t.findOp .transform = some op → op.isInverseOp = false)
    (hP : ∀ op, t.findOp .pivot = some op → op.isInverseOp = false) :
    (t.pushPivotToPrim H).pushPivotToPrim H = t.pushPivotToPrim H := by
  cases hf : t.findOp .pivot with
  | none =>
    have e : t.pushPivotToPrim H
        = (if t.m_enableUsdWriteback = true then t.pushTransformToPrim H else t) := by
      simp only [pushPivotToPrim, hf]
    rw [e]
    have hnone' : findOp (if t.m_enableUsdWriteback = true then t.pushTransformToPrim H
        else t) .pivot = none := by
      rw [writeback_stage H t]; exact hf
    simp only [pushPivotToPrim, hnone']
    exact writeback_idem H t hT
  | some op =>
    by_cases hg : (!(t.internal_readPoint MVector.zero op).2.isEquivalent t.rotatePivotValue)
        = true
    · have e : t.pushPivotToPrim H = { t with
          stage := (pushPoint H t.stage t.rotatePivotValue op t.getTimeCode).2,
          m_rotatePivotFromUsd := t.rotatePivotValue,
          m_rotatePivotTweak := MVector.zero,
          m_scalePivotFromUsd := t.scalePivotValue,
          m_scalePivotTweak := MVector.zero } := by
        simp only [pushPivotToPrim, hf, hg, if_true, internal_pushPoint]
      rw [e]
      have hf' : findOp { t with
          stage := (pushPoint H t.stage t.rotatePivotValue op t.getTimeCode).2,
          m_rotatePivotFromUsd := t.rotatePivotValue,
          m_rotatePivotTweak := MVector.zero,
          m_scalePivotFromUsd := t.scalePivotValue,
          m_scalePivotTweak := MVector.zero } .pivot = some op := hf
      simp only [pushPivotToPrim, hf']
      split
      · simp only [internal_pushPoint]
        have := pushPoint_idem H t.stage t.rotatePivotValue op t.getTimeCode (hP op hf)
        exact congrArg (fun st => { t with
          stage := st,
          m_rotatePivotFromUsd := t.rotatePivotValue,
          m_rotatePivotTweak := MVector.zero,
          m_scalePivotFromUsd := t.scalePivotValue,
          m_scalePivotTweak := MVector.zero }) this
      · rfl
    · have e : t.pushPivotToPrim H = t := by
        simp only [pushPivotToPrim, hf, hg, Bool.false_eq_true, if_false]
      rw [e, e]

theorem channels_fields (s s' : TransformationMatrix) (h : channels s' = channels s) :
    s'.toMPxTransformationMatrix = s.toMPxTransformationMatrix ∧
    s'.m_scalePivotFromUsd = s.m_scalePivotFromUsd ∧
    s'.m_scalePivotTweak = s.m_scalePivotTweak ∧
    s'.m_rotatePivotFromUsd = s.m_rotatePivotFromUsd ∧
    s'.m_rotatePivotTweak = s.m_rotatePivotTweak := by
  simp only [channels, Prod.mk.injEq, List.cons.injEq, and_true] at h
  obtain ⟨h0, ⟨h1, h2, h3, h4, h5, h6, h7, h8, h9, h10, h11, h12, h13, h14⟩, h15, h16⟩ := h
  exact ⟨h0, h7, h8, h11, h12⟩

theorem setScalePivot_prep_fix (v : MPoint) (t : TransformationMatrix)
    (h1 : t.scalePivotValue = v) (h2 : t.m_scalePivotTweak = v.sub t.m_scalePivotFromUsd) :
    ({ t with
        toMPxTransformationMatrix := { t.toMPxTransformationMatrix with scalePivotValue := v }
        m_scalePivotTweak := v.sub t.m_scalePivotFromUsd } : TransformationMatrix) = t := by
  cases t
  rename_i b _ _ _ _ _ _ _ _ _ _ _ _ _ _ _ _ _ _ _ _ _ _ _ _ _ _ _ _ _ _ _
  cases b
  simp only at h1 h2
  subst h1
  rw [← h2]

/-- Frame of `pushScalePivotToPrim`, and the reason a second push changes nothing when the
setter's gate lets it through. -/
theorem pushScalePivotToPrim_settles (H : Host) (t : TransformationMatrix) (v : MPoint)
    (h1 : t.scalePivotValue = v) (h2 : t.m_scalePivotTweak = v.sub t.m_scalePivotFromUsd)
    (hT : ∀ op, t.findOp .transform = some op → op.isInverseOp = false) :
    (t.pushScalePivotToPrim H).m_flags = t.m_flags ∧
    (t.pushScalePivotToPrim H).primValid = t.primValid ∧
    (t.pushScalePivotToPrim H).scalePivotValue = v ∧
    (t.pushScalePivotToPrim H).m_scalePivotTweak
      = v.sub (t.pushScalePivotToPrim H).m_scalePivotFromUsd ∧
    ((!v.isEquivalent (t.pushScalePivotToPrim H).m_scalePivotFromUsd) = true →
      (t.pushScalePivotToPrim H).pushScalePivotToPrim H = t.pushScalePivotToPrim H) := by
  rcases pushScalePivotToPrim_cases H t with e | ⟨st1, e⟩ | ⟨hnone, e⟩
  · rw [e]; exact ⟨rfl, rfl, h1, h2, fun _ => e⟩
  · rw [e]
    refine ⟨rfl, rfl, h1, ?_, ?_⟩
    · show MVector.zero = v.sub t.scalePivotValue
      rw [h1, MVector.sub_self]
    · intro hg
      exfalso
      have hg' : (!v.isEquivalent t.scalePivotValue) = true := hg
      rw [h1] at hg'
      simp [MVector.isEquivalent_refl] at hg'
  · rw [e]
    have hw := writeback_stage H t
    refine ⟨by rw [hw], by rw [hw], by rw [hw]; exact h1, by rw [hw]; exact h2, ?_⟩
    intro _
    have hnone' : findOp (if t.m_enableUsdWriteback = true then t.pushTransformToPrim H
        else t) .scalePivot = none := by
      rw [hw]; exact hnone
    simp only [pushScalePivotToPrim, hnone']
    exact writeback_idem H t hT

theorem pushPivotToPrim_frame (H : Host) (t : TransformationMatrix) :
    (t.pushPivotToPrim H).m_flags = t.m_flags ∧
    (t.pushPivotToPrim H).primValid = t.primValid ∧
    (t.pushPivotToPrim H).toMPxTransformationMatrix = t.toMPxTransformationMatrix ∧
    ((t.pushPivotToPrim H).m_scalePivotTweak
        = t.scalePivotValue.sub (t.pushPivotToPrim H).m_scalePivotFromUsd ∨
      ((t.pushPivotToPrim H).m_scalePivotTweak = t.m_scalePivotTweak ∧
        (t.pushPivotToPrim H).m_scalePivotFromUsd = t.m_scalePivotFromUsd)) ∧
    ((t.pushPivotToPrim H).m_rotatePivotTweak
        = t.rotatePivotValue.sub (t.pushPivotToPrim H).m_rotatePivotFromUsd ∨
      ((t.pushPivotToPrim H).m_rotatePivotTweak = t.m_rotatePivotTweak ∧
        (t.pushPivotToPrim H).m_rotatePivotFromUsd = t.m_rotatePivotFromUsd)) := by
  rcases pushPivotToPrim_cases H t with e | ⟨st1, e⟩ | ⟨hnone, e⟩
  · rw [e]; exact ⟨rfl, rfl, rfl, Or.inr ⟨rfl, rfl⟩, Or.inr ⟨rfl, rfl⟩⟩
  · rw [e]
    refine ⟨rfl, rfl, rfl, Or.inl ?_, Or.inl ?_⟩
    · show MVector.zero = t.scalePivotValue.sub t.scalePivotValue
      rw [MVector.sub_self]
    · show MVector.zero = t.rotatePivotValue.sub t.rotatePivotValue
      rw [MVector.sub_self]
  · rw [e, writeback_stage H t]
    exact ⟨rfl, rfl, rfl, Or.inr ⟨rfl, rfl⟩, Or.inr ⟨rfl, rfl⟩⟩

theorem setRotatePivot_prep_fix (v : MPoint) (t : TransformationMatrix)
    (h1 : t.rotatePivotValue = v) (h2 : t.m_rotatePivotTweak = v.sub t.m_rotatePivotFromUsd) :
    ({ t with
        toMPxTransformationMatrix := { t.toMPxTransformationMatrix with rotatePivotValue := v }
        m_rotatePivotTweak := v.sub t.m_rotatePivotFromUsd } : TransformationMatrix) = t := by
  cases t
  rename_i b _ _ _ _ _ _ _ _ _ _ _ _ _ _ _ _ _ _ _ _ _ _ _ _ _ _ _ _ _ _ _
  cases b
  simp only at h1 h2
  subst h1
  rw [← h2]

/-- Frame of `pushRotatePivotToPrim`, and the reason a second push changes nothing when the
setter's gate lets it through. -/
theorem pushRotatePivotToPrim_settles (H : Host) (t : TransformationMatrix) (v : MPoint)
    (h1 : t.rotatePivotValue = v) (h2 : t.m_rotatePivotTweak = v.sub t.m_rotatePivotFromUsd)
    (hT : ∀ op, t.findOp .transform = some op → op.isInverseOp = false) :
    (t.pushRotatePivotToPrim H).m_flags = t.m_flags ∧
    (t.pushRotatePivotToPrim H).primValid = t.primValid ∧
    (t.pushRotatePivotToPrim H).rotatePivotValue = v ∧
    (t.pushRotatePivotToPrim H).m_rotatePivotTweak
      = v.sub (t.pushRotatePivotToPrim H).m_rotatePivotFromUsd ∧
    ((!v.isEquivalent (t.pushRotatePivotToPrim H).m_rotatePivotFromUsd) = true →
      (t.pushRotatePivotToPrim H).pushRotatePivotToPrim H = t.pushRotatePivotToPrim H) := by
  rcases pushRotatePivotToPrim_cases H t with e | ⟨st1, e⟩ | ⟨hnone, e⟩
  · rw [e]; exact ⟨rfl, rfl, h1, h2, fun _ => e⟩
  · rw [e]
    refine ⟨rfl, rfl, h1, ?_, ?_⟩
    · show MVector.zero = v.sub t.rotatePivotValue
      rw [h1, MVector.sub_self]
    · intro hg
      exfalso
      have hg' : (!v.isEquivalent t.rotatePivotValue) = true := hg
      rw [h1] at hg'
      simp [MVector.isEquivalent_refl] at hg'
  · rw [e]
    have hw := writeback_stage H t
    refine ⟨by rw [hw], by rw [hw], by rw [hw]; exact h1, by rw [hw]; exact h2, ?_⟩
    intro _
    have hnone' : findOp (if t.m_enableUsdWriteback = true then t.pushTransformToPrim H
        else t) .rotatePivot = none := by
      rw [hw]; exact hnone
    simp only [pushRotatePivotToPrim, hnone']
    exact writeback_idem H t hT


/-! ## Codec round trip (C11, C12) -/

theorem readVector_of_Get (stage : UsdStage) (op : UsdGeomXformOp) (g : GfVec3) (r : MVector)
    (tc : UsdTimeCode) (hty : op.GetTypeName stage ∈ vec3Types)
    (hget : op.Get stage tc = some (.vec3 g)) :
    readVector stage r op tc = (true, ⟨g.v0, g.v1, g.v2⟩) := by
  simp only [vec3Types, List.mem_cons, List.mem_singleton, List.not_mem_nil, or_false] at hty
  simp only [readVector, GetAsVec3, hget]
  rcases hty with h | h | h | h <;> simp [h]

theorem readPoint_of_Get (stage : UsdStage) (op : UsdGeomXformOp) (g : GfVec3) (r : MPoint)
    (tc : UsdTimeCode) (hty : op.GetTypeName stage ∈ vec3Types)
    (hget : op.Get stage tc = some (.vec3 g)) :
    readPoint stage r op tc = (true, ⟨g.v0, g.v1, g.v2⟩) := by
  simp only [vec3Types, List.mem_cons, List.mem_singleton, List.not_mem_nil, or_false] at hty
  simp only [readPoint, GetAsVec3, hget]
  rcases hty with h | h | h | h <;> simp [h]

theorem pushVector_stored (H : Host) (stage : UsdStage) (v : MVector) (op : UsdGeomXformOp)
    (tc : UsdTimeCode) (hinv : op.isInverseOp = false)
    (hgate : timeSampleGate stage op tc = false) (hty : op.GetTypeName stage ∈ vec3Types) :
    (pushVector H stage v op tc).1 = true ∧
    op.GetTypeName (pushVector H stage v op tc).2 = op.GetTypeName stage ∧
    op.Get (pushVector H stage v op tc).2 tc
      = some (.vec3 (toGfVec3 (H.narrow (op.GetTypeName stage)) v)) := by
  obtain ⟨a, ha⟩ := getAttr_isSome_of_typeName stage op (by
    intro h
    rw [h] at hty
    exact absurd hty (by decide))
  simp only [vec3Types, List.mem_cons, List.mem_singleton, List.not_mem_nil, or_false] at hty
  simp only [pushVector, ha, hgate, Bool.false_eq_true, if_false]
  rcases hty with h | h | h | h <;> rw [h] <;> simp only [Host.narrow]
  · exact ⟨trivial, (setIfChanged_spec stage op _ tc hinv a ha).2.1.trans h,
      (setIfChanged_spec stage op _ tc hinv a ha).1⟩
  · exact ⟨trivial, (setIfChanged_spec stage op _ tc hinv a ha).2.1.trans h,
      (setIfChanged_spec stage op _ tc hinv a ha).1⟩
  · exact ⟨trivial, (setIfChanged_spec stage op _ tc hinv a ha).2.1.trans h,
      (setIfChanged_spec stage op _ tc hinv a ha).1⟩
  · exact ⟨trivial, (setIfChanged_spec stage op _ tc hinv a ha).2.1.trans h,
      (setIfChanged_spec stage op _ tc hinv a ha).1⟩

theorem pushPoint_stored (H : Host) (stage : UsdStage) (v : MPoint) (op : UsdGeomXformOp)
    (tc : UsdTimeCode) (hinv : op.isInverseOp = false)
    (hgate : timeSampleGate stage op tc = false) (hty : op.GetTypeName stage ∈ vec3Types) :
    (pushPoint H stage v op tc).1 = true ∧
    op.GetTypeName (pushPoint H stage v op tc).2 = op.GetTypeName stage ∧
    op.Get (pushPoint H stage v op tc).2 tc
      = some (.vec3 (toGfVec3 (H.narrow (op.GetTypeName stage)) v)) := by
  obtain ⟨a, ha⟩ := getAttr_isSome_of_typeName stage op (by
    intro h
    rw [h] at hty
    exact absurd hty (by decide))
  simp only [vec3Types, List.mem_cons, List.mem_singleton, List.not_mem_nil, or_false] at hty
  simp only [pushPoint, hgate, Bool.false_eq_true, if_false]
  rcases hty with h | h | h | h <;> rw [h] <;> simp only [Host.narrow]
  · exact ⟨trivial, (setIfChanged_spec stage op _ tc hinv a ha).2.1.trans h,
      (setIfChanged_spec stage op _ tc hinv a ha).1⟩
  · exact ⟨trivial, (setIfChanged_spec stage op _ tc hinv a ha).2.1.trans h,
      (setIfChanged_spec stage op _ tc hinv a ha).1⟩
  · exact ⟨trivial, (setIfChanged_spec stage op _ tc hinv a ha).2.1.trans h,
      (setIfChanged_spec stage op _ tc hinv a ha).1⟩
  · exact ⟨trivial, (setIfChanged_spec stage op _ tc hinv a ha).2.1.trans h,
      (setIfChanged_spec stage op _ tc hinv a ha).1⟩

theorem pushMatrix_stored (stage : UsdStage) (m : MMatrix) (op : UsdGeomXformOp)
    (tc : UsdTimeCode) (hinv : op.isInverseOp = false)
    (hgate : timeSampleGate stage op tc = false) (hty : op.GetTypeName stage = .kMatrix4d) :
    (pushMatrix stage m op tc).1 = true ∧
    op.GetTypeName (pushMatrix stage m op tc).2 = .kMatrix4d ∧
    op.Get (pushMatrix stage m op tc).2 tc = some (.matrix m) := by
  obtain ⟨a, ha⟩ := getAttr_isSome_of_typeName stage op (by rw [hty]; decide)
  by_cases hold : op.Get stage tc = some (.matrix m)
  · have e : pushMatrix stage m op tc = (true, stage) := by
      simp only [pushMatrix, hgate, Bool.false_eq_true, if_false, hty, hold, ne_eq,
        not_true_eq_false]
    rw [e]
    exact ⟨rfl, hty, hold⟩
  · have hset : (op.Set stage (.matrix m) tc).1 = true := by
      unfold UsdGeomXformOp.GetAttr at ha
      simp [UsdGeomXformOp.Set, hinv, UsdGeomXformOp.GetAttr, ha]
    have e : pushMatrix stage m op tc = (true, (op.Set stage (.matrix m) tc).2) := by
      simp only [pushMatrix, hgate, Bool.false_eq_true, if_false, hty, ne_eq, hold,
        not_false_eq_true, if_true, hset, Bool.not_true]
    rw [e]
    refine ⟨rfl, ?_, Get_after_Set stage op _ tc hinv a ha⟩
    simp only [UsdGeomXformOp.GetTypeName, GetAttr_after_Set stage op _ tc hinv a ha,
      typeName_author]
    simp only [UsdGeomXformOp.GetTypeName, ha] at hty
    exact hty

theorem pushShear_journal (stage : UsdStage) (v : MVector) (op : UsdGeomXformOp)
    (tc : UsdTimeCode) :
    (pushShear stage v op tc).2 = stage ∨
    ((pushShear stage v op tc).2 = (op.Set stage (.matrix (shearMatrix v)) tc).2 ∧
      op.GetTypeName stage = .kMatrix4d ∧ timeSampleGate stage op tc = false) := by
  unfold pushShear
  by_cases hg : timeSampleGate stage op tc = true
  · rw [if_pos hg]; exact Or.inl rfl
  · rw [if_neg hg]
    have hg' : timeSampleGate stage op tc = false := by simpa using hg
    cases hty : op.GetTypeName stage with
    | kMatrix4d =>
      simp only [setIfChanged]
      split_ifs
      · refine Or.inr ⟨?_, ?_, hg'⟩ <;> first | rfl | trivial
      · exact Or.inl rfl
    | _ => exact Or.inl rfl

theorem pushShear_stored (stage : UsdStage) (v : MVector) (op : UsdGeomXformOp)
    (tc : UsdTimeCode) (hinv : op.isInverseOp = false)
    (hgate : timeSampleGate stage op tc = false) (hty : op.GetTypeName stage = .kMatrix4d) :
    op.GetTypeName (pushShear stage v op tc).2 = .kMatrix4d ∧
    op.Get (pushShear stage v op tc).2 tc = some (.matrix (shearMatrix v)) := by
  obtain ⟨a, ha⟩ := getAttr_isSome_of_typeName stage op (by rw [hty]; decide)
  have e : pushShear stage v op tc
      = (false, (setIfChanged stage op (.matrix (shearMatrix v)) tc tc).2) := by
    simp only [pushShear, hgate, Bool.false_eq_true, if_false, hty]
  rw [e]
  exact ⟨(setIfChanged_spec stage op _ tc hinv a ha).2.1.trans hty,
    (setIfChanged_spec stage op _ tc hinv a ha).1⟩

theorem readVector_unsupported (stage : UsdStage) (r : MVector) (op : UsdGeomXformOp)
    (tc : UsdTimeCode) (h : op.GetTypeName stage ∉ vec3Types) :
    readVector stage r op tc = (false, r) := by
  unfold readVector
  cases hty : op.GetTypeName stage <;> first | rfl | (rw [hty] at h; exact absurd (by decide) h)

theorem readPoint_unsupported (stage : UsdStage) (r : MPoint) (op : UsdGeomXformOp)
    (tc : UsdTimeCode) (h : op.GetTypeName stage ∉ vec3Types) :
    readPoint stage r op tc = (false, r) := by
  unfold readPoint
  cases hty : op.GetTypeName stage <;> first | rfl | (rw [hty] at h; exact absurd (by decide) h)

theorem readDouble_unsupported (stage : UsdStage) (op : UsdGeomXformOp) (tc : UsdTimeCode)
    (h : op.GetTypeName stage ∉ scalarTypes) : readDouble stage op tc = 0 := by
  unfold readDouble
  cases hty : op.GetTypeName stage <;> first | rfl | (rw [hty] at h; exact absurd (by decide) h)

theorem readRotation_three_axis (stage : UsdStage) (re : MEulerRotation) (op : UsdGeomXformOp)
    (tc : UsdTimeCode) (h3 : op.opType ∈ threeAxisTypes) :
    (readRotation stage re op tc).1 = (readVector stage MVector.zero op tc).1 ∧
    ((readVector stage MVector.zero op tc).1 = false → readRotation stage re op tc = (false, re)) := by
  simp only [threeAxisTypes, List.mem_cons, List.mem_singleton, List.not_mem_nil, or_false] at h3
  unfold readRotation
  rcases hv : readVector stage MVector.zero op tc with ⟨b, v⟩
  cases b <;> rcases h3 with h | h | h | h | h | h <;> simp [h]

/-- C13 (as stated, refuted). `readRotation` on a single-axis rotation operator whose stored
type is a float 3-vector (not half, float, double or int) returns `true`, with the angle 0. -/
theorem C13_counterexample :
    rotateXOp.GetTypeName rotateXVectorStage = .kVec3f ∧
    rotateXOp.GetTypeName rotateXVectorStage ∉ scalarTypes ∧
    readRotation rotateXVectorStage ⟨1, 1, 1, .kZYX⟩ rotateXOp .Default
      = (true, ⟨0, 0, 0, .kXYZ⟩) := by
  decide!

/-- C13 (amended): on an operator whose stored type is none of the representations the codec
supports, `readVector`, `readPoint` (3-vector types), `readShear`, `readMatrix` (Matrix4d) and
`readRotation` on a three-axis rotation operator (3-vector types) return `false` and leave the
result untouched; `readRotation` on a single-axis rotation operator whose stored type is not
half, float, double or int returns `true` with the angle 0. -/
theorem C13_reads_fail_on_unsupported_type (stage : UsdStage) (op : UsdGeomXformOp)
    (tc : UsdTimeCode) (r : MVector) (rm : MMatrix) (re : MEulerRotation) :
    (op.GetTypeName stage ∉ vec3Types →
      readVector stage r op tc = (false, r) ∧ readPoint stage r op tc = (false, r) ∧
      (op.opType ∈ threeAxisTypes → readRotation stage re op tc = (false, re))) ∧
    (op.GetTypeName stage ≠ .kMatrix4d →
      readShear stage r op tc = (false, r) ∧ readMatrix stage rm op tc = (false, rm)) ∧
    (op.GetTypeName stage ∉ scalarTypes → op.opType ∈ singleAxisTypes →
      readRotation stage re op tc = (true, ⟨0, 0, 0, .kXYZ⟩)) := by
  refine ⟨fun h => ⟨readVector_unsupported stage r op tc h, readPoint_unsupported stage r op tc h,
    fun h3 => (readRotation_three_axis stage re op tc h3).2
      (by rw [readVector_unsupported stage _ op tc h])⟩, ?_, ?_⟩
  · intro h
    constructor
    · unfold readShear
      cases hty : op.GetTypeName stage <;> first | rfl | exact absurd hty h
    · unfold readMatrix
      cases hty : op.GetTypeName stage <;> first | rfl | exact absurd hty h
  · intro h h1
    simp only [singleAxisTypes, List.mem_cons, List.mem_singleton, List.not_mem_nil, or_false]
      at h1
    unfold readRotation
    rcases h1 with h1 | h1 | h1 <;>
      simp only [h1, readDouble_unsupported stage op tc h, zero_mul]

theorem C13_reads_fail_on_unsupported_type_witness :
    rotateXOp.GetTypeName rotateXVectorStage ≠ .kMatrix4d ∧
    readShear rotateXVectorStage ⟨1, 2, 3⟩ rotateXOp .Default = (false, ⟨1, 2, 3⟩) ∧
    readMatrix rotateXVectorStage 1 rotateXOp .Default = (false, 1) ∧
    shearOp.GetTypeName shearStage ∉ vec3Types ∧
    readVector shearStage ⟨1, 2, 3⟩ shearOp .Default = (false, ⟨1, 2, 3⟩) ∧
    rotateXOp.GetTypeName rotateXVectorStage ∉ scalarTypes ∧
    rotateXOp.opType ∈ singleAxisTypes ∧
    readRotation rotateXVectorStage ⟨1, 1, 1, .kZYX⟩ rotateXOp .Default
      = (true, ⟨0, 0, 0, .kXYZ⟩) :=
  ⟨by decide,
    ((C13_reads_fail_on_unsupported_type rotateXVectorStage rotateXOp .Default ⟨1, 2, 3⟩ 1
      ⟨0, 0, 0, .kXYZ⟩).2.1 (by decide)).1,
    ((C13_reads_fail_on_unsupported_type rotateXVectorStage rotateXOp .Default ⟨1, 2, 3⟩ 1
      ⟨0, 0, 0, .kXYZ⟩).2.1 (by decide)).2,
    by decide,
    ((C13_reads_fail_on_unsupported_type shearStage shearOp .Default ⟨1, 2, 3⟩ 1
      ⟨0, 0, 0, .kXYZ⟩).1 (by decide)).1,
    by decide, by decide,
    (C13_reads_fail_on_unsupported_type rotateXVectorStage rotateXOp .Default ⟨1, 2, 3⟩ 1
      ⟨1, 1, 1, .kZYX⟩).2.2 (by decide) (by decide)⟩

theorem pushVector_true (H : Host) (stage : UsdStage) (v : MVector) (op : UsdGeomXformOp)
    (tc : UsdTimeCode) (hgate : timeSampleGate stage op tc = false)
    (hty : op.GetTypeName stage ∈ vec3Types) : (pushVector H stage v op tc).1 = true := by
  obtain ⟨a, ha⟩ := getAttr_isSome_of_typeName stage op (by
    intro h
    rw [h] at hty
    exact absurd hty (by decide))
  simp only [vec3Types, List.mem_cons, List.mem_singleton, List.not_mem_nil, or_false] at hty
  simp only [pushVector, ha, hgate, Bool.false_eq_true, if_false]
  rcases hty with h | h | h | h <;> rw [h]

theorem readVector_true_iff (stage : UsdStage) (r : MVector) (op : UsdGeomXformOp)
    (tc : UsdTimeCode) (hty : op.GetTypeName stage ∈ vec3Types) :
    (readVector stage r op tc).1 = true ↔ ∃ g, op.Get stage tc = some (.vec3 g) := by
  constructor
  · intro h
    cases hget : op.Get stage tc with
    | none =>
      exfalso
      simp only [vec3Types, List.mem_cons, List.mem_singleton, List.not_mem_nil, or_false] at hty
      rcases hty with e | e | e | e <;> simp [readVector, e, GetAsVec3, hget] at h
    | some val =>
      cases val with
      | vec3 g => exact ⟨g, rfl⟩
      | matrix m =>
        exfalso
        simp only [vec3Types, List.mem_cons, List.mem_singleton, List.not_mem_nil, or_false]
          at hty
        rcases hty with e | e | e | e <;> simp [readVector, e, GetAsVec3, hget] at h
      | scalar x =>
        exfalso
        simp only [vec3Types, List.mem_cons, List.mem_singleton, List.not_mem_nil, or_false]
          at hty
        rcases hty with e | e | e | e <;> simp [readVector, e, GetAsVec3, hget] at h
  · rintro ⟨g, hg⟩
    rw [readVector_of_Get stage op g r tc hty hg]

theorem SameStructure.refl (s : TransformationMatrix) : SameStructure s s :=
  ⟨Eq.refl _, Eq.refl _, Eq.refl _, Eq.refl _, Eq.refl _, Eq.refl _, Eq.refl _⟩

theorem SameStructure.trans {a b c : TransformationMatrix} (h1 : SameStructure a b)
    (h2 : SameStructure b c) : SameStructure a c :=
  ⟨h1.1.trans h2.1, h1.2.1.trans h2.2.1, h1.2.2.1.trans h2.2.2.1,
    h1.2.2.2.1.trans h2.2.2.2.1, h1.2.2.2.2.1.trans h2.2.2.2.2.1,
    h1.2.2.2.2.2.1.trans h2.2.2.2.2.2.1, h1.2.2.2.2.2.2.trans h2.2.2.2.2.2.2⟩

theorem translateTo_disabled (H : Host) (s : TransformationMatrix) (bs : MStatus) (v : MVector)
    (space : MSpace) (h : hasFlag s.m_flags kPushToPrimEnabled = false) :
    ∃ r, s.translateTo H bs v space = some r ∧ r.2.m_flags = s.m_flags ∧
      SameStructure r.2 s := by
  unfold translateTo
  simp only [pushToPrimAvailable, pushToPrimEnabled]
  split_ifs <;> simp_all [SameStructure]

theorem scaleTo_disabled (H : Host) (s : TransformationMatrix) (bs : MStatus) (v : MVector)
    (space : MSpace) (h : hasFlag s.m_flags kPushToPrimEnabled = false) :
    ∃ r, s.scaleTo H bs v space = some r ∧ r.2.m_flags = s.m_flags ∧
      SameStructure r.2 s := by
  unfold scaleTo
  simp only [pushToPrimAvailable, pushToPrimEnabled]
  split_ifs <;> simp_all [SameStructure]

theorem shearTo_disabled (H : Host) (s : TransformationMatrix) (bs : MStatus) (v : MVector)
    (space : MSpace) (h : hasFlag s.m_flags kPushToPrimEnabled = false) :
    ∃ r, s.shearTo H bs v space = some r ∧ r.2.m_flags = s.m_flags ∧
      SameStructure r.2 s := by
  unfold shearTo
  simp only [pushToPrimAvailable, pushToPrimEnabled]
  split_ifs <;> simp_all [SameStructure]

theorem rotateTo_disabled (H : Host) (s : TransformationMatrix) (bs : MStatus)
    (e : MEulerRotation) (space : MSpace) (h : hasFlag s.m_flags kPushToPrimEnabled = false) :
    ∃ r, s.rotateTo H bs e space = some r ∧ r.2.m_flags = s.m_flags ∧
      SameStructure r.2 s := by
  unfold rotateTo
  simp only [pushToPrimAvailable, pushToPrimEnabled, updateRotationTweak]
  split_ifs <;> simp_all [SameStructure]

theorem setScalePivot_disabled (H : Host) (s : TransformationMatrix) (bs : MStatus)
    (v : MPoint) (space : MSpace) (balance : Bool)
    (h : hasFlag s.m_flags kPushToPrimEnabled = false) :
    ∃ r, s.setScalePivot H bs v space balance = some r ∧ r.2.m_flags = s.m_flags ∧
      SameStructure r.2 s := by
  unfold setScalePivot
  simp only [pushToPrimAvailable, pushToPrimEnabled]
  split_ifs <;> simp_all [SameStructure]

theorem setRotatePivot_disabled (H : Host) (s : TransformationMatrix) (bs : MStatus)
    (v : MPoint) (space : MSpace) (balance : Bool)
    (h : hasFlag s.m_flags kPushToPrimEnabled = false) :
    ∃ r, s.setRotatePivot H bs v space balance = some r ∧ r.2.m_flags = s.m_flags ∧
      SameStructure r.2 s := by
  unfold setRotatePivot
  simp only [pushToPrimAvailable, pushToPrimEnabled]
  split_ifs <;> simp_all [SameStructure]

theorem setScalePivotTranslation_disabled (H : Host) (s : TransformationMatrix) (bs : MStatus)
    (v : MVector) (space : MSpace) (h : hasFlag s.m_flags kPushToPrimEnabled = false) :
    ∃ r, s.setScalePivotTranslation H bs v space = some r ∧ r.2.m_flags = s.m_flags ∧
      SameStructure r.2 s := by
  unfold setScalePivotTranslation
  simp only [pushToPrimAvailable, pushToPrimEnabled]
  split_ifs <;> simp_all [SameStructure]

theorem setRotatePivotTranslation_disabled (H : Host) (s : TransformationMatrix) (bs : MStatus)
    (v : MVector) (space : MSpace) (h : hasFlag s.m_flags kPushToPrimEnabled = false) :
    ∃ r, s.setRotatePivotTranslation H bs v space = some r ∧ r.2.m_flags = s.m_flags ∧
      SameStructure r.2 s := by
  unfold setRotatePivotTranslation
  simp only [pushToPrimAvailable, pushToPrimEnabled]
  split_ifs <;> simp_all [SameStructure]

theorem setRotateOrientationEuler_disabled (H : Host) (s : TransformationMatrix) (bs : MStatus)
    (e : MEulerRotation) (space : MSpace) (balance : Bool)
    (h : hasFlag s.m_flags kPushToPrimEnabled = false) :
    ∃ r, s.setRotateOrientationEuler H bs e space balance = some r ∧ r.2.m_flags = s.m_flags ∧
      SameStructure r.2 s := by
  unfold setRotateOrientationEuler
  simp only [pushToPrimAvailable, pushToPrimEnabled]
  split_ifs <;> simp_all [SameStructure]

theorem setFlag_zero (f : Flags) : setFlag f 0 = f := Nat.or_zero f

theorem setFlag_setFlag (f a b : Flags) : setFlag (setFlag f a) b = setFlag f (a ||| b) :=
  Nat.lor_assoc f a b

theorem initBits_stable (stage : UsdStage) (c : UsdMayaXformOpClassification)
    (op : UsdGeomXformOp) (k : Flags) (hk : k ∈ stableFlags) : initBits stage c op &&& k = 0 := by
  simp only [stableFlags, List.mem_cons, List.mem_singleton, List.not_mem_nil, or_false] at hk
  unfold initBits
  rcases hk with h | h | h | h | h <;> subst h <;> cases c.name <;> simp only [] <;>
    split_ifs <;> decide

theorem orFlagIfAnimated_flags (s : TransformationMatrix) (op : UsdGeomXformOp) (f : Flags) :
    (s.orFlagIfAnimated op f).m_flags
      = setFlag s.m_flags (if op.GetNumTimeSamples s.stage > 1 then f else 0) ∧
    SameStructure (s.orFlagIfAnimated op f) s := by
  unfold orFlagIfAnimated
  split_ifs
  · exact ⟨rfl, SameStructure.refl _⟩
  · exact ⟨(setFlag_zero _).symm, SameStructure.refl _⟩

theorem hasFlag_initBits (f : Flags) (stage : UsdStage) (c : UsdMayaXformOpClassification)
    (op : UsdGeomXformOp) (k : Flags) (hk : k ∈ stableFlags) :
    hasFlag (setFlag f (initBits stage c op)) k = hasFlag f k :=
  hasFlag_setFlag_other f _ k (initBits_stable stage c op k hk)

/-- A setter called back by the host during the pass, followed by the assignments `f`. -/
theorem setter_step {X : Option (MStatus × TransformationMatrix)}
    {f : MStatus × TransformationMatrix → TransformationMatrix} {S t : TransformationMatrix}
    {F : Flags}
    (h : ∃ r, X = some r ∧ r.2.m_flags = S.m_flags ∧ SameStructure r.2 S)
    (hF : S.m_flags = F) (hS : SameStructure S t)
    (hf : ∀ r : MStatus × TransformationMatrix,
      (f r).m_flags = r.2.m_flags ∧ SameStructure (f r) r.2) :
    ∃ t', X.map f = some t' ∧ t'.m_flags = F ∧ SameStructure t' t := by
  obtain ⟨r, hr, h1, h2⟩ := h
  rw [hr]
  exact ⟨f r, rfl, ((hf r).1.trans h1).trans hF, ((hf r).2.trans h2).trans hS⟩

/-- Two setters called back in a row. -/
theorem setter_bind {X : Option (MStatus × TransformationMatrix)}
    {g : MStatus × TransformationMatrix → Option TransformationMatrix}
    {S t : TransformationMatrix} {F : Flags}
    (h : ∃ r, X = some r ∧ r.2.m_flags = S.m_flags ∧ SameStructure r.2 S)
    (hF : S.m_flags = F) (hS : SameStructure S t)
    (hg : ∀ r : MStatus × TransformationMatrix, r.2.m_flags = F → SameStructure r.2 t →
      ∃ t', g r = some t' ∧ t'.m_flags = F ∧ SameStructure t' t) :
    ∃ t', X.bind g = some t' ∧ t'.m_flags = F ∧ SameStructure t' t := by
  obtain ⟨r, hr, h1, h2⟩ := h
  rw [hr]
  exact hg r (h1.trans hF) (h2.trans hS)

/-- The loop body of `initialiseToPrim`, run with write-back disabled on a non-empty operator
list, has a result; it adds the bits `initBits` to the flags and leaves the structure alone. -/
theorem initialiseOp_spec (H : Host) (D : Decomposer) (bs : MStatus) (rf tn : Bool)
    (t : TransformationMatrix) (c : UsdMayaXformOpClassification) (op : UsdGeomXformOp)
    (hdis : hasFlag t.m_flags kPushToPrimEnabled = false) (hne : t.m_xformops ≠ []) :
    ∃ t', initialiseOp H D bs rf tn t c op = some t' ∧
      t'.m_flags = setFlag t.m_flags (initBits t.stage c op) ∧ SameStructure t' t := by
  have hd : hasFlag (setFlag t.m_flags (initBits t.stage c op)) kPushToPrimEnabled = false :=
    (hasFlag_initBits _ _ _ _ _ (by decide)).trans hdis
  unfold initialiseOp
  by_cases htw : c.isInvertedTwin = true
  · rw [if_pos htw]
    refine ⟨t, rfl, ?_, SameStructure.refl _⟩
    simp only [initBits, htw, if_true, setFlag_zero]
  · rw [if_neg htw]
    simp only [initBits, htw, Bool.false_eq_true, if_false] at hd ⊢
    cases hn : c.name with
    | translate =>
      simp only [hn] at hd ⊢
      obtain ⟨hf, hs⟩ := orFlagIfAnimated_flags (t.orFlag kPrimHasTranslation) op
        kAnimatedTranslation
      have hf' := hf.trans (setFlag_setFlag t.m_flags kPrimHasTranslation _)
      by_cases h1 : rf = true <;> by_cases h2 : tn = true <;>
        simp only [h1, h2, if_true, if_false, Bool.false_eq_true]
      · exact setter_step (translateTo_disabled H _ bs _ _ (by rw [hf']; exact hd)) hf' hs
          (fun r => ⟨rfl, SameStructure.refl _⟩)
      all_goals exact ⟨_, rfl, hf', hs⟩
    | shear =>
      simp only [hn] at hd ⊢
      obtain ⟨hf, hs⟩ := orFlagIfAnimated_flags (t.orFlag kPrimHasShear) op kAnimatedShear
      have hf' := hf.trans (setFlag_setFlag t.m_flags kPrimHasShear _)
      by_cases h1 : rf = true <;> by_cases h2 : tn = true <;>
        simp only [h1, h2, if_true, if_false, Bool.false_eq_true]
      · exact setter_step (shearTo_disabled H _ bs _ _ (by rw [hf']; exact hd)) hf' hs
          (fun r => ⟨rfl, SameStructure.refl _⟩)
      all_goals exact ⟨_, rfl, hf', hs⟩
    | scale =>
      simp only [hn] at hd ⊢
      obtain ⟨hf, hs⟩ := orFlagIfAnimated_flags (t.orFlag kPrimHasScale) op kAnimatedScale
      have hf' := hf.trans (setFlag_setFlag t.m_flags kPrimHasScale _)
      by_cases h1 : rf = true <;> by_cases h2 : tn = true <;>
        simp only [h1, h2, if_true, if_false, Bool.false_eq_true]
      · exact setter_step (scaleTo_disabled H _ bs _ _ (by rw [hf']; exact hd)) hf' hs
          (fun r => ⟨rfl, SameStructure.refl _⟩)
      all_goals exact ⟨_, rfl, hf', hs⟩
    | rotate =>
      simp only [hn] at hd ⊢
      obtain ⟨hf, hs⟩ := orFlagIfAnimated_flags (t.orFlag kPrimHasRotation) op kAnimatedRotation
      have hf' := hf.trans (setFlag_setFlag t.m_flags kPrimHasRotation _)
      by_cases h1 : rf = true <;> by_cases h2 : tn = true <;>
        simp only [h1, h2, if_true, if_false, Bool.false_eq_true]
      · exact setter_step (rotateTo_disabled H _ bs _ _ (by
          show hasFlag ((t.orFlag kPrimHasRotation).orFlagIfAnimated op kAnimatedRotation).m_flags
            kPushToPrimEnabled = false
          rw [hf']; exact hd)) hf' hs (fun r => ⟨rfl, SameStructure.refl _⟩)
      all_goals exact ⟨_, rfl, hf', hs⟩
    | rotatePivotTranslate =>
      simp only [hn] at hd ⊢
      by_cases h1 : rf = true <;> by_cases h2 : tn = true <;>
        simp only [h1, h2, if_true, if_false, Bool.false_eq_true]
      · exact setter_step (setRotatePivotTranslation_disabled H _ bs _ _ hd) rfl
          (SameStructure.refl _) (fun r => ⟨rfl, SameStructure.refl _⟩)
      all_goals exact ⟨_, rfl, rfl, SameStructure.refl _⟩
    | scalePivotTranslate =>
      simp only [hn] at hd ⊢
      by_cases h1 : rf = true <;> by_cases h2 : tn = true <;>
        simp only [h1, h2, if_true, if_false, Bool.false_eq_true]
      · exact setter_step (setScalePivotTranslation_disabled H _ bs _ _ hd) rfl
          (SameStructure.refl _) (fun r => ⟨rfl, SameStructure.refl _⟩)
      all_goals exact ⟨_, rfl, rfl, SameStructure.refl _⟩
    | rotatePivot =>
      simp only [hn] at hd ⊢
      by_cases h1 : rf = true <;> by_cases h2 : tn = true <;>
        simp only [h1, h2, if_true, if_false, Bool.false_eq_true]
      · exact setter_step (setRotatePivot_disabled H _ bs _ _ _ hd) rfl
          (SameStructure.refl _) (fun r => ⟨rfl, SameStructure.refl _⟩)
      all_goals exact ⟨_, rfl, rfl, SameStructure.refl _⟩
    | scalePivot =>
      simp only [hn] at hd ⊢
      by_cases h1 : rf = true <;> by_cases h2 : tn = true <;>
        simp only [h1, h2, if_true, if_false, Bool.false_eq_true]
      · exact setter_step (setScalePivot_disabled H _ bs _ _ _ hd) rfl
          (SameStructure.refl _) (fun r => ⟨rfl, SameStructure.refl _⟩)
      all_goals exact ⟨_, rfl, rfl, SameStructure.refl _⟩
    | rotateAxis =>
      simp only [hn] at hd ⊢
      by_cases h1 : rf = true <;> by_cases h2 : tn = true <;>
        simp only [h1, h2, if_true, if_false, Bool.false_eq_true]
      · exact setter_step (setRotateOrientationEuler_disabled H _ bs _ _ _ hd) rfl
          (SameStructure.refl _) (fun r => ⟨rfl, SameStructure.refl _⟩)
      all_goals exact ⟨_, rfl, rfl, SameStructure.refl _⟩
    | pivot =>
      simp only [hn] at hd ⊢
      by_cases h1 : rf = true <;> by_cases h2 : tn = true <;>
        simp only [h1, h2, if_true, if_false, Bool.false_eq_true]
      · exact setter_bind (setRotatePivot_disabled H _ bs _ _ _ hd) rfl (SameStructure.refl _)
          (fun r hrf hrs => setter_step
            (setScalePivot_disabled H r.2 bs _ _ _ (by rw [hrf]; exact hd)) hrf hrs
            (fun _ => ⟨rfl, SameStructure.refl _⟩))
      all_goals exact ⟨_, rfl, rfl, SameStructure.refl _⟩
    | transform =>
      simp only [hn] at hd ⊢
      obtain ⟨hf, hs⟩ := orFlagIfAnimated_flags
        (((t.orFlag kPrimHasTransform).orFlag kFromMatrix).orFlag kPushPrimToMatrix) op
        kAnimatedMatrix
      have hf' : ((((t.orFlag kPrimHasTransform).orFlag kFromMatrix).orFlag
          kPushPrimToMatrix).orFlagIfAnimated op kAnimatedMatrix).m_flags
          = setFlag t.m_flags (kPrimHasTransform ||| kFromMatrix ||| kPushPrimToMatrix |||
              (if op.GetNumTimeSamples t.stage > 1 then kAnimatedMatrix else 0)) := by
        rw [hf]
        simp only [orFlag, setFlag, Nat.lor_assoc]
      by_cases h1 : rf = true <;> simp only [h1, if_true, if_false, Bool.false_eq_true]
      · have hx : ((((t.orFlag kPrimHasTransform).orFlag kFromMatrix).orFlag
            kPushPrimToMatrix).orFlagIfAnimated op kAnimatedMatrix).m_xformops = t.m_xformops :=
          hs.2.2.1
        rw [hx]
        cases hh : t.m_xformops with
        | nil => exact absurd hh hne
        | cons op0 rest => exact ⟨_, rfl, hf', hs⟩
      · exact ⟨_, rfl, hf', hs⟩

theorem foldlM_initialiseOp (H : Host) (D : Decomposer) (bs : MStatus) (rf tn : Bool)
    (l : List (UsdMayaXformOpClassification × UsdGeomXformOp)) :
    ∀ t : TransformationMatrix, hasFlag t.m_flags kPushToPrimEnabled = false →
      (l = [] ∨ t.m_xformops ≠ []) →
      ∃ t', l.foldlM (fun t p => initialiseOp H D bs rf tn t p.1 p.2) t = some t' ∧
        t'.m_flags = setFlag t.m_flags (passBits t.stage l) ∧ SameStructure t' t := by
  induction l with
  | nil =>
    intro t _ _
    exact ⟨t, rfl, (setFlag_zero _).symm, SameStructure.refl _⟩
  | cons p l ih =>
    intro t hdis hne
    have hne' : t.m_xformops ≠ [] := by
      rcases hne with h | h
      · exact absurd h (List.cons_ne_nil _ _)
      · exact h
    obtain ⟨t1, h1, hf1, hs1⟩ := initialiseOp_spec H D bs rf tn t p.1 p.2 hdis hne'
    obtain ⟨t', h2, hf2, hs2⟩ := ih t1
      (by rw [hf1]; exact (hasFlag_initBits _ _ _ _ _ (by decide)).trans hdis)
      (Or.inr (by rw [hs1.2.2.1]; exact hne'))
    refine ⟨t', ?_, ?_, hs2.trans hs1⟩
    · rw [List.foldlM_cons, h1]
      exact h2
    · rw [hf2, hf1, hs1.1, setFlag_setFlag]
      rfl

theorem lockstep_initialiseOp (H : Host) (D : Decomposer) (bs : MStatus) (rf tn : Bool)
    (s : TransformationMatrix) (hdis : hasFlag s.m_flags kPushToPrimEnabled = false)
    (hlen : s.m_xformops.length ≤ s.m_orderedOps.length) :
    ∃ s', lockstep (initialiseOp H D bs rf tn) s = some s' ∧
      s'.m_flags = setFlag s.m_flags (passBits s.stage (s.m_orderedOps.zip s.m_xformops)) ∧
      SameStructure s' s := by
  unfold lockstep
  rw [if_neg (by omega)]
  apply foldlM_initialiseOp H D bs rf tn _ s hdis
  cases hx : s.m_xformops with
  | nil => exact Or.inl (List.zip_nil_right)
  | cons a l => exact Or.inr (List.cons_ne_nil _ _)

theorem or_and_eq_zero (a b k : ℕ) (ha : a &&& k = 0) (hb : b &&& k = 0) :
    (a ||| b) &&& k = 0 := by
  apply Nat.eq_of_testBit_eq
  intro i
  have h1 : (a &&& k).testBit i = false := by rw [ha]; exact Nat.zero_testBit i
  have h2 : (b &&& k).testBit i = false := by rw [hb]; exact Nat.zero_testBit i
  simp only [Nat.testBit_and, Nat.testBit_or, Nat.zero_testBit] at h1 h2 ⊢
  cases hai : a.testBit i <;> cases hbi : b.testBit i <;> cases hki : k.testBit i <;> simp_all

theorem passBits_and (stage : UsdStage) (k : Flags)
    (l : List (UsdMayaXformOpClassification × UsdGeomXformOp))
    (h : ∀ p ∈ l, initBits stage p.1 p.2 &&& k = 0) : passBits stage l &&& k = 0 := by
  induction l with
  | nil => exact Nat.zero_and k
  | cons p l ih =>
    exact or_and_eq_zero _ _ _ (h p (List.mem_cons_self _ _))
      (ih (fun q hq => h q (List.mem_cons_of_mem _ hq)))

theorem passBits_stable (stage : UsdStage) (k : Flags) (hk : k ∈ stableFlags)
    (l : List (UsdMayaXformOpClassification × UsdGeomXformOp)) : passBits stage l &&& k = 0 :=
  passBits_and stage k l (fun p _ => initBits_stable stage p.1 p.2 k hk)

theorem hasFlag_two_pow (f : Flags) (i : ℕ) : hasFlag f (2 ^ i) = f.testBit i := by
  unfold hasFlag
  rw [Nat.and_two_pow]
  cases f.testBit i <;> simp

theorem nat_or_eq_zero (x y : ℕ) : x ||| y = 0 ↔ x = 0 ∧ y = 0 := by
  constructor
  · intro h
    have hb : ∀ i, (x ||| y).testBit i = false := fun i => by rw [h]; exact Nat.zero_testBit i
    simp only [Nat.testBit_or, Bool.or_eq_false_iff] at hb
    exact ⟨Nat.eq_of_testBit_eq (fun i => by rw [(hb i).1, Nat.zero_testBit]),
      Nat.eq_of_testBit_eq (fun i => by rw [(hb i).2, Nat.zero_testBit])⟩
  · rintro ⟨rfl, rfl⟩
    rfl

theorem hasFlag_or_right (f a b : Flags) : hasFlag f (a ||| b) = (hasFlag f a || hasFlag f b) := by
  unfold hasFlag
  have h : f &&& (a ||| b) = (f &&& a) ||| (f &&& b) := Nat.and_or_distrib_left f a b
  rw [h]
  by_cases h1 : f &&& a = 0 <;> by_cases h2 : f &&& b = 0 <;> simp [h1, h2, nat_or_eq_zero]

theorem testBit_of_preserved (f : Flags) (h : f &&& kPreservationMask = f) (i : ℕ)
    (h28 : i ≠ 28) (h31 : i ≠ 31) : f.testBit i = false := by
  have h1 : (f &&& kPreservationMask).testBit i = f.testBit i := by rw [h]
  simp only [kPreservationMask, kPushToPrimEnabled, kReadAnimatedValues, Nat.testBit_and,
    Nat.testBit_or, Nat.testBit_two_pow] at h1
  have e1 : decide (28 = i) = false := by simpa using fun h => h28 h.symm
  have e2 : decide (31 = i) = false := by simpa using fun h => h31 h.symm
  rw [e1, e2] at h1
  simpa using h1.symm

theorem initialiseToPrim_empty (H : Host) (D : Decomposer) (bs : MStatus)
    (s : TransformationMatrix) (rf tn : Bool) (hv : s.primValid = true)
    (hempty : s.stage.xformOpOrder = []) :
    ∃ s', initialiseToPrim H D bs s rf tn = some s' ∧ s'.m_orderedOps = [] ∧
      s'.m_flags = (animationGate (restorePushToPrim (disablePushToPrim (s.detectSchema))
        s.detectSchema.pushToPrimEnabled)).m_flags ∧
      s.detectSchema.m_flags = setFlag (if s.stage.resetXformStack = true then s.m_flags
        else setFlag s.m_flags kInheritsTransform) kFromMayaSchema := by
  have hd : s.detectSchema.m_xformops = [] ∧ s.detectSchema.m_orderedOps = [] ∧
      s.detectSchema.m_flags = setFlag (if s.stage.resetXformStack = true then s.m_flags
        else setFlag s.m_flags kInheritsTransform) kFromMayaSchema := by
    unfold detectSchema
    simp only [hempty, List.isEmpty_nil, if_true]
    cases s.stage.resetXformStack <;> simp [orFlag]
  have hk : hasFlag s.detectSchema.disablePushToPrim.m_flags kAnyKnownSchema = true := by
    simp only [disablePushToPrim, hd.2.2, kAnyKnownSchema, hasFlag_or_right, kFromMayaSchema,
      kPushToPrimEnabled, hasFlag_two_pow, setFlag, clearFlag, allFlagBits, Nat.testBit_and,
      Nat.testBit_or, Nat.testBit_xor, Nat.testBit_two_pow, Nat.testBit_two_pow_sub_one]
    simp
  have hl : lockstep (initialiseOp H D bs rf tn) s.detectSchema.disablePushToPrim
      = some s.detectSchema.disablePushToPrim := by
    unfold lockstep
    have e1 : s.detectSchema.disablePushToPrim.m_xformops = [] := hd.1
    have e2 : s.detectSchema.disablePushToPrim.m_orderedOps = [] := hd.2.1
    rw [e1, e2]
    rfl
  refine ⟨_, ?_, ?_, rfl, hd.2.2⟩
  · unfold initialiseToPrim
    simp only [hv, Bool.not_true, Bool.false_eq_true, if_false, hk, if_true, hl, Option.map_some']
  · unfold animationGate restorePushToPrim
    split_ifs <;> exact hd.2.1

theorem testBit_setFlag (f g : Flags) (i : ℕ) :
    (setFlag f g).testBit i = (f.testBit i || g.testBit i) := Nat.testBit_or f g i

theorem testBit_clearFlag (f : Flags) (j i : ℕ) (hj : j < 32) :
    (clearFlag f (2 ^ j)).testBit i = (f.testBit i && (decide (i < 32) && !decide (j = i))) := by
  unfold clearFlag allFlagBits
  rw [Nat.testBit_and, Nat.testBit_xor, Nat.testBit_two_pow_sub_one, Nat.testBit_two_pow]
  by_cases h1 : i < 32 <;> by_cases h2 : j = i <;> simp [h1, h2]
  omega

theorem hasFlag_animationMask (f : Flags) :
    hasFlag f kAnimationMask
      = (f.testBit 4 || f.testBit 0 || f.testBit 1 || f.testBit 2 || f.testBit 3) := by
  simp only [kAnimationMask, hasFlag_or_right, kAnimatedShear, kAnimatedScale, kAnimatedRotation,
    kAnimatedTranslation, kAnimatedMatrix, hasFlag_two_pow]

theorem hasFlag_anyKnownSchema (f : Flags) :
    hasFlag f kAnyKnownSchema = (f.testBit 9 || f.testBit 10 || f.testBit 8) := by
  simp only [kAnyKnownSchema, hasFlag_or_right, kFromMayaSchema, kSinglePivotSchema, kFromMatrix,
    hasFlag_two_pow]

/-- The flag word after the scope of the guard has ended and the animation mask was applied,
bit by bit. -/
theorem testBit_animationGate_restore (s5 : TransformationMatrix) (w : Bool) (i : ℕ) :
    (animationGate (restorePushToPrim s5 w)).m_flags.testBit i =
      (if (s5.m_flags.testBit 4 || s5.m_flags.testBit 0 || s5.m_flags.testBit 1 ||
          s5.m_flags.testBit 2 || s5.m_flags.testBit 3) = true then
        (((s5.m_flags.testBit i || (w && decide (28 = i))) &&
          (decide (i < 32) && !decide (28 = i))) || decide (31 = i))
      else (s5.m_flags.testBit i || (w && decide (28 = i)))) := by
  unfold animationGate restorePushToPrim
  cases w
  · simp only [Bool.false_eq_true, if_false, hasFlag_animationMask, Bool.false_and, Bool.or_false]
    split_ifs
    · simp only [kPushToPrimEnabled, kReadAnimatedValues, testBit_setFlag,
        testBit_clearFlag _ 28 _ (by decide), Nat.testBit_two_pow]
    · rfl
  · simp only [if_true, hasFlag_animationMask, Bool.true_and, kPushToPrimEnabled,
      testBit_setFlag, Nat.testBit_two_pow]
    have e : ∀ j, j ≠ 28 → decide (28 = j) = false := fun j hj => by
      simpa using fun h => hj h.symm
    rw [e 4 (by decide), e 0 (by decide), e 1 (by decide), e 2 (by decide), e 3 (by decide)]
    simp only [Bool.or_false]
    split_ifs
    · simp only [kReadAnimatedValues, testBit_setFlag, testBit_clearFlag _ 28 _ (by decide),
        Nat.testBit_two_pow]
    · exact (testBit_setFlag _ _ _).trans (by rw [Nat.testBit_two_pow])

/-- C15 (empty stack is host-canonical): `initialiseToPrim` on a valid prim without operators,
started from flags that hold at most the preserved user-preference bits, returns with
`kFromMayaSchema` set, `kSinglePivotSchema` and `kFromMatrix` clear, no presence flag, no
animated flag and an empty `m_orderedOps`; the two user-preference bits keep their values and
`kInheritsTransform` tells whether the stack resets inheritance. -/
theorem C15_empty_stack_is_host_canonical (H : Host) (D : Decomposer) (bs : MStatus)
    (s : TransformationMatrix) (readFromPrim transformNode : Bool) (hv : s.primValid = true)
    (hempty : s.stage.xformOpOrder = [])
    (hpres : s.m_flags &&& kPreservationMask = s.m_flags) :
    ∃ s', initialiseToPrim H D bs s readFromPrim transformNode = some s' ∧
      hasFlag s'.m_flags kFromMayaSchema = true ∧
      hasFlag s'.m_flags kSinglePivotSchema = false ∧
      hasFlag s'.m_flags kFromMatrix = false ∧
      (∀ k ∈ presenceFlags, hasFlag s'.m_flags k = false) ∧
      (∀ k ∈ animatedFlags, hasFlag s'.m_flags k = false) ∧
      s'.m_orderedOps = [] ∧
      hasFlag s'.m_flags kPushToPrimEnabled = hasFlag s.m_flags kPushToPrimEnabled ∧
      hasFlag s'.m_flags kReadAnimatedValues = hasFlag s.m_flags kReadAnimatedValues ∧
      hasFlag s'.m_flags kInheritsTransform = !s.stage.resetXformStack := by
  obtain ⟨s', h1, h2, h3, h4⟩ := initialiseToPrim_empty H D bs s readFromPrim transformNode hv
    hempty
  have hb := testBit_of_preserved s.m_flags hpres
  have h5 : ∀ i, s.detectSchema.disablePushToPrim.m_flags.testBit i =
      ((s.m_flags.testBit i || (decide (29 = i) && !s.stage.resetXformStack) || decide (9 = i))
        && (decide (i < 32) && !decide (28 = i))) := by
    intro i
    show (clearFlag s.detectSchema.m_flags kPushToPrimEnabled).testBit i = _
    rw [h4]
    cases s.stage.resetXformStack <;>
      simp only [kPushToPrimEnabled, kInheritsTransform, kFromMayaSchema,
        testBit_clearFlag _ 28 _ (by decide), testBit_setFlag, Nat.testBit_two_pow,
        Bool.false_eq_true, if_false, if_true, Bool.not_false, Bool.not_true, Bool.and_true,
        Bool.and_false, Bool.or_false]
  have hw : s.detectSchema.pushToPrimEnabled = s.m_flags.testBit 28 := by
    show hasFlag s.detectSchema.m_flags kPushToPrimEnabled = _
    rw [h4]
    cases s.stage.resetXformStack <;>
      simp only [kPushToPrimEnabled, kInheritsTransform, kFromMayaSchema, hasFlag_two_pow,
        testBit_setFlag, Nat.testBit_two_pow, Bool.false_eq_true, if_false, if_true] <;>
      simp
  have hbit : ∀ i, s'.m_flags.testBit i =
      (s.m_flags.testBit i || (decide (29 = i) && !s.stage.resetXformStack) || decide (9 = i)) := by
    intro i
    rw [h3, testBit_animationGate_restore, h5 4, h5 0, h5 1, h5 2, h5 3, h5 i, hw,
      hb 4 (by decide) (by decide), hb 0 (by decide) (by decide), hb 1 (by decide) (by decide),
      hb 2 (by decide) (by decide), hb 3 (by decide) (by decide)]
    simp only [show decide (29 = 4) = false from rfl, show decide (9 = 4) = false from rfl,
      show decide (29 = 0) = false from rfl, show decide (9 = 0) = false from rfl,
      show decide (29 = 1) = false from rfl, show decide (9 = 1) = false from rfl,
      show decide (29 = 2) = false from rfl, show decide (9 = 2) = false from rfl,
      show decide (29 = 3) = false from rfl, show decide (9 = 3) = false from rfl,
      Bool.false_and, Bool.or_false, Bool.false_eq_true, if_false]
    by_cases h28 : i = 28
    · subst h28
      cases s.m_flags.testBit 28 <;> cases s.stage.resetXformStack <;> rfl
    · by_cases h32 : i < 32
      · have e28 : decide (28 = i) = false := by simpa using fun h => h28 h.symm
        simp only [e28, h32, decide_True, Bool.not_false, Bool.and_true, Bool.and_false,
          Bool.or_false]
      · have e1 : decide (29 = i) = false := by simp; omega
        have e2 : decide (9 = i) = false := by simp; omega
        have e3 : decide (28 = i) = false := by simp; omega
        have e4 : decide (i < 32) = false := by simp; omega
        rw [hb i (by omega) (by omega), e1, e2, e3, e4]
        simp
  have hflag : ∀ i, hasFlag s'.m_flags (2 ^ i) =
      (s.m_flags.testBit i || (decide (29 = i) && !s.stage.resetXformStack) || decide (9 = i)) :=
    fun i => (hasFlag_two_pow _ i).trans (hbit i)
  refine ⟨s', h1, ?_, ?_, ?_, ?_, ?_, h2, ?_, ?_, ?_⟩
  · rw [kFromMayaSchema, hflag]; simp
  · rw [kSinglePivotSchema, hflag, hb 10 (by decide) (by decide)]; rfl
  · rw [kFromMatrix, hflag, hb 8 (by decide) (by decide)]; rfl
  · intro k hk
    simp only [presenceFlags, List.mem_cons, List.mem_singleton, List.not_mem_nil, or_false] at hk
    rcases hk with h | h | h | h | h | h | h | h | h | h | h <;> subst h
    · rw [kPrimHasScale, hflag, hb 16 (by decide) (by decide)]; rfl
    · rw [kPrimHasRotation, hflag, hb 17 (by decide) (by decide)]; rfl
    · rw [kPrimHasTranslation, hflag, hb 18 (by decide) (by decide)]; rfl
    · rw [kPrimHasShear, hflag, hb 19 (by decide) (by decide)]; rfl
    · rw [kPrimHasScalePivot, hflag, hb 20 (by decide) (by decide)]; rfl
    · rw [kPrimHasScalePivotTranslate, hflag, hb 21 (by decide) (by decide)]; rfl
    · rw [kPrimHasRotatePivot, hflag, hb 22 (by decide) (by decide)]; rfl
    · rw [kPrimHasRotatePivotTranslate, hflag, hb 23 (by decide) (by decide)]; rfl
    · rw [kPrimHasRotateAxes, hflag, hb 24 (by decide) (by decide)]; rfl
    · rw [kPrimHasPivot, hflag, hb 25 (by decide) (by decide)]; rfl
    · rw [kPrimHasTransform, hflag, hb 26 (by decide) (by decide)]; rfl
  · intro k hk
    simp only [animatedFlags, List.mem_cons, List.mem_singleton, List.not_mem_nil, or_false] at hk
    rcases hk with h | h | h | h | h <;> subst h
    · rw [kAnimatedScale, hflag, hb 0 (by decide) (by decide)]; rfl
    · rw [kAnimatedRotation, hflag, hb 1 (by decide) (by decide)]; rfl
    · rw [kAnimatedTranslation, hflag, hb 2 (by decide) (by decide)]; rfl
    · rw [kAnimatedMatrix, hflag, hb 3 (by decide) (by decide)]; rfl
    · rw [kAnimatedShear, hflag, hb 4 (by decide) (by decide)]; rfl
  · rw [kPushToPrimEnabled, hflag, hasFlag_two_pow]
    simp
  · rw [kReadAnimatedValues, hflag, hasFlag_two_pow]
    simp
  · rw [kInheritsTransform, hflag, hb 29 (by decide) (by decide)]
    simp

theorem C15_empty_stack_is_host_canonical_witness :
    unboundEmptyEngine.primValid = true ∧ unboundEmptyEngine.stage.xformOpOrder = [] ∧
    unboundEmptyEngine.m_flags &&& kPreservationMask = unboundEmptyEngine.m_flags ∧
    ∃ s', initialiseToPrim Host.sample Decomposer.sample .kSuccess unboundEmptyEngine true true
        = some s' ∧
      hasFlag s'.m_flags kFromMayaSchema = true ∧
      hasFlag s'.m_flags kSinglePivotSchema = false ∧
      hasFlag s'.m_flags kFromMatrix = false ∧
      (∀ k ∈ presenceFlags, hasFlag s'.m_flags k = false) ∧
      (∀ k ∈ animatedFlags, hasFlag s'.m_flags k = false) ∧
      s'.m_orderedOps = [] ∧
      hasFlag s'.m_flags kPushToPrimEnabled = hasFlag unboundEmptyEngine.m_flags kPushToPrimEnabled ∧
      hasFlag s'.m_flags kReadAnimatedValues
        = hasFlag unboundEmptyEngine.m_flags kReadAnimatedValues ∧
      hasFlag s'.m_flags kInheritsTransform = !unboundEmptyEngine.stage.resetXformStack :=
  ⟨by decide, by decide, by decide,
    C15_empty_stack_is_host_canonical Host.sample Decomposer.sample .kSuccess unboundEmptyEngine
      true true (by decide) (by decide) (by decide)⟩

theorem foldl_matchStep_none (stack : UsdMayaXformStack) (ops : List UsdGeomXformOp) :
    ops.foldl stack.matchStep none = none := by
  induction ops with
  | nil => rfl
  | cons op ops ih => exact ih

theorem foldl_matchStep_some (stack : UsdMayaXformStack) (ops : List UsdGeomXformOp) :
    ∀ (n : ℕ) (found : List ℕ) (ret : List UsdMayaXformOpClassification) (n' : ℕ)
      (found' : List ℕ) (ret' : List UsdMayaXformOpClassification),
      ops.foldl stack.matchStep (some (n, found, ret)) = some (n', found', ret') →
      ∃ extra, ret' = ret ++ extra ∧ extra.length = ops.length ∧ ∀ c ∈ extra, c ∈ stack.ops := by
  induction ops with
  | nil =>
    intro n found ret n' found' ret' h
    simp only [List.foldl_nil, Option.some.injEq, Prod.mk.injEq] at h
    exact ⟨[], by rw [← h.2.2, List.append_nil], rfl, fun c hc => absurd hc (List.not_mem_nil c)⟩
  | cons op ops ih =>
    intro n found ret n' found' ret' h
    rw [List.foldl_cons] at h
    cases hstep : stack.matchStep (some (n, found, ret)) op with
    | none =>
      rw [hstep, foldl_matchStep_none] at h
      exact absurd h (by simp)
    | some acc =>
      obtain ⟨n1, found1, ret1⟩ := acc
      rw [hstep] at h
      obtain ⟨extra, he, hl, hm⟩ := ih n1 found1 ret1 n' found' ret' h
      have hret : ∃ c, c ∈ stack.ops ∧ ret1 = ret ++ [c] := by
        simp only [UsdMayaXformStack.matchStep] at hstep
        cases hc : stack.ops[stack.FindOpIndex op.name op.isInverseOp]? with
        | none => simp [hc] at hstep
        | some c =>
          simp only [hc] at hstep
          split_ifs at hstep
          simp only [Option.some.injEq, Prod.mk.injEq] at hstep
          exact ⟨c, List.getElem?_mem hc, hstep.2.2.symm⟩
      obtain ⟨c, hc, hr⟩ := hret
      refine ⟨c :: extra, ?_, by simp [hl], ?_⟩
      · rw [he, hr, List.append_assoc]
        rfl
      · intro d hd
        rcases List.mem_cons.mp hd with h | h
        · rw [h]; exact hc
        · exact hm d h

/-- A non-empty result of `MatchingSubstack` classifies every operator of the list with an
entry of the template. -/
theorem MatchingSubstack_spec (stack : UsdMayaXformStack) (ops : List UsdGeomXformOp) :
    stack.MatchingSubstack ops = [] ∨
    ((stack.MatchingSubstack ops).length = ops.length ∧
      ∀ c ∈ stack.MatchingSubstack ops, c ∈ stack.ops) := by
  unfold UsdMayaXformStack.MatchingSubstack
  cases h : ops.foldl stack.matchStep (some (0, [], [])) with
  | none => exact Or.inl rfl
  | some acc =>
    obtain ⟨n, found, ret⟩ := acc
    obtain ⟨extra, he, hl, hm⟩ := foldl_matchStep_some stack ops 0 [] [] n found ret h
    simp only [List.nil_append] at he
    simp only
    split_ifs
    · rw [he]; exact Or.inr ⟨hl, hm⟩
    · exact Or.inl rfl

theorem foldl_matchStep_fail (stack : UsdMayaXformStack) (ops : List UsdGeomXformOp)
    (h : ∃ op ∈ ops, stack.ops[stack.FindOpIndex op.name op.isInverseOp]? = none) :
    ∀ acc, ops.foldl stack.matchStep acc = none := by
  induction ops with
  | nil =>
    obtain ⟨op, hop, _⟩ := h
    exact absurd hop (List.not_mem_nil op)
  | cons a ops ih =>
    intro acc
    rw [List.foldl_cons]
    obtain ⟨op, hop, hnone⟩ := h
    rcases List.mem_cons.mp hop with e | e
    · have : stack.matchStep acc a = none := by
        cases acc with
        | none => rfl
        | some x =>
          obtain ⟨n, found, ret⟩ := x
          simp only [UsdMayaXformStack.matchStep, ← e, hnone]
      rw [this, foldl_matchStep_none]
    · exact ih ⟨op, e, hnone⟩ _

/-- The host-canonical template has no combined pivot: a list that holds one does not match
it. -/
theorem MayaStack_no_pivot (ops : List UsdGeomXformOp) (h : ∃ op ∈ ops, op.name = .pivot) :
    MayaStack.MatchingSubstack ops = [] := by
  obtain ⟨op, hop, hn⟩ := h
  have hnone : MayaStack.ops[MayaStack.FindOpIndex op.name op.isInverseOp]? = none := by
    rw [hn]
    cases op.isInverseOp <;> decide
  unfold UsdMayaXformStack.MatchingSubstack
  rw [foldl_matchStep_fail MayaStack ops ⟨op, hop, hnone⟩]

theorem SameStructure_animationGate_restore (s5 : TransformationMatrix) (w : Bool) :
    SameStructure (animationGate (restorePushToPrim s5 w)) s5 := by
  unfold animationGate restorePushToPrim
  split_ifs <;> exact SameStructure.refl _

theorem testBit_of_and_two_pow (x i : ℕ) (h : x &&& 2 ^ i = 0) : x.testBit i = false := by
  rw [← hasFlag_two_pow]
  simp [hasFlag, h]

theorem hasFlag_disablePushToPrim_schema (s : TransformationMatrix) :
    hasFlag s.disablePushToPrim.m_flags kAnyKnownSchema = hasFlag s.m_flags kAnyKnownSchema :=
  hasFlag_clearFlag_other s.m_flags kPushToPrimEnabled kAnyKnownSchema (by decide) (by decide)

/-- With a known schema, `initialiseToPrim` returns: the loop adds `passBits` to the flags
while write-back is disabled, then the guard and the animation mask close the pass. -/
theorem initialiseToPrim_known (H : Host) (D : Decomposer) (bs : MStatus)
    (s : TransformationMatrix) (rf tn : Bool) (hv : s.primValid = true)
    (hk : hasFlag s.detectSchema.m_flags kAnyKnownSchema = true)
    (hlen : s.detectSchema.m_xformops.length ≤ s.detectSchema.m_orderedOps.length) :
    ∃ s' s5, initialiseToPrim H D bs s rf tn = some s' ∧
      s' = animationGate (restorePushToPrim s5 s.detectSchema.pushToPrimEnabled) ∧
      s5.m_flags = setFlag (clearFlag s.detectSchema.m_flags kPushToPrimEnabled)
        (passBits s.detectSchema.stage
          (s.detectSchema.m_orderedOps.zip s.detectSchema.m_xformops)) ∧
      SameStructure s5 s.detectSchema := by
  obtain ⟨s5, h1, h2, h3⟩ := lockstep_initialiseOp H D bs rf tn s.detectSchema.disablePushToPrim
    (hasFlag_clearFlag_self _ _ (by decide)) hlen
  refine ⟨_, s5, ?_, rfl, h2, h3⟩
  unfold initialiseToPrim
  simp only [hv, Bool.not_true, Bool.false_eq_true, if_false, hasFlag_disablePushToPrim_schema, hk,
    if_true, h1, Option.map_some']

theorem initialiseToPrim_unknown (H : Host) (D : Decomposer) (bs : MStatus)
    (s : TransformationMatrix) (rf tn : Bool) (hv : s.primValid = true)
    (hk : hasFlag s.detectSchema.m_flags kAnyKnownSchema = false) :
    initialiseToPrim H D bs s rf tn = some (animationGate (restorePushToPrim
      (s.detectSchema.disablePushToPrim.setFromPrimMatrix D) s.detectSchema.pushToPrimEnabled)) := by
  unfold initialiseToPrim
  simp only [hv, Bool.not_true, Bool.false_eq_true, if_false, hasFlag_disablePushToPrim_schema, hk,
    Option.map_some']

/-- The closing of the pass leaves every flag but the two user preferences as the loop left
it. -/
theorem testBit_close_other (s5 : TransformationMatrix) (w : Bool) (i : ℕ) (h32 : i < 32)
    (h28 : i ≠ 28) (h31 : i ≠ 31) :
    (animationGate (restorePushToPrim s5 w)).m_flags.testBit i = s5.m_flags.testBit i := by
  rw [testBit_animationGate_restore]
  have e1 : decide (28 = i) = false := by simpa using fun h => h28 h.symm
  have e2 : decide (31 = i) = false := by simpa using fun h => h31 h.symm
  have e3 : decide (i < 32) = true := by simpa using h32
  rw [e1, e2, e3]
  split_ifs <;> simp

theorem setFromPrimMatrix_frame (D : Decomposer) (s : TransformationMatrix) :
    SameStructure (s.setFromPrimMatrix D) s ∧
    ∀ i, i ≠ 29 → i < 32 → (s.setFromPrimMatrix D).m_flags.testBit i = s.m_flags.testBit i := by
  unfold setFromPrimMatrix
  by_cases hv : (!s.primValid) = true
  · rw [if_pos hv]
    exact ⟨SameStructure.refl _, fun _ _ _ => rfl⟩
  · rw [if_neg hv]
    cases D.GetLocalTransformation s.stage s.getTimeCode with
    | none => exact ⟨SameStructure.refl _, fun _ _ _ => rfl⟩
    | some m =>
      simp only
      by_cases hr : s.stage.resetXformStack = true
      · rw [if_pos hr]
        refine ⟨SameStructure.refl _, fun i hi h32 => ?_⟩
        show (clearFlag s.m_flags kInheritsTransform).testBit i = _
        have e : decide (29 = i) = false := by simpa using fun h => hi h.symm
        rw [kInheritsTransform, testBit_clearFlag _ 29 _ (by decide), e]
        simp [h32]
      · rw [if_neg hr]
        refine ⟨SameStructure.refl _, fun i hi _ => ?_⟩
        show (setFlag s.m_flags kInheritsTransform).testBit i = _
        have e : decide (29 = i) = false := by simpa using fun h => hi h.symm
        rw [kInheritsTransform, testBit_setFlag, Nat.testBit_two_pow, e, Bool.or_false]

theorem initBits_fromMatrix (stage : UsdStage) (c : UsdMayaXformOpClassification)
    (op : UsdGeomXformOp) (h : c.name ≠ .transform) : initBits stage c op &&& kFromMatrix = 0 := by
  unfold initBits
  cases hn : c.name <;> first | exact absurd hn h | (simp only []; split_ifs <;> decide)

theorem passBits_fromMatrix (stage : UsdStage) (l1 : List UsdMayaXformOpClassification)
    (l2 : List UsdGeomXformOp) (h : ∀ c ∈ l1, c.name ≠ .transform) :
    (passBits stage (l1.zip l2)).testBit 8 = false :=
  testBit_of_and_two_pow _ 8
    (passBits_and stage kFromMatrix _
      (fun p hp => initBits_fromMatrix stage p.1 p.2 (h p.1 (List.of_mem_zip hp).1)))

theorem passBits_testBit_stable (stage : UsdStage)
    (l : List (UsdMayaXformOpClassification × UsdGeomXformOp)) :
    (passBits stage l).testBit 9 = false ∧ (passBits stage l).testBit 10 = false ∧
    (passBits stage l).testBit 28 = false ∧ (passBits stage l).testBit 31 = false ∧
    (passBits stage l).testBit 29 = false :=
  ⟨testBit_of_and_two_pow _ 9 (passBits_stable stage kFromMayaSchema (by decide) l),
    testBit_of_and_two_pow _ 10 (passBits_stable stage kSinglePivotSchema (by decide) l),
    testBit_of_and_two_pow _ 28 (passBits_stable stage kPushToPrimEnabled (by decide) l),
    testBit_of_and_two_pow _ 31 (passBits_stable stage kReadAnimatedValues (by decide) l),
    testBit_of_and_two_pow _ 29 (passBits_stable stage kInheritsTransform (by decide) l)⟩

/-- The outcome of `initialiseToPrim` once one of the three stacks has matched: `j` is the bit
of its schema flag. -/
theorem initialiseToPrim_matched (H : Host) (D : Decomposer) (bs : MStatus)
    (s : TransformationMatrix) (rf tn : Bool) (hv : s.primValid = true)
    (hpres : s.m_flags &&& kPreservationMask = s.m_flags) (j : ℕ)
    (hj : j = 8 ∨ j = 9 ∨ j = 10) (r : List UsdMayaXformOpClassification)
    (hr : s.detectSchema.m_orderedOps = r)
    (hf : s.detectSchema.m_flags = setFlag (if s.stage.resetXformStack = true then s.m_flags
        else setFlag s.m_flags kInheritsTransform) (2 ^ j))
    (hx : s.detectSchema.m_xformops.length ≤ r.length)
    (hnt : j ≠ 8 → ∀ c ∈ r, c.name ≠ .transform) :
    ∃ s', initialiseToPrim H D bs s rf tn = some s' ∧ s'.m_orderedOps = r ∧
      hasFlag s'.m_flags kFromMatrix = decide (j = 8) ∧
      hasFlag s'.m_flags kFromMayaSchema = decide (j = 9) ∧
      hasFlag s'.m_flags kSinglePivotSchema = decide (j = 10) := by
  have hb := testBit_of_preserved s.m_flags hpres
  have hf3 : ∀ i, i ≠ 29 → i ≠ 28 → i ≠ 31 →
      s.detectSchema.m_flags.testBit i = decide (j = i) := by
    intro i h29 h28 h31
    have e : decide (29 = i) = false := by simpa using fun h => h29 h.symm
    rw [hf]
    cases s.stage.resetXformStack <;>
      simp only [Bool.false_eq_true, if_false, if_true, kInheritsTransform, testBit_setFlag,
        Nat.testBit_two_pow, hb i h28 h31, e, Bool.false_or]
  have hk : hasFlag s.detectSchema.m_flags kAnyKnownSchema = true := by
    rw [hasFlag_anyKnownSchema, hf3 9 (by decide) (by decide) (by decide),
      hf3 10 (by decide) (by decide) (by decide), hf3 8 (by decide) (by decide) (by decide)]
    rcases hj with h | h | h <;> subst h <;> rfl
  obtain ⟨s', s5, h1, h2, h3, h4⟩ := initialiseToPrim_known H D bs s rf tn hv hk
    (by rw [hr]; exact hx)
  obtain ⟨p9, p10, _, _, _⟩ := passBits_testBit_stable s.detectSchema.stage
    (s.detectSchema.m_orderedOps.zip s.detectSchema.m_xformops)
  have hs5 : ∀ i, i < 32 → i ≠ 28 → s5.m_flags.testBit i =
      (s.detectSchema.m_flags.testBit i || (passBits s.detectSchema.stage
        (s.detectSchema.m_orderedOps.zip s.detectSchema.m_xformops)).testBit i) := by
    intro i h32 h28
    have e : decide (28 = i) = false := by simpa using fun h => h28 h.symm
    rw [h3, testBit_setFlag, kPushToPrimEnabled, testBit_clearFlag _ 28 _ (by decide), e]
    simp [h32]
  have hfin : ∀ i, i < 32 → i ≠ 28 → i ≠ 31 → hasFlag s'.m_flags (2 ^ i) =
      (s.detectSchema.m_flags.testBit i || (passBits s.detectSchema.stage
        (s.detectSchema.m_orderedOps.zip s.detectSchema.m_xformops)).testBit i) := by
    intro i h32 h28 h31
    rw [hasFlag_two_pow, h2, testBit_close_other _ _ i h32 h28 h31, hs5 i h32 h28]
  refine ⟨s', h1, ?_, ?_, ?_, ?_⟩
  · rw [h2, (SameStructure_animationGate_restore _ _).2.1, h4.2.1, hr]
  · rw [kFromMatrix, hfin 8 (by decide) (by decide) (by decide),
      hf3 8 (by decide) (by decide) (by decide)]
    by_cases h8 : j = 8
    · simp [h8]
    · rw [passBits_fromMatrix _ _ _ (by rw [hr]; exact hnt h8)]
      simp
  · rw [kFromMayaSchema, hfin 9 (by decide) (by decide) (by decide),
      hf3 9 (by decide) (by decide) (by decide), p9, Bool.or_false]
  · rw [kSinglePivotSchema, hfin 10 (by decide) (by decide) (by decide),
      hf3 10 (by decide) (by decide) (by decide), p10, Bool.or_false]

theorem detectSchema_nonempty (s : TransformationMatrix) (hne : s.stage.xformOpOrder ≠ []) :
    s.detectSchema.m_xformops = s.stage.xformOpOrder ∧
    (MayaStack.MatchingSubstack s.stage.xformOpOrder ≠ [] →
      s.detectSchema.m_orderedOps = MayaStack.MatchingSubstack s.stage.xformOpOrder ∧
      s.detectSchema.m_flags = setFlag (if s.stage.resetXformStack = true then s.m_flags
        else setFlag s.m_flags kInheritsTransform) (2 ^ 9)) ∧
    (MayaStack.MatchingSubstack s.stage.xformOpOrder = [] →
      MayaSinglePivotStack.MatchingSubstack s.stage.xformOpOrder ≠ [] →
      s.detectSchema.m_orderedOps = MayaSinglePivotStack.MatchingSubstack s.stage.xformOpOrder ∧
      s.detectSchema.m_flags = setFlag (if s.stage.resetXformStack = true then s.m_flags
        else setFlag s.m_flags kInheritsTransform) (2 ^ 10)) ∧
    (MayaStack.MatchingSubstack s.stage.xformOpOrder = [] →
      MayaSinglePivotStack.MatchingSubstack s.stage.xformOpOrder = [] →
      MatrixStack.MatchingSubstack s.stage.xformOpOrder ≠ [] →
      s.detectSchema.m_orderedOps = MatrixStack.MatchingSubstack s.stage.xformOpOrder ∧
      s.detectSchema.m_flags = setFlag (if s.stage.resetXformStack = true then s.m_flags
        else setFlag s.m_flags kInheritsTransform) (2 ^ 8)) ∧
    (MayaStack.MatchingSubstack s.stage.xformOpOrder = [] →
      MayaSinglePivotStack.MatchingSubstack s.stage.xformOpOrder = [] →
      MatrixStack.MatchingSubstack s.stage.xformOpOrder = [] →
      s.detectSchema.m_orderedOps = [] ∧
      s.detectSchema.m_flags = (if s.stage.resetXformStack = true then s.m_flags
        else setFlag s.m_flags kInheritsTransform)) := by
  have he : s.stage.xformOpOrder.isEmpty = false := by
    cases h : s.stage.xformOpOrder with
    | nil => exact absurd h hne
    | cons a l => rfl
  unfold detectSchema
  simp only [he, Bool.false_eq_true, if_false]
  cases hreset : s.stage.resetXformStack <;>
    simp only [Bool.not_false, Bool.not_true, Bool.false_eq_true, if_true, if_false, matchStacks,
      orFlag, kFromMayaSchema, kSinglePivotSchema, kFromMatrix, he]
  all_goals
    refine ⟨?_, ?_, ?_, ?_, ?_⟩
    · split_ifs <;> rfl
    · intro h1
      have e1 : (MayaStack.MatchingSubstack s.stage.xformOpOrder).isEmpty = false := by
        simpa [List.isEmpty_iff] using h1
      simp only [e1, Bool.not_false, if_true, and_self]
    · intro h1 h2
      have e2 : (MayaSinglePivotStack.MatchingSubstack s.stage.xformOpOrder).isEmpty = false := by
        simpa [List.isEmpty_iff] using h2
      simp only [h1, List.isEmpty_nil, Bool.not_true, Bool.false_eq_true, if_false, e2,
        Bool.not_false, if_true, and_self]
    · intro h1 h2 h3
      have e3 : (MatrixStack.MatchingSubstack s.stage.xformOpOrder).isEmpty = false := by
        simpa [List.isEmpty_iff] using h3
      simp only [h1, h2, List.isEmpty_nil, Bool.not_true, Bool.false_eq_true, if_false, e3,
        Bool.not_false, if_true, and_self]
    · intro h1 h2 h3
      simp only [h1, h2, h3, List.isEmpty_nil, Bool.not_true, Bool.false_eq_true, if_false,
        and_self]

/-- C16 (schema priority, first match wins): `initialiseToPrim` on a valid prim with a non-empty
operator list, started from flags that hold at most the preserved user-preference bits, returns;
the first of the host-canonical, single-pivot and matrix stacks whose `MatchingSubstack` is not
empty gives `m_orderedOps` and is the only schema flag set, and when none matches no schema flag
is set and `m_orderedOps` is empty. In particular a list that holds the combined pivot and
matches the single-pivot template gets `kSinglePivotSchema` and neither `kFromMayaSchema` nor
`kFromMatrix`. -/
theorem C16_schema_priority (H : Host) (D : Decomposer) (bs : MStatus)
    (s : TransformationMatrix) (readFromPrim transformNode : Bool) (hv : s.primValid = true)
    (hne : s.stage.xformOpOrder ≠ [])
    (hpres : s.m_flags &&& kPreservationMask = s.m_flags) :
    ∃ s', initialiseToPrim H D bs s readFromPrim transformNode = some s' ∧
      (MayaStack.MatchingSubstack s.stage.xformOpOrder ≠ [] →
        s'.m_orderedOps = MayaStack.MatchingSubstack s.stage.xformOpOrder ∧
        hasFlag s'.m_flags kFromMayaSchema = true ∧
        hasFlag s'.m_flags kSinglePivotSchema = false ∧
        hasFlag s'.m_flags kFromMatrix = false) ∧
      (MayaStack.MatchingSubstack s.stage.xformOpOrder = [] →
        MayaSinglePivotStack.MatchingSubstack s.stage.xformOpOrder ≠ [] →
        s'.m_orderedOps = MayaSinglePivotStack.MatchingSubstack s.stage.xformOpOrder ∧
        hasFlag s'.m_flags kFromMayaSchema = false ∧
        hasFlag s'.m_flags kSinglePivotSchema = true ∧
        hasFlag s'.m_flags kFromMatrix = false) ∧
      (MayaStack.MatchingSubstack s.stage.xformOpOrder = [] →
        MayaSinglePivotStack.MatchingSubstack s.stage.xformOpOrder = [] →
        MatrixStack.MatchingSubstack s.stage.xformOpOrder ≠ [] →
        s'.m_orderedOps = MatrixStack.MatchingSubstack s.stage.xformOpOrder ∧
        hasFlag s'.m_flags kFromMayaSchema = false ∧
        hasFlag s'.m_flags kSinglePivotSchema = false ∧
        hasFlag s'.m_flags kFromMatrix = true) ∧
      (MayaStack.MatchingSubstack s.stage.xformOpOrder = [] →
        MayaSinglePivotStack.MatchingSubstack s.stage.xformOpOrder = [] →
        MatrixStack.MatchingSubstack s.stage.xformOpOrder = [] →
        s'.m_orderedOps = [] ∧
        hasFlag s'.m_flags kFromMayaSchema = false ∧
        hasFlag s'.m_flags kSinglePivotSchema = false ∧
        hasFlag s'.m_flags kFromMatrix = false) ∧
      ((∃ op ∈ s.stage.xformOpOrder, op.name = .pivot) →
        MayaSinglePivotStack.MatchingSubstack s.stage.xformOpOrder ≠ [] →
        s'.m_orderedOps = MayaSinglePivotStack.MatchingSubstack s.stage.xformOpOrder ∧
        hasFlag s'.m_flags kFromMayaSchema = false ∧
        hasFlag s'.m_flags kSinglePivotSchema = true ∧
        hasFlag s'.m_flags kFromMatrix = false) := by
  obtain ⟨dx, d1, d2, d3, d4⟩ := detectSchema_nonempty s hne
  have hb := testBit_of_preserved s.m_flags hpres
  have matched : ∀ (stack : UsdMayaXformStack) (j : ℕ), (j = 8 ∨ j = 9 ∨ j = 10) →
      stack.MatchingSubstack s.stage.xformOpOrder ≠ [] →
      s.detectSchema.m_orderedOps = stack.MatchingSubstack s.stage.xformOpOrder →
      s.detectSchema.m_flags = setFlag (if s.stage.resetXformStack = true then s.m_flags
        else setFlag s.m_flags kInheritsTransform) (2 ^ j) →
      (j ≠ 8 → ∀ c ∈ stack.ops, c.name ≠ .transform) →
      ∃ s', initialiseToPrim H D bs s readFromPrim transformNode = some s' ∧
        s'.m_orderedOps = stack.MatchingSubstack s.stage.xformOpOrder ∧
        hasFlag s'.m_flags kFromMatrix = decide (j = 8) ∧
        hasFlag s'.m_flags kFromMayaSchema = decide (j = 9) ∧
        hasFlag s'.m_flags kSinglePivotSchema = decide (j = 10) := by
    intro stack j hj hr ho hf hnt
    rcases MatchingSubstack_spec stack s.stage.xformOpOrder with e | ⟨el, em⟩
    · exact absurd e hr
    · exact initialiseToPrim_matched H D bs s readFromPrim transformNode hv hpres j hj _ ho hf
        (by rw [dx, el]) (fun h8 c hc => hnt h8 c (em c hc))
  by_cases h1 : MayaStack.MatchingSubstack s.stage.xformOpOrder = []
  · by_cases h2 : MayaSinglePivotStack.MatchingSubstack s.stage.xformOpOrder = []
    · by_cases h3 : MatrixStack.MatchingSubstack s.stage.xformOpOrder = []
      · -- no stack matches: whole-matrix fallback
        obtain ⟨e1, e2⟩ := d4 h1 h2 h3
        have hf3 : ∀ i, i ≠ 29 → i ≠ 28 → i ≠ 31 → s.detectSchema.m_flags.testBit i = false := by
          intro i h29 h28 h31
          have e : decide (29 = i) = false := by simpa using fun h => h29 h.symm
          rw [e2]
          cases s.stage.resetXformStack <;>
            simp only [Bool.false_eq_true, if_false, if_true, kInheritsTransform, testBit_setFlag,
              Nat.testBit_two_pow, hb i h28 h31, e, Bool.false_or]
        have hk : hasFlag s.detectSchema.m_flags kAnyKnownSchema = false := by
          rw [hasFlag_anyKnownSchema, hf3 9 (by decide) (by decide) (by decide),
            hf3 10 (by decide) (by decide) (by decide), hf3 8 (by decide) (by decide) (by decide)]
          rfl
        have hinit := initialiseToPrim_unknown H D bs s readFromPrim transformNode hv hk
        obtain ⟨f1, f2⟩ := setFromPrimMatrix_frame D s.detectSchema.disablePushToPrim
        have hfin : ∀ i, i < 32 → i ≠ 29 → i ≠ 28 → i ≠ 31 →
            hasFlag (animationGate (restorePushToPrim
              (s.detectSchema.disablePushToPrim.setFromPrimMatrix D)
              s.detectSchema.pushToPrimEnabled)).m_flags (2 ^ i) = false := by
          intro i h32 h29 h28 h31
          have e : decide (28 = i) = false := by simpa using fun h => h28 h.symm
          rw [hasFlag_two_pow, testBit_close_other _ _ i h32 h28 h31, f2 i h29 h32]
          show (clearFlag s.detectSchema.m_flags kPushToPrimEnabled).testBit i = false
          rw [kPushToPrimEnabled, testBit_clearFlag _ 28 _ (by decide), hf3 i h29 h28 h31]
          rfl
        refine ⟨_, hinit, fun h => absurd h1 h, fun _ h => absurd h2 h,
          fun _ _ h => absurd h3 h, fun _ _ _ => ⟨?_, ?_, ?_, ?_⟩, fun _ h => absurd h2 h⟩
        · rw [(SameStructure_animationGate_restore _ _).2.1, f1.2.1]
          exact e1
        · exact hfin 9 (by decide) (by decide) (by decide) (by decide)
        · exact hfin 10 (by decide) (by decide) (by decide) (by decide)
        · exact hfin 8 (by decide) (by decide) (by decide) (by decide)
      · obtain ⟨e1, e2⟩ := d3 h1 h2 h3
        obtain ⟨s', g1, g2, g3, g4, g5⟩ := matched MatrixStack 8 (Or.inl rfl) h3 e1 e2
          (fun h => absurd rfl h)
        exact ⟨s', g1, fun h => absurd h1 h, fun _ h => absurd h2 h,
          fun _ _ _ => ⟨g2, g4, g5, g3⟩, fun _ _ h => absurd h h3, fun _ h => absurd h2 h⟩
    · obtain ⟨e1, e2⟩ := d2 h1 h2
      obtain ⟨s', g1, g2, g3, g4, g5⟩ := matched MayaSinglePivotStack 10 (Or.inr (Or.inr rfl)) h2
        e1 e2 (fun _ => by decide)
      exact ⟨s', g1, fun h => absurd h1 h, fun _ _ => ⟨g2, g4, g5, g3⟩,
        fun _ h => absurd h h2, fun _ h => absurd h h2, fun _ _ => ⟨g2, g4, g5, g3⟩⟩
  · obtain ⟨e1, e2⟩ := d1 h1
    obtain ⟨s', g1, g2, g3, g4, g5⟩ := matched MayaStack 9 (Or.inr (Or.inl rfl)) h1 e1 e2
      (fun _ => by decide)
    exact ⟨s', g1, fun _ => ⟨g2, g4, g5, g3⟩, fun h => absurd h h1, fun h => absurd h h1,
      fun h => absurd h h1, fun hp _ => absurd (MayaStack_no_pivot _ hp) h1⟩

theorem C16_schema_priority_witness :
    singlePivotTemplateEngine.primValid = true ∧
    singlePivotTemplateEngine.stage.xformOpOrder ≠ [] ∧
    (∃ op ∈ singlePivotTemplateEngine.stage.xformOpOrder, op.name = .pivot) ∧
    MayaSinglePivotStack.MatchingSubstack singlePivotTemplateEngine.stage.xformOpOrder
      = MayaSinglePivotStack.ops ∧
    ∃ s', initialiseToPrim Host.sample Decomposer.sample .kSuccess singlePivotTemplateEngine
        true true = some s' ∧
      s'.m_orderedOps = MayaSinglePivotStack.ops ∧
      hasFlag s'.m_flags kFromMayaSchema = false ∧
      hasFlag s'.m_flags kSinglePivotSchema = true ∧
      hasFlag s'.m_flags kFromMatrix = false := by
  have hm : MayaSinglePivotStack.MatchingSubstack singlePivotTemplateEngine.stage.xformOpOrder
      = MayaSinglePivotStack.ops := by decide
  have hp : ∃ op ∈ singlePivotTemplateEngine.stage.xformOpOrder, op.name = .pivot :=
    ⟨⟨.TypeTranslate, .pivot, false⟩, by decide, rfl⟩
  obtain ⟨s', h1, _, _, _, _, h6⟩ := C16_schema_priority Host.sample Decomposer.sample .kSuccess
    singlePivotTemplateEngine true true (by decide) (by decide) (by decide)
  obtain ⟨g1, g2, g3, g4⟩ := h6 hp (by rw [hm]; decide)
  exact ⟨by decide, by decide, hp, hm, s', h1, g1.trans hm, g2, g3, g4⟩

theorem close_prefs (s5 : TransformationMatrix) (w : Bool) :
    hasFlag (animationGate (restorePushToPrim s5 w)).m_flags kAnimationMask
      = hasFlag s5.m_flags kAnimationMask ∧
    (hasFlag s5.m_flags kAnimationMask = true →
      (animationGate (restorePushToPrim s5 w)).m_flags.testBit 28 = false ∧
      (animationGate (restorePushToPrim s5 w)).m_flags.testBit 31 = true) ∧
    (hasFlag s5.m_flags kAnimationMask = false →
      (animationGate (restorePushToPrim s5 w)).m_flags.testBit 28 = (s5.m_flags.testBit 28 || w) ∧
      (animationGate (restorePushToPrim s5 w)).m_flags.testBit 31 = s5.m_flags.testBit 31) := by
  refine ⟨?_, ?_, ?_⟩
  · rw [hasFlag_animationMask, hasFlag_animationMask,
      testBit_close_other _ _ 4 (by decide) (by decide) (by decide),
      testBit_close_other _ _ 0 (by decide) (by decide) (by decide),
      testBit_close_other _ _ 1 (by decide) (by decide) (by decide),
      testBit_close_other _ _ 2 (by decide) (by decide) (by decide),
      testBit_close_other _ _ 3 (by decide) (by decide) (by decide)]
  · intro h
    rw [hasFlag_animationMask] at h
    rw [testBit_animationGate_restore, testBit_animationGate_restore, if_pos h, if_pos h]
    simp
  · intro h
    rw [hasFlag_animationMask] at h
    have h' : ¬ (s5.m_flags.testBit 4 || s5.m_flags.testBit 0 || s5.m_flags.testBit 1 ||
        s5.m_flags.testBit 2 || s5.m_flags.testBit 3) = true := by rw [h]; simp
    rw [testBit_animationGate_restore, testBit_animationGate_restore, if_neg h', if_neg h']
    simp

theorem detectSchema_prefs (s : TransformationMatrix) (i : ℕ) (h29 : i ≠ 29) (h9 : i ≠ 9)
    (h10 : i ≠ 10) (h8 : i ≠ 8) :
    s.detectSchema.m_flags.testBit i = s.m_flags.testBit i := by
  have e29 : decide (29 = i) = false := by simpa using fun h => h29 h.symm
  have e9 : decide (9 = i) = false := by simpa using fun h => h9 h.symm
  have e10 : decide (10 = i) = false := by simpa using fun h => h10 h.symm
  have e8 : decide (8 = i) = false := by simpa using fun h => h8 h.symm
  unfold detectSchema matchStacks orFlag
  simp only
  split_ifs <;>
    simp only [kInheritsTransform, kFromMayaSchema, kSinglePivotSchema, kFromMatrix,
      testBit_setFlag, Nat.testBit_two_pow, e29, e9, e10, e8, Bool.or_false]

/-- The loop of `initialiseToPrim`, when it returns, leaves write-back disabled and the
read-animated preference as it found it. -/
theorem pass_prefs (H : Host) (D : Decomposer) (bs : MStatus) (rf tn : Bool)
    (s4 s5 : TransformationMatrix) (hdis : hasFlag s4.m_flags kPushToPrimEnabled = false)
    (h : (if hasFlag s4.m_flags kAnyKnownSchema = true then
        lockstep (initialiseOp H D bs rf tn) s4 else some (s4.setFromPrimMatrix D)) = some s5) :
    s5.m_flags.testBit 28 = false ∧ s5.m_flags.testBit 31 = s4.m_flags.testBit 31 := by
  have h28 : s4.m_flags.testBit 28 = false := by
    rw [← hasFlag_two_pow]; exact hdis
  by_cases hk : hasFlag s4.m_flags kAnyKnownSchema = true
  · rw [if_pos hk] at h
    by_cases hlen : s4.m_xformops.length ≤ s4.m_orderedOps.length
    · obtain ⟨t, h1, h2, _⟩ := lockstep_initialiseOp H D bs rf tn s4 hdis hlen
      rw [h1] at h
      simp only [Option.some.injEq] at h
      obtain ⟨_, _, p28, p31, _⟩ := passBits_testBit_stable s4.stage
        (s4.m_orderedOps.zip s4.m_xformops)
      rw [← h, h2, testBit_setFlag, testBit_setFlag, p28, p31, h28]
      simp
    · exfalso
      unfold lockstep at h
      rw [if_pos (by omega)] at h
      exact absurd h (by simp)
  · rw [if_neg hk] at h
    simp only [Option.some.injEq] at h
    obtain ⟨_, f2⟩ := setFromPrimMatrix_frame D s4
    rw [← h, f2 28 (by decide) (by decide), f2 31 (by decide) (by decide), h28]
    exact ⟨rfl, rfl⟩

theorem initialiseToPrim_total (H : Host) (D : Decomposer) (bs : MStatus)
    (s : TransformationMatrix) (rf tn : Bool) (hv : s.primValid = true)
    (hnos : hasFlag s.m_flags kAnyKnownSchema = false) :
    ∃ s', initialiseToPrim H D bs s rf tn = some s' := by
  by_cases hempty : s.stage.xformOpOrder = []
  · obtain ⟨s', h, _⟩ := initialiseToPrim_empty H D bs s rf tn hv hempty
    exact ⟨s', h⟩
  · obtain ⟨dx, d1, d2, d3, d4⟩ := detectSchema_nonempty s hempty
    have known : ∀ (stack : UsdMayaXformStack) (j : ℕ), (j = 8 ∨ j = 9 ∨ j = 10) →
        stack.MatchingSubstack s.stage.xformOpOrder ≠ [] →
        s.detectSchema.m_orderedOps = stack.MatchingSubstack s.stage.xformOpOrder ∧
        s.detectSchema.m_flags = setFlag (if s.stage.resetXformStack = true then s.m_flags
          else setFlag s.m_flags kInheritsTransform) (2 ^ j) →
        ∃ s', initialiseToPrim H D bs s rf tn = some s' := by
      intro stack j hj hr ⟨ho, hf⟩
      have hk : hasFlag s.detectSchema.m_flags kAnyKnownSchema = true := by
        rw [hasFlag_anyKnownSchema, hf, testBit_setFlag, testBit_setFlag, testBit_setFlag,
          Nat.testBit_two_pow, Nat.testBit_two_pow, Nat.testBit_two_pow]
        rcases hj with h | h | h <;> subst h <;> simp
      rcases MatchingSubstack_spec stack s.stage.xformOpOrder with e | ⟨el, _⟩
      · exact absurd e hr
      · obtain ⟨s', _, h, _⟩ := initialiseToPrim_known H D bs s rf tn hv hk
          (by rw [dx, ho, el])
        exact ⟨s', h⟩
    by_cases h1 : MayaStack.MatchingSubstack s.stage.xformOpOrder = []
    · by_cases h2 : MayaSinglePivotStack.MatchingSubstack s.stage.xformOpOrder = []
      · by_cases h3 : MatrixStack.MatchingSubstack s.stage.xformOpOrder = []
        · have hk : hasFlag s.detectSchema.m_flags kAnyKnownSchema = false := by
            rw [(d4 h1 h2 h3).2]
            split_ifs
            · exact hnos
            · exact (hasFlag_setFlag_other _ _ _ (by decide)).trans hnos
          exact ⟨_, initialiseToPrim_unknown H D bs s rf tn hv hk⟩
        · exact known MatrixStack 8 (Or.inl rfl) h3 (d3 h1 h2 h3)
      · exact known MayaSinglePivotStack 10 (Or.inr (Or.inr rfl)) h2 (d2 h1 h2)
    · exact known MayaStack 9 (Or.inr (Or.inl rfl)) h1 (d1 h1)

theorem hasFlag_animationMask_iff (f : Flags) :
    hasFlag f kAnimationMask = true ↔ ∃ k ∈ animatedFlags, hasFlag f k = true := by
  rw [hasFlag_animationMask]
  simp only [animatedFlags, List.mem_cons, List.mem_singleton, List.not_mem_nil, or_false,
    exists_eq_or_imp, exists_eq_left, kAnimatedScale, kAnimatedRotation, kAnimatedTranslation,
    kAnimatedMatrix, kAnimatedShear, hasFlag_two_pow, Bool.or_eq_true]
  tauto

/-- C17 (animated prims become read-only): after `initialiseToPrim` on a valid prim, if any
animated flag is set then `kPushToPrimEnabled` is clear and `kReadAnimatedValues` is set, and if
none is set both flags have the values they had before the call. The call returns whenever the
flags it starts from hold no stale schema flag. -/
theorem C17_animated_prims_read_only (H : Host) (D : Decomposer) (bs : MStatus)
    (s : TransformationMatrix) (readFromPrim transformNode : Bool) (hv : s.primValid = true) :
    (∀ s', initialiseToPrim H D bs s readFromPrim transformNode = some s' →
      ((∃ k ∈ animatedFlags, hasFlag s'.m_flags k = true) →
        hasFlag s'.m_flags kPushToPrimEnabled = false ∧
        hasFlag s'.m_flags kReadAnimatedValues = true) ∧
      ((∀ k ∈ animatedFlags, hasFlag s'.m_flags k = false) →
        hasFlag s'.m_flags kPushToPrimEnabled = hasFlag s.m_flags kPushToPrimEnabled ∧
        hasFlag s'.m_flags kReadAnimatedValues = hasFlag s.m_flags kReadAnimatedValues)) ∧
    (hasFlag s.m_flags kAnyKnownSchema = false →
      ∃ s', initialiseToPrim H D bs s readFromPrim transformNode = some s') := by
  refine ⟨?_, initialiseToPrim_total H D bs s readFromPrim transformNode hv⟩
  intro s' h
  unfold initialiseToPrim at h
  simp only [hv, Bool.not_true, Bool.false_eq_true, if_false] at h
  cases hp : (if hasFlag s.detectSchema.disablePushToPrim.m_flags kAnyKnownSchema = true then
      lockstep (initialiseOp H D bs readFromPrim transformNode) s.detectSchema.disablePushToPrim
      else some (s.detectSchema.disablePushToPrim.setFromPrimMatrix D)) with
  | none =>
    rw [hp] at h
    exact absurd h (by simp)
  | some s5 =>
    rw [hp] at h
    simp only [Option.map_some', Option.some.injEq] at h
    obtain ⟨p28, p31⟩ := pass_prefs H D bs readFromPrim transformNode _ s5
      (hasFlag_clearFlag_self _ _ (by decide)) hp
    have q31 : s5.m_flags.testBit 31 = s.m_flags.testBit 31 := by
      rw [p31]
      show (clearFlag s.detectSchema.m_flags kPushToPrimEnabled).testBit 31 = _
      rw [kPushToPrimEnabled, testBit_clearFlag _ 28 _ (by decide),
        detectSchema_prefs s 31 (by decide) (by decide) (by decide) (by decide)]
      simp
    have hw : s.detectSchema.pushToPrimEnabled = s.m_flags.testBit 28 := by
      show hasFlag s.detectSchema.m_flags kPushToPrimEnabled = _
      rw [kPushToPrimEnabled, hasFlag_two_pow,
        detectSchema_prefs s 28 (by decide) (by decide) (by decide) (by decide)]
    obtain ⟨c1, c2, c3⟩ := close_prefs s5 s.detectSchema.pushToPrimEnabled
    rw [h] at c1 c2 c3
    constructor
    · intro ha
      have hm := (hasFlag_animationMask_iff s'.m_flags).2 ha
      rw [c1] at hm
      obtain ⟨b28, b31⟩ := c2 hm
      exact ⟨by rw [kPushToPrimEnabled, hasFlag_two_pow]; exact b28,
        by rw [kReadAnimatedValues, hasFlag_two_pow]; exact b31⟩
    · intro hna
      have hm : hasFlag s5.m_flags kAnimationMask = false := by
        rw [← c1]
        cases hx : hasFlag s'.m_flags kAnimationMask with
        | false => rfl
        | true =>
          obtain ⟨k, hk, hk'⟩ := (hasFlag_animationMask_iff s'.m_flags).1 hx
          rw [hna k hk] at hk'
          exact absurd hk' (by decide)
      obtain ⟨b28, b31⟩ := c3 hm
      refine ⟨?_, ?_⟩
      · rw [kPushToPrimEnabled, hasFlag_two_pow, hasFlag_two_pow, b28, p28, hw]
        rfl
      · rw [kReadAnimatedValues, hasFlag_two_pow, hasFlag_two_pow, b31, q31]

theorem C17_animated_prims_read_only_witness :
    animatedOnlyEngine.primValid = true ∧
    hasFlag animatedOnlyEngine.m_flags kAnyKnownSchema = false ∧
    hasFlag animatedOnlyEngine.m_flags kPushToPrimEnabled = true ∧
    ∃ s', initialiseToPrim Host.sample Decomposer.sample .kSuccess animatedOnlyEngine true true
        = some s' ∧
      (∃ k ∈ animatedFlags, hasFlag s'.m_flags k = true) ∧
      hasFlag s'.m_flags kPushToPrimEnabled = false ∧
      hasFlag s'.m_flags kReadAnimatedValues = true := by
  obtain ⟨hall, htot⟩ := C17_animated_prims_read_only Host.sample Decomposer.sample .kSuccess
    animatedOnlyEngine true true (by decide)
  obtain ⟨s', hs'⟩ := htot (by decide)
  have ha : ∃ k ∈ animatedFlags, hasFlag s'.m_flags k = true := by
    have he : (initialiseToPrim Host.sample Decomposer.sample .kSuccess animatedOnlyEngine true
        true).map (fun t => hasFlag t.m_flags kAnimatedTranslation) = some true := by decide!
    rw [hs'] at he
    simp only [Option.map_some', Option.some.injEq] at he
    exact ⟨kAnimatedTranslation, by decide, he⟩
  exact ⟨by decide, by decide, by decide, s', hs', ha, (hall s' hs').1 ha⟩

/-! ## Time refresh (C18, C19, C20) -/

/-- C18 (updateToTime with the cached time is a no-op): for every state, `updateToTime` called
with the time code the engine already caches returns the state itself, so every fromUsd value,
tweak, live value, `m_flags` and the three operator lists are unchanged; the result does not
depend on what the store holds, that is, no operator is read. -/
theorem C18_updateToTime_cached_time_noop (D : Decomposer) (s : TransformationMatrix) :
    s.updateToTime D s.m_time = some s ∧
    ∀ stage' : UsdStage,
      ({ s with stage := stage' } : TransformationMatrix).updateToTime D s.m_time
        = some { s with stage := stage' } := by
  have h : ∀ t : TransformationMatrix, t.updateToTime D t.m_time = some t := by
    intro t
    unfold updateToTime
    split_ifs with h1 h2
    · rfl
    · exact absurd rfl h2
    · rfl
  exact ⟨h s, fun stage' => h _⟩

theorem TimeFrame.same (s : TransformationMatrix) : TimeFrame s s := by
  unfold TimeFrame
  simp only [and_self]

theorem TimeFrame.chain {a b c : TransformationMatrix} (h1 : TimeFrame a b) (h2 : TimeFrame b c) :
    TimeFrame a c := by
  unfold TimeFrame at *
  obtain ⟨a1, a2, a3, a4, a5, a6, a7, a8, a9, a10, a11, a12, a13, a14, a15, a16, a17, a18, a19,
    a20, a21, a22, a23, a24, a25, a26⟩ := h1
  obtain ⟨b1, b2, b3, b4, b5, b6, b7, b8, b9, b10, b11, b12, b13, b14, b15, b16, b17, b18, b19,
    b20, b21, b22, b23, b24, b25, b26⟩ := h2
  exact ⟨a1.trans b1, a2.trans b2, a3.trans b3, a4.trans b4, a5.trans b5, a6.trans b6,
    a7.trans b7, a8.trans b8, a9.trans b9, a10.trans b10, a11.trans b11, a12.trans b12,
    a13.trans b13, a14.trans b14, a15.trans b15, a16.trans b16, a17.trans b17, a18.trans b18,
    a19.trans b19, a20.trans b20, a21.trans b21, a22.trans b22, a23.trans b23, a24.trans b24,
    a25.trans b25, a26.trans b26⟩

theorem TimeFrame_orFlag (s : TransformationMatrix) (k : Flags)
    (h1 : k &&& kReadAnimatedValues = 0) (h2 : k &&& kPushToPrimEnabled = 0) :
    TimeFrame (s.orFlag k) s := by
  unfold TimeFrame orFlag
  simp only [hasFlag_setFlag_other _ _ _ h1, hasFlag_setFlag_other _ _ _ h2, and_self]

/-- Every step of the loop of `updateToTime` keeps the frame. -/
theorem updateOp_timeFrame (D : Decomposer) (t : TransformationMatrix)
    (c : UsdMayaXformOpClassification) (op : UsdGeomXformOp) (t' : TransformationMatrix)
    (h : updateOp D t c op = some t') : TimeFrame t' t := by
  unfold updateOp at h
  cases hn : c.name <;> simp only [hn] at h
  case translate =>
    split_ifs at h
    · simp only [Option.some.injEq] at h
      rw [← h]
      exact TimeFrame_orFlag t kAnimatedTranslation (by decide) (by decide)
    · simp only [Option.some.injEq] at h
      rw [← h]; exact TimeFrame.same _
  case rotate =>
    split_ifs at h
    · simp only [Option.some.injEq] at h
      rw [← h]
      exact TimeFrame_orFlag t kAnimatedRotation (by decide) (by decide)
    · simp only [Option.some.injEq] at h
      rw [← h]; exact TimeFrame.same _
  case scale =>
    split_ifs at h
    · simp only [Option.some.injEq] at h
      rw [← h]
      exact TimeFrame_orFlag t kAnimatedScale (by decide) (by decide)
    · simp only [Option.some.injEq] at h
      rw [← h]; exact TimeFrame.same _
  case shear =>
    split_ifs at h
    · simp only [Option.some.injEq] at h
      rw [← h]
      exact TimeFrame_orFlag t kAnimatedShear (by decide) (by decide)
    · simp only [Option.some.injEq] at h
      rw [← h]; exact TimeFrame.same _
  case transform =>
    split_ifs at h
    · cases hg : GetAsMatrix (t.orFlag kAnimatedMatrix).stage op (t.orFlag kAnimatedMatrix).getTimeCode with
      | none => rw [hg] at h; exact absurd h (by simp)
      | some m =>
        rw [hg] at h
        simp only [Option.some.injEq] at h
        rw [← h]
        exact TimeFrame_orFlag t kAnimatedMatrix (by decide) (by decide)
    · simp only [Option.some.injEq] at h
      rw [← h]; exact TimeFrame.same _
  all_goals
    simp only [Option.some.injEq] at h
    rw [← h]; exact TimeFrame.same _

theorem updateOp_total (D : Decomposer) (t : TransformationMatrix)
    (c : UsdMayaXformOpClassification) (op : UsdGeomXformOp) (hnt : c.name ≠ .transform) :
    ∃ t', updateOp D t c op = some t' := by
  unfold updateOp
  cases hn : c.name <;> first | exact absurd hn hnt | (simp only []; split_ifs <;> exact ⟨_, rfl⟩) |
    exact ⟨_, rfl⟩

theorem foldlM_updateOp_total (D : Decomposer)
    (l : List (UsdMayaXformOpClassification × UsdGeomXformOp))
    (hnt : ∀ p ∈ l, p.1.name ≠ .transform) :
    ∀ t : TransformationMatrix, ∃ t', l.foldlM (fun t p => updateOp D t p.1 p.2) t = some t' := by
  induction l with
  | nil => exact fun t => ⟨t, rfl⟩
  | cons p l ih =>
    intro t
    obtain ⟨t1, h1⟩ := updateOp_total D t p.1 p.2 (hnt p (List.mem_cons_self _ _))
    obtain ⟨t', h2⟩ := ih (fun q hq => hnt q (List.mem_cons_of_mem _ hq)) t1
    exact ⟨t', by rw [List.foldlM_cons, h1]; exact h2⟩

theorem foldlM_updateOp_inv (D : Decomposer)
    (l : List (UsdMayaXformOpClassification × UsdGeomXformOp)) (P : TransformationMatrix → Prop)
    (hstep : ∀ t p t', p ∈ l → P t → updateOp D t p.1 p.2 = some t' → P t') :
    ∀ t t', P t → l.foldlM (fun t p => updateOp D t p.1 p.2) t = some t' → P t' := by
  induction l with
  | nil =>
    intro t t' hP h
    simp only [List.foldlM_nil] at h
    cases h
    exact hP
  | cons p l ih =>
    intro t t' hP h
    rw [List.foldlM_cons] at h
    cases h1 : updateOp D t p.1 p.2 with
    | none => rw [h1] at h; exact absurd h (by simp)
    | some t1 =>
      rw [h1] at h
      exact ih (fun u q u' hq => hstep u q u' (List.mem_cons_of_mem _ hq)) t1 t'
        (hstep t p t1 (List.mem_cons_self _ _) hP h1) h

theorem foldlM_updateOp_establish (D : Decomposer)
    (l : List (UsdMayaXformOpClassification × UsdGeomXformOp))
    (Q R : TransformationMatrix → Prop) (nm : TfToken)
    (hQ : ∀ t p t', p ∈ l → Q t → updateOp D t p.1 p.2 = some t' → Q t')
    (hkeep : ∀ t p t', p ∈ l → p.1.name ≠ nm → Q t → R t →
      updateOp D t p.1 p.2 = some t' → R t')
    (hset : ∀ t p t', p ∈ l → p.1.name = nm → Q t → updateOp D t p.1 p.2 = some t' → R t') :
    ∀ t t', Q t → (R t ∨ ∃ p ∈ l, p.1.name = nm) →
      l.foldlM (fun t p => updateOp D t p.1 p.2) t = some t' → Q t' ∧ R t' := by
  induction l with
  | nil =>
    intro t t' hq hr h
    simp only [List.foldlM_nil] at h
    cases h
    rcases hr with hr | ⟨p, hp, _⟩
    · exact ⟨hq, hr⟩
    · exact absurd hp (List.not_mem_nil p)
  | cons p l ih =>
    intro t t' hq hr h
    rw [List.foldlM_cons] at h
    cases h1 : updateOp D t p.1 p.2 with
    | none => rw [h1] at h; exact absurd h (by simp)
    | some t1 =>
      rw [h1] at h
      have hq1 := hQ t p t1 (List.mem_cons_self _ _) hq h1
      refine ih (fun u q u' hq' => hQ u q u' (List.mem_cons_of_mem _ hq'))
        (fun u q u' hq' => hkeep u q u' (List.mem_cons_of_mem _ hq'))
        (fun u q u' hq' => hset u q u' (List.mem_cons_of_mem _ hq')) t1 t' hq1 ?_ h
      by_cases hn : p.1.name = nm
      · exact Or.inl (hset t p t1 (List.mem_cons_self _ _) hn hq h1)
      · rcases hr with hr | ⟨q, hq', hqn⟩
        · exact Or.inl (hkeep t p t1 (List.mem_cons_self _ _) hn hq hr h1)
        · rcases List.mem_cons.mp hq' with e | e
          · rw [e] at hqn; exact absurd hqn hn
          · exact Or.inr ⟨q, e, hqn⟩

theorem getTimeCode_orFlag (t : TransformationMatrix) (k : Flags)
    (h : k &&& kReadAnimatedValues = 0) : (t.orFlag k).getTimeCode = t.getTimeCode := by
  unfold getTimeCode readAnimatedValues orFlag
  simp only [hasFlag_setFlag_other _ _ _ h]

theorem getTimeCode_of_timeFrame (t s : TransformationMatrix) (h : TimeFrame t s) :
    t.getTimeCode = s.getTimeCode := by
  unfold getTimeCode readAnimatedValues
  rw [h.2.2.2.2.2.1, h.2.1]

theorem updateOp_translate_keep (D : Decomposer) (t : TransformationMatrix)
    (c : UsdMayaXformOpClassification) (op : UsdGeomXformOp) (t' : TransformationMatrix)
    (hn : c.name ≠ .translate ∨ op.GetNumTimeSamples t.stage = 0) (hnt : c.name ≠ .transform)
    (h : updateOp D t c op = some t') :
    t'.m_translationFromUsd = t.m_translationFromUsd ∧
    t'.translationValue = t.translationValue ∧
    hasFlag t'.m_flags kAnimatedTranslation = hasFlag t.m_flags kAnimatedTranslation := by
  unfold updateOp at h
  cases hc : c.name <;> simp only [hc] at h
  case transform => exact absurd hc hnt
  case translate =>
    rcases hn with hn | hn
    · exact absurd hc hn
    · rw [if_neg (by omega)] at h
      simp only [Option.some.injEq] at h
      rw [← h]
      exact ⟨rfl, rfl, rfl⟩
  case rotate =>
    split_ifs at h <;> simp only [Option.some.injEq] at h <;> rw [← h]
    · exact ⟨rfl, rfl, hasFlag_setFlag_other _ _ _ (by decide)⟩
    · exact ⟨rfl, rfl, rfl⟩
  case scale =>
    split_ifs at h <;> simp only [Option.some.injEq] at h <;> rw [← h]
    · exact ⟨rfl, rfl, hasFlag_setFlag_other _ _ _ (by decide)⟩
    · exact ⟨rfl, rfl, rfl⟩
  case shear =>
    split_ifs at h <;> simp only [Option.some.injEq] at h <;> rw [← h]
    · exact ⟨rfl, rfl, hasFlag_setFlag_other _ _ _ (by decide)⟩
    · exact ⟨rfl, rfl, rfl⟩
  all_goals
    simp only [Option.some.injEq] at h
    rw [← h]
    exact ⟨rfl, rfl, rfl⟩

theorem updateOp_translate_set (D : Decomposer) (t : TransformationMatrix)
    (c : UsdMayaXformOpClassification) (op : UsdGeomXformOp) (t' : TransformationMatrix)
    (hn : c.name = .translate) (hs : 1 ≤ op.GetNumTimeSamples t.stage)
    (h : updateOp D t c op = some t') :
    t'.m_translationFromUsd
      = (readVector t.stage t.m_translationFromUsd op t.getTimeCode).2 ∧
    t'.translationValue
      = ((readVector t.stage t.m_translationFromUsd op t.getTimeCode).2).add
          t.m_translationTweak ∧
    hasFlag t'.m_flags kAnimatedTranslation = true := by
  unfold updateOp at h
  simp only [hn] at h
  rw [if_pos hs] at h
  simp only [Option.some.injEq] at h
  rw [← h]
  have e := getTimeCode_orFlag t kAnimatedTranslation (by decide)
  refine ⟨?_, ?_, hasFlag_setFlag_self _ _ (by decide)⟩
  · show (readVector t.stage t.m_translationFromUsd op
      (t.orFlag kAnimatedTranslation).getTimeCode).2 = _
    rw [e]
  · show ((readVector t.stage t.m_translationFromUsd op
      (t.orFlag kAnimatedTranslation).getTimeCode).2).add t.m_translationTweak = _
    rw [e]

theorem updateOp_scale_keep (D : Decomposer) (t : TransformationMatrix)
    (c : UsdMayaXformOpClassification) (op : UsdGeomXformOp) (t' : TransformationMatrix)
    (hn : c.name ≠ .scale ∨ op.GetNumTimeSamples t.stage = 0) (hnt : c.name ≠ .transform)
    (h : updateOp D t c op = some t') :
    t'.m_scaleFromUsd = t.m_scaleFromUsd ∧
    t'.scaleValue = t.scaleValue ∧
    hasFlag t'.m_flags kAnimatedScale = hasFlag t.m_flags kAnimatedScale := by
  unfold updateOp at h
  cases hc : c.name <;> simp only [hc] at h
  case transform => exact absurd hc hnt
  case scale =>
    rcases hn with hn | hn
    · exact absurd hc hn
    · rw [if_neg (by omega)] at h
      simp only [Option.some.injEq] at h
      rw [← h]
      exact ⟨rfl, rfl, rfl⟩
  case rotate =>
    split_ifs at h <;> simp only [Option.some.injEq] at h <;> rw [← h]
    · exact ⟨rfl, rfl, hasFlag_setFlag_other _ _ _ (by decide)⟩
    · exact ⟨rfl, rfl, rfl⟩
  case translate =>
    split_ifs at h <;> simp only [Option.some.injEq] at h <;> rw [← h]
    · exact ⟨rfl, rfl, hasFlag_setFlag_other _ _ _ (by decide)⟩
    · exact ⟨rfl, rfl, rfl⟩
  case shear =>
    split_ifs at h <;> simp only [Option.some.injEq] at h <;> rw [← h]
    · exact ⟨rfl, rfl, hasFlag_setFlag_other _ _ _ (by decide)⟩
    · exact ⟨rfl, rfl, rfl⟩
  all_goals
    simp only [Option.some.injEq] at h
    rw [← h]
    exact ⟨rfl, rfl, rfl⟩

theorem updateOp_scale_set (D : Decomposer) (t : TransformationMatrix)
    (c : UsdMayaXformOpClassification) (op : UsdGeomXformOp) (t' : TransformationMatrix)
    (hn : c.name = .scale) (hs : 1 ≤ op.GetNumTimeSamples t.stage)
    (h : updateOp D t c op = some t') :
    t'.m_scaleFromUsd
      = (readVector t.stage t.m_scaleFromUsd op t.getTimeCode).2 ∧
    t'.scaleValue
      = ((readVector t.stage t.m_scaleFromUsd op t.getTimeCode).2).add
          t.m_scaleTweak ∧
    hasFlag t'.m_flags kAnimatedScale = true := by
  unfold updateOp at h
  simp only [hn] at h
  rw [if_pos hs] at h
  simp only [Option.some.injEq] at h
  rw [← h]
  have e := getTimeCode_orFlag t kAnimatedScale (by decide)
  refine ⟨?_, ?_, hasFlag_setFlag_self _ _ (by decide)⟩
  · show (readVector t.stage t.m_scaleFromUsd op
      (t.orFlag kAnimatedScale).getTimeCode).2 = _
    rw [e]
  · show ((readVector t.stage t.m_scaleFromUsd op
      (t.orFlag kAnimatedScale).getTimeCode).2).add t.m_scaleTweak = _
    rw [e]

theorem updateOp_shear_keep (D : Decomposer) (t : TransformationMatrix)
    (c : UsdMayaXformOpClassification) (op : UsdGeomXformOp) (t' : TransformationMatrix)
    (hn : c.name ≠ .shear ∨ op.GetNumTimeSamples t.stage = 0) (hnt : c.name ≠ .transform)
    (h : updateOp D t c op = some t') :
    t'.m_shearFromUsd = t.m_shearFromUsd ∧
    t'.shearValue = t.shearValue ∧
    hasFlag t'.m_flags kAnimatedShear = hasFlag t.m_flags kAnimatedShear := by
  unfold updateOp at h
  cases hc : c.name <;> simp only [hc] at h
  case transform => exact absurd hc hnt
  case shear =>
    rcases hn with hn | hn
    · exact absurd hc hn
    · rw [if_neg (by omega)] at h
      simp only [Option.some.injEq] at h
      rw [← h]
      exact ⟨rfl, rfl, rfl⟩
  case rotate =>
    split_ifs at h <;> simp only [Option.some.injEq] at h <;> rw [← h]
    · exact ⟨rfl, rfl, hasFlag_setFlag_other _ _ _ (by decide)⟩
    · exact ⟨rfl, rfl, rfl⟩
  case scale =>
    split_ifs at h <;> simp only [Option.some.injEq] at h <;> rw [← h]
    · exact ⟨rfl, rfl, hasFlag_setFlag_other _ _ _ (by decide)⟩
    · exact ⟨rfl, rfl, rfl⟩
  case translate =>
    split_ifs at h <;> simp only [Option.some.injEq] at h <;> rw [← h]
    · exact ⟨rfl, rfl, hasFlag_setFlag_other _ _ _ (by decide)⟩
    · exact ⟨rfl, rfl, rfl⟩
  all_goals
    simp only [Option.some.injEq] at h
    rw [← h]
    exact ⟨rfl, rfl, rfl⟩

theorem updateOp_shear_set (D : Decomposer) (t : TransformationMatrix)
    (c : UsdMayaXformOpClassification) (op : UsdGeomXformOp) (t' : TransformationMatrix)
    (hn : c.name = .shear) (hs : 1 ≤ op.GetNumTimeSamples t.stage)
    (h : updateOp D t c op = some t') :
    t'.m_shearFromUsd
      = (readShear t.stage t.m_shearFromUsd op t.getTimeCode).2 ∧
    t'.shearValue
      = ((readShear t.stage t.m_shearFromUsd op t.getTimeCode).2).add
          t.m_shearTweak ∧
    hasFlag t'.m_flags kAnimatedShear = true := by
  unfold updateOp at h
  simp only [hn] at h
  rw [if_pos hs] at h
  simp only [Option.some.injEq] at h
  rw [← h]
  have e := getTimeCode_orFlag t kAnimatedShear (by decide)
  refine ⟨?_, ?_, hasFlag_setFlag_self _ _ (by decide)⟩
  · show (readShear t.stage t.m_shearFromUsd op
      (t.orFlag kAnimatedShear).getTimeCode).2 = _
    rw [e]
  · show ((readShear t.stage t.m_shearFromUsd op
      (t.orFlag kAnimatedShear).getTimeCode).2).add t.m_shearTweak = _
    rw [e]

theorem updateOp_rotate_keep (D : Decomposer) (t : TransformationMatrix)
    (c : UsdMayaXformOpClassification) (op : UsdGeomXformOp) (t' : TransformationMatrix)
    (hn : c.name ≠ .rotate ∨ op.GetNumTimeSamples t.stage = 0) (hnt : c.name ≠ .transform)
    (h : updateOp D t c op = some t') :
    t'.m_rotationFromUsd = t.m_rotationFromUsd ∧
    t'.rotationValue = t.rotationValue ∧
    hasFlag t'.m_flags kAnimatedRotation = hasFlag t.m_flags kAnimatedRotation := by
  unfold updateOp at h
  cases hc : c.name <;> simp only [hc] at h
  case transform => exact absurd hc hnt
  case rotate =>
    rcases hn with hn | hn
    · exact absurd hc hn
    · rw [if_neg (by omega)] at h
      simp only [Option.some.injEq] at h
      rw [← h]
      exact ⟨rfl, rfl, rfl⟩
  case translate =>
    split_ifs at h <;> simp only [Option.some.injEq] at h <;> rw [← h]
    · exact ⟨rfl, rfl, hasFlag_setFlag_other _ _ _ (by decide)⟩
    · exact ⟨rfl, rfl, rfl⟩
  case scale =>
    split_ifs at h <;> simp only [Option.some.injEq] at h <;> rw [← h]
    · exact ⟨rfl, rfl, hasFlag_setFlag_other _ _ _ (by decide)⟩
    · exact ⟨rfl, rfl, rfl⟩
  case shear =>
    split_ifs at h <;> simp only [Option.some.injEq] at h <;> rw [← h]
    · exact ⟨rfl, rfl, hasFlag_setFlag_other _ _ _ (by decide)⟩
    · exact ⟨rfl, rfl, rfl⟩
  all_goals
    simp only [Option.some.injEq] at h
    rw [← h]
    exact ⟨rfl, rfl, rfl⟩

theorem updateOp_rotate_set (D : Decomposer) (t : TransformationMatrix)
    (c : UsdMayaXformOpClassification) (op : UsdGeomXformOp) (t' : TransformationMatrix)
    (hn : c.name = .rotate) (hs : 1 ≤ op.GetNumTimeSamples t.stage)
    (h : updateOp D t c op = some t') :
    t'.m_rotationFromUsd = (readRotation t.stage t.m_rotationFromUsd op t.getTimeCode).2 ∧
    t'.rotationValue =
      { (readRotation t.stage t.m_rotationFromUsd op t.getTimeCode).2 with
        x := (readRotation t.stage t.m_rotationFromUsd op t.getTimeCode).2.x + t.m_rotationTweak.x
        y := (readRotation t.stage t.m_rotationFromUsd op t.getTimeCode).2.y + t.m_rotationTweak.y
        z := (readRotation t.stage t.m_rotationFromUsd op t.getTimeCode).2.z
          + t.m_rotationTweak.z } ∧
    hasFlag t'.m_flags kAnimatedRotation = true := by
  unfold updateOp at h
  simp only [hn] at h
  rw [if_pos hs] at h
  simp only [Option.some.injEq] at h
  rw [← h]
  have e := getTimeCode_orFlag t kAnimatedRotation (by decide)
  refine ⟨?_, ?_, hasFlag_setFlag_self _ _ (by decide)⟩
  · show (readRotation t.stage t.m_rotationFromUsd op
      (t.orFlag kAnimatedRotation).getTimeCode).2 = _
    rw [e]
  · show ({ (readRotation t.stage t.m_rotationFromUsd op
        (t.orFlag kAnimatedRotation).getTimeCode).2 with
      x := (readRotation t.stage t.m_rotationFromUsd op
        (t.orFlag kAnimatedRotation).getTimeCode).2.x + t.m_rotationTweak.x
      y := (readRotation t.stage t.m_rotationFromUsd op
        (t.orFlag kAnimatedRotation).getTimeCode).2.y + t.m_rotationTweak.y
      z := (readRotation t.stage t.m_rotationFromUsd op
        (t.orFlag kAnimatedRotation).getTimeCode).2.z + t.m_rotationTweak.z } :
        MEulerRotation) = _
    rw [e]

theorem lockstep_updateOp (D : Decomposer) (s : TransformationMatrix)
    (hlen : s.m_xformops.length ≤ s.m_orderedOps.length) :
    lockstep (updateOp D) s
      = (s.m_orderedOps.zip s.m_xformops).foldlM (fun t p => updateOp D t p.1 p.2) s := by
  unfold lockstep
  rw [if_neg (by omega)]

theorem updateToTime_known (D : Decomposer) (s : TransformationMatrix) (time : UsdTimeCode)
    (hv : s.primValid = true) (ht : s.m_time ≠ time)
    (hk : hasFlag s.m_flags kAnyKnownSchema = true)
    (hlen : s.m_xformops.length ≤ s.m_orderedOps.length) :
    s.updateToTime D time
      = (s.m_orderedOps.zip s.m_xformops).foldlM (fun t p => updateOp D t p.1 p.2)
          { s with m_time := time } := by
  unfold updateToTime
  rw [if_neg (by rw [hv]; decide), if_pos ht]
  exact (if_pos hk).trans (lockstep_updateOp D { s with m_time := time } hlen)

theorem readVector_cases (stage : UsdStage) (op : UsdGeomXformOp) (tc : UsdTimeCode) :
    (∀ r, readVector stage r op tc = (false, r)) ∨
    (∃ v, ∀ r, readVector stage r op tc = (true, v)) := by
  unfold readVector
  cases hg : GetAsVec3 stage op tc <;> cases hty : op.GetTypeName stage <;> simp only [] <;>
    first
    | exact Or.inl (fun _ => trivial)
    | exact Or.inl (fun r => rfl)
    | exact Or.inr ⟨_, fun r => rfl⟩

theorem readShear_cases (stage : UsdStage) (op : UsdGeomXformOp) (tc : UsdTimeCode) :
    (∀ r, readShear stage r op tc = (false, r)) ∨
    (∃ v, ∀ r, readShear stage r op tc = (true, v)) := by
  unfold readShear
  cases hg : GetAsMatrix stage op tc <;> cases hty : op.GetTypeName stage <;> simp only [] <;>
    first
    | exact Or.inl (fun _ => trivial)
    | exact Or.inl (fun r => rfl)
    | exact Or.inr ⟨_, fun r => rfl⟩

theorem readRotation_cases (stage : UsdStage) (op : UsdGeomXformOp) (tc : UsdTimeCode) :
    (∀ r, readRotation stage r op tc = (false, r)) ∨
    (∃ v, ∀ r, readRotation stage r op tc = (true, v)) := by
  unfold readRotation
  rcases hv : readVector stage MVector.zero op tc with ⟨b, v⟩
  cases b <;> cases hty : op.opType <;> simp only [] <;>
    first
    | exact Or.inl (fun _ => trivial)
    | exact Or.inl (fun r => rfl)
    | exact Or.inr ⟨_, fun r => rfl⟩

theorem readVector_snd_stable (stage : UsdStage) (op : UsdGeomXformOp) (tc : UsdTimeCode)
    (r x : MVector) (h : x = r ∨ x = (readVector stage r op tc).2) :
    (readVector stage x op tc).2 = (readVector stage r op tc).2 := by
  rcases readVector_cases stage op tc with hf | ⟨v, hv⟩
  · rw [hf r] at h ⊢
    rw [hf x]
    rcases h with h | h <;> exact h
  · rw [hv x, hv r]

theorem readShear_snd_stable (stage : UsdStage) (op : UsdGeomXformOp) (tc : UsdTimeCode)
    (r x : MVector) (h : x = r ∨ x = (readShear stage r op tc).2) :
    (readShear stage x op tc).2 = (readShear stage r op tc).2 := by
  rcases readShear_cases stage op tc with hf | ⟨v, hv⟩
  · rw [hf r] at h ⊢
    rw [hf x]
    rcases h with h | h <;> exact h
  · rw [hv x, hv r]

theorem readRotation_snd_stable (stage : UsdStage) (op : UsdGeomXformOp) (tc : UsdTimeCode)
    (r x : MEulerRotation) (h : x = r ∨ x = (readRotation stage r op tc).2) :
    (readRotation stage x op tc).2 = (readRotation stage r op tc).2 := by
  rcases readRotation_cases stage op tc with hf | ⟨v, hv⟩
  · rw [hf r] at h ⊢
    rw [hf x]
    rcases h with h | h <;> exact h
  · rw [hv x, hv r]

theorem refresh_translate (D : Decomposer) (s1 s' : TransformationMatrix) (op : UsdGeomXformOp)
    (hnt : ∀ p ∈ s1.m_orderedOps.zip s1.m_xformops, p.1.name ≠ .transform)
    (hop : IsTheOp s1 .translate op) (hs : 1 ≤ op.GetNumTimeSamples s1.stage)
    (hfold : (s1.m_orderedOps.zip s1.m_xformops).foldlM (fun t p => updateOp D t p.1 p.2) s1
      = some s') :
    s'.m_translationFromUsd
      = (readVector s1.stage s1.m_translationFromUsd op s1.getTimeCode).2 ∧
    s'.translationValue
      = (readVector s1.stage s1.m_translationFromUsd op s1.getTimeCode).2.add
          s1.m_translationTweak := by
  have key := foldlM_updateOp_establish D (s1.m_orderedOps.zip s1.m_xformops)
    (fun t => TimeFrame t s1 ∧ (t.m_translationFromUsd = s1.m_translationFromUsd ∨
      t.m_translationFromUsd
        = (readVector s1.stage s1.m_translationFromUsd op s1.getTimeCode).2))
    (fun t => t.m_translationFromUsd
        = (readVector s1.stage s1.m_translationFromUsd op s1.getTimeCode).2 ∧
      t.translationValue
        = (readVector s1.stage s1.m_translationFromUsd op s1.getTimeCode).2.add
            s1.m_translationTweak)
    .translate
    (by
      intro t p t' hp hq h
      obtain ⟨hf, hd⟩ := hq
      refine ⟨(updateOp_timeFrame D t p.1 p.2 t' h).chain hf, ?_⟩
      by_cases hn : p.1.name = .translate
      · by_cases h0 : p.2.GetNumTimeSamples t.stage = 0
        · rw [(updateOp_translate_keep D t p.1 p.2 t' (Or.inr h0) (hnt p hp) h).1]
          exact hd
        · have hset := (updateOp_translate_set D t p.1 p.2 t' hn (by omega) h).1
          rw [hop.2 p hp hn, hf.1, getTimeCode_of_timeFrame t s1 hf] at hset
          rw [hset]
          exact Or.inr (readVector_snd_stable _ _ _ _ _ hd)
      · rw [(updateOp_translate_keep D t p.1 p.2 t' (Or.inl hn) (hnt p hp) h).1]
        exact hd)
    (by
      intro t p t' hp hn _ hr h
      obtain ⟨k1, k2, _⟩ := updateOp_translate_keep D t p.1 p.2 t' (Or.inl hn) (hnt p hp) h
      rw [k1, k2]
      exact hr)
    (by
      intro t p t' hp hn hq h
      obtain ⟨hf, hd⟩ := hq
      have hs' : 1 ≤ p.2.GetNumTimeSamples t.stage := by
        rw [hop.2 p hp hn, hf.1]
        exact hs
      obtain ⟨k1, k2, _⟩ := updateOp_translate_set D t p.1 p.2 t' hn hs' h
      rw [hop.2 p hp hn, hf.1, getTimeCode_of_timeFrame t s1 hf] at k1 k2
      rw [readVector_snd_stable _ _ _ _ _ hd] at k1 k2
      obtain ⟨-, -, -, -, -, -, -, htw, -⟩ := hf
      rw [htw] at k2
      exact ⟨k1, k2⟩)
    s1 s' ⟨TimeFrame.same s1, Or.inl rfl⟩
    (Or.inr (by
      obtain ⟨c, hc, hcn⟩ := hop.1
      exact ⟨(c, op), hc, hcn⟩))
    hfold
  exact key.2

theorem refresh_scale (D : Decomposer) (s1 s' : TransformationMatrix) (op : UsdGeomXformOp)
    (hnt : ∀ p ∈ s1.m_orderedOps.zip s1.m_xformops, p.1.name ≠ .transform)
    (hop : IsTheOp s1 .scale op) (hs : 1 ≤ op.GetNumTimeSamples s1.stage)
    (hfold : (s1.m_orderedOps.zip s1.m_xformops).foldlM (fun t p => updateOp D t p.1 p.2) s1
      = some s') :
    s'.m_scaleFromUsd
      = (readVector s1.stage s1.m_scaleFromUsd op s1.getTimeCode).2 ∧
    s'.scaleValue
      = (readVector s1.stage s1.m_scaleFromUsd op s1.getTimeCode).2.add
          s1.m_scaleTweak := by
  have key := foldlM_updateOp_establish D (s1.m_orderedOps.zip s1.m_xformops)
    (fun t => TimeFrame t s1 ∧ (t.m_scaleFromUsd = s1.m_scaleFromUsd ∨
      t.m_scaleFromUsd
        = (readVector s1.stage s1.m_scaleFromUsd op s1.getTimeCode).2))
    (fun t => t.m_scaleFromUsd
        = (readVector s1.stage s1.m_scaleFromUsd op s1.getTimeCode).2 ∧
      t.scaleValue
        = (readVector s1.stage s1.m_scaleFromUsd op s1.getTimeCode).2.add
            s1.m_scaleTweak)
    .scale
    (by
      intro t p t' hp hq h
      obtain ⟨hf, hd⟩ := hq
      refine ⟨(updateOp_timeFrame D t p.1 p.2 t' h).chain hf, ?_⟩
      by_cases hn : p.1.name = .scale
      · by_cases h0 : p.2.GetNumTimeSamples t.stage = 0
        · rw [(updateOp_scale_keep D t p.1 p.2 t' (Or.inr h0) (hnt p hp) h).1]
          exact hd
        · have hset := (updateOp_scale_set D t p.1 p.2 t' hn (by omega) h).1
          rw [hop.2 p hp hn, hf.1, getTimeCode_of_timeFrame t s1 hf] at hset
          rw [hset]
          exact Or.inr (readVector_snd_stable _ _ _ _ _ hd)
      · rw [(updateOp_scale_keep D t p.1 p.2 t' (Or.inl hn) (hnt p hp) h).1]
        exact hd)
    (by
      intro t p t' hp hn _ hr h
      obtain ⟨k1, k2, _⟩ := updateOp_scale_keep D t p.1 p.2 t' (Or.inl hn) (hnt p hp) h
      rw [k1, k2]
      exact hr)
    (by
      intro t p t' hp hn hq h
      obtain ⟨hf, hd⟩ := hq
      have hs' : 1 ≤ p.2.GetNumTimeSamples t.stage := by
        rw [hop.2 p hp hn, hf.1]
        exact hs
      obtain ⟨k1, k2, _⟩ := updateOp_scale_set D t p.1 p.2 t' hn hs' h
      rw [hop.2 p hp hn, hf.1, getTimeCode_of_timeFrame t s1 hf] at k1 k2
      rw [readVector_snd_stable _ _ _ _ _ hd] at k1 k2
      obtain ⟨-, -, -, -, -, -, -, -, -, htw, -⟩ := hf
      rw [htw] at k2
      exact ⟨k1, k2⟩)
    s1 s' ⟨TimeFrame.same s1, Or.inl rfl⟩
    (Or.inr (by
      obtain ⟨c, hc, hcn⟩ := hop.1
      exact ⟨(c, op), hc, hcn⟩))
    hfold
  exact key.2

theorem refresh_shear (D : Decomposer) (s1 s' : TransformationMatrix) (op : UsdGeomXformOp)
    (hnt : ∀ p ∈ s1.m_orderedOps.zip s1.m_xformops, p.1.name ≠ .transform)
    (hop : IsTheOp s1 .shear op) (hs : 1 ≤ op.GetNumTimeSamples s1.stage)
    (hfold : (s1.m_orderedOps.zip s1.m_xformops).foldlM (fun t p => updateOp D t p.1 p.2) s1
      = some s') :
    s'.m_shearFromUsd
      = (readShear s1.stage s1.m_shearFromUsd op s1.getTimeCode).2 ∧
    s'.shearValue
      = (readShear s1.stage s1.m_shearFromUsd op s1.getTimeCode).2.add
          s1.m_shearTweak := by
  have key := foldlM_updateOp_establish D (s1.m_orderedOps.zip s1.m_xformops)
    (fun t => TimeFrame t s1 ∧ (t.m_shearFromUsd = s1.m_shearFromUsd ∨
      t.m_shearFromUsd
        = (readShear s1.stage s1.m_shearFromUsd op s1.getTimeCode).2))
    (fun t => t.m_shearFromUsd
        = (readShear s1.stage s1.m_shearFromUsd op s1.getTimeCode).2 ∧
      t.shearValue
        = (readShear s1.stage s1.m_shearFromUsd op s1.getTimeCode).2.add
            s1.m_shearTweak)
    .shear
    (by
      intro t p t' hp hq h
      obtain ⟨hf, hd⟩ := hq
      refine ⟨(updateOp_timeFrame D t p.1 p.2 t' h).chain hf, ?_⟩
      by_cases hn : p.1.name = .shear
      · by_cases h0 : p.2.GetNumTimeSamples t.stage = 0
        · rw [(updateOp_shear_keep D t p.1 p.2 t' (Or.inr h0) (hnt p hp) h).1]
          exact hd
        · have hset := (updateOp_shear_set D t p.1 p.2 t' hn (by omega) h).1
          rw [hop.2 p hp hn, hf.1, getTimeCode_of_timeFrame t s1 hf] at hset
          rw [hset]
          exact Or.inr (readShear_snd_stable _ _ _ _ _ hd)
      · rw [(updateOp_shear_keep D t p.1 p.2 t' (Or.inl hn) (hnt p hp) h).1]
        exact hd)
    (by
      intro t p t' hp hn _ hr h
      obtain ⟨k1, k2, _⟩ := updateOp_shear_keep D t p.1 p.2 t' (Or.inl hn) (hnt p hp) h
      rw [k1, k2]
      exact hr)
    (by
      intro t p t' hp hn hq h
      obtain ⟨hf, hd⟩ := hq
      have hs' : 1 ≤ p.2.GetNumTimeSamples t.stage := by
        rw [hop.2 p hp hn, hf.1]
        exact hs
      obtain ⟨k1, k2, _⟩ := updateOp_shear_set D t p.1 p.2 t' hn hs' h
      rw [hop.2 p hp hn, hf.1, getTimeCode_of_timeFrame t s1 hf] at k1 k2
      rw [readShear_snd_stable _ _ _ _ _ hd] at k1 k2
      obtain ⟨-, -, -, -, -, -, -, -, -, -, htw, -⟩ := hf
      rw [htw] at k2
      exact ⟨k1, k2⟩)
    s1 s' ⟨TimeFrame.same s1, Or.inl rfl⟩
    (Or.inr (by
      obtain ⟨c, hc, hcn⟩ := hop.1
      exact ⟨(c, op), hc, hcn⟩))
    hfold
  exact key.2

theorem refresh_rotate (D : Decomposer) (s1 s' : TransformationMatrix) (op : UsdGeomXformOp)
    (hnt : ∀ p ∈ s1.m_orderedOps.zip s1.m_xformops, p.1.name ≠ .transform)
    (hop : IsTheOp s1 .rotate op) (hs : 1 ≤ op.GetNumTimeSamples s1.stage)
    (hfold : (s1.m_orderedOps.zip s1.m_xformops).foldlM (fun t p => updateOp D t p.1 p.2) s1
      = some s') :
    s'.m_rotationFromUsd
      = (readRotation s1.stage s1.m_rotationFromUsd op s1.getTimeCode).2 ∧
    s'.rotationValue
      = { (readRotation s1.stage s1.m_rotationFromUsd op s1.getTimeCode).2 with
          x := (readRotation s1.stage s1.m_rotationFromUsd op s1.getTimeCode).2.x
            + s1.m_rotationTweak.x
          y := (readRotation s1.stage s1.m_rotationFromUsd op s1.getTimeCode).2.y
            + s1.m_rotationTweak.y
          z := (readRotation s1.stage s1.m_rotationFromUsd op s1.getTimeCode).2.z
            + s1.m_rotationTweak.z } := by
  have key := foldlM_updateOp_establish D (s1.m_orderedOps.zip s1.m_xformops)
    (fun t => TimeFrame t s1 ∧ (t.m_rotationFromUsd = s1.m_rotationFromUsd ∨
      t.m_rotationFromUsd
        = (readRotation s1.stage s1.m_rotationFromUsd op s1.getTimeCode).2))
    (fun t => t.m_rotationFromUsd
        = (readRotation s1.stage s1.m_rotationFromUsd op s1.getTimeCode).2 ∧
      t.rotationValue
        = { (readRotation s1.stage s1.m_rotationFromUsd op s1.getTimeCode).2 with
            x := (readRotation s1.stage s1.m_rotationFromUsd op s1.getTimeCode).2.x
              + s1.m_rotationTweak.x
            y := (readRotation s1.stage s1.m_rotationFromUsd op s1.getTimeCode).2.y
              + s1.m_rotationTweak.y
            z := (readRotation s1.stage s1.m_rotationFromUsd op s1.getTimeCode).2.z
              + s1.m_rotationTweak.z })
    .rotate
    (by
      intro t p t' hp hq h
      obtain ⟨hf, hd⟩ := hq
      refine ⟨(updateOp_timeFrame D t p.1 p.2 t' h).chain hf, ?_⟩
      by_cases hn : p.1.name = .rotate
      · by_cases h0 : p.2.GetNumTimeSamples t.stage = 0
        · rw [(updateOp_rotate_keep D t p.1 p.2 t' (Or.inr h0) (hnt p hp) h).1]
          exact hd
        · have hset := (updateOp_rotate_set D t p.1 p.2 t' hn (by omega) h).1
          rw [hop.2 p hp hn, hf.1, getTimeCode_of_timeFrame t s1 hf] at hset
          rw [hset]
          exact Or.inr (readRotation_snd_stable _ _ _ _ _ hd)
      · rw [(updateOp_rotate_keep D t p.1 p.2 t' (Or.inl hn) (hnt p hp) h).1]
        exact hd)
    (by
      intro t p t' hp hn _ hr h
      obtain ⟨k1, k2, _⟩ := updateOp_rotate_keep D t p.1 p.2 t' (Or.inl hn) (hnt p hp) h
      rw [k1, k2]
      exact hr)
    (by
      intro t p t' hp hn hq h
      obtain ⟨hf, hd⟩ := hq
      have hs' : 1 ≤ p.2.GetNumTimeSamples t.stage := by
        rw [hop.2 p hp hn, hf.1]
        exact hs
      obtain ⟨k1, k2, _⟩ := updateOp_rotate_set D t p.1 p.2 t' hn hs' h
      rw [hop.2 p hp hn, hf.1, getTimeCode_of_timeFrame t s1 hf] at k1 k2
      rw [readRotation_snd_stable _ _ _ _ _ hd] at k1 k2
      obtain ⟨-, -, -, -, -, -, -, -, htw, -⟩ := hf
      rw [htw] at k2
      exact ⟨k1, k2⟩)
    s1 s' ⟨TimeFrame.same s1, Or.inl rfl⟩
    (Or.inr (by
      obtain ⟨c, hc, hcn⟩ := hop.1
      exact ⟨(c, op), hc, hcn⟩))
    hfold
  exact key.2

theorem foldlM_updateOp_timeFrame (D : Decomposer)
    (l : List (UsdMayaXformOpClassification × UsdGeomXformOp)) (s1 s' : TransformationMatrix)
    (h : l.foldlM (fun t p => updateOp D t p.1 p.2) s1 = some s') : TimeFrame s' s1 :=
  foldlM_updateOp_inv D l (fun t => TimeFrame t s1)
    (fun t p t' _ hq hstep => (updateOp_timeFrame D t p.1 p.2 t' hstep).chain hq)
    s1 s' (TimeFrame.same s1) h

/-- C19 (time refresh blends the tweak): on a bound component-schema engine (a known schema
flag, the operator list walked in lockstep with its classifications as the source asserts, no
`transform` entry), `updateToTime` with a time code other than the cached one returns and
leaves the four tweaks as they were; for each of translate, rotate, scale and shear whose
operator is in the list and carries a time sample, the fromUsd value is what the codec decodes
from that operator at the effective time code (the new time when animated values are read, the
default time otherwise), and the live value is that value plus the tweak, component by component
for the rotation. -/
theorem C19_time_refresh_blends_tweak (D : Decomposer) (s : TransformationMatrix)
    (time : UsdTimeCode) (hv : s.primValid = true) (ht : s.m_time ≠ time)
    (hk : hasFlag s.m_flags kAnyKnownSchema = true)
    (hlen : s.m_orderedOps.length = s.m_xformops.length)
    (hnt : ∀ c ∈ s.m_orderedOps, c.name ≠ .transform) :
    ∃ s', s.updateToTime D time = some s' ∧
      (s'.m_translationTweak = s.m_translationTweak ∧ s'.m_rotationTweak = s.m_rotationTweak ∧
        s'.m_scaleTweak = s.m_scaleTweak ∧ s'.m_shearTweak = s.m_shearTweak) ∧
      (∀ op, IsTheOp s .translate op → 1 ≤ op.GetNumTimeSamples s.stage →
        s'.m_translationFromUsd
          = (readVector s.stage s.m_translationFromUsd op
              (if s.readAnimatedValues then time else .Default)).2 ∧
        s'.translationValue = s'.m_translationFromUsd.add s.m_translationTweak) ∧
      (∀ op, IsTheOp s .rotate op → 1 ≤ op.GetNumTimeSamples s.stage →
        s'.m_rotationFromUsd
          = (readRotation s.stage s.m_rotationFromUsd op
              (if s.readAnimatedValues then time else .Default)).2 ∧
        s'.rotationValue = ⟨s'.m_rotationFromUsd.x + s.m_rotationTweak.x,
          s'.m_rotationFromUsd.y + s.m_rotationTweak.y,
          s'.m_rotationFromUsd.z + s.m_rotationTweak.z, s'.m_rotationFromUsd.order⟩) ∧
      (∀ op, IsTheOp s .scale op → 1 ≤ op.GetNumTimeSamples s.stage →
        s'.m_scaleFromUsd
          = (readVector s.stage s.m_scaleFromUsd op
              (if s.readAnimatedValues then time else .Default)).2 ∧
        s'.scaleValue = s'.m_scaleFromUsd.add s.m_scaleTweak) ∧
      (∀ op, IsTheOp s .shear op → 1 ≤ op.GetNumTimeSamples s.stage →
        s'.m_shearFromUsd
          = (readShear s.stage s.m_shearFromUsd op
              (if s.readAnimatedValues then time else .Default)).2 ∧
        s'.shearValue = s'.m_shearFromUsd.add s.m_shearTweak) := by
  have hz : ∀ p ∈ s.m_orderedOps.zip s.m_xformops, p.1.name ≠ .transform :=
    fun p hp => hnt p.1 (List.of_mem_zip hp).1
  have hrun := updateToTime_known D s time hv ht hk (le_of_eq hlen.symm)
  obtain ⟨s', hs'⟩ := foldlM_updateOp_total D (s.m_orderedOps.zip s.m_xformops) hz
    { s with m_time := time }
  have hf := foldlM_updateOp_timeFrame D _ _ s' hs'
  refine ⟨s', hrun.trans hs', ?_, ?_, ?_, ?_, ?_⟩
  · obtain ⟨-, -, -, -, -, -, -, h1, h2, h3, h4, -⟩ := hf
    exact ⟨h1, h2, h3, h4⟩
  · intro op hop hs
    obtain ⟨k1, k2⟩ := refresh_translate D { s with m_time := time } s' op hz hop hs hs'
    exact ⟨k1, by rw [k1]; exact k2⟩
  · intro op hop hs
    obtain ⟨k1, k2⟩ := refresh_rotate D { s with m_time := time } s' op hz hop hs hs'
    exact ⟨k1, by rw [k1]; exact k2⟩
  · intro op hop hs
    obtain ⟨k1, k2⟩ := refresh_scale D { s with m_time := time } s' op hz hop hs hs'
    exact ⟨k1, by rw [k1]; exact k2⟩
  · intro op hop hs
    obtain ⟨k1, k2⟩ := refresh_shear D { s with m_time := time } s' op hz hop hs hs'
    exact ⟨k1, by rw [k1]; exact k2⟩

theorem C19_time_refresh_blends_tweak_witness :
    tweakedAnimatedEngine.primValid = true ∧
    tweakedAnimatedEngine.m_time ≠ .time 2 ∧
    translateOp.GetNumTimeSamples tweakedAnimatedEngine.stage = 2 ∧
    ∃ s', tweakedAnimatedEngine.updateToTime Decomposer.sample (.time 2) = some s' ∧
      s'.m_translationTweak = ⟨10, 0, 0⟩ ∧
      s'.m_translationFromUsd = ⟨1, 1, 1⟩ ∧
      s'.translationValue = ⟨11, 1, 1⟩ := by
  obtain ⟨s', hs', htw, htr, -⟩ := C19_time_refresh_blends_tweak Decomposer.sample
    tweakedAnimatedEngine (.time 2) (by decide) (by decide) (by decide) (by decide) (by decide)
  have hop : IsTheOp tweakedAnimatedEngine .translate translateOp := by
    unfold IsTheOp
    exact ⟨⟨⟨.translate, .TypeTranslate, false⟩, by decide, rfl⟩, by decide⟩
  obtain ⟨k1, k2⟩ := htr translateOp hop (by decide)
  have hread : (readVector tweakedAnimatedEngine.stage tweakedAnimatedEngine.m_translationFromUsd
      translateOp (if tweakedAnimatedEngine.readAnimatedValues then .time 2 else .Default)).2
      = ⟨1, 1, 1⟩ := by decide!
  rw [hread] at k1
  rw [k1] at k2
  refine ⟨by decide, by decide, by decide, s', hs', htw.1, k1, ?_⟩
  rw [k2]
  decide!

/-- C20, as stated, fails: the translate operator of `oneSampleTranslateStage` carries exactly
one time sample, so `initialiseToPrim` leaves the animated-translation flag clear and reads the
default value (1, 2, 3); the next `updateToTime` to time 5 sets the flag and replaces the
fromUsd and the live translation with the sample (4, 5, 6). -/
theorem C20_counterexample :
    translateOp.GetNumTimeSamples oneSampleEngine.stage = 1 ∧
    (initialiseToPrim Host.sample Decomposer.sample .kSuccess oneSampleEngine true true).map
        (fun s => (hasFlag s.m_flags kAnyKnownSchema, hasFlag s.m_flags kFromMatrix,
          hasFlag s.m_flags kAnimatedTranslation, s.m_translationFromUsd, s.translationValue))
      = some (true, false, false, ⟨1, 2, 3⟩, ⟨1, 2, 3⟩) ∧
    ((initialiseToPrim Host.sample Decomposer.sample .kSuccess oneSampleEngine true true).bind
        (fun s => s.updateToTime Decomposer.sample (.time 5))).map
        (fun s => (hasFlag s.m_flags kAnimatedTranslation, s.m_translationFromUsd,
          s.translationValue))
      = some (true, ⟨4, 5, 6⟩, ⟨4, 5, 6⟩) := by
  refine ⟨by decide, by decide!, by decide!⟩

theorem updateOp_matrix_flag (D : Decomposer) (t : TransformationMatrix)
    (c : UsdMayaXformOpClassification) (op : UsdGeomXformOp) (t' : TransformationMatrix)
    (hnt : c.name ≠ .transform) (h : updateOp D t c op = some t') :
    hasFlag t'.m_flags kAnimatedMatrix = hasFlag t.m_flags kAnimatedMatrix := by
  unfold updateOp at h
  cases hc : c.name <;> simp only [hc] at h
  case transform => exact absurd hc hnt
  case translate =>
    split_ifs at h <;> simp only [Option.some.injEq] at h <;> rw [← h]
    exact hasFlag_setFlag_other _ _ _ (by decide)
  case rotate =>
    split_ifs at h <;> simp only [Option.some.injEq] at h <;> rw [← h]
    exact hasFlag_setFlag_other _ _ _ (by decide)
  case scale =>
    split_ifs at h <;> simp only [Option.some.injEq] at h <;> rw [← h]
    exact hasFlag_setFlag_other _ _ _ (by decide)
  case shear =>
    split_ifs at h <;> simp only [Option.some.injEq] at h <;> rw [← h]
    exact hasFlag_setFlag_other _ _ _ (by decide)
  all_goals
    simp only [Option.some.injEq] at h
    rw [← h]

theorem foldlM_updateOp_matrix_flag (D : Decomposer) (s1 s' : TransformationMatrix)
    (hnt : ∀ p ∈ s1.m_orderedOps.zip s1.m_xformops, p.1.name ≠ .transform)
    (hfold : (s1.m_orderedOps.zip s1.m_xformops).foldlM (fun t p => updateOp D t p.1 p.2) s1
      = some s') :
    hasFlag s'.m_flags kAnimatedMatrix = hasFlag s1.m_flags kAnimatedMatrix :=
  foldlM_updateOp_inv D (s1.m_orderedOps.zip s1.m_xformops)
    (fun t => hasFlag t.m_flags kAnimatedMatrix = hasFlag s1.m_flags kAnimatedMatrix)
    (fun t p t' hp hq h => (updateOp_matrix_flag D t p.1 p.2 t' (hnt p hp) h).trans hq)
    s1 s' rfl hfold

theorem static_translate (D : Decomposer) (s1 s' : TransformationMatrix)
    (hnt : ∀ p ∈ s1.m_orderedOps.zip s1.m_xformops, p.1.name ≠ .transform)
    (hst : IsStatic s1 .translate)
    (hfold : (s1.m_orderedOps.zip s1.m_xformops).foldlM (fun t p => updateOp D t p.1 p.2) s1
      = some s') :
    s'.m_translationFromUsd = s1.m_translationFromUsd ∧
    s'.translationValue = s1.translationValue ∧
    hasFlag s'.m_flags kAnimatedTranslation = hasFlag s1.m_flags kAnimatedTranslation := by
  have key := foldlM_updateOp_inv D (s1.m_orderedOps.zip s1.m_xformops)
    (fun t => t.stage = s1.stage ∧ t.m_translationFromUsd = s1.m_translationFromUsd ∧
      t.translationValue = s1.translationValue ∧
      hasFlag t.m_flags kAnimatedTranslation = hasFlag s1.m_flags kAnimatedTranslation)
    (by
      intro t p t' hp hq h
      obtain ⟨hstg, a, b, c⟩ := hq
      have hn : p.1.name ≠ .translate ∨ p.2.GetNumTimeSamples t.stage = 0 := by
        by_cases hn : p.1.name = .translate
        · exact Or.inr (by rw [hstg]; exact hst p hp hn)
        · exact Or.inl hn
      obtain ⟨k1, k2, k3⟩ := updateOp_translate_keep D t p.1 p.2 t' hn (hnt p hp) h
      exact ⟨(updateOp_timeFrame D t p.1 p.2 t' h).1.trans hstg, k1.trans a, k2.trans b,
        k3.trans c⟩)
    s1 s' ⟨rfl, rfl, rfl, rfl⟩ hfold
  exact key.2

theorem static_rotate (D : Decomposer) (s1 s' : TransformationMatrix)
    (hnt : ∀ p ∈ s1.m_orderedOps.zip s1.m_xformops, p.1.name ≠ .transform)
    (hst : IsStatic s1 .rotate)
    (hfold : (s1.m_orderedOps.zip s1.m_xformops).foldlM (fun t p => updateOp D t p.1 p.2) s1
      = some s') :
    s'.m_rotationFromUsd = s1.m_rotationFromUsd ∧
    s'.rotationValue = s1.rotationValue ∧
    hasFlag s'.m_flags kAnimatedRotation = hasFlag s1.m_flags kAnimatedRotation := by
  have key := foldlM_updateOp_inv D (s1.m_orderedOps.zip s1.m_xformops)
    (fun t => t.stage = s1.stage ∧ t.m_rotationFromUsd = s1.m_rotationFromUsd ∧
      t.rotationValue = s1.rotationValue ∧
      hasFlag t.m_flags kAnimatedRotation = hasFlag s1.m_flags kAnimatedRotation)
    (by
      intro t p t' hp hq h
      obtain ⟨hstg, a, b, c⟩ := hq
      have hn : p.1.name ≠ .rotate ∨ p.2.GetNumTimeSamples t.stage = 0 := by
        by_cases hn : p.1.name = .rotate
        · exact Or.inr (by rw [hstg]; exact hst p hp hn)
        · exact Or.inl hn
      obtain ⟨k1, k2, k3⟩ := updateOp_rotate_keep D t p.1 p.2 t' hn (hnt p hp) h
      exact ⟨(updateOp_timeFrame D t p.1 p.2 t' h).1.trans hstg, k1.trans a, k2.trans b,
        k3.trans c⟩)
    s1 s' ⟨rfl, rfl, rfl, rfl⟩ hfold
  exact key.2

theorem static_scale (D : Decomposer) (s1 s' : TransformationMatrix)
    (hnt : ∀ p ∈ s1.m_orderedOps.zip s1.m_xformops, p.1.name ≠ .transform)
    (hst : IsStatic s1 .scale)
    (hfold : (s1.m_orderedOps.zip s1.m_xformops).foldlM (fun t p => updateOp D t p.1 p.2) s1
      = some s') :
    s'.m_scaleFromUsd = s1.m_scaleFromUsd ∧
    s'.scaleValue = s1.scaleValue ∧
    hasFlag s'.m_flags kAnimatedScale = hasFlag s1.m_flags kAnimatedScale := by
  have key := foldlM_updateOp_inv D (s1.m_orderedOps.zip s1.m_xformops)
    (fun t => t.stage = s1.stage ∧ t.m_scaleFromUsd = s1.m_scaleFromUsd ∧
      t.scaleValue = s1.scaleValue ∧
      hasFlag t.m_flags kAnimatedScale = hasFlag s1.m_flags kAnimatedScale)
    (by
      intro t p t' hp hq h
      obtain ⟨hstg, a, b, c⟩ := hq
      have hn : p.1.name ≠ .scale ∨ p.2.GetNumTimeSamples t.stage = 0 := by
        by_cases hn : p.1.name = .scale
        · exact Or.inr (by rw [hstg]; exact hst p hp hn)
        · exact Or.inl hn
      obtain ⟨k1, k2, k3⟩ := updateOp_scale_keep D t p.1 p.2 t' hn (hnt p hp) h
      exact ⟨(updateOp_timeFrame D t p.1 p.2 t' h).1.trans hstg, k1.trans a, k2.trans b,
        k3.trans c⟩)
    s1 s' ⟨rfl, rfl, rfl, rfl⟩ hfold
  exact key.2

theorem static_shear (D : Decomposer) (s1 s' : TransformationMatrix)
    (hnt : ∀ p ∈ s1.m_orderedOps.zip s1.m_xformops, p.1.name ≠ .transform)
    (hst : IsStatic s1 .shear)
    (hfold : (s1.m_orderedOps.zip s1.m_xformops).foldlM (fun t p => updateOp D t p.1 p.2) s1
      = some s') :
    s'.m_shearFromUsd = s1.m_shearFromUsd ∧
    s'.shearValue = s1.shearValue ∧
    hasFlag s'.m_flags kAnimatedShear = hasFlag s1.m_flags kAnimatedShear := by
  have key := foldlM_updateOp_inv D (s1.m_orderedOps.zip s1.m_xformops)
    (fun t => t.stage = s1.stage ∧ t.m_shearFromUsd = s1.m_shearFromUsd ∧
      t.shearValue = s1.shearValue ∧
      hasFlag t.m_flags kAnimatedShear = hasFlag s1.m_flags kAnimatedShear)
    (by
      intro t p t' hp hq h
      obtain ⟨hstg, a, b, c⟩ := hq
      have hn : p.1.name ≠ .shear ∨ p.2.GetNumTimeSamples t.stage = 0 := by
        by_cases hn : p.1.name = .shear
        · exact Or.inr (by rw [hstg]; exact hst p hp hn)
        · exact Or.inl hn
      obtain ⟨k1, k2, k3⟩ := updateOp_shear_keep D t p.1 p.2 t' hn (hnt p hp) h
      exact ⟨(updateOp_timeFrame D t p.1 p.2 t' h).1.trans hstg, k1.trans a, k2.trans b,
        k3.trans c⟩)
    s1 s' ⟨rfl, rfl, rfl, rfl⟩ hfold
  exact key.2

theorem updateToTime_cases (D : Decomposer) (s : TransformationMatrix) (time : UsdTimeCode)
    (hk : hasFlag s.m_flags kAnyKnownSchema = true)
    (hlen : s.m_xformops.length ≤ s.m_orderedOps.length) :
    s.updateToTime D time = some s ∨
    s.updateToTime D time
      = (s.m_orderedOps.zip s.m_xformops).foldlM (fun t p => updateOp D t p.1 p.2)
          { s with m_time := time } := by
  by_cases hv : s.primValid = true
  · by_cases ht : s.m_time = time
    · left
      unfold updateToTime
      rw [if_neg (by rw [hv]; decide), if_neg (not_not.mpr ht)]
    · exact Or.inr (updateToTime_known D s time hv ht hk hlen)
  · left
    unfold updateToTime
    rw [if_pos (by rw [Bool.not_eq_true] at hv; rw [hv]; rfl)]

/-- C20, as amended (components without a time sample are left untouched by a time change): on
a component-schema engine (a known schema flag, the operator list walked in lockstep with its
classifications, no `transform` entry) `updateToTime` returns, and each of translate, rotate,
scale and shear whose operator is absent or carries no time sample keeps its fromUsd value, its
live value and its animated flag; the animated-matrix flag and the pivot, pivot-translation and
rotate-orientation channels are as before as well. -/
theorem C20_static_components_untouched (D : Decomposer) (s : TransformationMatrix)
    (time : UsdTimeCode) (hk : hasFlag s.m_flags kAnyKnownSchema = true)
    (hlen : s.m_orderedOps.length = s.m_xformops.length)
    (hnt : ∀ c ∈ s.m_orderedOps, c.name ≠ .transform) :
    ∃ s', s.updateToTime D time = some s' ∧
      (IsStatic s .translate →
        s'.m_translationFromUsd = s.m_translationFromUsd ∧
        s'.translationValue = s.translationValue ∧
        hasFlag s'.m_flags kAnimatedTranslation = hasFlag s.m_flags kAnimatedTranslation) ∧
      (IsStatic s .rotate →
        s'.m_rotationFromUsd = s.m_rotationFromUsd ∧
        s'.rotationValue = s.rotationValue ∧
        hasFlag s'.m_flags kAnimatedRotation = hasFlag s.m_flags kAnimatedRotation) ∧
      (IsStatic s .scale →
        s'.m_scaleFromUsd = s.m_scaleFromUsd ∧
        s'.scaleValue = s.scaleValue ∧
        hasFlag s'.m_flags kAnimatedScale = hasFlag s.m_flags kAnimatedScale) ∧
      (IsStatic s .shear →
        s'.m_shearFromUsd = s.m_shearFromUsd ∧
        s'.shearValue = s.shearValue ∧
        hasFlag s'.m_flags kAnimatedShear = hasFlag s.m_flags kAnimatedShear) ∧
      hasFlag s'.m_flags kAnimatedMatrix = hasFlag s.m_flags kAnimatedMatrix ∧
      (s'.m_scalePivotFromUsd = s.m_scalePivotFromUsd ∧
        s'.m_scalePivotTranslationFromUsd = s.m_scalePivotTranslationFromUsd ∧
        s'.m_rotatePivotFromUsd = s.m_rotatePivotFromUsd ∧
        s'.m_rotatePivotTranslationFromUsd = s.m_rotatePivotTranslationFromUsd ∧
        s'.m_rotateOrientationFromUsd = s.m_rotateOrientationFromUsd) ∧
      (s'.scalePivotValue = s.scalePivotValue ∧
        s'.scalePivotTranslationValue = s.scalePivotTranslationValue ∧
        s'.rotatePivotValue = s.rotatePivotValue ∧
        s'.rotatePivotTranslationValue = s.rotatePivotTranslationValue ∧
        s'.rotateOrientationValue = s.rotateOrientationValue) := by
  have hz : ∀ p ∈ s.m_orderedOps.zip s.m_xformops, p.1.name ≠ .transform :=
    fun p hp => hnt p.1 (List.of_mem_zip hp).1
  rcases updateToTime_cases D s time hk (le_of_eq hlen.symm) with h | h
  · exact ⟨s, h, fun _ => ⟨rfl, rfl, rfl⟩, fun _ => ⟨rfl, rfl, rfl⟩, fun _ => ⟨rfl, rfl, rfl⟩,
      fun _ => ⟨rfl, rfl, rfl⟩, rfl, ⟨rfl, rfl, rfl, rfl, rfl⟩, ⟨rfl, rfl, rfl, rfl, rfl⟩⟩
  · obtain ⟨s', hs'⟩ := foldlM_updateOp_total D (s.m_orderedOps.zip s.m_xformops) hz
      { s with m_time := time }
    obtain ⟨-, -, -, -, -, -, -, -, -, -, -, -, -, -, -, -, f1, f2, f3, f4, f5, v1, v2, v3, v4,
      v5⟩ := foldlM_updateOp_timeFrame D _ _ s' hs'
    exact ⟨s', h.trans hs',
      fun hst => static_translate D { s with m_time := time } s' hz hst hs',
      fun hst => static_rotate D { s with m_time := time } s' hz hst hs',
      fun hst => static_scale D { s with m_time := time } s' hz hst hs',
      fun hst => static_shear D { s with m_time := time } s' hz hst hs',
      foldlM_updateOp_matrix_flag D { s with m_time := time } s' hz hs',
      ⟨f1, f2, f3, f4, f5⟩, ⟨v1, v2, v3, v4, v5⟩⟩

theorem C20_static_components_untouched_witness :
    hasFlag translateOnlyEngine.m_flags kAnyKnownSchema = true ∧
    translateOp.GetNumTimeSamples translateOnlyEngine.stage = 0 ∧
    translateOnlyEngine.m_time ≠ .time 5 ∧
    ∃ s', translateOnlyEngine.updateToTime Decomposer.sample (.time 5) = some s' ∧
      s'.m_translationFromUsd = translateOnlyEngine.m_translationFromUsd ∧
      s'.translationValue = translateOnlyEngine.translationValue ∧
      hasFlag s'.m_flags kAnimatedTranslation = false := by
  obtain ⟨s', hs', htr, -⟩ := C20_static_components_untouched Decomposer.sample
    translateOnlyEngine (.time 5) (by decide) (by decide) (by decide)
  have hst : IsStatic translateOnlyEngine .translate := by
    unfold IsStatic
    decide
  obtain ⟨k1, k2, k3⟩ := htr hst
  exact ⟨by decide, by decide, by decide, s', hs', k1, k2, k3.trans (by decide)⟩

/-! ## Setters: locks, lazy insertion, failed insertion (C21, C22, C23, C24) -/

/-- C21 (locked channels are a pure pass-through): when the translate (scale, shear, rotate)
channel is locked, `translateTo` (`scaleTo`, `shearTo`, either overload of `rotateTo`) returns
the status of the base class and the engine with the base-class part replaced by the result of
the base class and nothing else changed: the tweak and fromUsd value of the channel, `m_flags`,
the three operator lists and the backing store, journal included, are as before. -/
theorem C21_locked_channels_pass_through (H : Host) (s : TransformationMatrix)
    (baseStatus : MStatus) (space : MSpace) :
    (s.translateLocked = true → ∀ v : MVector,
      ∃ r, s.translateTo H baseStatus v space = some r ∧
        r.1 = (baseTranslateTo s.toMPxTransformationMatrix baseStatus v space).1 ∧
        r.2 = { s with toMPxTransformationMatrix :=
                  (baseTranslateTo s.toMPxTransformationMatrix baseStatus v space).2 } ∧
        r.2.m_translationTweak = s.m_translationTweak ∧
        r.2.m_translationFromUsd = s.m_translationFromUsd ∧
        r.2.m_flags = s.m_flags ∧ r.2.m_orderedOps = s.m_orderedOps ∧
        r.2.m_xformops = s.m_xformops ∧
        r.2.m_orderedOpMayaIndices = s.m_orderedOpMayaIndices ∧ r.2.stage = s.stage) ∧
    (s.scaleLocked = true → ∀ v : MVector,
      ∃ r, s.scaleTo H baseStatus v space = some r ∧
        r.1 = (baseScaleTo s.toMPxTransformationMatrix baseStatus v space).1 ∧
        r.2 = { s with toMPxTransformationMatrix :=
                  (baseScaleTo s.toMPxTransformationMatrix baseStatus v space).2 } ∧
        r.2.m_scaleTweak = s.m_scaleTweak ∧ r.2.m_scaleFromUsd = s.m_scaleFromUsd ∧
        r.2.m_flags = s.m_flags ∧ r.2.m_orderedOps = s.m_orderedOps ∧
        r.2.m_xformops = s.m_xformops ∧
        r.2.m_orderedOpMayaIndices = s.m_orderedOpMayaIndices ∧ r.2.stage = s.stage) ∧
    (s.shearLocked = true → ∀ v : MVector,
      ∃ r, s.shearTo H baseStatus v space = some r ∧
        r.1 = (baseShearTo s.toMPxTransformationMatrix baseStatus v space).1 ∧
        r.2 = { s with toMPxTransformationMatrix :=
                  (baseShearTo s.toMPxTransformationMatrix baseStatus v space).2 } ∧
        r.2.m_shearTweak = s.m_shearTweak ∧ r.2.m_shearFromUsd = s.m_shearFromUsd ∧
        r.2.m_flags = s.m_flags ∧ r.2.m_orderedOps = s.m_orderedOps ∧
        r.2.m_xformops = s.m_xformops ∧
        r.2.m_orderedOpMayaIndices = s.m_orderedOpMayaIndices ∧ r.2.stage = s.stage) ∧
    (s.rotateLocked = true → ∀ e : MEulerRotation,
      ∃ r, s.rotateTo H baseStatus e space = some r ∧
        r.1 = (baseRotateTo s.toMPxTransformationMatrix baseStatus e space).1 ∧
        r.2 = { s with toMPxTransformationMatrix :=
                  (baseRotateTo s.toMPxTransformationMatrix baseStatus e space).2 } ∧
        r.2.m_rotationTweak = s.m_rotationTweak ∧ r.2.m_rotationFromUsd = s.m_rotationFromUsd ∧
        r.2.m_flags = s.m_flags ∧ r.2.m_orderedOps = s.m_orderedOps ∧
        r.2.m_xformops = s.m_xformops ∧
        r.2.m_orderedOpMayaIndices = s.m_orderedOpMayaIndices ∧ r.2.stage = s.stage) ∧
    (s.rotateLocked = true → ∀ q : MQuaternion,
      ∃ r, s.rotateToQuaternion H baseStatus q space = some r ∧
        r.1 = (baseRotateTo s.toMPxTransformationMatrix baseStatus (H.asEulerRotation q)
                space).1 ∧
        r.2 = { s with toMPxTransformationMatrix :=
                  (baseRotateTo s.toMPxTransformationMatrix baseStatus (H.asEulerRotation q)
                    space).2 } ∧
        r.2.m_rotationTweak = s.m_rotationTweak ∧ r.2.m_rotationFromUsd = s.m_rotationFromUsd ∧
        r.2.m_flags = s.m_flags ∧ r.2.m_orderedOps = s.m_orderedOps ∧
        r.2.m_xformops = s.m_xformops ∧
        r.2.m_orderedOpMayaIndices = s.m_orderedOpMayaIndices ∧ r.2.stage = s.stage) := by
  refine ⟨?_, ?_, ?_, ?_, ?_⟩
  · intro hl v
    refine ⟨((baseTranslateTo s.toMPxTransformationMatrix baseStatus v space).1,
      { s with toMPxTransformationMatrix :=
          (baseTranslateTo s.toMPxTransformationMatrix baseStatus v space).2 }), ?_,
      rfl, rfl, rfl, rfl, rfl, rfl, rfl, rfl, rfl⟩
    unfold translateTo
    simp only [hl, if_true]
  · intro hl v
    refine ⟨((baseScaleTo s.toMPxTransformationMatrix baseStatus v space).1,
      { s with toMPxTransformationMatrix :=
          (baseScaleTo s.toMPxTransformationMatrix baseStatus v space).2 }), ?_,
      rfl, rfl, rfl, rfl, rfl, rfl, rfl, rfl, rfl⟩
    unfold scaleTo
    simp only [hl, if_true]
  · intro hl v
    refine ⟨((baseShearTo s.toMPxTransformationMatrix baseStatus v space).1,
      { s with toMPxTransformationMatrix :=
          (baseShearTo s.toMPxTransformationMatrix baseStatus v space).2 }), ?_,
      rfl, rfl, rfl, rfl, rfl, rfl, rfl, rfl, rfl⟩
    unfold shearTo
    simp only [hl, if_true]
  · intro hl e
    refine ⟨((baseRotateTo s.toMPxTransformationMatrix baseStatus e space).1,
      { s with toMPxTransformationMatrix :=
          (baseRotateTo s.toMPxTransformationMatrix baseStatus e space).2 }), ?_,
      rfl, rfl, rfl, rfl, rfl, rfl, rfl, rfl, rfl⟩
    unfold rotateTo
    simp only [hl, if_true]
  · intro hl q
    refine ⟨((baseRotateTo s.toMPxTransformationMatrix baseStatus (H.asEulerRotation q) space).1,
      { s with toMPxTransformationMatrix :=
          (baseRotateTo s.toMPxTransformationMatrix baseStatus (H.asEulerRotation q) space).2 }), ?_,
      rfl, rfl, rfl, rfl, rfl, rfl, rfl, rfl, rfl⟩
    unfold rotateToQuaternion
    simp only [hl, if_true]

theorem C21_locked_channels_pass_through_witness :
    lockedEngine.translateLocked = true ∧ lockedEngine.pushToPrimAvailable = true ∧
    (lockedEngine.translateTo Host.sample .kSuccess ⟨1, 0, 0⟩ .kTransform).map
        (fun r => (r.1, r.2.translationValue, r.2.m_translationTweak, r.2.m_translationFromUsd,
          r.2.m_xformops, r.2.stage.journal))
      = some (.kSuccess, ⟨1, 0, 0⟩, MVector.zero, MVector.zero, [], []) := by
  obtain ⟨ht, -⟩ := C21_locked_channels_pass_through Host.sample lockedEngine .kSuccess
    .kTransform
  obtain ⟨r, hr, h1, h2, -⟩ := ht (by decide) ⟨1, 0, 0⟩
  refine ⟨by decide, by decide, ?_⟩
  rw [hr, Option.map_some', h2, h1]
  rfl

/-- C24 (rotation order cannot be changed): for every rotation order, every boolean argument
and every state, `setRotationOrder` returns failure together with the state it was given: live
values, fromUsd values, tweaks, flags, operator lists and the backing store are unchanged. -/
theorem C24_rotation_order_cannot_be_changed (s : TransformationMatrix)
    (order : RotationOrder) (reorder : Bool) :
    (s.setRotationOrder order reorder).1 = .kFailure ∧
    (s.setRotationOrder order reorder).2 = s ∧
    (s.setRotationOrder order reorder).2.stage = s.stage := by
  unfold setRotationOrder
  exact ⟨rfl, rfl, rfl⟩

theorem onlySets_same (st : UsdStage) : OnlySets st st := ⟨rfl, rfl, rfl, rfl⟩

theorem onlySets_chain {a b c : UsdStage} (h1 : OnlySets a b) (h2 : OnlySets b c) :
    OnlySets a c :=
  ⟨h1.1.trans h2.1, h1.2.1.trans h2.2.1, h1.2.2.1.trans h2.2.2.1, h1.2.2.2.trans h2.2.2.2⟩

theorem onlySets_Set (stage : UsdStage) (op : UsdGeomXformOp) (value : VtValue)
    (time : UsdTimeCode) : OnlySets (op.Set stage value time).2 stage := by
  unfold UsdGeomXformOp.Set OnlySets
  simp only []
  split_ifs
  · simp [countAdds, countOrderWrites, List.filter_append]
  · split <;> simp [countAdds, countOrderWrites, List.filter_append]

theorem onlySets_setIfChanged (stage : UsdStage) (op : UsdGeomXformOp) (value : VtValue)
    (getTime setTime : UsdTimeCode) :
    OnlySets (setIfChanged stage op value getTime setTime).2 stage := by
  unfold setIfChanged
  split_ifs
  · exact onlySets_Set _ _ _ _
  · exact onlySets_same _

theorem onlySets_pushVector (H : Host) (stage : UsdStage) (v : MVector) (op : UsdGeomXformOp)
    (tc : UsdTimeCode) : OnlySets (pushVector H stage v op tc).2 stage := by
  unfold pushVector
  split
  · exact onlySets_same _
  · split_ifs
    · exact onlySets_same _
    · split <;> first | exact onlySets_setIfChanged _ _ _ _ _ | exact onlySets_same _

theorem onlySets_pushPoint (H : Host) (stage : UsdStage) (v : MPoint) (op : UsdGeomXformOp)
    (tc : UsdTimeCode) : OnlySets (pushPoint H stage v op tc).2 stage := by
  unfold pushPoint
  split_ifs
  · exact onlySets_same _
  · split <;> first | exact onlySets_setIfChanged _ _ _ _ _ | exact onlySets_same _

theorem onlySets_pushShear (stage : UsdStage) (v : MVector) (op : UsdGeomXformOp)
    (tc : UsdTimeCode) : OnlySets (pushShear stage v op tc).2 stage := by
  unfold pushShear
  split_ifs
  · exact onlySets_same _
  · split <;> first | exact onlySets_setIfChanged _ _ _ _ _ | exact onlySets_same _

theorem onlySets_pushMatrix (stage : UsdStage) (m : MMatrix) (op : UsdGeomXformOp)
    (tc : UsdTimeCode) : OnlySets (pushMatrix stage m op tc).2 stage := by
  unfold pushMatrix
  dsimp only
  split_ifs <;> (try split) <;>
    first | exact onlySets_Set _ _ _ _ | exact onlySets_same _

theorem onlySets_pushDouble (H : Host) (stage : UsdStage) (x : ℚ) (op : UsdGeomXformOp)
    (tc : UsdTimeCode) : OnlySets (pushDouble H stage x op tc) stage := by
  unfold pushDouble
  split_ifs
  · exact onlySets_same _
  · split <;> first | exact onlySets_setIfChanged _ _ _ _ _ | exact onlySets_same _

theorem onlySets_pushRotation (H : Host) (stage : UsdStage) (e : MEulerRotation)
    (op : UsdGeomXformOp) (tc : UsdTimeCode) :
    OnlySets (pushRotation H stage e op tc).2 stage := by
  unfold pushRotation
  split_ifs
  · exact onlySets_same _
  · split <;>
      first
      | exact onlySets_pushDouble _ _ _ _ _
      | exact onlySets_pushVector _ _ _ _ _
      | exact onlySets_same _

theorem noInsertion_same (s : TransformationMatrix) : NoInsertion s s :=
  ⟨rfl, rfl, rfl, rfl, rfl, onlySets_same _⟩

theorem noInsertion_chain {a b c : TransformationMatrix} (h1 : NoInsertion a b)
    (h2 : NoInsertion b c) : NoInsertion a c :=
  ⟨h1.1.trans h2.1, h1.2.1.trans h2.2.1, h1.2.2.1.trans h2.2.2.1,
    h1.2.2.2.1.trans h2.2.2.2.1, h1.2.2.2.2.1.trans h2.2.2.2.2.1,
    onlySets_chain h1.2.2.2.2.2 h2.2.2.2.2.2⟩

theorem noInsertion_pushTransformToPrim (H : Host) (t : TransformationMatrix) :
    NoInsertion (t.pushTransformToPrim H) t := by
  unfold pushTransformToPrim
  split
  · split_ifs
    · exact ⟨rfl, rfl, rfl, rfl, rfl, onlySets_pushMatrix _ _ _ _⟩
    · exact noInsertion_same _
  · exact noInsertion_same _

theorem noInsertion_writeback (H : Host) (t : TransformationMatrix) :
    NoInsertion (if t.m_enableUsdWriteback = true then t.pushTransformToPrim H else t) t := by
  split_ifs
  · exact noInsertion_pushTransformToPrim H t
  · exact noInsertion_same _

theorem noInsertion_pushTranslateToPrim (H : Host) (t : TransformationMatrix) :
    NoInsertion (t.pushTranslateToPrim H) t := by
  unfold pushTranslateToPrim
  split
  · dsimp only
    split_ifs
    · exact ⟨rfl, rfl, rfl, rfl, rfl, onlySets_pushVector _ _ _ _ _⟩
    · exact noInsertion_same _
  · exact noInsertion_writeback H t

theorem noInsertion_pushScaleToPrim (H : Host) (t : TransformationMatrix) :
    NoInsertion (t.pushScaleToPrim H) t := by
  unfold pushScaleToPrim
  split
  · dsimp only
    split_ifs
    · exact ⟨rfl, rfl, rfl, rfl, rfl, onlySets_pushVector _ _ _ _ _⟩
    · exact noInsertion_same _
  · exact noInsertion_writeback H t

theorem noInsertion_pushShearToPrim (H : Host) (t : TransformationMatrix) :
    NoInsertion (t.pushShearToPrim H) t := by
  unfold pushShearToPrim
  split
  · exact ⟨rfl, rfl, rfl, rfl, rfl, onlySets_pushShear _ _ _ _⟩
  · exact noInsertion_writeback H t

theorem noInsertion_pushRotateToPrim (H : Host) (t : TransformationMatrix) :
    NoInsertion (t.pushRotateToPrim H) t := by
  unfold pushRotateToPrim
  split
  · dsimp only
    split_ifs
    · exact ⟨rfl, rfl, rfl, rfl, rfl, onlySets_pushRotation _ _ _ _ _⟩
    · exact noInsertion_same _
  · exact noInsertion_writeback H t

theorem noInsertion_pushRotateAxisToPrim (H : Host) (t : TransformationMatrix) :
    NoInsertion (t.pushRotateAxisToPrim H) t := by
  unfold pushRotateAxisToPrim
  split
  · dsimp only
    split_ifs
    · exact ⟨rfl, rfl, rfl, rfl, rfl, onlySets_pushVector _ _ _ _ _⟩
    · exact noInsertion_same _
  · exact noInsertion_writeback H t

theorem noInsertion_pushScalePivotToPrim (H : Host) (t : TransformationMatrix) :
    NoInsertion (t.pushScalePivotToPrim H) t := by
  unfold pushScalePivotToPrim
  split
  · dsimp only
    split_ifs
    · exact ⟨rfl, rfl, rfl, rfl, rfl, onlySets_pushPoint _ _ _ _ _⟩
    · exact noInsertion_same _
  · exact noInsertion_writeback H t

theorem noInsertion_pushRotatePivotToPrim (H : Host) (t : TransformationMatrix) :
    NoInsertion (t.pushRotatePivotToPrim H) t := by
  unfold pushRotatePivotToPrim
  split
  · dsimp only
    split_ifs
    · exact ⟨rfl, rfl, rfl, rfl, rfl, onlySets_pushPoint _ _ _ _ _⟩
    · exact noInsertion_same _
  · exact noInsertion_writeback H t

theorem noInsertion_pushPivotToPrim (H : Host) (t : TransformationMatrix) :
    NoInsertion (t.pushPivotToPrim H) t := by
  unfold pushPivotToPrim
  split
  · dsimp only
    split_ifs
    · exact ⟨rfl, rfl, rfl, rfl, rfl, onlySets_pushPoint _ _ _ _ _⟩
    · exact noInsertion_same _
  · exact noInsertion_writeback H t

theorem noInsertion_pushScalePivotTranslateToPrim (H : Host) (t : TransformationMatrix) :
    NoInsertion (t.pushScalePivotTranslateToPrim H) t := by
  unfold pushScalePivotTranslateToPrim
  split
  · dsimp only
    split_ifs
    · exact ⟨rfl, rfl, rfl, rfl, rfl, onlySets_pushVector _ _ _ _ _⟩
    · exact noInsertion_same _
  · exact noInsertion_writeback H t

theorem noInsertion_pushRotatePivotTranslateToPrim (H : Host) (t : TransformationMatrix) :
    NoInsertion (t.pushRotatePivotTranslateToPrim H) t := by
  unfold pushRotatePivotTranslateToPrim
  split
  · dsimp only
    split_ifs
    · exact ⟨rfl, rfl, rfl, rfl, rfl, onlySets_pushPoint _ _ _ _ _⟩
    · exact noInsertion_same _
  · exact noInsertion_writeback H t

theorem insertOp_single_fail (s : TransformationMatrix) (ty : XformOpType) (pr : Precision)
    (nm : TfToken) (flag : Flags) (beg : Bool) (cls : UsdMayaXformOpClassification)
    (hp : (MayaStack.FindOpIndexPair nm).2 = NO_INDEX)
    (hc : MayaStack.ops[(MayaStack.FindOpIndexPair nm).1]? = some cls)
    (ha : (AddXformOp s.primValid s.stage ty pr nm cls.isInvertedTwin).1 = none) :
    s.insertOp ty pr nm flag beg = some (.kFailure, s.buildOrderedOpMayaIndices) := by
  have ha' : (AddXformOp s.buildOrderedOpMayaIndices.primValid
      s.buildOrderedOpMayaIndices.stage ty pr nm cls.isInvertedTwin).1 = none := by
    rw [primValid_build, (buildOrderedOpMayaIndices_frame s).2.2.2]
    exact ha
  unfold insertOp
  simp only [hp, ne_eq, not_true_eq_false, if_false, false_and]
  rw [addOp_fail _ ty pr nm _ beg cls hc ha']
  simp only [if_true]

theorem insertOp_single_fail_iff (s : TransformationMatrix) (ty : XformOpType) (pr : Precision)
    (nm : TfToken) (flag : Flags) (beg : Bool) (cls : UsdMayaXformOpClassification)
    (hp : (MayaStack.FindOpIndexPair nm).2 = NO_INDEX)
    (hc : MayaStack.ops[(MayaStack.FindOpIndexPair nm).1]? = some cls) :
    (∃ s', s.insertOp ty pr nm flag beg = some (.kFailure, s')) ↔
      (AddXformOp s.primValid s.stage ty pr nm cls.isInvertedTwin).1 = none := by
  constructor
  · rintro ⟨s', h⟩
    rcases insertOp_cases s ty pr nm flag beg .kFailure s' h with
      ⟨-, r, s2, hadd, hcase⟩ | ⟨hne, -⟩
    · obtain ⟨cls', hc', hres⟩ := addOp_cases _ ty pr nm _ beg r s2 hadd
      rw [hc] at hc'
      cases hc'
      rcases hcase with ⟨hr, -, -⟩ | ⟨-, hst, -⟩
      · rcases hres with ⟨-, hnone, -⟩ | ⟨p, hp', -⟩
        · rw [primValid_build, (buildOrderedOpMayaIndices_frame s).2.2.2] at hnone
          exact hnone
        · rw [hr] at hp'
          omega
      · cases hst
    · exact absurd hp hne
  · intro ha
    exact ⟨_, insertOp_single_fail s ty pr nm flag beg cls hp hc ha⟩

theorem build_channels (s : TransformationMatrix) :
    s.buildOrderedOpMayaIndices.toMPxTransformationMatrix = s.toMPxTransformationMatrix ∧
    s.buildOrderedOpMayaIndices.m_translationTweak = s.m_translationTweak ∧
    s.buildOrderedOpMayaIndices.m_translationFromUsd = s.m_translationFromUsd ∧
    s.buildOrderedOpMayaIndices.m_scaleTweak = s.m_scaleTweak ∧
    s.buildOrderedOpMayaIndices.m_scaleFromUsd = s.m_scaleFromUsd ∧
    s.buildOrderedOpMayaIndices.m_shearTweak = s.m_shearTweak ∧
    s.buildOrderedOpMayaIndices.m_shearFromUsd = s.m_shearFromUsd ∧
    s.buildOrderedOpMayaIndices.m_rotationTweak = s.m_rotationTweak ∧
    s.buildOrderedOpMayaIndices.m_rotationFromUsd = s.m_rotationFromUsd ∧
    s.buildOrderedOpMayaIndices.m_scalePivotTranslationTweak = s.m_scalePivotTranslationTweak ∧
    s.buildOrderedOpMayaIndices.m_scalePivotTranslationFromUsd
      = s.m_scalePivotTranslationFromUsd ∧
    s.buildOrderedOpMayaIndices.m_rotatePivotTranslationTweak
      = s.m_rotatePivotTranslationTweak ∧
    s.buildOrderedOpMayaIndices.m_rotatePivotTranslationFromUsd
      = s.m_rotatePivotTranslationFromUsd ∧
    s.buildOrderedOpMayaIndices.m_rotateOrientationTweak = s.m_rotateOrientationTweak ∧
    s.buildOrderedOpMayaIndices.m_rotateOrientationFromUsd = s.m_rotateOrientationFromUsd := by
  unfold buildOrderedOpMayaIndices
  split_ifs <;> simp only [and_self]

theorem translateTo_insert_fails (H : Host) (s : TransformationMatrix) (baseStatus : MStatus)
    (v : MVector) (space : MSpace) (hl : s.translateLocked = false)
    (hav : s.pushToPrimAvailable = true) (hhas : s.primHasTranslation = false)
    (hm : s.pushPrimToMatrix = false) (hv : v ≠ MVector.zero)
    (ha : (AddXformOp s.primValid s.stage .TypeTranslate .PrecisionFloat .translate false).1
      = none) :
    ∃ r, s.translateTo H baseStatus v space = some (.kFailure, r) ∧
      r.stage = s.stage ∧ r.m_flags = s.m_flags ∧ r.m_orderedOps = s.m_orderedOps ∧
      r.m_xformops = s.m_xformops ∧
      r.toMPxTransformationMatrix
        = (baseTranslateTo s.toMPxTransformationMatrix baseStatus v space).2 ∧
      r.m_translationFromUsd = s.m_translationFromUsd ∧
      (baseStatus = .kSuccess →
        r.translationValue = v ∧ r.m_translationTweak = v.sub s.m_translationFromUsd) := by
  obtain ⟨s1, hs1, hf, hpv, hst, hops, hx, hbase, hfrom, hsucc⟩ : ∃ s1, s1 =
      (if (baseTranslateTo s.toMPxTransformationMatrix baseStatus v space).1.toBool then
        { s with
          toMPxTransformationMatrix :=
            (baseTranslateTo s.toMPxTransformationMatrix baseStatus v space).2
          m_translationTweak :=
            (baseTranslateTo s.toMPxTransformationMatrix baseStatus v space).2.translationValue.sub
              s.m_translationFromUsd }
      else { s with toMPxTransformationMatrix :=
        (baseTranslateTo s.toMPxTransformationMatrix baseStatus v space).2 }) ∧
      s1.m_flags = s.m_flags ∧ s1.primValid = s.primValid ∧ s1.stage = s.stage ∧
      s1.m_orderedOps = s.m_orderedOps ∧ s1.m_xformops = s.m_xformops ∧
      s1.toMPxTransformationMatrix
        = (baseTranslateTo s.toMPxTransformationMatrix baseStatus v space).2 ∧
      s1.m_translationFromUsd = s.m_translationFromUsd ∧
      (baseStatus = .kSuccess →
        s1.translationValue = v ∧ s1.m_translationTweak = v.sub s.m_translationFromUsd) := by
    refine ⟨_, rfl, ?_⟩
    cases baseStatus
    · exact ⟨rfl, rfl, rfl, rfl, rfl, rfl, rfl, fun _ => ⟨rfl, rfl⟩⟩
    · exact ⟨rfl, rfl, rfl, rfl, rfl, rfl, rfl, fun h => absurd h (by decide)⟩
  have hins : s1.insertTranslateOp = some (.kFailure, s1.buildOrderedOpMayaIndices) :=
    insertOp_single_fail s1 .TypeTranslate .PrecisionFloat .translate kPrimHasTranslation true
      ⟨.translate, .TypeTranslate, false⟩ (by decide) (by decide) (by rw [hpv, hst]; exact ha)
  have hav1 : s1.pushToPrimAvailable = true :=
    (pushToPrimAvailable_congr s s1 (by rw [hf]) hpv).trans hav
  have hhas1 : s1.primHasTranslation = false := by
    unfold primHasTranslation at hhas ⊢
    rw [hf]
    exact hhas
  have hm1 : s1.pushPrimToMatrix = false := by
    unfold pushPrimToMatrix at hm ⊢
    rw [hf]
    exact hm
  have hrun : s.translateTo H baseStatus v space
      = some (.kFailure, s1.buildOrderedOpMayaIndices) := by
    simp only [translateTo, hl, Bool.false_eq_true, if_false]
    simp only [hl] at hs1
    rw [← hs1]
    simp only [hav1, hhas1, hm1, if_true, Bool.false_eq_true, if_false, Bool.not_false,
      Bool.true_and, decide_eq_true hv, hins]
  obtain ⟨b1, b2, b3, b4⟩ := buildOrderedOpMayaIndices_frame s1
  have c1 : s1.buildOrderedOpMayaIndices.toMPxTransformationMatrix
      = s1.toMPxTransformationMatrix := (build_channels s1).1
  have c2 : s1.buildOrderedOpMayaIndices.m_translationTweak = s1.m_translationTweak := by
    unfold buildOrderedOpMayaIndices
    split_ifs <;> rfl
  have c3 : s1.buildOrderedOpMayaIndices.m_translationFromUsd = s1.m_translationFromUsd := by
    unfold buildOrderedOpMayaIndices
    split_ifs <;> rfl
  refine ⟨_, hrun, b4.trans hst, b3.trans hf, b1.trans hops, b2.trans hx, c1.trans hbase,
    c3.trans hfrom, fun h => ?_⟩
  obtain ⟨k1, k2⟩ := hsucc h
  exact ⟨(congrArg MPxTransformationMatrix.translationValue c1).trans k1, c2.trans k2⟩

theorem scaleTo_insert_fails (H : Host) (s : TransformationMatrix) (baseStatus : MStatus)
    (v : MVector) (space : MSpace) (hl : s.scaleLocked = false)
    (hav : s.pushToPrimAvailable = true) (hhas : s.primHasScale = false)
    (hm : s.pushPrimToMatrix = false) (hv : v ≠ MVector.one)
    (ha : (AddXformOp s.primValid s.stage .TypeScale .PrecisionFloat .scale false).1
      = none) :
    ∃ r, s.scaleTo H baseStatus v space = some (.kFailure, r) ∧
      r.stage = s.stage ∧ r.m_flags = s.m_flags ∧ r.m_orderedOps = s.m_orderedOps ∧
      r.m_xformops = s.m_xformops ∧
      r.toMPxTransformationMatrix
        = (baseScaleTo s.toMPxTransformationMatrix baseStatus v space).2 ∧
      r.m_scaleFromUsd = s.m_scaleFromUsd ∧
      (baseStatus = .kSuccess →
        r.scaleValue = v ∧ r.m_scaleTweak = v.sub s.m_scaleFromUsd) := by
  obtain ⟨s1, hs1, hf, hpv, hst, hops, hx, hbase, hfrom, hsucc⟩ : ∃ s1, s1 =
      (if (baseScaleTo s.toMPxTransformationMatrix baseStatus v space).1.toBool then
        { s with
          toMPxTransformationMatrix :=
            (baseScaleTo s.toMPxTransformationMatrix baseStatus v space).2
          m_scaleTweak :=
            (baseScaleTo s.toMPxTransformationMatrix baseStatus v space).2.scaleValue.sub
              s.m_scaleFromUsd }
      else { s with toMPxTransformationMatrix :=
        (baseScaleTo s.toMPxTransformationMatrix baseStatus v space).2 }) ∧
      s1.m_flags = s.m_flags ∧ s1.primValid = s.primValid ∧ s1.stage = s.stage ∧
      s1.m_orderedOps = s.m_orderedOps ∧ s1.m_xformops = s.m_xformops ∧
      s1.toMPxTransformationMatrix
        = (baseScaleTo s.toMPxTransformationMatrix baseStatus v space).2 ∧
      s1.m_scaleFromUsd = s.m_scaleFromUsd ∧
      (baseStatus = .kSuccess →
        s1.scaleValue = v ∧ s1.m_scaleTweak = v.sub s.m_scaleFromUsd) := by
    refine ⟨_, rfl, ?_⟩
    cases baseStatus
    · exact ⟨rfl, rfl, rfl, rfl, rfl, rfl, rfl, fun _ => ⟨rfl, rfl⟩⟩
    · exact ⟨rfl, rfl, rfl, rfl, rfl, rfl, rfl, fun h => absurd h (by decide)⟩
  have hins : s1.insertScaleOp = some (.kFailure, s1.buildOrderedOpMayaIndices) :=
    insertOp_single_fail s1 .TypeScale .PrecisionFloat .scale kPrimHasScale false
      ⟨.scale, .TypeScale, false⟩ (by decide) (by decide) (by rw [hpv, hst]; exact ha)
  have hav1 : s1.pushToPrimAvailable = true :=
    (pushToPrimAvailable_congr s s1 (by rw [hf]) hpv).trans hav
  have hhas1 : s1.primHasScale = false := by
    unfold primHasScale at hhas ⊢
    rw [hf]
    exact hhas
  have hm1 : s1.pushPrimToMatrix = false := by
    unfold pushPrimToMatrix at hm ⊢
    rw [hf]
    exact hm
  have hrun : s.scaleTo H baseStatus v space
      = some (.kFailure, s1.buildOrderedOpMayaIndices) := by
    simp only [scaleTo, hl, Bool.false_eq_true, if_false]
    simp only [hl] at hs1
    rw [← hs1]
    simp only [hav1, hhas1, hm1, if_true, Bool.false_eq_true, if_false, Bool.not_false,
      Bool.true_and, decide_eq_true hv, hins]
  obtain ⟨b1, b2, b3, b4⟩ := buildOrderedOpMayaIndices_frame s1
  have c1 : s1.buildOrderedOpMayaIndices.toMPxTransformationMatrix
      = s1.toMPxTransformationMatrix := (build_channels s1).1
  have c2 : s1.buildOrderedOpMayaIndices.m_scaleTweak = s1.m_scaleTweak := by
    unfold buildOrderedOpMayaIndices
    split_ifs <;> rfl
  have c3 : s1.buildOrderedOpMayaIndices.m_scaleFromUsd = s1.m_scaleFromUsd := by
    unfold buildOrderedOpMayaIndices
    split_ifs <;> rfl
  refine ⟨_, hrun, b4.trans hst, b3.trans hf, b1.trans hops, b2.trans hx, c1.trans hbase,
    c3.trans hfrom, fun h => ?_⟩
  obtain ⟨k1, k2⟩ := hsucc h
  exact ⟨(congrArg MPxTransformationMatrix.scaleValue c1).trans k1, c2.trans k2⟩

theorem shearTo_insert_fails (H : Host) (s : TransformationMatrix) (baseStatus : MStatus)
    (v : MVector) (space : MSpace) (hl : s.shearLocked = false)
    (hav : s.pushToPrimAvailable = true) (hhas : s.primHasShear = false)
    (hm : s.pushPrimToMatrix = false) (hv : v ≠ MVector.zero)
    (ha : (AddXformOp s.primValid s.stage .TypeTransform .PrecisionDouble .shear false).1
      = none) :
    ∃ r, s.shearTo H baseStatus v space = some (.kFailure, r) ∧
      r.stage = s.stage ∧ r.m_flags = s.m_flags ∧ r.m_orderedOps = s.m_orderedOps ∧
      r.m_xformops = s.m_xformops ∧
      r.toMPxTransformationMatrix
        = (baseShearTo s.toMPxTransformationMatrix baseStatus v space).2 ∧
      r.m_shearFromUsd = s.m_shearFromUsd ∧
      (baseStatus = .kSuccess →
        r.shearValue = v ∧ r.m_shearTweak = v.sub s.m_shearFromUsd) := by
  obtain ⟨s1, hs1, hf, hpv, hst, hops, hx, hbase, hfrom, hsucc⟩ : ∃ s1, s1 =
      (if (baseShearTo s.toMPxTransformationMatrix baseStatus v space).1.toBool then
        { s with
          toMPxTransformationMatrix :=
            (baseShearTo s.toMPxTransformationMatrix baseStatus v space).2
          m_shearTweak :=
            (baseShearTo s.toMPxTransformationMatrix baseStatus v space).2.shearValue.sub
              s.m_shearFromUsd }
      else { s with toMPxTransformationMatrix :=
        (baseShearTo s.toMPxTransformationMatrix baseStatus v space).2 }) ∧
      s1.m_flags = s.m_flags ∧ s1.primValid = s.primValid ∧ s1.stage = s.stage ∧
      s1.m_orderedOps = s.m_orderedOps ∧ s1.m_xformops = s.m_xformops ∧
      s1.toMPxTransformationMatrix
        = (baseShearTo s.toMPxTransformationMatrix baseStatus v space).2 ∧
      s1.m_shearFromUsd = s.m_shearFromUsd ∧
      (baseStatus = .kSuccess →
        s1.shearValue = v ∧ s1.m_shearTweak = v.sub s.m_shearFromUsd) := by
    refine ⟨_, rfl, ?_⟩
    cases baseStatus
    · exact ⟨rfl, rfl, rfl, rfl, rfl, rfl, rfl, fun _ => ⟨rfl, rfl⟩⟩
    · exact ⟨rfl, rfl, rfl, rfl, rfl, rfl, rfl, fun h => absurd h (by decide)⟩
  have hins : s1.insertShearOp = some (.kFailure, s1.buildOrderedOpMayaIndices) :=
    insertOp_single_fail s1 .TypeTransform .PrecisionDouble .shear kPrimHasShear false
      ⟨.shear, .TypeTransform, false⟩ (by decide) (by decide) (by rw [hpv, hst]; exact ha)
  have hav1 : s1.pushToPrimAvailable = true :=
    (pushToPrimAvailable_congr s s1 (by rw [hf]) hpv).trans hav
  have hhas1 : s1.primHasShear = false := by
    unfold primHasShear at hhas ⊢
    rw [hf]
    exact hhas
  have hm1 : s1.pushPrimToMatrix = false := by
    unfold pushPrimToMatrix at hm ⊢
    rw [hf]
    exact hm
  have hrun : s.shearTo H baseStatus v space
      = some (.kFailure, s1.buildOrderedOpMayaIndices) := by
    simp only [shearTo, hl, Bool.false_eq_true, if_false]
    simp only [hl] at hs1
    rw [← hs1]
    simp only [hav1, hhas1, hm1, if_true, Bool.false_eq_true, if_false, Bool.not_false,
      Bool.true_and, decide_eq_true hv, hins]
  obtain ⟨b1, b2, b3, b4⟩ := buildOrderedOpMayaIndices_frame s1
  have c1 : s1.buildOrderedOpMayaIndices.toMPxTransformationMatrix
      = s1.toMPxTransformationMatrix := (build_channels s1).1
  have c2 : s1.buildOrderedOpMayaIndices.m_shearTweak = s1.m_shearTweak := by
    unfold buildOrderedOpMayaIndices
    split_ifs <;> rfl
  have c3 : s1.buildOrderedOpMayaIndices.m_shearFromUsd = s1.m_shearFromUsd := by
    unfold buildOrderedOpMayaIndices
    split_ifs <;> rfl
  refine ⟨_, hrun, b4.trans hst, b3.trans hf, b1.trans hops, b2.trans hx, c1.trans hbase,
    c3.trans hfrom, fun h => ?_⟩
  obtain ⟨k1, k2⟩ := hsucc h
  exact ⟨(congrArg MPxTransformationMatrix.shearValue c1).trans k1, c2.trans k2⟩

theorem setScalePivotTranslation_insert_fails (H : Host) (s : TransformationMatrix) (baseStatus : MStatus)
    (v : MVector) (space : MSpace)
    (hav : s.pushToPrimAvailable = true) (hhas : s.primHasScalePivotTranslate = false)
    (hm : s.pushPrimToMatrix = false) (hv : v ≠ MVector.zero)
    (ha : (AddXformOp s.primValid s.stage .TypeTranslate .PrecisionFloat .scalePivotTranslate false).1
      = none) :
    ∃ r, s.setScalePivotTranslation H baseStatus v space = some (.kFailure, r) ∧
      r.stage = s.stage ∧ r.m_flags = s.m_flags ∧ r.m_orderedOps = s.m_orderedOps ∧
      r.m_xformops = s.m_xformops ∧
      r.toMPxTransformationMatrix
        = (baseSetScalePivotTranslation s.toMPxTransformationMatrix baseStatus v space).2 ∧
      r.m_scalePivotTranslationFromUsd = s.m_scalePivotTranslationFromUsd ∧
      (baseStatus = .kSuccess →
        r.scalePivotTranslationValue = v ∧ r.m_scalePivotTranslationTweak = v.sub s.m_scalePivotTranslationFromUsd) := by
  obtain ⟨s1, hs1, hf, hpv, hst, hops, hx, hbase, hfrom, hsucc⟩ : ∃ s1, s1 =
      (if (baseSetScalePivotTranslation s.toMPxTransformationMatrix baseStatus v space).1.toBool then
        { s with
          toMPxTransformationMatrix :=
            (baseSetScalePivotTranslation s.toMPxTransformationMatrix baseStatus v space).2
          m_scalePivotTranslationTweak :=
            (baseSetScalePivotTranslation s.toMPxTransformationMatrix baseStatus v space).2.scalePivotTranslationValue.sub
              s.m_scalePivotTranslationFromUsd }
      else { s with toMPxTransformationMatrix :=
        (baseSetScalePivotTranslation s.toMPxTransformationMatrix baseStatus v space).2 }) ∧
      s1.m_flags = s.m_flags ∧ s1.primValid = s.primValid ∧ s1.stage = s.stage ∧
      s1.m_orderedOps = s.m_orderedOps ∧ s1.m_xformops = s.m_xformops ∧
      s1.toMPxTransformationMatrix
        = (baseSetScalePivotTranslation s.toMPxTransformationMatrix baseStatus v space).2 ∧
      s1.m_scalePivotTranslationFromUsd = s.m_scalePivotTranslationFromUsd ∧
      (baseStatus = .kSuccess →
        s1.scalePivotTranslationValue = v ∧ s1.m_scalePivotTranslationTweak = v.sub s.m_scalePivotTranslationFromUsd) := by
    refine ⟨_, rfl, ?_⟩
    cases baseStatus
    · exact ⟨rfl, rfl, rfl, rfl, rfl, rfl, rfl, fun _ => ⟨rfl, rfl⟩⟩
    · exact ⟨rfl, rfl, rfl, rfl, rfl, rfl, rfl, fun h => absurd h (by decide)⟩
  have hins : s1.insertScalePivotTranslationOp = some (.kFailure, s1.buildOrderedOpMayaIndices) :=
    insertOp_single_fail s1 .TypeTranslate .PrecisionFloat .scalePivotTranslate kPrimHasScalePivotTranslate false
      ⟨.scalePivotTranslate, .TypeTranslate, false⟩ (by decide) (by decide) (by rw [hpv, hst]; exact ha)
  have hav1 : s1.pushToPrimAvailable = true :=
    (pushToPrimAvailable_congr s s1 (by rw [hf]) hpv).trans hav
  have hhas1 : s1.primHasScalePivotTranslate = false := by
    unfold primHasScalePivotTranslate at hhas ⊢
    rw [hf]
    exact hhas
  have hm1 : s1.pushPrimToMatrix = false := by
    unfold pushPrimToMatrix at hm ⊢
    rw [hf]
    exact hm
  have hrun : s.setScalePivotTranslation H baseStatus v space
      = some (.kFailure, s1.buildOrderedOpMayaIndices) := by
    simp only [setScalePivotTranslation]
    rw [← hs1]
    simp only [hav1, hhas1, hm1, if_true, Bool.false_eq_true, if_false, Bool.not_false,
      Bool.true_and, decide_eq_true hv, hins]
  obtain ⟨b1, b2, b3, b4⟩ := buildOrderedOpMayaIndices_frame s1
  have c1 : s1.buildOrderedOpMayaIndices.toMPxTransformationMatrix
      = s1.toMPxTransformationMatrix := (build_channels s1).1
  have c2 : s1.buildOrderedOpMayaIndices.m_scalePivotTranslationTweak = s1.m_scalePivotTranslationTweak := by
    unfold buildOrderedOpMayaIndices
    split_ifs <;> rfl
  have c3 : s1.buildOrderedOpMayaIndices.m_scalePivotTranslationFromUsd = s1.m_scalePivotTranslationFromUsd := by
    unfold buildOrderedOpMayaIndices
    split_ifs <;> rfl
  refine ⟨_, hrun, b4.trans hst, b3.trans hf, b1.trans hops, b2.trans hx, c1.trans hbase,
    c3.trans hfrom, fun h => ?_⟩
  obtain ⟨k1, k2⟩ := hsucc h
  exact ⟨(congrArg MPxTransformationMatrix.scalePivotTranslationValue c1).trans k1, c2.trans k2⟩

theorem setRotatePivotTranslation_insert_fails (H : Host) (s : TransformationMatrix) (baseStatus : MStatus)
    (v : MVector) (space : MSpace)
    (hav : s.pushToPrimAvailable = true) (hhas : s.primHasRotatePivotTranslate = false)
    (hm : s.pushPrimToMatrix = false) (hv : v ≠ MVector.zero)
    (ha : (AddXformOp s.primValid s.stage .TypeTranslate .PrecisionFloat .rotatePivotTranslate false).1
      = none) :
    ∃ r, s.setRotatePivotTranslation H baseStatus v space = some (.kFailure, r) ∧
      r.stage = s.stage ∧ r.m_flags = s.m_flags ∧ r.m_orderedOps = s.m_orderedOps ∧
      r.m_xformops = s.m_xformops ∧
      r.toMPxTransformationMatrix
        = (baseSetRotatePivotTranslation s.toMPxTransformationMatrix baseStatus v space).2 ∧
      r.m_rotatePivotTranslationFromUsd = s.m_rotatePivotTranslationFromUsd ∧
      (baseStatus = .kSuccess →
        r.rotatePivotTranslationValue = v ∧ r.m_rotatePivotTranslationTweak = v.sub s.m_rotatePivotTranslationFromUsd) := by
  obtain ⟨s1, hs1, hf, hpv, hst, hops, hx, hbase, hfrom, hsucc⟩ : ∃ s1, s1 =
      (if (baseSetRotatePivotTranslation s.toMPxTransformationMatrix baseStatus v space).1.toBool then
        { s with
          toMPxTransformationMatrix :=
            (baseSetRotatePivotTranslation s.toMPxTransformationMatrix baseStatus v space).2
          m_rotatePivotTranslationTweak :=
            (baseSetRotatePivotTranslation s.toMPxTransformationMatrix baseStatus v space).2.rotatePivotTranslationValue.sub
              s.m_rotatePivotTranslationFromUsd }
      else { s with toMPxTransformationMatrix :=
        (baseSetRotatePivotTranslation s.toMPxTransformationMatrix baseStatus v space).2 }) ∧
      s1.m_flags = s.m_flags ∧ s1.primValid = s.primValid ∧ s1.stage = s.stage ∧
      s1.m_orderedOps = s.m_orderedOps ∧ s1.m_xformops = s.m_xformops ∧
      s1.toMPxTransformationMatrix
        = (baseSetRotatePivotTranslation s.toMPxTransformationMatrix baseStatus v space).2 ∧
      s1.m_rotatePivotTranslationFromUsd = s.m_rotatePivotTranslationFromUsd ∧
      (baseStatus = .kSuccess →
        s1.rotatePivotTranslationValue = v ∧ s1.m_rotatePivotTranslationTweak = v.sub s.m_rotatePivotTranslationFromUsd) := by
    refine ⟨_, rfl, ?_⟩
    cases baseStatus
    · exact ⟨rfl, rfl, rfl, rfl, rfl, rfl, rfl, fun _ => ⟨rfl, rfl⟩⟩
    · exact ⟨rfl, rfl, rfl, rfl, rfl, rfl, rfl, fun h => absurd h (by decide)⟩
  have hins : s1.insertRotatePivotTranslationOp = some (.kFailure, s1.buildOrderedOpMayaIndices) :=
    insertOp_single_fail s1 .TypeTranslate .PrecisionFloat .rotatePivotTranslate kPrimHasRotatePivotTranslate false
      ⟨.rotatePivotTranslate, .TypeTranslate, false⟩ (by decide) (by decide) (by rw [hpv, hst]; exact ha)
  have hav1 : s1.pushToPrimAvailable = true :=
    (pushToPrimAvailable_congr s s1 (by rw [hf]) hpv).trans hav
  have hhas1 : s1.primHasRotatePivotTranslate = false := by
    unfold primHasRotatePivotTranslate at hhas ⊢
    rw [hf]
    exact hhas
  have hm1 : s1.pushPrimToMatrix = false := by
    unfold pushPrimToMatrix at hm ⊢
    rw [hf]
    exact hm
  have hrun : s.setRotatePivotTranslation H baseStatus v space
      = some (.kFailure, s1.buildOrderedOpMayaIndices) := by
    simp only [setRotatePivotTranslation]
    rw [← hs1]
    simp only [hav1, hhas1, hm1, if_true, Bool.false_eq_true, if_false, Bool.not_false,
      Bool.true_and, decide_eq_true hv, hins]
  obtain ⟨b1, b2, b3, b4⟩ := buildOrderedOpMayaIndices_frame s1
  have c1 : s1.buildOrderedOpMayaIndices.toMPxTransformationMatrix
      = s1.toMPxTransformationMatrix := (build_channels s1).1
  have c2 : s1.buildOrderedOpMayaIndices.m_rotatePivotTranslationTweak = s1.m_rotatePivotTranslationTweak := by
    unfold buildOrderedOpMayaIndices
    split_ifs <;> rfl
  have c3 : s1.buildOrderedOpMayaIndices.m_rotatePivotTranslationFromUsd = s1.m_rotatePivotTranslationFromUsd := by
    unfold buildOrderedOpMayaIndices
    split_ifs <;> rfl
  refine ⟨_, hrun, b4.trans hst, b3.trans hf, b1.trans hops, b2.trans hx, c1.trans hbase,
    c3.trans hfrom, fun h => ?_⟩
  obtain ⟨k1, k2⟩ := hsucc h
  exact ⟨(congrArg MPxTransformationMatrix.rotatePivotTranslationValue c1).trans k1, c2.trans k2⟩

theorem rotateTo_insert_fails (H : Host) (s : TransformationMatrix) (baseStatus : MStatus)
    (e : MEulerRotation) (space : MSpace) (hl : s.rotateLocked = false)
    (hav : s.pushToPrimAvailable = true) (hhas : s.primHasRotation = false)
    (hm : s.pushPrimToMatrix = false) (hv : e ≠ ⟨0, 0, 0, .kXYZ⟩)
    (ha : (AddXformOp s.primValid s.stage
      (rotateOpType (baseRotateTo s.toMPxTransformationMatrix baseStatus e space).2.rotationValue.order)
      .PrecisionFloat .rotate false).1 = none) :
    ∃ r, s.rotateTo H baseStatus e space = some (.kFailure, r) ∧
      r.stage = s.stage ∧ r.m_flags = s.m_flags ∧ r.m_orderedOps = s.m_orderedOps ∧
      r.m_xformops = s.m_xformops ∧
      r.toMPxTransformationMatrix
        = (baseRotateTo s.toMPxTransformationMatrix baseStatus e space).2 ∧
      r.m_rotationFromUsd = s.m_rotationFromUsd ∧
      (baseStatus = .kSuccess →
        r.rotationValue = e ∧
        r.m_rotationTweak.x = e.x - s.m_rotationFromUsd.x ∧
        r.m_rotationTweak.y = e.y - s.m_rotationFromUsd.y ∧
        r.m_rotationTweak.z = e.z - s.m_rotationFromUsd.z) := by
  obtain ⟨s1, hs1, hf, hpv, hst, hops, hx, hbase, hfrom, hsucc⟩ : ∃ s1, s1 =
      (if (baseRotateTo s.toMPxTransformationMatrix baseStatus e space).1.toBool then
        ({ s with toMPxTransformationMatrix :=
          (baseRotateTo s.toMPxTransformationMatrix baseStatus e space).2 } :
            TransformationMatrix).updateRotationTweak
      else { s with toMPxTransformationMatrix :=
        (baseRotateTo s.toMPxTransformationMatrix baseStatus e space).2 }) ∧
      s1.m_flags = s.m_flags ∧ s1.primValid = s.primValid ∧ s1.stage = s.stage ∧
      s1.m_orderedOps = s.m_orderedOps ∧ s1.m_xformops = s.m_xformops ∧
      s1.toMPxTransformationMatrix
        = (baseRotateTo s.toMPxTransformationMatrix baseStatus e space).2 ∧
      s1.m_rotationFromUsd = s.m_rotationFromUsd ∧
      (baseStatus = .kSuccess →
        s1.rotationValue = e ∧
        s1.m_rotationTweak.x = e.x - s.m_rotationFromUsd.x ∧
        s1.m_rotationTweak.y = e.y - s.m_rotationFromUsd.y ∧
        s1.m_rotationTweak.z = e.z - s.m_rotationFromUsd.z) := by
    refine ⟨_, rfl, ?_⟩
    cases baseStatus
    · exact ⟨rfl, rfl, rfl, rfl, rfl, rfl, rfl, fun _ => ⟨rfl, rfl, rfl, rfl⟩⟩
    · exact ⟨rfl, rfl, rfl, rfl, rfl, rfl, rfl, fun h => absurd h (by decide)⟩
  have hins : s1.insertRotateOp = some (.kFailure, s1.buildOrderedOpMayaIndices) :=
    insertOp_single_fail s1 (rotateOpType s1.rotationValue.order) .PrecisionFloat .rotate
      kPrimHasRotation false ⟨.rotate, .TypeRotateXYZ, false⟩ (by decide) (by decide)
      (by rw [hpv, hst, hbase]; exact ha)
  have hav1 : s1.pushToPrimAvailable = true :=
    (pushToPrimAvailable_congr s s1 (by rw [hf]) hpv).trans hav
  have hhas1 : s1.primHasRotation = false := by
    unfold primHasRotation at hhas ⊢
    rw [hf]
    exact hhas
  have hm1 : s1.pushPrimToMatrix = false := by
    unfold pushPrimToMatrix at hm ⊢
    rw [hf]
    exact hm
  have hrun : s.rotateTo H baseStatus e space
      = some (.kFailure, s1.buildOrderedOpMayaIndices) := by
    simp only [rotateTo, hl, Bool.false_eq_true, if_false]
    simp only [hl] at hs1
    rw [← hs1]
    simp only [hav1, hhas1, hm1, if_true, Bool.false_eq_true, if_false, Bool.not_false,
      Bool.true_and, decide_eq_true hv, hins]
  obtain ⟨b1, b2, b3, b4⟩ := buildOrderedOpMayaIndices_frame s1
  have c1 : s1.buildOrderedOpMayaIndices.toMPxTransformationMatrix
      = s1.toMPxTransformationMatrix := (build_channels s1).1
  have c2 : s1.buildOrderedOpMayaIndices.m_rotationTweak = s1.m_rotationTweak := by
    unfold buildOrderedOpMayaIndices
    split_ifs <;> rfl
  have c3 : s1.buildOrderedOpMayaIndices.m_rotationFromUsd = s1.m_rotationFromUsd := by
    unfold buildOrderedOpMayaIndices
    split_ifs <;> rfl
  refine ⟨_, hrun, b4.trans hst, b3.trans hf, b1.trans hops, b2.trans hx, c1.trans hbase,
    c3.trans hfrom, fun h => ?_⟩
  obtain ⟨k1, k2, k3, k4⟩ := hsucc h
  rw [c2]
  exact ⟨(congrArg MPxTransformationMatrix.rotationValue c1).trans k1, k2, k3, k4⟩

theorem rotateToQuaternion_insert_fails (H : Host) (s : TransformationMatrix) (baseStatus : MStatus)
    (q : MQuaternion) (space : MSpace) (hl : s.rotateLocked = false)
    (hav : s.pushToPrimAvailable = true) (hhas : s.primHasRotation = false)
    (hm : s.pushPrimToMatrix = false) (hv : q ≠ MQuaternion.identity)
    (ha : (AddXformOp s.primValid s.stage
      (rotateOpType (baseRotateTo s.toMPxTransformationMatrix baseStatus (H.asEulerRotation q) space).2.rotationValue.order)
      .PrecisionFloat .rotate false).1 = none) :
    ∃ r, s.rotateToQuaternion H baseStatus q space = some (.kFailure, r) ∧
      r.stage = s.stage ∧ r.m_flags = s.m_flags ∧ r.m_orderedOps = s.m_orderedOps ∧
      r.m_xformops = s.m_xformops ∧
      r.toMPxTransformationMatrix
        = (baseRotateTo s.toMPxTransformationMatrix baseStatus (H.asEulerRotation q) space).2 ∧
      r.m_rotationFromUsd = s.m_rotationFromUsd ∧
      (baseStatus = .kSuccess →
        r.rotationValue = H.asEulerRotation q ∧
        r.m_rotationTweak.x = (H.asEulerRotation q).x - s.m_rotationFromUsd.x ∧
        r.m_rotationTweak.y = (H.asEulerRotation q).y - s.m_rotationFromUsd.y ∧
        r.m_rotationTweak.z = (H.asEulerRotation q).z - s.m_rotationFromUsd.z) := by
  obtain ⟨s1, hs1, hf, hpv, hst, hops, hx, hbase, hfrom, hsucc⟩ : ∃ s1, s1 =
      (if (baseRotateTo s.toMPxTransformationMatrix baseStatus (H.asEulerRotation q) space).1.toBool then
        ({ s with toMPxTransformationMatrix :=
          (baseRotateTo s.toMPxTransformationMatrix baseStatus (H.asEulerRotation q) space).2 } :
            TransformationMatrix).updateRotationTweak
      else { s with toMPxTransformationMatrix :=
        (baseRotateTo s.toMPxTransformationMatrix baseStatus (H.asEulerRotation q) space).2 }) ∧
      s1.m_flags = s.m_flags ∧ s1.primValid = s.primValid ∧ s1.stage = s.stage ∧
      s1.m_orderedOps = s.m_orderedOps ∧ s1.m_xformops = s.m_xformops ∧
      s1.toMPxTransformationMatrix
        = (baseRotateTo s.toMPxTransformationMatrix baseStatus (H.asEulerRotation q) space).2 ∧
      s1.m_rotationFromUsd = s.m_rotationFromUsd ∧
      (baseStatus = .kSuccess →
        s1.rotationValue = H.asEulerRotation q ∧
        s1.m_rotationTweak.x = (H.asEulerRotation q).x - s.m_rotationFromUsd.x ∧
        s1.m_rotationTweak.y = (H.asEulerRotation q).y - s.m_rotationFromUsd.y ∧
        s1.m_rotationTweak.z = (H.asEulerRotation q).z - s.m_rotationFromUsd.z) := by
    refine ⟨_, rfl, ?_⟩
    cases baseStatus
    · exact ⟨rfl, rfl, rfl, rfl, rfl, rfl, rfl, fun _ => ⟨rfl, rfl, rfl, rfl⟩⟩
    · exact ⟨rfl, rfl, rfl, rfl, rfl, rfl, rfl, fun h => absurd h (by decide)⟩
  have hins : s1.insertRotateOp = some (.kFailure, s1.buildOrderedOpMayaIndices) :=
    insertOp_single_fail s1 (rotateOpType s1.rotationValue.order) .PrecisionFloat .rotate
      kPrimHasRotation false ⟨.rotate, .TypeRotateXYZ, false⟩ (by decide) (by decide)
      (by rw [hpv, hst, hbase]; exact ha)
  have hav1 : s1.pushToPrimAvailable = true :=
    (pushToPrimAvailable_congr s s1 (by rw [hf]) hpv).trans hav
  have hhas1 : s1.primHasRotation = false := by
    unfold primHasRotation at hhas ⊢
    rw [hf]
    exact hhas
  have hm1 : s1.pushPrimToMatrix = false := by
    unfold pushPrimToMatrix at hm ⊢
    rw [hf]
    exact hm
  have hrun : s.rotateToQuaternion H baseStatus q space
      = some (.kFailure, s1.buildOrderedOpMayaIndices) := by
    simp only [rotateToQuaternion, hl, Bool.false_eq_true, if_false]
    simp only [hl] at hs1
    rw [← hs1]
    simp only [hav1, hhas1, hm1, if_true, Bool.false_eq_true, if_false, Bool.not_false,
      Bool.true_and, decide_eq_true hv, hins]
  obtain ⟨b1, b2, b3, b4⟩ := buildOrderedOpMayaIndices_frame s1
  have c1 : s1.buildOrderedOpMayaIndices.toMPxTransformationMatrix
      = s1.toMPxTransformationMatrix := (build_channels s1).1
  have c2 : s1.buildOrderedOpMayaIndices.m_rotationTweak = s1.m_rotationTweak := by
    unfold buildOrderedOpMayaIndices
    split_ifs <;> rfl
  have c3 : s1.buildOrderedOpMayaIndices.m_rotationFromUsd = s1.m_rotationFromUsd := by
    unfold buildOrderedOpMayaIndices
    split_ifs <;> rfl
  refine ⟨_, hrun, b4.trans hst, b3.trans hf, b1.trans hops, b2.trans hx, c1.trans hbase,
    c3.trans hfrom, fun h => ?_⟩
  obtain ⟨k1, k2, k3, k4⟩ := hsucc h
  rw [c2]
  exact ⟨(congrArg MPxTransformationMatrix.rotationValue c1).trans k1, k2, k3, k4⟩

theorem setRotateOrientation_insert_fails (H : Host) (s : TransformationMatrix)
    (baseStatus : MStatus) (q : MQuaternion) (space : MSpace) (balance : Bool)
    (hav : s.pushToPrimAvailable = true) (hhas : s.primHasRotateAxes = false)
    (hm : s.pushPrimToMatrix = false) (hv : q ≠ MQuaternion.identity)
    (ha : (AddXformOp s.primValid s.stage .TypeRotateXYZ .PrecisionFloat .rotateAxis false).1
      = none) :
    ∃ r, s.setRotateOrientation H baseStatus q space balance = some (.kFailure, r) ∧
      r.stage = s.stage ∧ r.m_flags = s.m_flags ∧ r.m_orderedOps = s.m_orderedOps ∧
      r.m_xformops = s.m_xformops ∧
      r.toMPxTransformationMatrix
        = (baseSetRotateOrientation s.toMPxTransformationMatrix baseStatus q space balance).2 ∧
      r.m_rotateOrientationTweak = s.m_rotateOrientationTweak ∧
      (baseStatus = .kSuccess →
        r.rotateOrientationValue = q ∧
        r.m_rotateOrientationFromUsd = q.mul s.m_rotateOrientationTweak.inverse) := by
  obtain ⟨s1, hs1, hf, hpv, hst, hops, hx, hbase, hfrom, hsucc⟩ : ∃ s1, s1 =
      (if (baseSetRotateOrientation s.toMPxTransformationMatrix baseStatus q space
          balance).1.toBool then
        { s with
          toMPxTransformationMatrix :=
            (baseSetRotateOrientation s.toMPxTransformationMatrix baseStatus q space balance).2
          m_rotateOrientationFromUsd :=
            (baseSetRotateOrientation s.toMPxTransformationMatrix baseStatus q space
              balance).2.rotateOrientationValue.mul s.m_rotateOrientationTweak.inverse }
      else { s with toMPxTransformationMatrix :=
        (baseSetRotateOrientation s.toMPxTransformationMatrix baseStatus q space balance).2 }) ∧
      s1.m_flags = s.m_flags ∧ s1.primValid = s.primValid ∧ s1.stage = s.stage ∧
      s1.m_orderedOps = s.m_orderedOps ∧ s1.m_xformops = s.m_xformops ∧
      s1.toMPxTransformationMatrix
        = (baseSetRotateOrientation s.toMPxTransformationMatrix baseStatus q space balance).2 ∧
      s1.m_rotateOrientationTweak = s.m_rotateOrientationTweak ∧
      (baseStatus = .kSuccess →
        s1.rotateOrientationValue = q ∧
        s1.m_rotateOrientationFromUsd = q.mul s.m_rotateOrientationTweak.inverse) := by
    refine ⟨_, rfl, ?_⟩
    cases baseStatus
    · exact ⟨rfl, rfl, rfl, rfl, rfl, rfl, rfl, fun _ => ⟨rfl, rfl⟩⟩
    · exact ⟨rfl, rfl, rfl, rfl, rfl, rfl, rfl, fun h => absurd h (by decide)⟩
  have hins : s1.insertRotateAxesOp = some (.kFailure, s1.buildOrderedOpMayaIndices) :=
    insertOp_single_fail s1 .TypeRotateXYZ .PrecisionFloat .rotateAxis kPrimHasRotateAxes false
      ⟨.rotateAxis, .TypeRotateXYZ, false⟩ (by decide) (by decide)
      (by rw [hpv, hst]; exact ha)
  have hav1 : s1.pushToPrimAvailable = true :=
    (pushToPrimAvailable_congr s s1 (by rw [hf]) hpv).trans hav
  have hhas1 : s1.primHasRotateAxes = false := by
    unfold primHasRotateAxes at hhas ⊢
    rw [hf]
    exact hhas
  have hm1 : s1.pushPrimToMatrix = false := by
    unfold pushPrimToMatrix at hm ⊢
    rw [hf]
    exact hm
  have hrun : s.setRotateOrientation H baseStatus q space balance
      = some (.kFailure, s1.buildOrderedOpMayaIndices) := by
    simp only [setRotateOrientation]
    rw [← hs1]
    simp only [hav1, hhas1, hm1, if_true, Bool.false_eq_true, if_false, Bool.not_false,
      Bool.true_and, decide_eq_true hv, hins]
  obtain ⟨b1, b2, b3, b4⟩ := buildOrderedOpMayaIndices_frame s1
  have c1 : s1.buildOrderedOpMayaIndices.toMPxTransformationMatrix
      = s1.toMPxTransformationMatrix := (build_channels s1).1
  have c2 : s1.buildOrderedOpMayaIndices.m_rotateOrientationTweak
      = s1.m_rotateOrientationTweak := by
    unfold buildOrderedOpMayaIndices
    split_ifs <;> rfl
  have c3 : s1.buildOrderedOpMayaIndices.m_rotateOrientationFromUsd
      = s1.m_rotateOrientationFromUsd := by
    unfold buildOrderedOpMayaIndices
    split_ifs <;> rfl
  refine ⟨_, hrun, b4.trans hst, b3.trans hf, b1.trans hops, b2.trans hx, c1.trans hbase,
    c2.trans hfrom, fun h => ?_⟩
  obtain ⟨k1, k2⟩ := hsucc h
  exact ⟨(congrArg MPxTransformationMatrix.rotateOrientationValue c1).trans k1, c3.trans k2⟩

theorem setRotateOrientationEuler_insert_fails (H : Host) (s : TransformationMatrix)
    (baseStatus : MStatus) (euler : MEulerRotation) (space : MSpace) (balance : Bool)
    (hav : s.pushToPrimAvailable = true) (hhas : s.primHasRotateAxes = false)
    (hm : s.pushPrimToMatrix = false) (hv : euler ≠ ⟨0, 0, 0, .kXYZ⟩)
    (ha : (AddXformOp s.primValid s.stage .TypeRotateXYZ .PrecisionFloat .rotateAxis false).1
      = none) :
    ∃ r, s.setRotateOrientationEuler H baseStatus euler space balance = some (.kFailure, r) ∧
      r.stage = s.stage ∧ r.m_flags = s.m_flags ∧ r.m_orderedOps = s.m_orderedOps ∧
      r.m_xformops = s.m_xformops ∧
      r.toMPxTransformationMatrix
        = (baseSetRotateOrientation s.toMPxTransformationMatrix baseStatus (H.asQuaternion euler) space balance).2 ∧
      r.m_rotateOrientationTweak = s.m_rotateOrientationTweak ∧
      (baseStatus = .kSuccess →
        r.rotateOrientationValue = H.asQuaternion euler ∧
        r.m_rotateOrientationFromUsd = (H.asQuaternion euler).mul s.m_rotateOrientationTweak.inverse) := by
  obtain ⟨s1, hs1, hf, hpv, hst, hops, hx, hbase, hfrom, hsucc⟩ : ∃ s1, s1 =
      (if (baseSetRotateOrientation s.toMPxTransformationMatrix baseStatus (H.asQuaternion euler) space
          balance).1.toBool then
        { s with
          toMPxTransformationMatrix :=
            (baseSetRotateOrientation s.toMPxTransformationMatrix baseStatus (H.asQuaternion euler) space balance).2
          m_rotateOrientationFromUsd :=
            (baseSetRotateOrientation s.toMPxTransformationMatrix baseStatus (H.asQuaternion euler) space
              balance).2.rotateOrientationValue.mul s.m_rotateOrientationTweak.inverse }
      else { s with toMPxTransformationMatrix :=
        (baseSetRotateOrientation s.toMPxTransformationMatrix baseStatus (H.asQuaternion euler) space balance).2 }) ∧
      s1.m_flags = s.m_flags ∧ s1.primValid = s.primValid ∧ s1.stage = s.stage ∧
      s1.m_orderedOps = s.m_orderedOps ∧ s1.m_xformops = s.m_xformops ∧
      s1.toMPxTransformationMatrix
        = (baseSetRotateOrientation s.toMPxTransformationMatrix baseStatus (H.asQuaternion euler) space balance).2 ∧
      s1.m_rotateOrientationTweak = s.m_rotateOrientationTweak ∧
      (baseStatus = .kSuccess →
        s1.rotateOrientationValue = H.asQuaternion euler ∧
        s1.m_rotateOrientationFromUsd = (H.asQuaternion euler).mul s.m_rotateOrientationTweak.inverse) := by
    refine ⟨_, rfl, ?_⟩
    cases baseStatus
    · exact ⟨rfl, rfl, rfl, rfl, rfl, rfl, rfl, fun _ => ⟨rfl, rfl⟩⟩
    · exact ⟨rfl, rfl, rfl, rfl, rfl, rfl, rfl, fun h => absurd h (by decide)⟩
  have hins : s1.insertRotateAxesOp = some (.kFailure, s1.buildOrderedOpMayaIndices) :=
    insertOp_single_fail s1 .TypeRotateXYZ .PrecisionFloat .rotateAxis kPrimHasRotateAxes false
      ⟨.rotateAxis, .TypeRotateXYZ, false⟩ (by decide) (by decide)
      (by rw [hpv, hst]; exact ha)
  have hav1 : s1.pushToPrimAvailable = true :=
    (pushToPrimAvailable_congr s s1 (by rw [hf]) hpv).trans hav
  have hhas1 : s1.primHasRotateAxes = false := by
    unfold primHasRotateAxes at hhas ⊢
    rw [hf]
    exact hhas
  have hm1 : s1.pushPrimToMatrix = false := by
    unfold pushPrimToMatrix at hm ⊢
    rw [hf]
    exact hm
  have hrun : s.setRotateOrientationEuler H baseStatus euler space balance
      = some (.kFailure, s1.buildOrderedOpMayaIndices) := by
    simp only [setRotateOrientationEuler]
    rw [← hs1]
    simp only [hav1, hhas1, hm1, if_true, Bool.false_eq_true, if_false, Bool.not_false,
      Bool.true_and, decide_eq_true hv, hins]
  obtain ⟨b1, b2, b3, b4⟩ := buildOrderedOpMayaIndices_frame s1
  have c1 : s1.buildOrderedOpMayaIndices.toMPxTransformationMatrix
      = s1.toMPxTransformationMatrix := (build_channels s1).1
  have c2 : s1.buildOrderedOpMayaIndices.m_rotateOrientationTweak
      = s1.m_rotateOrientationTweak := by
    unfold buildOrderedOpMayaIndices
    split_ifs <;> rfl
  have c3 : s1.buildOrderedOpMayaIndices.m_rotateOrientationFromUsd
      = s1.m_rotateOrientationFromUsd := by
    unfold buildOrderedOpMayaIndices
    split_ifs <;> rfl
  refine ⟨_, hrun, b4.trans hst, b3.trans hf, b1.trans hops, b2.trans hx, c1.trans hbase,
    c2.trans hfrom, fun h => ?_⟩
  obtain ⟨k1, k2⟩ := hsucc h
  exact ⟨(congrArg MPxTransformationMatrix.rotateOrientationValue c1).trans k1, c3.trans k2⟩

/-- C23 (a failed insertion aborts only the write-back): with write-back available, the channel
unlocked, its presence flag unset, the prim outside whole-matrix mode and a value other than the
identity, each of `translateTo`, `scaleTo`, `shearTo`, `rotateTo` (both overloads),
`setScalePivotTranslation`, `setRotatePivotTranslation` and `setRotateOrientation` (both
overloads) reaches the insertion of its operator. When that insertion fails, that is when
`AddXformOp` refuses the operator, the setter returns a failure status, the backing store is
exactly as before (no codec write), flags and operator lists are unchanged, and nothing is
rolled back: the base-class part is what the base class left, and after a successful base call
the live value is the new value and the tweak is live - fromUsd computed from it (for the rotate
orientation the source keeps the tweak and recomputes fromUsd as live * tweak⁻¹). -/
theorem C23_failed_insertion_aborts_only_write_back (H : Host) (s : TransformationMatrix)
    (baseStatus : MStatus) (space : MSpace) (balance : Bool)
    (hav : s.pushToPrimAvailable = true) (hm : s.pushPrimToMatrix = false) :
    (∀ v : MVector, s.translateLocked = false → s.primHasTranslation = false →
      v ≠ MVector.zero →
      (AddXformOp s.primValid s.stage .TypeTranslate .PrecisionFloat .translate false).1
        = none →
      ∃ r, s.translateTo H baseStatus v space = some (.kFailure, r) ∧
        r.stage = s.stage ∧ r.m_flags = s.m_flags ∧ r.m_orderedOps = s.m_orderedOps ∧
        r.m_xformops = s.m_xformops ∧
        r.toMPxTransformationMatrix
          = (baseTranslateTo s.toMPxTransformationMatrix baseStatus v space).2 ∧
        r.m_translationFromUsd = s.m_translationFromUsd ∧
        (baseStatus = .kSuccess →
          r.translationValue = v ∧ r.m_translationTweak = v.sub s.m_translationFromUsd)) ∧
    (∀ v : MVector, s.scaleLocked = false → s.primHasScale = false → v ≠ MVector.one →
      (AddXformOp s.primValid s.stage .TypeScale .PrecisionFloat .scale false).1 = none →
      ∃ r, s.scaleTo H baseStatus v space = some (.kFailure, r) ∧
        r.stage = s.stage ∧ r.m_flags = s.m_flags ∧ r.m_orderedOps = s.m_orderedOps ∧
        r.m_xformops = s.m_xformops ∧
        r.toMPxTransformationMatrix
          = (baseScaleTo s.toMPxTransformationMatrix baseStatus v space).2 ∧
        r.m_scaleFromUsd = s.m_scaleFromUsd ∧
        (baseStatus = .kSuccess →
          r.scaleValue = v ∧ r.m_scaleTweak = v.sub s.m_scaleFromUsd)) ∧
    (∀ v : MVector, s.shearLocked = false → s.primHasShear = false → v ≠ MVector.zero →
      (AddXformOp s.primValid s.stage .TypeTransform .PrecisionDouble .shear false).1 = none →
      ∃ r, s.shearTo H baseStatus v space = some (.kFailure, r) ∧
        r.stage = s.stage ∧ r.m_flags = s.m_flags ∧ r.m_orderedOps = s.m_orderedOps ∧
        r.m_xformops = s.m_xformops ∧
        r.toMPxTransformationMatrix
          = (baseShearTo s.toMPxTransformationMatrix baseStatus v space).2 ∧
        r.m_shearFromUsd = s.m_shearFromUsd ∧
        (baseStatus = .kSuccess →
          r.shearValue = v ∧ r.m_shearTweak = v.sub s.m_shearFromUsd)) ∧
    (∀ e : MEulerRotation, s.rotateLocked = false → s.primHasRotation = false →
      e ≠ ⟨0, 0, 0, .kXYZ⟩ →
      (AddXformOp s.primValid s.stage
        (rotateOpType
          (baseRotateTo s.toMPxTransformationMatrix baseStatus e space).2.rotationValue.order)
        .PrecisionFloat .rotate false).1 = none →
      ∃ r, s.rotateTo H baseStatus e space = some (.kFailure, r) ∧
        r.stage = s.stage ∧ r.m_flags = s.m_flags ∧ r.m_orderedOps = s.m_orderedOps ∧
        r.m_xformops = s.m_xformops ∧
        r.toMPxTransformationMatrix
          = (baseRotateTo s.toMPxTransformationMatrix baseStatus e space).2 ∧
        r.m_rotationFromUsd = s.m_rotationFromUsd ∧
        (baseStatus = .kSuccess →
          r.rotationValue = e ∧
          r.m_rotationTweak.x = e.x - s.m_rotationFromUsd.x ∧
          r.m_rotationTweak.y = e.y - s.m_rotationFromUsd.y ∧
          r.m_rotationTweak.z = e.z - s.m_rotationFromUsd.z)) ∧
    (∀ q : MQuaternion, s.rotateLocked = false → s.primHasRotation = false →
      q ≠ MQuaternion.identity →
      (AddXformOp s.primValid s.stage
        (rotateOpType
          (baseRotateTo s.toMPxTransformationMatrix baseStatus (H.asEulerRotation q)
            space).2.rotationValue.order)
        .PrecisionFloat .rotate false).1 = none →
      ∃ r, s.rotateToQuaternion H baseStatus q space = some (.kFailure, r) ∧
        r.stage = s.stage ∧ r.m_flags = s.m_flags ∧ r.m_orderedOps = s.m_orderedOps ∧
        r.m_xformops = s.m_xformops ∧
        r.toMPxTransformationMatrix
          = (baseRotateTo s.toMPxTransformationMatrix baseStatus (H.asEulerRotation q)
              space).2 ∧
        r.m_rotationFromUsd = s.m_rotationFromUsd ∧
        (baseStatus = .kSuccess →
          r.rotationValue = H.asEulerRotation q ∧
          r.m_rotationTweak.x = (H.asEulerRotation q).x - s.m_rotationFromUsd.x ∧
          r.m_rotationTweak.y = (H.asEulerRotation q).y - s.m_rotationFromUsd.y ∧
          r.m_rotationTweak.z = (H.asEulerRotation q).z - s.m_rotationFromUsd.z)) ∧
    (∀ v : MVector, s.primHasScalePivotTranslate = false → v ≠ MVector.zero →
      (AddXformOp s.primValid s.stage .TypeTranslate .PrecisionFloat .scalePivotTranslate
        false).1 = none →
      ∃ r, s.setScalePivotTranslation H baseStatus v space = some (.kFailure, r) ∧
        r.stage = s.stage ∧ r.m_flags = s.m_flags ∧ r.m_orderedOps = s.m_orderedOps ∧
        r.m_xformops = s.m_xformops ∧
        r.toMPxTransformationMatrix
          = (baseSetScalePivotTranslation s.toMPxTransformationMatrix baseStatus v space).2 ∧
        r.m_scalePivotTranslationFromUsd = s.m_scalePivotTranslationFromUsd ∧
        (baseStatus = .kSuccess →
          r.scalePivotTranslationValue = v ∧
          r.m_scalePivotTranslationTweak = v.sub s.m_scalePivotTranslationFromUsd)) ∧
    (∀ v : MVector, s.primHasRotatePivotTranslate = false → v ≠ MVector.zero →
      (AddXformOp s.primValid s.stage .TypeTranslate .PrecisionFloat .rotatePivotTranslate
        false).1 = none →
      ∃ r, s.setRotatePivotTranslation H baseStatus v space = some (.kFailure, r) ∧
        r.stage = s.stage ∧ r.m_flags = s.m_flags ∧ r.m_orderedOps = s.m_orderedOps ∧
        r.m_xformops = s.m_xformops ∧
        r.toMPxTransformationMatrix
          = (baseSetRotatePivotTranslation s.toMPxTransformationMatrix baseStatus v space).2 ∧
        r.m_rotatePivotTranslationFromUsd = s.m_rotatePivotTranslationFromUsd ∧
        (baseStatus = .kSuccess →
          r.rotatePivotTranslationValue = v ∧
          r.m_rotatePivotTranslationTweak = v.sub s.m_rotatePivotTranslationFromUsd)) ∧
    (∀ q : MQuaternion, s.primHasRotateAxes = false → q ≠ MQuaternion.identity →
      (AddXformOp s.primValid s.stage .TypeRotateXYZ .PrecisionFloat .rotateAxis false).1
        = none →
      ∃ r, s.setRotateOrientation H baseStatus q space balance = some (.kFailure, r) ∧
        r.stage = s.stage ∧ r.m_flags = s.m_flags ∧ r.m_orderedOps = s.m_orderedOps ∧
        r.m_xformops = s.m_xformops ∧
        r.toMPxTransformationMatrix
          = (baseSetRotateOrientation s.toMPxTransformationMatrix baseStatus q space
              balance).2 ∧
        r.m_rotateOrientationTweak = s.m_rotateOrientationTweak ∧
        (baseStatus = .kSuccess →
          r.rotateOrientationValue = q ∧
          r.m_rotateOrientationFromUsd = q.mul s.m_rotateOrientationTweak.inverse)) ∧
    (∀ euler : MEulerRotation, s.primHasRotateAxes = false → euler ≠ ⟨0, 0, 0, .kXYZ⟩ →
      (AddXformOp s.primValid s.stage .TypeRotateXYZ .PrecisionFloat .rotateAxis false).1
        = none →
      ∃ r, s.setRotateOrientationEuler H baseStatus euler space balance
          = some (.kFailure, r) ∧
        r.stage = s.stage ∧ r.m_flags = s.m_flags ∧ r.m_orderedOps = s.m_orderedOps ∧
        r.m_xformops = s.m_xformops ∧
        r.toMPxTransformationMatrix
          = (baseSetRotateOrientation s.toMPxTransformationMatrix baseStatus
              (H.asQuaternion euler) space balance).2 ∧
        r.m_rotateOrientationTweak = s.m_rotateOrientationTweak ∧
        (baseStatus = .kSuccess →
          r.rotateOrientationValue = H.asQuaternion euler ∧
          r.m_rotateOrientationFromUsd
            = (H.asQuaternion euler).mul s.m_rotateOrientationTweak.inverse)) := by
  refine ⟨?_, ?_, ?_, ?_, ?_, ?_, ?_, ?_, ?_⟩
  · intro v hl hhas hv ha
    exact translateTo_insert_fails H s baseStatus v space hl hav hhas hm hv ha
  · intro v hl hhas hv ha
    exact scaleTo_insert_fails H s baseStatus v space hl hav hhas hm hv ha
  · intro v hl hhas hv ha
    exact shearTo_insert_fails H s baseStatus v space hl hav hhas hm hv ha
  · intro e hl hhas hv ha
    exact rotateTo_insert_fails H s baseStatus e space hl hav hhas hm hv ha
  · intro q hl hhas hv ha
    exact rotateToQuaternion_insert_fails H s baseStatus q space hl hav hhas hm hv ha
  · intro v hhas hv ha
    exact setScalePivotTranslation_insert_fails H s baseStatus v space hav hhas hm hv ha
  · intro v hhas hv ha
    exact setRotatePivotTranslation_insert_fails H s baseStatus v space hav hhas hm hv ha
  · intro q hhas hv ha
    exact setRotateOrientation_insert_fails H s baseStatus q space balance hav hhas hm hv ha
  · intro euler hhas hv ha
    exact setRotateOrientationEuler_insert_fails H s baseStatus euler space balance hav hhas hm
      hv ha

theorem C23_failed_insertion_aborts_only_write_back_witness :
    staleTranslateEngine.pushToPrimAvailable = true ∧
    staleTranslateEngine.pushPrimToMatrix = false ∧
    staleTranslateEngine.primHasTranslation = false ∧
    (AddXformOp staleTranslateEngine.primValid staleTranslateEngine.stage .TypeTranslate
      .PrecisionFloat .translate false).1 = none ∧
    ∃ r, staleTranslateEngine.translateTo Host.sample .kSuccess ⟨1, 0, 0⟩ .kTransform
        = some (.kFailure, r) ∧
      r.stage = staleTranslateEngine.stage ∧ r.translationValue = ⟨1, 0, 0⟩ ∧
      r.m_translationTweak = ⟨1, 0, 0⟩ := by
  obtain ⟨ht, -⟩ := C23_failed_insertion_aborts_only_write_back Host.sample
    staleTranslateEngine .kSuccess .kTransform false (by decide) (by decide)
  obtain ⟨r, hr, hst, -, -, -, -, -, hsucc⟩ := ht ⟨1, 0, 0⟩ (by decide) (by decide) (by decide)
    (by decide)
  obtain ⟨k1, k2⟩ := hsucc rfl
  refine ⟨by decide, by decide, by decide, by decide, r, hr, hst, k1, ?_⟩
  rw [k2]
  decide!

/-! ## Combined pivot written in place (C28) -/

theorem asMatrix_row (H : Host) (s : TransformationMatrix) (j : Fin 4) (hj : j ≠ 3) :
    s.asMatrix H 3 j
      = H.asMatrix s.toMPxTransformationMatrix 3 j
        + s.m_localTranslateOffset.x * H.asMatrix s.toMPxTransformationMatrix 0 j
        + s.m_localTranslateOffset.y * H.asMatrix s.toMPxTransformationMatrix 1 j
        + s.m_localTranslateOffset.z * H.asMatrix s.toMPxTransformationMatrix 2 j := by
  fin_cases j
  · simp [asMatrix, addAt]; ring
  · simp [asMatrix, addAt]; ring
  · simp [asMatrix, addAt]; ring
  · exact absurd rfl hj

theorem asMatrix_other (H : Host) (s : TransformationMatrix) (i j : Fin 4)
    (h : i ≠ 3 ∨ j = 3) :
    s.asMatrix H i j = H.asMatrix s.toMPxTransformationMatrix i j := by
  rcases h with h | h
  · simp [asMatrix, addAt, h]
  · subst h
    simp [asMatrix, addAt]

theorem asMatrixPercent_row (basePercent : MPxTransformationMatrix → ℚ → MMatrix)
    (s : TransformationMatrix) (percent : ℚ) (j : Fin 4) (hj : j ≠ 3) :
    s.asMatrixPercent basePercent percent 3 j
      = basePercent s.toMPxTransformationMatrix percent 3 j
        + s.m_localTranslateOffset.x * percent
          * basePercent s.toMPxTransformationMatrix percent 0 j
        + s.m_localTranslateOffset.y * percent
          * basePercent s.toMPxTransformationMatrix percent 1 j
        + s.m_localTranslateOffset.z * percent
          * basePercent s.toMPxTransformationMatrix percent 2 j := by
  fin_cases j
  · simp [asMatrixPercent, addAt]; ring
  · simp [asMatrixPercent, addAt]; ring
  · simp [asMatrixPercent, addAt]; ring
  · exact absurd rfl hj

theorem asMatrixPercent_other (basePercent : MPxTransformationMatrix → ℚ → MMatrix)
    (s : TransformationMatrix) (percent : ℚ) (i j : Fin 4) (h : i ≠ 3 ∨ j = 3) :
    s.asMatrixPercent basePercent percent i j
      = basePercent s.toMPxTransformationMatrix percent i j := by
  rcases h with h | h
  · simp [asMatrixPercent, addAt, h]
  · subst h
    simp [asMatrixPercent, addAt]

/-- C29 (local translate offset is folded into the translation row): for every base matrix and
every offset (x, y, z), `asMatrix()` is the base matrix with row 3 replaced, in columns 0 to 2,
by row3 + x * row0 + y * row1 + z * row2, every other entry (rows 0 to 2 and column 3) being
that of the base matrix; `asMatrix(percent)` is the same on the base `asMatrix(percent)` with
the offset scaled by `percent`; with a zero offset both are the base result. -/
theorem C29_offset_folded_into_translation_row (H : Host)
    (basePercent : MPxTransformationMatrix → ℚ → MMatrix) (s : TransformationMatrix)
    (percent : ℚ) :
    (∀ j : Fin 4, j ≠ 3 →
      s.asMatrix H 3 j
        = H.asMatrix s.toMPxTransformationMatrix 3 j
          + s.m_localTranslateOffset.x * H.asMatrix s.toMPxTransformationMatrix 0 j
          + s.m_localTranslateOffset.y * H.asMatrix s.toMPxTransformationMatrix 1 j
          + s.m_localTranslateOffset.z * H.asMatrix s.toMPxTransformationMatrix 2 j) ∧
    (∀ i j : Fin 4, i ≠ 3 ∨ j = 3 →
      s.asMatrix H i j = H.asMatrix s.toMPxTransformationMatrix i j) ∧
    (∀ j : Fin 4, j ≠ 3 →
      s.asMatrixPercent basePercent percent 3 j
        = basePercent s.toMPxTransformationMatrix percent 3 j
          + s.m_localTranslateOffset.x * percent
            * basePercent s.toMPxTransformationMatrix percent 0 j
          + s.m_localTranslateOffset.y * percent
            * basePercent s.toMPxTransformationMatrix percent 1 j
          + s.m_localTranslateOffset.z * percent
            * basePercent s.toMPxTransformationMatrix percent 2 j) ∧
    (∀ i j : Fin 4, i ≠ 3 ∨ j = 3 →
      s.asMatrixPercent basePercent percent i j
        = basePercent s.toMPxTransformationMatrix percent i j) ∧
    (s.m_localTranslateOffset = MVector.zero →
      s.asMatrix H = H.asMatrix s.toMPxTransformationMatrix ∧
      s.asMatrixPercent basePercent percent
        = basePercent s.toMPxTransformationMatrix percent) := by
  refine ⟨asMatrix_row H s, asMatrix_other H s, asMatrixPercent_row basePercent s percent,
    asMatrixPercent_other basePercent s percent, ?_⟩
  intro h0
  have hx : s.m_localTranslateOffset.x = 0 := by rw [h0]; rfl
  have hy : s.m_localTranslateOffset.y = 0 := by rw [h0]; rfl
  have hz : s.m_localTranslateOffset.z = 0 := by rw [h0]; rfl
  constructor
  · funext i j
    by_cases h : i ≠ 3 ∨ j = 3
    · exact asMatrix_other H s i j h
    · have hi : i = 3 := by
        by_contra hne
        exact h (Or.inl hne)
      have hj : j ≠ 3 := fun e => h (Or.inr e)
      subst hi
      rw [asMatrix_row H s j hj, hx, hy, hz]
      ring
  · funext i j
    by_cases h : i ≠ 3 ∨ j = 3
    · exact asMatrixPercent_other basePercent s percent i j h
    · have hi : i = 3 := by
        by_contra hne
        exact h (Or.inl hne)
      have hj : j ≠ 3 := fun e => h (Or.inr e)
      subst hi
      rw [asMatrixPercent_row basePercent s percent j hj, hx, hy, hz]
      ring

theorem C29_offset_folded_into_translation_row_witness :
    offsetEngine.asMatrix Host.sample 3 0 = 1 ∧
    offsetEngine.asMatrix Host.sample 3 1 = 2 ∧
    offsetEngine.asMatrix Host.sample 3 2 = 3 ∧
    offsetEngine.asMatrix Host.sample 3 3 = 1 ∧
    emptyPrimEngine.m_localTranslateOffset = MVector.zero ∧
    emptyPrimEngine.asMatrix Host.sample
      = Host.sample.asMatrix emptyPrimEngine.toMPxTransformationMatrix := by
  obtain ⟨hrow, hother, -, -, hzero⟩ := C29_offset_folded_into_translation_row Host.sample
    (fun b _ => Host.sample.asMatrix b) offsetEngine 1
  obtain ⟨-, -, -, -, hzero⟩ := C29_offset_folded_into_translation_row Host.sample
    (fun b _ => Host.sample.asMatrix b) emptyPrimEngine 1
  refine ⟨?_, ?_, ?_, ?_, rfl, (hzero rfl).1⟩
  · rw [hrow 0 (by decide)]; decide!
  · rw [hrow 1 (by decide)]; decide!
  · rw [hrow 2 (by decide)]; decide!
  · rw [hother 3 3 (Or.inr rfl)]; decide!

/-! ## Writer registry (C30) -/

namespace UsdMayaUserAttributeWriterRegistry

theorem lookup_cons_self {Token V : Type} [DecidableEq Token] (k : Token) (v : V)
    (l : List (Token × V)) : List.lookup k ((k, v) :: l) = some v := by
  rw [List.lookup_cons, beq_self_eq_true]

theorem lookup_cons_ne {Token V : Type} [DecidableEq Token] (name k : Token) (v : V)
    (l : List (Token × V)) (h : name ≠ k) :
    List.lookup name ((k, v) :: l) = List.lookup name l := by
  rw [List.lookup_cons, beq_false_of_ne h]

theorem find_orderedInsert {Token W : Type} [LinearOrder Token]
    (reg : _WriterRegistry Token W) (entry : Token × UserAttributeWriter W) (name : Token)
    (hfresh : find reg entry.1 = none) :
    find (reg.orderedInsert (fun a b => a.1 ≤ b.1) entry) name
      = if name = entry.1 then some entry.2 else find reg name := by
  obtain ⟨k, v⟩ := entry
  unfold find at hfresh ⊢
  induction reg with
  | nil =>
    rw [List.orderedInsert]
    by_cases h : name = k
    · subst h
      rw [if_pos rfl, lookup_cons_self]
    · rw [if_neg h, lookup_cons_ne _ _ _ _ h]
  | cons b l ih =>
    obtain ⟨bk, bv⟩ := b
    have hb : k ≠ bk := by
      intro e
      subst e
      rw [lookup_cons_self] at hfresh
      exact absurd hfresh (by simp)
    have hl : List.lookup k l = none := by
      rw [lookup_cons_ne _ _ _ _ hb] at hfresh
      exact hfresh
    rw [List.orderedInsert]
    by_cases hle : k ≤ bk
    · rw [if_pos hle]
      by_cases h : name = k
      · subst h
        rw [if_pos rfl, lookup_cons_self]
      · rw [if_neg h, lookup_cons_ne _ _ _ _ h]
    · rw [if_neg hle]
      by_cases hnb : name = bk
      · subst hnb
        rw [lookup_cons_self, lookup_cons_self, if_neg (Ne.symm hb)]
      · rw [lookup_cons_ne _ _ _ _ hnb, lookup_cons_ne _ _ _ _ hnb]
        exact ih hl

theorem find_insert {Token W : Type} [LinearOrder Token] (reg : _WriterRegistry Token W)
    (entry : Token × UserAttributeWriter W) (name : Token) :
    find (insert reg entry) name
      = match find reg name with
        | some fn => some fn
        | none => if name = entry.1 then some entry.2 else none := by
  unfold insert
  cases hf : find reg entry.1 with
  | some fn0 =>
    simp only []
    cases hn : find reg name with
    | some fn => rfl
    | none =>
      simp only []
      by_cases h : name = entry.1
      · rw [h, hf] at hn
        exact absurd hn (by simp)
      · rw [if_neg h]
  | none =>
    simp only []
    rw [find_orderedInsert reg entry name hf]
    by_cases h : name = entry.1
    · rw [if_pos h, h, hf]
      simp only [if_true]
    · rw [if_neg h]
      cases hn : find reg name with
      | some fn => rfl
      | none => simp only [if_neg h]

theorem find_foldl_RegisterWriter {Token W : Type} [LinearOrder Token]
    (calls : List (Token × UserAttributeWriter W)) (name : Token) :
    ∀ reg : _WriterRegistry Token W,
      find (calls.foldl (fun reg c => RegisterWriter reg c.1 c.2) reg) name
        = match find reg name with
          | some fn => some fn
          | none => (calls.find? (fun c => decide (c.1 = name))).map (fun c => c.2) := by
  induction calls with
  | nil =>
    intro reg
    rw [List.foldl_nil]
    cases find reg name <;> rfl
  | cons c calls ih =>
    intro reg
    rw [List.foldl_cons, ih, RegisterWriter, find_insert]
    cases hn : find reg name with
    | some fn => rfl
    | none =>
      simp only []
      by_cases h : name = c.1
      · rw [if_pos h]
        simp only []
        rw [List.find?_cons, decide_eq_true h.symm]
        rfl
      · rw [if_neg h]
        simp only []
        rw [List.find?_cons, decide_eq_false (fun e => h e.symm)]

theorem find_eq_none_iff {Token W : Type} [DecidableEq Token] (reg : _WriterRegistry Token W)
    (k : Token) : find reg k = none ↔ k ∉ reg.map (fun c => c.1) := by
  unfold find
  induction reg with
  | nil => simp
  | cons b l ih =>
    obtain ⟨bk, bv⟩ := b
    by_cases h : k = bk
    · subst h
      rw [lookup_cons_self]
      simp
    · rw [lookup_cons_ne _ _ _ _ h, ih]
      simp [h]

theorem keys_insert {Token W : Type} [LinearOrder Token] (reg : _WriterRegistry Token W)
    (entry : Token × UserAttributeWriter W) (hnd : (reg.map (fun c => c.1)).Nodup) :
    ((insert reg entry).map (fun c => c.1)).Nodup ∧
    ∀ n, n ∈ (insert reg entry).map (fun c => c.1) ↔
      n ∈ reg.map (fun c => c.1) ∨ n = entry.1 := by
  unfold insert
  cases hf : find reg entry.1 with
  | some fn =>
    simp only []
    refine ⟨hnd, fun n => ⟨Or.inl, fun h => ?_⟩⟩
    rcases h with h | h
    · exact h
    · subst h
      by_contra hc
      rw [(find_eq_none_iff reg entry.1).mpr hc] at hf
      exact absurd hf (by simp)
  | none =>
    simp only []
    have hp : List.Perm ((reg.orderedInsert (fun a b => a.1 ≤ b.1) entry).map (fun c => c.1))
        (entry.1 :: reg.map (fun c => c.1)) :=
      (List.perm_orderedInsert _ entry reg).map _
    refine ⟨hp.nodup_iff.mpr (List.nodup_cons.mpr ⟨(find_eq_none_iff reg entry.1).mp hf, hnd⟩),
      fun n => ?_⟩
    rw [hp.mem_iff, List.mem_cons]
    exact or_comm

theorem keys_foldl_RegisterWriter {Token W : Type} [LinearOrder Token]
    (calls : List (Token × UserAttributeWriter W)) :
    ∀ reg : _WriterRegistry Token W, (reg.map (fun c => c.1)).Nodup →
      ((calls.foldl (fun reg c => RegisterWriter reg c.1 c.2) reg).map (fun c => c.1)).Nodup ∧
      ∀ n, n ∈ (calls.foldl (fun reg c => RegisterWriter reg c.1 c.2) reg).map (fun c => c.1) ↔
        n ∈ reg.map (fun c => c.1) ∨ ∃ c ∈ calls, c.1 = n := by
  induction calls with
  | nil =>
    intro reg hnd
    exact ⟨hnd, fun n => by simp⟩
  | cons c calls ih =>
    intro reg hnd
    obtain ⟨h1, h2⟩ := keys_insert reg (c.1, c.2) hnd
    obtain ⟨h3, h4⟩ := ih (RegisterWriter reg c.1 c.2) h1
    refine ⟨h3, fun n => ?_⟩
    rw [List.foldl_cons, h4 n]
    unfold RegisterWriter
    rw [h2 n]
    constructor
    · rintro ((h | h) | ⟨d, hd, hdn⟩)
      · exact Or.inl h
      · exact Or.inr ⟨c, List.mem_cons_self _ _, h.symm⟩
      · exact Or.inr ⟨d, List.mem_cons_of_mem _ hd, hdn⟩
    · rintro (h | ⟨d, hd, hdn⟩)
      · exact Or.inl (Or.inl h)
      · rcases List.mem_cons.mp hd with e | e
        · subst e
          exact Or.inl (Or.inr hdn.symm)
        · exact Or.inr ⟨d, e, hdn⟩

theorem loadPlugins_registryAfter {Token W : Type} [LinearOrder Token]
    (calls pending : List (Token × UserAttributeWriter W)) :
    loadPlugins pending (registryAfter calls) = registryAfter (calls ++ pending) := by
  unfold loadPlugins registryAfter
  rw [List.foldl_append]

/-- C30 (counterexample): `RegisterWriter` stores the function it is given without looking at
it, and a `std::function` may be empty. After `RegisterWriter("usdRi", fn)` with an empty `fn`
the name is registered (`ListWriters` returns it) and `GetWriter("usdRi")` returns a null
function, also after a later `RegisterWriter("usdRi", ...)` with a callable function, which
does not replace the entry: "null if and only if no writer has been registered" fails. -/
theorem C30_counterexample :
    GetWriter [] (registryAfter [("usdRi", (none : UserAttributeWriter ℕ))]) "usdRi" = none ∧
    ListWriters [] (registryAfter [("usdRi", (none : UserAttributeWriter ℕ))]) = ["usdRi"] ∧
    GetWriter [] (RegisterWriter (registryAfter [("usdRi", (none : UserAttributeWriter ℕ))])
      "usdRi" (some 7)) "usdRi" = none ∧
    ¬ (GetWriter [] (registryAfter [("usdRi", (none : UserAttributeWriter ℕ))]) "usdRi" = none ↔
        ∀ c ∈ [("usdRi", (none : UserAttributeWriter ℕ))] ++ [], c.1 ≠ "usdRi") := by
  have h1 : GetWriter [] (registryAfter [("usdRi", (none : UserAttributeWriter ℕ))]) "usdRi"
      = none := by
    simp [GetWriter, _GetWriter, loadPlugins, registryAfter, RegisterWriter, insert, find,
      List.lookup]
  refine ⟨h1, ?_, ?_, ?_⟩
  · simp [ListWriters, _ListWriters, loadPlugins, registryAfter, RegisterWriter, insert, find,
      List.lookup]
  · simp [GetWriter, _GetWriter, loadPlugins, registryAfter, RegisterWriter, insert, find,
      List.lookup]
  · intro h
    exact h.mp h1 ("usdRi", none) (by simp) rfl

/-- C30 (amended; writer registry lookup): let the map hold what the `RegisterWriter` calls
`calls` made of the empty map, and let `pending` be the registrations that loading the plugins
adds when `GetWriter` or `ListWriters` runs. For every name, `GetWriter(name)` returns the
function passed to the first `RegisterWriter` call for that name, which a later call with the
same name does not replace, and the null function when there is no such call; hence it returns
a null function if and only if no writer has been registered under the name or the function
passed to the first registration for the name is itself null. `ListWriters` returns each
registered name exactly once. -/
theorem C30_writer_registry_lookup {Token W : Type} [LinearOrder Token]
    (calls pending : List (Token × UserAttributeWriter W)) (name : Token) :
    (GetWriter pending (registryAfter calls) name
      = match (calls ++ pending).find? (fun c => decide (c.1 = name)) with
        | some c => c.2
        | none => none) ∧
    (∀ (front back : List (Token × UserAttributeWriter W)) (fn later : UserAttributeWriter W),
      calls ++ pending = front ++ (name, fn) :: back → (∀ c ∈ front, c.1 ≠ name) →
      GetWriter pending (registryAfter calls) name = fn ∧
      GetWriter [] (RegisterWriter (registryAfter (calls ++ pending)) name later) name = fn) ∧
    (GetWriter pending (registryAfter calls) name = none ↔
      ((∀ c ∈ calls ++ pending, c.1 ≠ name) ∨
        ∃ front back, calls ++ pending = front ++ (name, none) :: back ∧
          ∀ c ∈ front, c.1 ≠ name)) ∧
    (ListWriters pending (registryAfter calls)).Nodup ∧
    (∀ n, n ∈ ListWriters pending (registryAfter calls) ↔ ∃ c ∈ calls ++ pending, c.1 = n) := by
  have hget : ∀ (cs ps : List (Token × UserAttributeWriter W)),
      GetWriter ps (registryAfter cs) name
        = match (cs ++ ps).find? (fun c => decide (c.1 = name)) with
          | some c => c.2
          | none => none := by
    intro cs ps
    unfold GetWriter _GetWriter
    simp only []
    rw [loadPlugins_registryAfter]
    unfold registryAfter
    rw [find_foldl_RegisterWriter]
    have he : find ([] : _WriterRegistry Token W) name = none := rfl
    rw [he]
    simp only []
    cases (cs ++ ps).find? (fun c => decide (c.1 = name)) <;> rfl
  have hfirst : ∀ (front back : List (Token × UserAttributeWriter W))
      (fn : UserAttributeWriter W), (∀ c ∈ front, c.1 ≠ name) →
      (front ++ (name, fn) :: back).find? (fun c => decide (c.1 = name)) = some (name, fn) := by
    intro front back fn hfront
    induction front with
    | nil => simp
    | cons c front ih =>
      rw [List.cons_append, List.find?_cons,
        decide_eq_false (hfront c (List.mem_cons_self _ _))]
      exact ih (fun d hd => hfront d (List.mem_cons_of_mem _ hd))
  have hsplit : ∀ (l : List (Token × UserAttributeWriter W)) (d : Token × UserAttributeWriter W),
      l.find? (fun c => decide (c.1 = name)) = some d →
      ∃ front back, l = front ++ (name, d.2) :: back ∧ ∀ c ∈ front, c.1 ≠ name := by
    intro l d
    induction l with
    | nil => intro h; simp at h
    | cons c l ih =>
      intro h
      rw [List.find?_cons] at h
      by_cases hc : c.1 = name
      · rw [decide_eq_true hc] at h
        simp only [Option.some.injEq] at h
        subst h
        exact ⟨[], l, by rw [← hc]; rfl, by simp⟩
      · rw [decide_eq_false hc] at h
        obtain ⟨front, back, he, hf⟩ := ih h
        refine ⟨c :: front, back, by rw [he]; rfl, ?_⟩
        intro e he2
        rcases List.mem_cons.mp he2 with rfl | he3
        · exact hc
        · exact hf e he3
  refine ⟨hget calls pending, ?_, ?_, ?_, ?_⟩
  · intro front back fn later hsplit hfront
    constructor
    · rw [hget, hsplit, hfirst front back fn hfront]
    · have hreg : RegisterWriter (registryAfter (calls ++ pending)) name later
          = registryAfter ((calls ++ pending) ++ [(name, later)]) := by
        unfold registryAfter
        simp only [List.foldl_append, List.foldl_cons, List.foldl_nil]
      rw [hreg, hget, List.append_nil, hsplit, List.append_assoc, List.cons_append,
        hfirst front (back ++ [(name, later)]) fn hfront]
  · rw [hget]
    constructor
    · intro hnone
      cases hf : (calls ++ pending).find? (fun c => decide (c.1 = name)) with
      | none =>
        left
        intro c hc hcn
        have := List.find?_eq_none.mp hf c hc
        simp only [decide_eq_true_eq] at this
        exact this hcn
      | some d =>
        right
        rw [hf] at hnone
        obtain ⟨front, back, he, hfr⟩ := hsplit _ d hf
        simp only [] at hnone
        rw [hnone] at he
        exact ⟨front, back, he, hfr⟩
    · rintro (hno | ⟨front, back, he, hfr⟩)
      · have hf : (calls ++ pending).find? (fun c => decide (c.1 = name)) = none := by
          rw [List.find?_eq_none]
          intro c hc
          simp only [decide_eq_true_eq]
          exact hno c hc
        rw [hf]
      · rw [he, hfirst front back none hfr]
  · unfold ListWriters _ListWriters
    simp only []
    rw [loadPlugins_registryAfter]
    exact (keys_foldl_RegisterWriter (calls ++ pending) [] List.nodup_nil).1
  · intro n
    unfold ListWriters _ListWriters
    simp only []
    rw [loadPlugins_registryAfter]
    rw [show registryAfter (calls ++ pending)
      = (calls ++ pending).foldl (fun reg c => RegisterWriter reg c.1 c.2) [] from rfl,
      (keys_foldl_RegisterWriter (calls ++ pending) [] List.nodup_nil).2 n]
    simp

theorem C30_writer_registry_lookup_witness :
    GetWriter [("usdRi", some 3)] (registryAfter [("usdRi", some 1), ("usdAi", some (2 : ℕ))])
        "usdRi" = some 1 ∧
    GetWriter [] (RegisterWriter (registryAfter
        ([("usdRi", some 1), ("usdAi", some (2 : ℕ))] ++ [("usdRi", some 3)])) "usdRi" (some 4))
        "usdRi" = some 1 ∧
    "usdRi" ∈ ListWriters [("usdRi", some 3)]
        (registryAfter [("usdRi", some 1), ("usdAi", some (2 : ℕ))]) ∧
    (ListWriters [("usdRi", some 3)]
        (registryAfter [("usdRi", some 1), ("usdAi", some (2 : ℕ))])).Nodup ∧
    GetWriter [("usdRi", some 3)] (registryAfter [("usdRi", some 1), ("usdAi", some (2 : ℕ))])
        "usdMtlx" = none ∧
    GetWriter [("usdAi", some 3)] (registryAfter [("usdRi", none), ("usdRi", some (2 : ℕ))])
        "usdRi" = none := by
  obtain ⟨-, hfirst, -, hnd, hmem⟩ := C30_writer_registry_lookup
    [("usdRi", some 1), ("usdAi", some (2 : ℕ))] [("usdRi", some 3)] "usdRi"
  obtain ⟨-, -, hiff, -⟩ := C30_writer_registry_lookup
    [("usdRi", some 1), ("usdAi", some (2 : ℕ))] [("usdRi", some 3)] "usdMtlx"
  obtain ⟨-, -, hiff2, -⟩ := C30_writer_registry_lookup
    [("usdRi", none), ("usdRi", some (2 : ℕ))] [("usdAi", some 3)] "usdRi"
  obtain ⟨h1, h2⟩ := hfirst [] [("usdAi", some 2), ("usdRi", some 3)] (some 1) (some 4) rfl
    (by simp)
  exact ⟨h1, h2, (hmem "usdRi").mpr ⟨("usdRi", some 1), by simp, rfl⟩, hnd,
    hiff.mpr (Or.inl (by simp)),
    hiff2.mpr (Or.inr ⟨[], [("usdRi", some 2), ("usdAi", some 3)], rfl, by simp⟩)⟩

end UsdMayaUserAttributeWriterRegistry

/-! ## Lazy insertion (C22) -/

/-- With parallel operator lists `addOp` returns, and the lists stay parallel. -/
theorem addOp_total (s : TransformationMatrix) (ty : XformOpType) (pr : Precision)
    (nm : TfToken) (idx : ℕ) (beg : Bool) (cls : UsdMayaXformOpClassification)
    (hc : MayaStack.ops[idx]? = some cls)
    (hx : s.m_xformops.length = s.m_orderedOps.length) (hr : IndicesInRange s) :
    ∃ r s', s.addOp ty pr nm idx beg = some (r, s') ∧
      s'.m_xformops.length = s'.m_orderedOps.length ∧ IndicesInRange s' := by
  cases ha : (AddXformOp s.primValid s.stage ty pr nm cls.isInvertedTwin).1 with
  | none => exact ⟨_, _, addOp_fail s ty pr nm idx beg cls hc ha, hx, hr⟩
  | some op =>
    have hp := insertPos_le s idx beg
    refine ⟨_, _, addOp_ok s ty pr nm idx beg cls op hc ha hr, ?_, ?_⟩
    · simp only
      rw [List.length_insertIdx _ _ (le_trans hp hr.2), List.length_insertIdx _ _ (le_trans hp hr.1),
        hx]
    · unfold IndicesInRange
      simp only
      rw [List.length_insertIdx _ _ (le_trans hp hr.2), List.length_insertIdx _ _ (le_trans hp hr.1),
        List.length_insertIdx _ _ hp]
      exact ⟨Nat.succ_le_succ hr.1, Nat.succ_le_succ hr.2⟩

/-- With parallel operator lists `insertOp` returns for every operator of the host stack. -/
theorem insertOp_total (s : TransformationMatrix) (ty : XformOpType) (pr : Precision)
    (nm : TfToken) (flag : Flags) (beg : Bool)
    (hc1 : (MayaStack.ops[(MayaStack.FindOpIndexPair nm).1]?).isSome = true)
    (hc2 : (MayaStack.FindOpIndexPair nm).2 ≠ NO_INDEX →
      (MayaStack.ops[(MayaStack.FindOpIndexPair nm).2]?).isSome = true)
    (hx : s.m_xformops.length = s.m_orderedOps.length) (hr : IndicesInRange s) :
    ∃ r, s.insertOp ty pr nm flag beg = some r := by
  obtain ⟨b1, b2, _, _⟩ := buildOrderedOpMayaIndices_frame s
  have hr0 := indicesInRange_build_of s hx hr
  have hx0 : s.buildOrderedOpMayaIndices.m_xformops.length
      = s.buildOrderedOpMayaIndices.m_orderedOps.length := by rw [b1, b2]; exact hx
  obtain ⟨c1, hc1⟩ := Option.isSome_iff_exists.1 hc1
  unfold insertOp
  by_cases hp : (MayaStack.FindOpIndexPair nm).2 = NO_INDEX
  · obtain ⟨r1, s2, h1, _, _⟩ := addOp_total s.buildOrderedOpMayaIndices ty pr nm
      (MayaStack.FindOpIndexPair nm).1 beg c1 hc1 hx0 hr0
    simp only [hp, ne_eq, not_true_eq_false, if_false, false_and, h1]
    split_ifs <;> exact ⟨_, rfl⟩
  · obtain ⟨c2, hc2'⟩ := Option.isSome_iff_exists.1 (hc2 hp)
    obtain ⟨r2, s1, h2, hx1, hr1⟩ := addOp_total s.buildOrderedOpMayaIndices ty pr nm
      (MayaStack.FindOpIndexPair nm).2 beg c2 hc2' hx0 hr0
    obtain ⟨r1, s2, h1, _, _⟩ := addOp_total s1 ty pr nm
      (MayaStack.FindOpIndexPair nm).1 beg c1 hc1 hx1 hr1
    simp only [ne_eq, hp, not_false_eq_true, if_true, true_and, h2]
    split_ifs
    · exact ⟨_, rfl⟩
    · simp only [h1]
      split_ifs <;> exact ⟨_, rfl⟩

/-- The state after a successful `insertOp`: the presence flag is set, the operator is in
`m_xformops`, and parallel lists stay parallel. -/
theorem insertOp_success_spec (s : TransformationMatrix) (ty : XformOpType) (pr : Precision)
    (nm : TfToken) (flag : Flags) (beg : Bool) (s' : TransformationMatrix)
    (h : s.insertOp ty pr nm flag beg = some (.kSuccess, s')) :
    s'.m_flags = setFlag s.m_flags flag ∧
    (∃ op ∈ s'.m_xformops, op.name = nm) ∧
    (∀ op ∈ s.m_xformops, op ∈ s'.m_xformops) ∧
    (s.m_xformops.length = s.m_orderedOps.length → IndicesInRange s →
      s'.m_xformops.length = s'.m_orderedOps.length ∧ IndicesInRange s') := by
  obtain ⟨b1, b2, b3, b4⟩ := buildOrderedOpMayaIndices_frame s
  have key : ∀ (t t2 : TransformationMatrix) (idx : ℕ) (r : ℤ),
      t.addOp ty pr nm idx beg = some (r, t2) → r ≠ -1 →
      (∃ op ∈ t2.m_xformops, op.name = nm) ∧ (∀ op ∈ t.m_xformops, op ∈ t2.m_xformops) ∧
      (t.m_xformops.length = t.m_orderedOps.length → IndicesInRange t →
        t2.m_xformops.length = t2.m_orderedOps.length ∧ IndicesInRange t2) := by
    intro t t2 idx r ht hne
    obtain ⟨cls, hc, hh | ⟨p, _, _, hp1, hp2, hp3, _, hh⟩⟩ := addOp_cases _ _ _ _ _ _ _ _ ht
    · exact absurd hh.1 hne
    · rw [hh]
      refine ⟨⟨⟨ty, nm, cls.isInvertedTwin⟩, ?_, rfl⟩, ?_, ?_⟩
      · exact (List.mem_insertIdx hp2).2 (Or.inl rfl)
      · intro op hop
        exact (List.mem_insertIdx hp2).2 (Or.inr hop)
      · intro hx hr
        unfold IndicesInRange
        simp only
        rw [List.length_insertIdx _ _ hp2, List.length_insertIdx _ _ hp1,
          List.length_insertIdx _ _ hp3, hx]
        exact ⟨rfl, Nat.succ_le_succ hr.1, by rw [← hx]; exact Nat.succ_le_succ hr.2⟩
  refine ⟨(insertOp_success_frame s ty pr nm flag beg s' h).1, ?_⟩
  rcases insertOp_cases s ty pr nm flag beg .kSuccess s' h with
    ⟨_, r, s2, h2, ⟨_, hst, _⟩ | ⟨hr, _, e⟩⟩ |
    ⟨_, r2, s1, h1, ⟨_, hst, _⟩ | ⟨hr2, r1, s2, h2, ⟨_, hst, _⟩ | ⟨hr1, _, e⟩⟩⟩
  · exact absurd hst (by simp)
  · obtain ⟨k1, k2, k3⟩ := key _ _ _ _ h2 hr
    rw [e]
    refine ⟨k1, ?_, ?_⟩
    · intro op hop
      exact k2 op (by rw [b2]; exact hop)
    · intro hx hr'
      exact k3 (by rw [b1, b2]; exact hx) (indicesInRange_build_of s hx hr')
  · exact absurd hst (by simp)
  · exact absurd hst (by simp)
  · obtain ⟨_, j2, j3⟩ := key _ _ _ _ h1 hr2
    obtain ⟨k1, k2, k3⟩ := key _ _ _ _ h2 hr1
    rw [e]
    refine ⟨k1, ?_, ?_⟩
    · intro op hop
      exact k2 op (j2 op (by rw [b2]; exact hop))
    · intro hx hr'
      obtain ⟨a, b⟩ := j3 (by rw [b1, b2]; exact hx) (indicesInRange_build_of s hx hr')
      exact k3 a b

/-- The part the setters share after the tweak is recomputed, read for the insertion: with the
presence flag set or the insertion test false nothing is inserted; otherwise the insertion
runs, and the call ends in failure or with the operator inserted. -/
theorem setter_tail_lazy (s1 : TransformationMatrix) (avail has c : Bool)
    (o : Option (MStatus × TransformationMatrix))
    (cont : TransformationMatrix → Option (MStatus × TransformationMatrix)) (status : MStatus)
    (nm : TfToken) (F : Flags)
    (hcont : ∀ t, ∃ r, cont t = some (status, r) ∧ NoInsertion r t)
    (htot : avail = true → has = false → c = true → ∃ r, o = some r)
    (ho : ∀ t, o = some (.kSuccess, t) →
      hasFlag t.m_flags F = true ∧ ∃ op ∈ t.m_xformops, op.name = nm) :
    ∃ r, (if avail = true then
        match (if has = true then some (MStatus.kSuccess, s1)
          else if c = true then o else some (MStatus.kSuccess, s1)) with
        | none => none
        | some (.kFailure, s2) => some (MStatus.kFailure, s2)
        | some (.kSuccess, s2) => cont s2
      else some (status, s1)) = some r ∧
      ((avail = false ∨ has = true ∨ c = false) → r.1 = status ∧ NoInsertion r.2 s1) ∧
      (avail = true → has = false → c = true →
        r.1 = .kFailure ∨ (r.1 = status ∧ hasFlag r.2.m_flags F = true ∧
          ∃ op ∈ r.2.m_xformops, op.name = nm)) := by
  by_cases ha : avail = true
  · rw [if_pos ha]
    by_cases hh : has = true
    · rw [if_pos hh]
      obtain ⟨r, hr, hn⟩ := hcont s1
      refine ⟨(status, r), hr, fun _ => ⟨rfl, hn⟩, fun _ h2 _ => ?_⟩
      rw [hh] at h2; exact absurd h2 (by simp)
    · rw [if_neg hh]
      by_cases hc : c = true
      · rw [if_pos hc]
        obtain ⟨⟨st, t⟩, hr⟩ := htot ha (by simpa using hh) hc
        rw [hr]
        cases st with
        | kSuccess =>
          obtain ⟨r, hr2, hn⟩ := hcont t
          obtain ⟨hf, op, hop, hnm⟩ := ho t hr
          refine ⟨(status, r), hr2, fun h => ?_, fun _ _ _ => Or.inr ⟨rfl, ?_, op, ?_, hnm⟩⟩
          · rcases h with h | h | h
            · rw [ha] at h; exact absurd h (by simp)
            · exact absurd h hh
            · rw [hc] at h; exact absurd h (by simp)
          · rw [hn.2.2.2.1]; exact hf
          · rw [hn.2.1]; exact hop
        | kFailure =>
          refine ⟨(.kFailure, t), rfl, fun h => ?_, fun _ _ _ => Or.inl rfl⟩
          rcases h with h | h | h
          · rw [ha] at h; exact absurd h (by simp)
          · exact absurd h hh
          · rw [hc] at h; exact absurd h (by simp)
      · rw [if_neg hc]
        obtain ⟨r, hr, hn⟩ := hcont s1
        exact ⟨(status, r), hr, fun _ => ⟨rfl, hn⟩, fun _ _ h3 => absurd h3 hc⟩
  · rw [if_neg ha]
    exact ⟨(status, s1), rfl, fun _ => ⟨rfl, noInsertion_same _⟩, fun h => absurd h ha⟩

theorem translateTo_lazy (H : Host) (s : TransformationMatrix) (v : MVector) (space : MSpace)
    (hl : s.translateLocked = false)
    (hpar : s.pushToPrimAvailable = true → s.primHasTranslation = false →
      (!s.pushPrimToMatrix && decide (v ≠ MVector.zero)) = true →
      s.m_xformops.length = s.m_orderedOps.length ∧ IndicesInRange s) :
    ∃ r, s.translateTo H .kSuccess v space = some r ∧
      ((s.pushToPrimAvailable = false ∨ s.primHasTranslation = true ∨
          (!s.pushPrimToMatrix && decide (v ≠ MVector.zero)) = false) →
        r.1 = .kSuccess ∧ NoInsertion r.2 s) ∧
      (s.pushToPrimAvailable = true → s.primHasTranslation = false →
        (!s.pushPrimToMatrix && decide (v ≠ MVector.zero)) = true →
        r.1 = .kFailure ∨ (r.1 = .kSuccess ∧ hasFlag r.2.m_flags kPrimHasTranslation = true ∧
          ∃ op ∈ r.2.m_xformops, op.name = .translate)) := by
  obtain ⟨s1, hs1, hn, hav, hhas, hm⟩ : ∃ s1, s1 =
      (if (baseTranslateTo s.toMPxTransformationMatrix .kSuccess v space).1.toBool then
        { s with
          toMPxTransformationMatrix :=
            (baseTranslateTo s.toMPxTransformationMatrix .kSuccess v space).2
          m_translationTweak :=
            (baseTranslateTo s.toMPxTransformationMatrix .kSuccess v space).2.translationValue.sub
              s.m_translationFromUsd }
      else { s with toMPxTransformationMatrix :=
        (baseTranslateTo s.toMPxTransformationMatrix .kSuccess v space).2 }) ∧
      NoInsertion s1 s ∧ s1.pushToPrimAvailable = s.pushToPrimAvailable ∧
      s1.primHasTranslation = s.primHasTranslation ∧
      s1.pushPrimToMatrix = s.pushPrimToMatrix := by
    refine ⟨_, rfl, ?_, ?_, ?_, ?_⟩ <;> split_ifs <;>
      first | exact noInsertion_same _ | rfl
  have hst : (baseTranslateTo s.toMPxTransformationMatrix .kSuccess v space).1 = .kSuccess := rfl
  simp only [translateTo, hl, Bool.false_eq_true, if_false, insertTranslateOp]
  simp only [hl] at hs1
  rw [← hs1, hst, hav, hhas, hm]
  obtain ⟨r, hr, h1, h2⟩ := setter_tail_lazy s1 s.pushToPrimAvailable s.primHasTranslation
    (!s.pushPrimToMatrix && decide (v ≠ MVector.zero))
    (s1.insertOp .TypeTranslate .PrecisionFloat .translate kPrimHasTranslation true)
    (fun s2 => if (!v.isEquivalent s2.m_translationFromUsd) = true
      then some (MStatus.kSuccess, s2.pushTranslateToPrim H) else some (MStatus.kSuccess, s2))
    .kSuccess .translate kPrimHasTranslation
    (fun t => by
      dsimp only
      split_ifs
      · exact ⟨_, rfl, noInsertion_pushTranslateToPrim H t⟩
      · exact ⟨_, rfl, noInsertion_same _⟩)
    (fun ha hh hc => by
      obtain ⟨hx, hr⟩ := hpar ha hh hc
      exact insertOp_total s1 _ _ .translate _ _ (by decide) (by decide)
        (by rw [hn.2.1, hn.1]; exact hx)
        (by unfold IndicesInRange; rw [hn.2.1, hn.1, hn.2.2.1]; exact hr))
    (fun t ht => by
      obtain ⟨f1, f2, _, _⟩ := insertOp_success_spec _ _ _ _ _ _ _ ht
      exact ⟨by rw [f1]; exact hasFlag_setFlag_self _ _ (by decide), f2⟩)
  exact ⟨r, hr, fun h => ⟨(h1 h).1, noInsertion_chain (h1 h).2 hn⟩, h2⟩

theorem scaleTo_lazy (H : Host) (s : TransformationMatrix) (v : MVector) (space : MSpace)
    (hl : s.scaleLocked = false)
    (hpar : s.pushToPrimAvailable = true → s.primHasScale = false →
      (!s.pushPrimToMatrix && decide (v ≠ MVector.one)) = true →
      s.m_xformops.length = s.m_orderedOps.length ∧ IndicesInRange s) :
    ∃ r, s.scaleTo H .kSuccess v space = some r ∧
      ((s.pushToPrimAvailable = false ∨ s.primHasScale = true ∨
          (!s.pushPrimToMatrix && decide (v ≠ MVector.one)) = false) →
        r.1 = .kSuccess ∧ NoInsertion r.2 s) ∧
      (s.pushToPrimAvailable = true → s.primHasScale = false →
        (!s.pushPrimToMatrix && decide (v ≠ MVector.one)) = true →
        r.1 = .kFailure ∨ (r.1 = .kSuccess ∧ hasFlag r.2.m_flags kPrimHasScale = true ∧
          ∃ op ∈ r.2.m_xformops, op.name = .scale)) := by
  obtain ⟨s1, hs1, hn, hav, hhas, hm⟩ : ∃ s1, s1 =
      (if (baseScaleTo s.toMPxTransformationMatrix .kSuccess v space).1.toBool then
        { s with
          toMPxTransformationMatrix := (baseScaleTo s.toMPxTransformationMatrix .kSuccess v space).2
          m_scaleTweak := (baseScaleTo s.toMPxTransformationMatrix .kSuccess v space).2.scaleValue.sub s.m_scaleFromUsd }
      else { s with toMPxTransformationMatrix :=
        (baseScaleTo s.toMPxTransformationMatrix .kSuccess v space).2 }) ∧
      NoInsertion s1 s ∧ s1.pushToPrimAvailable = s.pushToPrimAvailable ∧
      s1.primHasScale = s.primHasScale ∧
      s1.pushPrimToMatrix = s.pushPrimToMatrix := by
    refine ⟨_, rfl, ?_, ?_, ?_, ?_⟩ <;> split_ifs <;>
      first | exact noInsertion_same _ | rfl
  have hst : (baseScaleTo s.toMPxTransformationMatrix .kSuccess v space).1 = .kSuccess := rfl
  simp only [scaleTo, hl, Bool.false_eq_true, if_false, insertScaleOp]
  simp only [hl] at hs1
  rw [← hs1, hst, hav, hhas, hm]
  obtain ⟨r, hr, h1, h2⟩ := setter_tail_lazy s1 s.pushToPrimAvailable s.primHasScale
    (!s.pushPrimToMatrix && decide (v ≠ MVector.one))
    (s1.insertOp .TypeScale .PrecisionFloat .scale kPrimHasScale false)
    (fun s2 => if (!v.isEquivalent s2.m_scaleFromUsd) = true
      then some (MStatus.kSuccess, s2.pushScaleToPrim H) else some (MStatus.kSuccess, s2))
    .kSuccess .scale kPrimHasScale
    (fun t => by
      dsimp only
      split_ifs <;>
        first
        | exact ⟨_, rfl, noInsertion_pushScaleToPrim H t⟩
        | exact ⟨_, rfl, noInsertion_same _⟩)
    (fun ha hh hc => by
      obtain ⟨hx, hr⟩ := hpar ha hh hc
      exact insertOp_total s1 _ _ .scale _ _ (by decide) (by decide)
        (by rw [hn.2.1, hn.1]; exact hx)
        (by unfold IndicesInRange; rw [hn.2.1, hn.1, hn.2.2.1]; exact hr))
    (fun t ht => by
      obtain ⟨f1, f2, _, _⟩ := insertOp_success_spec _ _ _ _ _ _ _ ht
      exact ⟨by rw [f1]; exact hasFlag_setFlag_self _ _ (by decide), f2⟩)
  exact ⟨r, hr, fun h => ⟨(h1 h).1, noInsertion_chain (h1 h).2 hn⟩, h2⟩

theorem shearTo_lazy (H : Host) (s : TransformationMatrix) (v : MVector) (space : MSpace)
    (hl : s.shearLocked = false)
    (hpar : s.pushToPrimAvailable = true → s.primHasShear = false →
      (!s.pushPrimToMatrix && decide (v ≠ MVector.zero)) = true →
      s.m_xformops.length = s.m_orderedOps.length ∧ IndicesInRange s) :
    ∃ r, s.shearTo H .kSuccess v space = some r ∧
      ((s.pushToPrimAvailable = false ∨ s.primHasShear = true ∨
          (!s.pushPrimToMatrix && decide (v ≠ MVector.zero)) = false) →
        r.1 = .kSuccess ∧ NoInsertion r.2 s) ∧
      (s.pushToPrimAvailable = true → s.primHasShear = false →
        (!s.pushPrimToMatrix && decide (v ≠ MVector.zero)) = true →
        r.1 = .kFailure ∨ (r.1 = .kSuccess ∧ hasFlag r.2.m_flags kPrimHasShear = true ∧
          ∃ op ∈ r.2.m_xformops, op.name = .shear)) := by
  obtain ⟨s1, hs1, hn, hav, hhas, hm⟩ : ∃ s1, s1 =
      (if (baseShearTo s.toMPxTransformationMatrix .kSuccess v space).1.toBool then
        { s with
          toMPxTransformationMatrix := (baseShearTo s.toMPxTransformationMatrix .kSuccess v space).2
          m_shearTweak := (baseShearTo s.toMPxTransformationMatrix .kSuccess v space).2.shearValue.sub s.m_shearFromUsd }
      else { s with toMPxTransformationMatrix :=
        (baseShearTo s.toMPxTransformationMatrix .kSuccess v space).2 }) ∧
      NoInsertion s1 s ∧ s1.pushToPrimAvailable = s.pushToPrimAvailable ∧
      s1.primHasShear = s.primHasShear ∧
      s1.pushPrimToMatrix = s.pushPrimToMatrix := by
    refine ⟨_, rfl, ?_, ?_, ?_, ?_⟩ <;> split_ifs <;>
      first | exact noInsertion_same _ | rfl
  have hst : (baseShearTo s.toMPxTransformationMatrix .kSuccess v space).1 = .kSuccess := rfl
  simp only [shearTo, hl, Bool.false_eq_true, if_false, insertShearOp]
  simp only [hl] at hs1
  rw [← hs1, hst, hav, hhas, hm]
  obtain ⟨r, hr, h1, h2⟩ := setter_tail_lazy s1 s.pushToPrimAvailable s.primHasShear
    (!s.pushPrimToMatrix && decide (v ≠ MVector.zero))
    (s1.insertOp .TypeTransform .PrecisionDouble .shear kPrimHasShear false)
    (fun s2 => if (!v.isEquivalent s2.m_shearFromUsd) = true
      then some (MStatus.kSuccess, s2.pushShearToPrim H) else some (MStatus.kSuccess, s2))
    .kSuccess .shear kPrimHasShear
    (fun t => by
      dsimp only
      split_ifs <;>
        first
        | exact ⟨_, rfl, noInsertion_pushShearToPrim H t⟩
        | exact ⟨_, rfl, noInsertion_same _⟩)
    (fun ha hh hc => by
      obtain ⟨hx, hr⟩ := hpar ha hh hc
      exact insertOp_total s1 _ _ .shear _ _ (by decide) (by decide)
        (by rw [hn.2.1, hn.1]; exact hx)
        (by unfold IndicesInRange; rw [hn.2.1, hn.1, hn.2.2.1]; exact hr))
    (fun t ht => by
      obtain ⟨f1, f2, _, _⟩ := insertOp_success_spec _ _ _ _ _ _ _ ht
      exact ⟨by rw [f1]; exact hasFlag_setFlag_self _ _ (by decide), f2⟩)
  exact ⟨r, hr, fun h => ⟨(h1 h).1, noInsertion_chain (h1 h).2 hn⟩, h2⟩

theorem setScalePivotTranslation_lazy (H : Host) (s : TransformationMatrix) (v : MVector) (space : MSpace)
    (hpar : s.pushToPrimAvailable = true → s.primHasScalePivotTranslate = false →
      (!s.pushPrimToMatrix && decide (v ≠ MVector.zero)) = true →
      s.m_xformops.length = s.m_orderedOps.length ∧ IndicesInRange s) :
    ∃ r, s.setScalePivotTranslation H .kSuccess v space = some r ∧
      ((s.pushToPrimAvailable = false ∨ s.primHasScalePivotTranslate = true ∨
          (!s.pushPrimToMatrix && decide (v ≠ MVector.zero)) = false) →
        r.1 = .kSuccess ∧ NoInsertion r.2 s) ∧
      (s.pushToPrimAvailable = true → s.primHasScalePivotTranslate = false →
        (!s.pushPrimToMatrix && decide (v ≠ MVector.zero)) = true →
        r.1 = .kFailure ∨ (r.1 = .kSuccess ∧ hasFlag r.2.m_flags kPrimHasScalePivotTranslate = true ∧
          ∃ op ∈ r.2.m_xformops, op.name = .scalePivotTranslate)) := by
  obtain ⟨s1, hs1, hn, hav, hhas, hm⟩ : ∃ s1, s1 =
      (if (baseSetScalePivotTranslation s.toMPxTransformationMatrix .kSuccess v space).1.toBool then
        { s with
          toMPxTransformationMatrix := (baseSetScalePivotTranslation s.toMPxTransformationMatrix .kSuccess v space).2
          m_scalePivotTranslationTweak := (baseSetScalePivotTranslation s.toMPxTransformationMatrix .kSuccess v space).2.scalePivotTranslationValue.sub s.m_scalePivotTranslationFromUsd }
      else { s with toMPxTransformationMatrix :=
        (baseSetScalePivotTranslation s.toMPxTransformationMatrix .kSuccess v space).2 }) ∧
      NoInsertion s1 s ∧ s1.pushToPrimAvailable = s.pushToPrimAvailable ∧
      s1.primHasScalePivotTranslate = s.primHasScalePivotTranslate ∧
      s1.pushPrimToMatrix = s.pushPrimToMatrix := by
    refine ⟨_, rfl, ?_, ?_, ?_, ?_⟩ <;> split_ifs <;>
      first | exact noInsertion_same _ | rfl
  have hst : (baseSetScalePivotTranslation s.toMPxTransformationMatrix .kSuccess v space).1 = .kSuccess := rfl
  simp only [setScalePivotTranslation, insertScalePivotTranslationOp]
  rw [← hs1, hst, hav, hhas, hm]
  obtain ⟨r, hr, h1, h2⟩ := setter_tail_lazy s1 s.pushToPrimAvailable s.primHasScalePivotTranslate
    (!s.pushPrimToMatrix && decide (v ≠ MVector.zero))
    (s1.insertOp .TypeTranslate .PrecisionFloat .scalePivotTranslate kPrimHasScalePivotTranslate false)
    (fun s2 => if (!v.isEquivalent s2.m_scalePivotTranslationFromUsd) = true
      then some (MStatus.kSuccess, s2.pushScalePivotTranslateToPrim H) else some (MStatus.kSuccess, s2))
    .kSuccess .scalePivotTranslate kPrimHasScalePivotTranslate
    (fun t => by
      dsimp only
      split_ifs <;>
        first
        | exact ⟨_, rfl, noInsertion_pushScalePivotTranslateToPrim H t⟩
        | exact ⟨_, rfl, noInsertion_same _⟩)
    (fun ha hh hc => by
      obtain ⟨hx, hr⟩ := hpar ha hh hc
      exact insertOp_total s1 _ _ .scalePivotTranslate _ _ (by decide) (by decide)
        (by rw [hn.2.1, hn.1]; exact hx)
        (by unfold IndicesInRange; rw [hn.2.1, hn.1, hn.2.2.1]; exact hr))
    (fun t ht => by
      obtain ⟨f1, f2, _, _⟩ := insertOp_success_spec _ _ _ _ _ _ _ ht
      exact ⟨by rw [f1]; exact hasFlag_setFlag_self _ _ (by decide), f2⟩)
  exact ⟨r, hr, fun h => ⟨(h1 h).1, noInsertion_chain (h1 h).2 hn⟩, h2⟩

theorem setRotatePivotTranslation_lazy (H : Host) (s : TransformationMatrix) (v : MVector) (space : MSpace)
    (hpar : s.pushToPrimAvailable = true → s.primHasRotatePivotTranslate = false →
      (!s.pushPrimToMatrix && decide (v ≠ MVector.zero)) = true →
      s.m_xformops.length = s.m_orderedOps.length ∧ IndicesInRange s) :
    ∃ r, s.setRotatePivotTranslation H .kSuccess v space = some r ∧
      ((s.pushToPrimAvailable = false ∨ s.primHasRotatePivotTranslate = true ∨
          (!s.pushPrimToMatrix && decide (v ≠ MVector.zero)) = false) →
        r.1 = .kSuccess ∧ NoInsertion r.2 s) ∧
      (s.pushToPrimAvailable = true → s.primHasRotatePivotTranslate = false →
        (!s.pushPrimToMatrix && decide (v ≠ MVector.zero)) = true →
        r.1 = .kFailure ∨ (r.1 = .kSuccess ∧ hasFlag r.2.m_flags kPrimHasRotatePivotTranslate = true ∧
          ∃ op ∈ r.2.m_xformops, op.name = .rotatePivotTranslate)) := by
  obtain ⟨s1, hs1, hn, hav, hhas, hm⟩ : ∃ s1, s1 =
      (if (baseSetRotatePivotTranslation s.toMPxTransformationMatrix .kSuccess v space).1.toBool then
        { s with
          toMPxTransformationMatrix := (baseSetRotatePivotTranslation s.toMPxTransformationMatrix .kSuccess v space).2
          m_rotatePivotTranslationTweak := (baseSetRotatePivotTranslation s.toMPxTransformationMatrix .kSuccess v space).2.rotatePivotTranslationValue.sub s.m_rotatePivotTranslationFromUsd }
      else { s with toMPxTransformationMatrix :=
        (baseSetRotatePivotTranslation s.toMPxTransformationMatrix .kSuccess v space).2 }) ∧
      NoInsertion s1 s ∧ s1.pushToPrimAvailable = s.pushToPrimAvailable ∧
      s1.primHasRotatePivotTranslate = s.primHasRotatePivotTranslate ∧
      s1.pushPrimToMatrix = s.pushPrimToMatrix := by
    refine ⟨_, rfl, ?_, ?_, ?_, ?_⟩ <;> split_ifs <;>
      first | exact noInsertion_same _ | rfl
  have hst : (baseSetRotatePivotTranslation s.toMPxTransformationMatrix .kSuccess v space).1 = .kSuccess := rfl
  simp only [setRotatePivotTranslation, insertRotatePivotTranslationOp]
  rw [← hs1, hst, hav, hhas, hm]
  obtain ⟨r, hr, h1, h2⟩ := setter_tail_lazy s1 s.pushToPrimAvailable s.primHasRotatePivotTranslate
    (!s.pushPrimToMatrix && decide (v ≠ MVector.zero))
    (s1.insertOp .TypeTranslate .PrecisionFloat .rotatePivotTranslate kPrimHasRotatePivotTranslate false)
    (fun s2 => if (!v.isEquivalent s2.m_rotatePivotTranslationFromUsd) = true
      then some (MStatus.kSuccess, s2.pushRotatePivotTranslateToPrim H) else some (MStatus.kSuccess, s2))
    .kSuccess .rotatePivotTranslate kPrimHasRotatePivotTranslate
    (fun t => by
      dsimp only
      split_ifs <;>
        first
        | exact ⟨_, rfl, noInsertion_pushRotatePivotTranslateToPrim H t⟩
        | exact ⟨_, rfl, noInsertion_same _⟩)
    (fun ha hh hc => by
      obtain ⟨hx, hr⟩ := hpar ha hh hc
      exact insertOp_total s1 _ _ .rotatePivotTranslate _ _ (by decide) (by decide)
        (by rw [hn.2.1, hn.1]; exact hx)
        (by unfold IndicesInRange; rw [hn.2.1, hn.1, hn.2.2.1]; exact hr))
    (fun t ht => by
      obtain ⟨f1, f2, _, _⟩ := insertOp_success_spec _ _ _ _ _ _ _ ht
      exact ⟨by rw [f1]; exact hasFlag_setFlag_self _ _ (by decide), f2⟩)
  exact ⟨r, hr, fun h => ⟨(h1 h).1, noInsertion_chain (h1 h).2 hn⟩, h2⟩

theorem rotateTo_lazy (H : Host) (s : TransformationMatrix) (e : MEulerRotation) (space : MSpace)
    (hl : s.rotateLocked = false)
    (hpar : s.pushToPrimAvailable = true → s.primHasRotation = false →
      (!s.pushPrimToMatrix && decide (e ≠ (⟨0, 0, 0, .kXYZ⟩ : MEulerRotation))) = true →
      s.m_xformops.length = s.m_orderedOps.length ∧ IndicesInRange s) :
    ∃ r, s.rotateTo H .kSuccess e space = some r ∧
      ((s.pushToPrimAvailable = false ∨ s.primHasRotation = true ∨
          (!s.pushPrimToMatrix && decide (e ≠ (⟨0, 0, 0, .kXYZ⟩ : MEulerRotation))) = false) →
        r.1 = .kSuccess ∧ NoInsertion r.2 s) ∧
      (s.pushToPrimAvailable = true → s.primHasRotation = false →
        (!s.pushPrimToMatrix && decide (e ≠ (⟨0, 0, 0, .kXYZ⟩ : MEulerRotation))) = true →
        r.1 = .kFailure ∨ (r.1 = .kSuccess ∧ hasFlag r.2.m_flags kPrimHasRotation = true ∧
          ∃ op ∈ r.2.m_xformops, op.name = .rotate)) := by
  obtain ⟨s1, hs1, hn, hav, hhas, hm⟩ : ∃ s1, s1 =
      (if (baseRotateTo s.toMPxTransformationMatrix .kSuccess e space).1.toBool then
        ({ s with toMPxTransformationMatrix :=
          (baseRotateTo s.toMPxTransformationMatrix .kSuccess e space).2 } :
            TransformationMatrix).updateRotationTweak
      else { s with toMPxTransformationMatrix :=
        (baseRotateTo s.toMPxTransformationMatrix .kSuccess e space).2 }) ∧
      NoInsertion s1 s ∧ s1.pushToPrimAvailable = s.pushToPrimAvailable ∧
      s1.primHasRotation = s.primHasRotation ∧
      s1.pushPrimToMatrix = s.pushPrimToMatrix := by
    refine ⟨_, rfl, ?_, ?_, ?_, ?_⟩ <;> split_ifs <;>
      first | exact noInsertion_same _ | rfl
  have hst : (baseRotateTo s.toMPxTransformationMatrix .kSuccess e space).1 = .kSuccess := rfl
  simp only [rotateTo, hl, Bool.false_eq_true, if_false, insertRotateOp]
  simp only [hl] at hs1
  rw [← hs1, hst, hav, hhas, hm]
  obtain ⟨r, hr, h1, h2⟩ := setter_tail_lazy s1 s.pushToPrimAvailable s.primHasRotation
    (!s.pushPrimToMatrix && decide (e ≠ (⟨0, 0, 0, .kXYZ⟩ : MEulerRotation)))
    (s1.insertOp (rotateOpType s1.rotationValue.order) .PrecisionFloat .rotate kPrimHasRotation false)
    (fun s2 => if s2.m_enableUsdWriteback = true then
        (if (!e.isEquivalent s2.m_rotationFromUsd) = true
          then some (MStatus.kSuccess, s2.pushRotateToPrim H) else some (MStatus.kSuccess, s2))
      else some (MStatus.kSuccess, s2))
    .kSuccess .rotate kPrimHasRotation
    (fun t => by
      dsimp only
      split_ifs <;>
        first
        | exact ⟨_, rfl, noInsertion_pushRotateToPrim H t⟩
        | exact ⟨_, rfl, noInsertion_same _⟩)
    (fun ha hh hc => by
      obtain ⟨hx, hr⟩ := hpar ha hh hc
      exact insertOp_total s1 _ _ .rotate _ _ (by decide) (by decide)
        (by rw [hn.2.1, hn.1]; exact hx)
        (by unfold IndicesInRange; rw [hn.2.1, hn.1, hn.2.2.1]; exact hr))
    (fun t ht => by
      obtain ⟨f1, f2, _, _⟩ := insertOp_success_spec _ _ _ _ _ _ _ ht
      exact ⟨by rw [f1]; exact hasFlag_setFlag_self _ _ (by decide), f2⟩)
  exact ⟨r, hr, fun h => ⟨(h1 h).1, noInsertion_chain (h1 h).2 hn⟩, h2⟩

theorem rotateToQuaternion_lazy (H : Host) (s : TransformationMatrix) (q : MQuaternion) (space : MSpace)
    (hl : s.rotateLocked = false)
    (hpar : s.pushToPrimAvailable = true → s.primHasRotation = false →
      (!s.pushPrimToMatrix && decide (q ≠ MQuaternion.identity)) = true →
      s.m_xformops.length = s.m_orderedOps.length ∧ IndicesInRange s) :
    ∃ r, s.rotateToQuaternion H .kSuccess q space = some r ∧
      ((s.pushToPrimAvailable = false ∨ s.primHasRotation = true ∨
          (!s.pushPrimToMatrix && decide (q ≠ MQuaternion.identity)) = false) →
        r.1 = .kSuccess ∧ NoInsertion r.2 s) ∧
      (s.pushToPrimAvailable = true → s.primHasRotation = false →
        (!s.pushPrimToMatrix && decide (q ≠ MQuaternion.identity)) = true →
        r.1 = .kFailure ∨ (r.1 = .kSuccess ∧ hasFlag r.2.m_flags kPrimHasRotation = true ∧
          ∃ op ∈ r.2.m_xformops, op.name = .rotate)) := by
  obtain ⟨s1, hs1, hn, hav, hhas, hm⟩ : ∃ s1, s1 =
      (if (baseRotateTo s.toMPxTransformationMatrix .kSuccess (H.asEulerRotation q) space).1.toBool then
        ({ s with toMPxTransformationMatrix :=
          (baseRotateTo s.toMPxTransformationMatrix .kSuccess (H.asEulerRotation q) space).2 } :
            TransformationMatrix).updateRotationTweak
      else { s with toMPxTransformationMatrix :=
        (baseRotateTo s.toMPxTransformationMatrix .kSuccess (H.asEulerRotation q) space).2 }) ∧
      NoInsertion s1 s ∧ s1.pushToPrimAvailable = s.pushToPrimAvailable ∧
      s1.primHasRotation = s.primHasRotation ∧
      s1.pushPrimToMatrix = s.pushPrimToMatrix := by
    refine ⟨_, rfl, ?_, ?_, ?_, ?_⟩ <;> split_ifs <;>
      first | exact noInsertion_same _ | rfl
  have hst : (baseRotateTo s.toMPxTransformationMatrix .kSuccess (H.asEulerRotation q) space).1 = .kSuccess := rfl
  simp only [rotateToQuaternion, hl, Bool.false_eq_true, if_false, insertRotateOp]
  simp only [hl] at hs1
  rw [← hs1, hst, hav, hhas, hm]
  obtain ⟨r, hr, h1, h2⟩ := setter_tail_lazy s1 s.pushToPrimAvailable s.primHasRotation
    (!s.pushPrimToMatrix && decide (q ≠ MQuaternion.identity))
    (s1.insertOp (rotateOpType s1.rotationValue.order) .PrecisionFloat .rotate kPrimHasRotation false)
    (fun s2 => if s2.m_enableUsdWriteback = true then
        (if (!s2.rotationValue.isEquivalent s2.m_rotationFromUsd) = true
          then some (MStatus.kSuccess, s2.pushRotateToPrim H) else some (MStatus.kSuccess, s2))
      else some (MStatus.kSuccess, s2))
    .kSuccess .rotate kPrimHasRotation
    (fun t => by
      dsimp only
      split_ifs <;>
        first
        | exact ⟨_, rfl, noInsertion_pushRotateToPrim H t⟩
        | exact ⟨_, rfl, noInsertion_same _⟩)
    (fun ha hh hc => by
      obtain ⟨hx, hr⟩ := hpar ha hh hc
      exact insertOp_total s1 _ _ .rotate _ _ (by decide) (by decide)
        (by rw [hn.2.1, hn.1]; exact hx)
        (by unfold IndicesInRange; rw [hn.2.1, hn.1, hn.2.2.1]; exact hr))
    (fun t ht => by
      obtain ⟨f1, f2, _, _⟩ := insertOp_success_spec _ _ _ _ _ _ _ ht
      exact ⟨by rw [f1]; exact hasFlag_setFlag_self _ _ (by decide), f2⟩)
  exact ⟨r, hr, fun h => ⟨(h1 h).1, noInsertion_chain (h1 h).2 hn⟩, h2⟩

theorem setRotateOrientation_lazy (H : Host) (s : TransformationMatrix) (q : MQuaternion) (space : MSpace) (balance : Bool)
    (hpar : s.pushToPrimAvailable = true → s.primHasRotateAxes = false →
      (!s.pushPrimToMatrix && decide (q ≠ MQuaternion.identity)) = true →
      s.m_xformops.length = s.m_orderedOps.length ∧ IndicesInRange s) :
    ∃ r, s.setRotateOrientation H .kSuccess q space balance = some r ∧
      ((s.pushToPrimAvailable = false ∨ s.primHasRotateAxes = true ∨
          (!s.pushPrimToMatrix && decide (q ≠ MQuaternion.identity)) = false) →
        r.1 = .kSuccess ∧ NoInsertion r.2 s) ∧
      (s.pushToPrimAvailable = true → s.primHasRotateAxes = false →
        (!s.pushPrimToMatrix && decide (q ≠ MQuaternion.identity)) = true →
        r.1 = .kFailure ∨ (r.1 = .kSuccess ∧ hasFlag r.2.m_flags kPrimHasRotateAxes = true ∧
          ∃ op ∈ r.2.m_xformops, op.name = .rotateAxis)) := by
  obtain ⟨s1, hs1, hn, hav, hhas, hm⟩ : ∃ s1, s1 =
      (if (baseSetRotateOrientation s.toMPxTransformationMatrix .kSuccess q space balance).1.toBool then
        { s with
          toMPxTransformationMatrix := (baseSetRotateOrientation s.toMPxTransformationMatrix .kSuccess q space balance).2
          m_rotateOrientationFromUsd :=
            (baseSetRotateOrientation s.toMPxTransformationMatrix .kSuccess q space balance).2.rotateOrientationValue.mul s.m_rotateOrientationTweak.inverse }
      else { s with toMPxTransformationMatrix :=
        (baseSetRotateOrientation s.toMPxTransformationMatrix .kSuccess q space balance).2 }) ∧
      NoInsertion s1 s ∧ s1.pushToPrimAvailable = s.pushToPrimAvailable ∧
      s1.primHasRotateAxes = s.primHasRotateAxes ∧
      s1.pushPrimToMatrix = s.pushPrimToMatrix := by
    refine ⟨_, rfl, ?_, ?_, ?_, ?_⟩ <;> split_ifs <;>
      first | exact noInsertion_same _ | rfl
  have hst : (baseSetRotateOrientation s.toMPxTransformationMatrix .kSuccess q space balance).1 = .kSuccess := rfl
  simp only [setRotateOrientation, insertRotateAxesOp]
  rw [← hs1, hst, hav, hhas, hm]
  obtain ⟨r, hr, h1, h2⟩ := setter_tail_lazy s1 s.pushToPrimAvailable s.primHasRotateAxes
    (!s.pushPrimToMatrix && decide (q ≠ MQuaternion.identity))
    (s1.insertOp .TypeRotateXYZ .PrecisionFloat .rotateAxis kPrimHasRotateAxes false)
    (fun s2 => if s2.m_enableUsdWriteback = true then some (MStatus.kSuccess, s2.pushRotateAxisToPrim H)
      else some (MStatus.kSuccess, s2))
    .kSuccess .rotateAxis kPrimHasRotateAxes
    (fun t => by
      dsimp only
      split_ifs <;>
        first
        | exact ⟨_, rfl, noInsertion_pushRotateAxisToPrim H t⟩
        | exact ⟨_, rfl, noInsertion_same _⟩)
    (fun ha hh hc => by
      obtain ⟨hx, hr⟩ := hpar ha hh hc
      exact insertOp_total s1 _ _ .rotateAxis _ _ (by decide) (by decide)
        (by rw [hn.2.1, hn.1]; exact hx)
        (by unfold IndicesInRange; rw [hn.2.1, hn.1, hn.2.2.1]; exact hr))
    (fun t ht => by
      obtain ⟨f1, f2, _, _⟩ := insertOp_success_spec _ _ _ _ _ _ _ ht
      exact ⟨by rw [f1]; exact hasFlag_setFlag_self _ _ (by decide), f2⟩)
  exact ⟨r, hr, fun h => ⟨(h1 h).1, noInsertion_chain (h1 h).2 hn⟩, h2⟩

theorem setRotateOrientationEuler_lazy (H : Host) (s : TransformationMatrix) (euler : MEulerRotation) (space : MSpace) (balance : Bool)
    (hpar : s.pushToPrimAvailable = true → s.primHasRotateAxes = false →
      (!s.pushPrimToMatrix && decide (euler ≠ (⟨0, 0, 0, .kXYZ⟩ : MEulerRotation))) = true →
      s.m_xformops.length = s.m_orderedOps.length ∧ IndicesInRange s) :
    ∃ r, s.setRotateOrientationEuler H .kSuccess euler space balance = some r ∧
      ((s.pushToPrimAvailable = false ∨ s.primHasRotateAxes = true ∨
          (!s.pushPrimToMatrix && decide (euler ≠ (⟨0, 0, 0, .kXYZ⟩ : MEulerRotation))) = false) →
        r.1 = .kSuccess ∧ NoInsertion r.2 s) ∧
      (s.pushToPrimAvailable = true → s.primHasRotateAxes = false →
        (!s.pushPrimToMatrix && decide (euler ≠ (⟨0, 0, 0, .kXYZ⟩ : MEulerRotation))) = true →
        r.1 = .kFailure ∨ (r.1 = .kSuccess ∧ hasFlag r.2.m_flags kPrimHasRotateAxes = true ∧
          ∃ op ∈ r.2.m_xformops, op.name = .rotateAxis)) := by
  obtain ⟨s1, hs1, hn, hav, hhas, hm⟩ : ∃ s1, s1 =
      (if (baseSetRotateOrientation s.toMPxTransformationMatrix .kSuccess (H.asQuaternion euler) space balance).1.toBool then
        { s with
          toMPxTransformationMatrix := (baseSetRotateOrientation s.toMPxTransformationMatrix .kSuccess (H.asQuaternion euler) space balance).2
          m_rotateOrientationFromUsd :=
            (baseSetRotateOrientation s.toMPxTransformationMatrix .kSuccess (H.asQuaternion euler) space balance).2.rotateOrientationValue.mul s.m_rotateOrientationTweak.inverse }
      else { s with toMPxTransformationMatrix :=
        (baseSetRotateOrientation s.toMPxTransformationMatrix .kSuccess (H.asQuaternion euler) space balance).2 }) ∧
      NoInsertion s1 s ∧ s1.pushToPrimAvailable = s.pushToPrimAvailable ∧
      s1.primHasRotateAxes = s.primHasRotateAxes ∧
      s1.pushPrimToMatrix = s.pushPrimToMatrix := by
    refine ⟨_, rfl, ?_, ?_, ?_, ?_⟩ <;> split_ifs <;>
      first | exact noInsertion_same _ | rfl
  have hst : (baseSetRotateOrientation s.toMPxTransformationMatrix .kSuccess (H.asQuaternion euler) space balance).1 = .kSuccess := rfl
  simp only [setRotateOrientationEuler, insertRotateAxesOp]
  rw [← hs1, hst, hav, hhas, hm]
  obtain ⟨r, hr, h1, h2⟩ := setter_tail_lazy s1 s.pushToPrimAvailable s.primHasRotateAxes
    (!s.pushPrimToMatrix && decide (euler ≠ (⟨0, 0, 0, .kXYZ⟩ : MEulerRotation)))
    (s1.insertOp .TypeRotateXYZ .PrecisionFloat .rotateAxis kPrimHasRotateAxes false)
    (fun s2 => if s2.m_enableUsdWriteback = true then some (MStatus.kSuccess, s2.pushRotateAxisToPrim H)
      else some (MStatus.kSuccess, s2))
    .kSuccess .rotateAxis kPrimHasRotateAxes
    (fun t => by
      dsimp only
      split_ifs <;>
        first
        | exact ⟨_, rfl, noInsertion_pushRotateAxisToPrim H t⟩
        | exact ⟨_, rfl, noInsertion_same _⟩)
    (fun ha hh hc => by
      obtain ⟨hx, hr⟩ := hpar ha hh hc
      exact insertOp_total s1 _ _ .rotateAxis _ _ (by decide) (by decide)
        (by rw [hn.2.1, hn.1]; exact hx)
        (by unfold IndicesInRange; rw [hn.2.1, hn.1, hn.2.2.1]; exact hr))
    (fun t ht => by
      obtain ⟨f1, f2, _, _⟩ := insertOp_success_spec _ _ _ _ _ _ _ ht
      exact ⟨by rw [f1]; exact hasFlag_setFlag_self _ _ (by decide), f2⟩)
  exact ⟨r, hr, fun h => ⟨(h1 h).1, noInsertion_chain (h1 h).2 hn⟩, h2⟩

/-- A successful `insertOp` followed by a push: the lists stay parallel, the presence flag is
set, the operator is in `m_xformops` and the operators of before are kept. -/
theorem insertOp_then_push (t t1 : TransformationMatrix) (ty : XformOpType) (pr : Precision)
    (nm : TfToken) (F : Flags) (beg : Bool)
    (push : TransformationMatrix → TransformationMatrix)
    (h1 : t.insertOp ty pr nm F beg = some (.kSuccess, t1))
    (hpush : ∀ u, NoInsertion (push u) u)
    (hx : t.m_xformops.length = t.m_orderedOps.length) (hr : IndicesInRange t) :
    (push t1).m_xformops.length = (push t1).m_orderedOps.length ∧ IndicesInRange (push t1) ∧
    (push t1).m_flags = setFlag t.m_flags F ∧
    (∃ op ∈ (push t1).m_xformops, op.name = nm) ∧
    (∀ op ∈ t.m_xformops, op ∈ (push t1).m_xformops) := by
  obtain ⟨f1, f2, f3, f4⟩ := insertOp_success_spec _ _ _ _ _ _ _ h1
  obtain ⟨g1, g2⟩ := f4 hx hr
  obtain ⟨n1, n2, n3, n4, _, _⟩ := hpush t1
  refine ⟨?_, ?_, ?_, ?_, ?_⟩
  · simp only [n1, n2]; exact g1
  · unfold IndicesInRange; simp only [n1, n2, n3]; exact g2
  · simp only [n4]; exact f1
  · simp only [n2]; exact f2
  · simp only [n2]; exact f3

/-- The tail of `insertAndPushPivotOp` on parallel lists: it returns, and ends in failure or
with every requested pivot operator inserted. -/
theorem insertPivotOps_lazy (H : Host) (t : TransformationMatrix) (a b : Bool)
    (hx : t.m_xformops.length = t.m_orderedOps.length) (hr : IndicesInRange t) :
    ∃ r, t.insertPivotOps H a b = some r ∧
      (r.1 = .kFailure ∨ (r.1 = .kSuccess ∧
        (a = true → hasFlag r.2.m_flags kPrimHasScalePivot = true ∧
          ∃ op ∈ r.2.m_xformops, op.name = .scalePivot) ∧
        (b = true → hasFlag r.2.m_flags kPrimHasRotatePivot = true ∧
          ∃ op ∈ r.2.m_xformops, op.name = .rotatePivot))) := by
  have second : ∀ (t1 : TransformationMatrix),
      t1.m_xformops.length = t1.m_orderedOps.length → IndicesInRange t1 →
      (a = true → hasFlag t1.m_flags kPrimHasScalePivot = true ∧
          ∃ op ∈ t1.m_xformops, op.name = .scalePivot) →
      ∃ r, (if b = true then
          match t1.insertOp .TypeTranslate .PrecisionFloat .rotatePivot kPrimHasRotatePivot
            false with
          | none => none
          | some (.kFailure, s2) => some (MStatus.kFailure, s2)
          | some (.kSuccess, s2) => some (MStatus.kSuccess, s2.pushRotatePivotToPrim H)
        else some (MStatus.kSuccess, t1)) = some r ∧
        (r.1 = .kFailure ∨ (r.1 = .kSuccess ∧
          (a = true → hasFlag r.2.m_flags kPrimHasScalePivot = true ∧
            ∃ op ∈ r.2.m_xformops, op.name = .scalePivot) ∧
          (b = true → hasFlag r.2.m_flags kPrimHasRotatePivot = true ∧
            ∃ op ∈ r.2.m_xformops, op.name = .rotatePivot))) := by
    intro t1 hx1 hr1 hA
    by_cases hb : b = true
    · rw [if_pos hb]
      obtain ⟨⟨st, t2⟩, h2⟩ := insertOp_total t1 .TypeTranslate .PrecisionFloat .rotatePivot
        kPrimHasRotatePivot false (by decide) (by decide) hx1 hr1
      rw [h2]
      cases st with
      | kFailure => exact ⟨_, rfl, Or.inl rfl⟩
      | kSuccess =>
        obtain ⟨_, _, k4, k5, k6⟩ := insertOp_then_push t1 t2 _ _ _ _ _
          (fun u => u.pushRotatePivotToPrim H) h2 (noInsertion_pushRotatePivotToPrim H) hx1 hr1
        refine ⟨_, rfl, Or.inr ⟨rfl, fun ha => ?_, fun _ =>
            ⟨by rw [k4]; exact hasFlag_setFlag_self _ _ (by decide), k5⟩⟩⟩
        obtain ⟨a1, op, hop, hnm⟩ := hA ha
        refine ⟨?_, op, k6 op hop, hnm⟩
        rw [k4, hasFlag_setFlag_other _ _ _ (by decide)]
        exact a1
    · rw [if_neg hb]
      exact ⟨_, rfl, Or.inr ⟨rfl, hA, fun h => absurd h hb⟩⟩
  simp only [insertPivotOps, insertScalePivotOp, insertRotatePivotOp]
  by_cases ha : a = true
  · rw [if_pos ha]
    obtain ⟨⟨st, t1⟩, h1⟩ := insertOp_total t .TypeTranslate .PrecisionFloat .scalePivot
      kPrimHasScalePivot false (by decide) (by decide) hx hr
    rw [h1]
    cases st with
    | kFailure => exact ⟨_, rfl, Or.inl rfl⟩
    | kSuccess =>
      obtain ⟨k1, k2, k4, k5, _⟩ := insertOp_then_push t t1 _ _ _ _ _
        (fun u => u.pushScalePivotToPrim H) h1 (noInsertion_pushScalePivotToPrim H) hx hr
      exact second _ k1 k2 (fun _ => ⟨by rw [k4]; exact hasFlag_setFlag_self _ _ (by decide), k5⟩)
  · rw [if_neg ha]
    exact second t hx hr (fun h => absurd h ha)

/-- The pivot insertion outside the in-place case, on parallel lists and a splittable combined
pivot: `insertAndPushPivotOp` returns, and ends in failure or with the operator `scalePivot`
inserted. -/
theorem insertAndPushPivotOp_scalePivot_lazy (H : Host) (t : TransformationMatrix)
    (hnot : ¬(t.primHasPivot = true ∧ t.scalePivotValue = t.rotatePivotValue))
    (hx : t.m_xformops.length = t.m_orderedOps.length)
    (hidx : t.m_orderedOpMayaIndices = [] ∨
      t.m_orderedOpMayaIndices.length = t.m_orderedOps.length)
    (hcount : t.primHasPivot = true →
      countNamed .pivot t.m_orderedOps = 1 ∨ countNamed .pivot t.m_orderedOps = 2) :
    ∃ r, t.insertAndPushPivotOp H .scalePivot = some r ∧
      (r.1 = .kFailure ∨ (r.1 = .kSuccess ∧ hasFlag r.2.m_flags kPrimHasScalePivot = true ∧
        ∃ op ∈ r.2.m_xformops, op.name = .scalePivot)) := by
  have hr : IndicesInRange t := by
    unfold IndicesInRange
    rcases hidx with h | h
    · rw [h]; simp
    · rw [h, hx]; simp
  have hname : ¬((TfToken.scalePivot : TfToken) ≠ .scalePivot ∧ (TfToken.scalePivot : TfToken) ≠ .rotatePivot) := by
    decide
  unfold insertAndPushPivotOp
  rw [if_neg hname]
  by_cases hp : t.primHasPivot = true
  · have hne : ¬(t.scalePivotValue = t.rotatePivotValue) := fun h => hnot ⟨hp, h⟩
    obtain ⟨s', hrem, _, _, _, _, _, _, hx', hr', _, _⟩ :=
      removeOp_spec t .pivot kPrimHasPivot hx hidx (hcount hp)
    obtain ⟨r, hrun, hc⟩ := insertPivotOps_lazy H s' true true hx' hr'
    simp only [hp, if_true, hne, if_false, hrem]
    refine ⟨r, hrun, ?_⟩
    rcases hc with hc | ⟨k1, k2, k3⟩
    · exact Or.inl hc
    · exact Or.inr ⟨k1, k2 rfl⟩
  · obtain ⟨r, hrun, hc⟩ := insertPivotOps_lazy H t (decide ((TfToken.scalePivot : TfToken) = .scalePivot))
      (!decide ((TfToken.scalePivot : TfToken) = .scalePivot)) hx hr
    simp only [hp, Bool.false_eq_true, if_false]
    refine ⟨r, hrun, ?_⟩
    rcases hc with hc | ⟨k1, k2, k3⟩
    · exact Or.inl hc
    · exact Or.inr ⟨k1, k2 (by decide)⟩

theorem setScalePivot_lazy (H : Host) (s : TransformationMatrix) (sp : MPoint) (space : MSpace)
    (balance : Bool)
    (hpar : s.pushToPrimAvailable = true → s.primHasScalePivot = false →
      (!s.pushPrimToMatrix && decide (sp ≠ MVector.zero)) = true →
      ¬(s.primHasPivot = true ∧ sp = s.rotatePivotValue) ∧
      s.m_xformops.length = s.m_orderedOps.length ∧
      (s.m_orderedOpMayaIndices = [] ∨
        s.m_orderedOpMayaIndices.length = s.m_orderedOps.length) ∧
      (s.primHasPivot = true →
        countNamed .pivot s.m_orderedOps = 1 ∨ countNamed .pivot s.m_orderedOps = 2)) :
    ∃ r, s.setScalePivot H .kSuccess sp space balance = some r ∧
      ((s.pushToPrimAvailable = false ∨ s.primHasScalePivot = true ∨
          (!s.pushPrimToMatrix && decide (sp ≠ MVector.zero)) = false) →
        r.1 = .kSuccess ∧ NoInsertion r.2 s) ∧
      (s.pushToPrimAvailable = true → s.primHasScalePivot = false →
        (!s.pushPrimToMatrix && decide (sp ≠ MVector.zero)) = true →
        r.1 = .kFailure ∨ (r.1 = .kSuccess ∧ hasFlag r.2.m_flags kPrimHasScalePivot = true ∧
          ∃ op ∈ r.2.m_xformops, op.name = .scalePivot)) := by
  obtain ⟨s1, hs1, hn, hav, hhas, hm, hpv, hsp, hrp⟩ : ∃ s1, s1 =
      (if (baseSetScalePivot s.toMPxTransformationMatrix .kSuccess sp space balance).1.toBool then
        { s with
          toMPxTransformationMatrix :=
            (baseSetScalePivot s.toMPxTransformationMatrix .kSuccess sp space balance).2
          m_scalePivotTweak :=
            (baseSetScalePivot s.toMPxTransformationMatrix .kSuccess sp space
              balance).2.scalePivotValue.sub s.m_scalePivotFromUsd }
      else { s with toMPxTransformationMatrix :=
        (baseSetScalePivot s.toMPxTransformationMatrix .kSuccess sp space balance).2 }) ∧
      NoInsertion s1 s ∧ s1.pushToPrimAvailable = s.pushToPrimAvailable ∧
      s1.primHasScalePivot = s.primHasScalePivot ∧
      s1.pushPrimToMatrix = s.pushPrimToMatrix ∧ s1.primHasPivot = s.primHasPivot ∧
      s1.scalePivotValue = sp ∧ s1.rotatePivotValue = s.rotatePivotValue := by
    refine ⟨_, rfl, ?_, ?_, ?_, ?_, ?_, ?_, ?_⟩ <;> split_ifs <;>
      first | exact noInsertion_same _ | rfl
  have hst : (baseSetScalePivot s.toMPxTransformationMatrix .kSuccess sp space balance).1 = .kSuccess := rfl
  simp only [setScalePivot]
  rw [← hs1, hst, hav, hhas, hm]
  by_cases ha : s.pushToPrimAvailable = true
  · rw [if_pos ha]
    by_cases hc : (!s.primHasScalePivot && (!s.pushPrimToMatrix && decide (sp ≠ MVector.zero))) = true
    · rw [if_pos hc]
      have hh : s.primHasScalePivot = false := by
        cases h : s.primHasScalePivot
        · rfl
        · rw [h] at hc; exact absurd hc (by simp)
      have hc2 : (!s.pushPrimToMatrix && decide (sp ≠ MVector.zero)) = true := by
        rw [hh] at hc; simpa using hc
      obtain ⟨p1, p2, p3, p4⟩ := hpar ha hh hc2
      obtain ⟨r, hrun, hres⟩ := insertAndPushPivotOp_scalePivot_lazy H s1
        (by rw [hpv, hsp, hrp]; exact p1)
        (by rw [hn.2.1, hn.1]; exact p2)
        (by rw [hn.2.2.1, hn.1]; exact p3)
        (by rw [hpv, hn.1]; exact p4)
      refine ⟨r, hrun, fun h => ?_, fun _ _ _ => hres⟩
      rcases h with h | h | h
      · rw [ha] at h; exact absurd h (by simp)
      · rw [hh] at h; exact absurd h (by simp)
      · rw [hc2] at h; exact absurd h (by simp)
    · rw [if_neg hc]
      have hno : ∀ r : MStatus × TransformationMatrix, r.1 = .kSuccess → NoInsertion r.2 s1 →
          (s.pushToPrimAvailable = false ∨ s.primHasScalePivot = true ∨
            (!s.pushPrimToMatrix && decide (sp ≠ MVector.zero)) = false →
              r.1 = .kSuccess ∧ NoInsertion r.2 s) ∧
          (s.pushToPrimAvailable = true → s.primHasScalePivot = false →
            (!s.pushPrimToMatrix && decide (sp ≠ MVector.zero)) = true →
            r.1 = .kFailure ∨ (r.1 = .kSuccess ∧ hasFlag r.2.m_flags kPrimHasScalePivot = true ∧
              ∃ op ∈ r.2.m_xformops, op.name = .scalePivot)) := by
        intro r h1 h2
        refine ⟨fun _ => ⟨h1, noInsertion_chain h2 hn⟩, fun _ hh hc2 => ?_⟩
        rw [hh, hc2] at hc
        exact absurd rfl hc
      split_ifs
      · exact ⟨_, rfl, hno _ rfl (noInsertion_pushScalePivotToPrim H s1)⟩
      · exact ⟨_, rfl, hno _ rfl (noInsertion_same _)⟩
  · rw [if_neg ha]
    refine ⟨_, rfl, fun _ => ⟨rfl, hn⟩, fun h => absurd h ha⟩

/-- The pivot insertion outside the in-place case, on parallel lists and a splittable combined
pivot: `insertAndPushPivotOp` returns, and ends in failure or with the operator `rotatePivot`
inserted. -/
theorem insertAndPushPivotOp_rotatePivot_lazy (H : Host) (t : TransformationMatrix)
    (hnot : ¬(t.primHasPivot = true ∧ t.scalePivotValue = t.rotatePivotValue))
    (hx : t.m_xformops.length = t.m_orderedOps.length)
    (hidx : t.m_orderedOpMayaIndices = [] ∨
      t.m_orderedOpMayaIndices.length = t.m_orderedOps.length)
    (hcount : t.primHasPivot = true →
      countNamed .pivot t.m_orderedOps = 1 ∨ countNamed .pivot t.m_orderedOps = 2) :
    ∃ r, t.insertAndPushPivotOp H .rotatePivot = some r ∧
      (r.1 = .kFailure ∨ (r.1 = .kSuccess ∧ hasFlag r.2.m_flags kPrimHasRotatePivot = true ∧
        ∃ op ∈ r.2.m_xformops, op.name = .rotatePivot)) := by
  have hr : IndicesInRange t := by
    unfold IndicesInRange
    rcases hidx with h | h
    · rw [h]; simp
    · rw [h, hx]; simp
  have hname : ¬((TfToken.rotatePivot : TfToken) ≠ .scalePivot ∧ (TfToken.rotatePivot : TfToken) ≠ .rotatePivot) := by
    decide
  unfold insertAndPushPivotOp
  rw [if_neg hname]
  by_cases hp : t.primHasPivot = true
  · have hne : ¬(t.scalePivotValue = t.rotatePivotValue) := fun h => hnot ⟨hp, h⟩
    obtain ⟨s', hrem, _, _, _, _, _, _, hx', hr', _, _⟩ :=
      removeOp_spec t .pivot kPrimHasPivot hx hidx (hcount hp)
    obtain ⟨r, hrun, hc⟩ := insertPivotOps_lazy H s' true true hx' hr'
    simp only [hp, if_true, hne, if_false, hrem]
    refine ⟨r, hrun, ?_⟩
    rcases hc with hc | ⟨k1, k2, k3⟩
    · exact Or.inl hc
    · exact Or.inr ⟨k1, k3 rfl⟩
  · obtain ⟨r, hrun, hc⟩ := insertPivotOps_lazy H t (decide ((TfToken.rotatePivot : TfToken) = .scalePivot))
      (!decide ((TfToken.rotatePivot : TfToken) = .scalePivot)) hx hr
    simp only [hp, Bool.false_eq_true, if_false]
    refine ⟨r, hrun, ?_⟩
    rcases hc with hc | ⟨k1, k2, k3⟩
    · exact Or.inl hc
    · exact Or.inr ⟨k1, k3 (by decide)⟩

theorem setRotatePivot_lazy (H : Host) (s : TransformationMatrix) (sp : MPoint) (space : MSpace)
    (balance : Bool)
    (hpar : s.pushToPrimAvailable = true → s.primHasRotatePivot = false →
      (!s.pushPrimToMatrix && decide (sp ≠ MVector.zero)) = true →
      ¬(s.primHasPivot = true ∧ s.scalePivotValue = sp) ∧
      s.m_xformops.length = s.m_orderedOps.length ∧
      (s.m_orderedOpMayaIndices = [] ∨
        s.m_orderedOpMayaIndices.length = s.m_orderedOps.length) ∧
      (s.primHasPivot = true →
        countNamed .pivot s.m_orderedOps = 1 ∨ countNamed .pivot s.m_orderedOps = 2)) :
    ∃ r, s.setRotatePivot H .kSuccess sp space balance = some r ∧
      ((s.pushToPrimAvailable = false ∨ s.primHasRotatePivot = true ∨
          (!s.pushPrimToMatrix && decide (sp ≠ MVector.zero)) = false) →
        r.1 = .kSuccess ∧ NoInsertion r.2 s) ∧
      (s.pushToPrimAvailable = true → s.primHasRotatePivot = false →
        (!s.pushPrimToMatrix && decide (sp ≠ MVector.zero)) = true →
        r.1 = .kFailure ∨ (r.1 = .kSuccess ∧ hasFlag r.2.m_flags kPrimHasRotatePivot = true ∧
          ∃ op ∈ r.2.m_xformops, op.name = .rotatePivot)) := by
  obtain ⟨s1, hs1, hn, hav, hhas, hm, hpv, hsp, hrp⟩ : ∃ s1, s1 =
      (if (baseSetRotatePivot s.toMPxTransformationMatrix .kSuccess sp space balance).1.toBool then
        { s with
          toMPxTransformationMatrix :=
            (baseSetRotatePivot s.toMPxTransformationMatrix .kSuccess sp space balance).2
          m_rotatePivotTweak :=
            (baseSetRotatePivot s.toMPxTransformationMatrix .kSuccess sp space
              balance).2.rotatePivotValue.sub s.m_rotatePivotFromUsd }
      else { s with toMPxTransformationMatrix :=
        (baseSetRotatePivot s.toMPxTransformationMatrix .kSuccess sp space balance).2 }) ∧
      NoInsertion s1 s ∧ s1.pushToPrimAvailable = s.pushToPrimAvailable ∧
      s1.primHasRotatePivot = s.primHasRotatePivot ∧
      s1.pushPrimToMatrix = s.pushPrimToMatrix ∧ s1.primHasPivot = s.primHasPivot ∧
      s1.scalePivotValue = s.scalePivotValue ∧ s1.rotatePivotValue = sp := by
    refine ⟨_, rfl, ?_, ?_, ?_, ?_, ?_, ?_, ?_⟩ <;> split_ifs <;>
      first | exact noInsertion_same _ | rfl
  have hst : (baseSetRotatePivot s.toMPxTransformationMatrix .kSuccess sp space balance).1 = .kSuccess := rfl
  simp only [setRotatePivot]
  rw [← hs1, hst, hav, hhas, hm]
  by_cases ha : s.pushToPrimAvailable = true
  · rw [if_pos ha]
    by_cases hc : (!s.primHasRotatePivot && (!s.pushPrimToMatrix && decide (sp ≠ MVector.zero))) = true
    · rw [if_pos hc]
      have hh : s.primHasRotatePivot = false := by
        cases h : s.primHasRotatePivot
        · rfl
        · rw [h] at hc; exact absurd hc (by simp)
      have hc2 : (!s.pushPrimToMatrix && decide (sp ≠ MVector.zero)) = true := by
        rw [hh] at hc; simpa using hc
      obtain ⟨p1, p2, p3, p4⟩ := hpar ha hh hc2
      obtain ⟨r, hrun, hres⟩ := insertAndPushPivotOp_rotatePivot_lazy H s1
        (by rw [hpv, hsp, hrp]; exact p1)
        (by rw [hn.2.1, hn.1]; exact p2)
        (by rw [hn.2.2.1, hn.1]; exact p3)
        (by rw [hpv, hn.1]; exact p4)
      refine ⟨r, hrun, fun h => ?_, fun _ _ _ => hres⟩
      rcases h with h | h | h
      · rw [ha] at h; exact absurd h (by simp)
      · rw [hh] at h; exact absurd h (by simp)
      · rw [hc2] at h; exact absurd h (by simp)
    · rw [if_neg hc]
      have hno : ∀ r : MStatus × TransformationMatrix, r.1 = .kSuccess → NoInsertion r.2 s1 →
          (s.pushToPrimAvailable = false ∨ s.primHasRotatePivot = true ∨
            (!s.pushPrimToMatrix && decide (sp ≠ MVector.zero)) = false →
              r.1 = .kSuccess ∧ NoInsertion r.2 s) ∧
          (s.pushToPrimAvailable = true → s.primHasRotatePivot = false →
            (!s.pushPrimToMatrix && decide (sp ≠ MVector.zero)) = true →
            r.1 = .kFailure ∨ (r.1 = .kSuccess ∧ hasFlag r.2.m_flags kPrimHasRotatePivot = true ∧
              ∃ op ∈ r.2.m_xformops, op.name = .rotatePivot)) := by
        intro r h1 h2
        refine ⟨fun _ => ⟨h1, noInsertion_chain h2 hn⟩, fun _ hh hc2 => ?_⟩
        rw [hh, hc2] at hc
        exact absurd rfl hc
      split_ifs
      · exact ⟨_, rfl, hno _ rfl (noInsertion_pushRotatePivotToPrim H s1)⟩
      · exact ⟨_, rfl, hno _ rfl (noInsertion_same _)⟩
  · rw [if_neg ha]
    refine ⟨_, rfl, fun _ => ⟨rfl, hn⟩, fun h => absurd h ha⟩

theorem indicesInRange_of_parallel (s : TransformationMatrix)
    (hx : s.m_xformops.length = s.m_orderedOps.length)
    (hidx : s.m_orderedOpMayaIndices = [] ∨
      s.m_orderedOpMayaIndices.length = s.m_orderedOps.length) : IndicesInRange s := by
  unfold IndicesInRange
  rcases hidx with h | h
  · rw [h]; simp
  · rw [h, hx]; simp

/-- Every unlocked setter call returns; it inserts nothing when write-back is unavailable, the
presence flag is set or the insertion test is false, and otherwise (outside the in-place write
of the combined pivot, on parallel lists) ends in failure or with its operator inserted. -/
theorem run_lazy (H : Host) (s : TransformationMatrix) (call : SetterCall)
    (hl : call.locked s = false)
    (hpar : s.pushToPrimAvailable = true → hasFlag s.m_flags call.presenceFlag = false →
      (!s.pushPrimToMatrix && call.differsFromIdentity) = true →
      call.combinedPivotInPlace s = false ∧
      s.m_xformops.length = s.m_orderedOps.length ∧
      (s.m_orderedOpMayaIndices = [] ∨
        s.m_orderedOpMayaIndices.length = s.m_orderedOps.length) ∧
      (s.primHasPivot = true →
        countNamed .pivot s.m_orderedOps = 1 ∨ countNamed .pivot s.m_orderedOps = 2)) :
    ∃ r, call.run H s = some r ∧
      ((s.pushToPrimAvailable = false ∨ hasFlag s.m_flags call.presenceFlag = true ∨
          (!s.pushPrimToMatrix && call.differsFromIdentity) = false) →
        r.1 = .kSuccess ∧ NoInsertion r.2 s) ∧
      (s.pushToPrimAvailable = true → hasFlag s.m_flags call.presenceFlag = false →
        (!s.pushPrimToMatrix && call.differsFromIdentity) = true →
        r.1 = .kFailure ∨ (r.1 = .kSuccess ∧ hasFlag r.2.m_flags call.presenceFlag = true ∧
          ∃ op ∈ r.2.m_xformops, op.name = call.opName)) := by
  have hp : s.pushToPrimAvailable = true → hasFlag s.m_flags call.presenceFlag = false →
      (!s.pushPrimToMatrix && call.differsFromIdentity) = true →
      s.m_xformops.length = s.m_orderedOps.length ∧ IndicesInRange s := by
    intro h0 h1 h2
    obtain ⟨_, p2, p3, _⟩ := hpar h0 h1 h2
    exact ⟨p2, indicesInRange_of_parallel s p2 p3⟩
  cases call with
  | translateTo v sp => exact translateTo_lazy H s v sp hl hp
  | scaleTo v sp => exact scaleTo_lazy H s v sp hl hp
  | shearTo v sp => exact shearTo_lazy H s v sp hl hp
  | rotateTo e sp => exact rotateTo_lazy H s e sp hl hp
  | rotateToQuaternion q sp => exact rotateToQuaternion_lazy H s q sp hl hp
  | setScalePivot p sp b =>
    refine setScalePivot_lazy H s p sp b (fun h0 h1 h2 => ?_)
    obtain ⟨p1, p2, p3, p4⟩ := hpar h0 h1 h2
    refine ⟨fun hc => ?_, p2, p3, p4⟩
    have : (s.primHasPivot && decide (p = s.rotatePivotValue)) = true := by
      rw [hc.1, decide_eq_true hc.2]; rfl
    exact absurd (this.symm.trans p1) (by decide)
  | setRotatePivot p sp b =>
    refine setRotatePivot_lazy H s p sp b (fun h0 h1 h2 => ?_)
    obtain ⟨p1, p2, p3, p4⟩ := hpar h0 h1 h2
    refine ⟨fun hc => ?_, p2, p3, p4⟩
    have : (s.primHasPivot && decide (s.scalePivotValue = p)) = true := by
      rw [hc.1, decide_eq_true hc.2]; rfl
    exact absurd (this.symm.trans p1) (by decide)
  | setScalePivotTranslation v sp => exact setScalePivotTranslation_lazy H s v sp hp
  | setRotatePivotTranslation v sp => exact setRotatePivotTranslation_lazy H s v sp hp
  | setRotateOrientation q sp b => exact setRotateOrientation_lazy H s q sp b hp
  | setRotateOrientationEuler e sp b => exact setRotateOrientationEuler_lazy H s e sp b hp

/-- A setter call on a locked channel returns the base result and inserts nothing. -/
theorem run_locked (H : Host) (s : TransformationMatrix) (call : SetterCall)
    (hl : call.locked s = true) :
    ∃ r, call.run H s = some (.kSuccess, r) ∧ NoInsertion r s := by
  cases call with
  | translateTo v sp =>
    have hl2 : s.translateLocked = true := hl
    refine ⟨{ s with toMPxTransformationMatrix :=
      (baseTranslateTo s.toMPxTransformationMatrix .kSuccess v sp).2 }, ?_,
      rfl, rfl, rfl, rfl, rfl, onlySets_same _⟩
    simp only [SetterCall.run, translateTo, hl2, if_true]
    rfl
  | scaleTo v sp =>
    have hl2 : s.scaleLocked = true := hl
    refine ⟨{ s with toMPxTransformationMatrix :=
      (baseScaleTo s.toMPxTransformationMatrix .kSuccess v sp).2 }, ?_,
      rfl, rfl, rfl, rfl, rfl, onlySets_same _⟩
    simp only [SetterCall.run, scaleTo, hl2, if_true]
    rfl
  | shearTo v sp =>
    have hl2 : s.shearLocked = true := hl
    refine ⟨{ s with toMPxTransformationMatrix :=
      (baseShearTo s.toMPxTransformationMatrix .kSuccess v sp).2 }, ?_,
      rfl, rfl, rfl, rfl, rfl, onlySets_same _⟩
    simp only [SetterCall.run, shearTo, hl2, if_true]
    rfl
  | rotateTo e sp =>
    have hl2 : s.rotateLocked = true := hl
    refine ⟨{ s with toMPxTransformationMatrix :=
      (baseRotateTo s.toMPxTransformationMatrix .kSuccess e sp).2 }, ?_,
      rfl, rfl, rfl, rfl, rfl, onlySets_same _⟩
    simp only [SetterCall.run, rotateTo, hl2, if_true]
    rfl
  | rotateToQuaternion q sp =>
    have hl2 : s.rotateLocked = true := hl
    refine ⟨{ s with toMPxTransformationMatrix :=
      (baseRotateTo s.toMPxTransformationMatrix .kSuccess (H.asEulerRotation q) sp).2 }, ?_,
      rfl, rfl, rfl, rfl, rfl, onlySets_same _⟩
    simp only [SetterCall.run, rotateToQuaternion, hl2, if_true]
    rfl
  | setScalePivot p sp b => exact absurd (show false = true from hl) (by decide)
  | setRotatePivot p sp b => exact absurd (show false = true from hl) (by decide)
  | setScalePivotTranslation v sp => exact absurd (show false = true from hl) (by decide)
  | setRotatePivotTranslation v sp => exact absurd (show false = true from hl) (by decide)
  | setRotateOrientation q sp b => exact absurd (show false = true from hl) (by decide)
  | setRotateOrientationEuler e sp b => exact absurd (show false = true from hl) (by decide)

theorem setScalePivot_inPlace (H : Host) (s : TransformationMatrix) (sp : MPoint) (space : MSpace)
    (balance : Bool) (hav : s.pushToPrimAvailable = true) (hh : s.primHasScalePivot = false)
    (hc : (!s.pushPrimToMatrix && decide (sp ≠ MVector.zero)) = true)
    (hp : s.primHasPivot = true) (heq : sp = s.rotatePivotValue) :
    ∃ r, s.setScalePivot H .kSuccess sp space balance = some (.kSuccess, r) ∧ NoInsertion r s := by
  obtain ⟨s1, hs1, hn, hav1, hhas, hm, hpv, hsp, hrp⟩ : ∃ s1, s1 =
      (if (baseSetScalePivot s.toMPxTransformationMatrix .kSuccess sp space balance).1.toBool then
        { s with
          toMPxTransformationMatrix :=
            (baseSetScalePivot s.toMPxTransformationMatrix .kSuccess sp space balance).2
          m_scalePivotTweak :=
            (baseSetScalePivot s.toMPxTransformationMatrix .kSuccess sp space
              balance).2.scalePivotValue.sub s.m_scalePivotFromUsd }
      else { s with toMPxTransformationMatrix :=
        (baseSetScalePivot s.toMPxTransformationMatrix .kSuccess sp space balance).2 }) ∧
      NoInsertion s1 s ∧ s1.pushToPrimAvailable = s.pushToPrimAvailable ∧
      s1.primHasScalePivot = s.primHasScalePivot ∧
      s1.pushPrimToMatrix = s.pushPrimToMatrix ∧ s1.primHasPivot = s.primHasPivot ∧
      s1.scalePivotValue = sp ∧ s1.rotatePivotValue = s.rotatePivotValue := by
    refine ⟨_, rfl, ?_, ?_, ?_, ?_, ?_, ?_, ?_⟩ <;> split_ifs <;>
      first | exact noInsertion_same _ | rfl
  have hname : ¬((TfToken.scalePivot : TfToken) ≠ .scalePivot ∧
      (TfToken.scalePivot : TfToken) ≠ .rotatePivot) := by
    decide
  have hc2 : (!s.primHasScalePivot && (!s.pushPrimToMatrix && decide (sp ≠ MVector.zero))) = true := by
    rw [hh, hc]; rfl
  have heq1 : s1.scalePivotValue = s1.rotatePivotValue := by
    rw [hsp, hrp]; exact heq
  simp only [setScalePivot]
  rw [← hs1, hav1, hhas, hm, if_pos hav, if_pos hc2]
  unfold insertAndPushPivotOp
  rw [if_neg hname]
  simp only [hpv, hp, if_true, heq1]
  exact ⟨_, rfl, noInsertion_chain (noInsertion_pushPivotToPrim H s1) hn⟩

theorem setRotatePivot_inPlace (H : Host) (s : TransformationMatrix) (sp : MPoint) (space : MSpace)
    (balance : Bool) (hav : s.pushToPrimAvailable = true) (hh : s.primHasRotatePivot = false)
    (hc : (!s.pushPrimToMatrix && decide (sp ≠ MVector.zero)) = true)
    (hp : s.primHasPivot = true) (heq : s.scalePivotValue = sp) :
    ∃ r, s.setRotatePivot H .kSuccess sp space balance = some (.kSuccess, r) ∧ NoInsertion r s := by
  obtain ⟨s1, hs1, hn, hav1, hhas, hm, hpv, hsp, hrp⟩ : ∃ s1, s1 =
      (if (baseSetRotatePivot s.toMPxTransformationMatrix .kSuccess sp space balance).1.toBool then
        { s with
          toMPxTransformationMatrix :=
            (baseSetRotatePivot s.toMPxTransformationMatrix .kSuccess sp space balance).2
          m_rotatePivotTweak :=
            (baseSetRotatePivot s.toMPxTransformationMatrix .kSuccess sp space
              balance).2.rotatePivotValue.sub s.m_rotatePivotFromUsd }
      else { s with toMPxTransformationMatrix :=
        (baseSetRotatePivot s.toMPxTransformationMatrix .kSuccess sp space balance).2 }) ∧
      NoInsertion s1 s ∧ s1.pushToPrimAvailable = s.pushToPrimAvailable ∧
      s1.primHasRotatePivot = s.primHasRotatePivot ∧
      s1.pushPrimToMatrix = s.pushPrimToMatrix ∧ s1.primHasPivot = s.primHasPivot ∧
      s1.scalePivotValue = s.scalePivotValue ∧ s1.rotatePivotValue = sp := by
    refine ⟨_, rfl, ?_, ?_, ?_, ?_, ?_, ?_, ?_⟩ <;> split_ifs <;>
      first | exact noInsertion_same _ | rfl
  have hname : ¬((TfToken.rotatePivot : TfToken) ≠ .scalePivot ∧
      (TfToken.rotatePivot : TfToken) ≠ .rotatePivot) := by
    decide
  have hc2 : (!s.primHasRotatePivot && (!s.pushPrimToMatrix && decide (sp ≠ MVector.zero))) = true := by
    rw [hh, hc]; rfl
  have heq1 : s1.scalePivotValue = s1.rotatePivotValue := by
    rw [hsp, hrp]; exact heq
  simp only [setRotatePivot]
  rw [← hs1, hav1, hhas, hm, if_pos hav, if_pos hc2]
  unfold insertAndPushPivotOp
  rw [if_neg hname]
  simp only [hpv, hp, if_true, heq1]
  exact ⟨_, rfl, noInsertion_chain (noInsertion_pushPivotToPrim H s1) hn⟩

/-- A pivot setter on an engine whose combined pivot is written in place inserts nothing. -/
theorem run_inPlace (H : Host) (s : TransformationMatrix) (call : SetterCall)
    (hin : call.combinedPivotInPlace s = true) :
    ∃ r, call.run H s = some (.kSuccess, r) ∧ NoInsertion r s := by
  have hl : call.locked s = false := by
    cases call <;> first | rfl | exact absurd (show false = true from hin) (by decide)
  by_cases hA : s.pushToPrimAvailable = true ∧ hasFlag s.m_flags call.presenceFlag = false ∧
      (!s.pushPrimToMatrix && call.differsFromIdentity) = true
  · obtain ⟨h0, h1, h2⟩ := hA
    cases call with
    | setScalePivot p sp b =>
      have hin2 : (s.primHasPivot && decide (p = s.rotatePivotValue)) = true := hin
      rw [Bool.and_eq_true, decide_eq_true_eq] at hin2
      exact setScalePivot_inPlace H s p sp b h0 h1 h2 hin2.1 hin2.2
    | setRotatePivot p sp b =>
      have hin2 : (s.primHasPivot && decide (s.scalePivotValue = p)) = true := hin
      rw [Bool.and_eq_true, decide_eq_true_eq] at hin2
      exact setRotatePivot_inPlace H s p sp b h0 h1 h2 hin2.1 hin2.2
    | translateTo v sp => exact absurd (show false = true from hin) (by decide)
    | scaleTo v sp => exact absurd (show false = true from hin) (by decide)
    | shearTo v sp => exact absurd (show false = true from hin) (by decide)
    | rotateTo e sp => exact absurd (show false = true from hin) (by decide)
    | rotateToQuaternion q sp => exact absurd (show false = true from hin) (by decide)
    | setScalePivotTranslation v sp => exact absurd (show false = true from hin) (by decide)
    | setRotatePivotTranslation v sp => exact absurd (show false = true from hin) (by decide)
    | setRotateOrientation q sp b => exact absurd (show false = true from hin) (by decide)
    | setRotateOrientationEuler e sp b => exact absurd (show false = true from hin) (by decide)
  · obtain ⟨⟨st, r⟩, hrun, h1, _⟩ := run_lazy H s call hl
      (fun h0 h1 h2 => absurd ⟨h0, h1, h2⟩ hA)
    have hcase : s.pushToPrimAvailable = false ∨ hasFlag s.m_flags call.presenceFlag = true ∨
        (!s.pushPrimToMatrix && call.differsFromIdentity) = false := by
      cases h0 : s.pushToPrimAvailable
      · exact Or.inl rfl
      · cases hf : hasFlag s.m_flags call.presenceFlag
        · cases hc : (!s.pushPrimToMatrix && call.differsFromIdentity)
          · exact Or.inr (Or.inr rfl)
          · exact absurd ⟨h0, hf, hc⟩ hA
        · exact Or.inr (Or.inl rfl)
    obtain ⟨k1, k2⟩ := h1 hcase
    simp only at k1 k2
    rw [k1] at hrun
    exact ⟨r, hrun, k2⟩

/-- For an operator that is not listed in the operator order of a valid prim, and whose type has
a value type, `AddXformOp` returns the operator and appends it to the order. -/
theorem AddXformOp_accepts (stage : UsdStage) (ty : XformOpType) (pr : Precision)
    (nm : TfToken) (inv : Bool)
    (hfresh : (⟨ty, nm, inv⟩ : UsdGeomXformOp) ∉ stage.xformOpOrder)
    (hty : (GetValueTypeName ty pr).isSome = true) :
    (AddXformOp true stage ty pr nm inv).1 = some ⟨ty, nm, inv⟩ ∧
    (AddXformOp true stage ty pr nm inv).2.xformOpOrder = stage.xformOpOrder ++ [⟨ty, nm, inv⟩] := by
  obtain ⟨vt, hvt⟩ := Option.isSome_iff_exists.1 hty
  have hc : stage.xformOpOrder.contains (⟨ty, nm, inv⟩ : UsdGeomXformOp) = false := by
    simpa using hfresh
  simp only [AddXformOp, hc, Bool.not_true, Bool.or_self, Bool.false_eq_true, if_false, hvt]
  cases stage.attrs.lookup (ty, nm) <;> exact ⟨rfl, rfl⟩

/-- With parallel operator lists, a valid prim and an operator order that lists no operator of
the name, `insertOp` succeeds. -/
theorem insertOp_accepted (t : TransformationMatrix) (ty : XformOpType) (pr : Precision)
    (nm : TfToken) (flag : Flags) (beg : Bool) (c1 : UsdMayaXformOpClassification)
    (hc1 : MayaStack.ops[(MayaStack.FindOpIndexPair nm).1]? = some c1)
    (hi1 : c1.isInvertedTwin = false)
    (hc2 : (MayaStack.FindOpIndexPair nm).2 ≠ NO_INDEX →
      ∃ c2, MayaStack.ops[(MayaStack.FindOpIndexPair nm).2]? = some c2 ∧
        c2.isInvertedTwin = true)
    (hx : t.m_xformops.length = t.m_orderedOps.length) (hr : IndicesInRange t)
    (hv : t.primValid = true) (hty : (GetValueTypeName ty pr).isSome = true)
    (hfresh : ∀ op ∈ t.stage.xformOpOrder, op.name ≠ nm) :
    ∃ t', t.insertOp ty pr nm flag beg = some (.kSuccess, t') := by
  obtain ⟨b1, b2, b3, b4⟩ := buildOrderedOpMayaIndices_frame t
  have hv0 := primValid_build t
  have hnot : ∀ (st : UsdStage) (b : Bool), (∀ op ∈ st.xformOpOrder, op.name ≠ nm) →
      (⟨ty, nm, b⟩ : UsdGeomXformOp) ∉ st.xformOpOrder := fun st b h hm => h _ hm rfl
  obtain ⟨⟨st, t'⟩, hrun⟩ := insertOp_total t ty pr nm flag beg (by rw [hc1]; rfl)
    (fun hp => by obtain ⟨c2, h2, _⟩ := hc2 hp; rw [h2]; rfl) hx hr
  cases st with
  | kSuccess => exact ⟨t', hrun⟩
  | kFailure =>
    exfalso
    rcases insertOp_cases t ty pr nm flag beg .kFailure t' hrun with
      ⟨_, r, s2, h2, ⟨hr1, _, _⟩ | ⟨_, hst, _⟩⟩ |
      ⟨hp, r2, s1, h1, ⟨hr2, _, _⟩ | ⟨hr2, r1, s2, h2, ⟨hr1, _, _⟩ | ⟨_, hst, _⟩⟩⟩
    · obtain ⟨cls, hc, ⟨_, hnone, _⟩ | ⟨p, hp, _⟩⟩ := addOp_cases _ _ _ _ _ _ _ _ h2
      · rw [hv0, hv, b4, (AddXformOp_accepts t.stage ty pr nm _ (hnot _ _ hfresh) hty).1] at hnone
        exact absurd hnone (by simp)
      · rw [hr1] at hp; omega
    · exact absurd hst (by simp)
    · obtain ⟨cls, hc, ⟨_, hnone, _⟩ | ⟨p, hp, _⟩⟩ := addOp_cases _ _ _ _ _ _ _ _ h1
      · rw [hv0, hv, b4, (AddXformOp_accepts t.stage ty pr nm _ (hnot _ _ hfresh) hty).1] at hnone
        exact absurd hnone (by simp)
      · rw [hr2] at hp; omega
    · obtain ⟨c2, hcc2, hi2⟩ := hc2 hp
      obtain ⟨cls2, hc2', ⟨hm1, _, _⟩ | ⟨p2, _, _, _, _, _, _, hs1⟩⟩ :=
        addOp_cases _ _ _ _ _ _ _ _ h1
      · exact absurd hm1 hr2
      · rw [hcc2] at hc2'
        cases hc2'
        obtain ⟨cls1, hc1', ⟨_, hnone, _⟩ | ⟨p, hp1, _⟩⟩ := addOp_cases _ _ _ _ _ _ _ _ h2
        · rw [hc1] at hc1'
          cases hc1'
          have hv1 : s1.primValid = true := by rw [hs1]; exact hv0.trans hv
          have hst1 : s1.stage = (AddXformOp true t.stage ty pr nm true).2 := by
            rw [hs1]
            simp only [hv0, hv, b4, hi2]
          have hord := (AddXformOp_accepts t.stage ty pr nm true (hnot _ _ hfresh) hty).2
          have hfresh1 : (⟨ty, nm, false⟩ : UsdGeomXformOp) ∉ s1.stage.xformOpOrder := by
            rw [hst1, hord]
            intro hm
            rcases List.mem_append.1 hm with hm | hm
            · exact hfresh _ hm rfl
            · simp at hm
          rw [hv1, hi1, (AddXformOp_accepts s1.stage ty pr nm false hfresh1 hty).1] at hnone
          exact absurd hnone (by simp)
        · rw [hr1] at hp1; omega
    · exact absurd hst (by simp)

/-- After a successful `insertOp` the operator order of the prim is the engine's operator list,
and every operator of the list was there before or carries the inserted name. -/
theorem insertOp_success_order (t : TransformationMatrix) (ty : XformOpType) (pr : Precision)
    (nm : TfToken) (flag : Flags) (beg : Bool) (t' : TransformationMatrix)
    (h : t.insertOp ty pr nm flag beg = some (.kSuccess, t')) :
    t'.stage.xformOpOrder = t'.m_xformops ∧ t'.primValid = t.primValid ∧
    ∀ op ∈ t'.m_xformops, op ∈ t.m_xformops ∨ op.name = nm := by
  obtain ⟨b1, b2, b3, b4⟩ := buildOrderedOpMayaIndices_frame t
  have hv0 := primValid_build t
  have key : ∀ (u u2 : TransformationMatrix) (idx : ℕ) (r : ℤ),
      u.addOp ty pr nm idx beg = some (r, u2) →
      u2.primValid = u.primValid ∧ ∀ op ∈ u2.m_xformops, op ∈ u.m_xformops ∨ op.name = nm := by
    intro u u2 idx r hu
    obtain ⟨cls, hc, ⟨_, _, e⟩ | ⟨p, _, _, _, hp2, _, _, e⟩⟩ := addOp_cases _ _ _ _ _ _ _ _ hu
    · rw [e]; exact ⟨rfl, fun op hop => Or.inl hop⟩
    · rw [e]
      refine ⟨rfl, fun op hop => ?_⟩
      rcases (List.mem_insertIdx hp2).1 hop with h1 | h1
      · right; rw [h1]
      · left; exact h1
  rcases insertOp_cases t ty pr nm flag beg .kSuccess t' h with
    ⟨_, r, s2, h2, ⟨_, hst, _⟩ | ⟨_, _, e⟩⟩ |
    ⟨_, r2, s1, h1, ⟨_, hst, _⟩ | ⟨_, r1, s2, h2, ⟨_, hst, _⟩ | ⟨_, _, e⟩⟩⟩
  · exact absurd hst (by simp)
  · obtain ⟨k1, k2⟩ := key _ _ _ _ h2
    rw [e]
    refine ⟨rfl, k1.trans hv0, fun op hop => ?_⟩
    rcases k2 op hop with h3 | h3
    · left; rw [← b2]; exact h3
    · right; exact h3
  · exact absurd hst (by simp)
  · exact absurd hst (by simp)
  · obtain ⟨j1, j2⟩ := key _ _ _ _ h1
    obtain ⟨k1, k2⟩ := key _ _ _ _ h2
    rw [e]
    refine ⟨rfl, (k1.trans j1).trans hv0, fun op hop => ?_⟩
    rcases k2 op hop with h3 | h3
    · rcases j2 op h3 with h4 | h4
      · left; rw [← b2]; exact h4
      · right; exact h4
    · right; exact h3

/-- The part the setters share after the tweak is recomputed, when the insertion runs and
succeeds: the call returns the status of the base class, with the presence flag set and the
operator in `m_xformops`. -/
theorem setter_tail_accepted (s1 : TransformationMatrix) (avail has c : Bool)
    (o : Option (MStatus × TransformationMatrix))
    (cont : TransformationMatrix → Option (MStatus × TransformationMatrix)) (status : MStatus)
    (nm : TfToken) (F : Flags)
    (hcont : ∀ t, ∃ r, cont t = some (status, r) ∧ NoInsertion r t)
    (ha : avail = true) (hh : has = false) (hc : c = true)
    (hacc : ∃ t, o = some (.kSuccess, t))
    (ho : ∀ t, o = some (.kSuccess, t) →
      hasFlag t.m_flags F = true ∧ ∃ op ∈ t.m_xformops, op.name = nm) :
    ∃ r, (if avail = true then
        match (if has = true then some (MStatus.kSuccess, s1)
          else if c = true then o else some (MStatus.kSuccess, s1)) with
        | none => none
        | some (.kFailure, s2) => some (MStatus.kFailure, s2)
        | some (.kSuccess, s2) => cont s2
      else some (status, s1)) = some (status, r) ∧
      hasFlag r.m_flags F = true ∧ ∃ op ∈ r.m_xformops, op.name = nm := by
  obtain ⟨t, ht⟩ := hacc
  obtain ⟨r, hr, hn⟩ := hcont t
  obtain ⟨hf, op, hop, hnm⟩ := ho t ht
  refine ⟨r, ?_, ?_, op, ?_, hnm⟩
  · rw [if_pos ha, hh, hc, ht]
    simp only [Bool.false_eq_true, if_false, if_true]
    exact hr
  · rw [hn.2.2.2.1]; exact hf
  · rw [hn.2.1]; exact hop

theorem getValueTypeName_rotateOpType (o : RotationOrder) :
    (GetValueTypeName (rotateOpType o) .PrecisionFloat).isSome = true := by
  cases o <;> rfl

theorem primValid_of_available (s : TransformationMatrix) (h : s.pushToPrimAvailable = true) :
    s.primValid = true := by
  unfold pushToPrimAvailable at h
  cases hv : s.primValid
  · rw [hv] at h; simp at h
  · rfl

theorem translateTo_accepted (H : Host) (s : TransformationMatrix) (v : MVector) (space : MSpace)
    (hl : s.translateLocked = false)
    (hav0 : s.pushToPrimAvailable = true) (hhas0 : s.primHasTranslation = false)
    (hc0 : (!s.pushPrimToMatrix && decide (v ≠ MVector.zero)) = true)
    (hx : s.m_xformops.length = s.m_orderedOps.length) (hr : IndicesInRange s)
    (hfresh : ∀ op ∈ s.stage.xformOpOrder, op.name ≠ .translate) :
    ∃ r, s.translateTo H .kSuccess v space = some (.kSuccess, r) ∧
      hasFlag r.m_flags kPrimHasTranslation = true ∧ ∃ op ∈ r.m_xformops, op.name = .translate := by
  obtain ⟨s1, hs1, hn, hav, hhas, hm⟩ : ∃ s1, s1 =
      (if (baseTranslateTo s.toMPxTransformationMatrix .kSuccess v space).1.toBool then
        { s with
          toMPxTransformationMatrix :=
            (baseTranslateTo s.toMPxTransformationMatrix .kSuccess v space).2
          m_translationTweak :=
            (baseTranslateTo s.toMPxTransformationMatrix .kSuccess v space).2.translationValue.sub
              s.m_translationFromUsd }
      else { s with toMPxTransformationMatrix :=
        (baseTranslateTo s.toMPxTransformationMatrix .kSuccess v space).2 }) ∧
      NoInsertion s1 s ∧ s1.pushToPrimAvailable = s.pushToPrimAvailable ∧
      s1.primHasTranslation = s.primHasTranslation ∧
      s1.pushPrimToMatrix = s.pushPrimToMatrix := by
    refine ⟨_, rfl, ?_, ?_, ?_, ?_⟩ <;> split_ifs <;>
      first | exact noInsertion_same _ | rfl
  have hst : (baseTranslateTo s.toMPxTransformationMatrix .kSuccess v space).1 = .kSuccess := rfl
  simp only [translateTo, hl, Bool.false_eq_true, if_false, insertTranslateOp]
  simp only [hl] at hs1
  rw [← hs1, hst, hav, hhas, hm]
  exact setter_tail_accepted s1 s.pushToPrimAvailable s.primHasTranslation
    (!s.pushPrimToMatrix && decide (v ≠ MVector.zero))
    (s1.insertOp .TypeTranslate .PrecisionFloat .translate kPrimHasTranslation true)
    (fun s2 => if (!v.isEquivalent s2.m_translationFromUsd) = true
      then some (MStatus.kSuccess, s2.pushTranslateToPrim H) else some (MStatus.kSuccess, s2))
    .kSuccess .translate kPrimHasTranslation
    (fun t => by
      dsimp only
      split_ifs
      · exact ⟨_, rfl, noInsertion_pushTranslateToPrim H t⟩
      · exact ⟨_, rfl, noInsertion_same _⟩)
    hav0 hhas0 hc0
    (insertOp_accepted s1 _ _ .translate _ _ _ rfl rfl (fun h => absurd rfl h)
      (by rw [hn.2.1, hn.1]; exact hx)
      (by unfold IndicesInRange; rw [hn.2.1, hn.1, hn.2.2.1]; exact hr)
      (by rw [hn.2.2.2.2.1]; exact primValid_of_available s hav0)
      (rfl)
      (by rw [hn.2.2.2.2.2.1]; exact hfresh))
    (fun t ht => by
      obtain ⟨f1, f2, _, _⟩ := insertOp_success_spec _ _ _ _ _ _ _ ht
      exact ⟨by rw [f1]; exact hasFlag_setFlag_self _ _ (by decide), f2⟩)

theorem scaleTo_accepted (H : Host) (s : TransformationMatrix) (v : MVector) (space : MSpace)
    (hl : s.scaleLocked = false)
    (hav0 : s.pushToPrimAvailable = true) (hhas0 : s.primHasScale = false)
    (hc0 : (!s.pushPrimToMatrix && decide (v ≠ MVector.one)) = true)
    (hx : s.m_xformops.length = s.m_orderedOps.length) (hr : IndicesInRange s)
    (hfresh : ∀ op ∈ s.stage.xformOpOrder, op.name ≠ .scale) :
    ∃ r, s.scaleTo H .kSuccess v space = some (.kSuccess, r) ∧
      hasFlag r.m_flags kPrimHasScale = true ∧ ∃ op ∈ r.m_xformops, op.name = .scale := by
  obtain ⟨s1, hs1, hn, hav, hhas, hm⟩ : ∃ s1, s1 =
      (if (baseScaleTo s.toMPxTransformationMatrix .kSuccess v space).1.toBool then
        { s with
          toMPxTransformationMatrix := (baseScaleTo s.toMPxTransformationMatrix .kSuccess v space).2
          m_scaleTweak := (baseScaleTo s.toMPxTransformationMatrix .kSuccess v space).2.scaleValue.sub s.m_scaleFromUsd }
      else { s with toMPxTransformationMatrix :=
        (baseScaleTo s.toMPxTransformationMatrix .kSuccess v space).2 }) ∧
      NoInsertion s1 s ∧ s1.pushToPrimAvailable = s.pushToPrimAvailable ∧
      s1.primHasScale = s.primHasScale ∧
      s1.pushPrimToMatrix = s.pushPrimToMatrix := by
    refine ⟨_, rfl, ?_, ?_, ?_, ?_⟩ <;> split_ifs <;>
      first | exact noInsertion_same _ | rfl
  have hst : (baseScaleTo s.toMPxTransformationMatrix .kSuccess v space).1 = .kSuccess := rfl
  simp only [scaleTo, hl, Bool.false_eq_true, if_false, insertScaleOp]
  simp only [hl] at hs1
  rw [← hs1, hst, hav, hhas, hm]
  exact setter_tail_accepted s1 s.pushToPrimAvailable s.primHasScale
    (!s.pushPrimToMatrix && decide (v ≠ MVector.one))
    (s1.insertOp .TypeScale .PrecisionFloat .scale kPrimHasScale false)
    (fun s2 => if (!v.isEquivalent s2.m_scaleFromUsd) = true
      then some (MStatus.kSuccess, s2.pushScaleToPrim H) else some (MStatus.kSuccess, s2))
    .kSuccess .scale kPrimHasScale
    (fun t => by
      dsimp only
      split_ifs <;>
        first
        | exact ⟨_, rfl, noInsertion_pushScaleToPrim H t⟩
        | exact ⟨_, rfl, noInsertion_same _⟩)
    hav0 hhas0 hc0
    (insertOp_accepted s1 _ _ .scale _ _ _ rfl rfl (fun h => absurd rfl h)
      (by rw [hn.2.1, hn.1]; exact hx)
      (by unfold IndicesInRange; rw [hn.2.1, hn.1, hn.2.2.1]; exact hr)
      (by rw [hn.2.2.2.2.1]; exact primValid_of_available s hav0)
      (rfl)
      (by rw [hn.2.2.2.2.2.1]; exact hfresh))
    (fun t ht => by
      obtain ⟨f1, f2, _, _⟩ := insertOp_success_spec _ _ _ _ _ _ _ ht
      exact ⟨by rw [f1]; exact hasFlag_setFlag_self _ _ (by decide), f2⟩)

theorem shearTo_accepted (H : Host) (s : TransformationMatrix) (v : MVector) (space : MSpace)
    (hl : s.shearLocked = false)
    (hav0 : s.pushToPrimAvailable = true) (hhas0 : s.primHasShear = false)
    (hc0 : (!s.pushPrimToMatrix && decide (v ≠ MVector.zero)) = true)
    (hx : s.m_xformops.length = s.m_orderedOps.length) (hr : IndicesInRange s)
    (hfresh : ∀ op ∈ s.stage.xformOpOrder, op.name ≠ .shear) :
    ∃ r, s.shearTo H .kSuccess v space = some (.kSuccess, r) ∧
      hasFlag r.m_flags kPrimHasShear = true ∧ ∃ op ∈ r.m_xformops, op.name = .shear := by
  obtain ⟨s1, hs1, hn, hav, hhas, hm⟩ : ∃ s1, s1 =
      (if (baseShearTo s.toMPxTransformationMatrix .kSuccess v space).1.toBool then
        { s with
          toMPxTransformationMatrix := (baseShearTo s.toMPxTransformationMatrix .kSuccess v space).2
          m_shearTweak := (baseShearTo s.toMPxTransformationMatrix .kSuccess v space).2.shearValue.sub s.m_shearFromUsd }
      else { s with toMPxTransformationMatrix :=
        (baseShearTo s.toMPxTransformationMatrix .kSuccess v space).2 }) ∧
      NoInsertion s1 s ∧ s1.pushToPrimAvailable = s.pushToPrimAvailable ∧
      s1.primHasShear = s.primHasShear ∧
      s1.pushPrimToMatrix = s.pushPrimToMatrix := by
    refine ⟨_, rfl, ?_, ?_, ?_, ?_⟩ <;> split_ifs <;>
      first | exact noInsertion_same _ | rfl
  have hst : (baseShearTo s.toMPxTransformationMatrix .kSuccess v space).1 = .kSuccess := rfl
  simp only [shearTo, hl, Bool.false_eq_true, if_false, insertShearOp]
  simp only [hl] at hs1
  rw [← hs1, hst, hav, hhas, hm]
  exact setter_tail_accepted s1 s.pushToPrimAvailable s.primHasShear
    (!s.pushPrimToMatrix && decide (v ≠ MVector.zero))
    (s1.insertOp .TypeTransform .PrecisionDouble .shear kPrimHasShear false)
    (fun s2 => if (!v.isEquivalent s2.m_shearFromUsd) = true
      then some (MStatus.kSuccess, s2.pushShearToPrim H) else some (MStatus.kSuccess, s2))
    .kSuccess .shear kPrimHasShear
    (fun t => by
      dsimp only
      split_ifs <;>
        first
        | exact ⟨_, rfl, noInsertion_pushShearToPrim H t⟩
        | exact ⟨_, rfl, noInsertion_same _⟩)
    hav0 hhas0 hc0
    (insertOp_accepted s1 _ _ .shear _ _ _ rfl rfl (fun h => absurd rfl h)
      (by rw [hn.2.1, hn.1]; exact hx)
      (by unfold IndicesInRange; rw [hn.2.1, hn.1, hn.2.2.1]; exact hr)
      (by rw [hn.2.2.2.2.1]; exact primValid_of_available s hav0)
      (rfl)
      (by rw [hn.2.2.2.2.2.1]; exact hfresh))
    (fun t ht => by
      obtain ⟨f1, f2, _, _⟩ := insertOp_success_spec _ _ _ _ _ _ _ ht
      exact ⟨by rw [f1]; exact hasFlag_setFlag_self _ _ (by decide), f2⟩)

theorem setScalePivotTranslation_accepted (H : Host) (s : TransformationMatrix) (v : MVector) (space : MSpace)
    (hav0 : s.pushToPrimAvailable = true) (hhas0 : s.primHasScalePivotTranslate = false)
    (hc0 : (!s.pushPrimToMatrix && decide (v ≠ MVector.zero)) = true)
    (hx : s.m_xformops.length = s.m_orderedOps.length) (hr : IndicesInRange s)
    (hfresh : ∀ op ∈ s.stage.xformOpOrder, op.name ≠ .scalePivotTranslate) :
    ∃ r, s.setScalePivotTranslation H .kSuccess v space = some (.kSuccess, r) ∧
      hasFlag r.m_flags kPrimHasScalePivotTranslate = true ∧ ∃ op ∈ r.m_xformops, op.name = .scalePivotTranslate := by
  obtain ⟨s1, hs1, hn, hav, hhas, hm⟩ : ∃ s1, s1 =
      (if (baseSetScalePivotTranslation s.toMPxTransformationMatrix .kSuccess v space).1.toBool then
        { s with
          toMPxTransformationMatrix := (baseSetScalePivotTranslation s.toMPxTransformationMatrix .kSuccess v space).2
          m_scalePivotTranslationTweak := (baseSetScalePivotTranslation s.toMPxTransformationMatrix .kSuccess v space).2.scalePivotTranslationValue.sub s.m_scalePivotTranslationFromUsd }
      else { s with toMPxTransformationMatrix :=
        (baseSetScalePivotTranslation s.toMPxTransformationMatrix .kSuccess v space).2 }) ∧
      NoInsertion s1 s ∧ s1.pushToPrimAvailable = s.pushToPrimAvailable ∧
      s1.primHasScalePivotTranslate = s.primHasScalePivotTranslate ∧
      s1.pushPrimToMatrix = s.pushPrimToMatrix := by
    refine ⟨_, rfl, ?_, ?_, ?_, ?_⟩ <;> split_ifs <;>
      first | exact noInsertion_same _ | rfl
  have hst : (baseSetScalePivotTranslation s.toMPxTransformationMatrix .kSuccess v space).1 = .kSuccess := rfl
  simp only [setScalePivotTranslation, insertScalePivotTranslationOp]
  rw [← hs1, hst, hav, hhas, hm]
  exact setter_tail_accepted s1 s.pushToPrimAvailable s.primHasScalePivotTranslate
    (!s.pushPrimToMatrix && decide (v ≠ MVector.zero))
    (s1.insertOp .TypeTranslate .PrecisionFloat .scalePivotTranslate kPrimHasScalePivotTranslate false)
    (fun s2 => if (!v.isEquivalent s2.m_scalePivotTranslationFromUsd) = true
      then some (MStatus.kSuccess, s2.pushScalePivotTranslateToPrim H) else some (MStatus.kSuccess, s2))
    .kSuccess .scalePivotTranslate kPrimHasScalePivotTranslate
    (fun t => by
      dsimp only
      split_ifs <;>
        first
        | exact ⟨_, rfl, noInsertion_pushScalePivotTranslateToPrim H t⟩
        | exact ⟨_, rfl, noInsertion_same _⟩)
    hav0 hhas0 hc0
    (insertOp_accepted s1 _ _ .scalePivotTranslate _ _ _ rfl rfl (fun h => absurd rfl h)
      (by rw [hn.2.1, hn.1]; exact hx)
      (by unfold IndicesInRange; rw [hn.2.1, hn.1, hn.2.2.1]; exact hr)
      (by rw [hn.2.2.2.2.1]; exact primValid_of_available s hav0)
      (rfl)
      (by rw [hn.2.2.2.2.2.1]; exact hfresh))
    (fun t ht => by
      obtain ⟨f1, f2, _, _⟩ := insertOp_success_spec _ _ _ _ _ _ _ ht
      exact ⟨by rw [f1]; exact hasFlag_setFlag_self _ _ (by decide), f2⟩)

theorem setRotatePivotTranslation_accepted (H : Host) (s : TransformationMatrix) (v : MVector) (space : MSpace)
    (hav0 : s.pushToPrimAvailable = true) (hhas0 : s.primHasRotatePivotTranslate = false)
    (hc0 : (!s.pushPrimToMatrix && decide (v ≠ MVector.zero)) = true)
    (hx : s.m_xformops.length = s.m_orderedOps.length) (hr : IndicesInRange s)
    (hfresh : ∀ op ∈ s.stage.xformOpOrder, op.name ≠ .rotatePivotTranslate) :
    ∃ r, s.setRotatePivotTranslation H .kSuccess v space = some (.kSuccess, r) ∧
      hasFlag r.m_flags kPrimHasRotatePivotTranslate = true ∧ ∃ op ∈ r.m_xformops, op.name = .rotatePivotTranslate := by
  obtain ⟨s1, hs1, hn, hav, hhas, hm⟩ : ∃ s1, s1 =
      (if (baseSetRotatePivotTranslation s.toMPxTransformationMatrix .kSuccess v space).1.toBool then
        { s with
          toMPxTransformationMatrix := (baseSetRotatePivotTranslation s.toMPxTransformationMatrix .kSuccess v space).2
          m_rotatePivotTranslationTweak := (baseSetRotatePivotTranslation s.toMPxTransformationMatrix .kSuccess v space).2.rotatePivotTranslationValue.sub s.m_rotatePivotTranslationFromUsd }
      else { s with toMPxTransformationMatrix :=
        (baseSetRotatePivotTranslation s.toMPxTransformationMatrix .kSuccess v space).2 }) ∧
      NoInsertion s1 s ∧ s1.pushToPrimAvailable = s.pushToPrimAvailable ∧
      s1.primHasRotatePivotTranslate = s.primHasRotatePivotTranslate ∧
      s1.pushPrimToMatrix = s.pushPrimToMatrix := by
    refine ⟨_, rfl, ?_, ?_, ?_, ?_⟩ <;> split_ifs <;>
      first | exact noInsertion_same _ | rfl
  have hst : (baseSetRotatePivotTranslation s.toMPxTransformationMatrix .kSuccess v space).1 = .kSuccess := rfl
  simp only [setRotatePivotTranslation, insertRotatePivotTranslationOp]
  rw [← hs1, hst, hav, hhas, hm]
  exact setter_tail_accepted s1 s.pushToPrimAvailable s.primHasRotatePivotTranslate
    (!s.pushPrimToMatrix && decide (v ≠ MVector.zero))
    (s1.insertOp .TypeTranslate .PrecisionFloat .rotatePivotTranslate kPrimHasRotatePivotTranslate false)
    (fun s2 => if (!v.isEquivalent s2.m_rotatePivotTranslationFromUsd) = true
      then some (MStatus.kSuccess, s2.pushRotatePivotTranslateToPrim H) else some (MStatus.kSuccess, s2))
    .kSuccess .rotatePivotTranslate kPrimHasRotatePivotTranslate
    (fun t => by
      dsimp only
      split_ifs <;>
        first
        | exact ⟨_, rfl, noInsertion_pushRotatePivotTranslateToPrim H t⟩
        | exact ⟨_, rfl, noInsertion_same _⟩)
    hav0 hhas0 hc0
    (insertOp_accepted s1 _ _ .rotatePivotTranslate _ _ _ rfl rfl (fun h => absurd rfl h)
      (by rw [hn.2.1, hn.1]; exact hx)
      (by unfold IndicesInRange; rw [hn.2.1, hn.1, hn.2.2.1]; exact hr)
      (by rw [hn.2.2.2.2.1]; exact primValid_of_available s hav0)
      (rfl)
      (by rw [hn.2.2.2.2.2.1]; exact hfresh))
    (fun t ht => by
      obtain ⟨f1, f2, _, _⟩ := insertOp_success_spec _ _ _ _ _ _ _ ht
      exact ⟨by rw [f1]; exact hasFlag_setFlag_self _ _ (by decide), f2⟩)

theorem rotateTo_accepted (H : Host) (s : TransformationMatrix) (e : MEulerRotation) (space : MSpace)
    (hl : s.rotateLocked = false)
    (hav0 : s.pushToPrimAvailable = true) (hhas0 : s.primHasRotation = false)
    (hc0 : (!s.pushPrimToMatrix && decide (e ≠ (⟨0, 0, 0, .kXYZ⟩ : MEulerRotation))) = true)
    (hx : s.m_xformops.length = s.m_orderedOps.length) (hr : IndicesInRange s)
    (hfresh : ∀ op ∈ s.stage.xformOpOrder, op.name ≠ .rotate) :
    ∃ r, s.rotateTo H .kSuccess e space = some (.kSuccess, r) ∧
      hasFlag r.m_flags kPrimHasRotation = true ∧ ∃ op ∈ r.m_xformops, op.name = .rotate := by
  obtain ⟨s1, hs1, hn, hav, hhas, hm⟩ : ∃ s1, s1 =
      (if (baseRotateTo s.toMPxTransformationMatrix .kSuccess e space).1.toBool then
        ({ s with toMPxTransformationMatrix :=
          (baseRotateTo s.toMPxTransformationMatrix .kSuccess e space).2 } :
            TransformationMatrix).updateRotationTweak
      else { s with toMPxTransformationMatrix :=
        (baseRotateTo s.toMPxTransformationMatrix .kSuccess e space).2 }) ∧
      NoInsertion s1 s ∧ s1.pushToPrimAvailable = s.pushToPrimAvailable ∧
      s1.primHasRotation = s.primHasRotation ∧
      s1.pushPrimToMatrix = s.pushPrimToMatrix := by
    refine ⟨_, rfl, ?_, ?_, ?_, ?_⟩ <;> split_ifs <;>
      first | exact noInsertion_same _ | rfl
  have hst : (baseRotateTo s.toMPxTransformationMatrix .kSuccess e space).1 = .kSuccess := rfl
  simp only [rotateTo, hl, Bool.false_eq_true, if_false, insertRotateOp]
  simp only [hl] at hs1
  rw [← hs1, hst, hav, hhas, hm]
  exact setter_tail_accepted s1 s.pushToPrimAvailable s.primHasRotation
    (!s.pushPrimToMatrix && decide (e ≠ (⟨0, 0, 0, .kXYZ⟩ : MEulerRotation)))
    (s1.insertOp (rotateOpType s1.rotationValue.order) .PrecisionFloat .rotate kPrimHasRotation false)
    (fun s2 => if s2.m_enableUsdWriteback = true then
        (if (!e.isEquivalent s2.m_rotationFromUsd) = true
          then some (MStatus.kSuccess, s2.pushRotateToPrim H) else some (MStatus.kSuccess, s2))
      else some (MStatus.kSuccess, s2))
    .kSuccess .rotate kPrimHasRotation
    (fun t => by
      dsimp only
      split_ifs <;>
        first
        | exact ⟨_, rfl, noInsertion_pushRotateToPrim H t⟩
        | exact ⟨_, rfl, noInsertion_same _⟩)
    hav0 hhas0 hc0
    (insertOp_accepted s1 _ _ .rotate _ _ _ rfl rfl (fun h => absurd rfl h)
      (by rw [hn.2.1, hn.1]; exact hx)
      (by unfold IndicesInRange; rw [hn.2.1, hn.1, hn.2.2.1]; exact hr)
      (by rw [hn.2.2.2.2.1]; exact primValid_of_available s hav0)
      (getValueTypeName_rotateOpType _)
      (by rw [hn.2.2.2.2.2.1]; exact hfresh))
    (fun t ht => by
      obtain ⟨f1, f2, _, _⟩ := insertOp_success_spec _ _ _ _ _ _ _ ht
      exact ⟨by rw [f1]; exact hasFlag_setFlag_self _ _ (by decide), f2⟩)

theorem rotateToQuaternion_accepted (H : Host) (s : TransformationMatrix) (q : MQuaternion) (space : MSpace)
    (hl : s.rotateLocked = false)
    (hav0 : s.pushToPrimAvailable = true) (hhas0 : s.primHasRotation = false)
    (hc0 : (!s.pushPrimToMatrix && decide (q ≠ MQuaternion.identity)) = true)
    (hx : s.m_xformops.length = s.m_orderedOps.length) (hr : IndicesInRange s)
    (hfresh : ∀ op ∈ s.stage.xformOpOrder, op.name ≠ .rotate) :
    ∃ r, s.rotateToQuaternion H .kSuccess q space = some (.kSuccess, r) ∧
      hasFlag r.m_flags kPrimHasRotation = true ∧ ∃ op ∈ r.m_xformops, op.name = .rotate := by
  obtain ⟨s1, hs1, hn, hav, hhas, hm⟩ : ∃ s1, s1 =
      (if (baseRotateTo s.toMPxTransformationMatrix .kSuccess (H.asEulerRotation q) space).1.toBool then
        ({ s with toMPxTransformationMatrix :=
          (baseRotateTo s.toMPxTransformationMatrix .kSuccess (H.asEulerRotation q) space).2 } :
            TransformationMatrix).updateRotationTweak
      else { s with toMPxTransformationMatrix :=
        (baseRotateTo s.toMPxTransformationMatrix .kSuccess (H.asEulerRotation q) space).2 }) ∧
      NoInsertion s1 s ∧ s1.pushToPrimAvailable = s.pushToPrimAvailable ∧
      s1.primHasRotation = s.primHasRotation ∧
      s1.pushPrimToMatrix = s.pushPrimToMatrix := by
    refine ⟨_, rfl, ?_, ?_, ?_, ?_⟩ <;> split_ifs <;>
      first | exact noInsertion_same _ | rfl
  have hst : (baseRotateTo s.toMPxTransformationMatrix .kSuccess (H.asEulerRotation q) space).1 = .kSuccess := rfl
  simp only [rotateToQuaternion, hl, Bool.false_eq_true, if_false, insertRotateOp]
  simp only [hl] at hs1
  rw [← hs1, hst, hav, hhas, hm]
  exact setter_tail_accepted s1 s.pushToPrimAvailable s.primHasRotation
    (!s.pushPrimToMatrix && decide (q ≠ MQuaternion.identity))
    (s1.insertOp (rotateOpType s1.rotationValue.order) .PrecisionFloat .rotate kPrimHasRotation false)
    (fun s2 => if s2.m_enableUsdWriteback = true then
        (if (!s2.rotationValue.isEquivalent s2.m_rotationFromUsd) = true
          then some (MStatus.kSuccess, s2.pushRotateToPrim H) else some (MStatus.kSuccess, s2))
      else some (MStatus.kSuccess, s2))
    .kSuccess .rotate kPrimHasRotation
    (fun t => by
      dsimp only
      split_ifs <;>
        first
        | exact ⟨_, rfl, noInsertion_pushRotateToPrim H t⟩
        | exact ⟨_, rfl, noInsertion_same _⟩)
    hav0 hhas0 hc0
    (insertOp_accepted s1 _ _ .rotate _ _ _ rfl rfl (fun h => absurd rfl h)
      (by rw [hn.2.1, hn.1]; exact hx)
      (by unfold IndicesInRange; rw [hn.2.1, hn.1, hn.2.2.1]; exact hr)
      (by rw [hn.2.2.2.2.1]; exact primValid_of_available s hav0)
      (getValueTypeName_rotateOpType _)
      (by rw [hn.2.2.2.2.2.1]; exact hfresh))
    (fun t ht => by
      obtain ⟨f1, f2, _, _⟩ := insertOp_success_spec _ _ _ _ _ _ _ ht
      exact ⟨by rw [f1]; exact hasFlag_setFlag_self _ _ (by decide), f2⟩)

theorem setRotateOrientation_accepted (H : Host) (s : TransformationMatrix) (q : MQuaternion) (space : MSpace) (balance : Bool)
    (hav0 : s.pushToPrimAvailable = true) (hhas0 : s.primHasRotateAxes = false)
    (hc0 : (!s.pushPrimToMatrix && decide (q ≠ MQuaternion.identity)) = true)
    (hx : s.m_xformops.length = s.m_orderedOps.length) (hr : IndicesInRange s)
    (hfresh : ∀ op ∈ s.stage.xformOpOrder, op.name ≠ .rotateAxis) :
    ∃ r, s.setRotateOrientation H .kSuccess q space balance = some (.kSuccess, r) ∧
      hasFlag r.m_flags kPrimHasRotateAxes = true ∧ ∃ op ∈ r.m_xformops, op.name = .rotateAxis := by
  obtain ⟨s1, hs1, hn, hav, hhas, hm⟩ : ∃ s1, s1 =
      (if (baseSetRotateOrientation s.toMPxTransformationMatrix .kSuccess q space balance).1.toBool then
        { s with
          toMPxTransformationMatrix := (baseSetRotateOrientation s.toMPxTransformationMatrix .kSuccess q space balance).2
          m_rotateOrientationFromUsd :=
            (baseSetRotateOrientation s.toMPxTransformationMatrix .kSuccess q space balance).2.rotateOrientationValue.mul s.m_rotateOrientationTweak.inverse }
      else { s with toMPxTransformationMatrix :=
        (baseSetRotateOrientation s.toMPxTransformationMatrix .kSuccess q space balance).2 }) ∧
      NoInsertion s1 s ∧ s1.pushToPrimAvailable = s.pushToPrimAvailable ∧
      s1.primHasRotateAxes = s.primHasRotateAxes ∧
      s1.pushPrimToMatrix = s.pushPrimToMatrix := by
    refine ⟨_, rfl, ?_, ?_, ?_, ?_⟩ <;> split_ifs <;>
      first | exact noInsertion_same _ | rfl
  have hst : (baseSetRotateOrientation s.toMPxTransformationMatrix .kSuccess q space balance).1 = .kSuccess := rfl
  simp only [setRotateOrientation, insertRotateAxesOp]
  rw [← hs1, hst, hav, hhas, hm]
  exact setter_tail_accepted s1 s.pushToPrimAvailable s.primHasRotateAxes
    (!s.pushPrimToMatrix && decide (q ≠ MQuaternion.identity))
    (s1.insertOp .TypeRotateXYZ .PrecisionFloat .rotateAxis kPrimHasRotateAxes false)
    (fun s2 => if s2.m_enableUsdWriteback = true then some (MStatus.kSuccess, s2.pushRotateAxisToPrim H)
      else some (MStatus.kSuccess, s2))
    .kSuccess .rotateAxis kPrimHasRotateAxes
    (fun t => by
      dsimp only
      split_ifs <;>
        first
        | exact ⟨_, rfl, noInsertion_pushRotateAxisToPrim H t⟩
        | exact ⟨_, rfl, noInsertion_same _⟩)
    hav0 hhas0 hc0
    (insertOp_accepted s1 _ _ .rotateAxis _ _ _ rfl rfl (fun h => absurd rfl h)
      (by rw [hn.2.1, hn.1]; exact hx)
      (by unfold IndicesInRange; rw [hn.2.1, hn.1, hn.2.2.1]; exact hr)
      (by rw [hn.2.2.2.2.1]; exact primValid_of_available s hav0)
      (rfl)
      (by rw [hn.2.2.2.2.2.1]; exact hfresh))
    (fun t ht => by
      obtain ⟨f1, f2, _, _⟩ := insertOp_success_spec _ _ _ _ _ _ _ ht
      exact ⟨by rw [f1]; exact hasFlag_setFlag_self _ _ (by decide), f2⟩)

theorem setRotateOrientationEuler_accepted (H : Host) (s : TransformationMatrix) (euler : MEulerRotation) (space : MSpace) (balance : Bool)
    (hav0 : s.pushToPrimAvailable = true) (hhas0 : s.primHasRotateAxes = false)
    (hc0 : (!s.pushPrimToMatrix && decide (euler ≠ (⟨0, 0, 0, .kXYZ⟩ : MEulerRotation))) = true)
    (hx : s.m_xformops.length = s.m_orderedOps.length) (hr : IndicesInRange s)
    (hfresh : ∀ op ∈ s.stage.xformOpOrder, op.name ≠ .rotateAxis) :
    ∃ r, s.setRotateOrientationEuler H .kSuccess euler space balance = some (.kSuccess, r) ∧
      hasFlag r.m_flags kPrimHasRotateAxes = true ∧ ∃ op ∈ r.m_xformops, op.name = .rotateAxis := by
  obtain ⟨s1, hs1, hn, hav, hhas, hm⟩ : ∃ s1, s1 =
      (if (baseSetRotateOrientation s.toMPxTransformationMatrix .kSuccess (H.asQuaternion euler) space balance).1.toBool then
        { s with
          toMPxTransformationMatrix := (baseSetRotateOrientation s.toMPxTransformationMatrix .kSuccess (H.asQuaternion euler) space balance).2
          m_rotateOrientationFromUsd :=
            (baseSetRotateOrientation s.toMPxTransformationMatrix .kSuccess (H.asQuaternion euler) space balance).2.rotateOrientationValue.mul s.m_rotateOrientationTweak.inverse }
      else { s with toMPxTransformationMatrix :=
        (baseSetRotateOrientation s.toMPxTransformationMatrix .kSuccess (H.asQuaternion euler) space balance).2 }) ∧
      NoInsertion s1 s ∧ s1.pushToPrimAvailable = s.pushToPrimAvailable ∧
      s1.primHasRotateAxes = s.primHasRotateAxes ∧
      s1.pushPrimToMatrix = s.pushPrimToMatrix := by
    refine ⟨_, rfl, ?_, ?_, ?_, ?_⟩ <;> split_ifs <;>
      first | exact noInsertion_same _ | rfl
  have hst : (baseSetRotateOrientation s.toMPxTransformationMatrix .kSuccess (H.asQuaternion euler) space balance).1 = .kSuccess := rfl
  simp only [setRotateOrientationEuler, insertRotateAxesOp]
  rw [← hs1, hst, hav, hhas, hm]
  exact setter_tail_accepted s1 s.pushToPrimAvailable s.primHasRotateAxes
    (!s.pushPrimToMatrix && decide (euler ≠ (⟨0, 0, 0, .kXYZ⟩ : MEulerRotation)))
    (s1.insertOp .TypeRotateXYZ .PrecisionFloat .rotateAxis kPrimHasRotateAxes false)
    (fun s2 => if s2.m_enableUsdWriteback = true then some (MStatus.kSuccess, s2.pushRotateAxisToPrim H)
      else some (MStatus.kSuccess, s2))
    .kSuccess .rotateAxis kPrimHasRotateAxes
    (fun t => by
      dsimp only
      split_ifs <;>
        first
        | exact ⟨_, rfl, noInsertion_pushRotateAxisToPrim H t⟩
        | exact ⟨_, rfl, noInsertion_same _⟩)
    hav0 hhas0 hc0
    (insertOp_accepted s1 _ _ .rotateAxis _ _ _ rfl rfl (fun h => absurd rfl h)
      (by rw [hn.2.1, hn.1]; exact hx)
      (by unfold IndicesInRange; rw [hn.2.1, hn.1, hn.2.2.1]; exact hr)
      (by rw [hn.2.2.2.2.1]; exact primValid_of_available s hav0)
      (rfl)
      (by rw [hn.2.2.2.2.2.1]; exact hfresh))
    (fun t ht => by
      obtain ⟨f1, f2, _, _⟩ := insertOp_success_spec _ _ _ _ _ _ _ ht
      exact ⟨by rw [f1]; exact hasFlag_setFlag_self _ _ (by decide), f2⟩)

/-- The tail of `insertAndPushPivotOp` when the store accepts the pivot operators: every
requested pivot operator is inserted and the call succeeds. -/
theorem insertPivotOps_accepted (H : Host) (t : TransformationMatrix) (a b : Bool)
    (hx : t.m_xformops.length = t.m_orderedOps.length) (hr : IndicesInRange t)
    (hv : t.primValid = true)
    (hS : a = true → ∀ op ∈ t.stage.xformOpOrder, op.name ≠ .scalePivot)
    (hR : b = true → (∀ op ∈ t.stage.xformOpOrder, op.name ≠ .rotatePivot) ∧
      (a = true → ∀ op ∈ t.m_xformops, op.name ≠ .rotatePivot)) :
    ∃ r, t.insertPivotOps H a b = some (.kSuccess, r) ∧
      (a = true → hasFlag r.m_flags kPrimHasScalePivot = true ∧
        ∃ op ∈ r.m_xformops, op.name = .scalePivot) ∧
      (b = true → hasFlag r.m_flags kPrimHasRotatePivot = true ∧
        ∃ op ∈ r.m_xformops, op.name = .rotatePivot) := by
  have second : ∀ (t1 : TransformationMatrix),
      t1.m_xformops.length = t1.m_orderedOps.length → IndicesInRange t1 →
      t1.primValid = true →
      (b = true → ∀ op ∈ t1.stage.xformOpOrder, op.name ≠ .rotatePivot) →
      (a = true → hasFlag t1.m_flags kPrimHasScalePivot = true ∧
          ∃ op ∈ t1.m_xformops, op.name = .scalePivot) →
      ∃ r, (if b = true then
          match t1.insertOp .TypeTranslate .PrecisionFloat .rotatePivot kPrimHasRotatePivot
            false with
          | none => none
          | some (.kFailure, s2) => some (MStatus.kFailure, s2)
          | some (.kSuccess, s2) => some (MStatus.kSuccess, s2.pushRotatePivotToPrim H)
        else some (MStatus.kSuccess, t1)) = some (.kSuccess, r) ∧
        (a = true → hasFlag r.m_flags kPrimHasScalePivot = true ∧
          ∃ op ∈ r.m_xformops, op.name = .scalePivot) ∧
        (b = true → hasFlag r.m_flags kPrimHasRotatePivot = true ∧
          ∃ op ∈ r.m_xformops, op.name = .rotatePivot) := by
    intro t1 hx1 hr1 hv1 hf1 hA
    by_cases hb : b = true
    · rw [if_pos hb]
      obtain ⟨t2, h2⟩ := insertOp_accepted t1 .TypeTranslate .PrecisionFloat .rotatePivot
        kPrimHasRotatePivot false _ rfl rfl (fun _ => ⟨_, rfl, rfl⟩) hx1 hr1 hv1 rfl (hf1 hb)
      rw [h2]
      obtain ⟨_, _, k4, k5, k6⟩ := insertOp_then_push t1 t2 _ _ _ _ _
        (fun u => u.pushRotatePivotToPrim H) h2 (noInsertion_pushRotatePivotToPrim H) hx1 hr1
      refine ⟨_, rfl, fun ha => ?_, fun _ =>
          ⟨by rw [k4]; exact hasFlag_setFlag_self _ _ (by decide), k5⟩⟩
      obtain ⟨a1, op, hop, hnm⟩ := hA ha
      refine ⟨?_, op, k6 op hop, hnm⟩
      rw [k4, hasFlag_setFlag_other _ _ _ (by decide)]
      exact a1
    · rw [if_neg hb]
      exact ⟨_, rfl, hA, fun h => absurd h hb⟩
  simp only [insertPivotOps, insertScalePivotOp, insertRotatePivotOp]
  by_cases ha : a = true
  · rw [if_pos ha]
    obtain ⟨t1, h1⟩ := insertOp_accepted t .TypeTranslate .PrecisionFloat .scalePivot
      kPrimHasScalePivot false _ rfl rfl (fun _ => ⟨_, rfl, rfl⟩) hx hr hv rfl (hS ha)
    rw [h1]
    obtain ⟨k1, k2, k4, k5, _⟩ := insertOp_then_push t t1 _ _ _ _ _
      (fun u => u.pushScalePivotToPrim H) h1 (noInsertion_pushScalePivotToPrim H) hx hr
    obtain ⟨o1, o2, o3⟩ := insertOp_success_order _ _ _ _ _ _ _ h1
    obtain ⟨n1, n2, n3, n4, n5, n6⟩ := noInsertion_pushScalePivotToPrim H t1
    refine second _ k1 k2 (by rw [n5, o2]; exact hv) (fun hb => ?_)
      (fun _ => ⟨by rw [k4]; exact hasFlag_setFlag_self _ _ (by decide), k5⟩)
    intro op hop
    rw [n6.1, o1] at hop
    rcases o3 op hop with h3 | h3
    · exact (hR hb).2 ha op h3
    · rw [h3]; decide
  · rw [if_neg ha]
    exact second t hx hr hv (fun hb => (hR hb).1) (fun h => absurd h ha)

/-- The pivot insertion outside the in-place case when the store accepts the pivot operators:
`insertAndPushPivotOp` succeeds with the requested pivot operator inserted. When the combined
pivot is split, the operators of the engine must not hold a scale or rotate pivot yet;
otherwise the operator order of the prim must not list the requested one. -/
theorem insertAndPushPivotOp_accepted (H : Host) (t : TransformationMatrix) (nm : TfToken)
    (F : Flags) (hname : (nm = .scalePivot ∧ F = kPrimHasScalePivot) ∨
      (nm = .rotatePivot ∧ F = kPrimHasRotatePivot))
    (hnot : ¬(t.primHasPivot = true ∧ t.scalePivotValue = t.rotatePivotValue))
    (hx : t.m_xformops.length = t.m_orderedOps.length)
    (hidx : t.m_orderedOpMayaIndices = [] ∨
      t.m_orderedOpMayaIndices.length = t.m_orderedOps.length)
    (hcount : t.primHasPivot = true →
      countNamed .pivot t.m_orderedOps = 1 ∨ countNamed .pivot t.m_orderedOps = 2)
    (hv : t.primValid = true)
    (hfresh : ∀ op ∈ t.stage.xformOpOrder, op.name ≠ nm)
    (hsplit : t.primHasPivot = true →
      ∀ op ∈ t.m_xformops, op.name ≠ .scalePivot ∧ op.name ≠ .rotatePivot) :
    ∃ r, t.insertAndPushPivotOp H nm = some (.kSuccess, r) ∧
      hasFlag r.m_flags F = true ∧ ∃ op ∈ r.m_xformops, op.name = nm := by
  have hr : IndicesInRange t := indicesInRange_of_parallel t hx hidx
  have hn : ¬(nm ≠ .scalePivot ∧ nm ≠ .rotatePivot) := by
    rcases hname with ⟨h, _⟩ | ⟨h, _⟩ <;> rw [h] <;> decide
  unfold insertAndPushPivotOp
  rw [if_neg hn]
  by_cases hp : t.primHasPivot = true
  · have hne : ¬(t.scalePivotValue = t.rotatePivotValue) := fun h => hnot ⟨hp, h⟩
    obtain ⟨s', hrem, _, r2, _, _, _, r6, hx', hr', r9, _⟩ :=
      removeOp_spec t .pivot kPrimHasPivot hx hidx (hcount hp)
    have hmem : ∀ op ∈ s'.m_xformops, op ∈ t.m_xformops := by
      intro op hop
      rw [r6] at hop
      exact mem_dropNamed _ _ _ _ hop
    obtain ⟨r, hrun, k1, k2⟩ := insertPivotOps_accepted H s' true true hx' hr'
      (by rw [r2]; exact hv)
      (fun _ op hop => (hsplit hp op (hmem op (by rw [← r9]; exact hop))).1)
      (fun _ => ⟨fun op hop => (hsplit hp op (hmem op (by rw [← r9]; exact hop))).2,
        fun _ op hop => (hsplit hp op (hmem op hop)).2⟩)
    simp only [hp, if_true, hne, if_false, hrem]
    refine ⟨r, hrun, ?_⟩
    rcases hname with ⟨h1, h2⟩ | ⟨h1, h2⟩
    · rw [h1, h2]; exact k1 rfl
    · rw [h1, h2]; exact k2 rfl
  · simp only [hp, Bool.false_eq_true, if_false]
    rcases hname with ⟨h1, h2⟩ | ⟨h1, h2⟩
    · subst h1; subst h2
      obtain ⟨r, hrun, k1, _⟩ := insertPivotOps_accepted H t
        (decide ((TfToken.scalePivot : TfToken) = .scalePivot))
        (!decide ((TfToken.scalePivot : TfToken) = .scalePivot)) hx hr hv
        (fun _ => hfresh) (fun h => absurd h (by decide))
      exact ⟨r, hrun, k1 (by decide)⟩
    · subst h1; subst h2
      obtain ⟨r, hrun, _, k2⟩ := insertPivotOps_accepted H t
        (decide ((TfToken.rotatePivot : TfToken) = .scalePivot))
        (!decide ((TfToken.rotatePivot : TfToken) = .scalePivot)) hx hr hv
        (fun h => absurd h (by decide)) (fun _ => ⟨hfresh, fun h => absurd h (by decide)⟩)
      exact ⟨r, hrun, k2 (by decide)⟩

theorem setScalePivot_accepted (H : Host) (s : TransformationMatrix) (sp : MPoint) (space : MSpace)
    (balance : Bool)
    (hav0 : s.pushToPrimAvailable = true) (hhas0 : s.primHasScalePivot = false)
    (hc0 : (!s.pushPrimToMatrix && decide (sp ≠ MVector.zero)) = true)
    (hnot : ¬(s.primHasPivot = true ∧ sp = s.rotatePivotValue))
    (hx : s.m_xformops.length = s.m_orderedOps.length)
    (hidx : s.m_orderedOpMayaIndices = [] ∨
      s.m_orderedOpMayaIndices.length = s.m_orderedOps.length)
    (hcount : s.primHasPivot = true →
      countNamed .pivot s.m_orderedOps = 1 ∨ countNamed .pivot s.m_orderedOps = 2)
    (hfresh : ∀ op ∈ s.stage.xformOpOrder, op.name ≠ .scalePivot)
    (hsplit : s.primHasPivot = true →
      ∀ op ∈ s.m_xformops, op.name ≠ .scalePivot ∧ op.name ≠ .rotatePivot) :
    ∃ r, s.setScalePivot H .kSuccess sp space balance = some (.kSuccess, r) ∧
      hasFlag r.m_flags kPrimHasScalePivot = true ∧ ∃ op ∈ r.m_xformops, op.name = .scalePivot := by
  obtain ⟨s1, hs1, hn, hav, hhas, hm, hpv, hsp, hrp⟩ : ∃ s1, s1 =
      (if (baseSetScalePivot s.toMPxTransformationMatrix .kSuccess sp space balance).1.toBool then
        { s with
          toMPxTransformationMatrix :=
            (baseSetScalePivot s.toMPxTransformationMatrix .kSuccess sp space balance).2
          m_scalePivotTweak :=
            (baseSetScalePivot s.toMPxTransformationMatrix .kSuccess sp space
              balance).2.scalePivotValue.sub s.m_scalePivotFromUsd }
      else { s with toMPxTransformationMatrix :=
        (baseSetScalePivot s.toMPxTransformationMatrix .kSuccess sp space balance).2 }) ∧
      NoInsertion s1 s ∧ s1.pushToPrimAvailable = s.pushToPrimAvailable ∧
      s1.primHasScalePivot = s.primHasScalePivot ∧
      s1.pushPrimToMatrix = s.pushPrimToMatrix ∧ s1.primHasPivot = s.primHasPivot ∧
      s1.scalePivotValue = sp ∧ s1.rotatePivotValue = s.rotatePivotValue := by
    refine ⟨_, rfl, ?_, ?_, ?_, ?_, ?_, ?_, ?_⟩ <;> split_ifs <;>
      first | exact noInsertion_same _ | rfl
  have hst : (baseSetScalePivot s.toMPxTransformationMatrix .kSuccess sp space balance).1 = .kSuccess := rfl
  simp only [setScalePivot]
  rw [← hs1, hst, hav, hhas, hm]
  have hc : (!s.primHasScalePivot && (!s.pushPrimToMatrix && decide (sp ≠ MVector.zero))) = true := by
    rw [hhas0, hc0]; rfl
  rw [if_pos hav0, if_pos hc]
  exact insertAndPushPivotOp_accepted H s1 .scalePivot kPrimHasScalePivot (by decide)
    (by rw [hpv, hsp, hrp]; exact hnot)
    (by rw [hn.2.1, hn.1]; exact hx)
    (by rw [hn.2.2.1, hn.1]; exact hidx)
    (by rw [hpv, hn.1]; exact hcount)
    (by rw [hn.2.2.2.2.1]; exact primValid_of_available s hav0)
    (by rw [hn.2.2.2.2.2.1]; exact hfresh)
    (by rw [hpv, hn.2.1]; exact hsplit)

theorem setRotatePivot_accepted (H : Host) (s : TransformationMatrix) (sp : MPoint) (space : MSpace)
    (balance : Bool)
    (hav0 : s.pushToPrimAvailable = true) (hhas0 : s.primHasRotatePivot = false)
    (hc0 : (!s.pushPrimToMatrix && decide (sp ≠ MVector.zero)) = true)
    (hnot : ¬(s.primHasPivot = true ∧ s.scalePivotValue = sp))
    (hx : s.m_xformops.length = s.m_orderedOps.length)
    (hidx : s.m_orderedOpMayaIndices = [] ∨
      s.m_orderedOpMayaIndices.length = s.m_orderedOps.length)
    (hcount : s.primHasPivot = true →
      countNamed .pivot s.m_orderedOps = 1 ∨ countNamed .pivot s.m_orderedOps = 2)
    (hfresh : ∀ op ∈ s.stage.xformOpOrder, op.name ≠ .rotatePivot)
    (hsplit : s.primHasPivot = true →
      ∀ op ∈ s.m_xformops, op.name ≠ .scalePivot ∧ op.name ≠ .rotatePivot) :
    ∃ r, s.setRotatePivot H .kSuccess sp space balance = some (.kSuccess, r) ∧
      hasFlag r.m_flags kPrimHasRotatePivot = true ∧ ∃ op ∈ r.m_xformops, op.name = .rotatePivot := by
  obtain ⟨s1, hs1, hn, hav, hhas, hm, hpv, hsp, hrp⟩ : ∃ s1, s1 =
      (if (baseSetRotatePivot s.toMPxTransformationMatrix .kSuccess sp space balance).1.toBool then
        { s with
          toMPxTransformationMatrix :=
            (baseSetRotatePivot s.toMPxTransformationMatrix .kSuccess sp space balance).2
          m_rotatePivotTweak :=
            (baseSetRotatePivot s.toMPxTransformationMatrix .kSuccess sp space
              balance).2.rotatePivotValue.sub s.m_rotatePivotFromUsd }
      else { s with toMPxTransformationMatrix :=
        (baseSetRotatePivot s.toMPxTransformationMatrix .kSuccess sp space balance).2 }) ∧
      NoInsertion s1 s ∧ s1.pushToPrimAvailable = s.pushToPrimAvailable ∧
      s1.primHasRotatePivot = s.primHasRotatePivot ∧
      s1.pushPrimToMatrix = s.pushPrimToMatrix ∧ s1.primHasPivot = s.primHasPivot ∧
      s1.scalePivotValue = s.scalePivotValue ∧ s1.rotatePivotValue = sp := by
    refine ⟨_, rfl, ?_, ?_, ?_, ?_, ?_, ?_, ?_⟩ <;> split_ifs <;>
      first | exact noInsertion_same _ | rfl
  have hst : (baseSetRotatePivot s.toMPxTransformationMatrix .kSuccess sp space balance).1 = .kSuccess := rfl
  simp only [setRotatePivot]
  rw [← hs1, hst, hav, hhas, hm]
  have hc : (!s.primHasRotatePivot && (!s.pushPrimToMatrix && decide (sp ≠ MVector.zero))) = true := by
    rw [hhas0, hc0]; rfl
  rw [if_pos hav0, if_pos hc]
  exact insertAndPushPivotOp_accepted H s1 .rotatePivot kPrimHasRotatePivot (by decide)
    (by rw [hpv, hsp, hrp]; exact hnot)
    (by rw [hn.2.1, hn.1]; exact hx)
    (by rw [hn.2.2.1, hn.1]; exact hidx)
    (by rw [hpv, hn.1]; exact hcount)
    (by rw [hn.2.2.2.2.1]; exact primValid_of_available s hav0)
    (by rw [hn.2.2.2.2.2.1]; exact hfresh)
    (by rw [hpv, hn.2.1]; exact hsplit)

/-- A setter call whose insertion runs on a prim that accepts the operator succeeds, with the
presence flag set and the operator in `m_xformops`. -/
theorem run_accepted (H : Host) (s : TransformationMatrix) (call : SetterCall)
    (hav : s.pushToPrimAvailable = true)
    (hf : hasFlag s.m_flags call.presenceFlag = false)
    (hc : (!s.pushPrimToMatrix && call.differsFromIdentity) = true)
    (hl : call.locked s = false) (hin : call.combinedPivotInPlace s = false)
    (hx : s.m_xformops.length = s.m_orderedOps.length)
    (hidx : s.m_orderedOpMayaIndices = [] ∨
      s.m_orderedOpMayaIndices.length = s.m_orderedOps.length)
    (hcount : s.primHasPivot = true →
      countNamed .pivot s.m_orderedOps = 1 ∨ countNamed .pivot s.m_orderedOps = 2)
    (hacc : call.StoreAccepts s) :
    ∃ r, call.run H s = some (.kSuccess, r) ∧
      hasFlag r.m_flags call.presenceFlag = true ∧
      ∃ op ∈ r.m_xformops, op.name = call.opName := by
  have hr := indicesInRange_of_parallel s hx hidx
  obtain ⟨hfresh, hsplit⟩ := hacc
  cases call with
  | translateTo v sp => exact translateTo_accepted H s v sp hl hav hf hc hx hr hfresh
  | scaleTo v sp => exact scaleTo_accepted H s v sp hl hav hf hc hx hr hfresh
  | shearTo v sp => exact shearTo_accepted H s v sp hl hav hf hc hx hr hfresh
  | rotateTo e sp => exact rotateTo_accepted H s e sp hl hav hf hc hx hr hfresh
  | rotateToQuaternion q sp => exact rotateToQuaternion_accepted H s q sp hl hav hf hc hx hr hfresh
  | setScalePivot p sp b =>
    refine setScalePivot_accepted H s p sp b hav hf hc (fun hc' => ?_) hx hidx hcount hfresh
      (fun hp => hsplit hp (Or.inl rfl))
    have : (s.primHasPivot && decide (p = s.rotatePivotValue)) = true := by
      rw [hc'.1, decide_eq_true hc'.2]; rfl
    exact absurd (this.symm.trans hin) (by decide)
  | setRotatePivot p sp b =>
    refine setRotatePivot_accepted H s p sp b hav hf hc (fun hc' => ?_) hx hidx hcount hfresh
      (fun hp => hsplit hp (Or.inr rfl))
    have : (s.primHasPivot && decide (s.scalePivotValue = p)) = true := by
      rw [hc'.1, decide_eq_true hc'.2]; rfl
    exact absurd (this.symm.trans hin) (by decide)
  | setScalePivotTranslation v sp =>
    exact setScalePivotTranslation_accepted H s v sp hav hf hc hx hr hfresh
  | setRotatePivotTranslation v sp =>
    exact setRotatePivotTranslation_accepted H s v sp hav hf hc hx hr hfresh
  | setRotateOrientation q sp b =>
    exact setRotateOrientation_accepted H s q sp b hav hf hc hx hr hfresh
  | setRotateOrientationEuler e sp b =>
    exact setRotateOrientationEuler_accepted H s e sp b hav hf hc hx hr hfresh

/-- C22 (amended): lazy insertion. With write-back available, a setter whose presence flag is
already set inserts no operator; with the flag unset it inserts nothing in whole-matrix mode or
for a value equal to the channel's identity; with the flag unset, the prim not in whole-matrix
mode and a value that differs from the identity, an unlocked setter that is not the in-place
write of a combined pivot runs the insertion of its backing operator: the call returns, and on
a prim that accepts the operator (`StoreAccepts`: no operator of the channel's name is listed in
its operator order) it succeeds with the presence flag set and the operator in `m_xformops`,
where no operator of that name was listed before; whenever the call does not end so, it has
returned failure. A locked channel and the in-place write of the combined pivot insert
nothing. -/
theorem C22_lazy_insertion (H : Host) (s : TransformationMatrix) (call : SetterCall)
    (hav : s.pushToPrimAvailable = true) :
    (hasFlag s.m_flags call.presenceFlag = true →
      ∃ r, call.run H s = some (.kSuccess, r) ∧ NoInsertion r s) ∧
    (hasFlag s.m_flags call.presenceFlag = false →
      (s.pushPrimToMatrix = true ∨ call.differsFromIdentity = false) →
      ∃ r, call.run H s = some (.kSuccess, r) ∧ NoInsertion r s) ∧
    (hasFlag s.m_flags call.presenceFlag = false → s.pushPrimToMatrix = false →
      call.differsFromIdentity = true → call.locked s = false →
      call.combinedPivotInPlace s = false →
      s.m_xformops.length = s.m_orderedOps.length →
      (s.m_orderedOpMayaIndices = [] ∨
        s.m_orderedOpMayaIndices.length = s.m_orderedOps.length) →
      (s.primHasPivot = true →
        countNamed .pivot s.m_orderedOps = 1 ∨ countNamed .pivot s.m_orderedOps = 2) →
      (call.StoreAccepts s →
        ∃ r, call.run H s = some (.kSuccess, r) ∧
          hasFlag r.m_flags call.presenceFlag = true ∧
          (∃ op ∈ r.m_xformops, op.name = call.opName) ∧ ¬ NoInsertion r s) ∧
      ∃ r, call.run H s = some r ∧
        (r.1 = .kFailure ∨ (r.1 = .kSuccess ∧ hasFlag r.2.m_flags call.presenceFlag = true ∧
          ∃ op ∈ r.2.m_xformops, op.name = call.opName))) ∧
    (call.locked s = true → ∃ r, call.run H s = some (.kSuccess, r) ∧ NoInsertion r s) ∧
    (call.combinedPivotInPlace s = true →
      ∃ r, call.run H s = some (.kSuccess, r) ∧ NoInsertion r s) := by
  have quiet : (hasFlag s.m_flags call.presenceFlag = true ∨
      (!s.pushPrimToMatrix && call.differsFromIdentity) = false) →
      ∃ r, call.run H s = some (.kSuccess, r) ∧ NoInsertion r s := by
    intro hq
    by_cases hl : call.locked s = true
    · exact run_locked H s call hl
    · obtain ⟨⟨st, r⟩, hrun, h1, _⟩ := run_lazy H s call (by simpa using hl)
        (fun _ h1 h2 => by
          rcases hq with h | h
          · rw [h1] at h; exact absurd h (by decide)
          · rw [h2] at h; exact absurd h (by decide))
      obtain ⟨k1, k2⟩ := h1 (Or.inr hq)
      simp only at k1 k2
      rw [k1] at hrun
      exact ⟨r, hrun, k2⟩
  refine ⟨fun h => quiet (Or.inl h), fun _ h => quiet (Or.inr ?_), ?_,
    run_locked H s call, run_inPlace H s call⟩
  · rcases h with h | h
    · rw [h]; rfl
    · rw [h]; exact Bool.and_false _
  · intro hf hm hd hl hin hx hidx hcount
    have hc : (!s.pushPrimToMatrix && call.differsFromIdentity) = true := by
      rw [hm, hd]; rfl
    refine ⟨fun hacc => ?_, ?_⟩
    · obtain ⟨r, hrun, hflag, hop⟩ := run_accepted H s call hav hf hc hl hin hx hidx hcount hacc
      refine ⟨r, hrun, hflag, hop, fun hno => ?_⟩
      rw [hno.2.2.2.1, hf] at hflag
      exact absurd hflag (by decide)
    · obtain ⟨r, hrun, _, h2⟩ := run_lazy H s call hl (fun _ _ _ => ⟨hin, hx, hidx, hcount⟩)
      exact ⟨r, hrun, h2 hav hf hc⟩

/-- C22 witness: on the engine bound to an empty prim, `translateTo((1,0,0))` (flag unset, not
whole-matrix mode, value off the identity, channel unlocked, the prim lists no translate
operator) succeeds with `kPrimHasTranslation` set and a translate operator in `m_xformops`;
`translateTo((0,0,0))` inserts nothing. -/
theorem C22_lazy_insertion_witness :
    emptyPrimEngine.pushToPrimAvailable = true ∧
    hasFlag emptyPrimEngine.m_flags kPrimHasTranslation = false ∧
    emptyPrimEngine.pushPrimToMatrix = false ∧
    (∃ r, emptyPrimEngine.translateTo Host.sample .kSuccess ⟨1, 0, 0⟩ .kTransform
        = some (.kSuccess, r) ∧
      hasFlag r.m_flags kPrimHasTranslation = true ∧
      (∃ op ∈ r.m_xformops, op.name = .translate) ∧ ¬ NoInsertion r emptyPrimEngine) ∧
    (∃ r, emptyPrimEngine.translateTo Host.sample .kSuccess ⟨0, 0, 0⟩ .kTransform
        = some (.kSuccess, r) ∧ NoInsertion r emptyPrimEngine) := by
  obtain ⟨-, -, h3, -, -⟩ := C22_lazy_insertion Host.sample emptyPrimEngine
    (.translateTo ⟨1, 0, 0⟩ .kTransform) (by decide)
  obtain ⟨-, k2, -, -, -⟩ := C22_lazy_insertion Host.sample emptyPrimEngine
    (.translateTo ⟨0, 0, 0⟩ .kTransform) (by decide)
  exact ⟨by decide, by decide, by decide,
    (h3 (by decide) (by decide) (by decide) (by decide) (by decide) (by decide) (by decide)
      (by decide)).1 (by decide),
    k2 (by decide) (Or.inr (by decide))⟩

/-- C22, as stated, fails: with write-back available, the presence flag unset, the prim not in
whole-matrix mode and a value that differs from the identity, `setScalePivot` inserts nothing
when the combined pivot operator is present and the pivots are equal (it is written in place),
`translateTo` inserts nothing on a locked channel, and `translateTo` inserts nothing and
returns failure on a prim whose operator order already lists the translate operator
(`AddXformOp` refuses it). -/
theorem C22_counterexample :
    (singlePivotEngine.pushToPrimAvailable = true ∧
      hasFlag singlePivotEngine.m_flags kPrimHasScalePivot = false ∧
      singlePivotEngine.pushPrimToMatrix = false ∧ (⟨1, 2, 3⟩ : MPoint) ≠ MVector.zero ∧
      (singlePivotEngine.setScalePivot Host.sample .kSuccess ⟨1, 2, 3⟩ .kTransform false).map
        (fun r => (r.1, decide (r.2.m_xformops = singlePivotEngine.m_xformops),
          decide (r.2.m_flags = singlePivotEngine.m_flags),
          countAdds r.2.stage.journal))
        = some (.kSuccess, true, true, 0)) ∧
    (lockedEngine.pushToPrimAvailable = true ∧
      hasFlag lockedEngine.m_flags kPrimHasTranslation = false ∧
      lockedEngine.pushPrimToMatrix = false ∧ (⟨1, 0, 0⟩ : MVector) ≠ MVector.zero ∧
      (lockedEngine.translateTo Host.sample .kSuccess ⟨1, 0, 0⟩ .kTransform).map
        (fun r => (r.1, decide (r.2.m_xformops = lockedEngine.m_xformops),
          decide (r.2.m_flags = lockedEngine.m_flags),
          countAdds r.2.stage.journal))
        = some (.kSuccess, true, true, 0)) ∧
    (staleTranslateEngine.pushToPrimAvailable = true ∧
      hasFlag staleTranslateEngine.m_flags kPrimHasTranslation = false ∧
      staleTranslateEngine.pushPrimToMatrix = false ∧
      staleTranslateEngine.translateLocked = false ∧ (⟨1, 0, 0⟩ : MVector) ≠ MVector.zero ∧
      (staleTranslateEngine.translateTo Host.sample .kSuccess ⟨1, 0, 0⟩ .kTransform).map
        (fun r => (r.1, decide (r.2.m_xformops = staleTranslateEngine.m_xformops),
          decide (r.2.m_flags = staleTranslateEngine.m_flags),
          countAdds r.2.stage.journal))
        = some (.kFailure, true, true, 0)) := by
  refine ⟨⟨by decide, by decide, by decide, by decide, ?_⟩,
    ⟨by decide, by decide, by decide, by decide, ?_⟩,
    ⟨by decide, by decide, by decide, by decide, by decide, ?_⟩⟩
  · decide!
  · decide!
  · decide!

/-! ## Re-binding (C26, C27) -/

/-- C26 (the code departs from the claim): `setPrimInternal` binds the prim of
`staticTranslateStage`, one translate operator holding (1, 2, 3), with a read requested. With a
null transform node the translation read from the operator, (1, 2, 3), is dropped: the fromUsd
and live translation stay (0, 0, 0) although `kPrimHasTranslation` is set. With a transform node
both are (1, 2, 3). -/
theorem C26_null_node_drops_translation :
    (unboundEmptyEngine.setPrimInternal Host.sample Decomposer.sample .kSuccess
        (some staticTranslateStage) false false).map
      (fun r => (r.primValid, hasFlag r.m_flags kFromMayaSchema, r.primHasTranslation))
      = some (true, true, true) ∧
    (unboundEmptyEngine.setPrimInternal Host.sample Decomposer.sample .kSuccess
        (some staticTranslateStage) false false).map
      (fun r => ((r.internal_readVector MVector.zero translateOp).2, r.m_translationFromUsd,
        r.translationValue))
      = some (⟨1, 2, 3⟩, ⟨0, 0, 0⟩, ⟨0, 0, 0⟩) ∧
    (unboundEmptyEngine.setPrimInternal Host.sample Decomposer.sample .kSuccess
        (some staticTranslateStage) false true).map
      (fun r => ((r.internal_readVector MVector.zero translateOp).2, r.m_translationFromUsd,
        r.translationValue))
      = some (⟨1, 2, 3⟩, ⟨1, 2, 3⟩, ⟨1, 2, 3⟩) := by
  refine ⟨?_, ?_, ?_⟩
  · decide!
  · decide!
  · decide!

theorem translateTo_reset (H : Host) (s : TransformationMatrix) (bs : MStatus) (v temp : MVector)
    (space : MSpace) (hdis : hasFlag s.m_flags kPushToPrimEnabled = false)
    (hz : TweaksReset s) (r : MStatus × TransformationMatrix)
    (h : s.translateTo H bs v space = some r) :
    TweaksReset { r.2 with m_translationTweak := MVector.zero, m_translationFromUsd := temp } := by
  unfold translateTo at h
  simp only [pushToPrimAvailable, pushToPrimEnabled] at h
  obtain ⟨z1, z2, z3, z4, z5, z6, z7, z8, z9, z10⟩ := hz
  split_ifs at h <;> simp_all [TweaksReset, MVector.zero] <;> subst h <;> simp_all

theorem scaleTo_reset (H : Host) (s : TransformationMatrix) (bs : MStatus) (v temp : MVector)
    (space : MSpace) (hdis : hasFlag s.m_flags kPushToPrimEnabled = false)
    (hz : TweaksReset s) (r : MStatus × TransformationMatrix)
    (h : s.scaleTo H bs v space = some r) :
    TweaksReset { r.2 with m_scaleTweak := MVector.zero, m_scaleFromUsd := temp } := by
  unfold scaleTo at h
  simp only [pushToPrimAvailable, pushToPrimEnabled] at h
  obtain ⟨z1, z2, z3, z4, z5, z6, z7, z8, z9, z10⟩ := hz
  split_ifs at h <;> simp_all [TweaksReset, MVector.zero] <;> subst h <;> simp_all

theorem shearTo_reset (H : Host) (s : TransformationMatrix) (bs : MStatus) (v temp : MVector)
    (space : MSpace) (hdis : hasFlag s.m_flags kPushToPrimEnabled = false)
    (hz : TweaksReset s) (r : MStatus × TransformationMatrix)
    (h : s.shearTo H bs v space = some r) :
    TweaksReset { r.2 with m_shearTweak := MVector.zero, m_shearFromUsd := temp } := by
  unfold shearTo at h
  simp only [pushToPrimAvailable, pushToPrimEnabled] at h
  obtain ⟨z1, z2, z3, z4, z5, z6, z7, z8, z9, z10⟩ := hz
  split_ifs at h <;> simp_all [TweaksReset, MVector.zero] <;> subst h <;> simp_all

theorem setRotatePivot_reset (H : Host) (s : TransformationMatrix) (bs : MStatus) (balance : Bool)
    (space : MSpace) (hdis : hasFlag s.m_flags kPushToPrimEnabled = false)
    (hz : TweaksReset s) (r : MStatus × TransformationMatrix)
    (h : s.setRotatePivot H bs s.m_rotatePivotFromUsd space balance = some r) :
    TweaksReset r.2 ∧ hasFlag r.2.m_flags kPushToPrimEnabled = false ∧
      r.2.m_scalePivotFromUsd = s.m_scalePivotFromUsd := by
  unfold setRotatePivot at h
  simp only [pushToPrimAvailable, pushToPrimEnabled] at h
  obtain ⟨z1, z2, z3, z4, z5, z6, z7, z8, z9, z10⟩ := hz
  cases bs <;>
    simp_all [TweaksReset, MVector.zero, MVector.sub, baseSetRotatePivot, MStatus.toBool] <;>
    subst h <;> simp_all

theorem setScalePivot_reset (H : Host) (s : TransformationMatrix) (bs : MStatus) (balance : Bool)
    (space : MSpace) (hdis : hasFlag s.m_flags kPushToPrimEnabled = false)
    (hz : TweaksReset s) (r : MStatus × TransformationMatrix)
    (h : s.setScalePivot H bs s.m_scalePivotFromUsd space balance = some r) :
    TweaksReset r.2 ∧ hasFlag r.2.m_flags kPushToPrimEnabled = false ∧
      r.2.m_scalePivotFromUsd = s.m_scalePivotFromUsd := by
  unfold setScalePivot at h
  simp only [pushToPrimAvailable, pushToPrimEnabled] at h
  obtain ⟨z1, z2, z3, z4, z5, z6, z7, z8, z9, z10⟩ := hz
  cases bs <;>
    simp_all [TweaksReset, MVector.zero, MVector.sub, baseSetScalePivot, MStatus.toBool] <;>
    subst h <;> simp_all

theorem setRotatePivotTranslation_reset (H : Host) (s : TransformationMatrix) (bs : MStatus)
    (space : MSpace) (hdis : hasFlag s.m_flags kPushToPrimEnabled = false)
    (hz : TweaksReset s) (r : MStatus × TransformationMatrix)
    (h : s.setRotatePivotTranslation H bs s.m_rotatePivotTranslationFromUsd space = some r) :
    TweaksReset r.2 ∧ hasFlag r.2.m_flags kPushToPrimEnabled = false ∧
      r.2.m_scalePivotFromUsd = s.m_scalePivotFromUsd := by
  unfold setRotatePivotTranslation at h
  simp only [pushToPrimAvailable, pushToPrimEnabled] at h
  obtain ⟨z1, z2, z3, z4, z5, z6, z7, z8, z9, z10⟩ := hz
  cases bs <;>
    simp_all [TweaksReset, MVector.zero, MVector.sub, baseSetRotatePivotTranslation, MStatus.toBool] <;>
    subst h <;> simp_all

theorem setScalePivotTranslation_reset (H : Host) (s : TransformationMatrix) (bs : MStatus)
    (space : MSpace) (hdis : hasFlag s.m_flags kPushToPrimEnabled = false)
    (hz : TweaksReset s) (r : MStatus × TransformationMatrix)
    (h : s.setScalePivotTranslation H bs s.m_scalePivotTranslationFromUsd space = some r) :
    TweaksReset r.2 ∧ hasFlag r.2.m_flags kPushToPrimEnabled = false ∧
      r.2.m_scalePivotFromUsd = s.m_scalePivotFromUsd := by
  unfold setScalePivotTranslation at h
  simp only [pushToPrimAvailable, pushToPrimEnabled] at h
  obtain ⟨z1, z2, z3, z4, z5, z6, z7, z8, z9, z10⟩ := hz
  cases bs <;>
    simp_all [TweaksReset, MVector.zero, MVector.sub, baseSetScalePivotTranslation, MStatus.toBool] <;>
    subst h <;> simp_all

theorem rotateTo_reset (H : Host) (s : TransformationMatrix) (bs : MStatus)
    (space : MSpace) (hdis : hasFlag s.m_flags kPushToPrimEnabled = false)
    (hz : TweaksReset s) (r : MStatus × TransformationMatrix)
    (h : s.rotateTo H bs s.m_rotationFromUsd space = some r) :
    TweaksReset r.2 := by
  unfold rotateTo at h
  simp only [pushToPrimAvailable, pushToPrimEnabled] at h
  obtain ⟨z1, z2, z3, z4, z5, z6, z7, z8, z9, z10⟩ := hz
  cases bs <;>
    simp_all [TweaksReset, MVector.zero, baseRotateTo, MStatus.toBool, updateRotationTweak] <;>
    split_ifs at h <;> simp_all <;> subst h <;> simp_all

theorem setRotateOrientationEuler_reset (H : Host) (s : TransformationMatrix) (bs : MStatus)
    (e : MEulerRotation) (space : MSpace) (balance : Bool)
    (hdis : hasFlag s.m_flags kPushToPrimEnabled = false)
    (hz : TweaksReset s) (r : MStatus × TransformationMatrix)
    (h : s.setRotateOrientationEuler H bs e space balance = some r) :
    TweaksReset r.2 := by
  unfold setRotateOrientationEuler at h
  simp only [pushToPrimAvailable, pushToPrimEnabled] at h
  obtain ⟨z1, z2, z3, z4, z5, z6, z7, z8, z9, z10⟩ := hz
  cases bs <;>
    simp_all [TweaksReset, MVector.zero, baseSetRotateOrientation, MStatus.toBool] <;>
    subst h <;> simp_all

theorem tweaksReset_orFlag (s : TransformationMatrix) (f : Flags) (hz : TweaksReset s) :
    TweaksReset (s.orFlag f) := hz

theorem tweaksReset_orFlagIfAnimated (s : TransformationMatrix) (op : UsdGeomXformOp)
    (f : Flags) (hz : TweaksReset s) : TweaksReset (s.orFlagIfAnimated op f) := by
  unfold orFlagIfAnimated
  split_ifs
  · exact hz
  · exact hz

/-- The loop body of `initialiseToPrim`, run with write-back disabled, keeps every tweak at its
reset value: the setters called back by the host set a tweak to live - fromUsd with the live
value just set to fromUsd, or the body zeroes the tweak itself. -/
theorem initialiseOp_reset (H : Host) (D : Decomposer) (bs : MStatus) (rf tn : Bool)
    (t t' : TransformationMatrix) (c : UsdMayaXformOpClassification) (op : UsdGeomXformOp)
    (hdis : hasFlag t.m_flags kPushToPrimEnabled = false) (hz : TweaksReset t)
    (h : initialiseOp H D bs rf tn t c op = some t') : TweaksReset t' := by
  have hd : hasFlag (setFlag t.m_flags (initBits t.stage c op)) kPushToPrimEnabled = false :=
    (hasFlag_initBits _ _ _ _ _ (by decide)).trans hdis
  unfold initialiseOp at h
  by_cases htw : c.isInvertedTwin = true
  · rw [if_pos htw] at h
    simp only [Option.some.injEq] at h
    rw [← h]; exact hz
  · rw [if_neg htw] at h
    simp only [initBits, htw, Bool.false_eq_true, if_false] at hd
    cases hn : c.name with
    | translate =>
      simp only [hn] at hd h
      obtain ⟨hf, _⟩ := orFlagIfAnimated_flags (t.orFlag kPrimHasTranslation) op
        kAnimatedTranslation
      have hf' := hf.trans (setFlag_setFlag t.m_flags kPrimHasTranslation _)
      have hz1 := tweaksReset_orFlagIfAnimated _ op kAnimatedTranslation
        (tweaksReset_orFlag t kPrimHasTranslation hz)
      by_cases h1 : rf = true <;> by_cases h2 : tn = true <;>
        simp only [h1, h2, if_true, if_false, Bool.false_eq_true] at h
      · obtain ⟨r, hr, he⟩ := Option.map_eq_some'.1 h
        rw [← he]
        exact translateTo_reset H _ bs _ _ _ (by rw [hf']; exact hd) hz1 r hr
      all_goals (simp only [Option.some.injEq] at h; rw [← h]; exact hz1)
    | shear =>
      simp only [hn] at hd h
      obtain ⟨hf, _⟩ := orFlagIfAnimated_flags (t.orFlag kPrimHasShear) op kAnimatedShear
      have hf' := hf.trans (setFlag_setFlag t.m_flags kPrimHasShear _)
      have hz1 := tweaksReset_orFlagIfAnimated _ op kAnimatedShear
        (tweaksReset_orFlag t kPrimHasShear hz)
      by_cases h1 : rf = true <;> by_cases h2 : tn = true <;>
        simp only [h1, h2, if_true, if_false, Bool.false_eq_true] at h
      · obtain ⟨r, hr, he⟩ := Option.map_eq_some'.1 h
        rw [← he]
        exact shearTo_reset H _ bs _ _ _ (by rw [hf']; exact hd) hz1 r hr
      all_goals (simp only [Option.some.injEq] at h; rw [← h]; exact hz1)
    | scale =>
      simp only [hn] at hd h
      obtain ⟨hf, _⟩ := orFlagIfAnimated_flags (t.orFlag kPrimHasScale) op kAnimatedScale
      have hf' := hf.trans (setFlag_setFlag t.m_flags kPrimHasScale _)
      have hz1 := tweaksReset_orFlagIfAnimated _ op kAnimatedScale
        (tweaksReset_orFlag t kPrimHasScale hz)
      by_cases h1 : rf = true <;> by_cases h2 : tn = true <;>
        simp only [h1, h2, if_true, if_false, Bool.false_eq_true] at h
      · obtain ⟨r, hr, he⟩ := Option.map_eq_some'.1 h
        rw [← he]
        exact scaleTo_reset H _ bs _ _ _ (by rw [hf']; exact hd) hz1 r hr
      all_goals (simp only [Option.some.injEq] at h; rw [← h]; exact hz1)
    | rotate =>
      simp only [hn] at hd h
      obtain ⟨hf, _⟩ := orFlagIfAnimated_flags (t.orFlag kPrimHasRotation) op kAnimatedRotation
      have hf' := hf.trans (setFlag_setFlag t.m_flags kPrimHasRotation _)
      have hz1 := tweaksReset_orFlagIfAnimated _ op kAnimatedRotation
        (tweaksReset_orFlag t kPrimHasRotation hz)
      by_cases h1 : rf = true <;> by_cases h2 : tn = true <;>
        simp only [h1, h2, if_true, if_false, Bool.false_eq_true] at h
      · obtain ⟨r, hr, he⟩ := Option.map_eq_some'.1 h
        rw [← he]
        refine rotateTo_reset H _ bs _ ?_ ?_ r hr
        · show hasFlag ((t.orFlag kPrimHasRotation).orFlagIfAnimated op kAnimatedRotation).m_flags
            kPushToPrimEnabled = false
          rw [hf']; exact hd
        · obtain ⟨z1, z2, z3⟩ := hz1
          refine ⟨z1, ?_, z3⟩
          show ({ ((t.orFlag kPrimHasRotation).orFlagIfAnimated op
            kAnimatedRotation).m_rotationTweak with x := 0, y := 0, z := 0 } : MEulerRotation) = _
          rw [z2]
      all_goals (simp only [Option.some.injEq] at h; rw [← h]; exact hz1)
    | rotatePivotTranslate =>
      simp only [hn] at hd h
      by_cases h1 : rf = true <;> by_cases h2 : tn = true <;>
        simp only [h1, h2, if_true, if_false, Bool.false_eq_true] at h
      · obtain ⟨r, hr, he⟩ := Option.map_eq_some'.1 h
        rw [← he]
        refine (setRotatePivotTranslation_reset H _ bs _ ?_ ?_ r hr).1
        · exact hd
        · exact hz
      all_goals (simp only [Option.some.injEq] at h; rw [← h]; exact hz)
    | scalePivotTranslate =>
      simp only [hn] at hd h
      by_cases h1 : rf = true <;> by_cases h2 : tn = true <;>
        simp only [h1, h2, if_true, if_false, Bool.false_eq_true] at h
      · obtain ⟨r, hr, he⟩ := Option.map_eq_some'.1 h
        rw [← he]
        refine (setScalePivotTranslation_reset H _ bs _ ?_ ?_ r hr).1
        · exact hd
        · exact hz
      all_goals (simp only [Option.some.injEq] at h; rw [← h]; exact hz)
    | rotatePivot =>
      simp only [hn] at hd h
      by_cases h1 : rf = true <;> by_cases h2 : tn = true <;>
        simp only [h1, h2, if_true, if_false, Bool.false_eq_true] at h
      · obtain ⟨r, hr, he⟩ := Option.map_eq_some'.1 h
        rw [← he]
        refine (setRotatePivot_reset H _ bs _ _ ?_ ?_ r hr).1
        · exact hd
        · exact hz
      all_goals (simp only [Option.some.injEq] at h; rw [← h]; exact hz)
    | scalePivot =>
      simp only [hn] at hd h
      by_cases h1 : rf = true <;> by_cases h2 : tn = true <;>
        simp only [h1, h2, if_true, if_false, Bool.false_eq_true] at h
      · obtain ⟨r, hr, he⟩ := Option.map_eq_some'.1 h
        rw [← he]
        refine (setScalePivot_reset H _ bs _ _ ?_ ?_ r hr).1
        · exact hd
        · exact hz
      all_goals (simp only [Option.some.injEq] at h; rw [← h]; exact hz)
    | rotateAxis =>
      simp only [hn] at hd h
      by_cases h1 : rf = true <;> by_cases h2 : tn = true <;>
        simp only [h1, h2, if_true, if_false, Bool.false_eq_true] at h
      · obtain ⟨r, hr, he⟩ := Option.map_eq_some'.1 h
        rw [← he]
        refine setRotateOrientationEuler_reset H _ bs _ _ _ ?_ ?_ r hr
        · exact hd
        · exact hz
      all_goals (simp only [Option.some.injEq] at h; rw [← h]; exact hz)
    | pivot =>
      simp only [hn] at hd h
      by_cases h1 : rf = true <;> by_cases h2 : tn = true <;>
        simp only [h1, h2, if_true, if_false, Bool.false_eq_true] at h
      · obtain ⟨r, hr, hg⟩ := Option.bind_eq_some.1 h
        obtain ⟨r', hr', he⟩ := Option.map_eq_some'.1 hg
        obtain ⟨k1, k2, _⟩ := setRotatePivot_reset H _ bs _ _ (by exact hd) (by exact hz) r hr
        rw [← he]
        exact (setScalePivot_reset H r.2 bs _ _ k2 k1 r' hr').1
      all_goals (simp only [Option.some.injEq] at h; rw [← h]; exact hz)
    | transform =>
      simp only [hn] at hd h
      have hz1 := tweaksReset_orFlagIfAnimated _ op kAnimatedMatrix
        (tweaksReset_orFlag _ kPushPrimToMatrix (tweaksReset_orFlag _ kFromMatrix
          (tweaksReset_orFlag t kPrimHasTransform hz)))
      by_cases h1 : rf = true <;> simp only [h1, if_true, if_false, Bool.false_eq_true] at h
      · split at h
        · exact absurd h (by simp)
        · simp only [Option.some.injEq] at h
          rw [← h]; exact hz1
      · simp only [Option.some.injEq] at h
        rw [← h]; exact hz1

theorem foldlM_initialiseOp_reset (H : Host) (D : Decomposer) (bs : MStatus) (rf tn : Bool)
    (l : List (UsdMayaXformOpClassification × UsdGeomXformOp)) :
    ∀ t t' : TransformationMatrix, hasFlag t.m_flags kPushToPrimEnabled = false →
      (l = [] ∨ t.m_xformops ≠ []) → TweaksReset t →
      l.foldlM (fun t p => initialiseOp H D bs rf tn t p.1 p.2) t = some t' →
      TweaksReset t' := by
  induction l with
  | nil =>
    intro t t' _ _ hz h
    simp only [List.foldlM_nil, Option.pure_def, Option.some.injEq] at h
    rw [← h]; exact hz
  | cons p l ih =>
    intro t t' hdis hne hz h
    have hne' : t.m_xformops ≠ [] := by
      rcases hne with h | h
      · exact absurd h (List.cons_ne_nil _ _)
      · exact h
    obtain ⟨t1, h1, hf1, hs1⟩ := initialiseOp_spec H D bs rf tn t p.1 p.2 hdis hne'
    rw [List.foldlM_cons, h1] at h
    exact ih t1 t'
      (by rw [hf1]; exact (hasFlag_initBits _ _ _ _ _ (by decide)).trans hdis)
      (Or.inr (by rw [hs1.2.2.1]; exact hne'))
      (initialiseOp_reset H D bs rf tn t t1 p.1 p.2 hdis hz h1) h

/-- `initialiseToPrim` keeps every tweak at its reset value. -/
theorem initialiseToPrim_reset (H : Host) (D : Decomposer) (bs : MStatus)
    (s s' : TransformationMatrix) (rf tn : Bool) (hz : TweaksReset s)
    (h : initialiseToPrim H D bs s rf tn = some s') : TweaksReset s' := by
  unfold initialiseToPrim at h
  split_ifs at h with hv
  · simp only [Option.some.injEq] at h
    rw [← h]; exact hz
  · obtain ⟨s5, h5, he⟩ := Option.map_eq_some'.1 h
    have hz3 : TweaksReset s.detectSchema := by
      unfold detectSchema matchStacks
      dsimp only
      split_ifs <;> exact hz
    have hz4 : TweaksReset s.detectSchema.disablePushToPrim := hz3
    have hz5 : TweaksReset s5 := by
      split_ifs at h5 with hk
      · unfold lockstep at h5
        split_ifs at h5 with hlen
        refine foldlM_initialiseOp_reset H D bs rf tn _ _ s5
          (hasFlag_clearFlag_self _ _ (by decide)) ?_ hz4 h5
        cases hx : s.detectSchema.disablePushToPrim.m_xformops with
        | nil => exact Or.inl List.zip_nil_right
        | cons a l => exact Or.inr (List.cons_ne_nil _ _)
      · simp only [Option.some.injEq] at h5
        rw [← h5]
        unfold setFromPrimMatrix
        split_ifs
        · exact hz4
        · split
          · exact hz4
          · exact hz4
        · split
          · exact hz4
          · exact hz4
    rw [← he]
    unfold animationGate restorePushToPrim
    split_ifs <;> exact hz5

theorem hasFlag_mask_other (m k : Flags) (h : kPreservationMask &&& k = 0) :
    hasFlag (m &&& kPreservationMask) k = false := by
  unfold hasFlag
  rw [Nat.land_assoc, h, Nat.and_zero]
  rfl

theorem hasFlag_mask_push (m : Flags) :
    hasFlag (m &&& kPreservationMask) kPushToPrimEnabled = hasFlag m kPushToPrimEnabled := by
  rw [kPushToPrimEnabled, hasFlag_two_pow, hasFlag_two_pow, Nat.testBit_and]
  have : kPreservationMask.testBit 28 = true := by decide
  rw [this, Bool.and_true]

theorem hasFlag_mask_read (m : Flags) :
    hasFlag (m &&& kPreservationMask) kReadAnimatedValues = hasFlag m kReadAnimatedValues := by
  rw [kReadAnimatedValues, hasFlag_two_pow, hasFlag_two_pow, Nat.testBit_and]
  have : kPreservationMask.testBit 31 = true := by decide
  rw [this, Bool.and_true]

/-- The two preferences across `initialiseToPrim` on a valid prim: forced to read-only when an
animated flag results, kept otherwise. -/
theorem initialiseToPrim_prefs (H : Host) (D : Decomposer) (bs : MStatus)
    (s s' : TransformationMatrix) (readFromPrim transformNode : Bool) (hv : s.primValid = true)
    (h : initialiseToPrim H D bs s readFromPrim transformNode = some s') :
    ((∃ k ∈ animatedFlags, hasFlag s'.m_flags k = true) →
      hasFlag s'.m_flags kPushToPrimEnabled = false ∧
      hasFlag s'.m_flags kReadAnimatedValues = true) ∧
    ((∀ k ∈ animatedFlags, hasFlag s'.m_flags k = false) →
      hasFlag s'.m_flags kPushToPrimEnabled = hasFlag s.m_flags kPushToPrimEnabled ∧
      hasFlag s'.m_flags kReadAnimatedValues = hasFlag s.m_flags kReadAnimatedValues) := by
  unfold initialiseToPrim at h
  simp only [hv, Bool.not_true, Bool.false_eq_true, if_false] at h
  cases hp : (if hasFlag s.detectSchema.disablePushToPrim.m_flags kAnyKnownSchema = true then
      lockstep (initialiseOp H D bs readFromPrim transformNode) s.detectSchema.disablePushToPrim
      else some (s.detectSchema.disablePushToPrim.setFromPrimMatrix D)) with
  | none =>
    rw [hp] at h
    exact absurd h (by simp)
  | some s5 =>
    rw [hp] at h
    simp only [Option.map_some', Option.some.injEq] at h
    obtain ⟨p28, p31⟩ := pass_prefs H D bs readFromPrim transformNode _ s5
      (hasFlag_clearFlag_self _ _ (by decide)) hp
    have q31 : s5.m_flags.testBit 31 = s.m_flags.testBit 31 := by
      rw [p31]
      show (clearFlag s.detectSchema.m_flags kPushToPrimEnabled).testBit 31 = _
      rw [kPushToPrimEnabled, testBit_clearFlag _ 28 _ (by decide),
        detectSchema_prefs s 31 (by decide) (by decide) (by decide) (by decide)]
      simp
    have hw : s.detectSchema.pushToPrimEnabled = s.m_flags.testBit 28 := by
      show hasFlag s.detectSchema.m_flags kPushToPrimEnabled = _
      rw [kPushToPrimEnabled, hasFlag_two_pow,
        detectSchema_prefs s 28 (by decide) (by decide) (by decide) (by decide)]
    obtain ⟨c1, c2, c3⟩ := close_prefs s5 s.detectSchema.pushToPrimEnabled
    rw [h] at c1 c2 c3
    constructor
    · intro ha
      have hm := (hasFlag_animationMask_iff s'.m_flags).2 ha
      rw [c1] at hm
      obtain ⟨b28, b31⟩ := c2 hm
      exact ⟨by rw [kPushToPrimEnabled, hasFlag_two_pow]; exact b28,
        by rw [kReadAnimatedValues, hasFlag_two_pow]; exact b31⟩
    · intro hna
      have hm : hasFlag s5.m_flags kAnimationMask = false := by
        rw [← c1]
        cases hx : hasFlag s'.m_flags kAnimationMask with
        | false => rfl
        | true =>
          obtain ⟨k, hk, hk'⟩ := (hasFlag_animationMask_iff s'.m_flags).1 hx
          rw [hna k hk] at hk'
          exact absurd hk' (by decide)
      obtain ⟨b28, b31⟩ := c3 hm
      refine ⟨?_, ?_⟩
      · rw [kPushToPrimEnabled, hasFlag_two_pow, hasFlag_two_pow, b28, p28, hw]
        rfl
      · rw [kReadAnimatedValues, hasFlag_two_pow, hasFlag_two_pow, b31, q31]

/-- C27 (amended): re-binding. For every state and every prim, valid or invalid,
`setPrimInternal` returns; afterwards every tweak and the local translate offset are reset to
zero (the identity for the rotate-orientation tweak); the flags that are not preferences are
recomputed (the call gives the same result when they are cleared beforehand, and for an invalid
prim the flags are the old ones masked with `kPreservationMask`); and `kPushToPrimEnabled` and
`kReadAnimatedValues` have the values they had before the call unless the new prim leaves an
animated flag set, in which case `kPushToPrimEnabled` is clear and `kReadAnimatedValues` is
set. -/
theorem C27_preferences_survive_rebinding (H : Host) (D : Decomposer) (bs : MStatus)
    (s : TransformationMatrix) (prim : Option UsdStage) (readingFile transformNode : Bool) :
    (∃ r, s.setPrimInternal H D bs prim readingFile transformNode = some r ∧
      TweaksReset r ∧
      (prim = none → r.m_flags = s.m_flags &&& kPreservationMask) ∧
      ((∀ k ∈ animatedFlags, hasFlag r.m_flags k = false) →
        hasFlag r.m_flags kPushToPrimEnabled = hasFlag s.m_flags kPushToPrimEnabled ∧
        hasFlag r.m_flags kReadAnimatedValues = hasFlag s.m_flags kReadAnimatedValues) ∧
      ((∃ k ∈ animatedFlags, hasFlag r.m_flags k = true) →
        prim ≠ none ∧ hasFlag r.m_flags kPushToPrimEnabled = false ∧
        hasFlag r.m_flags kReadAnimatedValues = true)) ∧
    TransformationMatrix.setPrimInternal H D bs
        { s with m_flags := s.m_flags &&& kPreservationMask } prim readingFile transformNode
      = s.setPrimInternal H D bs prim readingFile transformNode := by
  constructor
  · cases prim with
    | none =>
      refine ⟨_, rfl, ⟨rfl, rfl, rfl, rfl, rfl, rfl, rfl, rfl, rfl, rfl⟩, fun _ => rfl,
        fun _ => ⟨hasFlag_mask_push _, hasFlag_mask_read _⟩, ?_⟩
      rintro ⟨k, hk, hk'⟩
      have h0 : hasFlag (s.m_flags &&& kPreservationMask) k = false := by
        apply hasFlag_mask_other
        simp only [animatedFlags, List.mem_cons, List.mem_singleton, List.not_mem_nil,
          or_false] at hk
        rcases hk with h | h | h | h | h <;> subst h <;> decide
      exact absurd (h0.symm.trans hk') (by decide)
    | some stage =>
      obtain ⟨s4, h4⟩ : ∃ s4, initialiseToPrim H D bs
          { s with
            m_enableUsdWriteback := false
            primValid := true
            stage := stage
            m_flags := s.m_flags &&& kPreservationMask
            m_scaleTweak := ⟨0, 0, 0⟩
            m_rotationTweak := ⟨0, 0, 0, .kXYZ⟩
            m_translationTweak := ⟨0, 0, 0⟩
            m_shearTweak := ⟨0, 0, 0⟩
            m_scalePivotTweak := ⟨0, 0, 0⟩
            m_scalePivotTranslationTweak := ⟨0, 0, 0⟩
            m_rotatePivotTweak := ⟨0, 0, 0⟩
            m_rotatePivotTranslationTweak := ⟨0, 0, 0⟩
            m_rotateOrientationTweak := ⟨0, 0, 0, 1⟩
            m_localTranslateOffset := ⟨0, 0, 0⟩
            m_scaleFromUsd := ⟨1, 1, 1⟩
            m_rotationFromUsd := ⟨0, 0, 0, .kXYZ⟩
            m_translationFromUsd := ⟨0, 0, 0⟩
            m_shearFromUsd := ⟨0, 0, 0⟩
            m_scalePivotFromUsd := ⟨0, 0, 0⟩
            m_scalePivotTranslationFromUsd := ⟨0, 0, 0⟩
            m_rotatePivotFromUsd := ⟨0, 0, 0⟩
            m_rotatePivotTranslationFromUsd := ⟨0, 0, 0⟩
            m_rotateOrientationFromUsd := ⟨0, 0, 0, 1⟩ } (!readingFile) transformNode
          = some s4 :=
        initialiseToPrim_total H D bs _ _ _ rfl (hasFlag_mask_other _ _ (by decide))
      have hz := initialiseToPrim_reset H D bs _ s4 _ _
        ⟨rfl, rfl, rfl, rfl, rfl, rfl, rfl, rfl, rfl, rfl⟩ h4
      obtain ⟨pa, pk⟩ := initialiseToPrim_prefs H D bs _ s4 _ _ rfl h4
      have hmap := congrArg (Option.map (fun s4 : TransformationMatrix =>
        ({ s4 with
          scaleValue := s4.m_scaleFromUsd
          rotationValue := s4.m_rotationFromUsd
          translationValue := s4.m_translationFromUsd
          shearValue := s4.m_shearFromUsd
          scalePivotValue := s4.m_scalePivotFromUsd
          scalePivotTranslationValue := s4.m_scalePivotTranslationFromUsd
          rotatePivotValue := s4.m_rotatePivotFromUsd
          rotatePivotTranslationValue := s4.m_rotatePivotTranslationFromUsd
          rotateOrientationValue := s4.m_rotateOrientationFromUsd
          m_enableUsdWriteback := true } : TransformationMatrix))) h4
      refine ⟨_, hmap, hz, fun h => absurd h (by simp), fun hna => ?_, fun ha => ?_⟩
      · obtain ⟨k1, k2⟩ := pk hna
        exact ⟨k1.trans (hasFlag_mask_push _), k2.trans (hasFlag_mask_read _)⟩
      · exact ⟨by simp, pa ha⟩
  · have hm : (s.m_flags &&& kPreservationMask) &&& kPreservationMask
        = s.m_flags &&& kPreservationMask := by
      rw [Nat.land_assoc, Nat.and_self]
    cases prim with
    | none =>
      unfold setPrimInternal
      simp only [hm]
    | some stage =>
      unfold setPrimInternal
      simp only [hm]

/-- C27, as stated, fails: re-binding an engine whose write-back preference is set and whose
read-animated preference is clear to the prim of `animatedTranslateStage` clears the first and
sets the second. -/
theorem C27_counterexample :
    hasFlag animatedOnlyEngine.m_flags kPushToPrimEnabled = true ∧
    hasFlag animatedOnlyEngine.m_flags kReadAnimatedValues = false ∧
    (animatedOnlyEngine.setPrimInternal Host.sample Decomposer.sample .kSuccess
        (some animatedTranslateStage) false true).map
      (fun r => (hasFlag r.m_flags kPushToPrimEnabled, hasFlag r.m_flags kReadAnimatedValues,
        hasFlag r.m_flags kAnimatedTranslation))
      = some (false, true, true) := by
  refine ⟨by decide, by decide, ?_⟩
  decide!

/-! ## Enabling write-back (C25) -/

/-- Whatever its outcome, `insertOp` of a presence flag keeps the write-back preference. -/
theorem insertOp_push_kept (s : TransformationMatrix) (ty : XformOpType) (pr : Precision)
    (nm : TfToken) (flag : Flags) (beg : Bool) (st : MStatus) (s' : TransformationMatrix)
    (hflag : flag &&& kPushToPrimEnabled = 0)
    (h : s.insertOp ty pr nm flag beg = some (st, s')) :
    hasFlag s'.m_flags kPushToPrimEnabled = hasFlag s.m_flags kPushToPrimEnabled := by
  cases st with
  | kSuccess =>
    rw [(insertOp_success_frame s ty pr nm flag beg s' h).1]
    exact hasFlag_setFlag_other _ _ _ hflag
  | kFailure => rw [insertOp_fail_flags s ty pr nm flag beg s' h]

theorem removeOp_push_kept (s : TransformationMatrix) (st : MStatus)
    (s' : TransformationMatrix) (h : s.removeOp .pivot kPrimHasPivot = some (st, s')) :
    hasFlag s'.m_flags kPushToPrimEnabled = hasFlag s.m_flags kPushToPrimEnabled := by
  obtain ⟨_, _, b3, _⟩ := buildOrderedOpMayaIndices_frame s
  have key : s'.m_flags = clearFlag s.m_flags kPrimHasPivot := by
    simp only [removeOp] at h
    cases hl : removeOpLoop .pivot (removeStart s.buildOrderedOpMayaIndices.m_orderedOps.length)
        false s.buildOrderedOpMayaIndices.m_orderedOps s.buildOrderedOpMayaIndices.m_xformops
        s.buildOrderedOpMayaIndices.m_orderedOpMayaIndices with
    | none => rw [hl] at h; exact absurd h (by simp)
    | some r =>
      obtain ⟨f, ops, x, idx⟩ := r
      rw [hl] at h
      simp only at h
      split_ifs at h <;> simp only [Option.some.injEq, Prod.mk.injEq] at h <;>
        rw [← h.2] <;> simp only [b3]
  rw [key]
  exact hasFlag_clearFlag_other _ _ _ (by decide) (by decide)

/-- The part the setters share after the tweak is recomputed keeps the write-back
preference. -/
theorem setter_tail_push_kept (s1 : TransformationMatrix) (avail has c : Bool)
    (o : Option (MStatus × TransformationMatrix))
    (cont : TransformationMatrix → Option (MStatus × TransformationMatrix)) (status : MStatus)
    (b : Bool) (h1 : hasFlag s1.m_flags kPushToPrimEnabled = b)
    (ho : ∀ st2 s2, o = some (st2, s2) →
      hasFlag s2.m_flags kPushToPrimEnabled = hasFlag s1.m_flags kPushToPrimEnabled)
    (hcont : ∀ t r, cont t = some r →
      hasFlag r.2.m_flags kPushToPrimEnabled = hasFlag t.m_flags kPushToPrimEnabled)
    (r : MStatus × TransformationMatrix)
    (h : (if avail = true then
        match (if has = true then some (MStatus.kSuccess, s1)
          else if c = true then o else some (MStatus.kSuccess, s1)) with
        | none => none
        | some (.kFailure, s2) => some (MStatus.kFailure, s2)
        | some (.kSuccess, s2) => cont s2
      else some (status, s1)) = some r) :
    hasFlag r.2.m_flags kPushToPrimEnabled = b := by
  have hI : ∀ st2 s2, (if has = true then some (MStatus.kSuccess, s1)
      else if c = true then o else some (MStatus.kSuccess, s1)) = some (st2, s2) →
      hasFlag s2.m_flags kPushToPrimEnabled = b := by
    intro st2 s2 heq
    split_ifs at heq
    · simp only [Option.some.injEq, Prod.mk.injEq] at heq
      rw [← heq.2]; exact h1
    · exact (ho _ _ heq).trans h1
    · simp only [Option.some.injEq, Prod.mk.injEq] at heq
      rw [← heq.2]; exact h1
  by_cases ha : avail = true
  · rw [if_pos ha] at h
    split at h
    · exact absurd h (by simp)
    · rename_i s2 heq
      simp only [Option.some.injEq] at h
      rw [← h]; exact hI _ _ heq
    · rename_i s2 heq
      exact (hcont _ _ h).trans (hI _ _ heq)
  · rw [if_neg ha] at h
    simp only [Option.some.injEq] at h
    rw [← h]; exact h1

theorem insertPivotOps_push_kept (H : Host) (s : TransformationMatrix) (a b : Bool)
    (r : MStatus × TransformationMatrix) (h : s.insertPivotOps H a b = some r) :
    hasFlag r.2.m_flags kPushToPrimEnabled = hasFlag s.m_flags kPushToPrimEnabled := by
  simp only [insertPivotOps, insertScalePivotOp, insertRotatePivotOp] at h
  have hA : ∀ (t : TransformationMatrix) (nm : TfToken) (F : Flags)
      (push : TransformationMatrix → TransformationMatrix) (q : MStatus × TransformationMatrix),
      F &&& kPushToPrimEnabled = 0 → (∀ u, NoInsertion (push u) u) →
      (match t.insertOp .TypeTranslate .PrecisionFloat nm F false with
        | none => none
        | some (.kFailure, s1) => some (MStatus.kFailure, s1)
        | some (.kSuccess, s1) => some (MStatus.kSuccess, push s1)) = some q →
      hasFlag q.2.m_flags kPushToPrimEnabled = hasFlag t.m_flags kPushToPrimEnabled := by
    intro t nm F push q hF hpush hq
    split at hq
    · exact absurd hq (by simp)
    · rename_i s1 hi
      simp only [Option.some.injEq] at hq
      rw [← hq]; exact insertOp_push_kept _ _ _ _ _ _ _ _ hF hi
    · rename_i s1 hi
      simp only [Option.some.injEq] at hq
      rw [← hq]
      show hasFlag (push s1).m_flags _ = _
      rw [(hpush s1).2.2.2.1]
      exact insertOp_push_kept _ _ _ _ _ _ _ _ hF hi
  split at h
  · exact absurd h (by simp)
  · rename_i s1 heq
    simp only [Option.some.injEq] at h
    rw [← h]
    split_ifs at heq
    · exact hA s .scalePivot _ (fun u => u.pushScalePivotToPrim H) _ (by decide)
        (noInsertion_pushScalePivotToPrim H) heq
    · simp only [Option.some.injEq, Prod.mk.injEq] at heq
      exact absurd heq.1 (by decide)
  · rename_i s1 heq
    have h1 : hasFlag s1.m_flags kPushToPrimEnabled = hasFlag s.m_flags kPushToPrimEnabled := by
      split_ifs at heq
      · exact hA s .scalePivot _ (fun u => u.pushScalePivotToPrim H) (.kSuccess, s1) (by decide)
          (noInsertion_pushScalePivotToPrim H) heq
      · simp only [Option.some.injEq, Prod.mk.injEq] at heq
        rw [← heq.2]
    split_ifs at h
    · exact (hA s1 .rotatePivot _ (fun u => u.pushRotatePivotToPrim H) r (by decide)
        (noInsertion_pushRotatePivotToPrim H) h).trans h1
    · simp only [Option.some.injEq] at h
      rw [← h]; exact h1

theorem insertAndPushPivotOp_push_kept (H : Host) (s : TransformationMatrix) (nm : TfToken)
    (r : MStatus × TransformationMatrix) (h : s.insertAndPushPivotOp H nm = some r) :
    hasFlag r.2.m_flags kPushToPrimEnabled = hasFlag s.m_flags kPushToPrimEnabled := by
  simp only [insertAndPushPivotOp] at h
  split_ifs at h
  · simp only [Option.some.injEq] at h
    rw [← h]
  · simp only [Option.some.injEq] at h
    rw [← h]
    exact congrArg (fun f => hasFlag f kPushToPrimEnabled) (noInsertion_pushPivotToPrim H s).2.2.2.1
  · cases hr : s.removeOp .pivot kPrimHasPivot with
    | none => rw [hr] at h; exact absurd h (by simp)
    | some q =>
      obtain ⟨st0, s0⟩ := q
      have h0 := removeOp_push_kept s st0 s0 hr
      rw [hr] at h
      cases st0 <;> simp only at h
      · exact (insertPivotOps_push_kept H s0 _ _ r h).trans h0
      · simp only [Option.some.injEq] at h
        rw [← h]; exact h0
  · exact insertPivotOps_push_kept H s _ _ r h

theorem translateTo_push_kept (H : Host) (s : TransformationMatrix) (bs : MStatus) (v : MVector) (space : MSpace)
    (r : MStatus × TransformationMatrix) (h : s.translateTo H bs v space = some r) :
    hasFlag r.2.m_flags kPushToPrimEnabled = hasFlag s.m_flags kPushToPrimEnabled := by
  obtain ⟨s1, hs1, hf⟩ : ∃ s1, s1 =
      (if (baseTranslateTo s.toMPxTransformationMatrix bs v space).1.toBool then
        { s with
          toMPxTransformationMatrix := (baseTranslateTo s.toMPxTransformationMatrix bs v space).2
          m_translationTweak := (baseTranslateTo s.toMPxTransformationMatrix bs v space).2.translationValue.sub s.m_translationFromUsd }
      else { s with toMPxTransformationMatrix :=
        (baseTranslateTo s.toMPxTransformationMatrix bs v space).2 }) ∧
      s1.m_flags = s.m_flags := by
    refine ⟨_, rfl, ?_⟩
    split_ifs <;> rfl
  by_cases hl : s.translateLocked = true
  · simp only [translateTo, hl, if_true, Option.some.injEq] at h
    rw [← h]
  have hl : s.translateLocked = false := by simpa using hl
  simp only [translateTo, hl, Bool.false_eq_true, if_false, insertTranslateOp] at h
  simp only [hl] at hs1
  rw [← hs1] at h
  refine setter_tail_push_kept s1 _ _ _ _
    (fun s2 => if (!v.isEquivalent s2.m_translationFromUsd) = true
      then some ((baseTranslateTo s.toMPxTransformationMatrix bs v space).1, s2.pushTranslateToPrim H)
      else some ((baseTranslateTo s.toMPxTransformationMatrix bs v space).1, s2))
    _ _ (by rw [hf]) (fun st2 s2 hi => insertOp_push_kept _ _ _ _ _ _ _ _ (by decide) hi)
    (fun t q hq => ?_) r h
  dsimp only at hq
  split_ifs at hq <;> simp only [Option.some.injEq] at hq <;>
    first
    | (rw [← hq]
       exact congrArg (fun f => hasFlag f kPushToPrimEnabled)
         (noInsertion_pushTranslateToPrim H t).2.2.2.1)
    | rw [← hq]

theorem scaleTo_push_kept (H : Host) (s : TransformationMatrix) (bs : MStatus) (v : MVector) (space : MSpace)
    (r : MStatus × TransformationMatrix) (h : s.scaleTo H bs v space = some r) :
    hasFlag r.2.m_flags kPushToPrimEnabled = hasFlag s.m_flags kPushToPrimEnabled := by
  obtain ⟨s1, hs1, hf⟩ : ∃ s1, s1 =
      (if (baseScaleTo s.toMPxTransformationMatrix bs v space).1.toBool then
        { s with
          toMPxTransformationMatrix := (baseScaleTo s.toMPxTransformationMatrix bs v space).2
          m_scaleTweak := (baseScaleTo s.toMPxTransformationMatrix bs v space).2.scaleValue.sub s.m_scaleFromUsd }
      else { s with toMPxTransformationMatrix :=
        (baseScaleTo s.toMPxTransformationMatrix bs v space).2 }) ∧
      s1.m_flags = s.m_flags := by
    refine ⟨_, rfl, ?_⟩
    split_ifs <;> rfl
  by_cases hl : s.scaleLocked = true
  · simp only [scaleTo, hl, if_true, Option.some.injEq] at h
    rw [← h]
  have hl : s.scaleLocked = false := by simpa using hl
  simp only [scaleTo, hl, Bool.false_eq_true, if_false, insertScaleOp] at h
  simp only [hl] at hs1
  rw [← hs1] at h
  refine setter_tail_push_kept s1 _ _ _ _
    (fun s2 => if (!v.isEquivalent s2.m_scaleFromUsd) = true
      then some ((baseScaleTo s.toMPxTransformationMatrix bs v space).1, s2.pushScaleToPrim H)
      else some ((baseScaleTo s.toMPxTransformationMatrix bs v space).1, s2))
    _ _ (by rw [hf]) (fun st2 s2 hi => insertOp_push_kept _ _ _ _ _ _ _ _ (by decide) hi)
    (fun t q hq => ?_) r h
  dsimp only at hq
  split_ifs at hq <;> simp only [Option.some.injEq] at hq <;>
    first
    | (rw [← hq]
       exact congrArg (fun f => hasFlag f kPushToPrimEnabled)
         (noInsertion_pushScaleToPrim H t).2.2.2.1)
    | rw [← hq]

theorem shearTo_push_kept (H : Host) (s : TransformationMatrix) (bs : MStatus) (v : MVector) (space : MSpace)
    (r : MStatus × TransformationMatrix) (h : s.shearTo H bs v space = some r) :
    hasFlag r.2.m_flags kPushToPrimEnabled = hasFlag s.m_flags kPushToPrimEnabled := by
  obtain ⟨s1, hs1, hf⟩ : ∃ s1, s1 =
      (if (baseShearTo s.toMPxTransformationMatrix bs v space).1.toBool then
        { s with
          toMPxTransformationMatrix := (baseShearTo s.toMPxTransformationMatrix bs v space).2
          m_shearTweak := (baseShearTo s.toMPxTransformationMatrix bs v space).2.shearValue.sub s.m_shearFromUsd }
      else { s with toMPxTransformationMatrix :=
        (baseShearTo s.toMPxTransformationMatrix bs v space).2 }) ∧
      s1.m_flags = s.m_flags := by
    refine ⟨_, rfl, ?_⟩
    split_ifs <;> rfl
  by_cases hl : s.shearLocked = true
  · simp only [shearTo, hl, if_true, Option.some.injEq] at h
    rw [← h]
  have hl : s.shearLocked = false := by simpa using hl
  simp only [shearTo, hl, Bool.false_eq_true, if_false, insertShearOp] at h
  simp only [hl] at hs1
  rw [← hs1] at h
  refine setter_tail_push_kept s1 _ _ _ _
    (fun s2 => if (!v.isEquivalent s2.m_shearFromUsd) = true
      then some ((baseShearTo s.toMPxTransformationMatrix bs v space).1, s2.pushShearToPrim H)
      else some ((baseShearTo s.toMPxTransformationMatrix bs v space).1, s2))
    _ _ (by rw [hf]) (fun st2 s2 hi => insertOp_push_kept _ _ _ _ _ _ _ _ (by decide) hi)
    (fun t q hq => ?_) r h
  dsimp only at hq
  split_ifs at hq <;> simp only [Option.some.injEq] at hq <;>
    first
    | (rw [← hq]
       exact congrArg (fun f => hasFlag f kPushToPrimEnabled)
         (noInsertion_pushShearToPrim H t).2.2.2.1)
    | rw [← hq]

theorem setScalePivotTranslation_push_kept (H : Host) (s : TransformationMatrix) (bs : MStatus) (v : MVector) (space : MSpace)
    (r : MStatus × TransformationMatrix) (h : s.setScalePivotTranslation H bs v space = some r) :
    hasFlag r.2.m_flags kPushToPrimEnabled = hasFlag s.m_flags kPushToPrimEnabled := by
  obtain ⟨s1, hs1, hf⟩ : ∃ s1, s1 =
      (if (baseSetScalePivotTranslation s.toMPxTransformationMatrix bs v space).1.toBool then
        { s with
          toMPxTransformationMatrix := (baseSetScalePivotTranslation s.toMPxTransformationMatrix bs v space).2
          m_scalePivotTranslationTweak := (baseSetScalePivotTranslation s.toMPxTransformationMatrix bs v space).2.scalePivotTranslationValue.sub s.m_scalePivotTranslationFromUsd }
      else { s with toMPxTransformationMatrix :=
        (baseSetScalePivotTranslation s.toMPxTransformationMatrix bs v space).2 }) ∧
      s1.m_flags = s.m_flags := by
    refine ⟨_, rfl, ?_⟩
    split_ifs <;> rfl
  simp only [setScalePivotTranslation, insertScalePivotTranslationOp] at h
  rw [← hs1] at h
  refine setter_tail_push_kept s1 _ _ _ _
    (fun s2 => if (!v.isEquivalent s2.m_scalePivotTranslationFromUsd) = true
      then some ((baseSetScalePivotTranslation s.toMPxTransformationMatrix bs v space).1, s2.pushScalePivotTranslateToPrim H)
      else some ((baseSetScalePivotTranslation s.toMPxTransformationMatrix bs v space).1, s2))
    _ _ (by rw [hf]) (fun st2 s2 hi => insertOp_push_kept _ _ _ _ _ _ _ _ (by decide) hi)
    (fun t q hq => ?_) r h
  dsimp only at hq
  split_ifs at hq <;> simp only [Option.some.injEq] at hq <;>
    first
    | (rw [← hq]
       exact congrArg (fun f => hasFlag f kPushToPrimEnabled)
         (noInsertion_pushScalePivotTranslateToPrim H t).2.2.2.1)
    | rw [← hq]

theorem setRotatePivotTranslation_push_kept (H : Host) (s : TransformationMatrix) (bs : MStatus) (v : MVector) (space : MSpace)
    (r : MStatus × TransformationMatrix) (h : s.setRotatePivotTranslation H bs v space = some r) :
    hasFlag r.2.m_flags kPushToPrimEnabled = hasFlag s.m_flags kPushToPrimEnabled := by
  obtain ⟨s1, hs1, hf⟩ : ∃ s1, s1 =
      (if (baseSetRotatePivotTranslation s.toMPxTransformationMatrix bs v space).1.toBool then
        { s with
          toMPxTransformationMatrix := (baseSetRotatePivotTranslation s.toMPxTransformationMatrix bs v space).2
          m_rotatePivotTranslationTweak := (baseSetRotatePivotTranslation s.toMPxTransformationMatrix bs v space).2.rotatePivotTranslationValue.sub s.m_rotatePivotTranslationFromUsd }
      else { s with toMPxTransformationMatrix :=
        (baseSetRotatePivotTranslation s.toMPxTransformationMatrix bs v space).2 }) ∧
      s1.m_flags = s.m_flags := by
    refine ⟨_, rfl, ?_⟩
    split_ifs <;> rfl
  simp only [setRotatePivotTranslation, insertRotatePivotTranslationOp] at h
  rw [← hs1] at h
  refine setter_tail_push_kept s1 _ _ _ _
    (fun s2 => if (!v.isEquivalent s2.m_rotatePivotTranslationFromUsd) = true
      then some ((baseSetRotatePivotTranslation s.toMPxTransformationMatrix bs v space).1, s2.pushRotatePivotTranslateToPrim H)
      else some ((baseSetRotatePivotTranslation s.toMPxTransformationMatrix bs v space).1, s2))
    _ _ (by rw [hf]) (fun st2 s2 hi => insertOp_push_kept _ _ _ _ _ _ _ _ (by decide) hi)
    (fun t q hq => ?_) r h
  dsimp only at hq
  split_ifs at hq <;> simp only [Option.some.injEq] at hq <;>
    first
    | (rw [← hq]
       exact congrArg (fun f => hasFlag f kPushToPrimEnabled)
         (noInsertion_pushRotatePivotTranslateToPrim H t).2.2.2.1)
    | rw [← hq]

theorem rotateTo_push_kept (H : Host) (s : TransformationMatrix) (bs : MStatus) (e : MEulerRotation) (space : MSpace)
    (r : MStatus × TransformationMatrix) (h : s.rotateTo H bs e space = some r) :
    hasFlag r.2.m_flags kPushToPrimEnabled = hasFlag s.m_flags kPushToPrimEnabled := by
  obtain ⟨s1, hs1, hf⟩ : ∃ s1, s1 =
      (if (baseRotateTo s.toMPxTransformationMatrix bs e space).1.toBool then
        ({ s with toMPxTransformationMatrix :=
          (baseRotateTo s.toMPxTransformationMatrix bs e space).2 } :
            TransformationMatrix).updateRotationTweak
      else { s with toMPxTransformationMatrix :=
        (baseRotateTo s.toMPxTransformationMatrix bs e space).2 }) ∧
      s1.m_flags = s.m_flags := by
    refine ⟨_, rfl, ?_⟩
    split_ifs <;> rfl
  by_cases hl : s.rotateLocked = true
  · simp only [rotateTo, hl, if_true, Option.some.injEq] at h
    rw [← h]
  have hl : s.rotateLocked = false := by simpa using hl
  simp only [rotateTo, hl, Bool.false_eq_true, if_false, insertRotateOp] at h
  simp only [hl] at hs1
  rw [← hs1] at h
  refine setter_tail_push_kept s1 _ _ _ _
    (fun s2 => if s2.m_enableUsdWriteback = true then
        (if (!e.isEquivalent s2.m_rotationFromUsd) = true
          then some ((baseRotateTo s.toMPxTransformationMatrix bs e space).1, s2.pushRotateToPrim H)
          else some ((baseRotateTo s.toMPxTransformationMatrix bs e space).1, s2))
      else some ((baseRotateTo s.toMPxTransformationMatrix bs e space).1, s2))
    _ _ (by rw [hf]) (fun st2 s2 hi => insertOp_push_kept _ _ _ _ _ _ _ _ (by decide) hi)
    (fun t q hq => ?_) r h
  dsimp only at hq
  split_ifs at hq <;> simp only [Option.some.injEq] at hq <;>
    first
    | (rw [← hq]
       exact congrArg (fun f => hasFlag f kPushToPrimEnabled)
         (noInsertion_pushRotateToPrim H t).2.2.2.1)
    | rw [← hq]

theorem rotateToQuaternion_push_kept (H : Host) (s : TransformationMatrix) (bs : MStatus) (q : MQuaternion) (space : MSpace)
    (r : MStatus × TransformationMatrix) (h : s.rotateToQuaternion H bs q space = some r) :
    hasFlag r.2.m_flags kPushToPrimEnabled = hasFlag s.m_flags kPushToPrimEnabled := by
  obtain ⟨s1, hs1, hf⟩ : ∃ s1, s1 =
      (if (baseRotateTo s.toMPxTransformationMatrix bs (H.asEulerRotation q) space).1.toBool then
        ({ s with toMPxTransformationMatrix :=
          (baseRotateTo s.toMPxTransformationMatrix bs (H.asEulerRotation q) space).2 } :
            TransformationMatrix).updateRotationTweak
      else { s with toMPxTransformationMatrix :=
        (baseRotateTo s.toMPxTransformationMatrix bs (H.asEulerRotation q) space).2 }) ∧
      s1.m_flags = s.m_flags := by
    refine ⟨_, rfl, ?_⟩
    split_ifs <;> rfl
  by_cases hl : s.rotateLocked = true
  · simp only [rotateToQuaternion, hl, if_true, Option.some.injEq] at h
    rw [← h]
  have hl : s.rotateLocked = false := by simpa using hl
  simp only [rotateToQuaternion, hl, Bool.false_eq_true, if_false, insertRotateOp] at h
  simp only [hl] at hs1
  rw [← hs1] at h
  refine setter_tail_push_kept s1 _ _ _ _
    (fun s2 => if s2.m_enableUsdWriteback = true then
        (if (!s2.rotationValue.isEquivalent s2.m_rotationFromUsd) = true
          then some ((baseRotateTo s.toMPxTransformationMatrix bs (H.asEulerRotation q) space).1, s2.pushRotateToPrim H)
          else some ((baseRotateTo s.toMPxTransformationMatrix bs (H.asEulerRotation q) space).1, s2))
      else some ((baseRotateTo s.toMPxTransformationMatrix bs (H.asEulerRotation q) space).1, s2))
    _ _ (by rw [hf]) (fun st2 s2 hi => insertOp_push_kept _ _ _ _ _ _ _ _ (by decide) hi)
    (fun t q hq => ?_) r h
  dsimp only at hq
  split_ifs at hq <;> simp only [Option.some.injEq] at hq <;>
    first
    | (rw [← hq]
       exact congrArg (fun f => hasFlag f kPushToPrimEnabled)
         (noInsertion_pushRotateToPrim H t).2.2.2.1)
    | rw [← hq]

theorem setRotateOrientation_push_kept (H : Host) (s : TransformationMatrix) (bs : MStatus) (q : MQuaternion) (space : MSpace) (balance : Bool)
    (r : MStatus × TransformationMatrix) (h : s.setRotateOrientation H bs q space balance = some r) :
    hasFlag r.2.m_flags kPushToPrimEnabled = hasFlag s.m_flags kPushToPrimEnabled := by
  obtain ⟨s1, hs1, hf⟩ : ∃ s1, s1 =
      (if (baseSetRotateOrientation s.toMPxTransformationMatrix bs q space balance).1.toBool then
        { s with
          toMPxTransformationMatrix := (baseSetRotateOrientation s.toMPxTransformationMatrix bs q space balance).2
          m_rotateOrientationFromUsd :=
            (baseSetRotateOrientation s.toMPxTransformationMatrix bs q space balance).2.rotateOrientationValue.mul s.m_rotateOrientationTweak.inverse }
      else { s with toMPxTransformationMatrix :=
        (baseSetRotateOrientation s.toMPxTransformationMatrix bs q space balance).2 }) ∧
      s1.m_flags = s.m_flags := by
    refine ⟨_, rfl, ?_⟩
    split_ifs <;> rfl
  simp only [setRotateOrientation, insertRotateAxesOp] at h
  rw [← hs1] at h
  refine setter_tail_push_kept s1 _ _ _ _
    (fun s2 => if s2.m_enableUsdWriteback = true
      then some ((baseSetRotateOrientation s.toMPxTransformationMatrix bs q space balance).1, s2.pushRotateAxisToPrim H)
      else some ((baseSetRotateOrientation s.toMPxTransformationMatrix bs q space balance).1, s2))
    _ _ (by rw [hf]) (fun st2 s2 hi => insertOp_push_kept _ _ _ _ _ _ _ _ (by decide) hi)
    (fun t q hq => ?_) r h
  dsimp only at hq
  split_ifs at hq <;> simp only [Option.some.injEq] at hq <;>
    first
    | (rw [← hq]
       exact congrArg (fun f => hasFlag f kPushToPrimEnabled)
         (noInsertion_pushRotateAxisToPrim H t).2.2.2.1)
    | rw [← hq]

theorem setRotateOrientationEuler_push_kept (H : Host) (s : TransformationMatrix) (bs : MStatus) (euler : MEulerRotation) (space : MSpace) (balance : Bool)
    (r : MStatus × TransformationMatrix) (h : s.setRotateOrientationEuler H bs euler space balance = some r) :
    hasFlag r.2.m_flags kPushToPrimEnabled = hasFlag s.m_flags kPushToPrimEnabled := by
  obtain ⟨s1, hs1, hf⟩ : ∃ s1, s1 =
      (if (baseSetRotateOrientation s.toMPxTransformationMatrix bs (H.asQuaternion euler) space balance).1.toBool then
        { s with
          toMPxTransformationMatrix := (baseSetRotateOrientation s.toMPxTransformationMatrix bs (H.asQuaternion euler) space balance).2
          m_rotateOrientationFromUsd :=
            (baseSetRotateOrientation s.toMPxTransformationMatrix bs (H.asQuaternion euler) space balance).2.rotateOrientationValue.mul s.m_rotateOrientationTweak.inverse }
      else { s with toMPxTransformationMatrix :=
        (baseSetRotateOrientation s.toMPxTransformationMatrix bs (H.asQuaternion euler) space balance).2 }) ∧
      s1.m_flags = s.m_flags := by
    refine ⟨_, rfl, ?_⟩
    split_ifs <;> rfl
  simp only [setRotateOrientationEuler, insertRotateAxesOp] at h
  rw [← hs1] at h
  refine setter_tail_push_kept s1 _ _ _ _
    (fun s2 => if s2.m_enableUsdWriteback = true
      then some ((baseSetRotateOrientation s.toMPxTransformationMatrix bs (H.asQuaternion euler) space balance).1, s2.pushRotateAxisToPrim H)
      else some ((baseSetRotateOrientation s.toMPxTransformationMatrix bs (H.asQuaternion euler) space balance).1, s2))
    _ _ (by rw [hf]) (fun st2 s2 hi => insertOp_push_kept _ _ _ _ _ _ _ _ (by decide) hi)
    (fun t q hq => ?_) r h
  dsimp only at hq
  split_ifs at hq <;> simp only [Option.some.injEq] at hq <;>
    first
    | (rw [← hq]
       exact congrArg (fun f => hasFlag f kPushToPrimEnabled)
         (noInsertion_pushRotateAxisToPrim H t).2.2.2.1)
    | rw [← hq]

theorem setScalePivot_push_kept (H : Host) (s : TransformationMatrix) (bs : MStatus) (sp : MPoint)
    (space : MSpace) (balance : Bool)
    (r : MStatus × TransformationMatrix) (h : s.setScalePivot H bs sp space balance = some r) :
    hasFlag r.2.m_flags kPushToPrimEnabled = hasFlag s.m_flags kPushToPrimEnabled := by
  obtain ⟨s1, hs1, hf⟩ : ∃ s1, s1 =
      (if (baseSetScalePivot s.toMPxTransformationMatrix bs sp space balance).1.toBool then
        { s with
          toMPxTransformationMatrix :=
            (baseSetScalePivot s.toMPxTransformationMatrix bs sp space balance).2
          m_scalePivotTweak :=
            (baseSetScalePivot s.toMPxTransformationMatrix bs sp space
              balance).2.scalePivotValue.sub s.m_scalePivotFromUsd }
      else { s with toMPxTransformationMatrix :=
        (baseSetScalePivot s.toMPxTransformationMatrix bs sp space balance).2 }) ∧
      s1.m_flags = s.m_flags := by
    refine ⟨_, rfl, ?_⟩
    split_ifs <;> rfl
  simp only [setScalePivot] at h
  rw [← hs1] at h
  split_ifs at h
  · exact (insertAndPushPivotOp_push_kept H s1 _ r h).trans (by rw [hf])
  · simp only [Option.some.injEq] at h
    rw [← h]
    exact (congrArg (fun f => hasFlag f kPushToPrimEnabled)
      (noInsertion_pushScalePivotToPrim H s1).2.2.2.1).trans (by rw [hf])
  · simp only [Option.some.injEq] at h
    rw [← h, ← hf]
  · simp only [Option.some.injEq] at h
    rw [← h, ← hf]

theorem setRotatePivot_push_kept (H : Host) (s : TransformationMatrix) (bs : MStatus) (sp : MPoint)
    (space : MSpace) (balance : Bool)
    (r : MStatus × TransformationMatrix) (h : s.setRotatePivot H bs sp space balance = some r) :
    hasFlag r.2.m_flags kPushToPrimEnabled = hasFlag s.m_flags kPushToPrimEnabled := by
  obtain ⟨s1, hs1, hf⟩ : ∃ s1, s1 =
      (if (baseSetRotatePivot s.toMPxTransformationMatrix bs sp space balance).1.toBool then
        { s with
          toMPxTransformationMatrix :=
            (baseSetRotatePivot s.toMPxTransformationMatrix bs sp space balance).2
          m_rotatePivotTweak :=
            (baseSetRotatePivot s.toMPxTransformationMatrix bs sp space
              balance).2.rotatePivotValue.sub s.m_rotatePivotFromUsd }
      else { s with toMPxTransformationMatrix :=
        (baseSetRotatePivot s.toMPxTransformationMatrix bs sp space balance).2 }) ∧
      s1.m_flags = s.m_flags := by
    refine ⟨_, rfl, ?_⟩
    split_ifs <;> rfl
  simp only [setRotatePivot] at h
  rw [← hs1] at h
  split_ifs at h
  · exact (insertAndPushPivotOp_push_kept H s1 _ r h).trans (by rw [hf])
  · simp only [Option.some.injEq] at h
    rw [← h]
    exact (congrArg (fun f => hasFlag f kPushToPrimEnabled)
      (noInsertion_pushRotatePivotToPrim H s1).2.2.2.1).trans (by rw [hf])
  · simp only [Option.some.injEq] at h
    rw [← h, ← hf]
  · simp only [Option.some.injEq] at h
    rw [← h, ← hf]

theorem sweepCall_push_kept (s t : TransformationMatrix) (cond : Bool)
    (setter : Option (MStatus × TransformationMatrix))
    (hset : ∀ r, setter = some r →
      hasFlag r.2.m_flags kPushToPrimEnabled = hasFlag s.m_flags kPushToPrimEnabled)
    (h : s.sweepCall cond setter = some t) :
    hasFlag t.m_flags kPushToPrimEnabled = hasFlag s.m_flags kPushToPrimEnabled := by
  unfold sweepCall at h
  split_ifs at h
  · obtain ⟨r, hr, he⟩ := Option.map_eq_some'.1 h
    rw [← he]; exact hset r hr
  · simp only [Option.some.injEq] at h
    rw [← h]

/-- The per-component sweep keeps the write-back preference. -/
theorem reconcileComponents_push_kept (H : Host) (bs : MStatus) (s0 r : TransformationMatrix)
    (h : s0.reconcileComponents H bs = some r) :
    hasFlag r.m_flags kPushToPrimEnabled = hasFlag s0.m_flags kPushToPrimEnabled := by
  unfold reconcileComponents at h
  obtain ⟨s1, h1, h⟩ := Option.bind_eq_some.1 h
  obtain ⟨s2, h2, h⟩ := Option.bind_eq_some.1 h
  obtain ⟨s3, h3, h⟩ := Option.bind_eq_some.1 h
  obtain ⟨s4, h4, h⟩ := Option.bind_eq_some.1 h
  obtain ⟨s5, h5, h⟩ := Option.bind_eq_some.1 h
  obtain ⟨s6, h6, h⟩ := Option.bind_eq_some.1 h
  obtain ⟨s7, h7, h⟩ := Option.bind_eq_some.1 h
  obtain ⟨s8, h8, h⟩ := Option.bind_eq_some.1 h
  have k1 := sweepCall_push_kept _ _ _ _ (translateTo_push_kept H s0 bs _ _) h1
  have k2 := sweepCall_push_kept _ _ _ _ (scaleTo_push_kept H s1 bs _ _) h2
  have k3 := sweepCall_push_kept _ _ _ _ (shearTo_push_kept H s2 bs _ _) h3
  have k4 := sweepCall_push_kept _ _ _ _ (setScalePivot_push_kept H s3 bs _ _ _) h4
  have k5 := sweepCall_push_kept _ _ _ _ (setScalePivotTranslation_push_kept H s4 bs _ _) h5
  have k6 := sweepCall_push_kept _ _ _ _ (setRotatePivot_push_kept H s5 bs _ _ _) h6
  have k7 := sweepCall_push_kept _ _ _ _ (setRotatePivotTranslation_push_kept H s6 bs _ _) h7
  have k8 := sweepCall_push_kept _ _ _ _ (rotateToQuaternion_push_kept H s7 bs _ _) h8
  have k9 := sweepCall_push_kept _ _ _ _ (setRotateOrientation_push_kept H s8 bs _ _ _) h
  rw [k9, k8, k7, k6, k5, k4, k3, k2, k1]

theorem sweep_cons (H : Host) (t : TransformationMatrix) (c : Bool) (call : SetterCall)
    (X : Option (MStatus × TransformationMatrix)) (hX : X = call.run H t)
    (k : TransformationMatrix → Option TransformationMatrix)
    (f : TransformationMatrix → Option SetterCall)
    (fs : List (TransformationMatrix → Option SetterCall))
    (hf : f t = if c = true then some call else none)
    (hk : ∀ u, k u = runCalls H fs u) :
    (t.sweepCall c X).bind k = runCalls H (f :: fs) t := by
  subst hX
  have hk' : k = runCalls H fs := funext hk
  subst hk'
  simp only [runCalls, List.foldlM_cons, hf, sweepCall]
  cases c <;> rfl

theorem sweep_last (H : Host) (t : TransformationMatrix) (c : Bool) (call : SetterCall)
    (X : Option (MStatus × TransformationMatrix)) (hX : X = call.run H t)
    (f : TransformationMatrix → Option SetterCall)
    (hf : f t = if c = true then some call else none) :
    t.sweepCall c X = runCalls H [f] t := by
  subst hX
  simp only [runCalls, List.foldlM_cons, List.foldlM_nil, hf, sweepCall]
  cases c
  · rfl
  · simp

/-- The per-component sweep is the list of setter calls of `reconcileCalls`, run in order. -/
theorem reconcileComponents_eq_runCalls (H : Host) (s0 : TransformationMatrix) :
    s0.reconcileComponents H .kSuccess = runCalls H (reconcileCalls H) s0 := by
  unfold reconcileComponents reconcileCalls
  refine sweep_cons H s0 _ (.translateTo s0.translationValue .kTransform) _ rfl _ _ _ rfl
    (fun s1 => ?_)
  refine sweep_cons H s1 _ (.scaleTo s1.scaleValue .kTransform) _ rfl _ _ _ rfl (fun s2 => ?_)
  refine sweep_cons H s2 _ (.shearTo s2.shearValue .kTransform) _ rfl _ _ _ rfl (fun s3 => ?_)
  refine sweep_cons H s3 _ (.setScalePivot s3.scalePivotValue .kTransform false) _ rfl _ _ _ rfl
    (fun s4 => ?_)
  refine sweep_cons H s4 _
    (.setScalePivotTranslation s4.scalePivotTranslationValue .kTransform) _ rfl _ _ _ rfl
    (fun s5 => ?_)
  refine sweep_cons H s5 _ (.setRotatePivot s5.rotatePivotValue .kTransform false) _ rfl _ _ _
    rfl (fun s6 => ?_)
  refine sweep_cons H s6 _
    (.setRotatePivotTranslation s6.rotatePivotTranslationValue .kTransform) _ rfl _ _ _ rfl
    (fun s7 => ?_)
  refine sweep_cons H s7 _ (.rotateToQuaternion (H.asQuaternion s7.rotationValue) .kTransform)
    _ rfl _ _ _ rfl (fun s8 => ?_)
  exact sweep_last H s8 _ (.setRotateOrientation s8.rotateOrientationValue .kTransform false) _
    rfl _ rfl

theorem countSets_pushMatrix_le (stage : UsdStage) (m : MMatrix) (op : UsdGeomXformOp)
    (tc : UsdTimeCode) :
    countSets (pushMatrix stage m op tc).2.journal ≤ countSets stage.journal + 1 := by
  have hset : countSets (op.Set stage (.matrix m) tc).2.journal = countSets stage.journal + 1 := by
    rw [journal_Set]
    simp [countSets, List.filter_append]
  unfold pushMatrix
  dsimp only
  split_ifs <;> (try split) <;> first | exact Nat.le_succ _ | exact hset.le

/-- The call `enablePushToPrim(true)`, with the tests read on the engine as it was before the
flag was set. -/
theorem enablePushToPrim_true (H : Host) (bs : MStatus) (s : TransformationMatrix) :
    s.enablePushToPrim H bs true
      = if s.primValid = false then
          some { s with m_flags := setFlag s.m_flags kPushToPrimEnabled }
        else if s.getTimeCode = .Default then
          if s.pushPrimToMatrix = false then
            reconcileComponents H bs { s with m_flags := setFlag s.m_flags kPushToPrimEnabled }
          else if s.primHasTransform = true then
            reconcileMatrix H { s with m_flags := setFlag s.m_flags kPushToPrimEnabled }
          else some { s with m_flags := setFlag s.m_flags kPushToPrimEnabled }
        else some { s with m_flags := setFlag s.m_flags kPushToPrimEnabled } := by
  have hread : hasFlag (setFlag s.m_flags kPushToPrimEnabled) kReadAnimatedValues
      = hasFlag s.m_flags kReadAnimatedValues := hasFlag_setFlag_other _ _ _ (by decide)
  have htc : ({ s with m_flags := setFlag s.m_flags kPushToPrimEnabled } :
      TransformationMatrix).getTimeCode = s.getTimeCode := by
    simp only [getTimeCode, readAnimatedValues, hread]
  have hmat : ({ s with m_flags := setFlag s.m_flags kPushToPrimEnabled } :
      TransformationMatrix).pushPrimToMatrix = s.pushPrimToMatrix :=
    hasFlag_setFlag_other _ _ _ (by decide)
  have htr : ({ s with m_flags := setFlag s.m_flags kPushToPrimEnabled } :
      TransformationMatrix).primHasTransform = s.primHasTransform :=
    hasFlag_setFlag_other _ _ _ (by decide)
  unfold enablePushToPrim
  simp only [if_true, htc, hmat, htr, Bool.true_and]
  cases s.primValid <;> cases s.pushPrimToMatrix <;> by_cases h : s.getTimeCode = .Default <;>
    simp [h]

/-! ## Rotation order (C37) -/

/-- C34 (scalar writes compare against the value at the target time), evaluated on the code.
`pushDouble` reads the old value with `op.Get(&oldValue)`, at the default time, and writes with
`op.Set(value, timeCode)`. On a double-precision single-axis rotate operator that holds 30 as
its default value and 10 at time 5, the write at time 5 is not gated; `pushDouble(30, op, 5)`
issues no `Set` although the value stored at time 5 is 10, and `pushDouble(10, op, 5)` issues
`Set(10, 5)` although the value stored at time 5 is already 10. -/
theorem C34_pushDouble_compares_at_default_time :
    rotateXOp.GetTypeName animatedRotateXStage = .kDouble ∧
    timeSampleGate animatedRotateXStage rotateXOp (.time 5) = false ∧
    GetScalar animatedRotateXStage rotateXOp (.time 5) = some 10 ∧
    GetScalar animatedRotateXStage rotateXOp .Default = some 30 ∧
    pushDouble Host.sample animatedRotateXStage 30 rotateXOp (.time 5) = animatedRotateXStage ∧
    readDouble (pushDouble Host.sample animatedRotateXStage 30 rotateXOp (.time 5)) rotateXOp
      (.time 5) = 10 ∧
    (pushDouble Host.sample animatedRotateXStage 10 rotateXOp (.time 5)).journal
      = [StoreEvent.set rotateXOp (.scalar 10) (.time 5)] := by
  decide!

/-! ## The result of pushShear (C35) -/

/-- C35 (pushShear reports success like the other write codecs), evaluated on the code. Every
path of `pushShear` ends in `return false`, the one that wrote included. On a Matrix4d shear
operator, not gated at the default time, `pushShear((1, 2, 3))` issues the `Set`, after which
`readShear` returns (1, 2, 3), and returns false, where `pushMatrix` of the same matrix to the
same operator returns true. -/
theorem C35_pushShear_returns_false_after_writing :
    (∀ (stage : UsdStage) (result : MVector) (op : UsdGeomXformOp) (tc : UsdTimeCode),
      (pushShear stage result op tc).1 = false) ∧
    shearOp.GetTypeName shearStage = .kMatrix4d ∧
    timeSampleGate shearStage shearOp .Default = false ∧
    (pushShear shearStage ⟨1, 2, 3⟩ shearOp .Default).1 = false ∧
    (pushShear shearStage ⟨1, 2, 3⟩ shearOp .Default).2.journal
      = [StoreEvent.set shearOp (.matrix (shearMatrix ⟨1, 2, 3⟩)) .Default] ∧
    readShear (pushShear shearStage ⟨1, 2, 3⟩ shearOp .Default).2 MVector.zero shearOp .Default
      = (true, ⟨1, 2, 3⟩) ∧
    (pushMatrix shearStage (shearMatrix ⟨1, 2, 3⟩) shearOp .Default).1 = true := by
  refine ⟨?_, by decide, by decide, by decide!, by decide!, by decide!, by decide!⟩
  intro stage result op tc
  unfold pushShear
  split_ifs
  · rfl
  · split <;> rfl

/-! ## Flags of a failing removal (C36) -/

theorem clearFlag_eq_self_iff (m f : Flags) (hm : m < 2 ^ 32) :
    clearFlag m f = m ↔ m &&& f = 0 := by
  unfold clearFlag allFlagBits
  constructor
  · intro h
    apply Nat.eq_of_testBit_eq
    intro i
    have hi := congrArg (fun x => x.testBit i) h
    simp only [Nat.testBit_and, Nat.testBit_xor, Nat.testBit_two_pow_sub_one,
      Nat.zero_testBit] at hi ⊢
    by_cases h32 : i < 32
    · cases hmi : m.testBit i <;> cases hfi : f.testBit i <;> simp_all
    · have : m.testBit i = false := by
        apply Nat.testBit_lt_two_pow
        calc m < 2 ^ 32 := hm
          _ ≤ 2 ^ i := Nat.pow_le_pow_right (by norm_num) (by omega)
      simp [this]
  · intro h
    apply Nat.eq_of_testBit_eq
    intro i
    have hi := congrArg (fun x => x.testBit i) h
    simp only [Nat.testBit_and, Nat.testBit_xor, Nat.testBit_two_pow_sub_one,
      Nat.zero_testBit] at hi ⊢
    by_cases h32 : i < 32
    · cases hmi : m.testBit i <;> cases hfi : f.testBit i <;> simp_all
    · have : m.testBit i = false := by
        apply Nat.testBit_lt_two_pow
        calc m < 2 ^ 32 := hm
          _ ≤ 2 ^ i := Nat.pow_le_pow_right (by norm_num) (by omega)
      simp [this]

/-- C36 (as stated, refuted). A failing `removeOp` is not atomic on the flags: on an engine
whose only operator is a translate and whose `kPrimHasPivot` flag is set, `removeOp(pivot,
kPrimHasPivot)` finds no operator of that name, returns failure, and has cleared
`kPrimHasPivot`: `m_flags` differs from its value before the call. -/
theorem C36_counterexample :
    countNamed .pivot stalePivotFlagEngine.m_orderedOps = 0 ∧
    hasFlag stalePivotFlagEngine.m_flags kPrimHasPivot = true ∧
    (stalePivotFlagEngine.removeOp .pivot kPrimHasPivot).map
      (fun r => (r.1, hasFlag r.2.m_flags kPrimHasPivot,
        decide (r.2.m_flags = stalePivotFlagEngine.m_flags),
        decide (r.2.m_orderedOps = stalePivotFlagEngine.m_orderedOps)))
      = some (.kFailure, false, false, true) := by
  decide

/-- C36 (amended). A failing `removeOp` clears the presence flag as well: for every state with
a non-empty `m_orderedOps` (parallel to `m_xformops` and, when non-empty, to
`m_orderedOpMayaIndices`) in which no operator has the given name, `removeOp` returns failure
and `m_flags` is its previous value with `oldFlag` cleared (`m_flags &= ~oldFlag` precedes the
test of `foundOne`): `oldFlag` is not set afterwards, every flag disjoint from `oldFlag` is as
before, and `m_flags` is the same as before the call exactly when it held no bit of `oldFlag`. -/
theorem C36_failing_removeOp_clears_flag (s : TransformationMatrix) (opName : TfToken)
    (oldFlag : Flags) (hflag : oldFlag < 2 ^ 32) (hword : s.m_flags < 2 ^ 32)
    (hne : s.m_orderedOps ≠ [])
    (hx : s.m_xformops.length = s.m_orderedOps.length)
    (hidx : s.m_orderedOpMayaIndices = [] ∨
      s.m_orderedOpMayaIndices.length = s.m_orderedOps.length)
    (hcount : countNamed opName s.m_orderedOps = 0) :
    ∃ s', s.removeOp opName oldFlag = some (.kFailure, s') ∧
      s'.m_flags = clearFlag s.m_flags oldFlag ∧
      hasFlag s'.m_flags oldFlag = false ∧
      (∀ g : Flags, oldFlag &&& g = 0 → g < 2 ^ 32 →
        hasFlag s'.m_flags g = hasFlag s.m_flags g) ∧
      (s'.m_flags = s.m_flags ↔ s.m_flags &&& oldFlag = 0) := by
  refine ⟨_, removeOp_no_match s opName oldFlag hne hx hidx hcount, rfl,
    hasFlag_clearFlag_self _ _ hflag, ?_, ?_⟩
  · intro g hg hg32
    exact hasFlag_clearFlag_other _ _ _ hg hg32
  · exact clearFlag_eq_self_iff _ _ hword

/-- C36 witness: removing the absent combined pivot from an engine whose `kPrimHasPivot` flag
is set. -/
theorem C36_failing_removeOp_clears_flag_witness :
    ∃ s', stalePivotFlagEngine.removeOp .pivot kPrimHasPivot = some (.kFailure, s') ∧
      s'.m_flags = clearFlag stalePivotFlagEngine.m_flags kPrimHasPivot ∧
      hasFlag s'.m_flags kPrimHasPivot = false ∧
      hasFlag s'.m_flags kPrimHasTranslation = true ∧
      s'.m_flags ≠ stalePivotFlagEngine.m_flags := by
  obtain ⟨s', h1, h2, h3, h4, h5⟩ :=
    C36_failing_removeOp_clears_flag stalePivotFlagEngine .pivot kPrimHasPivot (by decide)
      (by decide) (by decide) (by decide) (by decide) (by decide)
  refine ⟨s', h1, h2, h3, ?_, ?_⟩
  · rw [h4 kPrimHasTranslation (by decide) (by decide)]; decide
  · intro h
    exact absurd (h5.1 h) (by decide)

/-! ## The combined pivot and the origin (C33) -/

/-- C33 (a combined pivot implies equal pivots), evaluated on the code. The single-pivot engine
has the combined `pivot` operator, both live pivots at (1, 2, 3) and write-back available.
`setScalePivot((0, 0, 0))` fails the test `sp != MPoint(0.0, 0.0, 0.0)` that guards
`insertAndPushPivotOp`, so the pivot is not split: the call returns success, the combined
operator and `kPrimHasPivot` are still there, no scalePivot operator exists, nothing was sent to
the store, and the live scale pivot (0, 0, 0) differs from the live rotate pivot (1, 2, 3).
`setRotatePivot((0, 0, 0))` does the same with the roles exchanged. -/
theorem C33_origin_pivot_is_not_split :
    (singlePivotEngine.pushToPrimAvailable = true ∧
      singlePivotEngine.primHasPivot = true ∧
      singlePivotEngine.scalePivotValue = singlePivotEngine.rotatePivotValue) ∧
    ((singlePivotEngine.setScalePivot Host.sample .kSuccess ⟨0, 0, 0⟩ .kTransform false).map
        (fun r => (r.1, r.2.primHasPivot, r.2.primHasScalePivot, r.2.scalePivotValue,
          r.2.rotatePivotValue))
        = some (.kSuccess, true, false, ⟨0, 0, 0⟩, ⟨1, 2, 3⟩) ∧
      (singlePivotEngine.setScalePivot Host.sample .kSuccess ⟨0, 0, 0⟩ .kTransform false).map
        (fun r => (r.2.m_orderedOps, r.2.m_xformops, r.2.stage))
        = some (singlePivotEngine.m_orderedOps, singlePivotEngine.m_xformops,
            singlePivotEngine.stage)) ∧
    ((singlePivotEngine.setRotatePivot Host.sample .kSuccess ⟨0, 0, 0⟩ .kTransform false).map
        (fun r => (r.1, r.2.primHasPivot, r.2.primHasRotatePivot, r.2.scalePivotValue,
          r.2.rotatePivotValue))
        = some (.kSuccess, true, false, ⟨1, 2, 3⟩, ⟨0, 0, 0⟩) ∧
      (singlePivotEngine.setRotatePivot Host.sample .kSuccess ⟨0, 0, 0⟩ .kTransform false).map
        (fun r => (r.2.m_orderedOps, r.2.m_xformops, r.2.stage))
        = some (singlePivotEngine.m_orderedOps, singlePivotEngine.m_xformops,
            singlePivotEngine.stage)) := by
  refine ⟨by decide, ⟨by decide!, by decide!⟩, ⟨by decide!, by decide!⟩⟩

/-! ## Zeroed tweaks and the store (C31) -/

theorem narrowVector_double (H : Host) (v : MVector) : H.narrowVector .kVec3d v = v := by
  cases v; rfl

theorem pushTranslateToPrim_stored (H : Host) (s : TransformationMatrix) (op : UsdGeomXformOp)
    (r : MVector) (hf : s.findOp .translate = some op) (hacc : WriteAccepted s op vec3Types)
    (hch : (s.internal_readVector MVector.zero op).2.isEquivalent s.translationValue = false) :
    (s.pushTranslateToPrim H).m_translationFromUsd = s.translationValue ∧
    (s.pushTranslateToPrim H).m_translationTweak = MVector.zero ∧
    (s.pushTranslateToPrim H).getTimeCode = s.getTimeCode ∧
    readVector (s.pushTranslateToPrim H).stage r op s.getTimeCode
      = (true, H.narrowVector (op.GetTypeName s.stage) s.translationValue) := by
  obtain ⟨hinv, hgate, hty⟩ := hacc
  obtain ⟨_, t1, g1⟩ := pushVector_stored H s.stage s.translationValue op s.getTimeCode hinv hgate hty
  have e : s.pushTranslateToPrim H =
      { s with stage := (s.internal_pushVector H s.translationValue op).2,
               m_translationFromUsd := s.translationValue,
               m_translationTweak := MVector.zero } := by
    simp only [pushTranslateToPrim, hf, hch, Bool.not_false, if_true]
  rw [e]
  refine ⟨rfl, rfl, rfl, ?_⟩
  exact readVector_of_Get _ op _ r _ (by
    show op.GetTypeName (pushVector H s.stage s.translationValue op s.getTimeCode).2 ∈ vec3Types
    rw [t1]; exact hty) g1

theorem pushScaleToPrim_stored (H : Host) (s : TransformationMatrix) (op : UsdGeomXformOp)
    (r : MVector) (hf : s.findOp .scale = some op) (hacc : WriteAccepted s op vec3Types)
    (hch : (s.internal_readVector MVector.one op).2.isEquivalent s.scaleValue = false) :
    (s.pushScaleToPrim H).m_scaleFromUsd = s.scaleValue ∧
    (s.pushScaleToPrim H).m_scaleTweak = MVector.zero ∧
    (s.pushScaleToPrim H).getTimeCode = s.getTimeCode ∧
    readVector (s.pushScaleToPrim H).stage r op s.getTimeCode
      = (true, H.narrowVector (op.GetTypeName s.stage) s.scaleValue) := by
  obtain ⟨hinv, hgate, hty⟩ := hacc
  obtain ⟨_, t1, g1⟩ := pushVector_stored H s.stage s.scaleValue op s.getTimeCode hinv hgate hty
  have e : s.pushScaleToPrim H =
      { s with stage := (s.internal_pushVector H s.scaleValue op).2,
               m_scaleFromUsd := s.scaleValue,
               m_scaleTweak := MVector.zero } := by
    simp only [pushScaleToPrim, hf, hch, Bool.not_false, if_true]
  rw [e]
  refine ⟨rfl, rfl, rfl, ?_⟩
  exact readVector_of_Get _ op _ r _ (by
    show op.GetTypeName (pushVector H s.stage s.scaleValue op s.getTimeCode).2 ∈ vec3Types
    rw [t1]; exact hty) g1

theorem pushRotatePivotToPrim_stored (H : Host) (s : TransformationMatrix) (op : UsdGeomXformOp)
    (r : MVector) (hf : s.findOp .rotatePivot = some op) (hacc : WriteAccepted s op vec3Types)
    (hch : (s.internal_readPoint MVector.zero op).2.isEquivalent s.rotatePivotValue = false) :
    (s.pushRotatePivotToPrim H).m_rotatePivotFromUsd = s.rotatePivotValue ∧
    (s.pushRotatePivotToPrim H).m_rotatePivotTweak = MVector.zero ∧
    (s.pushRotatePivotToPrim H).getTimeCode = s.getTimeCode ∧
    readPoint (s.pushRotatePivotToPrim H).stage r op s.getTimeCode
      = (true, H.narrowVector (op.GetTypeName s.stage) s.rotatePivotValue) := by
  obtain ⟨hinv, hgate, hty⟩ := hacc
  obtain ⟨_, t1, g1⟩ := pushPoint_stored H s.stage s.rotatePivotValue op s.getTimeCode hinv hgate hty
  have e : s.pushRotatePivotToPrim H =
      { s with stage := (s.internal_pushPoint H s.rotatePivotValue op).2,
               m_rotatePivotFromUsd := s.rotatePivotValue,
               m_rotatePivotTweak := MVector.zero } := by
    simp only [pushRotatePivotToPrim, hf, hch, Bool.not_false, if_true]
  rw [e]
  refine ⟨rfl, rfl, rfl, ?_⟩
  exact readPoint_of_Get _ op _ r _ (by
    show op.GetTypeName (pushPoint H s.stage s.rotatePivotValue op s.getTimeCode).2 ∈ vec3Types
    rw [t1]; exact hty) g1

theorem pushScalePivotToPrim_stored (H : Host) (s : TransformationMatrix) (op : UsdGeomXformOp)
    (r : MVector) (hf : s.findOp .scalePivot = some op) (hacc : WriteAccepted s op vec3Types)
    (hch : (s.internal_readPoint MVector.zero op).2.isEquivalent s.scalePivotValue = false) :
    (s.pushScalePivotToPrim H).m_scalePivotFromUsd = s.scalePivotValue ∧
    (s.pushScalePivotToPrim H).m_scalePivotTweak = MVector.zero ∧
    (s.pushScalePivotToPrim H).getTimeCode = s.getTimeCode ∧
    readPoint (s.pushScalePivotToPrim H).stage r op s.getTimeCode
      = (true, H.narrowVector (op.GetTypeName s.stage) s.scalePivotValue) := by
  obtain ⟨hinv, hgate, hty⟩ := hacc
  obtain ⟨_, t1, g1⟩ := pushPoint_stored H s.stage s.scalePivotValue op s.getTimeCode hinv hgate hty
  have e : s.pushScalePivotToPrim H =
      { s with stage := (s.internal_pushPoint H s.scalePivotValue op).2,
               m_scalePivotFromUsd := s.scalePivotValue,
               m_scalePivotTweak := MVector.zero } := by
    simp only [pushScalePivotToPrim, hf, hch, Bool.not_false, if_true]
  rw [e]
  refine ⟨rfl, rfl, rfl, ?_⟩
  exact readPoint_of_Get _ op _ r _ (by
    show op.GetTypeName (pushPoint H s.stage s.scalePivotValue op s.getTimeCode).2 ∈ vec3Types
    rw [t1]; exact hty) g1

theorem pushRotatePivotTranslateToPrim_stored (H : Host) (s : TransformationMatrix) (op : UsdGeomXformOp)
    (r : MVector) (hf : s.findOp .rotatePivotTranslate = some op) (hacc : WriteAccepted s op vec3Types)
    (hch : (s.internal_readVector MVector.zero op).2.isEquivalent s.rotatePivotTranslationValue = false) :
    (s.pushRotatePivotTranslateToPrim H).m_rotatePivotTranslationFromUsd = s.rotatePivotTranslationValue ∧
    (s.pushRotatePivotTranslateToPrim H).m_rotatePivotTranslationTweak = MVector.zero ∧
    (s.pushRotatePivotTranslateToPrim H).getTimeCode = s.getTimeCode ∧
    readVector (s.pushRotatePivotTranslateToPrim H).stage r op s.getTimeCode
      = (true, H.narrowVector (op.GetTypeName s.stage) s.rotatePivotTranslationValue) := by
  obtain ⟨hinv, hgate, hty⟩ := hacc
  obtain ⟨_, t1, g1⟩ := pushPoint_stored H s.stage s.rotatePivotTranslationValue op s.getTimeCode hinv hgate hty
  have e : s.pushRotatePivotTranslateToPrim H =
      { s with stage := (s.internal_pushPoint H s.rotatePivotTranslationValue op).2,
               m_rotatePivotTranslationFromUsd := s.rotatePivotTranslationValue,
               m_rotatePivotTranslationTweak := MVector.zero } := by
    simp only [pushRotatePivotTranslateToPrim, hf, hch, Bool.not_false, if_true]
  rw [e]
  refine ⟨rfl, rfl, rfl, ?_⟩
  exact readVector_of_Get _ op _ r _ (by
    show op.GetTypeName (pushPoint H s.stage s.rotatePivotTranslationValue op s.getTimeCode).2 ∈ vec3Types
    rw [t1]; exact hty) g1

theorem pushScalePivotTranslateToPrim_stored (H : Host) (s : TransformationMatrix) (op : UsdGeomXformOp)
    (r : MVector) (hf : s.findOp .scalePivotTranslate = some op) (hacc : WriteAccepted s op vec3Types)
    (hch : (s.internal_readVector MVector.zero op).2.isEquivalent s.scalePivotTranslationValue = false) :
    (s.pushScalePivotTranslateToPrim H).m_scalePivotTranslationFromUsd = s.scalePivotTranslationValue ∧
    (s.pushScalePivotTranslateToPrim H).m_scalePivotTranslationTweak = MVector.zero ∧
    (s.pushScalePivotTranslateToPrim H).getTimeCode = s.getTimeCode ∧
    readVector (s.pushScalePivotTranslateToPrim H).stage r op s.getTimeCode
      = (true, H.narrowVector (op.GetTypeName s.stage) s.scalePivotTranslationValue) := by
  obtain ⟨hinv, hgate, hty⟩ := hacc
  obtain ⟨_, t1, g1⟩ := pushVector_stored H s.stage s.scalePivotTranslationValue op s.getTimeCode hinv hgate hty
  have e : s.pushScalePivotTranslateToPrim H =
      { s with stage := (s.internal_pushVector H s.scalePivotTranslationValue op).2,
               m_scalePivotTranslationFromUsd := s.scalePivotTranslationValue,
               m_scalePivotTranslationTweak := MVector.zero } := by
    simp only [pushScalePivotTranslateToPrim, hf, hch, Bool.not_false, if_true]
  rw [e]
  refine ⟨rfl, rfl, rfl, ?_⟩
  exact readVector_of_Get _ op _ r _ (by
    show op.GetTypeName (pushVector H s.stage s.scalePivotTranslationValue op s.getTimeCode).2 ∈ vec3Types
    rw [t1]; exact hty) g1

theorem pushShearToPrim_stored (H : Host) (s : TransformationMatrix) (op : UsdGeomXformOp)
    (r : MVector) (hf : s.findOp .shear = some op) (hacc : WriteAccepted s op [.kMatrix4d]) :
    (s.pushShearToPrim H).m_shearFromUsd = s.shearValue ∧
    (s.pushShearToPrim H).m_shearTweak = MVector.zero ∧
    (s.pushShearToPrim H).getTimeCode = s.getTimeCode ∧
    readShear (s.pushShearToPrim H).stage r op s.getTimeCode = (true, s.shearValue) := by
  obtain ⟨hinv, hgate, hty⟩ := hacc
  have hty' : op.GetTypeName s.stage = .kMatrix4d := by simpa using hty
  obtain ⟨t1, g1⟩ := pushShear_stored s.stage s.shearValue op s.getTimeCode hinv hgate hty'
  have e : s.pushShearToPrim H =
      { s with stage := (s.internal_pushShear s.shearValue op).2,
               m_shearFromUsd := s.shearValue,
               m_shearTweak := MVector.zero } := by
    simp only [pushShearToPrim, hf]
  rw [e]
  refine ⟨rfl, rfl, rfl, ?_⟩
  show readShear (pushShear s.stage s.shearValue op s.getTimeCode).2 r op s.getTimeCode = _
  simp only [readShear, t1, GetAsMatrix, g1]
  rfl

theorem pushRotateToPrim_stored (H : Host) (s : TransformationMatrix) (op : UsdGeomXformOp)
    (r : MEulerRotation) (o : RotationOrder) (hf : s.findOp .rotate = some op)
    (hacc : WriteAccepted s op vec3Types) (ho : op.opType = rotateOpType o)
    (hch : (s.internal_readRotation ⟨0, 0, 0, .kXYZ⟩ op).2.isEquivalent s.rotationValue = false) :
    (s.pushRotateToPrim H).m_rotationFromUsd = s.rotationValue ∧
    (s.pushRotateToPrim H).m_rotationTweak = ⟨0, 0, 0, .kXYZ⟩ ∧
    (s.pushRotateToPrim H).getTimeCode = s.getTimeCode ∧
    readRotation (s.pushRotateToPrim H).stage r op s.getTimeCode
      = (true, ⟨H.narrow (op.GetTypeName s.stage) (s.rotationValue.x * radToDeg) * degToRad,
          H.narrow (op.GetTypeName s.stage) (s.rotationValue.y * radToDeg) * degToRad,
          H.narrow (op.GetTypeName s.stage) (s.rotationValue.z * radToDeg) * degToRad, o⟩) := by
  obtain ⟨hinv, hgate, hty⟩ := hacc
  obtain ⟨_, t1, g1⟩ := pushVector_stored H s.stage
    (MVector.scale ⟨s.rotationValue.x, s.rotationValue.y, s.rotationValue.z⟩ radToDeg) op
    s.getTimeCode hinv hgate hty
  have e : s.pushRotateToPrim H =
      { s with stage := (s.internal_pushRotation H s.rotationValue op).2,
               m_rotationFromUsd := s.rotationValue,
               m_rotationTweak := ⟨0, 0, 0, .kXYZ⟩ } := by
    simp only [pushRotateToPrim, hf, hch, Bool.not_false, if_true]
  have hp : (s.internal_pushRotation H s.rotationValue op).2
      = (pushVector H s.stage
          (MVector.scale ⟨s.rotationValue.x, s.rotationValue.y, s.rotationValue.z⟩ radToDeg) op
          s.getTimeCode).2 := by
    simp only [internal_pushRotation, pushRotation, hgate, Bool.false_eq_true, if_false]
    cases o <;> simp only [rotateOpType] at ho <;> rw [ho]
  rw [e]
  refine ⟨rfl, rfl, rfl, ?_⟩
  show readRotation (s.internal_pushRotation H s.rotationValue op).2 r op s.getTimeCode = _
  rw [hp]
  have hr := readVector_of_Get _ op _ MVector.zero s.getTimeCode (by rw [t1]; exact hty) g1
  unfold readRotation
  cases o <;> simp only [rotateOpType] at ho <;> rw [ho] <;> simp only [hr] <;> rfl

theorem storeHolds_of_read (H : Host) (ty : UsdDataType) (read : Bool × MVector) (live : MVector)
    (h : read = (true, H.narrowVector ty live)) : StoreHolds H ty read live := by
  refine ⟨h, ?_⟩
  intro hd
  rw [h, hd, narrowVector_double]

theorem wroteAtMost_same (op : UsdGeomXformOp) (tc : UsdTimeCode) (st : UsdStage) :
    WroteAtMost op tc st st := Or.inl rfl

theorem wroteAtMost_setIfChanged (stage : UsdStage) (op : UsdGeomXformOp) (value : VtValue)
    (getTime setTime : UsdTimeCode) :
    WroteAtMost op setTime (setIfChanged stage op value getTime setTime).2 stage := by
  unfold setIfChanged
  split_ifs
  · exact Or.inr ⟨value, journal_Set _ _ _ _⟩
  · exact Or.inl rfl

theorem wroteAtMost_pushVector (H : Host) (stage : UsdStage) (v : MVector) (op : UsdGeomXformOp)
    (tc : UsdTimeCode) : WroteAtMost op tc (pushVector H stage v op tc).2 stage := by
  unfold pushVector
  split
  · exact Or.inl rfl
  · split_ifs
    · exact Or.inl rfl
    · split <;> first | exact wroteAtMost_setIfChanged _ _ _ _ _ | exact Or.inl rfl

theorem wroteAtMost_pushPoint (H : Host) (stage : UsdStage) (v : MPoint) (op : UsdGeomXformOp)
    (tc : UsdTimeCode) : WroteAtMost op tc (pushPoint H stage v op tc).2 stage := by
  unfold pushPoint
  split_ifs
  · exact Or.inl rfl
  · split <;> first | exact wroteAtMost_setIfChanged _ _ _ _ _ | exact Or.inl rfl

theorem wroteAtMost_pushShear (stage : UsdStage) (v : MVector) (op : UsdGeomXformOp)
    (tc : UsdTimeCode) : WroteAtMost op tc (pushShear stage v op tc).2 stage := by
  unfold pushShear
  split_ifs
  · exact Or.inl rfl
  · split <;> first | exact wroteAtMost_setIfChanged _ _ _ _ _ | exact Or.inl rfl

theorem wroteAtMost_pushMatrix (stage : UsdStage) (m : MMatrix) (op : UsdGeomXformOp)
    (tc : UsdTimeCode) : WroteAtMost op tc (pushMatrix stage m op tc).2 stage := by
  unfold pushMatrix
  dsimp only
  split_ifs <;> (try split) <;>
    first | exact Or.inr ⟨_, journal_Set _ _ _ _⟩ | exact Or.inl rfl

theorem wroteAtMost_pushDouble (H : Host) (stage : UsdStage) (x : ℚ) (op : UsdGeomXformOp)
    (tc : UsdTimeCode) : WroteAtMost op tc (pushDouble H stage x op tc) stage := by
  unfold pushDouble
  split_ifs
  · exact Or.inl rfl
  · split <;> first | exact wroteAtMost_setIfChanged _ _ _ _ _ | exact Or.inl rfl

theorem wroteAtMost_pushRotation (H : Host) (stage : UsdStage) (e : MEulerRotation)
    (op : UsdGeomXformOp) (tc : UsdTimeCode) :
    WroteAtMost op tc (pushRotation H stage e op tc).2 stage := by
  unfold pushRotation
  split_ifs
  · exact Or.inl rfl
  · split <;>
      first
      | exact wroteAtMost_pushDouble _ _ _ _ _
      | exact wroteAtMost_pushVector _ _ _ _ _
      | exact Or.inl rfl

/-- What no step of the loop of `pushToPrim` touches: the live values, the operator lists, the
flags, the cached time, the binding, the locks and the rotate-orientation channel. -/
theorem pushOp_frame (H : Host) (t : TransformationMatrix) (c : UsdMayaXformOpClassification)
    (op : UsdGeomXformOp) :
    (t.pushOp H c op).toMPxTransformationMatrix = t.toMPxTransformationMatrix ∧
    (t.pushOp H c op).m_orderedOps = t.m_orderedOps ∧
    (t.pushOp H c op).m_xformops = t.m_xformops ∧
    (t.pushOp H c op).m_orderedOpMayaIndices = t.m_orderedOpMayaIndices ∧
    (t.pushOp H c op).m_flags = t.m_flags ∧
    (t.pushOp H c op).m_time = t.m_time ∧
    (t.pushOp H c op).primValid = t.primValid ∧
    (t.pushOp H c op).m_rotateOrientationFromUsd = t.m_rotateOrientationFromUsd ∧
    (t.pushOp H c op).m_rotateOrientationTweak = t.m_rotateOrientationTweak ∧
    (t.pushOp H c op).m_localTranslateOffset = t.m_localTranslateOffset ∧
    (t.pushOp H c op).m_enableUsdWriteback = t.m_enableUsdWriteback := by
  obtain ⟨name, ty, inv⟩ := c
  unfold pushOp
  cases inv
  · cases name <;> simp only [Bool.false_eq_true, if_false] <;> (try split_ifs) <;> simp
  · simp

theorem pushOp_journal (H : Host) (t : TransformationMatrix) (c : UsdMayaXformOpClassification)
    (op : UsdGeomXformOp) :
    (t.pushOp H c op).stage.journal = t.stage.journal ∨
    (c.isInvertedTwin = false ∧
      ∃ v, (t.pushOp H c op).stage.journal
        = t.stage.journal ++ [StoreEvent.set op v t.getTimeCode]) := by
  unfold pushOp
  by_cases hc : c.isInvertedTwin = true
  · rw [if_pos hc]; exact Or.inl rfl
  · rw [if_neg hc]
    have hc' : c.isInvertedTwin = false := by simpa using hc
    have key : ∀ st' : UsdStage, WroteAtMost op t.getTimeCode st' t.stage →
        st'.journal = t.stage.journal ∨
        (c.isInvertedTwin = false ∧
          ∃ v, st'.journal = t.stage.journal ++ [StoreEvent.set op v t.getTimeCode]) := by
      intro st' h
      rcases h with h | h
      · exact Or.inl h
      · exact Or.inr ⟨hc', h⟩
    split
    · exact key _ (wroteAtMost_pushVector _ _ _ _ _)
    · exact key _ (wroteAtMost_pushPoint _ _ _ _ _)
    · exact key _ (wroteAtMost_pushPoint _ _ _ _ _)
    · exact key _ (wroteAtMost_pushPoint _ _ _ _ _)
    · exact key _ (wroteAtMost_pushRotation _ _ _ _ _)
    · exact key _ (wroteAtMost_pushVector _ _ _ _ _)
    · exact key _ (wroteAtMost_pushVector _ _ _ _ _)
    · exact key _ (wroteAtMost_pushPoint _ _ _ _ _)
    · exact key _ (wroteAtMost_pushShear _ _ _ _)
    · exact key _ (wroteAtMost_pushVector _ _ _ _ _)
    · split_ifs
      · exact key _ (wroteAtMost_pushMatrix _ _ _ _)
      · exact Or.inl rfl

/-- The sweep over a list of pairs, as a fold. -/
theorem foldlM_pushOp (H : Host) (l : List (UsdMayaXformOpClassification × UsdGeomXformOp))
    (t : TransformationMatrix) :
    l.foldlM (fun t p => some (t.pushOp H p.1 p.2)) t
      = some (l.foldl (fun t p => t.pushOp H p.1 p.2) t) := by
  induction l generalizing t with
  | nil => rfl
  | cons p rest ih => simp only [List.foldlM_cons, List.foldl_cons, Option.bind_eq_bind,
      Option.some_bind, ih]

/-- How one observation of the engine moves through a sweep: a step that touches it sets it to
its target, which no step changes; every other step leaves it alone. -/
theorem sweep_channel {α : Type} (H : Host) (proj target : TransformationMatrix → α)
    (touches : UsdMayaXformOpClassification → Bool)
    (hstep : ∀ (t : TransformationMatrix) (c : UsdMayaXformOpClassification)
      (op : UsdGeomXformOp), target (t.pushOp H c op) = target t ∧
        (touches c = true → proj (t.pushOp H c op) = target t) ∧
        (touches c = false → proj (t.pushOp H c op) = proj t))
    (l : List (UsdMayaXformOpClassification × UsdGeomXformOp)) (t : TransformationMatrix) :
    target (l.foldl (fun t p => t.pushOp H p.1 p.2) t) = target t ∧
    (l.any (fun p => touches p.1) = true →
      proj (l.foldl (fun t p => t.pushOp H p.1 p.2) t) = target t) ∧
    (l.any (fun p => touches p.1) = false →
      proj (l.foldl (fun t p => t.pushOp H p.1 p.2) t) = proj t) := by
  induction l generalizing t with
  | nil => exact ⟨rfl, fun h => absurd h (by simp), fun _ => rfl⟩
  | cons p rest ih =>
    obtain ⟨s1, s2, s3⟩ := hstep t p.1 p.2
    obtain ⟨i1, i2, i3⟩ := ih (t.pushOp H p.1 p.2)
    simp only [List.foldl_cons, List.any_cons, Bool.or_eq_true, Bool.or_eq_false_iff]
    refine ⟨i1.trans s1, ?_, ?_⟩
    · intro h
      by_cases hr : rest.any (fun p => touches p.1) = true
      · exact (i2 hr).trans s1
      · have hr' : rest.any (fun p => touches p.1) = false := by simpa using hr
        rcases h with h | h
        · exact (i3 hr').trans (s2 h)
        · exact absurd h hr
    · rintro ⟨h1, h2⟩
      exact (i3 h2).trans (s3 h1)

theorem sweep_journal (H : Host) (l : List (UsdMayaXformOpClassification × UsdGeomXformOp))
    (t : TransformationMatrix) :
    ∃ extra, (l.foldl (fun t p => t.pushOp H p.1 p.2) t).stage.journal = t.stage.journal ++ extra ∧
      ∀ e ∈ extra, ∃ c op v, (c, op) ∈ l ∧ c.isInvertedTwin = false ∧
        e = StoreEvent.set op v t.getTimeCode := by
  induction l generalizing t with
  | nil => exact ⟨[], by simp, by simp⟩
  | cons p rest ih =>
    obtain ⟨extra, h1, h2⟩ := ih (t.pushOp H p.1 p.2)
    obtain ⟨_, _, _, _, f5, f6, _⟩ := pushOp_frame H t p.1 p.2
    have htc : (t.pushOp H p.1 p.2).getTimeCode = t.getTimeCode := by
      simp only [getTimeCode, readAnimatedValues, f5, f6]
    rw [htc] at h2
    simp only [List.foldl_cons]
    rcases pushOp_journal H t p.1 p.2 with hj | ⟨hc, v, hj⟩
    · refine ⟨extra, by rw [h1, hj], ?_⟩
      intro e he
      obtain ⟨c, op, v, hm, hc, rfl⟩ := h2 e he
      exact ⟨c, op, v, List.mem_cons_of_mem _ hm, hc, rfl⟩
    · refine ⟨StoreEvent.set p.2 v t.getTimeCode :: extra, by rw [h1, hj]; simp, ?_⟩
      intro e he
      rcases List.mem_cons.1 he with rfl | he
      · exact ⟨p.1, p.2, v, List.mem_cons_self _ _, hc, rfl⟩
      · obtain ⟨c, op, v, hm, hc, rfl⟩ := h2 e he
        exact ⟨c, op, v, List.mem_cons_of_mem _ hm, hc, rfl⟩

theorem any_zip_fst {α β : Type} (f : α → Bool) (l1 : List α) (l2 : List β)
    (h : l1.length ≤ l2.length) :
    (l1.zip l2).any (fun p => f p.1) = l1.any f := by
  have : (l1.zip l2).any (fun p => f p.1) = ((l1.zip l2).map Prod.fst).any f := by
    generalize l1.zip l2 = l
    induction l with
    | nil => rfl
    | cons p rest ih => simp only [List.any_cons, List.map_cons, ih]
  rw [this, List.map_fst_zip _ _ h]

theorem pushOp_translate (H : Host) (t : TransformationMatrix)
    (c : UsdMayaXformOpClassification) (op : UsdGeomXformOp) :
    (fun u : TransformationMatrix => (u.translationValue, MVector.zero)) (t.pushOp H c op)
      = (fun u : TransformationMatrix => (u.translationValue, MVector.zero)) t ∧
    ((fun c : UsdMayaXformOpClassification => !c.isInvertedTwin && (decide (c.name = .translate))) c = true →
      (fun u : TransformationMatrix => (u.m_translationFromUsd, u.m_translationTweak)) (t.pushOp H c op)
        = (fun u : TransformationMatrix => (u.translationValue, MVector.zero)) t) ∧
    ((fun c : UsdMayaXformOpClassification => !c.isInvertedTwin && (decide (c.name = .translate))) c = false →
      (fun u : TransformationMatrix => (u.m_translationFromUsd, u.m_translationTweak)) (t.pushOp H c op)
        = (fun u : TransformationMatrix => (u.m_translationFromUsd, u.m_translationTweak)) t) := by
  obtain ⟨name, ty, inv⟩ := c
  unfold pushOp
  cases inv
  · cases name <;> simp only [Bool.false_eq_true, if_false] <;> (try split_ifs) <;> simp
  · simp

theorem sweep_translate (H : Host) (s : TransformationMatrix)
    (hlen : s.m_xformops.length = s.m_orderedOps.length) :
    ((s.hasOperator .translate) = true →
      (((s.m_orderedOps.zip s.m_xformops).foldl (fun t p => t.pushOp H p.1 p.2) s).m_translationFromUsd,
        ((s.m_orderedOps.zip s.m_xformops).foldl (fun t p => t.pushOp H p.1 p.2) s).m_translationTweak)
        = (s.translationValue, MVector.zero)) ∧
    ((s.hasOperator .translate) = false →
      (((s.m_orderedOps.zip s.m_xformops).foldl (fun t p => t.pushOp H p.1 p.2) s).m_translationFromUsd,
        ((s.m_orderedOps.zip s.m_xformops).foldl (fun t p => t.pushOp H p.1 p.2) s).m_translationTweak)
        = (s.m_translationFromUsd, s.m_translationTweak)) := by
  have hs := sweep_channel H (fun u : TransformationMatrix => (u.m_translationFromUsd, u.m_translationTweak))
    (fun u : TransformationMatrix => (u.translationValue, MVector.zero))
    (fun c : UsdMayaXformOpClassification => !c.isInvertedTwin && (decide (c.name = .translate)))
    (pushOp_translate H) (s.m_orderedOps.zip s.m_xformops) s
  have ha := any_zip_fst
    (fun c : UsdMayaXformOpClassification => !c.isInvertedTwin && (decide (c.name = .translate)))
    s.m_orderedOps s.m_xformops (by omega)
  have hp : (s.hasOperator .translate)
      = s.m_orderedOps.any
          (fun c : UsdMayaXformOpClassification => !c.isInvertedTwin && (decide (c.name = .translate))) := by
    rfl
  rw [hp, ← ha]
  exact ⟨hs.2.1, hs.2.2⟩

theorem pushOp_rotate (H : Host) (t : TransformationMatrix)
    (c : UsdMayaXformOpClassification) (op : UsdGeomXformOp) :
    (fun u : TransformationMatrix => (u.rotationValue, (⟨0, 0, 0, .kXYZ⟩ : MEulerRotation))) (t.pushOp H c op)
      = (fun u : TransformationMatrix => (u.rotationValue, (⟨0, 0, 0, .kXYZ⟩ : MEulerRotation))) t ∧
    ((fun c : UsdMayaXformOpClassification => !c.isInvertedTwin && (decide (c.name = .rotate))) c = true →
      (fun u : TransformationMatrix => (u.m_rotationFromUsd, u.m_rotationTweak)) (t.pushOp H c op)
        = (fun u : TransformationMatrix => (u.rotationValue, (⟨0, 0, 0, .kXYZ⟩ : MEulerRotation))) t) ∧
    ((fun c : UsdMayaXformOpClassification => !c.isInvertedTwin && (decide (c.name = .rotate))) c = false →
      (fun u : TransformationMatrix => (u.m_rotationFromUsd, u.m_rotationTweak)) (t.pushOp H c op)
        = (fun u : TransformationMatrix => (u.m_rotationFromUsd, u.m_rotationTweak)) t) := by
  obtain ⟨name, ty, inv⟩ := c
  unfold pushOp
  cases inv
  · cases name <;> simp only [Bool.false_eq_true, if_false] <;> (try split_ifs) <;> simp
  · simp

theorem sweep_rotate (H : Host) (s : TransformationMatrix)
    (hlen : s.m_xformops.length = s.m_orderedOps.length) :
    ((s.hasOperator .rotate) = true →
      (((s.m_orderedOps.zip s.m_xformops).foldl (fun t p => t.pushOp H p.1 p.2) s).m_rotationFromUsd,
        ((s.m_orderedOps.zip s.m_xformops).foldl (fun t p => t.pushOp H p.1 p.2) s).m_rotationTweak)
        = (s.rotationValue, (⟨0, 0, 0, .kXYZ⟩ : MEulerRotation))) ∧
    ((s.hasOperator .rotate) = false →
      (((s.m_orderedOps.zip s.m_xformops).foldl (fun t p => t.pushOp H p.1 p.2) s).m_rotationFromUsd,
        ((s.m_orderedOps.zip s.m_xformops).foldl (fun t p => t.pushOp H p.1 p.2) s).m_rotationTweak)
        = (s.m_rotationFromUsd, s.m_rotationTweak)) := by
  have hs := sweep_channel H (fun u : TransformationMatrix => (u.m_rotationFromUsd, u.m_rotationTweak))
    (fun u : TransformationMatrix => (u.rotationValue, (⟨0, 0, 0, .kXYZ⟩ : MEulerRotation)))
    (fun c : UsdMayaXformOpClassification => !c.isInvertedTwin && (decide (c.name = .rotate)))
    (pushOp_rotate H) (s.m_orderedOps.zip s.m_xformops) s
  have ha := any_zip_fst
    (fun c : UsdMayaXformOpClassification => !c.isInvertedTwin && (decide (c.name = .rotate)))
    s.m_orderedOps s.m_xformops (by omega)
  have hp : (s.hasOperator .rotate)
      = s.m_orderedOps.any
          (fun c : UsdMayaXformOpClassification => !c.isInvertedTwin && (decide (c.name = .rotate))) := by
    rfl
  rw [hp, ← ha]
  exact ⟨hs.2.1, hs.2.2⟩

theorem pushOp_scale (H : Host) (t : TransformationMatrix)
    (c : UsdMayaXformOpClassification) (op : UsdGeomXformOp) :
    (fun u : TransformationMatrix => (u.scaleValue, MVector.zero)) (t.pushOp H c op)
      = (fun u : TransformationMatrix => (u.scaleValue, MVector.zero)) t ∧
    ((fun c : UsdMayaXformOpClassification => !c.isInvertedTwin && (decide (c.name = .scale))) c = true →
      (fun u : TransformationMatrix => (u.m_scaleFromUsd, u.m_scaleTweak)) (t.pushOp H c op)
        = (fun u : TransformationMatrix => (u.scaleValue, MVector.zero)) t) ∧
    ((fun c : UsdMayaXformOpClassification => !c.isInvertedTwin && (decide (c.name = .scale))) c = false →
      (fun u : TransformationMatrix => (u.m_scaleFromUsd, u.m_scaleTweak)) (t.pushOp H c op)
        = (fun u : TransformationMatrix => (u.m_scaleFromUsd, u.m_scaleTweak)) t) := by
  obtain ⟨name, ty, inv⟩ := c
  unfold pushOp
  cases inv
  · cases name <;> simp only [Bool.false_eq_true, if_false] <;> (try split_ifs) <;> simp
  · simp

theorem sweep_scale (H : Host) (s : TransformationMatrix)
    (hlen : s.m_xformops.length = s.m_orderedOps.length) :
    ((s.hasOperator .scale) = true →
      (((s.m_orderedOps.zip s.m_xformops).foldl (fun t p => t.pushOp H p.1 p.2) s).m_scaleFromUsd,
        ((s.m_orderedOps.zip s.m_xformops).foldl (fun t p => t.pushOp H p.1 p.2) s).m_scaleTweak)
        = (s.scaleValue, MVector.zero)) ∧
    ((s.hasOperator .scale) = false →
      (((s.m_orderedOps.zip s.m_xformops).foldl (fun t p => t.pushOp H p.1 p.2) s).m_scaleFromUsd,
        ((s.m_orderedOps.zip s.m_xformops).foldl (fun t p => t.pushOp H p.1 p.2) s).m_scaleTweak)
        = (s.m_scaleFromUsd, s.m_scaleTweak)) := by
  have hs := sweep_channel H (fun u : TransformationMatrix => (u.m_scaleFromUsd, u.m_scaleTweak))
    (fun u : TransformationMatrix => (u.scaleValue, MVector.zero))
    (fun c : UsdMayaXformOpClassification => !c.isInvertedTwin && (decide (c.name = .scale)))
    (pushOp_scale H) (s.m_orderedOps.zip s.m_xformops) s
  have ha := any_zip_fst
    (fun c : UsdMayaXformOpClassification => !c.isInvertedTwin && (decide (c.name = .scale)))
    s.m_orderedOps s.m_xformops (by omega)
  have hp : (s.hasOperator .scale)
      = s.m_orderedOps.any
          (fun c : UsdMayaXformOpClassification => !c.isInvertedTwin && (decide (c.name = .scale))) := by
    rfl
  rw [hp, ← ha]
  exact ⟨hs.2.1, hs.2.2⟩

theorem pushOp_shear (H : Host) (t : TransformationMatrix)
    (c : UsdMayaXformOpClassification) (op : UsdGeomXformOp) :
    (fun u : TransformationMatrix => (u.shearValue, MVector.zero)) (t.pushOp H c op)
      = (fun u : TransformationMatrix => (u.shearValue, MVector.zero)) t ∧
    ((fun c : UsdMayaXformOpClassification => !c.isInvertedTwin && (decide (c.name = .shear))) c = true →
      (fun u : TransformationMatrix => (u.m_shearFromUsd, u.m_shearTweak)) (t.pushOp H c op)
        = (fun u : TransformationMatrix => (u.shearValue, MVector.zero)) t) ∧
    ((fun c : UsdMayaXformOpClassification => !c.isInvertedTwin && (decide (c.name = .shear))) c = false →
      (fun u : TransformationMatrix => (u.m_shearFromUsd, u.m_shearTweak)) (t.pushOp H c op)
        = (fun u : TransformationMatrix => (u.m_shearFromUsd, u.m_shearTweak)) t) := by
  obtain ⟨name, ty, inv⟩ := c
  unfold pushOp
  cases inv
  · cases name <;> simp only [Bool.false_eq_true, if_false] <;> (try split_ifs) <;> simp
  · simp

theorem sweep_shear (H : Host) (s : TransformationMatrix)
    (hlen : s.m_xformops.length = s.m_orderedOps.length) :
    ((s.hasOperator .shear) = true →
      (((s.m_orderedOps.zip s.m_xformops).foldl (fun t p => t.pushOp H p.1 p.2) s).m_shearFromUsd,
        ((s.m_orderedOps.zip s.m_xformops).foldl (fun t p => t.pushOp H p.1 p.2) s).m_shearTweak)
        = (s.shearValue, MVector.zero)) ∧
    ((s.hasOperator .shear) = false →
      (((s.m_orderedOps.zip s.m_xformops).foldl (fun t p => t.pushOp H p.1 p.2) s).m_shearFromUsd,
        ((s.m_orderedOps.zip s.m_xformops).foldl (fun t p => t.pushOp H p.1 p.2) s).m_shearTweak)
        = (s.m_shearFromUsd, s.m_shearTweak)) := by
  have hs := sweep_channel H (fun u : TransformationMatrix => (u.m_shearFromUsd, u.m_shearTweak))
    (fun u : TransformationMatrix => (u.shearValue, MVector.zero))
    (fun c : UsdMayaXformOpClassification => !c.isInvertedTwin && (decide (c.name = .shear)))
    (pushOp_shear H) (s.m_orderedOps.zip s.m_xformops) s
  have ha := any_zip_fst
    (fun c : UsdMayaXformOpClassification => !c.isInvertedTwin && (decide (c.name = .shear)))
    s.m_orderedOps s.m_xformops (by omega)
  have hp : (s.hasOperator .shear)
      = s.m_orderedOps.any
          (fun c : UsdMayaXformOpClassification => !c.isInvertedTwin && (decide (c.name = .shear))) := by
    rfl
  rw [hp, ← ha]
  exact ⟨hs.2.1, hs.2.2⟩

theorem pushOp_rotatePivot (H : Host) (t : TransformationMatrix)
    (c : UsdMayaXformOpClassification) (op : UsdGeomXformOp) :
    (fun u : TransformationMatrix => (u.rotatePivotValue, MVector.zero)) (t.pushOp H c op)
      = (fun u : TransformationMatrix => (u.rotatePivotValue, MVector.zero)) t ∧
    ((fun c : UsdMayaXformOpClassification => !c.isInvertedTwin && (decide (c.name = .rotatePivot) || decide (c.name = .pivot))) c = true →
      (fun u : TransformationMatrix => (u.m_rotatePivotFromUsd, u.m_rotatePivotTweak)) (t.pushOp H c op)
        = (fun u : TransformationMatrix => (u.rotatePivotValue, MVector.zero)) t) ∧
    ((fun c : UsdMayaXformOpClassification => !c.isInvertedTwin && (decide (c.name = .rotatePivot) || decide (c.name = .pivot))) c = false →
      (fun u : TransformationMatrix => (u.m_rotatePivotFromUsd, u.m_rotatePivotTweak)) (t.pushOp H c op)
        = (fun u : TransformationMatrix => (u.m_rotatePivotFromUsd, u.m_rotatePivotTweak)) t) := by
  obtain ⟨name, ty, inv⟩ := c
  unfold pushOp
  cases inv
  · cases name <;> simp only [Bool.false_eq_true, if_false] <;> (try split_ifs) <;> simp
  · simp

theorem sweep_rotatePivot (H : Host) (s : TransformationMatrix)
    (hlen : s.m_xformops.length = s.m_orderedOps.length) :
    ((s.hasOperator .rotatePivot || s.hasOperator .pivot) = true →
      (((s.m_orderedOps.zip s.m_xformops).foldl (fun t p => t.pushOp H p.1 p.2) s).m_rotatePivotFromUsd,
        ((s.m_orderedOps.zip s.m_xformops).foldl (fun t p => t.pushOp H p.1 p.2) s).m_rotatePivotTweak)
        = (s.rotatePivotValue, MVector.zero)) ∧
    ((s.hasOperator .rotatePivot || s.hasOperator .pivot) = false →
      (((s.m_orderedOps.zip s.m_xformops).foldl (fun t p => t.pushOp H p.1 p.2) s).m_rotatePivotFromUsd,
        ((s.m_orderedOps.zip s.m_xformops).foldl (fun t p => t.pushOp H p.1 p.2) s).m_rotatePivotTweak)
        = (s.m_rotatePivotFromUsd, s.m_rotatePivotTweak)) := by
  have hs := sweep_channel H (fun u : TransformationMatrix => (u.m_rotatePivotFromUsd, u.m_rotatePivotTweak))
    (fun u : TransformationMatrix => (u.rotatePivotValue, MVector.zero))
    (fun c : UsdMayaXformOpClassification => !c.isInvertedTwin && (decide (c.name = .rotatePivot) || decide (c.name = .pivot)))
    (pushOp_rotatePivot H) (s.m_orderedOps.zip s.m_xformops) s
  have ha := any_zip_fst
    (fun c : UsdMayaXformOpClassification => !c.isInvertedTwin && (decide (c.name = .rotatePivot) || decide (c.name = .pivot)))
    s.m_orderedOps s.m_xformops (by omega)
  have hp : (s.hasOperator .rotatePivot || s.hasOperator .pivot)
      = s.m_orderedOps.any
          (fun c : UsdMayaXformOpClassification => !c.isInvertedTwin && (decide (c.name = .rotatePivot) || decide (c.name = .pivot))) := by
    simp only [hasOperator]
    induction s.m_orderedOps with
    | nil => rfl
    | cons a rest ih =>
      simp only [List.any_cons] at ih ⊢
      rw [← ih]
      cases a.isInvertedTwin <;> simp [Bool.or_assoc, Bool.or_comm, Bool.or_left_comm]
  rw [hp, ← ha]
  exact ⟨hs.2.1, hs.2.2⟩

theorem pushOp_scalePivot (H : Host) (t : TransformationMatrix)
    (c : UsdMayaXformOpClassification) (op : UsdGeomXformOp) :
    (fun u : TransformationMatrix => (u.scalePivotValue, MVector.zero)) (t.pushOp H c op)
      = (fun u : TransformationMatrix => (u.scalePivotValue, MVector.zero)) t ∧
    ((fun c : UsdMayaXformOpClassification => !c.isInvertedTwin && (decide (c.name = .scalePivot) || decide (c.name = .pivot))) c = true →
      (fun u : TransformationMatrix => (u.m_scalePivotFromUsd, u.m_scalePivotTweak)) (t.pushOp H c op)
        = (fun u : TransformationMatrix => (u.scalePivotValue, MVector.zero)) t) ∧
    ((fun c : UsdMayaXformOpClassification => !c.isInvertedTwin && (decide (c.name = .scalePivot) || decide (c.name = .pivot))) c = false →
      (fun u : TransformationMatrix => (u.m_scalePivotFromUsd, u.m_scalePivotTweak)) (t.pushOp H c op)
        = (fun u : TransformationMatrix => (u.m_scalePivotFromUsd, u.m_scalePivotTweak)) t) := by
  obtain ⟨name, ty, inv⟩ := c
  unfold pushOp
  cases inv
  · cases name <;> simp only [Bool.false_eq_true, if_false] <;> (try split_ifs) <;> simp
  · simp

theorem sweep_scalePivot (H : Host) (s : TransformationMatrix)
    (hlen : s.m_xformops.length = s.m_orderedOps.length) :
    ((s.hasOperator .scalePivot || s.hasOperator .pivot) = true →
      (((s.m_orderedOps.zip s.m_xformops).foldl (fun t p => t.pushOp H p.1 p.2) s).m_scalePivotFromUsd,
        ((s.m_orderedOps.zip s.m_xformops).foldl (fun t p => t.pushOp H p.1 p.2) s).m_scalePivotTweak)
        = (s.scalePivotValue, MVector.zero)) ∧
    ((s.hasOperator .scalePivot || s.hasOperator .pivot) = false →
      (((s.m_orderedOps.zip s.m_xformops).foldl (fun t p => t.pushOp H p.1 p.2) s).m_scalePivotFromUsd,
        ((s.m_orderedOps.zip s.m_xformops).foldl (fun t p => t.pushOp H p.1 p.2) s).m_scalePivotTweak)
        = (s.m_scalePivotFromUsd, s.m_scalePivotTweak)) := by
  have hs := sweep_channel H (fun u : TransformationMatrix => (u.m_scalePivotFromUsd, u.m_scalePivotTweak))
    (fun u : TransformationMatrix => (u.scalePivotValue, MVector.zero))
    (fun c : UsdMayaXformOpClassification => !c.isInvertedTwin && (decide (c.name = .scalePivot) || decide (c.name = .pivot)))
    (pushOp_scalePivot H) (s.m_orderedOps.zip s.m_xformops) s
  have ha := any_zip_fst
    (fun c : UsdMayaXformOpClassification => !c.isInvertedTwin && (decide (c.name = .scalePivot) || decide (c.name = .pivot)))
    s.m_orderedOps s.m_xformops (by omega)
  have hp : (s.hasOperator .scalePivot || s.hasOperator .pivot)
      = s.m_orderedOps.any
          (fun c : UsdMayaXformOpClassification => !c.isInvertedTwin && (decide (c.name = .scalePivot) || decide (c.name = .pivot))) := by
    simp only [hasOperator]
    induction s.m_orderedOps with
    | nil => rfl
    | cons a rest ih =>
      simp only [List.any_cons] at ih ⊢
      rw [← ih]
      cases a.isInvertedTwin <;> simp [Bool.or_assoc, Bool.or_comm, Bool.or_left_comm]
  rw [hp, ← ha]
  exact ⟨hs.2.1, hs.2.2⟩

theorem pushOp_rotatePivotTranslate (H : Host) (t : TransformationMatrix)
    (c : UsdMayaXformOpClassification) (op : UsdGeomXformOp) :
    (fun u : TransformationMatrix => (u.rotatePivotTranslationValue, MVector.zero)) (t.pushOp H c op)
      = (fun u : TransformationMatrix => (u.rotatePivotTranslationValue, MVector.zero)) t ∧
    ((fun c : UsdMayaXformOpClassification => !c.isInvertedTwin && (decide (c.name = .rotatePivotTranslate))) c = true →
      (fun u : TransformationMatrix => (u.m_rotatePivotTranslationFromUsd, u.m_rotatePivotTranslationTweak)) (t.pushOp H c op)
        = (fun u : TransformationMatrix => (u.rotatePivotTranslationValue, MVector.zero)) t) ∧
    ((fun c : UsdMayaXformOpClassification => !c.isInvertedTwin && (decide (c.name = .rotatePivotTranslate))) c = false →
      (fun u : TransformationMatrix => (u.m_rotatePivotTranslationFromUsd, u.m_rotatePivotTranslationTweak)) (t.pushOp H c op)
        = (fun u : TransformationMatrix => (u.m_rotatePivotTranslationFromUsd, u.m_rotatePivotTranslationTweak)) t) := by
  obtain ⟨name, ty, inv⟩ := c
  unfold pushOp
  cases inv
  · cases name <;> simp only [Bool.false_eq_true, if_false] <;> (try split_ifs) <;> simp
  · simp

theorem sweep_rotatePivotTranslate (H : Host) (s : TransformationMatrix)
    (hlen : s.m_xformops.length = s.m_orderedOps.length) :
    ((s.hasOperator .rotatePivotTranslate) = true →
      (((s.m_orderedOps.zip s.m_xformops).foldl (fun t p => t.pushOp H p.1 p.2) s).m_rotatePivotTranslationFromUsd,
        ((s.m_orderedOps.zip s.m_xformops).foldl (fun t p => t.pushOp H p.1 p.2) s).m_rotatePivotTranslationTweak)
        = (s.rotatePivotTranslationValue, MVector.zero)) ∧
    ((s.hasOperator .rotatePivotTranslate) = false →
      (((s.m_orderedOps.zip s.m_xformops).foldl (fun t p => t.pushOp H p.1 p.2) s).m_rotatePivotTranslationFromUsd,
        ((s.m_orderedOps.zip s.m_xformops).foldl (fun t p => t.pushOp H p.1 p.2) s).m_rotatePivotTranslationTweak)
        = (s.m_rotatePivotTranslationFromUsd, s.m_rotatePivotTranslationTweak)) := by
  have hs := sweep_channel H (fun u : TransformationMatrix => (u.m_rotatePivotTranslationFromUsd, u.m_rotatePivotTranslationTweak))
    (fun u : TransformationMatrix => (u.rotatePivotTranslationValue, MVector.zero))
    (fun c : UsdMayaXformOpClassification => !c.isInvertedTwin && (decide (c.name = .rotatePivotTranslate)))
    (pushOp_rotatePivotTranslate H) (s.m_orderedOps.zip s.m_xformops) s
  have ha := any_zip_fst
    (fun c : UsdMayaXformOpClassification => !c.isInvertedTwin && (decide (c.name = .rotatePivotTranslate)))
    s.m_orderedOps s.m_xformops (by omega)
  have hp : (s.hasOperator .rotatePivotTranslate)
      = s.m_orderedOps.any
          (fun c : UsdMayaXformOpClassification => !c.isInvertedTwin && (decide (c.name = .rotatePivotTranslate))) := by
    rfl
  rw [hp, ← ha]
  exact ⟨hs.2.1, hs.2.2⟩

theorem pushOp_scalePivotTranslate (H : Host) (t : TransformationMatrix)
    (c : UsdMayaXformOpClassification) (op : UsdGeomXformOp) :
    (fun u : TransformationMatrix => (u.scalePivotTranslationValue, MVector.zero)) (t.pushOp H c op)
      = (fun u : TransformationMatrix => (u.scalePivotTranslationValue, MVector.zero)) t ∧
    ((fun c : UsdMayaXformOpClassification => !c.isInvertedTwin && (decide (c.name = .scalePivotTranslate))) c = true →
      (fun u : TransformationMatrix => (u.m_scalePivotTranslationFromUsd, u.m_scalePivotTranslationTweak)) (t.pushOp H c op)
        = (fun u : TransformationMatrix => (u.scalePivotTranslationValue, MVector.zero)) t) ∧
    ((fun c : UsdMayaXformOpClassification => !c.isInvertedTwin && (decide (c.name = .scalePivotTranslate))) c = false →
      (fun u : TransformationMatrix => (u.m_scalePivotTranslationFromUsd, u.m_scalePivotTranslationTweak)) (t.pushOp H c op)
        = (fun u : TransformationMatrix => (u.m_scalePivotTranslationFromUsd, u.m_scalePivotTranslationTweak)) t) := by
  obtain ⟨name, ty, inv⟩ := c
  unfold pushOp
  cases inv
  · cases name <;> simp only [Bool.false_eq_true, if_false] <;> (try split_ifs) <;> simp
  · simp

theorem sweep_scalePivotTranslate (H : Host) (s : TransformationMatrix)
    (hlen : s.m_xformops.length = s.m_orderedOps.length) :
    ((s.hasOperator .scalePivotTranslate) = true →
      (((s.m_orderedOps.zip s.m_xformops).foldl (fun t p => t.pushOp H p.1 p.2) s).m_scalePivotTranslationFromUsd,
        ((s.m_orderedOps.zip s.m_xformops).foldl (fun t p => t.pushOp H p.1 p.2) s).m_scalePivotTranslationTweak)
        = (s.scalePivotTranslationValue, MVector.zero)) ∧
    ((s.hasOperator .scalePivotTranslate) = false →
      (((s.m_orderedOps.zip s.m_xformops).foldl (fun t p => t.pushOp H p.1 p.2) s).m_scalePivotTranslationFromUsd,
        ((s.m_orderedOps.zip s.m_xformops).foldl (fun t p => t.pushOp H p.1 p.2) s).m_scalePivotTranslationTweak)
        = (s.m_scalePivotTranslationFromUsd, s.m_scalePivotTranslationTweak)) := by
  have hs := sweep_channel H (fun u : TransformationMatrix => (u.m_scalePivotTranslationFromUsd, u.m_scalePivotTranslationTweak))
    (fun u : TransformationMatrix => (u.scalePivotTranslationValue, MVector.zero))
    (fun c : UsdMayaXformOpClassification => !c.isInvertedTwin && (decide (c.name = .scalePivotTranslate)))
    (pushOp_scalePivotTranslate H) (s.m_orderedOps.zip s.m_xformops) s
  have ha := any_zip_fst
    (fun c : UsdMayaXformOpClassification => !c.isInvertedTwin && (decide (c.name = .scalePivotTranslate)))
    s.m_orderedOps s.m_xformops (by omega)
  have hp : (s.hasOperator .scalePivotTranslate)
      = s.m_orderedOps.any
          (fun c : UsdMayaXformOpClassification => !c.isInvertedTwin && (decide (c.name = .scalePivotTranslate))) := by
    rfl
  rw [hp, ← ha]
  exact ⟨hs.2.1, hs.2.2⟩

theorem sweep_frame (H : Host) (l : List (UsdMayaXformOpClassification × UsdGeomXformOp))
    (t : TransformationMatrix) :
    (l.foldl (fun t p => t.pushOp H p.1 p.2) t).toMPxTransformationMatrix
      = t.toMPxTransformationMatrix ∧
    (l.foldl (fun t p => t.pushOp H p.1 p.2) t).m_orderedOps = t.m_orderedOps ∧
    (l.foldl (fun t p => t.pushOp H p.1 p.2) t).m_xformops = t.m_xformops ∧
    (l.foldl (fun t p => t.pushOp H p.1 p.2) t).m_orderedOpMayaIndices
      = t.m_orderedOpMayaIndices ∧
    (l.foldl (fun t p => t.pushOp H p.1 p.2) t).m_flags = t.m_flags ∧
    (l.foldl (fun t p => t.pushOp H p.1 p.2) t).m_rotateOrientationFromUsd
      = t.m_rotateOrientationFromUsd ∧
    (l.foldl (fun t p => t.pushOp H p.1 p.2) t).m_rotateOrientationTweak
      = t.m_rotateOrientationTweak := by
  induction l generalizing t with
  | nil => exact ⟨rfl, rfl, rfl, rfl, rfl, rfl, rfl⟩
  | cons p rest ih =>
    obtain ⟨f1, f2, f3, f4, f5, _, _, f8, f9, _, _⟩ := pushOp_frame H t p.1 p.2
    obtain ⟨i1, i2, i3, i4, i5, i6, i7⟩ := ih (t.pushOp H p.1 p.2)
    simp only [List.foldl_cons]
    exact ⟨i1.trans f1, i2.trans f2, i3.trans f3, i4.trans f4, i5.trans f5, i6.trans f8,
      i7.trans f9⟩

theorem pushToPrim_eq_sweep (H : Host) (s : TransformationMatrix) (hv : s.primValid = true)
    (hlen : s.m_xformops.length = s.m_orderedOps.length) :
    s.pushToPrim H
      = some ((s.m_orderedOps.zip s.m_xformops).foldl (fun t p => t.pushOp H p.1 p.2) s) := by
  unfold pushToPrim lockstep
  rw [if_neg (by rw [hv]; decide), if_neg (by omega)]
  exact foldlM_pushOp H _ s

/-- C38 (as stated, refuted). On the single-pivot engine with a pending edit of both pivots no
entry of `m_orderedOps` is named `scalePivot` or `rotatePivot`, and `pushToPrim` still replaces
fromUsd and tweak of both pivot channels: the branch of the combined `pivot` operator assigns
all four. And on a valid prim whose operators match no known schema `m_orderedOps` is empty
while `m_xformops` is not: the lockstep walk of `pushToPrim` reads past the end of
`m_orderedOps`, so the call has no defined result. -/
theorem C38_counterexample :
    (pendingPivotEngine.primValid = true ∧
      pendingPivotEngine.m_xformops.length = pendingPivotEngine.m_orderedOps.length ∧
      pendingPivotEngine.hasOperator .scalePivot = false ∧
      pendingPivotEngine.hasOperator .rotatePivot = false ∧
      (pendingPivotEngine.m_scalePivotFromUsd, pendingPivotEngine.m_scalePivotTweak)
        = (⟨1, 2, 3⟩, ⟨3, 3, 3⟩) ∧
      (pendingPivotEngine.m_rotatePivotFromUsd, pendingPivotEngine.m_rotatePivotTweak)
        = (⟨1, 2, 3⟩, ⟨3, 3, 3⟩) ∧
      (pendingPivotEngine.pushToPrim Host.sample).map
        (fun r => (r.m_scalePivotFromUsd, r.m_scalePivotTweak, r.m_rotatePivotFromUsd,
          r.m_rotatePivotTweak)) = some (⟨4, 5, 6⟩, ⟨0, 0, 0⟩, ⟨4, 5, 6⟩, ⟨0, 0, 0⟩)) ∧
    (unknownSchemaEngine.primValid = true ∧ unknownSchemaEngine.m_orderedOps = [] ∧
      unknownSchemaEngine.m_xformops.length = 2 ∧
      (unknownSchemaEngine.pushToPrim Host.sample).isNone = true) := by
  refine ⟨⟨by decide, by decide, by decide, by decide, by decide!, by decide!, by decide!⟩,
    by decide, by decide, by decide, by decide⟩

/-- C38 (amended). On an invalid prim `pushToPrim` changes nothing. On a valid prim whose
`m_orderedOps` and `m_xformops` have the same length `pushToPrim` returns, and afterwards: for
each of translate, rotate, scale, shear, rotatePivotTranslate and scalePivotTranslate the
channel's fromUsd is the live value and its tweak is zero when an entry of `m_orderedOps` that
is not an inverted twin has that name, and both are as before otherwise; for rotatePivot and
scalePivot the same holds with the combined `pivot` operator counted as an operator of both
channels; the live values, the three operator lists, `m_flags` and the rotate-orientation
channel are unchanged; and the store has seen `Set` calls only, each on an operator paired with
an entry that is not an inverted twin, at the current time code. -/
theorem C38_pushToPrim_sweep (H : Host) (s : TransformationMatrix) :
    (s.primValid = false → s.pushToPrim H = some s) ∧
    (s.primValid = true → s.m_xformops.length = s.m_orderedOps.length →
      ∃ s', s.pushToPrim H = some s' ∧
        ((s'.m_translationFromUsd, s'.m_translationTweak)
          = if s.hasOperator .translate then (s.translationValue, MVector.zero)
            else (s.m_translationFromUsd, s.m_translationTweak)) ∧
        ((s'.m_rotationFromUsd, s'.m_rotationTweak)
          = if s.hasOperator .rotate then (s.rotationValue, ⟨0, 0, 0, .kXYZ⟩)
            else (s.m_rotationFromUsd, s.m_rotationTweak)) ∧
        ((s'.m_scaleFromUsd, s'.m_scaleTweak)
          = if s.hasOperator .scale then (s.scaleValue, MVector.zero)
            else (s.m_scaleFromUsd, s.m_scaleTweak)) ∧
        ((s'.m_shearFromUsd, s'.m_shearTweak)
          = if s.hasOperator .shear then (s.shearValue, MVector.zero)
            else (s.m_shearFromUsd, s.m_shearTweak)) ∧
        ((s'.m_rotatePivotFromUsd, s'.m_rotatePivotTweak)
          = if s.hasOperator .rotatePivot || s.hasOperator .pivot then
              (s.rotatePivotValue, MVector.zero)
            else (s.m_rotatePivotFromUsd, s.m_rotatePivotTweak)) ∧
        ((s'.m_scalePivotFromUsd, s'.m_scalePivotTweak)
          = if s.hasOperator .scalePivot || s.hasOperator .pivot then
              (s.scalePivotValue, MVector.zero)
            else (s.m_scalePivotFromUsd, s.m_scalePivotTweak)) ∧
        ((s'.m_rotatePivotTranslationFromUsd, s'.m_rotatePivotTranslationTweak)
          = if s.hasOperator .rotatePivotTranslate then
              (s.rotatePivotTranslationValue, MVector.zero)
            else (s.m_rotatePivotTranslationFromUsd, s.m_rotatePivotTranslationTweak)) ∧
        ((s'.m_scalePivotTranslationFromUsd, s'.m_scalePivotTranslationTweak)
          = if s.hasOperator .scalePivotTranslate then
              (s.scalePivotTranslationValue, MVector.zero)
            else (s.m_scalePivotTranslationFromUsd, s.m_scalePivotTranslationTweak)) ∧
        s'.toMPxTransformationMatrix = s.toMPxTransformationMatrix ∧
        s'.m_orderedOps = s.m_orderedOps ∧ s'.m_xformops = s.m_xformops ∧
        s'.m_orderedOpMayaIndices = s.m_orderedOpMayaIndices ∧ s'.m_flags = s.m_flags ∧
        s'.m_rotateOrientationFromUsd = s.m_rotateOrientationFromUsd ∧
        s'.m_rotateOrientationTweak = s.m_rotateOrientationTweak ∧
        SetsOnPrimaries s s'.stage.journal) := by
  constructor
  · intro hv
    unfold pushToPrim
    rw [if_pos (by rw [hv]; rfl)]
  · intro hv hlen
    obtain ⟨f1, f2, f3, f4, f5, f6, f7⟩ := sweep_frame H (s.m_orderedOps.zip s.m_xformops) s
    refine ⟨_, pushToPrim_eq_sweep H s hv hlen, ?_, ?_, ?_, ?_, ?_, ?_, ?_, ?_,
      f1, f2, f3, f4, f5, f6, f7, sweep_journal H _ s⟩
    · obtain ⟨h1, h2⟩ := sweep_translate H s hlen
      cases hb : s.hasOperator .translate
      · rw [if_neg (by decide)]; exact h2 hb
      · rw [if_pos rfl]; exact h1 hb
    · obtain ⟨h1, h2⟩ := sweep_rotate H s hlen
      cases hb : s.hasOperator .rotate
      · rw [if_neg (by decide)]; exact h2 hb
      · rw [if_pos rfl]; exact h1 hb
    · obtain ⟨h1, h2⟩ := sweep_scale H s hlen
      cases hb : s.hasOperator .scale
      · rw [if_neg (by decide)]; exact h2 hb
      · rw [if_pos rfl]; exact h1 hb
    · obtain ⟨h1, h2⟩ := sweep_shear H s hlen
      cases hb : s.hasOperator .shear
      · rw [if_neg (by decide)]; exact h2 hb
      · rw [if_pos rfl]; exact h1 hb
    · obtain ⟨h1, h2⟩ := sweep_rotatePivot H s hlen
      cases hb : (s.hasOperator .rotatePivot || s.hasOperator .pivot)
      · rw [if_neg (by decide)]; exact h2 hb
      · rw [if_pos rfl]; exact h1 hb
    · obtain ⟨h1, h2⟩ := sweep_scalePivot H s hlen
      cases hb : (s.hasOperator .scalePivot || s.hasOperator .pivot)
      · rw [if_neg (by decide)]; exact h2 hb
      · rw [if_pos rfl]; exact h1 hb
    · obtain ⟨h1, h2⟩ := sweep_rotatePivotTranslate H s hlen
      cases hb : s.hasOperator .rotatePivotTranslate
      · rw [if_neg (by decide)]; exact h2 hb
      · rw [if_pos rfl]; exact h1 hb
    · obtain ⟨h1, h2⟩ := sweep_scalePivotTranslate H s hlen
      cases hb : s.hasOperator .scalePivotTranslate
      · rw [if_neg (by decide)]; exact h2 hb
      · rw [if_pos rfl]; exact h1 hb

/-- C38 witness: the sweep on the single-pivot engine with a pending edit of both pivots
synchronises the translate channel and both pivot channels, and leaves the scale channel, which
has no operator, the operator list and the flags as they were. -/
theorem C38_pushToPrim_sweep_witness :
    pendingPivotEngine.primValid = true ∧
    ∃ s', pendingPivotEngine.pushToPrim Host.sample = some s' ∧
      (s'.m_translationFromUsd, s'.m_translationTweak) = (⟨0, 0, 0⟩, ⟨0, 0, 0⟩) ∧
      (s'.m_rotatePivotFromUsd, s'.m_rotatePivotTweak) = (⟨4, 5, 6⟩, ⟨0, 0, 0⟩) ∧
      (s'.m_scalePivotFromUsd, s'.m_scalePivotTweak) = (⟨4, 5, 6⟩, ⟨0, 0, 0⟩) ∧
      (s'.m_scaleFromUsd, s'.m_scaleTweak) = (⟨1, 1, 1⟩, ⟨0, 0, 0⟩) ∧
      s'.m_orderedOps = pendingPivotEngine.m_orderedOps ∧
      s'.m_flags = pendingPivotEngine.m_flags := by
  refine ⟨by decide, ?_⟩
  obtain ⟨s', h0, h1, _, h3, _, h5, h6, _, _, _, h10, _, _, h13, _⟩ :=
    (C38_pushToPrim_sweep Host.sample pendingPivotEngine).2 (by decide) (by decide)
  refine ⟨s', h0, h1.trans (by decide!), h5.trans (by decide!), h6.trans (by decide!),
    h3.trans (by decide!), h10, h13⟩

/-! ## Parallel operator lists (C32) -/

theorem addOp_par (s : TransformationMatrix) (ty : XformOpType) (pr : Precision)
    (nm : TfToken) (idx : ℕ) (beg : Bool) (r : ℤ) (s' : TransformationMatrix)
    (h : s.addOp ty pr nm idx beg = some (r, s')) (hp : ListsParallel s) : ListsParallel s' := by
  obtain ⟨cls, _, hh | ⟨p, _, _, hp1, hp2, _, _, hh⟩⟩ := addOp_cases _ _ _ _ _ _ _ _ h
  · rw [hh.2.2]; exact hp
  · rw [hh]
    unfold ListsParallel at hp ⊢
    simp only
    rw [List.length_insertIdx _ _ hp1, List.length_insertIdx _ _ hp2, hp]

theorem par_build (s : TransformationMatrix) (hp : ListsParallel s) :
    ListsParallel s.buildOrderedOpMayaIndices := by
  obtain ⟨b1, b2, _, _⟩ := buildOrderedOpMayaIndices_frame s
  unfold ListsParallel
  rw [b1, b2]; exact hp

theorem par_eraseIdx (s : TransformationMatrix) (k : ℕ) (idx : List ℕ) (hp : ListsParallel s) :
    ListsParallel { s with m_orderedOps := s.m_orderedOps.eraseIdx k,
                           m_xformops := s.m_xformops.eraseIdx k,
                           m_orderedOpMayaIndices := idx } := by
  unfold ListsParallel at hp ⊢
  simp only [List.length_eraseIdx, hp]

theorem insertOp_par (s : TransformationMatrix) (ty : XformOpType) (pr : Precision)
    (nm : TfToken) (flag : Flags) (beg : Bool) (st : MStatus) (s' : TransformationMatrix)
    (h : s.insertOp ty pr nm flag beg = some (st, s')) (hp : ListsParallel s) :
    ListsParallel s' := by
  have hb := par_build s hp
  rcases insertOp_cases s ty pr nm flag beg st s' h with
    ⟨_, r, s2, h2, ⟨_, _, e⟩ | ⟨_, _, e⟩⟩ |
    ⟨_, r2, s1, h1, ⟨_, _, e⟩ | ⟨_, r1, s2, h2, ⟨_, _, e⟩ | ⟨_, _, e⟩⟩⟩
  · rw [e]; exact addOp_par _ _ _ _ _ _ _ _ h2 hb
  · rw [e]; exact (show ListsParallel s2 from addOp_par _ _ _ _ _ _ _ _ h2 hb)
  · rw [e]; exact addOp_par _ _ _ _ _ _ _ _ h1 hb
  · rw [e]
    exact par_eraseIdx s2 _ _ (addOp_par _ _ _ _ _ _ _ _ h2 (addOp_par _ _ _ _ _ _ _ _ h1 hb))
  · rw [e]
    exact (show ListsParallel s2 from
      addOp_par _ _ _ _ _ _ _ _ h2 (addOp_par _ _ _ _ _ _ _ _ h1 hb))

theorem removeOpLoop_par (opName : TfToken) :
    ∀ (i : ℕ) (foundOne : Bool) (ops : List UsdMayaXformOpClassification)
      (xformops : List UsdGeomXformOp) (indices : List ℕ)
      (r : Bool × List UsdMayaXformOpClassification × List UsdGeomXformOp × List ℕ),
      TransformationMatrix.removeOpLoop opName i foundOne ops xformops indices = some r →
      xformops.length = ops.length → r.2.2.1.length = r.2.1.length := by
  intro i
  induction i with
  | zero =>
    intro foundOne ops xformops indices r h hp
    rw [TransformationMatrix.removeOpLoop] at h
    split at h
    · exact absurd h (by simp)
    · split_ifs at h <;> simp only [Option.some.injEq] at h <;> subst h <;>
        simp only [List.length_eraseIdx, hp]
  | succ j ih =>
    intro foundOne ops xformops indices r h hp
    rw [TransformationMatrix.removeOpLoop] at h
    split at h
    · exact absurd h (by simp)
    · dsimp only at h
      split_ifs at h
      all_goals first
        | exact ih _ _ _ _ _ h hp
        | exact ih _ _ _ _ _ h (by simp only [List.length_eraseIdx, hp])
        | (simp only [Option.some.injEq] at h
           subst h
           simp only [List.length_eraseIdx, hp])

theorem removeOp_par (s : TransformationMatrix) (nm : TfToken) (flag : Flags) (st : MStatus)
    (s' : TransformationMatrix) (h : s.removeOp nm flag = some (st, s'))
    (hp : ListsParallel s) : ListsParallel s' := by
  have hb := par_build s hp
  simp only [removeOp] at h
  cases hl : removeOpLoop nm (removeStart s.buildOrderedOpMayaIndices.m_orderedOps.length)
      false s.buildOrderedOpMayaIndices.m_orderedOps s.buildOrderedOpMayaIndices.m_xformops
      s.buildOrderedOpMayaIndices.m_orderedOpMayaIndices with
  | none => rw [hl] at h; exact absurd h (by simp)
  | some r =>
    have hr := removeOpLoop_par nm _ _ _ _ _ r hl hb
    obtain ⟨f, ops, x, idx⟩ := r
    rw [hl] at h
    simp only at h hr
    split_ifs at h <;> simp only [Option.some.injEq, Prod.mk.injEq] at h <;>
      rw [← h.2] <;> exact hr

theorem par_of_noInsertion {t s : TransformationMatrix} (h : NoInsertion t s)
    (hp : ListsParallel s) : ListsParallel t := by
  unfold ListsParallel at hp ⊢
  rw [h.1, h.2.1]; exact hp

/-- The part the setters share after the tweak is recomputed keeps the operator lists
parallel. -/
theorem setter_tail_par (s1 : TransformationMatrix) (avail has c : Bool)
    (o : Option (MStatus × TransformationMatrix))
    (cont : TransformationMatrix → Option (MStatus × TransformationMatrix)) (status : MStatus)
    (h1 : ListsParallel s1)
    (ho : ∀ st2 s2, o = some (st2, s2) → ListsParallel s2)
    (hcont : ∀ t r, ListsParallel t → cont t = some r → ListsParallel r.2)
    (r : MStatus × TransformationMatrix)
    (h : (if avail = true then
        match (if has = true then some (MStatus.kSuccess, s1)
          else if c = true then o else some (MStatus.kSuccess, s1)) with
        | none => none
        | some (.kFailure, s2) => some (MStatus.kFailure, s2)
        | some (.kSuccess, s2) => cont s2
      else some (status, s1)) = some r) :
    ListsParallel r.2 := by
  have hI : ∀ st2 s2, (if has = true then some (MStatus.kSuccess, s1)
      else if c = true then o else some (MStatus.kSuccess, s1)) = some (st2, s2) →
      ListsParallel s2 := by
    intro st2 s2 heq
    split_ifs at heq
    · simp only [Option.some.injEq, Prod.mk.injEq] at heq
      rw [← heq.2]; exact h1
    · exact ho _ _ heq
    · simp only [Option.some.injEq, Prod.mk.injEq] at heq
      rw [← heq.2]; exact h1
  by_cases ha : avail = true
  · rw [if_pos ha] at h
    split at h
    · exact absurd h (by simp)
    · rename_i s2 heq
      simp only [Option.some.injEq] at h
      rw [← h]; exact hI _ _ heq
    · rename_i s2 heq
      exact hcont _ _ (hI _ _ heq) h
  · rw [if_neg ha] at h
    simp only [Option.some.injEq] at h
    rw [← h]; exact h1

theorem insertPivotOps_par (H : Host) (s : TransformationMatrix) (a b : Bool)
    (r : MStatus × TransformationMatrix) (h : s.insertPivotOps H a b = some r)
    (hp : ListsParallel s) : ListsParallel r.2 := by
  simp only [insertPivotOps, insertScalePivotOp, insertRotatePivotOp] at h
  have hA : ∀ (t : TransformationMatrix) (nm : TfToken) (F : Flags)
      (push : TransformationMatrix → TransformationMatrix) (q : MStatus × TransformationMatrix),
      (∀ u, NoInsertion (push u) u) → ListsParallel t →
      (match t.insertOp .TypeTranslate .PrecisionFloat nm F false with
        | none => none
        | some (.kFailure, s1) => some (MStatus.kFailure, s1)
        | some (.kSuccess, s1) => some (MStatus.kSuccess, push s1)) = some q →
      ListsParallel q.2 := by
    intro t nm F push q hpush ht hq
    split at hq
    · exact absurd hq (by simp)
    · rename_i s1 hi
      simp only [Option.some.injEq] at hq
      rw [← hq]; exact insertOp_par _ _ _ _ _ _ _ _ hi ht
    · rename_i s1 hi
      simp only [Option.some.injEq] at hq
      rw [← hq]
      exact par_of_noInsertion (hpush s1) (insertOp_par _ _ _ _ _ _ _ _ hi ht)
  split at h
  · exact absurd h (by simp)
  · rename_i s1 heq
    simp only [Option.some.injEq] at h
    rw [← h]
    split_ifs at heq
    · exact hA s .scalePivot _ (fun u => u.pushScalePivotToPrim H) _
        (noInsertion_pushScalePivotToPrim H) hp heq
    · simp only [Option.some.injEq, Prod.mk.injEq] at heq
      exact absurd heq.1 (by decide)
  · rename_i s1 heq
    have h1 : ListsParallel s1 := by
      split_ifs at heq
      · exact hA s .scalePivot _ (fun u => u.pushScalePivotToPrim H) (.kSuccess, s1)
          (noInsertion_pushScalePivotToPrim H) hp heq
      · simp only [Option.some.injEq, Prod.mk.injEq] at heq
        rw [← heq.2]; exact hp
    split_ifs at h
    · exact hA s1 .rotatePivot _ (fun u => u.pushRotatePivotToPrim H) r
        (noInsertion_pushRotatePivotToPrim H) h1 h
    · simp only [Option.some.injEq] at h
      rw [← h]; exact h1

theorem insertAndPushPivotOp_par (H : Host) (s : TransformationMatrix) (nm : TfToken)
    (r : MStatus × TransformationMatrix) (h : s.insertAndPushPivotOp H nm = some r)
    (hp : ListsParallel s) : ListsParallel r.2 := by
  simp only [insertAndPushPivotOp] at h
  split_ifs at h
  · simp only [Option.some.injEq] at h
    rw [← h]; exact hp
  · simp only [Option.some.injEq] at h
    rw [← h]
    exact par_of_noInsertion (noInsertion_pushPivotToPrim H s) hp
  · cases hr : s.removeOp .pivot kPrimHasPivot with
    | none => rw [hr] at h; exact absurd h (by simp)
    | some q =>
      obtain ⟨st0, s0⟩ := q
      have h0 := removeOp_par s _ _ st0 s0 hr hp
      rw [hr] at h
      cases st0 <;> simp only at h
      · exact insertPivotOps_par H s0 _ _ r h h0
      · simp only [Option.some.injEq] at h
        rw [← h]; exact h0
  · exact insertPivotOps_par H s _ _ r h hp

theorem translateTo_par (H : Host) (s : TransformationMatrix) (bs : MStatus) (v : MVector) (space : MSpace)
    (r : MStatus × TransformationMatrix) (h : s.translateTo H bs v space = some r)
    (hp : ListsParallel s) : ListsParallel r.2 := by
  obtain ⟨s1, hs1, hf⟩ : ∃ s1, s1 =
      (if (baseTranslateTo s.toMPxTransformationMatrix bs v space).1.toBool then
        { s with
          toMPxTransformationMatrix := (baseTranslateTo s.toMPxTransformationMatrix bs v space).2
          m_translationTweak := (baseTranslateTo s.toMPxTransformationMatrix bs v space).2.translationValue.sub s.m_translationFromUsd }
      else { s with toMPxTransformationMatrix :=
        (baseTranslateTo s.toMPxTransformationMatrix bs v space).2 }) ∧
      ListsParallel s1 := by
    refine ⟨_, rfl, ?_⟩
    split_ifs <;> exact hp
  by_cases hl : s.translateLocked = true
  · simp only [translateTo, hl, if_true, Option.some.injEq] at h
    rw [← h]; exact hp
  have hl : s.translateLocked = false := by simpa using hl
  simp only [translateTo, hl, Bool.false_eq_true, if_false, insertTranslateOp] at h
  simp only [hl] at hs1
  rw [← hs1] at h
  refine setter_tail_par s1 _ _ _ _
    (fun s2 => if (!v.isEquivalent s2.m_translationFromUsd) = true
      then some ((baseTranslateTo s.toMPxTransformationMatrix bs v space).1, s2.pushTranslateToPrim H)
      else some ((baseTranslateTo s.toMPxTransformationMatrix bs v space).1, s2))
    _ hf (fun st2 s2 hi => insertOp_par _ _ _ _ _ _ _ _ hi hf)
    (fun t q ht hq => ?_) r h
  dsimp only at hq
  split_ifs at hq <;> simp only [Option.some.injEq] at hq <;>
    first
    | (rw [← hq]
       exact par_of_noInsertion (noInsertion_pushTranslateToPrim H t) ht)
    | (rw [← hq]
       exact ht)

theorem scaleTo_par (H : Host) (s : TransformationMatrix) (bs : MStatus) (v : MVector) (space : MSpace)
    (r : MStatus × TransformationMatrix) (h : s.scaleTo H bs v space = some r)
    (hp : ListsParallel s) : ListsParallel r.2 := by
  obtain ⟨s1, hs1, hf⟩ : ∃ s1, s1 =
      (if (baseScaleTo s.toMPxTransformationMatrix bs v space).1.toBool then
        { s with
          toMPxTransformationMatrix := (baseScaleTo s.toMPxTransformationMatrix bs v space).2
          m_scaleTweak := (baseScaleTo s.toMPxTransformationMatrix bs v space).2.scaleValue.sub s.m_scaleFromUsd }
      else { s with toMPxTransformationMatrix :=
        (baseScaleTo s.toMPxTransformationMatrix bs v space).2 }) ∧
      ListsParallel s1 := by
    refine ⟨_, rfl, ?_⟩
    split_ifs <;> exact hp
  by_cases hl : s.scaleLocked = true
  · simp only [scaleTo, hl, if_true, Option.some.injEq] at h
    rw [← h]; exact hp
  have hl : s.scaleLocked = false := by simpa using hl
  simp only [scaleTo, hl, Bool.false_eq_true, if_false, insertScaleOp] at h
  simp only [hl] at hs1
  rw [← hs1] at h
  refine setter_tail_par s1 _ _ _ _
    (fun s2 => if (!v.isEquivalent s2.m_scaleFromUsd) = true
      then some ((baseScaleTo s.toMPxTransformationMatrix bs v space).1, s2.pushScaleToPrim H)
      else some ((baseScaleTo s.toMPxTransformationMatrix bs v space).1, s2))
    _ hf (fun st2 s2 hi => insertOp_par _ _ _ _ _ _ _ _ hi hf)
    (fun t q ht hq => ?_) r h
  dsimp only at hq
  split_ifs at hq <;> simp only [Option.some.injEq] at hq <;>
    first
    | (rw [← hq]
       exact par_of_noInsertion (noInsertion_pushScaleToPrim H t) ht)
    | (rw [← hq]
       exact ht)

theorem shearTo_par (H : Host) (s : TransformationMatrix) (bs : MStatus) (v : MVector) (space : MSpace)
    (r : MStatus × TransformationMatrix) (h : s.shearTo H bs v space = some r)
    (hp : ListsParallel s) : ListsParallel r.2 := by
  obtain ⟨s1, hs1, hf⟩ : ∃ s1, s1 =
      (if (baseShearTo s.toMPxTransformationMatrix bs v space).1.toBool then
        { s with
          toMPxTransformationMatrix := (baseShearTo s.toMPxTransformationMatrix bs v space).2
          m_shearTweak := (baseShearTo s.toMPxTransformationMatrix bs v space).2.shearValue.sub s.m_shearFromUsd }
      else { s with toMPxTransformationMatrix :=
        (baseShearTo s.toMPxTransformationMatrix bs v space).2 }) ∧
      ListsParallel s1 := by
    refine ⟨_, rfl, ?_⟩
    split_ifs <;> exact hp
  by_cases hl : s.shearLocked = true
  · simp only [shearTo, hl, if_true, Option.some.injEq] at h
    rw [← h]; exact hp
  have hl : s.shearLocked = false := by simpa using hl
  simp only [shearTo, hl, Bool.false_eq_true, if_false, insertShearOp] at h
  simp only [hl] at hs1
  rw [← hs1] at h
  refine setter_tail_par s1 _ _ _ _
    (fun s2 => if (!v.isEquivalent s2.m_shearFromUsd) = true
      then some ((baseShearTo s.toMPxTransformationMatrix bs v space).1, s2.pushShearToPrim H)
      else some ((baseShearTo s.toMPxTransformationMatrix bs v space).1, s2))
    _ hf (fun st2 s2 hi => insertOp_par _ _ _ _ _ _ _ _ hi hf)
    (fun t q ht hq => ?_) r h
  dsimp only at hq
  split_ifs at hq <;> simp only [Option.some.injEq] at hq <;>
    first
    | (rw [← hq]
       exact par_of_noInsertion (noInsertion_pushShearToPrim H t) ht)
    | (rw [← hq]
       exact ht)

theorem setScalePivotTranslation_par (H : Host) (s : TransformationMatrix) (bs : MStatus) (v : MVector) (space : MSpace)
    (r : MStatus × TransformationMatrix) (h : s.setScalePivotTranslation H bs v space = some r)
    (hp : ListsParallel s) : ListsParallel r.2 := by
  obtain ⟨s1, hs1, hf⟩ : ∃ s1, s1 =
      (if (baseSetScalePivotTranslation s.toMPxTransformationMatrix bs v space).1.toBool then
        { s with
          toMPxTransformationMatrix := (baseSetScalePivotTranslation s.toMPxTransformationMatrix bs v space).2
          m_scalePivotTranslationTweak := (baseSetScalePivotTranslation s.toMPxTransformationMatrix bs v space).2.scalePivotTranslationValue.sub s.m_scalePivotTranslationFromUsd }
      else { s with toMPxTransformationMatrix :=
        (baseSetScalePivotTranslation s.toMPxTransformationMatrix bs v space).2 }) ∧
      ListsParallel s1 := by
    refine ⟨_, rfl, ?_⟩
    split_ifs <;> exact hp
  simp only [setScalePivotTranslation, insertScalePivotTranslationOp] at h
  rw [← hs1] at h
  refine setter_tail_par s1 _ _ _ _
    (fun s2 => if (!v.isEquivalent s2.m_scalePivotTranslationFromUsd) = true
      then some ((baseSetScalePivotTranslation s.toMPxTransformationMatrix bs v space).1, s2.pushScalePivotTranslateToPrim H)
      else some ((baseSetScalePivotTranslation s.toMPxTransformationMatrix bs v space).1, s2))
    _ hf (fun st2 s2 hi => insertOp_par _ _ _ _ _ _ _ _ hi hf)
    (fun t q ht hq => ?_) r h
  dsimp only at hq
  split_ifs at hq <;> simp only [Option.some.injEq] at hq <;>
    first
    | (rw [← hq]
       exact par_of_noInsertion (noInsertion_pushScalePivotTranslateToPrim H t) ht)
    | (rw [← hq]
       exact ht)

theorem setRotatePivotTranslation_par (H : Host) (s : TransformationMatrix) (bs : MStatus) (v : MVector) (space : MSpace)
    (r : MStatus × TransformationMatrix) (h : s.setRotatePivotTranslation H bs v space = some r)
    (hp : ListsParallel s) : ListsParallel r.2 := by
  obtain ⟨s1, hs1, hf⟩ : ∃ s1, s1 =
      (if (baseSetRotatePivotTranslation s.toMPxTransformationMatrix bs v space).1.toBool then
        { s with
          toMPxTransformationMatrix := (baseSetRotatePivotTranslation s.toMPxTransformationMatrix bs v space).2
          m_rotatePivotTranslationTweak := (baseSetRotatePivotTranslation s.toMPxTransformationMatrix bs v space).2.rotatePivotTranslationValue.sub s.m_rotatePivotTranslationFromUsd }
      else { s with toMPxTransformationMatrix :=
        (baseSetRotatePivotTranslation s.toMPxTransformationMatrix bs v space).2 }) ∧
      ListsParallel s1 := by
    refine ⟨_, rfl, ?_⟩
    split_ifs <;> exact hp
  simp only [setRotatePivotTranslation, insertRotatePivotTranslationOp] at h
  rw [← hs1] at h
  refine setter_tail_par s1 _ _ _ _
    (fun s2 => if (!v.isEquivalent s2.m_rotatePivotTranslationFromUsd) = true
      then some ((baseSetRotatePivotTranslation s.toMPxTransformationMatrix bs v space).1, s2.pushRotatePivotTranslateToPrim H)
      else some ((baseSetRotatePivotTranslation s.toMPxTransformationMatrix bs v space).1, s2))
    _ hf (fun st2 s2 hi => insertOp_par _ _ _ _ _ _ _ _ hi hf)
    (fun t q ht hq => ?_) r h
  dsimp only at hq
  split_ifs at hq <;> simp only [Option.some.injEq] at hq <;>
    first
    | (rw [← hq]
       exact par_of_noInsertion (noInsertion_pushRotatePivotTranslateToPrim H t) ht)
    | (rw [← hq]
       exact ht)

theorem rotateTo_par (H : Host) (s : TransformationMatrix) (bs : MStatus) (e : MEulerRotation) (space : MSpace)
    (r : MStatus × TransformationMatrix) (h : s.rotateTo H bs e space = some r)
    (hp : ListsParallel s) : ListsParallel r.2 := by
  obtain ⟨s1, hs1, hf⟩ : ∃ s1, s1 =
      (if (baseRotateTo s.toMPxTransformationMatrix bs e space).1.toBool then
        ({ s with toMPxTransformationMatrix :=
          (baseRotateTo s.toMPxTransformationMatrix bs e space).2 } :
            TransformationMatrix).updateRotationTweak
      else { s with toMPxTransformationMatrix :=
        (baseRotateTo s.toMPxTransformationMatrix bs e space).2 }) ∧
      ListsParallel s1 := by
    refine ⟨_, rfl, ?_⟩
    split_ifs <;> exact hp
  by_cases hl : s.rotateLocked = true
  · simp only [rotateTo, hl, if_true, Option.some.injEq] at h
    rw [← h]; exact hp
  have hl : s.rotateLocked = false := by simpa using hl
  simp only [rotateTo, hl, Bool.false_eq_true, if_false, insertRotateOp] at h
  simp only [hl] at hs1
  rw [← hs1] at h
  refine setter_tail_par s1 _ _ _ _
    (fun s2 => if s2.m_enableUsdWriteback = true then
        (if (!e.isEquivalent s2.m_rotationFromUsd) = true
          then some ((baseRotateTo s.toMPxTransformationMatrix bs e space).1, s2.pushRotateToPrim H)
          else some ((baseRotateTo s.toMPxTransformationMatrix bs e space).1, s2))
      else some ((baseRotateTo s.toMPxTransformationMatrix bs e space).1, s2))
    _ hf (fun st2 s2 hi => insertOp_par _ _ _ _ _ _ _ _ hi hf)
    (fun t q ht hq => ?_) r h
  dsimp only at hq
  split_ifs at hq <;> simp only [Option.some.injEq] at hq <;>
    first
    | (rw [← hq]
       exact par_of_noInsertion (noInsertion_pushRotateToPrim H t) ht)
    | (rw [← hq]
       exact ht)

theorem rotateToQuaternion_par (H : Host) (s : TransformationMatrix) (bs : MStatus) (q : MQuaternion) (space : MSpace)
    (r : MStatus × TransformationMatrix) (h : s.rotateToQuaternion H bs q space = some r)
    (hp : ListsParallel s) : ListsParallel r.2 := by
  obtain ⟨s1, hs1, hf⟩ : ∃ s1, s1 =
      (if (baseRotateTo s.toMPxTransformationMatrix bs (H.asEulerRotation q) space).1.toBool then
        ({ s with toMPxTransformationMatrix :=
          (baseRotateTo s.toMPxTransformationMatrix bs (H.asEulerRotation q) space).2 } :
            TransformationMatrix).updateRotationTweak
      else { s with toMPxTransformationMatrix :=
        (baseRotateTo s.toMPxTransformationMatrix bs (H.asEulerRotation q) space).2 }) ∧
      ListsParallel s1 := by
    refine ⟨_, rfl, ?_⟩
    split_ifs <;> exact hp
  by_cases hl : s.rotateLocked = true
  · simp only [rotateToQuaternion, hl, if_true, Option.some.injEq] at h
    rw [← h]; exact hp
  have hl : s.rotateLocked = false := by simpa using hl
  simp only [rotateToQuaternion, hl, Bool.false_eq_true, if_false, insertRotateOp] at h
  simp only [hl] at hs1
  rw [← hs1] at h
  refine setter_tail_par s1 _ _ _ _
    (fun s2 => if s2.m_enableUsdWriteback = true then
        (if (!s2.rotationValue.isEquivalent s2.m_rotationFromUsd) = true
          then some ((baseRotateTo s.toMPxTransformationMatrix bs (H.asEulerRotation q) space).1, s2.pushRotateToPrim H)
          else some ((baseRotateTo s.toMPxTransformationMatrix bs (H.asEulerRotation q) space).1, s2))
      else some ((baseRotateTo s.toMPxTransformationMatrix bs (H.asEulerRotation q) space).1, s2))
    _ hf (fun st2 s2 hi => insertOp_par _ _ _ _ _ _ _ _ hi hf)
    (fun t q ht hq => ?_) r h
  dsimp only at hq
  split_ifs at hq <;> simp only [Option.some.injEq] at hq <;>
    first
    | (rw [← hq]
       exact par_of_noInsertion (noInsertion_pushRotateToPrim H t) ht)
    | (rw [← hq]
       exact ht)

theorem setRotateOrientation_par (H : Host) (s : TransformationMatrix) (bs : MStatus) (q : MQuaternion) (space : MSpace) (balance : Bool)
    (r : MStatus × TransformationMatrix) (h : s.setRotateOrientation H bs q space balance = some r)
    (hp : ListsParallel s) : ListsParallel r.2 := by
  obtain ⟨s1, hs1, hf⟩ : ∃ s1, s1 =
      (if (baseSetRotateOrientation s.toMPxTransformationMatrix bs q space balance).1.toBool then
        { s with
          toMPxTransformationMatrix := (baseSetRotateOrientation s.toMPxTransformationMatrix bs q space balance).2
          m_rotateOrientationFromUsd :=
            (baseSetRotateOrientation s.toMPxTransformationMatrix bs q space balance).2.rotateOrientationValue.mul s.m_rotateOrientationTweak.inverse }
      else { s with toMPxTransformationMatrix :=
        (baseSetRotateOrientation s.toMPxTransformationMatrix bs q space balance).2 }) ∧
      ListsParallel s1 := by
    refine ⟨_, rfl, ?_⟩
    split_ifs <;> exact hp
  simp only [setRotateOrientation, insertRotateAxesOp] at h
  rw [← hs1] at h
  refine setter_tail_par s1 _ _ _ _
    (fun s2 => if s2.m_enableUsdWriteback = true
      then some ((baseSetRotateOrientation s.toMPxTransformationMatrix bs q space balance).1, s2.pushRotateAxisToPrim H)
      else some ((baseSetRotateOrientation s.toMPxTransformationMatrix bs q space balance).1, s2))
    _ hf (fun st2 s2 hi => insertOp_par _ _ _ _ _ _ _ _ hi hf)
    (fun t q ht hq => ?_) r h
  dsimp only at hq
  split_ifs at hq <;> simp only [Option.some.injEq] at hq <;>
    first
    | (rw [← hq]
       exact par_of_noInsertion (noInsertion_pushRotateAxisToPrim H t) ht)
    | (rw [← hq]
       exact ht)

theorem setRotateOrientationEuler_par (H : Host) (s : TransformationMatrix) (bs : MStatus) (euler : MEulerRotation) (space : MSpace) (balance : Bool)
    (r : MStatus × TransformationMatrix) (h : s.setRotateOrientationEuler H bs euler space balance = some r)
    (hp : ListsParallel s) : ListsParallel r.2 := by
  obtain ⟨s1, hs1, hf⟩ : ∃ s1, s1 =
      (if (baseSetRotateOrientation s.toMPxTransformationMatrix bs (H.asQuaternion euler) space balance).1.toBool then
        { s with
          toMPxTransformationMatrix := (baseSetRotateOrientation s.toMPxTransformationMatrix bs (H.asQuaternion euler) space balance).2
          m_rotateOrientationFromUsd :=
            (baseSetRotateOrientation s.toMPxTransformationMatrix bs (H.asQuaternion euler) space balance).2.rotateOrientationValue.mul s.m_rotateOrientationTweak.inverse }
      else { s with toMPxTransformationMatrix :=
        (baseSetRotateOrientation s.toMPxTransformationMatrix bs (H.asQuaternion euler) space balance).2 }) ∧
      ListsParallel s1 := by
    refine ⟨_, rfl, ?_⟩
    split_ifs <;> exact hp
  simp only [setRotateOrientationEuler, insertRotateAxesOp] at h
  rw [← hs1] at h
  refine setter_tail_par s1 _ _ _ _
    (fun s2 => if s2.m_enableUsdWriteback = true
      then some ((baseSetRotateOrientation s.toMPxTransformationMatrix bs (H.asQuaternion euler) space balance).1, s2.pushRotateAxisToPrim H)
      else some ((baseSetRotateOrientation s.toMPxTransformationMatrix bs (H.asQuaternion euler) space balance).1, s2))
    _ hf (fun st2 s2 hi => insertOp_par _ _ _ _ _ _ _ _ hi hf)
    (fun t q ht hq => ?_) r h
  dsimp only at hq
  split_ifs at hq <;> simp only [Option.some.injEq] at hq <;>
    first
    | (rw [← hq]
       exact par_of_noInsertion (noInsertion_pushRotateAxisToPrim H t) ht)
    | (rw [← hq]
       exact ht)

theorem setScalePivot_par (H : Host) (s : TransformationMatrix) (bs : MStatus) (sp : MPoint)
    (space : MSpace) (balance : Bool)
    (r : MStatus × TransformationMatrix) (h : s.setScalePivot H bs sp space balance = some r)
    (hp : ListsParallel s) : ListsParallel r.2 := by
  obtain ⟨s1, hs1, hf⟩ : ∃ s1, s1 =
      (if (baseSetScalePivot s.toMPxTransformationMatrix bs sp space balance).1.toBool then
        { s with
          toMPxTransformationMatrix :=
            (baseSetScalePivot s.toMPxTransformationMatrix bs sp space balance).2
          m_scalePivotTweak :=
            (baseSetScalePivot s.toMPxTransformationMatrix bs sp space
              balance).2.scalePivotValue.sub s.m_scalePivotFromUsd }
      else { s with toMPxTransformationMatrix :=
        (baseSetScalePivot s.toMPxTransformationMatrix bs sp space balance).2 }) ∧
      ListsParallel s1 := by
    refine ⟨_, rfl, ?_⟩
    split_ifs <;> exact hp
  simp only [setScalePivot] at h
  rw [← hs1] at h
  split_ifs at h
  · exact insertAndPushPivotOp_par H s1 _ r h hf
  · simp only [Option.some.injEq] at h
    rw [← h]
    exact par_of_noInsertion (noInsertion_pushScalePivotToPrim H s1) hf
  · simp only [Option.some.injEq] at h
    rw [← h]; exact hf
  · simp only [Option.some.injEq] at h
    rw [← h]; exact hf

theorem setRotatePivot_par (H : Host) (s : TransformationMatrix) (bs : MStatus) (sp : MPoint)
    (space : MSpace) (balance : Bool)
    (r : MStatus × TransformationMatrix) (h : s.setRotatePivot H bs sp space balance = some r)
    (hp : ListsParallel s) : ListsParallel r.2 := by
  obtain ⟨s1, hs1, hf⟩ : ∃ s1, s1 =
      (if (baseSetRotatePivot s.toMPxTransformationMatrix bs sp space balance).1.toBool then
        { s with
          toMPxTransformationMatrix :=
            (baseSetRotatePivot s.toMPxTransformationMatrix bs sp space balance).2
          m_rotatePivotTweak :=
            (baseSetRotatePivot s.toMPxTransformationMatrix bs sp space
              balance).2.rotatePivotValue.sub s.m_rotatePivotFromUsd }
      else { s with toMPxTransformationMatrix :=
        (baseSetRotatePivot s.toMPxTransformationMatrix bs sp space balance).2 }) ∧
      ListsParallel s1 := by
    refine ⟨_, rfl, ?_⟩
    split_ifs <;> exact hp
  simp only [setRotatePivot] at h
  rw [← hs1] at h
  split_ifs at h
  · exact insertAndPushPivotOp_par H s1 _ r h hf
  · simp only [Option.some.injEq] at h
    rw [← h]
    exact par_of_noInsertion (noInsertion_pushRotatePivotToPrim H s1) hf
  · simp only [Option.some.injEq] at h
    rw [← h]; exact hf
  · simp only [Option.some.injEq] at h
    rw [← h]; exact hf

theorem runWith_par (H : Host) (bs : MStatus) (s : TransformationMatrix) (call : SetterCall)
    (r : MStatus × TransformationMatrix) (h : call.runWith H bs s = some r)
    (hp : ListsParallel s) : ListsParallel r.2 := by
  cases call with
  | translateTo v sp => exact translateTo_par H s bs v sp r h hp
  | scaleTo v sp => exact scaleTo_par H s bs v sp r h hp
  | shearTo v sp => exact shearTo_par H s bs v sp r h hp
  | rotateTo e sp => exact rotateTo_par H s bs e sp r h hp
  | rotateToQuaternion q sp => exact rotateToQuaternion_par H s bs q sp r h hp
  | setScalePivot p sp b => exact setScalePivot_par H s bs p sp b r h hp
  | setRotatePivot p sp b => exact setRotatePivot_par H s bs p sp b r h hp
  | setScalePivotTranslation v sp => exact setScalePivotTranslation_par H s bs v sp r h hp
  | setRotatePivotTranslation v sp => exact setRotatePivotTranslation_par H s bs v sp r h hp
  | setRotateOrientation q sp b => exact setRotateOrientation_par H s bs q sp b r h hp
  | setRotateOrientationEuler e sp b => exact setRotateOrientationEuler_par H s bs e sp b r h hp

theorem detectSchema_par (s : TransformationMatrix) (hk : KnownSchema s.stage) :
    ListsParallel s.detectSchema := by
  unfold ListsParallel
  by_cases hempty : s.stage.xformOpOrder = []
  · unfold detectSchema
    simp only [hempty, List.isEmpty_nil, if_true]
    split_ifs <;> rfl
  · obtain ⟨dx, d1, d2, d3, d4⟩ := detectSchema_nonempty s hempty
    have known : ∀ stack : UsdMayaXformStack, stack.MatchingSubstack s.stage.xformOpOrder ≠ [] →
        s.detectSchema.m_orderedOps = stack.MatchingSubstack s.stage.xformOpOrder →
        s.detectSchema.m_xformops.length = s.detectSchema.m_orderedOps.length := by
      intro stack hne ho
      rcases MatchingSubstack_spec stack s.stage.xformOpOrder with e | ⟨el, _⟩
      · exact absurd e hne
      · rw [dx, ho, el]
    by_cases h1 : MayaStack.MatchingSubstack s.stage.xformOpOrder = []
    · by_cases h2 : MayaSinglePivotStack.MatchingSubstack s.stage.xformOpOrder = []
      · by_cases h3 : MatrixStack.MatchingSubstack s.stage.xformOpOrder = []
        · rcases hk with h | h | h | h
          · exact absurd h hempty
          · exact absurd h1 h
          · exact absurd h2 h
          · exact absurd h3 h
        · exact known _ h3 (d3 h1 h2 h3).1
      · exact known _ h2 (d2 h1 h2).1
    · exact known _ h1 (d1 h1).1

theorem close_lists (s5 : TransformationMatrix) (w : Bool) :
    (animationGate (restorePushToPrim s5 w)).m_orderedOps = s5.m_orderedOps ∧
    (animationGate (restorePushToPrim s5 w)).m_xformops = s5.m_xformops := by
  unfold animationGate restorePushToPrim
  split_ifs <;> exact ⟨rfl, rfl⟩

theorem initialiseToPrim_par (H : Host) (D : Decomposer) (bs : MStatus)
    (s : TransformationMatrix) (rf tn : Bool) (hv : s.primValid = true)
    (hk : KnownSchema s.stage) (s' : TransformationMatrix)
    (h : initialiseToPrim H D bs s rf tn = some s') : ListsParallel s' := by
  have hd := detectSchema_par s hk
  unfold ListsParallel at hd ⊢
  by_cases hf : hasFlag s.detectSchema.m_flags kAnyKnownSchema = true
  · obtain ⟨s'', s5, h1, h2, _, h4⟩ := initialiseToPrim_known H D bs s rf tn hv hf (by omega)
    rw [h1] at h
    simp only [Option.some.injEq] at h
    rw [← h, h2, (close_lists s5 _).1, (close_lists s5 _).2, h4.2.1, h4.2.2.1]
    exact hd
  · have hf' : hasFlag s.detectSchema.m_flags kAnyKnownSchema = false := by simpa using hf
    rw [initialiseToPrim_unknown H D bs s rf tn hv hf'] at h
    simp only [Option.some.injEq] at h
    obtain ⟨hs, _⟩ := setFromPrimMatrix_frame D s.detectSchema.disablePushToPrim
    rw [← h, (close_lists _ _).1, (close_lists _ _).2, hs.2.1, hs.2.2.1]
    exact hd

theorem setPrimInternal_par (H : Host) (D : Decomposer) (bs : MStatus)
    (s0 : TransformationMatrix) (stage : UsdStage) (rf tn : Bool) (r : TransformationMatrix)
    (hk : KnownSchema stage) (h : s0.setPrimInternal H D bs (some stage) rf tn = some r) :
    ListsParallel r := by
  have key : ∀ (s3 : TransformationMatrix) (g : TransformationMatrix → TransformationMatrix),
      s3.primValid = true → KnownSchema s3.stage →
      (∀ t, (g t).m_orderedOps = t.m_orderedOps ∧ (g t).m_xformops = t.m_xformops) →
      (initialiseToPrim H D bs s3 (!rf) tn).map g = some r → ListsParallel r := by
    intro s3 g hv hk3 hg hm
    cases hi : initialiseToPrim H D bs s3 (!rf) tn with
    | none => rw [hi] at hm; exact absurd hm (by simp)
    | some s4 =>
      rw [hi] at hm
      simp only [Option.map_some', Option.some.injEq] at hm
      have := initialiseToPrim_par H D bs s3 _ tn hv hk3 s4 hi
      unfold ListsParallel at this ⊢
      rw [← hm, (hg s4).1, (hg s4).2]
      exact this
  unfold TransformationMatrix.setPrimInternal at h
  simp only [if_true] at h
  refine key _ _ ?_ ?_ ?_ h
  · rfl
  · exact hk
  · exact fun t => ⟨rfl, rfl⟩

/-- C32 (as stated, refuted). Binding an engine to a valid prim whose two operators match no
known schema leaves `m_orderedOps` empty while `m_xformops` holds both operators: the two lists
differ in length right after `setPrimInternal`. A following `scaleTo((2, 2, 2))` inserts the
scale operator at position 0 of both, so that `insertOp` returns success with one entry in
`m_orderedOps` and three in `m_xformops`, the state in which its lambda `addOp` evaluates
`assert(m_orderedOps.size() == m_xformops.size())`. -/
theorem C32_counterexample :
    ¬ KnownSchema unknownSchemaEngine.stage ∧
    (unboundEmptyEngine.setPrimInternal Host.sample Decomposer.sample .kSuccess
        (some unknownSchemaEngine.stage) false true).map
      (fun r => (r.primValid, r.pushToPrimAvailable, r.m_orderedOps.length, r.m_xformops.length))
      = some (true, true, 0, 2) ∧
    ((unboundEmptyEngine.setPrimInternal Host.sample Decomposer.sample .kSuccess
        (some unknownSchemaEngine.stage) false true).bind
      (fun r => r.scaleTo Host.sample .kSuccess ⟨2, 2, 2⟩ .kTransform)).map
      (fun q => (q.1, q.2.m_orderedOps.length, q.2.m_xformops.length))
      = some (.kSuccess, 1, 3) := by
  refine ⟨?_, by decide!, by decide!⟩
  unfold KnownSchema
  decide

/-- C32 (amended). Parallel operator lists have equal length on a prim of a known schema: in
every state reachable from `setPrimInternal` on a valid prim whose operator stack is empty or
matches one of the three canonical stacks, through the public setters (whatever the base class
answers), `insertOp` and `removeOp` (whatever their arguments and results), `m_orderedOps` and
`m_xformops` have the same length, so the assertions `m_orderedOps.size() == m_xformops.size()`
hold and the lockstep walk pairs every operator of `m_xformops` with a classification. -/
theorem C32_parallel_lists_on_known_schema (H : Host) (D : Decomposer)
    (s : TransformationMatrix) (h : Reachable H D s) :
    s.m_xformops.length = s.m_orderedOps.length ∧
    ¬ s.m_orderedOps.length < s.m_xformops.length ∧
    (s.m_orderedOps.zip s.m_xformops).map Prod.snd = s.m_xformops := by
  have hp : ListsParallel s := by
    induction h with
    | bound s0 stage bs rf tn r hk hr => exact setPrimInternal_par H D bs s0 stage rf tn r hk hr
    | setter s call bs st r _ hr ih => exact runWith_par H bs s call (st, r) hr ih
    | inserted s ty pr nm fl beg st r _ hr ih => exact insertOp_par s ty pr nm fl beg st r hr ih
    | removed s nm fl st r _ hr ih => exact removeOp_par s nm fl st r hr ih
  unfold ListsParallel at hp
  exact ⟨hp, by omega, List.map_snd_zip _ _ (by omega)⟩

/-- C32 witness: binding to a prim without operators and translating to (1, 0, 0) reaches a
state with one operator in each list. -/
theorem C32_parallel_lists_on_known_schema_witness :
    ∃ r0 r, unboundEmptyEngine.setPrimInternal Host.sample Decomposer.sample .kSuccess
        (some emptyStage) false true = some r0 ∧
      r0.translateTo Host.sample .kSuccess ⟨1, 0, 0⟩ .kTransform = some (.kSuccess, r) ∧
      r.m_xformops.length = r.m_orderedOps.length ∧ r.m_orderedOps.length = 1 := by
  have hsome : ((unboundEmptyEngine.setPrimInternal Host.sample Decomposer.sample .kSuccess
      (some emptyStage) false true).bind
      (fun r0 => r0.translateTo Host.sample .kSuccess ⟨1, 0, 0⟩ .kTransform)).map
      (fun q => (q.1, q.2.m_orderedOps.length)) = some (.kSuccess, 1) := by decide!
  cases h0 : unboundEmptyEngine.setPrimInternal Host.sample Decomposer.sample .kSuccess
      (some emptyStage) false true with
  | none => rw [h0] at hsome; exact absurd hsome (by simp)
  | some r0 =>
    rw [h0] at hsome
    simp only [Option.some_bind] at hsome
    cases h1 : r0.translateTo Host.sample .kSuccess ⟨1, 0, 0⟩ .kTransform with
    | none => rw [h1] at hsome; exact absurd hsome (by simp)
    | some q =>
      obtain ⟨st, r⟩ := q
      rw [h1] at hsome
      simp only [Option.map_some', Option.some.injEq, Prod.mk.injEq] at hsome
      obtain ⟨hst, hlen⟩ := hsome
      subst hst
      exact ⟨r0, r, rfl, h1,
        (C32_parallel_lists_on_known_schema Host.sample Decomposer.sample r
          (Reachable.setter r0 (.translateTo ⟨1, 0, 0⟩ .kTransform) .kSuccess .kSuccess r
            (Reachable.bound unboundEmptyEngine emptyStage .kSuccess false true r0
              (Or.inl rfl) h0) h1)).1, hlen⟩

/-! ## Enabling write-back: the sweep, channel by channel (C25) -/

theorem attrsKept_same (op : UsdGeomXformOp) (st : UsdStage) : AttrsKept op st st :=
  fun _ _ => rfl

theorem attrsKept_Set (stage : UsdStage) (op : UsdGeomXformOp) (value : VtValue)
    (time : UsdTimeCode) : AttrsKept op (op.Set stage value time).2 stage := by
  intro key hkey
  unfold UsdGeomXformOp.Set
  simp only []
  split_ifs
  · rfl
  · split
    · rfl
    · exact lookup_putAttr_other stage _ key _ hkey

theorem attrsKept_setIfChanged (stage : UsdStage) (op : UsdGeomXformOp) (value : VtValue)
    (getTime setTime : UsdTimeCode) :
    AttrsKept op (setIfChanged stage op value getTime setTime).2 stage := by
  unfold setIfChanged
  split_ifs
  · exact attrsKept_Set _ _ _ _
  · exact attrsKept_same _ _

theorem attrsKept_pushVector (H : Host) (stage : UsdStage) (v : MVector) (op : UsdGeomXformOp)
    (tc : UsdTimeCode) : AttrsKept op (pushVector H stage v op tc).2 stage := by
  unfold pushVector
  split
  · exact attrsKept_same _ _
  · split_ifs
    · exact attrsKept_same _ _
    · split <;> first | exact attrsKept_setIfChanged _ _ _ _ _ | exact attrsKept_same _ _

theorem attrsKept_pushPoint (H : Host) (stage : UsdStage) (v : MPoint) (op : UsdGeomXformOp)
    (tc : UsdTimeCode) : AttrsKept op (pushPoint H stage v op tc).2 stage := by
  unfold pushPoint
  split_ifs
  · exact attrsKept_same _ _
  · split <;> first | exact attrsKept_setIfChanged _ _ _ _ _ | exact attrsKept_same _ _

theorem attrsKept_pushShear (stage : UsdStage) (v : MVector) (op : UsdGeomXformOp)
    (tc : UsdTimeCode) : AttrsKept op (pushShear stage v op tc).2 stage := by
  unfold pushShear
  split_ifs
  · exact attrsKept_same _ _
  · split <;> first | exact attrsKept_setIfChanged _ _ _ _ _ | exact attrsKept_same _ _

theorem attrsKept_pushDouble (H : Host) (stage : UsdStage) (x : ℚ) (op : UsdGeomXformOp)
    (tc : UsdTimeCode) : AttrsKept op (pushDouble H stage x op tc) stage := by
  unfold pushDouble
  split_ifs
  · exact attrsKept_same _ _
  · split <;> first | exact attrsKept_setIfChanged _ _ _ _ _ | exact attrsKept_same _ _

theorem attrsKept_pushRotation (H : Host) (stage : UsdStage) (e : MEulerRotation)
    (op : UsdGeomXformOp) (tc : UsdTimeCode) :
    AttrsKept op (pushRotation H stage e op tc).2 stage := by
  unfold pushRotation
  split_ifs
  · exact attrsKept_same _ _
  · split <;>
      first
      | exact attrsKept_pushDouble _ _ _ _ _
      | exact attrsKept_pushVector _ _ _ _ _
      | exact attrsKept_same _ _

theorem channelKept_refl (X : TfToken) (t : TransformationMatrix) : ChannelKept X t t :=
  ⟨rfl, rfl, rfl, fun _ => rfl, fun h => h⟩

theorem channelKept_trans {X : TfToken} {a b c : TransformationMatrix}
    (h1 : ChannelKept X a b) (h2 : ChannelKept X b c) : ChannelKept X a c :=
  ⟨h2.1.trans h1.1, h2.2.1.trans h1.2.1, h2.2.2.1.trans h1.2.2.1,
    fun ty => (h2.2.2.2.1 ty).trans (h1.2.2.2.1 ty), fun h => h2.2.2.2.2 (h1.2.2.2.2 h)⟩

theorem channelStep_refl (nm : TfToken) (t : TransformationMatrix) : ChannelStep nm t t :=
  fun h => ⟨h, rfl, rfl, rfl, rfl, rfl, fun X _ => channelKept_refl X t⟩

theorem channelStep_trans {nm : TfToken} {a b c : TransformationMatrix}
    (h1 : ChannelStep nm a b) (h2 : ChannelStep nm b c) : ChannelStep nm a c := by
  intro ha
  obtain ⟨r1, v1, t1, p1, a1, w1, k1⟩ := h1 ha
  obtain ⟨r2, v2, t2, p2, a2, w2, k2⟩ := h2 r1
  exact ⟨r2, v2.trans v1, t2.trans t1, p2.trans p1, a2.trans a1, w2.trans w1,
    fun X hX => channelKept_trans (k1 X hX) (k2 X hX)⟩

/-- On an engine that is `SweepReady`, the operator the lockstep walk finds for a name carries
that name. -/
theorem findOp_name (t : TransformationMatrix) (hr : SweepReady t) (nm : TfToken)
    (op : UsdGeomXformOp) (h : t.findOp nm = some op) : op.name = nm := by
  simp only [findOp, Option.map_eq_some'] at h
  obtain ⟨p, hp, rfl⟩ := h
  have hm := List.mem_of_find?_eq_some hp
  have hn := List.find?_some hp
  simp only [decide_eq_true_eq] at hn
  rw [hr.2.2.1 p hm, hn]

/-- In component mode `pushTransformToPrim` does nothing. -/
theorem pushTransformToPrim_component (H : Host) (t : TransformationMatrix)
    (h : t.pushPrimToMatrix = false) : t.pushTransformToPrim H = t := by
  unfold pushTransformToPrim
  split
  · rw [h]; rfl
  · rfl

/-- A step that leaves the operator lists, the flags, the binding and the cached time alone,
keeps the data of every other channel and the operator order, and keeps the attributes of every
other name, is a step of the channel. -/
theorem channelStep_push (nm : TfToken) (t t' : TransformationMatrix)
    (hl1 : t'.m_orderedOps = t.m_orderedOps) (hl2 : t'.m_xformops = t.m_xformops)
    (hl3 : t'.m_orderedOpMayaIndices = t.m_orderedOpMayaIndices)
    (hfl : t'.m_flags = t.m_flags) (hv : t'.primValid = t.primValid)
    (htm : t'.m_time = t.m_time)
    (hw : t'.m_enableUsdWriteback = t.m_enableUsdWriteback)
    (hdata : ∀ X, X ≠ nm → channelData X t' = channelData X t)
    (hord : t'.stage.xformOpOrder = t.stage.xformOpOrder)
    (hattrs : ∀ X, X ≠ nm → ∀ ty,
      t'.stage.attrs.lookup (ty, X) = t.stage.attrs.lookup (ty, X)) :
    ChannelStep nm t t' := by
  intro hr
  refine ⟨?_, hv, htm, by rw [hfl], by rw [hfl], hw, fun X hX => ?_⟩
  · unfold SweepReady IndicesInRange primHasPivot pushPrimToMatrix at hr ⊢
    rw [hl1, hl2, hl3, hfl]
    exact hr
  · refine ⟨hdata X hX, by rw [hfl], ?_, hattrs X hX, ?_⟩
    · simp only [findOp, hl1, hl2]
    · intro hu
      unfold Unlisted at hu ⊢
      rw [hord, hl2]
      exact hu

theorem channelStep_pushTranslateToPrim (H : Host) (t : TransformationMatrix) :
    ChannelStep .translate t (t.pushTranslateToPrim H) := by
  intro hr
  have hno := pushTransformToPrim_component H t hr.2.2.2.2
  unfold pushTranslateToPrim
  split
  · rename_i op hf
    have hk : ∀ (X : TfToken), X ≠ .translate → ∀ ty : XformOpType,
        (ty, X) ≠ (op.opType, op.name) :=
      fun X hX ty h => hX ((congrArg Prod.snd h).trans (findOp_name t hr .translate op hf))
    dsimp only
    split_ifs
    · refine channelStep_push .translate t _ ?_ ?_ ?_ ?_ ?_ ?_ ?_ ?_ ?_ ?_ hr
      · rfl
      · rfl
      · rfl
      · rfl
      · rfl
      · rfl
      · rfl
      · intro X hX
        cases X <;> first | exact absurd rfl hX | rfl
      · exact (onlySets_pushVector _ _ _ _ _).1
      · intro X hX ty
        exact attrsKept_pushVector _ _ _ _ _ _ (hk X hX ty)
    · exact channelStep_refl _ _ hr
  · split_ifs
    · rw [hno]; exact channelStep_refl _ _ hr
    · exact channelStep_refl _ _ hr

theorem channelStep_pushScaleToPrim (H : Host) (t : TransformationMatrix) :
    ChannelStep .scale t (t.pushScaleToPrim H) := by
  intro hr
  have hno := pushTransformToPrim_component H t hr.2.2.2.2
  unfold pushScaleToPrim
  split
  · rename_i op hf
    have hk : ∀ (X : TfToken), X ≠ .scale → ∀ ty : XformOpType,
        (ty, X) ≠ (op.opType, op.name) :=
      fun X hX ty h => hX ((congrArg Prod.snd h).trans (findOp_name t hr .scale op hf))
    dsimp only
    split_ifs
    · refine channelStep_push .scale t _ ?_ ?_ ?_ ?_ ?_ ?_ ?_ ?_ ?_ ?_ hr
      · rfl
      · rfl
      · rfl
      · rfl
      · rfl
      · rfl
      · rfl
      · intro X hX
        cases X <;> first | exact absurd rfl hX | rfl
      · exact (onlySets_pushVector _ _ _ _ _).1
      · intro X hX ty
        exact attrsKept_pushVector _ _ _ _ _ _ (hk X hX ty)
    · exact channelStep_refl _ _ hr
  · split_ifs
    · rw [hno]; exact channelStep_refl _ _ hr
    · exact channelStep_refl _ _ hr

theorem channelStep_pushShearToPrim (H : Host) (t : TransformationMatrix) :
    ChannelStep .shear t (t.pushShearToPrim H) := by
  intro hr
  have hno := pushTransformToPrim_component H t hr.2.2.2.2
  unfold pushShearToPrim
  split
  · rename_i op hf
    have hk : ∀ (X : TfToken), X ≠ .shear → ∀ ty : XformOpType,
        (ty, X) ≠ (op.opType, op.name) :=
      fun X hX ty h => hX ((congrArg Prod.snd h).trans (findOp_name t hr .shear op hf))
    dsimp only
    refine channelStep_push .shear t _ ?_ ?_ ?_ ?_ ?_ ?_ ?_ ?_ ?_ ?_ hr
    · rfl
    · rfl
    · rfl
    · rfl
    · rfl
    · rfl
    · rfl
    · intro X hX
      cases X <;> first | exact absurd rfl hX | rfl
    · exact (onlySets_pushShear _ _ _ _).1
    · intro X hX ty
      exact attrsKept_pushShear _ _ _ _ _ (hk X hX ty)
  · split_ifs
    · rw [hno]; exact channelStep_refl _ _ hr
    · exact channelStep_refl _ _ hr

theorem channelStep_pushRotateToPrim (H : Host) (t : TransformationMatrix) :
    ChannelStep .rotate t (t.pushRotateToPrim H) := by
  intro hr
  have hno := pushTransformToPrim_component H t hr.2.2.2.2
  unfold pushRotateToPrim
  split
  · rename_i op hf
    have hk : ∀ (X : TfToken), X ≠ .rotate → ∀ ty : XformOpType,
        (ty, X) ≠ (op.opType, op.name) :=
      fun X hX ty h => hX ((congrArg Prod.snd h).trans (findOp_name t hr .rotate op hf))
    dsimp only
    split_ifs
    · refine channelStep_push .rotate t _ ?_ ?_ ?_ ?_ ?_ ?_ ?_ ?_ ?_ ?_ hr
      · rfl
      · rfl
      · rfl
      · rfl
      · rfl
      · rfl
      · rfl
      · intro X hX
        cases X <;> first | exact absurd rfl hX | rfl
      · exact (onlySets_pushRotation _ _ _ _ _).1
      · intro X hX ty
        exact attrsKept_pushRotation _ _ _ _ _ _ (hk X hX ty)
    · exact channelStep_refl _ _ hr
  · split_ifs
    · rw [hno]; exact channelStep_refl _ _ hr
    · exact channelStep_refl _ _ hr

theorem channelStep_pushScalePivotToPrim (H : Host) (t : TransformationMatrix) :
    ChannelStep .scalePivot t (t.pushScalePivotToPrim H) := by
  intro hr
  have hno := pushTransformToPrim_component H t hr.2.2.2.2
  unfold pushScalePivotToPrim
  split
  · rename_i op hf
    have hk : ∀ (X : TfToken), X ≠ .scalePivot → ∀ ty : XformOpType,
        (ty, X) ≠ (op.opType, op.name) :=
      fun X hX ty h => hX ((congrArg Prod.snd h).trans (findOp_name t hr .scalePivot op hf))
    dsimp only
    split_ifs
    · refine channelStep_push .scalePivot t _ ?_ ?_ ?_ ?_ ?_ ?_ ?_ ?_ ?_ ?_ hr
      · rfl
      · rfl
      · rfl
      · rfl
      · rfl
      · rfl
      · rfl
      · intro X hX
        cases X <;> first | exact absurd rfl hX | rfl
      · exact (onlySets_pushPoint _ _ _ _ _).1
      · intro X hX ty
        exact attrsKept_pushPoint _ _ _ _ _ _ (hk X hX ty)
    · exact channelStep_refl _ _ hr
  · split_ifs
    · rw [hno]; exact channelStep_refl _ _ hr
    · exact channelStep_refl _ _ hr

theorem channelStep_pushScalePivotTranslateToPrim (H : Host) (t : TransformationMatrix) :
    ChannelStep .scalePivotTranslate t (t.pushScalePivotTranslateToPrim H) := by
  intro hr
  have hno := pushTransformToPrim_component H t hr.2.2.2.2
  unfold pushScalePivotTranslateToPrim
  split
  · rename_i op hf
    have hk : ∀ (X : TfToken), X ≠ .scalePivotTranslate → ∀ ty : XformOpType,
        (ty, X) ≠ (op.opType, op.name) :=
      fun X hX ty h => hX ((congrArg Prod.snd h).trans (findOp_name t hr .scalePivotTranslate op hf))
    dsimp only
    split_ifs
    · refine channelStep_push .scalePivotTranslate t _ ?_ ?_ ?_ ?_ ?_ ?_ ?_ ?_ ?_ ?_ hr
      · rfl
      · rfl
      · rfl
      · rfl
      · rfl
      · rfl
      · rfl
      · intro X hX
        cases X <;> first | exact absurd rfl hX | rfl
      · exact (onlySets_pushVector _ _ _ _ _).1
      · intro X hX ty
        exact attrsKept_pushVector _ _ _ _ _ _ (hk X hX ty)
    · exact channelStep_refl _ _ hr
  · split_ifs
    · rw [hno]; exact channelStep_refl _ _ hr
    · exact channelStep_refl _ _ hr

theorem channelStep_pushRotatePivotToPrim (H : Host) (t : TransformationMatrix) :
    ChannelStep .rotatePivot t (t.pushRotatePivotToPrim H) := by
  intro hr
  have hno := pushTransformToPrim_component H t hr.2.2.2.2
  unfold pushRotatePivotToPrim
  split
  · rename_i op hf
    have hk : ∀ (X : TfToken), X ≠ .rotatePivot → ∀ ty : XformOpType,
        (ty, X) ≠ (op.opType, op.name) :=
      fun X hX ty h => hX ((congrArg Prod.snd h).trans (findOp_name t hr .rotatePivot op hf))
    dsimp only
    split_ifs
    · refine channelStep_push .rotatePivot t _ ?_ ?_ ?_ ?_ ?_ ?_ ?_ ?_ ?_ ?_ hr
      · rfl
      · rfl
      · rfl
      · rfl
      · rfl
      · rfl
      · rfl
      · intro X hX
        cases X <;> first | exact absurd rfl hX | rfl
      · exact (onlySets_pushPoint _ _ _ _ _).1
      · intro X hX ty
        exact attrsKept_pushPoint _ _ _ _ _ _ (hk X hX ty)
    · exact channelStep_refl _ _ hr
  · split_ifs
    · rw [hno]; exact channelStep_refl _ _ hr
    · exact channelStep_refl _ _ hr

theorem channelStep_pushRotatePivotTranslateToPrim (H : Host) (t : TransformationMatrix) :
    ChannelStep .rotatePivotTranslate t (t.pushRotatePivotTranslateToPrim H) := by
  intro hr
  have hno := pushTransformToPrim_component H t hr.2.2.2.2
  unfold pushRotatePivotTranslateToPrim
  split
  · rename_i op hf
    have hk : ∀ (X : TfToken), X ≠ .rotatePivotTranslate → ∀ ty : XformOpType,
        (ty, X) ≠ (op.opType, op.name) :=
      fun X hX ty h => hX ((congrArg Prod.snd h).trans (findOp_name t hr .rotatePivotTranslate op hf))
    dsimp only
    split_ifs
    · refine channelStep_push .rotatePivotTranslate t _ ?_ ?_ ?_ ?_ ?_ ?_ ?_ ?_ ?_ ?_ hr
      · rfl
      · rfl
      · rfl
      · rfl
      · rfl
      · rfl
      · rfl
      · intro X hX
        cases X <;> first | exact absurd rfl hX | rfl
      · exact (onlySets_pushPoint _ _ _ _ _).1
      · intro X hX ty
        exact attrsKept_pushPoint _ _ _ _ _ _ (hk X hX ty)
    · exact channelStep_refl _ _ hr
  · split_ifs
    · rw [hno]; exact channelStep_refl _ _ hr
    · exact channelStep_refl _ _ hr

theorem channelStep_pushRotateAxisToPrim (H : Host) (t : TransformationMatrix) :
    ChannelStep .rotateAxis t (t.pushRotateAxisToPrim H) := by
  intro hr
  have hno := pushTransformToPrim_component H t hr.2.2.2.2
  unfold pushRotateAxisToPrim
  split
  · rename_i op hf
    have hk : ∀ (X : TfToken), X ≠ .rotateAxis → ∀ ty : XformOpType,
        (ty, X) ≠ (op.opType, op.name) :=
      fun X hX ty h => hX ((congrArg Prod.snd h).trans (findOp_name t hr .rotateAxis op hf))
    dsimp only
    split_ifs
    · refine channelStep_push .rotateAxis t _ ?_ ?_ ?_ ?_ ?_ ?_ ?_ ?_ ?_ ?_ hr
      · rfl
      · rfl
      · rfl
      · rfl
      · rfl
      · rfl
      · rfl
      · intro X hX
        cases X <;> first | exact absurd rfl hX | rfl
      · exact (onlySets_pushVector _ _ _ _ _).1
      · intro X hX ty
        exact attrsKept_pushVector _ _ _ _ _ _ (hk X hX ty)
    · exact channelStep_refl _ _ hr
  · split_ifs
    · rw [hno]; exact channelStep_refl _ _ hr
    · exact channelStep_refl _ _ hr

theorem presenceFlagOf_disjoint (nm X : TfToken) (h : X ≠ nm) :
    presenceFlagOf nm &&& presenceFlagOf X = 0 := by
  cases nm <;> cases X <;> first | exact absurd rfl h | decide

theorem presenceFlagOf_push (nm : TfToken) : presenceFlagOf nm &&& kPushToPrimEnabled = 0 := by
  cases nm <;> decide

theorem presenceFlagOf_read (nm : TfToken) : presenceFlagOf nm &&& kReadAnimatedValues = 0 := by
  cases nm <;> decide

theorem presenceFlagOf_matrix (nm : TfToken) : presenceFlagOf nm &&& kPushPrimToMatrix = 0 := by
  cases nm <;> decide

theorem mem_zip_insertIdx {α β : Type} (c : α) (x : β) (y : α × β) :
    ∀ (p : ℕ) (l1 : List α) (l2 : List β), p ≤ l1.length → p ≤ l2.length →
      y ∈ (l1.insertIdx p c).zip (l2.insertIdx p x) → y = (c, x) ∨ y ∈ l1.zip l2
  | 0, l1, l2, _, _, h => by
    simp only [List.insertIdx_zero, List.zip_cons_cons, List.mem_cons] at h
    exact h
  | p + 1, [], _, h1, _, _ => by simp at h1
  | p + 1, _ :: _, [], _, h2, _ => by simp at h2
  | p + 1, a :: l1, b :: l2, h1, h2, h => by
    simp only [List.insertIdx_succ_cons, List.zip_cons_cons, List.mem_cons] at h ⊢
    rcases h with h | h
    · exact Or.inr (Or.inl h)
    · rcases mem_zip_insertIdx c x y p l1 l2 (by simpa using h1) (by simpa using h2) h with h3 | h3
      · exact Or.inl h3
      · exact Or.inr (Or.inr h3)

theorem channelStep_build (nm : TfToken) (t : TransformationMatrix) :
    ChannelStep nm t t.buildOrderedOpMayaIndices := by
  intro hr
  obtain ⟨b1, b2, b3, b4⟩ := buildOrderedOpMayaIndices_frame t
  have hb := buildOrderedOpMayaIndices_eq t
  obtain ⟨r1, r2, r3, r4, r5⟩ := hr
  refine ⟨⟨by rw [b1, b2]; exact r1, indicesInRange_build_of t r1 r2, by rw [b1, b2]; exact r3,
    by unfold primHasPivot; rw [b3]; exact r4, by unfold pushPrimToMatrix; rw [b3]; exact r5⟩,
    primValid_build t, by rw [hb], by rw [b3], by rw [b3], by rw [hb], fun X _ => ?_⟩
  refine ⟨by rw [hb]; rfl, by rw [b3], findOp_build t X, fun ty => by rw [b4], fun hu => ?_⟩
  unfold Unlisted at hu ⊢
  rw [b4, b2]
  exact hu

/-- What `AddXformOp` does to the prim for other operator names: nothing. The operator order
keeps its entries and gains at most the operator added, and the attributes of every other name
are as before. -/
theorem AddXformOp_frame (valid : Bool) (stage : UsdStage) (ty : XformOpType) (pr : Precision)
    (nm : TfToken) (inv : Bool) :
    (∀ op ∈ (AddXformOp valid stage ty pr nm inv).2.xformOpOrder,
      op ∈ stage.xformOpOrder ∨ op.name = nm) ∧
    (∀ X, X ≠ nm → ∀ ty', (AddXformOp valid stage ty pr nm inv).2.attrs.lookup (ty', X)
      = stage.attrs.lookup (ty', X)) := by
  simp only [AddXformOp]
  split_ifs
  · exact ⟨fun op h => Or.inl h, fun _ _ _ => rfl⟩
  · split
    · refine ⟨fun op h => ?_, fun _ _ _ => rfl⟩
      rcases List.mem_append.1 h with h | h
      · exact Or.inl h
      · right
        simp only [List.mem_singleton] at h
        rw [h]
    · refine ⟨fun op h => ?_, fun X hX ty' => ?_⟩
      · rcases List.mem_append.1 h with h | h
        · exact Or.inl h
        · right
          simp only [List.mem_singleton] at h
          rw [h]
      · exact lookup_append_other _ _ _ _ (fun h => hX (congrArg Prod.snd h))
    · exact ⟨fun op h => Or.inl h, fun _ _ _ => rfl⟩

theorem channelStep_addOp (t : TransformationMatrix) (ty : XformOpType) (pr : Precision)
    (nm : TfToken) (idx : ℕ) (beg : Bool) (r : ℤ) (t' : TransformationMatrix)
    (hidx : idx = (MayaStack.FindOpIndexPair nm).1 ∨ idx = (MayaStack.FindOpIndexPair nm).2)
    (h : t.addOp ty pr nm idx beg = some (r, t')) : ChannelStep nm t t' := by
  intro hr
  obtain ⟨cls, hc, hh | ⟨p, _, _, hp1, hp2, hp3, _, hh⟩⟩ := addOp_cases _ _ _ _ _ _ _ _ h
  · rw [hh.2.2]; exact channelStep_refl nm t hr
  · have hn : cls.name = nm := by
      rcases hidx with hi | hi
      · exact (mayaStack_name nm cls).1 (by rw [← hi]; exact hc)
      · exact (mayaStack_name nm cls).2 (by rw [← hi]; exact hc)
    obtain ⟨f1, f2⟩ := AddXformOp_frame t.primValid t.stage ty pr nm cls.isInvertedTwin
    obtain ⟨r1, r2, r3, r4, r5⟩ := hr
    have hfind : ∀ X, X ≠ nm → t'.findOp X = t.findOp X :=
      fun X hX => findOp_addOp_other t ty pr nm X idx beg r t' hidx h hX
    rw [hh] at hfind ⊢
    refine ⟨⟨?_, ?_, ?_, r4, r5⟩, rfl, rfl, rfl, rfl, rfl, fun X hX => ?_⟩
    · simp only
      rw [List.length_insertIdx _ _ hp2, List.length_insertIdx _ _ hp1, r1]
    · unfold IndicesInRange
      simp only
      rw [List.length_insertIdx _ _ hp2, List.length_insertIdx _ _ hp1,
        List.length_insertIdx _ _ hp3]
      exact ⟨Nat.succ_le_succ r2.1, Nat.succ_le_succ r2.2⟩
    · intro y hy
      rcases mem_zip_insertIdx _ _ y p _ _ hp1 hp2 hy with e | e
      · rw [e]; exact hn.symm
      · exact r3 y e
    · refine ⟨rfl, rfl, hfind X hX, f2 X hX, fun hu => ⟨fun op hop => ?_, fun op hop => ?_⟩⟩
      · rcases f1 op hop with h1 | h1
        · exact hu.1 op h1
        · rw [h1]; exact fun e => hX e.symm
      · rcases (List.mem_insertIdx hp2).1 hop with h1 | h1
        · rw [h1]; exact fun e => hX e.symm
        · exact hu.2 op h1

theorem channelStep_insertDone (nm : TfToken) (t : TransformationMatrix) (hp : nm ≠ .pivot) :
    ChannelStep nm t (insertDone t (presenceFlagOf nm)) := by
  intro hr
  obtain ⟨r1, r2, r3, r4, r5⟩ := hr
  refine ⟨⟨r1, r2, r3, ?_, ?_⟩, rfl, rfl, hasFlag_setFlag_other _ _ _ (presenceFlagOf_push nm),
    hasFlag_setFlag_other _ _ _ (presenceFlagOf_read nm), rfl, fun X hX => ?_⟩
  · exact (hasFlag_setFlag_other _ _ _
      (presenceFlagOf_disjoint nm .pivot (fun e => hp e.symm))).trans r4
  · exact (hasFlag_setFlag_other _ _ _ (presenceFlagOf_matrix nm)).trans r5
  · refine ⟨rfl, hasFlag_setFlag_other _ _ _ (presenceFlagOf_disjoint nm X hX), rfl,
      fun _ => rfl, fun hu => ⟨fun op hop => hu.2 op hop, hu.2⟩⟩

theorem insertUndone_insertIdx (t u : TransformationMatrix)
    (cls : UsdMayaXformOpClassification) (op : UsdGeomXformOp) (idx p : ℕ) (st : UsdStage)
    (hu : u = { t with stage := st, m_orderedOps := t.m_orderedOps.insertIdx p cls,
                       m_xformops := t.m_xformops.insertIdx p op,
                       m_orderedOpMayaIndices := t.m_orderedOpMayaIndices.insertIdx p idx }) :
    insertUndone u (p : ℤ) = { t with stage := st } := by
  rw [hu]
  simp only [insertUndone, Int.toNat_ofNat, List.eraseIdx_insertIdx]

/-- The store change of `AddXformOp` alone is a step of the channel of the name added. -/
theorem channelStep_stage (t : TransformationMatrix) (ty : XformOpType) (pr : Precision)
    (nm : TfToken) (inv : Bool) :
    ChannelStep nm t { t with stage := (AddXformOp t.primValid t.stage ty pr nm inv).2 } := by
  intro hr
  obtain ⟨f1, f2⟩ := AddXformOp_frame t.primValid t.stage ty pr nm inv
  refine ⟨hr, rfl, rfl, rfl, rfl, rfl, fun X hX => ⟨rfl, rfl, rfl, f2 X hX, fun hu => ⟨fun op hop => ?_, hu.2⟩⟩⟩
  rcases f1 op hop with h1 | h1
  · exact hu.1 op h1
  · rw [h1]; exact fun e => hX e.symm

theorem channelStep_insertOp (t : TransformationMatrix) (ty : XformOpType) (pr : Precision)
    (nm : TfToken) (beg : Bool) (st : MStatus) (t' : TransformationMatrix) (hp : nm ≠ .pivot)
    (h : t.insertOp ty pr nm (presenceFlagOf nm) beg = some (st, t')) : ChannelStep nm t t' := by
  have hb := channelStep_build nm t
  rcases insertOp_cases _ _ _ _ _ _ _ _ h with ⟨_, r, s2, ha, hh | hh⟩ | ⟨_, r2, s1, ha, hh | ⟨hr2, r1, s2, ha2, hh | hh⟩⟩
  · rw [hh.2.2]
    exact channelStep_trans hb (channelStep_addOp _ _ _ _ _ _ _ _ (Or.inl rfl) ha)
  · rw [hh.2.2]
    exact channelStep_trans (channelStep_trans hb (channelStep_addOp _ _ _ _ _ _ _ _ (Or.inl rfl) ha))
      (channelStep_insertDone nm s2 hp)
  · rw [hh.2.2]
    exact channelStep_trans hb (channelStep_addOp _ _ _ _ _ _ _ _ (Or.inr rfl) ha)
  · rw [hh.2.2]
    obtain ⟨cls, _, k | ⟨p, hrp, _, _, _, _, _, k⟩⟩ := addOp_cases _ _ _ _ _ _ _ _ ha
    · exact absurd k.1 hr2
    · obtain ⟨cls1, _, k1 | ⟨p1, hrp1, _⟩⟩ := addOp_cases _ _ _ _ _ _ _ _ ha2
      · rw [k1.2.2, hrp, insertUndone_insertIdx _ _ _ _ _ _ _ k]
        exact channelStep_trans hb (channelStep_stage _ _ _ _ _)
      · exfalso
        rw [hh.1] at hrp1
        omega
  · rw [hh.2.2]
    exact channelStep_trans (channelStep_trans (channelStep_trans hb
      (channelStep_addOp _ _ _ _ _ _ _ _ (Or.inr rfl) ha))
      (channelStep_addOp _ _ _ _ _ _ _ _ (Or.inl rfl) ha2)) (channelStep_insertDone nm s2 hp)

/-- The part the setters share after the tweak is recomputed keeps every property that the
insertion and the write keep. -/
theorem setter_tail_pred (P : TransformationMatrix → Prop) (s1 : TransformationMatrix)
    (avail has c : Bool) (o : Option (MStatus × TransformationMatrix))
    (cont : TransformationMatrix → Option (MStatus × TransformationMatrix)) (status : MStatus)
    (h1 : P s1)
    (ho : ∀ st2 s2, o = some (st2, s2) → P s2)
    (hcont : ∀ t r, P t → cont t = some r → P r.2)
    (r : MStatus × TransformationMatrix)
    (h : (if avail = true then
        match (if has = true then some (MStatus.kSuccess, s1)
          else if c = true then o else some (MStatus.kSuccess, s1)) with
        | none => none
        | some (.kFailure, s2) => some (MStatus.kFailure, s2)
        | some (.kSuccess, s2) => cont s2
      else some (status, s1)) = some r) :
    P r.2 := by
  have hI : ∀ st2 s2, (if has = true then some (MStatus.kSuccess, s1)
      else if c = true then o else some (MStatus.kSuccess, s1)) = some (st2, s2) →
      P s2 := by
    intro st2 s2 heq
    split_ifs at heq
    · simp only [Option.some.injEq, Prod.mk.injEq] at heq
      rw [← heq.2]; exact h1
    · exact ho _ _ heq
    · simp only [Option.some.injEq, Prod.mk.injEq] at heq
      rw [← heq.2]; exact h1
  by_cases ha : avail = true
  · rw [if_pos ha] at h
    split at h
    · exact absurd h (by simp)
    · rename_i s2 heq
      simp only [Option.some.injEq] at h
      rw [← h]; exact hI _ _ heq
    · rename_i s2 heq
      exact hcont _ _ (hI _ _ heq) h
  · rw [if_neg ha] at h
    simp only [Option.some.injEq] at h
    rw [← h]; exact h1

theorem translateTo_step (H : Host) (s : TransformationMatrix) (bs : MStatus) (v : MVector) (space : MSpace)
    (r : MStatus × TransformationMatrix) (h : s.translateTo H bs v space = some r) :
    ChannelStep .translate s r.2 := by
  have hb : ChannelStep .translate s { s with toMPxTransformationMatrix :=
      (baseTranslateTo s.toMPxTransformationMatrix bs v space).2 } := by
    refine channelStep_push _ s _ rfl rfl rfl rfl rfl rfl rfl (fun X hX => ?_) rfl (fun _ _ _ => rfl)
    simp only [baseTranslateTo]
    cases X <;> first | exact absurd rfl hX | (split_ifs <;> rfl)
  obtain ⟨s1, hs1, hf⟩ : ∃ s1, s1 =
      (if (baseTranslateTo s.toMPxTransformationMatrix bs v space).1.toBool then
        { s with
          toMPxTransformationMatrix := (baseTranslateTo s.toMPxTransformationMatrix bs v space).2
          m_translationTweak := (baseTranslateTo s.toMPxTransformationMatrix bs v space).2.translationValue.sub s.m_translationFromUsd }
      else { s with toMPxTransformationMatrix :=
        (baseTranslateTo s.toMPxTransformationMatrix bs v space).2 }) ∧
      ChannelStep .translate s s1 := by
    refine ⟨_, rfl, ?_⟩
    split_ifs
    · refine channelStep_trans hb (channelStep_push _ _ _ rfl rfl rfl rfl rfl rfl rfl (fun X hX => ?_) rfl (fun _ _ _ => rfl))
      cases X <;> first | exact absurd rfl hX | rfl
    · exact hb
  simp only [translateTo, insertTranslateOp] at h
  by_cases hl : s.translateLocked = true
  · rw [if_pos hl] at h
    simp only [Option.some.injEq] at h
    rw [← h]; exact hb
  rw [if_neg hl, ← hs1] at h
  refine setter_tail_pred (fun x => ChannelStep .translate s x) s1 _ _ _ _
    (fun s2 => if (!v.isEquivalent s2.m_translationFromUsd) = true
      then some ((baseTranslateTo s.toMPxTransformationMatrix bs v space).1, s2.pushTranslateToPrim H)
      else some ((baseTranslateTo s.toMPxTransformationMatrix bs v space).1, s2))
    _ hf (fun st2 s2 hi => channelStep_trans hf (channelStep_insertOp _ _ _ _ _ _ _ (by decide) hi))
    (fun t q ht hq => ?_) r h
  dsimp only at hq
  split_ifs at hq <;> simp only [Option.some.injEq] at hq <;>
    first
    | (rw [← hq]
       exact channelStep_trans ht (channelStep_pushTranslateToPrim H t))
    | (rw [← hq]
       exact ht)

theorem scaleTo_step (H : Host) (s : TransformationMatrix) (bs : MStatus) (v : MVector) (space : MSpace)
    (r : MStatus × TransformationMatrix) (h : s.scaleTo H bs v space = some r) :
    ChannelStep .scale s r.2 := by
  have hb : ChannelStep .scale s { s with toMPxTransformationMatrix :=
      (baseScaleTo s.toMPxTransformationMatrix bs v space).2 } := by
    refine channelStep_push _ s _ rfl rfl rfl rfl rfl rfl rfl (fun X hX => ?_) rfl (fun _ _ _ => rfl)
    simp only [baseScaleTo]
    cases X <;> first | exact absurd rfl hX | (split_ifs <;> rfl)
  obtain ⟨s1, hs1, hf⟩ : ∃ s1, s1 =
      (if (baseScaleTo s.toMPxTransformationMatrix bs v space).1.toBool then
        { s with
          toMPxTransformationMatrix := (baseScaleTo s.toMPxTransformationMatrix bs v space).2
          m_scaleTweak := (baseScaleTo s.toMPxTransformationMatrix bs v space).2.scaleValue.sub s.m_scaleFromUsd }
      else { s with toMPxTransformationMatrix :=
        (baseScaleTo s.toMPxTransformationMatrix bs v space).2 }) ∧
      ChannelStep .scale s s1 := by
    refine ⟨_, rfl, ?_⟩
    split_ifs
    · refine channelStep_trans hb (channelStep_push _ _ _ rfl rfl rfl rfl rfl rfl rfl (fun X hX => ?_) rfl (fun _ _ _ => rfl))
      cases X <;> first | exact absurd rfl hX | rfl
    · exact hb
  simp only [scaleTo, insertScaleOp] at h
  by_cases hl : s.scaleLocked = true
  · rw [if_pos hl] at h
    simp only [Option.some.injEq] at h
    rw [← h]; exact hb
  rw [if_neg hl, ← hs1] at h
  refine setter_tail_pred (fun x => ChannelStep .scale s x) s1 _ _ _ _
    (fun s2 => if (!v.isEquivalent s2.m_scaleFromUsd) = true
      then some ((baseScaleTo s.toMPxTransformationMatrix bs v space).1, s2.pushScaleToPrim H)
      else some ((baseScaleTo s.toMPxTransformationMatrix bs v space).1, s2))
    _ hf (fun st2 s2 hi => channelStep_trans hf (channelStep_insertOp _ _ _ _ _ _ _ (by decide) hi))
    (fun t q ht hq => ?_) r h
  dsimp only at hq
  split_ifs at hq <;> simp only [Option.some.injEq] at hq <;>
    first
    | (rw [← hq]
       exact channelStep_trans ht (channelStep_pushScaleToPrim H t))
    | (rw [← hq]
       exact ht)

theorem shearTo_step (H : Host) (s : TransformationMatrix) (bs : MStatus) (v : MVector) (space : MSpace)
    (r : MStatus × TransformationMatrix) (h : s.shearTo H bs v space = some r) :
    ChannelStep .shear s r.2 := by
  have hb : ChannelStep .shear s { s with toMPxTransformationMatrix :=
      (baseShearTo s.toMPxTransformationMatrix bs v space).2 } := by
    refine channelStep_push _ s _ rfl rfl rfl rfl rfl rfl rfl (fun X hX => ?_) rfl (fun _ _ _ => rfl)
    simp only [baseShearTo]
    cases X <;> first | exact absurd rfl hX | (split_ifs <;> rfl)
  obtain ⟨s1, hs1, hf⟩ : ∃ s1, s1 =
      (if (baseShearTo s.toMPxTransformationMatrix bs v space).1.toBool then
        { s with
          toMPxTransformationMatrix := (baseShearTo s.toMPxTransformationMatrix bs v space).2
          m_shearTweak := (baseShearTo s.toMPxTransformationMatrix bs v space).2.shearValue.sub s.m_shearFromUsd }
      else { s with toMPxTransformationMatrix :=
        (baseShearTo s.toMPxTransformationMatrix bs v space).2 }) ∧
      ChannelStep .shear s s1 := by
    refine ⟨_, rfl, ?_⟩
    split_ifs
    · refine channelStep_trans hb (channelStep_push _ _ _ rfl rfl rfl rfl rfl rfl rfl (fun X hX => ?_) rfl (fun _ _ _ => rfl))
      cases X <;> first | exact absurd rfl hX | rfl
    · exact hb
  simp only [shearTo, insertShearOp] at h
  by_cases hl : s.shearLocked = true
  · rw [if_pos hl] at h
    simp only [Option.some.injEq] at h
    rw [← h]; exact hb
  rw [if_neg hl, ← hs1] at h
  refine setter_tail_pred (fun x => ChannelStep .shear s x) s1 _ _ _ _
    (fun s2 => if (!v.isEquivalent s2.m_shearFromUsd) = true
      then some ((baseShearTo s.toMPxTransformationMatrix bs v space).1, s2.pushShearToPrim H)
      else some ((baseShearTo s.toMPxTransformationMatrix bs v space).1, s2))
    _ hf (fun st2 s2 hi => channelStep_trans hf (channelStep_insertOp _ _ _ _ _ _ _ (by decide) hi))
    (fun t q ht hq => ?_) r h
  dsimp only at hq
  split_ifs at hq <;> simp only [Option.some.injEq] at hq <;>
    first
    | (rw [← hq]
       exact channelStep_trans ht (channelStep_pushShearToPrim H t))
    | (rw [← hq]
       exact ht)

theorem setScalePivotTranslation_step (H : Host) (s : TransformationMatrix) (bs : MStatus) (v : MVector) (space : MSpace)
    (r : MStatus × TransformationMatrix) (h : s.setScalePivotTranslation H bs v space = some r) :
    ChannelStep .scalePivotTranslate s r.2 := by
  have hb : ChannelStep .scalePivotTranslate s { s with toMPxTransformationMatrix :=
      (baseSetScalePivotTranslation s.toMPxTransformationMatrix bs v space).2 } := by
    refine channelStep_push _ s _ rfl rfl rfl rfl rfl rfl rfl (fun X hX => ?_) rfl (fun _ _ _ => rfl)
    simp only [baseSetScalePivotTranslation]
    cases X <;> first | exact absurd rfl hX | (split_ifs <;> rfl)
  obtain ⟨s1, hs1, hf⟩ : ∃ s1, s1 =
      (if (baseSetScalePivotTranslation s.toMPxTransformationMatrix bs v space).1.toBool then
        { s with
          toMPxTransformationMatrix := (baseSetScalePivotTranslation s.toMPxTransformationMatrix bs v space).2
          m_scalePivotTranslationTweak := (baseSetScalePivotTranslation s.toMPxTransformationMatrix bs v space).2.scalePivotTranslationValue.sub s.m_scalePivotTranslationFromUsd }
      else { s with toMPxTransformationMatrix :=
        (baseSetScalePivotTranslation s.toMPxTransformationMatrix bs v space).2 }) ∧
      ChannelStep .scalePivotTranslate s s1 := by
    refine ⟨_, rfl, ?_⟩
    split_ifs
    · refine channelStep_trans hb (channelStep_push _ _ _ rfl rfl rfl rfl rfl rfl rfl (fun X hX => ?_) rfl (fun _ _ _ => rfl))
      cases X <;> first | exact absurd rfl hX | rfl
    · exact hb
  simp only [setScalePivotTranslation, insertScalePivotTranslationOp] at h
  rw [← hs1] at h
  refine setter_tail_pred (fun x => ChannelStep .scalePivotTranslate s x) s1 _ _ _ _
    (fun s2 => if (!v.isEquivalent s2.m_scalePivotTranslationFromUsd) = true
      then some ((baseSetScalePivotTranslation s.toMPxTransformationMatrix bs v space).1, s2.pushScalePivotTranslateToPrim H)
      else some ((baseSetScalePivotTranslation s.toMPxTransformationMatrix bs v space).1, s2))
    _ hf (fun st2 s2 hi => channelStep_trans hf (channelStep_insertOp _ _ _ _ _ _ _ (by decide) hi))
    (fun t q ht hq => ?_) r h
  dsimp only at hq
  split_ifs at hq <;> simp only [Option.some.injEq] at hq <;>
    first
    | (rw [← hq]
       exact channelStep_trans ht (channelStep_pushScalePivotTranslateToPrim H t))
    | (rw [← hq]
       exact ht)

theorem setRotatePivotTranslation_step (H : Host) (s : TransformationMatrix) (bs : MStatus) (v : MVector) (space : MSpace)
    (r : MStatus × TransformationMatrix) (h : s.setRotatePivotTranslation H bs v space = some r) :
    ChannelStep .rotatePivotTranslate s r.2 := by
  have hb : ChannelStep .rotatePivotTranslate s { s with toMPxTransformationMatrix :=
      (baseSetRotatePivotTranslation s.toMPxTransformationMatrix bs v space).2 } := by
    refine channelStep_push _ s _ rfl rfl rfl rfl rfl rfl rfl (fun X hX => ?_) rfl (fun _ _ _ => rfl)
    simp only [baseSetRotatePivotTranslation]
    cases X <;> first | exact absurd rfl hX | (split_ifs <;> rfl)
  obtain ⟨s1, hs1, hf⟩ : ∃ s1, s1 =
      (if (baseSetRotatePivotTranslation s.toMPxTransformationMatrix bs v space).1.toBool then
        { s with
          toMPxTransformationMatrix := (baseSetRotatePivotTranslation s.toMPxTransformationMatrix bs v space).2
          m_rotatePivotTranslationTweak := (baseSetRotatePivotTranslation s.toMPxTransformationMatrix bs v space).2.rotatePivotTranslationValue.sub s.m_rotatePivotTranslationFromUsd }
      else { s with toMPxTransformationMatrix :=
        (baseSetRotatePivotTranslation s.toMPxTransformationMatrix bs v space).2 }) ∧
      ChannelStep .rotatePivotTranslate s s1 := by
    refine ⟨_, rfl, ?_⟩
    split_ifs
    · refine channelStep_trans hb (channelStep_push _ _ _ rfl rfl rfl rfl rfl rfl rfl (fun X hX => ?_) rfl (fun _ _ _ => rfl))
      cases X <;> first | exact absurd rfl hX | rfl
    · exact hb
  simp only [setRotatePivotTranslation, insertRotatePivotTranslationOp] at h
  rw [← hs1] at h
  refine setter_tail_pred (fun x => ChannelStep .rotatePivotTranslate s x) s1 _ _ _ _
    (fun s2 => if (!v.isEquivalent s2.m_rotatePivotTranslationFromUsd) = true
      then some ((baseSetRotatePivotTranslation s.toMPxTransformationMatrix bs v space).1, s2.pushRotatePivotTranslateToPrim H)
      else some ((baseSetRotatePivotTranslation s.toMPxTransformationMatrix bs v space).1, s2))
    _ hf (fun st2 s2 hi => channelStep_trans hf (channelStep_insertOp _ _ _ _ _ _ _ (by decide) hi))
    (fun t q ht hq => ?_) r h
  dsimp only at hq
  split_ifs at hq <;> simp only [Option.some.injEq] at hq <;>
    first
    | (rw [← hq]
       exact channelStep_trans ht (channelStep_pushRotatePivotTranslateToPrim H t))
    | (rw [← hq]
       exact ht)

theorem rotateToQuaternion_step (H : Host) (s : TransformationMatrix) (bs : MStatus) (q : MQuaternion) (space : MSpace)
    (r : MStatus × TransformationMatrix) (h : s.rotateToQuaternion H bs q space = some r) :
    ChannelStep .rotate s r.2 := by
  have hb : ChannelStep .rotate s { s with toMPxTransformationMatrix :=
      (baseRotateTo s.toMPxTransformationMatrix bs (H.asEulerRotation q) space).2 } := by
    refine channelStep_push _ s _ rfl rfl rfl rfl rfl rfl rfl (fun X hX => ?_) rfl (fun _ _ _ => rfl)
    simp only [baseRotateTo]
    cases X <;> first | exact absurd rfl hX | (split_ifs <;> rfl)
  obtain ⟨s1, hs1, hf⟩ : ∃ s1, s1 =
      (if (baseRotateTo s.toMPxTransformationMatrix bs (H.asEulerRotation q) space).1.toBool then
        ({ s with toMPxTransformationMatrix :=
          (baseRotateTo s.toMPxTransformationMatrix bs (H.asEulerRotation q) space).2 } :
            TransformationMatrix).updateRotationTweak
      else { s with toMPxTransformationMatrix :=
        (baseRotateTo s.toMPxTransformationMatrix bs (H.asEulerRotation q) space).2 }) ∧
      ChannelStep .rotate s s1 := by
    refine ⟨_, rfl, ?_⟩
    split_ifs
    · refine channelStep_trans hb (channelStep_push _ _ _ rfl rfl rfl rfl rfl rfl rfl (fun X hX => ?_) rfl (fun _ _ _ => rfl))
      cases X <;> first | exact absurd rfl hX | rfl
    · exact hb
  simp only [rotateToQuaternion, insertRotateOp] at h
  by_cases hl : s.rotateLocked = true
  · rw [if_pos hl] at h
    simp only [Option.some.injEq] at h
    rw [← h]; exact hb
  rw [if_neg hl, ← hs1] at h
  refine setter_tail_pred (fun x => ChannelStep .rotate s x) s1 _ _ _ _
    (fun s2 => if s2.m_enableUsdWriteback = true then
        (if (!s2.rotationValue.isEquivalent s2.m_rotationFromUsd) = true
          then some ((baseRotateTo s.toMPxTransformationMatrix bs (H.asEulerRotation q) space).1, s2.pushRotateToPrim H)
          else some ((baseRotateTo s.toMPxTransformationMatrix bs (H.asEulerRotation q) space).1, s2))
      else some ((baseRotateTo s.toMPxTransformationMatrix bs (H.asEulerRotation q) space).1, s2))
    _ hf (fun st2 s2 hi => channelStep_trans hf (channelStep_insertOp _ _ _ _ _ _ _ (by decide) hi))
    (fun t q ht hq => ?_) r h
  dsimp only at hq
  split_ifs at hq <;> simp only [Option.some.injEq] at hq <;>
    first
    | (rw [← hq]
       exact channelStep_trans ht (channelStep_pushRotateToPrim H t))
    | (rw [← hq]
       exact ht)

theorem setRotateOrientation_step (H : Host) (s : TransformationMatrix) (bs : MStatus) (q : MQuaternion) (space : MSpace) (balance : Bool)
    (r : MStatus × TransformationMatrix) (h : s.setRotateOrientation H bs q space balance = some r) :
    ChannelStep .rotateAxis s r.2 := by
  have hb : ChannelStep .rotateAxis s { s with toMPxTransformationMatrix :=
      (baseSetRotateOrientation s.toMPxTransformationMatrix bs q space balance).2 } := by
    refine channelStep_push _ s _ rfl rfl rfl rfl rfl rfl rfl (fun X hX => ?_) rfl (fun _ _ _ => rfl)
    simp only [baseSetRotateOrientation]
    cases X <;> first | exact absurd rfl hX | (split_ifs <;> rfl)
  obtain ⟨s1, hs1, hf⟩ : ∃ s1, s1 =
      (if (baseSetRotateOrientation s.toMPxTransformationMatrix bs q space balance).1.toBool then
        { s with
          toMPxTransformationMatrix := (baseSetRotateOrientation s.toMPxTransformationMatrix bs q space balance).2
          m_rotateOrientationFromUsd :=
            (baseSetRotateOrientation s.toMPxTransformationMatrix bs q space balance).2.rotateOrientationValue.mul s.m_rotateOrientationTweak.inverse }
      else { s with toMPxTransformationMatrix :=
        (baseSetRotateOrientation s.toMPxTransformationMatrix bs q space balance).2 }) ∧
      ChannelStep .rotateAxis s s1 := by
    refine ⟨_, rfl, ?_⟩
    split_ifs
    · refine channelStep_trans hb (channelStep_push _ _ _ rfl rfl rfl rfl rfl rfl rfl (fun X hX => ?_) rfl (fun _ _ _ => rfl))
      cases X <;> first | exact absurd rfl hX | rfl
    · exact hb
  simp only [setRotateOrientation, insertRotateAxesOp] at h
  rw [← hs1] at h
  refine setter_tail_pred (fun x => ChannelStep .rotateAxis s x) s1 _ _ _ _
    (fun s2 => if s2.m_enableUsdWriteback = true
      then some ((baseSetRotateOrientation s.toMPxTransformationMatrix bs q space balance).1, s2.pushRotateAxisToPrim H)
      else some ((baseSetRotateOrientation s.toMPxTransformationMatrix bs q space balance).1, s2))
    _ hf (fun st2 s2 hi => channelStep_trans hf (channelStep_insertOp _ _ _ _ _ _ _ (by decide) hi))
    (fun t q ht hq => ?_) r h
  dsimp only at hq
  split_ifs at hq <;> simp only [Option.some.injEq] at hq <;>
    first
    | (rw [← hq]
       exact channelStep_trans ht (channelStep_pushRotateAxisToPrim H t))
    | (rw [← hq]
       exact ht)

/-- One `if (insert...Pivot)` block of `insertAndPushPivotOp` is a step of the pivot it
inserts. -/
theorem pivotBlock_step (nm : TfToken) (hp : nm ≠ .pivot) (t : TransformationMatrix)
    (push : TransformationMatrix → TransformationMatrix) (q : MStatus × TransformationMatrix)
    (hpush : ∀ u, ChannelStep nm u (push u))
    (hq : (match t.insertOp .TypeTranslate .PrecisionFloat nm (presenceFlagOf nm) false with
        | none => none
        | some (.kFailure, s1) => some (MStatus.kFailure, s1)
        | some (.kSuccess, s1) => some (MStatus.kSuccess, push s1)) = some q) :
    ChannelStep nm t q.2 := by
  split at hq
  · exact absurd hq (by simp)
  · rename_i s1 hi
    simp only [Option.some.injEq] at hq
    rw [← hq]; exact channelStep_insertOp _ _ _ _ _ _ _ hp hi
  · rename_i s1 hi
    simp only [Option.some.injEq] at hq
    rw [← hq]
    exact channelStep_trans (channelStep_insertOp _ _ _ _ _ _ _ hp hi) (hpush s1)

theorem insertPivotOps_scale_step (H : Host) (s : TransformationMatrix)
    (r : MStatus × TransformationMatrix) (h : s.insertPivotOps H true false = some r) :
    ChannelStep .scalePivot s r.2 := by
  simp only [insertPivotOps, insertScalePivotOp, if_true, Bool.false_eq_true, if_false] at h
  split at h
  · exact absurd h (by simp)
  · rename_i s1 heq
    simp only [Option.some.injEq] at h
    rw [← h]
    exact pivotBlock_step .scalePivot (by decide) s (fun u => u.pushScalePivotToPrim H) _
      (channelStep_pushScalePivotToPrim H) heq
  · rename_i s1 heq
    simp only [Option.some.injEq] at h
    rw [← h]
    exact pivotBlock_step .scalePivot (by decide) s (fun u => u.pushScalePivotToPrim H) _
      (channelStep_pushScalePivotToPrim H) heq

theorem insertPivotOps_rotate_step (H : Host) (s : TransformationMatrix)
    (r : MStatus × TransformationMatrix) (h : s.insertPivotOps H false true = some r) :
    ChannelStep .rotatePivot s r.2 := by
  simp only [insertPivotOps, insertRotatePivotOp, if_true, Bool.false_eq_true, if_false] at h
  exact pivotBlock_step .rotatePivot (by decide) s (fun u => u.pushRotatePivotToPrim H) _
    (channelStep_pushRotatePivotToPrim H) h

/-- Without the combined pivot, `insertAndPushPivotOp` of the scale pivot is the scale-pivot
block alone. -/
theorem insertAndPushPivotOp_scale (H : Host) (s : TransformationMatrix)
    (hp : s.primHasPivot = false) :
    s.insertAndPushPivotOp H .scalePivot = s.insertPivotOps H true false := by
  simp [insertAndPushPivotOp, hp]

theorem insertAndPushPivotOp_rotate (H : Host) (s : TransformationMatrix)
    (hp : s.primHasPivot = false) :
    s.insertAndPushPivotOp H .rotatePivot = s.insertPivotOps H false true := by
  simp [insertAndPushPivotOp, hp]

theorem setScalePivot_step (H : Host) (s : TransformationMatrix) (bs : MStatus) (sp : MPoint)
    (space : MSpace) (balance : Bool)
    (r : MStatus × TransformationMatrix) (h : s.setScalePivot H bs sp space balance = some r) :
    ChannelStep .scalePivot s r.2 := by
  have hb : ChannelStep .scalePivot s { s with toMPxTransformationMatrix :=
      (baseSetScalePivot s.toMPxTransformationMatrix bs sp space balance).2 } := by
    refine channelStep_push _ s _ rfl rfl rfl rfl rfl rfl rfl (fun X hX => ?_) rfl (fun _ _ _ => rfl)
    simp only [baseSetScalePivot]
    cases X <;> first | exact absurd rfl hX | (split_ifs <;> rfl)
  obtain ⟨s1, hs1, hf⟩ : ∃ s1, s1 =
      (if (baseSetScalePivot s.toMPxTransformationMatrix bs sp space balance).1.toBool then
        { s with
          toMPxTransformationMatrix :=
            (baseSetScalePivot s.toMPxTransformationMatrix bs sp space balance).2
          m_scalePivotTweak :=
            (baseSetScalePivot s.toMPxTransformationMatrix bs sp space
              balance).2.scalePivotValue.sub s.m_scalePivotFromUsd }
      else { s with toMPxTransformationMatrix :=
        (baseSetScalePivot s.toMPxTransformationMatrix bs sp space balance).2 }) ∧
      ChannelStep .scalePivot s s1 := by
    refine ⟨_, rfl, ?_⟩
    split_ifs
    · refine channelStep_trans hb (channelStep_push _ _ _ rfl rfl rfl rfl rfl rfl rfl (fun X hX => ?_) rfl (fun _ _ _ => rfl))
      cases X <;> first | exact absurd rfl hX | rfl
    · exact hb
  simp only [setScalePivot] at h
  rw [← hs1] at h
  split_ifs at h
  · intro hr
    rw [insertAndPushPivotOp_scale H s1 (hf hr).1.2.2.2.1] at h
    exact channelStep_trans hf (insertPivotOps_scale_step H s1 r h) hr
  · simp only [Option.some.injEq] at h
    rw [← h]
    exact channelStep_trans hf (channelStep_pushScalePivotToPrim H s1)
  · simp only [Option.some.injEq] at h
    rw [← h]; exact hf
  · simp only [Option.some.injEq] at h
    rw [← h]; exact hf

theorem setRotatePivot_step (H : Host) (s : TransformationMatrix) (bs : MStatus) (sp : MPoint)
    (space : MSpace) (balance : Bool)
    (r : MStatus × TransformationMatrix) (h : s.setRotatePivot H bs sp space balance = some r) :
    ChannelStep .rotatePivot s r.2 := by
  have hb : ChannelStep .rotatePivot s { s with toMPxTransformationMatrix :=
      (baseSetRotatePivot s.toMPxTransformationMatrix bs sp space balance).2 } := by
    refine channelStep_push _ s _ rfl rfl rfl rfl rfl rfl rfl (fun X hX => ?_) rfl (fun _ _ _ => rfl)
    simp only [baseSetRotatePivot]
    cases X <;> first | exact absurd rfl hX | (split_ifs <;> rfl)
  obtain ⟨s1, hs1, hf⟩ : ∃ s1, s1 =
      (if (baseSetRotatePivot s.toMPxTransformationMatrix bs sp space balance).1.toBool then
        { s with
          toMPxTransformationMatrix :=
            (baseSetRotatePivot s.toMPxTransformationMatrix bs sp space balance).2
          m_rotatePivotTweak :=
            (baseSetRotatePivot s.toMPxTransformationMatrix bs sp space
              balance).2.rotatePivotValue.sub s.m_rotatePivotFromUsd }
      else { s with toMPxTransformationMatrix :=
        (baseSetRotatePivot s.toMPxTransformationMatrix bs sp space balance).2 }) ∧
      ChannelStep .rotatePivot s s1 := by
    refine ⟨_, rfl, ?_⟩
    split_ifs
    · refine channelStep_trans hb (channelStep_push _ _ _ rfl rfl rfl rfl rfl rfl rfl (fun X hX => ?_) rfl (fun _ _ _ => rfl))
      cases X <;> first | exact absurd rfl hX | rfl
    · exact hb
  simp only [setRotatePivot] at h
  rw [← hs1] at h
  split_ifs at h
  · intro hr
    rw [insertAndPushPivotOp_rotate H s1 (hf hr).1.2.2.2.1] at h
    exact channelStep_trans hf (insertPivotOps_rotate_step H s1 r h) hr
  · simp only [Option.some.injEq] at h
    rw [← h]
    exact channelStep_trans hf (channelStep_pushRotatePivotToPrim H s1)
  · simp only [Option.some.injEq] at h
    rw [← h]; exact hf
  · simp only [Option.some.injEq] at h
    rw [← h]; exact hf

/-- On an engine that is `SweepReady`, no classification of `m_orderedOps` carries a name that
no operator of `m_xformops` carries. -/
theorem orderedOps_unlisted (t : TransformationMatrix) (hr : SweepReady t) (nm : TfToken)
    (hu : ∀ op ∈ t.m_xformops, op.name ≠ nm) :
    ∀ k (hk : k < t.m_orderedOps.length), decide (t.m_orderedOps[k].name = nm) = false := by
  intro k hk
  have hk2 : k < t.m_xformops.length := by rw [hr.1]; exact hk
  have hmem : (t.m_orderedOps[k], t.m_xformops[k]) ∈ t.m_orderedOps.zip t.m_xformops := by
    have hz : k < (t.m_orderedOps.zip t.m_xformops).length := by
      rw [List.length_zip]; omega
    have := List.getElem_mem hz
    rwa [List.getElem_zip] at this
  have h1 := hr.2.2.1 _ hmem
  simp only at h1
  have h2 := hu _ (List.getElem_mem hk2)
  rw [h1] at h2
  simpa using h2

/-- The state after the insertion of an operator without a twin whose name is new to the prim
and to the engine and that has no attribute on the prim yet: the insertion succeeds, the
lockstep walk finds the new operator, and its attribute is the one `AddXformOp` created, of the
value type of the operator type and precision, without a value. -/
theorem insertOp_single_fresh (t : TransformationMatrix) (ty : XformOpType) (pr : Precision)
    (nm : TfToken) (flag : Flags) (beg : Bool) (vty : UsdDataType)
    (hp : (MayaStack.FindOpIndexPair nm).2 = NO_INDEX)
    (hc : (MayaStack.ops[(MayaStack.FindOpIndexPair nm).1]?).isSome = true)
    (hr : SweepReady t) (hv : t.primValid = true) (hu : Unlisted nm t)
    (hattr : t.stage.attrs.lookup (ty, nm) = none)
    (hty : GetValueTypeName ty pr = some vty) :
    ∃ t', t.insertOp ty pr nm flag beg = some (.kSuccess, t') ∧
      t'.findOp nm = some ⟨ty, nm, false⟩ ∧
      (UsdGeomXformOp.mk ty nm false).GetAttr t'.stage = some ⟨vty, [⟨none, []⟩]⟩ := by
  obtain ⟨c1, hc1⟩ := Option.isSome_iff_exists.1 hc
  have hi1 := mayaStack_primary nm c1 hc1
  have hn1 := (mayaStack_name nm c1).1 hc1
  obtain ⟨t', ht'⟩ := insertOp_accepted t ty pr nm flag beg c1 hc1 hi1
    (fun h => absurd hp h) hr.1 hr.2.1 hv (by rw [hty]; rfl) hu.1
  refine ⟨t', ht', ?_⟩
  obtain ⟨b1, b2, b3, b4⟩ := buildOrderedOpMayaIndices_frame t
  rcases insertOp_cases _ _ _ _ _ _ _ _ ht' with ⟨_, r, s2, ha, hh | hh⟩ | ⟨hne, _⟩
  · exact absurd hh.2.1 (by decide)
  · obtain ⟨cls, hcls, k | ⟨p, _, _, hp1, hp2, _, _, k⟩⟩ := addOp_cases _ _ _ _ _ _ _ _ ha
    · exact absurd k.1 hh.1
    · rw [hc1] at hcls
      simp only [Option.some.injEq] at hcls
      subst hcls
      rw [hh.2.2, k]
      rw [b1] at hp1
      rw [b2] at hp2
      have hfresh : (⟨ty, nm, false⟩ : UsdGeomXformOp) ∉ t.stage.xformOpOrder :=
        fun hm => hu.1 _ hm rfl
      have hadd := AddXformOp_fresh t.stage ty pr nm false vty hfresh hattr hty
      refine ⟨?_, ?_⟩
      · simp only [findOp, insertDone, b1, b2, hi1]
        rw [find_zip_insertIdx (fun c => decide (c.name = nm)) c1 _ (by simpa using hn1) p _ _
          hp1 hp2 (fun k hk _ => orderedOps_unlisted t hr nm hu.2 k hk)]
        rfl
      · simp only [insertDone, SetXformOpOrder, UsdGeomXformOp.GetAttr, b4, primValid_build, hv,
          hi1, hadd]
        exact lookup_append_single _ _ _ hattr
  · exact absurd hp hne

theorem translateTo_holds (H : Host) (t : TransformationMatrix) (op : UsdGeomXformOp)
    (vty : UsdDataType) (hr : SweepReady t) (hav : t.pushToPrimAvailable = true)
    (hl : t.translateLocked = false)
    (hg : t.translationValue.isEquivalent t.m_translationFromUsd = false)
    (hrd : VectorReady t .translate .TypeTranslate MVector.zero t.translationValue readVector
      op vty) :
    ∃ r, t.translateTo H .kSuccess t.translationValue .kTransform = some (.kSuccess, r) ∧
      r.translationValue = t.translationValue ∧
      VectorHeld H r .translate readVector op vty t.translationValue := by
  obtain ⟨s1, hs1, hs1'⟩ : ∃ s1, s1 =
      (if (baseTranslateTo t.toMPxTransformationMatrix .kSuccess t.translationValue .kTransform).1.toBool then
        { t with
          toMPxTransformationMatrix :=
            (baseTranslateTo t.toMPxTransformationMatrix .kSuccess t.translationValue .kTransform).2
          m_translationTweak :=
            (baseTranslateTo t.toMPxTransformationMatrix .kSuccess t.translationValue .kTransform).2.translationValue.sub
              t.m_translationFromUsd }
      else { t with toMPxTransformationMatrix :=
        (baseTranslateTo t.toMPxTransformationMatrix .kSuccess t.translationValue .kTransform).2 }) ∧
      s1 = ({ t with
        m_translationTweak := t.translationValue.sub t.m_translationFromUsd } :
          TransformationMatrix) := ⟨_, rfl, rfl⟩
  have hst : (baseTranslateTo t.toMPxTransformationMatrix .kSuccess t.translationValue .kTransform).1
      = .kSuccess := rfl
  simp only [translateTo, hl, Bool.false_eq_true, if_false, insertTranslateOp]
  simp only [hl] at hs1
  rw [← hs1, hst]
  clear hs1 hst
  have hr1 : SweepReady s1 := by rw [hs1']; exact hr
  have hv : t.primValid = true := by
    simp only [pushToPrimAvailable, Bool.and_eq_true] at hav
    exact hav.2
  have e1 : s1.pushToPrimAvailable = true := by rw [hs1']; exact hav
  have e4 : s1.pushPrimToMatrix = false := by rw [hs1']; exact hr.2.2.2.2
  have key : ∀ s2 : TransformationMatrix, s2.findOp .translate = some op →
      WriteAccepted s2 op vec3Types → vty = op.GetTypeName s2.stage →
      (s2.internal_readVector MVector.zero op).2.isEquivalent s2.translationValue = false →
      s2.translationValue = t.translationValue →
      (s2.pushTranslateToPrim H).translationValue = t.translationValue ∧
      VectorHeld H (s2.pushTranslateToPrim H) .translate readVector op vty
        t.translationValue := by
    intro s2 hf hacc hty hch hlive
    obtain ⟨_, _, g3, g4⟩ := pushTranslateToPrim_stored H s2 op MVector.zero hf hacc hch
    have hn := noInsertion_pushTranslateToPrim H s2
    refine ⟨?_, ?_, ?_⟩
    · rw [← hlive]
      simp only [pushTranslateToPrim, hf, hch, Bool.not_false, if_true]
    · simp only [findOp, hn.1, hn.2.1]
      exact hf
    · rw [g3, g4, hty, hlive]
      exact storeHolds_of_read _ _ _ _ rfl
  rcases hrd with ⟨hfl, hf, hacc, hty, hch⟩ | ⟨hfl, hu, hattr, hop, hty, hch⟩
  · refine ⟨s1.pushTranslateToPrim H, ?_, key s1 ?_ ?_ ?_ ?_ ?_⟩
    · have e2 : s1.primHasTranslation = true := by rw [hs1']; exact hfl
      have e3 : s1.m_translationFromUsd = t.m_translationFromUsd := by rw [hs1']
      simp only [e1, e2, if_true, e3, hg, Bool.not_false]
    · rw [hs1']; exact hf
    · rw [hs1']; exact hacc
    · rw [hs1']; exact hty
    · rw [hs1']; exact hch
    · rw [hs1']
  · obtain ⟨t', ht', hf', ha'⟩ := insertOp_single_fresh s1 .TypeTranslate .PrecisionFloat
      .translate kPrimHasTranslation true .kVec3f (by decide) (by decide) hr1
      (by rw [hs1']; exact hv) (by rw [hs1']; exact hu) (by rw [hs1']; exact hattr) rfl
    have hst := withStructureOf_insertOp _ _ _ _ _ _ _ _ ht'
    have hne : t.translationValue ≠ MVector.zero := by
      intro e
      rw [e, MVector.isEquivalent_refl] at hch
      exact absurd hch (by decide)
    have hlive : t'.translationValue = t.translationValue := by
      rw [hst, hs1']; rfl
    have hfrom : t'.m_translationFromUsd = t.m_translationFromUsd := by
      rw [hst, hs1']; rfl
    refine ⟨t'.pushTranslateToPrim H, ?_, key t' ?_ ?_ ?_ ?_ hlive⟩
    · have e2 : s1.primHasTranslation = false := by rw [hs1']; exact hfl
      simp only [e1, e2, e4, if_true, Bool.false_eq_true, if_false, Bool.not_false,
        Bool.true_and, decide_eq_true_eq, hne, ne_eq, not_false_eq_true, ht',
        hfrom, hg]
    · rw [hop]; exact hf'
    · rw [hop]
      refine ⟨rfl, timeSampleGate_fresh _ _ _ _ ha', ?_⟩
      simp only [UsdGeomXformOp.GetTypeName, ha']
      decide
    · rw [hop, hty]
      simp only [UsdGeomXformOp.GetTypeName, ha']
    · rw [hop, hlive]
      simp only [internal_readVector, readVector_fresh _ _ _ _ _ ha']
      exact hch

theorem scaleTo_holds (H : Host) (t : TransformationMatrix) (op : UsdGeomXformOp)
    (vty : UsdDataType) (hr : SweepReady t) (hav : t.pushToPrimAvailable = true)
    (hl : t.scaleLocked = false)
    (hg : t.scaleValue.isEquivalent t.m_scaleFromUsd = false)
    (hrd : VectorReady t .scale .TypeScale MVector.one t.scaleValue readVector
      op vty) :
    ∃ r, t.scaleTo H .kSuccess t.scaleValue .kTransform = some (.kSuccess, r) ∧
      r.scaleValue = t.scaleValue ∧
      VectorHeld H r .scale readVector op vty t.scaleValue := by
  obtain ⟨s1, hs1, hs1'⟩ : ∃ s1, s1 =
      (if (baseScaleTo t.toMPxTransformationMatrix .kSuccess t.scaleValue .kTransform).1.toBool then
        { t with
          toMPxTransformationMatrix :=
            (baseScaleTo t.toMPxTransformationMatrix .kSuccess t.scaleValue .kTransform).2
          m_scaleTweak :=
            (baseScaleTo t.toMPxTransformationMatrix .kSuccess t.scaleValue .kTransform).2.scaleValue.sub
              t.m_scaleFromUsd }
      else { t with toMPxTransformationMatrix :=
        (baseScaleTo t.toMPxTransformationMatrix .kSuccess t.scaleValue .kTransform).2 }) ∧
      s1 = ({ t with
        m_scaleTweak := t.scaleValue.sub t.m_scaleFromUsd } :
          TransformationMatrix) := ⟨_, rfl, rfl⟩
  have hst : (baseScaleTo t.toMPxTransformationMatrix .kSuccess t.scaleValue .kTransform).1
      = .kSuccess := rfl
  simp only [scaleTo, hl, Bool.false_eq_true, if_false, insertScaleOp]
  simp only [hl] at hs1
  rw [← hs1, hst]
  clear hs1 hst
  have hr1 : SweepReady s1 := by rw [hs1']; exact hr
  have hv : t.primValid = true := by
    simp only [pushToPrimAvailable, Bool.and_eq_true] at hav
    exact hav.2
  have e1 : s1.pushToPrimAvailable = true := by rw [hs1']; exact hav
  have e4 : s1.pushPrimToMatrix = false := by rw [hs1']; exact hr.2.2.2.2
  have key : ∀ s2 : TransformationMatrix, s2.findOp .scale = some op →
      WriteAccepted s2 op vec3Types → vty = op.GetTypeName s2.stage →
      (s2.internal_readVector MVector.one op).2.isEquivalent s2.scaleValue = false →
      s2.scaleValue = t.scaleValue →
      (s2.pushScaleToPrim H).scaleValue = t.scaleValue ∧
      VectorHeld H (s2.pushScaleToPrim H) .scale readVector op vty
        t.scaleValue := by
    intro s2 hf hacc hty hch hlive
    obtain ⟨_, _, g3, g4⟩ := pushScaleToPrim_stored H s2 op MVector.zero hf hacc hch
    have hn := noInsertion_pushScaleToPrim H s2
    refine ⟨?_, ?_, ?_⟩
    · rw [← hlive]
      simp only [pushScaleToPrim, hf, hch, Bool.not_false, if_true]
    · simp only [findOp, hn.1, hn.2.1]
      exact hf
    · rw [g3, g4, hty, hlive]
      exact storeHolds_of_read _ _ _ _ rfl
  rcases hrd with ⟨hfl, hf, hacc, hty, hch⟩ | ⟨hfl, hu, hattr, hop, hty, hch⟩
  · refine ⟨s1.pushScaleToPrim H, ?_, key s1 ?_ ?_ ?_ ?_ ?_⟩
    · have e2 : s1.primHasScale = true := by rw [hs1']; exact hfl
      have e3 : s1.m_scaleFromUsd = t.m_scaleFromUsd := by rw [hs1']
      simp only [e1, e2, if_true, e3, hg, Bool.not_false]
    · rw [hs1']; exact hf
    · rw [hs1']; exact hacc
    · rw [hs1']; exact hty
    · rw [hs1']; exact hch
    · rw [hs1']
  · obtain ⟨t', ht', hf', ha'⟩ := insertOp_single_fresh s1 .TypeScale .PrecisionFloat
      .scale kPrimHasScale false .kVec3f (by decide) (by decide) hr1
      (by rw [hs1']; exact hv) (by rw [hs1']; exact hu) (by rw [hs1']; exact hattr) rfl
    have hst := withStructureOf_insertOp _ _ _ _ _ _ _ _ ht'
    have hne : t.scaleValue ≠ MVector.one := by
      intro e
      rw [e, MVector.isEquivalent_refl] at hch
      exact absurd hch (by decide)
    have hlive : t'.scaleValue = t.scaleValue := by
      rw [hst, hs1']; rfl
    have hfrom : t'.m_scaleFromUsd = t.m_scaleFromUsd := by
      rw [hst, hs1']; rfl
    refine ⟨t'.pushScaleToPrim H, ?_, key t' ?_ ?_ ?_ ?_ hlive⟩
    · have e2 : s1.primHasScale = false := by rw [hs1']; exact hfl
      simp only [e1, e2, e4, if_true, Bool.false_eq_true, if_false, Bool.not_false,
        Bool.true_and, decide_eq_true_eq, hne, ne_eq, not_false_eq_true, ht',
        hfrom, hg]
    · rw [hop]; exact hf'
    · rw [hop]
      refine ⟨rfl, timeSampleGate_fresh _ _ _ _ ha', ?_⟩
      simp only [UsdGeomXformOp.GetTypeName, ha']
      decide
    · rw [hop, hty]
      simp only [UsdGeomXformOp.GetTypeName, ha']
    · rw [hop, hlive]
      simp only [internal_readVector, readVector_fresh _ _ _ _ _ ha']
      exact hch

theorem setScalePivotTranslation_holds (H : Host) (t : TransformationMatrix) (op : UsdGeomXformOp)
    (vty : UsdDataType) (hr : SweepReady t) (hav : t.pushToPrimAvailable = true)
    (hg : t.scalePivotTranslationValue.isEquivalent t.m_scalePivotTranslationFromUsd = false)
    (hrd : VectorReady t .scalePivotTranslate .TypeTranslate MVector.zero t.scalePivotTranslationValue readVector
      op vty) :
    ∃ r, t.setScalePivotTranslation H .kSuccess t.scalePivotTranslationValue .kTransform = some (.kSuccess, r) ∧
      r.scalePivotTranslationValue = t.scalePivotTranslationValue ∧
      VectorHeld H r .scalePivotTranslate readVector op vty t.scalePivotTranslationValue := by
  obtain ⟨s1, hs1, hs1'⟩ : ∃ s1, s1 =
      (if (baseSetScalePivotTranslation t.toMPxTransformationMatrix .kSuccess t.scalePivotTranslationValue .kTransform).1.toBool then
        { t with
          toMPxTransformationMatrix :=
            (baseSetScalePivotTranslation t.toMPxTransformationMatrix .kSuccess t.scalePivotTranslationValue .kTransform).2
          m_scalePivotTranslationTweak :=
            (baseSetScalePivotTranslation t.toMPxTransformationMatrix .kSuccess t.scalePivotTranslationValue .kTransform).2.scalePivotTranslationValue.sub
              t.m_scalePivotTranslationFromUsd }
      else { t with toMPxTransformationMatrix :=
        (baseSetScalePivotTranslation t.toMPxTransformationMatrix .kSuccess t.scalePivotTranslationValue .kTransform).2 }) ∧
      s1 = ({ t with
        m_scalePivotTranslationTweak := t.scalePivotTranslationValue.sub t.m_scalePivotTranslationFromUsd } :
          TransformationMatrix) := ⟨_, rfl, rfl⟩
  have hst : (baseSetScalePivotTranslation t.toMPxTransformationMatrix .kSuccess t.scalePivotTranslationValue .kTransform).1
      = .kSuccess := rfl
  simp only [setScalePivotTranslation, insertScalePivotTranslationOp]
  rw [← hs1, hst]
  clear hs1 hst
  have hr1 : SweepReady s1 := by rw [hs1']; exact hr
  have hv : t.primValid = true := by
    simp only [pushToPrimAvailable, Bool.and_eq_true] at hav
    exact hav.2
  have e1 : s1.pushToPrimAvailable = true := by rw [hs1']; exact hav
  have e4 : s1.pushPrimToMatrix = false := by rw [hs1']; exact hr.2.2.2.2
  have key : ∀ s2 : TransformationMatrix, s2.findOp .scalePivotTranslate = some op →
      WriteAccepted s2 op vec3Types → vty = op.GetTypeName s2.stage →
      (s2.internal_readVector MVector.zero op).2.isEquivalent s2.scalePivotTranslationValue = false →
      s2.scalePivotTranslationValue = t.scalePivotTranslationValue →
      (s2.pushScalePivotTranslateToPrim H).scalePivotTranslationValue = t.scalePivotTranslationValue ∧
      VectorHeld H (s2.pushScalePivotTranslateToPrim H) .scalePivotTranslate readVector op vty
        t.scalePivotTranslationValue := by
    intro s2 hf hacc hty hch hlive
    obtain ⟨_, _, g3, g4⟩ := pushScalePivotTranslateToPrim_stored H s2 op MVector.zero hf hacc hch
    have hn := noInsertion_pushScalePivotTranslateToPrim H s2
    refine ⟨?_, ?_, ?_⟩
    · rw [← hlive]
      simp only [pushScalePivotTranslateToPrim, hf, hch, Bool.not_false, if_true]
    · simp only [findOp, hn.1, hn.2.1]
      exact hf
    · rw [g3, g4, hty, hlive]
      exact storeHolds_of_read _ _ _ _ rfl
  rcases hrd with ⟨hfl, hf, hacc, hty, hch⟩ | ⟨hfl, hu, hattr, hop, hty, hch⟩
  · refine ⟨s1.pushScalePivotTranslateToPrim H, ?_, key s1 ?_ ?_ ?_ ?_ ?_⟩
    · have e2 : s1.primHasScalePivotTranslate = true := by rw [hs1']; exact hfl
      have e3 : s1.m_scalePivotTranslationFromUsd = t.m_scalePivotTranslationFromUsd := by rw [hs1']
      simp only [e1, e2, if_true, e3, hg, Bool.not_false]
    · rw [hs1']; exact hf
    · rw [hs1']; exact hacc
    · rw [hs1']; exact hty
    · rw [hs1']; exact hch
    · rw [hs1']
  · obtain ⟨t', ht', hf', ha'⟩ := insertOp_single_fresh s1 .TypeTranslate .PrecisionFloat
      .scalePivotTranslate kPrimHasScalePivotTranslate false .kVec3f (by decide) (by decide) hr1
      (by rw [hs1']; exact hv) (by rw [hs1']; exact hu) (by rw [hs1']; exact hattr) rfl
    have hst := withStructureOf_insertOp _ _ _ _ _ _ _ _ ht'
    have hne : t.scalePivotTranslationValue ≠ MVector.zero := by
      intro e
      rw [e, MVector.isEquivalent_refl] at hch
      exact absurd hch (by decide)
    have hlive : t'.scalePivotTranslationValue = t.scalePivotTranslationValue := by
      rw [hst, hs1']; rfl
    have hfrom : t'.m_scalePivotTranslationFromUsd = t.m_scalePivotTranslationFromUsd := by
      rw [hst, hs1']; rfl
    refine ⟨t'.pushScalePivotTranslateToPrim H, ?_, key t' ?_ ?_ ?_ ?_ hlive⟩
    · have e2 : s1.primHasScalePivotTranslate = false := by rw [hs1']; exact hfl
      simp only [e1, e2, e4, if_true, Bool.false_eq_true, if_false, Bool.not_false,
        Bool.true_and, decide_eq_true_eq, hne, ne_eq, not_false_eq_true, ht',
        hfrom, hg]
    · rw [hop]; exact hf'
    · rw [hop]
      refine ⟨rfl, timeSampleGate_fresh _ _ _ _ ha', ?_⟩
      simp only [UsdGeomXformOp.GetTypeName, ha']
      decide
    · rw [hop, hty]
      simp only [UsdGeomXformOp.GetTypeName, ha']
    · rw [hop, hlive]
      simp only [internal_readVector, readVector_fresh _ _ _ _ _ ha']
      exact hch

theorem setRotatePivotTranslation_holds (H : Host) (t : TransformationMatrix) (op : UsdGeomXformOp)
    (vty : UsdDataType) (hr : SweepReady t) (hav : t.pushToPrimAvailable = true)
    (hg : t.rotatePivotTranslationValue.isEquivalent t.m_rotatePivotTranslationFromUsd = false)
    (hrd : VectorReady t .rotatePivotTranslate .TypeTranslate MVector.zero t.rotatePivotTranslationValue readVector
      op vty) :
    ∃ r, t.setRotatePivotTranslation H .kSuccess t.rotatePivotTranslationValue .kTransform = some (.kSuccess, r) ∧
      r.rotatePivotTranslationValue = t.rotatePivotTranslationValue ∧
      VectorHeld H r .rotatePivotTranslate readVector op vty t.rotatePivotTranslationValue := by
  obtain ⟨s1, hs1, hs1'⟩ : ∃ s1, s1 =
      (if (baseSetRotatePivotTranslation t.toMPxTransformationMatrix .kSuccess t.rotatePivotTranslationValue .kTransform).1.toBool then
        { t with
          toMPxTransformationMatrix :=
            (baseSetRotatePivotTranslation t.toMPxTransformationMatrix .kSuccess t.rotatePivotTranslationValue .kTransform).2
          m_rotatePivotTranslationTweak :=
            (baseSetRotatePivotTranslation t.toMPxTransformationMatrix .kSuccess t.rotatePivotTranslationValue .kTransform).2.rotatePivotTranslationValue.sub
              t.m_rotatePivotTranslationFromUsd }
      else { t with toMPxTransformationMatrix :=
        (baseSetRotatePivotTranslation t.toMPxTransformationMatrix .kSuccess t.rotatePivotTranslationValue .kTransform).2 }) ∧
      s1 = ({ t with
        m_rotatePivotTranslationTweak := t.rotatePivotTranslationValue.sub t.m_rotatePivotTranslationFromUsd } :
          TransformationMatrix) := ⟨_, rfl, rfl⟩
  have hst : (baseSetRotatePivotTranslation t.toMPxTransformationMatrix .kSuccess t.rotatePivotTranslationValue .kTransform).1
      = .kSuccess := rfl
  simp only [setRotatePivotTranslation, insertRotatePivotTranslationOp]
  rw [← hs1, hst]
  clear hs1 hst
  have hr1 : SweepReady s1 := by rw [hs1']; exact hr
  have hv : t.primValid = true := by
    simp only [pushToPrimAvailable, Bool.and_eq_true] at hav
    exact hav.2
  have e1 : s1.pushToPrimAvailable = true := by rw [hs1']; exact hav
  have e4 : s1.pushPrimToMatrix = false := by rw [hs1']; exact hr.2.2.2.2
  have key : ∀ s2 : TransformationMatrix, s2.findOp .rotatePivotTranslate = some op →
      WriteAccepted s2 op vec3Types → vty = op.GetTypeName s2.stage →
      (s2.internal_readVector MVector.zero op).2.isEquivalent s2.rotatePivotTranslationValue = false →
      s2.rotatePivotTranslationValue = t.rotatePivotTranslationValue →
      (s2.pushRotatePivotTranslateToPrim H).rotatePivotTranslationValue = t.rotatePivotTranslationValue ∧
      VectorHeld H (s2.pushRotatePivotTranslateToPrim H) .rotatePivotTranslate readVector op vty
        t.rotatePivotTranslationValue := by
    intro s2 hf hacc hty hch hlive
    obtain ⟨_, _, g3, g4⟩ := pushRotatePivotTranslateToPrim_stored H s2 op MVector.zero hf hacc hch
    have hn := noInsertion_pushRotatePivotTranslateToPrim H s2
    refine ⟨?_, ?_, ?_⟩
    · rw [← hlive]
      simp only [pushRotatePivotTranslateToPrim, hf, hch, Bool.not_false, if_true]
    · simp only [findOp, hn.1, hn.2.1]
      exact hf
    · rw [g3, g4, hty, hlive]
      exact storeHolds_of_read _ _ _ _ rfl
  rcases hrd with ⟨hfl, hf, hacc, hty, hch⟩ | ⟨hfl, hu, hattr, hop, hty, hch⟩
  · refine ⟨s1.pushRotatePivotTranslateToPrim H, ?_, key s1 ?_ ?_ ?_ ?_ ?_⟩
    · have e2 : s1.primHasRotatePivotTranslate = true := by rw [hs1']; exact hfl
      have e3 : s1.m_rotatePivotTranslationFromUsd = t.m_rotatePivotTranslationFromUsd := by rw [hs1']
      simp only [e1, e2, if_true, e3, hg, Bool.not_false]
    · rw [hs1']; exact hf
    · rw [hs1']; exact hacc
    · rw [hs1']; exact hty
    · rw [hs1']; exact hch
    · rw [hs1']
  · obtain ⟨t', ht', hf', ha'⟩ := insertOp_single_fresh s1 .TypeTranslate .PrecisionFloat
      .rotatePivotTranslate kPrimHasRotatePivotTranslate false .kVec3f (by decide) (by decide) hr1
      (by rw [hs1']; exact hv) (by rw [hs1']; exact hu) (by rw [hs1']; exact hattr) rfl
    have hst := withStructureOf_insertOp _ _ _ _ _ _ _ _ ht'
    have hne : t.rotatePivotTranslationValue ≠ MVector.zero := by
      intro e
      rw [e, MVector.isEquivalent_refl] at hch
      exact absurd hch (by decide)
    have hlive : t'.rotatePivotTranslationValue = t.rotatePivotTranslationValue := by
      rw [hst, hs1']; rfl
    have hfrom : t'.m_rotatePivotTranslationFromUsd = t.m_rotatePivotTranslationFromUsd := by
      rw [hst, hs1']; rfl
    refine ⟨t'.pushRotatePivotTranslateToPrim H, ?_, key t' ?_ ?_ ?_ ?_ hlive⟩
    · have e2 : s1.primHasRotatePivotTranslate = false := by rw [hs1']; exact hfl
      simp only [e1, e2, e4, if_true, Bool.false_eq_true, if_false, Bool.not_false,
        Bool.true_and, decide_eq_true_eq, hne, ne_eq, not_false_eq_true, ht',
        hfrom, hg]
    · rw [hop]; exact hf'
    · rw [hop]
      refine ⟨rfl, timeSampleGate_fresh _ _ _ _ ha', ?_⟩
      simp only [UsdGeomXformOp.GetTypeName, ha']
      decide
    · rw [hop, hty]
      simp only [UsdGeomXformOp.GetTypeName, ha']
    · rw [hop, hlive]
      simp only [internal_readVector, readVector_fresh _ _ _ _ _ ha']
      exact hch

/-- The state after the insertion of a pivot pair whose name is new to the prim and to the
engine and that has no attribute on the prim yet: the insertion succeeds, the lockstep walk finds
the primary operator, whose attribute is the float-precision one `AddXformOp` created, without a
value; the members of the engine outside the operator lists, the flags and the store are as
before. -/
theorem insertOp_twin_fresh (t : TransformationMatrix) (nm : TfToken) (flag : Flags)
    (hnm : nm = .scalePivot ∨ nm = .rotatePivot)
    (hr : SweepReady t) (hv : t.primValid = true) (hu : Unlisted nm t)
    (hattr : t.stage.attrs.lookup (.TypeTranslate, nm) = none) :
    ∃ t', t.insertOp .TypeTranslate .PrecisionFloat nm flag false = some (.kSuccess, t') ∧
      t'.findOp nm = some ⟨.TypeTranslate, nm, false⟩ ∧
      (UsdGeomXformOp.mk .TypeTranslate nm false).GetAttr t'.stage
        = some ⟨.kVec3f, [⟨none, []⟩]⟩ := by
  have hcnt : countNamed nm t.m_orderedOps = 0 := by
    unfold countNamed
    rw [List.countP_eq_zero]
    intro a ha
    obtain ⟨k, hk, rfl⟩ := List.getElem_of_mem ha
    have := orderedOps_unlisted t hr nm hu.2 k hk
    simpa using this
  have ho : ∀ b, (⟨.TypeTranslate, nm, b⟩ : UsdGeomXformOp) ∉ t.stage.xformOpOrder :=
    fun b hm => hu.1 _ hm rfl
  rcases hnm with rfl | rfl
  · obtain ⟨t', h1, _, _, _, _, _, _, _, _, _, h10, h11⟩ := insertOp_twin_spec t .scalePivot flag
      7 10 ⟨.scalePivot, .TypeTranslate, false⟩ ⟨.scalePivot, .TypeTranslate, true⟩ (by decide) (by decide) (by decide) (by decide) rfl rfl (by decide) rfl hr.1
      hr.2.1 hv (ho false) (ho true) hattr hcnt
    refine ⟨t', h1, h11, ?_⟩
    simp only [UsdGeomXformOp.GetAttr, h10]
    exact lookup_append_single _ _ _ hattr
  · obtain ⟨t', h1, _, _, _, _, _, _, _, _, _, h10, h11⟩ := insertOp_twin_spec t .rotatePivot flag
      2 5 ⟨.rotatePivot, .TypeTranslate, false⟩ ⟨.rotatePivot, .TypeTranslate, true⟩ (by decide) (by decide) (by decide) (by decide) rfl rfl (by decide) rfl hr.1
      hr.2.1 hv (ho false) (ho true) hattr hcnt
    refine ⟨t', h1, h11, ?_⟩
    simp only [UsdGeomXformOp.GetAttr, h10]
    exact lookup_append_single _ _ _ hattr

theorem setScalePivot_holds (H : Host) (t : TransformationMatrix) (op : UsdGeomXformOp)
    (vty : UsdDataType) (hr : SweepReady t) (hav : t.pushToPrimAvailable = true)
    (hg : t.primHasScalePivot = true →
      t.scalePivotValue.isEquivalent t.m_scalePivotFromUsd = false)
    (hrd : VectorReady t .scalePivot .TypeTranslate MVector.zero t.scalePivotValue readPoint
      op vty) :
    ∃ r, t.setScalePivot H .kSuccess t.scalePivotValue .kTransform false
        = some (.kSuccess, r) ∧
      r.scalePivotValue = t.scalePivotValue ∧
      VectorHeld H r .scalePivot readPoint op vty t.scalePivotValue := by
  obtain ⟨s1, hs1, hs1'⟩ : ∃ s1, s1 =
      (if (baseSetScalePivot t.toMPxTransformationMatrix .kSuccess t.scalePivotValue .kTransform false).1.toBool then
        { t with
          toMPxTransformationMatrix :=
            (baseSetScalePivot t.toMPxTransformationMatrix .kSuccess t.scalePivotValue .kTransform false).2
          m_scalePivotTweak :=
            (baseSetScalePivot t.toMPxTransformationMatrix .kSuccess t.scalePivotValue .kTransform false).2.scalePivotValue.sub
              t.m_scalePivotFromUsd }
      else { t with toMPxTransformationMatrix :=
        (baseSetScalePivot t.toMPxTransformationMatrix .kSuccess t.scalePivotValue .kTransform false).2 }) ∧
      s1 = ({ t with
        m_scalePivotTweak := t.scalePivotValue.sub t.m_scalePivotFromUsd } :
          TransformationMatrix) := ⟨_, rfl, rfl⟩
  have hst : (baseSetScalePivot t.toMPxTransformationMatrix .kSuccess t.scalePivotValue .kTransform false).1
      = .kSuccess := rfl
  simp only [setScalePivot]
  rw [← hs1, hst]
  clear hs1 hst
  have hr1 : SweepReady s1 := by rw [hs1']; exact hr
  have hv : t.primValid = true := by
    simp only [pushToPrimAvailable, Bool.and_eq_true] at hav
    exact hav.2
  have e1 : s1.pushToPrimAvailable = true := by rw [hs1']; exact hav
  have e4 : s1.pushPrimToMatrix = false := by rw [hs1']; exact hr.2.2.2.2
  have key : ∀ s2 : TransformationMatrix, s2.findOp .scalePivot = some op →
      WriteAccepted s2 op vec3Types → vty = op.GetTypeName s2.stage →
      (s2.internal_readPoint MVector.zero op).2.isEquivalent s2.scalePivotValue = false →
      s2.scalePivotValue = t.scalePivotValue →
      (s2.pushScalePivotToPrim H).scalePivotValue = t.scalePivotValue ∧
      VectorHeld H (s2.pushScalePivotToPrim H) .scalePivot readPoint op vty
        t.scalePivotValue := by
    intro s2 hf hacc hty hch hlive
    obtain ⟨_, _, g3, g4⟩ := pushScalePivotToPrim_stored H s2 op MVector.zero hf hacc hch
    have hn := noInsertion_pushScalePivotToPrim H s2
    refine ⟨?_, ?_, ?_⟩
    · rw [← hlive]
      simp only [pushScalePivotToPrim, hf, hch, Bool.not_false, if_true]
    · simp only [findOp, hn.1, hn.2.1]
      exact hf
    · rw [g3, g4, hty, hlive]
      exact storeHolds_of_read _ _ _ _ rfl
  rcases hrd with ⟨hfl, hf, hacc, hty, hch⟩ | ⟨hfl, hu, hattr, hop, hty, hch⟩
  · refine ⟨s1.pushScalePivotToPrim H, ?_, key s1 ?_ ?_ ?_ ?_ ?_⟩
    · have e2 : s1.primHasScalePivot = true := by rw [hs1']; exact hfl
      have e3 : s1.m_scalePivotFromUsd = t.m_scalePivotFromUsd := by rw [hs1']
      simp only [e1, e2, if_true, e3, hg hfl, Bool.not_false, Bool.not_true, Bool.false_and,
        Bool.false_eq_true, if_false]
    · rw [hs1']; exact hf
    · rw [hs1']; exact hacc
    · rw [hs1']; exact hty
    · rw [hs1']; exact hch
    · rw [hs1']
  · obtain ⟨t', ht', hf', ha'⟩ := insertOp_twin_fresh s1 .scalePivot kPrimHasScalePivot
      (Or.inl rfl) hr1 (by rw [hs1']; exact hv) (by rw [hs1']; exact hu)
      (by rw [hs1']; exact hattr)
    have hst := withStructureOf_insertOp _ _ _ _ _ _ _ _ ht'
    have hne : t.scalePivotValue ≠ MVector.zero := by
      intro e
      rw [e, MVector.isEquivalent_refl] at hch
      exact absurd hch (by decide)
    have hlive : t'.scalePivotValue = t.scalePivotValue := by
      rw [hst, hs1']; rfl
    refine ⟨t'.pushScalePivotToPrim H, ?_, key t' ?_ ?_ ?_ ?_ hlive⟩
    · have e2 : s1.primHasScalePivot = false := by rw [hs1']; exact hfl
      rw [if_pos e1, if_pos (by simp [e2, e4, hne]),
        insertAndPushPivotOp_scale H s1 hr1.2.2.2.1]
      simp only [insertPivotOps, insertScalePivotOp, if_true, ht', Bool.false_eq_true, if_false]
    · rw [hop]; exact hf'
    · rw [hop]
      refine ⟨rfl, timeSampleGate_fresh _ _ _ _ ha', ?_⟩
      simp only [UsdGeomXformOp.GetTypeName, ha']
      decide
    · rw [hop, hty]
      simp only [UsdGeomXformOp.GetTypeName, ha']
    · rw [hop, hlive]
      simp only [internal_readPoint, readPoint_fresh _ _ _ _ _ ha']
      exact hch

theorem setRotatePivot_holds (H : Host) (t : TransformationMatrix) (op : UsdGeomXformOp)
    (vty : UsdDataType) (hr : SweepReady t) (hav : t.pushToPrimAvailable = true)
    (hg : t.primHasRotatePivot = true →
      t.rotatePivotValue.isEquivalent t.m_rotatePivotFromUsd = false)
    (hrd : VectorReady t .rotatePivot .TypeTranslate MVector.zero t.rotatePivotValue readPoint
      op vty) :
    ∃ r, t.setRotatePivot H .kSuccess t.rotatePivotValue .kTransform false
        = some (.kSuccess, r) ∧
      r.rotatePivotValue = t.rotatePivotValue ∧
      VectorHeld H r .rotatePivot readPoint op vty t.rotatePivotValue := by
  obtain ⟨s1, hs1, hs1'⟩ : ∃ s1, s1 =
      (if (baseSetRotatePivot t.toMPxTransformationMatrix .kSuccess t.rotatePivotValue .kTransform false).1.toBool then
        { t with
          toMPxTransformationMatrix :=
            (baseSetRotatePivot t.toMPxTransformationMatrix .kSuccess t.rotatePivotValue .kTransform false).2
          m_rotatePivotTweak :=
            (baseSetRotatePivot t.toMPxTransformationMatrix .kSuccess t.rotatePivotValue .kTransform false).2.rotatePivotValue.sub
              t.m_rotatePivotFromUsd }
      else { t with toMPxTransformationMatrix :=
        (baseSetRotatePivot t.toMPxTransformationMatrix .kSuccess t.rotatePivotValue .kTransform false).2 }) ∧
      s1 = ({ t with
        m_rotatePivotTweak := t.rotatePivotValue.sub t.m_rotatePivotFromUsd } :
          TransformationMatrix) := ⟨_, rfl, rfl⟩
  have hst : (baseSetRotatePivot t.toMPxTransformationMatrix .kSuccess t.rotatePivotValue .kTransform false).1
      = .kSuccess := rfl
  simp only [setRotatePivot]
  rw [← hs1, hst]
  clear hs1 hst
  have hr1 : SweepReady s1 := by rw [hs1']; exact hr
  have hv : t.primValid = true := by
    simp only [pushToPrimAvailable, Bool.and_eq_true] at hav
    exact hav.2
  have e1 : s1.pushToPrimAvailable = true := by rw [hs1']; exact hav
  have e4 : s1.pushPrimToMatrix = false := by rw [hs1']; exact hr.2.2.2.2
  have key : ∀ s2 : TransformationMatrix, s2.findOp .rotatePivot = some op →
      WriteAccepted s2 op vec3Types → vty = op.GetTypeName s2.stage →
      (s2.internal_readPoint MVector.zero op).2.isEquivalent s2.rotatePivotValue = false →
      s2.rotatePivotValue = t.rotatePivotValue →
      (s2.pushRotatePivotToPrim H).rotatePivotValue = t.rotatePivotValue ∧
      VectorHeld H (s2.pushRotatePivotToPrim H) .rotatePivot readPoint op vty
        t.rotatePivotValue := by
    intro s2 hf hacc hty hch hlive
    obtain ⟨_, _, g3, g4⟩ := pushRotatePivotToPrim_stored H s2 op MVector.zero hf hacc hch
    have hn := noInsertion_pushRotatePivotToPrim H s2
    refine ⟨?_, ?_, ?_⟩
    · rw [← hlive]
      simp only [pushRotatePivotToPrim, hf, hch, Bool.not_false, if_true]
    · simp only [findOp, hn.1, hn.2.1]
      exact hf
    · rw [g3, g4, hty, hlive]
      exact storeHolds_of_read _ _ _ _ rfl
  rcases hrd with ⟨hfl, hf, hacc, hty, hch⟩ | ⟨hfl, hu, hattr, hop, hty, hch⟩
  · refine ⟨s1.pushRotatePivotToPrim H, ?_, key s1 ?_ ?_ ?_ ?_ ?_⟩
    · have e2 : s1.primHasRotatePivot = true := by rw [hs1']; exact hfl
      have e3 : s1.m_rotatePivotFromUsd = t.m_rotatePivotFromUsd := by rw [hs1']
      simp only [e1, e2, if_true, e3, hg hfl, Bool.not_false, Bool.not_true, Bool.false_and,
        Bool.false_eq_true, if_false]
    · rw [hs1']; exact hf
    · rw [hs1']; exact hacc
    · rw [hs1']; exact hty
    · rw [hs1']; exact hch
    · rw [hs1']
  · obtain ⟨t', ht', hf', ha'⟩ := insertOp_twin_fresh s1 .rotatePivot kPrimHasRotatePivot
      (Or.inr rfl) hr1 (by rw [hs1']; exact hv) (by rw [hs1']; exact hu)
      (by rw [hs1']; exact hattr)
    have hst := withStructureOf_insertOp _ _ _ _ _ _ _ _ ht'
    have hne : t.rotatePivotValue ≠ MVector.zero := by
      intro e
      rw [e, MVector.isEquivalent_refl] at hch
      exact absurd hch (by decide)
    have hlive : t'.rotatePivotValue = t.rotatePivotValue := by
      rw [hst, hs1']; rfl
    refine ⟨t'.pushRotatePivotToPrim H, ?_, key t' ?_ ?_ ?_ ?_ hlive⟩
    · have e2 : s1.primHasRotatePivot = false := by rw [hs1']; exact hfl
      rw [if_pos e1, if_pos (by simp [e2, e4, hne]),
        insertAndPushPivotOp_rotate H s1 hr1.2.2.2.1]
      simp only [insertPivotOps, insertRotatePivotOp, if_true, ht', Bool.false_eq_true, if_false]
    · rw [hop]; exact hf'
    · rw [hop]
      refine ⟨rfl, timeSampleGate_fresh _ _ _ _ ha', ?_⟩
      simp only [UsdGeomXformOp.GetTypeName, ha']
      decide
    · rw [hop, hty]
      simp only [UsdGeomXformOp.GetTypeName, ha']
    · rw [hop, hlive]
      simp only [internal_readPoint, readPoint_fresh _ _ _ _ _ ha']
      exact hch

theorem shearTo_holds (H : Host) (t : TransformationMatrix) (op : UsdGeomXformOp)
    (hr : SweepReady t) (hav : t.pushToPrimAvailable = true)
    (hl : t.shearLocked = false)
    (hg : t.shearValue.isEquivalent t.m_shearFromUsd = false)
    (hrd : ShearReady t op) :
    ∃ r, t.shearTo H .kSuccess t.shearValue .kTransform = some (.kSuccess, r) ∧
      r.shearValue = t.shearValue ∧ ShearHeld r op t.shearValue := by
  obtain ⟨s1, hs1, hs1'⟩ : ∃ s1, s1 =
      (if (baseShearTo t.toMPxTransformationMatrix .kSuccess t.shearValue .kTransform).1.toBool then
        { t with
          toMPxTransformationMatrix :=
            (baseShearTo t.toMPxTransformationMatrix .kSuccess t.shearValue .kTransform).2
          m_shearTweak :=
            (baseShearTo t.toMPxTransformationMatrix .kSuccess t.shearValue .kTransform).2.shearValue.sub
              t.m_shearFromUsd }
      else { t with toMPxTransformationMatrix :=
        (baseShearTo t.toMPxTransformationMatrix .kSuccess t.shearValue .kTransform).2 }) ∧
      s1 = ({ t with
        m_shearTweak := t.shearValue.sub t.m_shearFromUsd } :
          TransformationMatrix) := ⟨_, rfl, rfl⟩
  have hst : (baseShearTo t.toMPxTransformationMatrix .kSuccess t.shearValue .kTransform).1
      = .kSuccess := rfl
  simp only [shearTo, hl, Bool.false_eq_true, if_false, insertShearOp]
  simp only [hl] at hs1
  rw [← hs1, hst]
  clear hs1 hst
  have hr1 : SweepReady s1 := by rw [hs1']; exact hr
  have hv : t.primValid = true := by
    simp only [pushToPrimAvailable, Bool.and_eq_true] at hav
    exact hav.2
  have e1 : s1.pushToPrimAvailable = true := by rw [hs1']; exact hav
  have e4 : s1.pushPrimToMatrix = false := by rw [hs1']; exact hr.2.2.2.2
  have key : ∀ s2 : TransformationMatrix, s2.findOp .shear = some op →
      WriteAccepted s2 op [.kMatrix4d] →
      s2.shearValue = t.shearValue →
      (s2.pushShearToPrim H).shearValue = t.shearValue ∧
      ShearHeld (s2.pushShearToPrim H) op t.shearValue := by
    intro s2 hf hacc hlive
    obtain ⟨_, _, g3, g4⟩ := pushShearToPrim_stored H s2 op MVector.zero hf hacc
    have hn := noInsertion_pushShearToPrim H s2
    refine ⟨?_, ?_, ?_⟩
    · rw [← hlive]
      simp only [pushShearToPrim, hf]
    · simp only [findOp, hn.1, hn.2.1]
      exact hf
    · rw [g3, g4, hlive]
  rcases hrd with ⟨hfl, hf, hacc⟩ | ⟨hfl, hne, hu, hattr, hop⟩
  · refine ⟨s1.pushShearToPrim H, ?_, key s1 ?_ ?_ ?_⟩
    · have e2 : s1.primHasShear = true := by rw [hs1']; exact hfl
      have e3 : s1.m_shearFromUsd = t.m_shearFromUsd := by rw [hs1']
      simp only [e1, e2, if_true, e3, hg, Bool.not_false]
    · rw [hs1']; exact hf
    · rw [hs1']; exact hacc
    · rw [hs1']
  · obtain ⟨t', ht', hf', ha'⟩ := insertOp_single_fresh s1 .TypeTransform .PrecisionDouble
      .shear kPrimHasShear false .kMatrix4d (by decide) (by decide) hr1
      (by rw [hs1']; exact hv) (by rw [hs1']; exact hu) (by rw [hs1']; exact hattr) rfl
    have hst := withStructureOf_insertOp _ _ _ _ _ _ _ _ ht'
    have hlive : t'.shearValue = t.shearValue := by
      rw [hst, hs1']; rfl
    have hfrom : t'.m_shearFromUsd = t.m_shearFromUsd := by
      rw [hst, hs1']; rfl
    refine ⟨t'.pushShearToPrim H, ?_, key t' ?_ ?_ hlive⟩
    · have e2 : s1.primHasShear = false := by rw [hs1']; exact hfl
      simp only [e1, e2, e4, if_true, Bool.false_eq_true, if_false, Bool.not_false,
        Bool.true_and, decide_eq_true_eq, hne, ne_eq, not_false_eq_true, ht',
        hfrom, hg]
    · rw [hop]; exact hf'
    · rw [hop]
      refine ⟨rfl, timeSampleGate_fresh _ _ _ _ ha', ?_⟩
      simp only [UsdGeomXformOp.GetTypeName, ha']
      decide

theorem readRotation_fresh (stage : UsdStage) (op : UsdGeomXformOp) (r : MEulerRotation)
    (ty : UsdDataType) (tc : UsdTimeCode) (o : RotationOrder)
    (ho : op.opType = rotateOpType o) (h : op.GetAttr stage = some ⟨ty, [⟨none, []⟩]⟩) :
    readRotation stage r op tc = (false, r) := by
  unfold readRotation
  cases o <;> simp only [rotateOpType] at ho <;> rw [ho] <;>
    simp only [readVector_fresh stage op MVector.zero ty tc h]

theorem rotateToQuaternion_holds (H : Host) (t : TransformationMatrix) (op : UsdGeomXformOp)
    (vty : UsdDataType) (o : RotationOrder) (hr : SweepReady t)
    (hav : t.pushToPrimAvailable = true) (hl : t.rotateLocked = false)
    (hw : t.m_enableUsdWriteback = true)
    (hg : (H.asEulerRotation (H.asQuaternion t.rotationValue)).isEquivalent t.m_rotationFromUsd
      = false)
    (hrd : RotationReady H t (H.asEulerRotation (H.asQuaternion t.rotationValue)) op vty o) :
    ∃ r, t.rotateToQuaternion H .kSuccess (H.asQuaternion t.rotationValue) .kTransform
        = some (.kSuccess, r) ∧
      r.rotationValue = H.asEulerRotation (H.asQuaternion t.rotationValue) ∧
      RotationHeld H r op vty o (H.asEulerRotation (H.asQuaternion t.rotationValue)) := by
  obtain ⟨live, hlv⟩ : ∃ live, live = H.asEulerRotation (H.asQuaternion t.rotationValue) :=
    ⟨_, rfl⟩
  obtain ⟨s1, hs1, hs1'⟩ : ∃ s1, s1 =
      (if (baseRotateTo t.toMPxTransformationMatrix .kSuccess (H.asEulerRotation (H.asQuaternion t.rotationValue)) .kTransform).1.toBool then
        ({ t with toMPxTransformationMatrix :=
          (baseRotateTo t.toMPxTransformationMatrix .kSuccess (H.asEulerRotation (H.asQuaternion t.rotationValue)) .kTransform).2 } :
            TransformationMatrix).updateRotationTweak
      else { t with toMPxTransformationMatrix :=
        (baseRotateTo t.toMPxTransformationMatrix .kSuccess (H.asEulerRotation (H.asQuaternion t.rotationValue)) .kTransform).2 }) ∧
      s1 = ({ t with
        toMPxTransformationMatrix := { t.toMPxTransformationMatrix with rotationValue := live }
        m_rotationTweak :=
          { t.m_rotationTweak with
            x := live.x - t.m_rotationFromUsd.x
            y := live.y - t.m_rotationFromUsd.y
            z := live.z - t.m_rotationFromUsd.z } } : TransformationMatrix) := by
    rw [hlv]
    exact ⟨_, rfl, rfl⟩
  have hst : (baseRotateTo t.toMPxTransformationMatrix .kSuccess (H.asEulerRotation (H.asQuaternion t.rotationValue)) .kTransform).1
      = .kSuccess := rfl
  simp only [rotateToQuaternion, hl, Bool.false_eq_true, if_false, insertRotateOp]
  simp only [hl] at hs1
  rw [← hs1, hst, ← hlv]
  rw [← hlv] at hg hrd
  clear hs1 hst
  have hr1 : SweepReady s1 := by rw [hs1']; exact hr
  have hv : t.primValid = true := by
    simp only [pushToPrimAvailable, Bool.and_eq_true] at hav
    exact hav.2
  have e1 : s1.pushToPrimAvailable = true := by rw [hs1']; exact hav
  have e4 : s1.pushPrimToMatrix = false := by rw [hs1']; exact hr.2.2.2.2
  have e5 : s1.rotationValue = live := by rw [hs1']
  have key : ∀ s2 : TransformationMatrix, s2.findOp .rotate = some op →
      WriteAccepted s2 op vec3Types → op.opType = rotateOpType o →
      vty = op.GetTypeName s2.stage →
      (s2.internal_readRotation ⟨0, 0, 0, .kXYZ⟩ op).2.isEquivalent s2.rotationValue = false →
      s2.rotationValue = live →
      (s2.pushRotateToPrim H).rotationValue = live ∧
      RotationHeld H (s2.pushRotateToPrim H) op vty o live := by
    intro s2 hf hacc ho hty hch hlive
    obtain ⟨_, _, g3, g4⟩ := pushRotateToPrim_stored H s2 op ⟨0, 0, 0, .kXYZ⟩ o hf hacc ho hch
    have hn := noInsertion_pushRotateToPrim H s2
    refine ⟨?_, ?_, ?_⟩
    · rw [← hlive]
      simp only [pushRotateToPrim, hf, hch, Bool.not_false, if_true]
    · simp only [findOp, hn.1, hn.2.1]
      exact hf
    · rw [g3, g4, hty, hlive]
  rcases hrd with ⟨hfl, hf, hacc, ho, hty, hch⟩ | ⟨hfl, hne, hu, hattr, hop, ho, hty, hch⟩
  · refine ⟨s1.pushRotateToPrim H, ?_, key s1 ?_ ?_ ho ?_ ?_ e5⟩
    · have e2 : s1.primHasRotation = true := by rw [hs1']; exact hfl
      have e3 : s1.m_rotationFromUsd = t.m_rotationFromUsd := by rw [hs1']
      have e6 : s1.m_enableUsdWriteback = true := by rw [hs1']; exact hw
      simp only [e1, e2, if_true, e3, e5, e6, hg, Bool.not_false]
    · rw [hs1']; exact hf
    · rw [hs1']; exact hacc
    · rw [hs1']; exact hty
    · rw [hs1']; exact hch
  · obtain ⟨t', ht', hf', ha'⟩ := insertOp_single_fresh s1 (rotateOpType live.order)
      .PrecisionFloat .rotate kPrimHasRotation false .kVec3f (by decide) (by decide) hr1
      (by rw [hs1']; exact hv) (by rw [hs1']; exact hu) (by rw [hs1']; exact hattr)
      (by cases live.order <;> rfl)
    have hst := withStructureOf_insertOp _ _ _ _ _ _ _ _ ht'
    have hlive : t'.rotationValue = live := by
      rw [hst, hs1']; rfl
    have hfrom : t'.m_rotationFromUsd = t.m_rotationFromUsd := by
      rw [hst, hs1']; rfl
    have hwb : t'.m_enableUsdWriteback = true := by
      rw [hst, hs1']; exact hw
    refine ⟨t'.pushRotateToPrim H, ?_, key t' ?_ ?_ ?_ ?_ ?_ hlive⟩
    · have e2 : s1.primHasRotation = false := by rw [hs1']; exact hfl
      simp only [e1, e2, e4, e5, if_true, Bool.false_eq_true, if_false, Bool.not_false,
        Bool.true_and, decide_eq_true_eq, hne, ne_eq, not_false_eq_true, ht',
        hfrom, hg, hwb, hlive]
    · rw [hop]; exact hf'
    · rw [hop]
      refine ⟨rfl, timeSampleGate_fresh _ _ _ _ ha', ?_⟩
      simp only [UsdGeomXformOp.GetTypeName, ha']
      decide
    · rw [hop, ho]
    · rw [hop, hty]
      simp only [UsdGeomXformOp.GetTypeName, ha']
    · rw [hop, hlive]
      simp only [internal_readRotation, readRotation_fresh _ _ _ _ _ live.order rfl ha']
      exact hch

/-- The store after `pushRotateAxisToPrim` found its operator, saw a changed value and had its
write accepted: the operator decodes to the angles of fromUsd, in degrees. -/
theorem pushRotateAxisToPrim_stored (H : Host) (s : TransformationMatrix) (op : UsdGeomXformOp)
    (r : MVector) (hf : s.findOp .rotateAxis = some op) (hacc : WriteAccepted s op vec3Types)
    (hch : (rotateAxisQuaternion H (s.internal_readVector MVector.zero op).2).isEquivalent
      s.m_rotateOrientationFromUsd = false) :
    (s.pushRotateAxisToPrim H).getTimeCode = s.getTimeCode ∧
    (s.pushRotateAxisToPrim H).toMPxTransformationMatrix = s.toMPxTransformationMatrix ∧
    (s.pushRotateAxisToPrim H).m_rotateOrientationFromUsd = s.m_rotateOrientationFromUsd ∧
    readVector (s.pushRotateAxisToPrim H).stage r op s.getTimeCode
      = (true, H.narrowVector (op.GetTypeName s.stage)
          (rotateAxisDegrees H s.m_rotateOrientationFromUsd)) := by
  obtain ⟨hinv, hgate, hty⟩ := hacc
  obtain ⟨_, t1, g1⟩ := pushVector_stored H s.stage
    (rotateAxisDegrees H s.m_rotateOrientationFromUsd) op s.getTimeCode hinv hgate hty
  have e : s.pushRotateAxisToPrim H =
      { s with stage := (s.internal_pushVector H
          (rotateAxisDegrees H s.m_rotateOrientationFromUsd) op).2 } := by
    unfold rotateAxisQuaternion at hch
    simp only [pushRotateAxisToPrim, hf, hch, Bool.not_false, if_true]
    rfl
  rw [e]
  refine ⟨rfl, rfl, rfl, ?_⟩
  exact readVector_of_Get _ op _ r _ (by
    show op.GetTypeName (pushVector H s.stage _ op s.getTimeCode).2 ∈ vec3Types
    rw [t1]; exact hty) g1

theorem setRotateOrientation_holds (H : Host) (t : TransformationMatrix) (op : UsdGeomXformOp)
    (vty : UsdDataType) (hr : SweepReady t)
    (hav : t.pushToPrimAvailable = true)
    (hw : t.m_enableUsdWriteback = true)
    (hrd : RotateAxisReady H t
      (t.rotateOrientationValue.mul t.m_rotateOrientationTweak.inverse) op vty) :
    ∃ r, t.setRotateOrientation H .kSuccess t.rotateOrientationValue .kTransform false
        = some (.kSuccess, r) ∧
      r.rotateOrientationValue = t.rotateOrientationValue ∧
      r.m_rotateOrientationFromUsd
        = t.rotateOrientationValue.mul t.m_rotateOrientationTweak.inverse ∧
      RotateAxisHeld H r op vty
        (t.rotateOrientationValue.mul t.m_rotateOrientationTweak.inverse) := by
  obtain ⟨stored, hsv⟩ : ∃ stored,
      stored = t.rotateOrientationValue.mul t.m_rotateOrientationTweak.inverse := ⟨_, rfl⟩
  obtain ⟨s1, hs1, hs1'⟩ : ∃ s1, s1 =
      (if (baseSetRotateOrientation t.toMPxTransformationMatrix .kSuccess t.rotateOrientationValue .kTransform false).1.toBool then
        { t with
          toMPxTransformationMatrix := (baseSetRotateOrientation t.toMPxTransformationMatrix .kSuccess t.rotateOrientationValue .kTransform false).2
          m_rotateOrientationFromUsd :=
            (baseSetRotateOrientation t.toMPxTransformationMatrix .kSuccess t.rotateOrientationValue .kTransform false).2.rotateOrientationValue.mul t.m_rotateOrientationTweak.inverse }
      else { t with toMPxTransformationMatrix :=
        (baseSetRotateOrientation t.toMPxTransformationMatrix .kSuccess t.rotateOrientationValue .kTransform false).2 }) ∧
      s1 = ({ t with m_rotateOrientationFromUsd := stored } : TransformationMatrix) := by
    rw [hsv]
    exact ⟨_, rfl, rfl⟩
  have hst : (baseSetRotateOrientation t.toMPxTransformationMatrix .kSuccess t.rotateOrientationValue .kTransform false).1
      = .kSuccess := rfl
  simp only [setRotateOrientation, insertRotateAxesOp]
  rw [← hs1, hst, ← hsv]
  rw [← hsv] at hrd
  clear hs1 hst
  have hr1 : SweepReady s1 := by rw [hs1']; exact hr
  have hv : t.primValid = true := by
    simp only [pushToPrimAvailable, Bool.and_eq_true] at hav
    exact hav.2
  have e1 : s1.pushToPrimAvailable = true := by rw [hs1']; exact hav
  have e4 : s1.pushPrimToMatrix = false := by rw [hs1']; exact hr.2.2.2.2
  have key : ∀ s2 : TransformationMatrix, s2.findOp .rotateAxis = some op →
      WriteAccepted s2 op vec3Types → vty = op.GetTypeName s2.stage →
      (rotateAxisQuaternion H (s2.internal_readVector MVector.zero op).2).isEquivalent
        s2.m_rotateOrientationFromUsd = false →
      s2.rotateOrientationValue = t.rotateOrientationValue →
      s2.m_rotateOrientationFromUsd = stored →
      (s2.pushRotateAxisToPrim H).rotateOrientationValue = t.rotateOrientationValue ∧
      (s2.pushRotateAxisToPrim H).m_rotateOrientationFromUsd = stored ∧
      RotateAxisHeld H (s2.pushRotateAxisToPrim H) op vty stored := by
    intro s2 hf hacc hty hch hlive hfrom
    obtain ⟨g1, g2, g3, g4⟩ := pushRotateAxisToPrim_stored H s2 op MVector.zero hf hacc hch
    have hn := noInsertion_pushRotateAxisToPrim H s2
    refine ⟨?_, ?_, ?_, ?_⟩
    · rw [← hlive]
      show (s2.pushRotateAxisToPrim H).toMPxTransformationMatrix.rotateOrientationValue = _
      rw [g2]
    · rw [g3, hfrom]
    · simp only [findOp, hn.1, hn.2.1]
      exact hf
    · rw [g1, g4, hty, hfrom]
  rcases hrd with ⟨hfl, hf, hacc, hty, hch⟩ | ⟨hfl, hne, hu, hattr, hop, hty, hch⟩
  · refine ⟨s1.pushRotateAxisToPrim H, ?_, key s1 ?_ ?_ ?_ ?_ ?_ ?_⟩
    · have e2 : s1.primHasRotateAxes = true := by rw [hs1']; exact hfl
      have e6 : s1.m_enableUsdWriteback = true := by rw [hs1']; exact hw
      simp only [e1, e2, if_true, e6]
    · rw [hs1']; exact hf
    · rw [hs1']; exact hacc
    · rw [hs1']; exact hty
    · rw [hs1']; exact hch
    · rw [hs1']
    · rw [hs1']
  · obtain ⟨t', ht', hf', ha'⟩ := insertOp_single_fresh s1 .TypeRotateXYZ
      .PrecisionFloat .rotateAxis kPrimHasRotateAxes false .kVec3f (by decide) (by decide) hr1
      (by rw [hs1']; exact hv) (by rw [hs1']; exact hu) (by rw [hs1']; exact hattr) rfl
    have hst := withStructureOf_insertOp _ _ _ _ _ _ _ _ ht'
    have hlive : t'.rotateOrientationValue = t.rotateOrientationValue := by
      rw [hst, hs1']; rfl
    have hfrom : t'.m_rotateOrientationFromUsd = stored := by
      rw [hst, hs1']; rfl
    have hwb : t'.m_enableUsdWriteback = true := by
      rw [hst, hs1']; exact hw
    refine ⟨t'.pushRotateAxisToPrim H, ?_, key t' ?_ ?_ ?_ ?_ hlive hfrom⟩
    · have e2 : s1.primHasRotateAxes = false := by rw [hs1']; exact hfl
      simp only [e1, e2, e4, if_true, Bool.false_eq_true, if_false, Bool.not_false,
        Bool.true_and, decide_eq_true_eq, hne, ne_eq, not_false_eq_true, ht', hwb]
    · rw [hop]; exact hf'
    · rw [hop]
      refine ⟨rfl, timeSampleGate_fresh _ _ _ _ ha', ?_⟩
      simp only [UsdGeomXformOp.GetTypeName, ha']
      decide
    · rw [hop, hty]
      simp only [UsdGeomXformOp.GetTypeName, ha']
    · rw [hop, hfrom]
      simp only [internal_readVector, readVector_fresh _ _ _ _ _ ha']
      exact hch

theorem sweepKept_refl (X : TfToken) (t : TransformationMatrix) (hr : SweepReady t) :
    SweepKept X t t :=
  ⟨hr, rfl, rfl, rfl, rfl, rfl, channelKept_refl X t⟩

theorem sweepKept_trans {X : TfToken} {a b c : TransformationMatrix}
    (h1 : SweepKept X a b) (h2 : SweepKept X b c) : SweepKept X a c :=
  ⟨h2.1, h2.2.1.trans h1.2.1, h2.2.2.1.trans h1.2.2.1, h2.2.2.2.1.trans h1.2.2.2.1,
    h2.2.2.2.2.1.trans h1.2.2.2.2.1, h2.2.2.2.2.2.1.trans h1.2.2.2.2.2.1,
    channelKept_trans h1.2.2.2.2.2.2 h2.2.2.2.2.2.2⟩

theorem sweepKept_of_step {nm X : TfToken} {t t' : TransformationMatrix}
    (h : ChannelStep nm t t') (hr : SweepReady t) (hX : X ≠ nm) : SweepKept X t t' := by
  obtain ⟨a, b, c, d, e, f, g⟩ := h hr
  exact ⟨a, b, c, d, e, f, g X hX⟩

theorem sweepKept_getTimeCode {X : TfToken} {t t' : TransformationMatrix}
    (h : SweepKept X t t') : t'.getTimeCode = t.getTimeCode := by
  simp only [getTimeCode, readAnimatedValues, h.2.2.2.2.1, h.2.2.1]

theorem sweepKept_available {X : TfToken} {t t' : TransformationMatrix}
    (h : SweepKept X t t') : t'.pushToPrimAvailable = t.pushToPrimAvailable := by
  simp only [pushToPrimAvailable, pushToPrimEnabled, h.2.2.2.1, h.2.1]

/-- What the codecs read of an operator depends on its attribute alone. -/
theorem store_congr (st st' : UsdStage) (op : UsdGeomXformOp)
    (h : op.GetAttr st' = op.GetAttr st) :
    op.GetTypeName st' = op.GetTypeName st ∧
    (∀ tc, timeSampleGate st' op tc = timeSampleGate st op tc) ∧
    (∀ d tc, readVector st' d op tc = readVector st d op tc) ∧
    (∀ d tc, readPoint st' d op tc = readPoint st d op tc) ∧
    (∀ d tc, readShear st' d op tc = readShear st d op tc) ∧
    (∀ d tc, readRotation st' d op tc = readRotation st d op tc) := by
  have hty : op.GetTypeName st' = op.GetTypeName st := by
    simp only [UsdGeomXformOp.GetTypeName, h]
  have hget : ∀ tc, op.Get st' tc = op.Get st tc := by
    intro tc
    simp only [UsdGeomXformOp.Get, h]
  have hv : ∀ d tc, readVector st' d op tc = readVector st d op tc := by
    intro d tc
    simp only [readVector, GetAsVec3, hty, hget]
  refine ⟨hty, ?_, hv, ?_, ?_, ?_⟩
  · intro tc
    simp only [timeSampleGate, UsdGeomXformOp.GetNumTimeSamples, hasEmptyDefaultValue, h]
  · intro d tc
    simp only [readPoint, GetAsVec3, hty, hget]
  · intro d tc
    simp only [readShear, GetAsMatrix, hty, hget]
  · intro d tc
    simp only [readRotation, readDouble, GetScalar, hty, hget, hv]

/-- The attribute of an operator named `X` is kept with the channel of `X`. -/
theorem channelKept_attr {X : TfToken} {t t' : TransformationMatrix} (h : ChannelKept X t t')
    (op : UsdGeomXformOp) (hop : op.name = X) : op.GetAttr t'.stage = op.GetAttr t.stage := by
  simp only [UsdGeomXformOp.GetAttr, hop]
  exact h.2.2.2.1 op.opType

theorem channelKept_accepted {X : TfToken} {t t' : TransformationMatrix} (htc : t'.getTimeCode = t.getTimeCode) (h : ChannelKept X t t')
    (op : UsdGeomXformOp) (hop : op.name = X) (types : List UsdDataType)
    (ha : WriteAccepted t op types) : WriteAccepted t' op types := by
  obtain ⟨c1, c2, _⟩ := store_congr _ _ op (channelKept_attr h op hop)
  refine ⟨ha.1, ?_, ?_⟩
  · rw [c2, htc]; exact ha.2.1
  · rw [c1]; exact ha.2.2

theorem vectorReady_kept {X : TfToken} {t t' : TransformationMatrix} (htc : t'.getTimeCode = t.getTimeCode) (h : ChannelKept X t t')
    (hr : SweepReady t) (ty : XformOpType) (ident live : MVector)
    (read : UsdStage → MVector → UsdGeomXformOp → UsdTimeCode → Bool × MVector)
    (hread : ∀ st st' op, op.GetAttr st' = op.GetAttr st →
      ∀ d tc, read st' d op tc = read st d op tc)
    (op : UsdGeomXformOp) (vty : UsdDataType)
    (hrd : VectorReady t X ty ident live read op vty) :
    VectorReady t' X ty ident live read op vty := by
  obtain ⟨k1, k2, k3, k4, k5⟩ := id h
  rcases hrd with ⟨hfl, hf, hacc, hty, hch⟩ | ⟨hfl, hu, hattr, hop, hty, hch⟩
  · left
    have hn := findOp_name t hr X op hf
    have ha := channelKept_attr h op hn
    refine ⟨by rw [k2]; exact hfl, by rw [k3]; exact hf, channelKept_accepted htc h op hn _ hacc, ?_,
      ?_⟩
    · rw [(store_congr _ _ op ha).1]; exact hty
    · rw [hread _ _ op ha, htc]; exact hch
  · right
    exact ⟨by rw [k2]; exact hfl, k5 hu, by rw [k4]; exact hattr, hop, hty, hch⟩

theorem vectorHeld_kept {X : TfToken} {t t' : TransformationMatrix} (htc : t'.getTimeCode = t.getTimeCode) (h : ChannelKept X t t')
    (hr : SweepReady t) (H : Host)
    (read : UsdStage → MVector → UsdGeomXformOp → UsdTimeCode → Bool × MVector)
    (hread : ∀ st st' op, op.GetAttr st' = op.GetAttr st →
      ∀ d tc, read st' d op tc = read st d op tc)
    (op : UsdGeomXformOp) (vty : UsdDataType) (live : MVector)
    (hh : VectorHeld H t X read op vty live) : VectorHeld H t' X read op vty live := by
  have hn := findOp_name t hr X op hh.1
  refine ⟨by rw [h.2.2.1]; exact hh.1, ?_⟩
  rw [hread _ _ op (channelKept_attr h op hn), htc]
  exact hh.2

theorem readVector_attr_congr : ∀ st st' op, UsdGeomXformOp.GetAttr st' op = op.GetAttr st →
    ∀ d tc, readVector st' d op tc = readVector st d op tc :=
  fun st st' op h => (store_congr st st' op h).2.2.1

theorem readPoint_attr_congr : ∀ st st' op, UsdGeomXformOp.GetAttr st' op = op.GetAttr st →
    ∀ d tc, readPoint st' d op tc = readPoint st d op tc :=
  fun st st' op h => (store_congr st st' op h).2.2.2.1

theorem shearReady_kept {t t' : TransformationMatrix} (htc : t'.getTimeCode = t.getTimeCode) (h : ChannelKept .shear t t')
    (hr : SweepReady t) (op : UsdGeomXformOp) (hlive : t'.shearValue = t.shearValue)
    (hrd : ShearReady t op) : ShearReady t' op := by
  obtain ⟨k1, k2, k3, k4, k5⟩ := id h
  rcases hrd with ⟨hfl, hf, hacc⟩ | ⟨hfl, hne, hu, hattr, hop⟩
  · left
    have hn := findOp_name t hr .shear op hf
    exact ⟨by rw [k2]; exact hfl, by rw [k3]; exact hf, channelKept_accepted htc h op hn _ hacc⟩
  · right
    exact ⟨by rw [k2]; exact hfl, by rw [hlive]; exact hne, k5 hu, by rw [k4]; exact hattr, hop⟩

theorem shearHeld_kept {t t' : TransformationMatrix} (htc : t'.getTimeCode = t.getTimeCode) (h : ChannelKept .shear t t')
    (hr : SweepReady t) (op : UsdGeomXformOp) (live : MVector)
    (hh : ShearHeld t op live) : ShearHeld t' op live := by
  have hn := findOp_name t hr .shear op hh.1
  refine ⟨by rw [h.2.2.1]; exact hh.1, ?_⟩
  rw [(store_congr _ _ op (channelKept_attr h op hn)).2.2.2.2.1, htc]
  exact hh.2

theorem rotationReady_kept {t t' : TransformationMatrix} (htc : t'.getTimeCode = t.getTimeCode) (h : ChannelKept .rotate t t')
    (hr : SweepReady t) (H : Host) (live : MEulerRotation) (op : UsdGeomXformOp)
    (vty : UsdDataType) (o : RotationOrder) (hlive : t'.rotationValue = t.rotationValue)
    (hrd : RotationReady H t live op vty o) : RotationReady H t' live op vty o := by
  obtain ⟨k1, k2, k3, k4, k5⟩ := id h
  rcases hrd with ⟨hfl, hf, hacc, ho, hty, hch⟩ | ⟨hfl, hne, hu, hattr, hop, ho, hty, hch⟩
  · left
    have hn := findOp_name t hr .rotate op hf
    have ha := channelKept_attr h op hn
    refine ⟨by rw [k2]; exact hfl, by rw [k3]; exact hf, channelKept_accepted htc h op hn _ hacc, ho,
      ?_, ?_⟩
    · rw [(store_congr _ _ op ha).1]; exact hty
    · rw [(store_congr _ _ op ha).2.2.2.2.2, htc]; exact hch
  · right
    exact ⟨by rw [k2]; exact hfl, by rw [hlive]; exact hne, k5 hu, by rw [k4]; exact hattr, hop,
      ho, hty, hch⟩

theorem rotationHeld_kept {t t' : TransformationMatrix} (htc : t'.getTimeCode = t.getTimeCode) (h : ChannelKept .rotate t t')
    (hr : SweepReady t) (H : Host) (op : UsdGeomXformOp) (vty : UsdDataType)
    (o : RotationOrder) (live : MEulerRotation)
    (hh : RotationHeld H t op vty o live) : RotationHeld H t' op vty o live := by
  have hn := findOp_name t hr .rotate op hh.1
  refine ⟨by rw [h.2.2.1]; exact hh.1, ?_⟩
  rw [(store_congr _ _ op (channelKept_attr h op hn)).2.2.2.2.2, htc]
  exact hh.2

theorem rotateAxisReady_kept {t t' : TransformationMatrix} (htc : t'.getTimeCode = t.getTimeCode) (h : ChannelKept .rotateAxis t t')
    (hr : SweepReady t) (H : Host) (stored : MQuaternion) (op : UsdGeomXformOp)
    (vty : UsdDataType) (hlive : t'.rotateOrientationValue = t.rotateOrientationValue)
    (hrd : RotateAxisReady H t stored op vty) : RotateAxisReady H t' stored op vty := by
  obtain ⟨k1, k2, k3, k4, k5⟩ := id h
  rcases hrd with ⟨hfl, hf, hacc, hty, hch⟩ | ⟨hfl, hne, hu, hattr, hop, hty, hch⟩
  · left
    have hn := findOp_name t hr .rotateAxis op hf
    have ha := channelKept_attr h op hn
    refine ⟨by rw [k2]; exact hfl, by rw [k3]; exact hf, channelKept_accepted htc h op hn _ hacc,
      ?_, ?_⟩
    · rw [(store_congr _ _ op ha).1]; exact hty
    · rw [(store_congr _ _ op ha).2.2.1, htc]; exact hch
  · right
    exact ⟨by rw [k2]; exact hfl, by rw [hlive]; exact hne, k5 hu, by rw [k4]; exact hattr, hop,
      hty, hch⟩

theorem rotateAxisHeld_kept {t t' : TransformationMatrix} (htc : t'.getTimeCode = t.getTimeCode) (h : ChannelKept .rotateAxis t t')
    (hr : SweepReady t) (H : Host) (op : UsdGeomXformOp) (vty : UsdDataType)
    (stored : MQuaternion)
    (hh : RotateAxisHeld H t op vty stored) : RotateAxisHeld H t' op vty stored := by
  have hn := findOp_name t hr .rotateAxis op hh.1
  refine ⟨by rw [h.2.2.1]; exact hh.1, ?_⟩
  rw [(store_congr _ _ op (channelKept_attr h op hn)).2.2.1, htc]
  exact hh.2

theorem translateTo_total (H : Host) (t : TransformationMatrix) (v : MVector) (space : MSpace)
    (hr : SweepReady t) : ∃ r, t.translateTo H .kSuccess v space = some r := by
  cases hl : t.translateLocked
  · obtain ⟨r, h, _⟩ := translateTo_lazy H t v space hl (fun _ _ _ => ⟨hr.1, hr.2.1⟩)
    exact ⟨r, h⟩
  · simp only [translateTo, hl, if_true]
    exact ⟨_, rfl⟩

theorem scaleTo_total (H : Host) (t : TransformationMatrix) (v : MVector) (space : MSpace)
    (hr : SweepReady t) : ∃ r, t.scaleTo H .kSuccess v space = some r := by
  cases hl : t.scaleLocked
  · obtain ⟨r, h, _⟩ := scaleTo_lazy H t v space hl (fun _ _ _ => ⟨hr.1, hr.2.1⟩)
    exact ⟨r, h⟩
  · simp only [scaleTo, hl, if_true]
    exact ⟨_, rfl⟩

theorem shearTo_total (H : Host) (t : TransformationMatrix) (v : MVector) (space : MSpace)
    (hr : SweepReady t) : ∃ r, t.shearTo H .kSuccess v space = some r := by
  cases hl : t.shearLocked
  · obtain ⟨r, h, _⟩ := shearTo_lazy H t v space hl (fun _ _ _ => ⟨hr.1, hr.2.1⟩)
    exact ⟨r, h⟩
  · simp only [shearTo, hl, if_true]
    exact ⟨_, rfl⟩

theorem rotateToQuaternion_total (H : Host) (t : TransformationMatrix) (q : MQuaternion)
    (space : MSpace) (hr : SweepReady t) :
    ∃ r, t.rotateToQuaternion H .kSuccess q space = some r := by
  cases hl : t.rotateLocked
  · obtain ⟨r, h, _⟩ := rotateToQuaternion_lazy H t q space hl (fun _ _ _ => ⟨hr.1, hr.2.1⟩)
    exact ⟨r, h⟩
  · simp only [rotateToQuaternion, hl, if_true]
    exact ⟨_, rfl⟩

theorem setScalePivotTranslation_total (H : Host) (t : TransformationMatrix) (v : MVector)
    (space : MSpace) (hr : SweepReady t) :
    ∃ r, t.setScalePivotTranslation H .kSuccess v space = some r := by
  obtain ⟨r, h, _⟩ := setScalePivotTranslation_lazy H t v space (fun _ _ _ => ⟨hr.1, hr.2.1⟩)
  exact ⟨r, h⟩

theorem setRotatePivotTranslation_total (H : Host) (t : TransformationMatrix) (v : MVector)
    (space : MSpace) (hr : SweepReady t) :
    ∃ r, t.setRotatePivotTranslation H .kSuccess v space = some r := by
  obtain ⟨r, h, _⟩ := setRotatePivotTranslation_lazy H t v space (fun _ _ _ => ⟨hr.1, hr.2.1⟩)
  exact ⟨r, h⟩

theorem setRotateOrientation_total (H : Host) (t : TransformationMatrix) (q : MQuaternion)
    (space : MSpace) (balance : Bool) (hr : SweepReady t) :
    ∃ r, t.setRotateOrientation H .kSuccess q space balance = some r := by
  obtain ⟨r, h, _⟩ := setRotateOrientation_lazy H t q space balance
    (fun _ _ _ => ⟨hr.1, hr.2.1⟩)
  exact ⟨r, h⟩

/-- One `if (insert...Pivot)` block of `insertAndPushPivotOp` returns on parallel lists. -/
theorem pivotBlock_total (nm : TfToken) (F : Flags) (t : TransformationMatrix)
    (push : TransformationMatrix → TransformationMatrix)
    (hnm : nm = .scalePivot ∨ nm = .rotatePivot) (hr : SweepReady t) :
    ∃ q, (match t.insertOp .TypeTranslate .PrecisionFloat nm F false with
        | none => none
        | some (.kFailure, s1) => some (MStatus.kFailure, s1)
        | some (.kSuccess, s1) => some (MStatus.kSuccess, push s1)) = some q := by
  obtain ⟨r, h⟩ := insertOp_total t .TypeTranslate .PrecisionFloat nm F false
    (by rcases hnm with rfl | rfl <;> decide) (by rcases hnm with rfl | rfl <;> decide)
    hr.1 hr.2.1
  rw [h]
  obtain ⟨st, s1⟩ := r
  cases st <;> exact ⟨_, rfl⟩

theorem setScalePivot_total (H : Host) (t : TransformationMatrix) (sp : MPoint)
    (space : MSpace) (balance : Bool) (hr : SweepReady t) :
    ∃ r, t.setScalePivot H .kSuccess sp space balance = some r := by
  obtain ⟨s1, hs1, hr1⟩ : ∃ s1, s1 =
      (if (baseSetScalePivot t.toMPxTransformationMatrix .kSuccess sp space balance).1.toBool then
        { t with
          toMPxTransformationMatrix :=
            (baseSetScalePivot t.toMPxTransformationMatrix .kSuccess sp space balance).2
          m_scalePivotTweak :=
            (baseSetScalePivot t.toMPxTransformationMatrix .kSuccess sp space
              balance).2.scalePivotValue.sub t.m_scalePivotFromUsd }
      else { t with toMPxTransformationMatrix :=
        (baseSetScalePivot t.toMPxTransformationMatrix .kSuccess sp space balance).2 }) ∧
      SweepReady s1 := ⟨_, rfl, by split_ifs <;> exact hr⟩
  simp only [setScalePivot]
  rw [← hs1]
  split_ifs
  · rw [insertAndPushPivotOp_scale H s1 hr1.2.2.2.1]
    simp only [insertPivotOps, insertScalePivotOp, if_true, Bool.false_eq_true, if_false]
    obtain ⟨⟨st, s2⟩, h⟩ := insertOp_total s1 .TypeTranslate .PrecisionFloat .scalePivot
      kPrimHasScalePivot false (by decide) (by decide) hr1.1 hr1.2.1
    rw [h]
    cases st <;> exact ⟨_, rfl⟩
  · exact ⟨_, rfl⟩
  · exact ⟨_, rfl⟩
  · exact ⟨_, rfl⟩

theorem setRotatePivot_total (H : Host) (t : TransformationMatrix) (sp : MPoint)
    (space : MSpace) (balance : Bool) (hr : SweepReady t) :
    ∃ r, t.setRotatePivot H .kSuccess sp space balance = some r := by
  obtain ⟨s1, hs1, hr1⟩ : ∃ s1, s1 =
      (if (baseSetRotatePivot t.toMPxTransformationMatrix .kSuccess sp space balance).1.toBool then
        { t with
          toMPxTransformationMatrix :=
            (baseSetRotatePivot t.toMPxTransformationMatrix .kSuccess sp space balance).2
          m_rotatePivotTweak :=
            (baseSetRotatePivot t.toMPxTransformationMatrix .kSuccess sp space
              balance).2.rotatePivotValue.sub t.m_rotatePivotFromUsd }
      else { t with toMPxTransformationMatrix :=
        (baseSetRotatePivot t.toMPxTransformationMatrix .kSuccess sp space balance).2 }) ∧
      SweepReady s1 := ⟨_, rfl, by split_ifs <;> exact hr⟩
  simp only [setRotatePivot]
  rw [← hs1]
  split_ifs
  · rw [insertAndPushPivotOp_rotate H s1 hr1.2.2.2.1]
    simp only [insertPivotOps, insertRotatePivotOp, if_true, Bool.false_eq_true, if_false]
    exact pivotBlock_total .rotatePivot kPrimHasRotatePivot s1
      (fun u => u.pushRotatePivotToPrim H) (Or.inr rfl) hr1
  · exact ⟨_, rfl⟩
  · exact ⟨_, rfl⟩
  · exact ⟨_, rfl⟩

/-- One statement of the sweep returns and is a step of its channel. -/
theorem sweepCall_step (nm : TfToken) (t : TransformationMatrix) (cond : Bool)
    (setter : Option (MStatus × TransformationMatrix))
    (htot : ∃ r, setter = some r)
    (hstep : ∀ r, setter = some r → ChannelStep nm t r.2) :
    ∃ t', t.sweepCall cond setter = some t' ∧ ChannelStep nm t t' := by
  unfold sweepCall
  cases cond
  · exact ⟨t, rfl, channelStep_refl nm t⟩
  · obtain ⟨r, h⟩ := htot
    exact ⟨r.2, by rw [h]; rfl, hstep r h⟩

/-- The per-component sweep returns on an engine that is `SweepReady`, and each of its nine
statements is a step of its own channel. -/
theorem reconcileComponents_steps (H : Host) (s0 : TransformationMatrix) (hr : SweepReady s0) :
    ∃ t1 t2 t3 t4 t5 t6 t7 t8 t9 : TransformationMatrix,
      SweepRun H s0 t1 t2 t3 t4 t5 t6 t7 t8 t9 ∧
      s0.reconcileComponents H .kSuccess = some t9 := by
  obtain ⟨t1, h1, c1⟩ := sweepCall_step .translate s0 _ _ (translateTo_total H s0 _ _ hr)
    (fun r => translateTo_step H s0 _ _ _ r)
  have r1 := (c1 hr).1
  obtain ⟨t2, h2, c2⟩ := sweepCall_step .scale t1 _ _ (scaleTo_total H t1 _ _ r1)
    (fun r => scaleTo_step H t1 _ _ _ r)
  have r2 := (c2 r1).1
  obtain ⟨t3, h3, c3⟩ := sweepCall_step .shear t2 _ _ (shearTo_total H t2 _ _ r2)
    (fun r => shearTo_step H t2 _ _ _ r)
  have r3 := (c3 r2).1
  obtain ⟨t4, h4, c4⟩ := sweepCall_step .scalePivot t3 _ _ (setScalePivot_total H t3 _ _ _ r3)
    (fun r => setScalePivot_step H t3 _ _ _ _ r)
  have r4 := (c4 r3).1
  obtain ⟨t5, h5, c5⟩ := sweepCall_step .scalePivotTranslate t4 _ _
    (setScalePivotTranslation_total H t4 _ _ r4)
    (fun r => setScalePivotTranslation_step H t4 _ _ _ r)
  have r5 := (c5 r4).1
  obtain ⟨t6, h6, c6⟩ := sweepCall_step .rotatePivot t5 _ _ (setRotatePivot_total H t5 _ _ _ r5)
    (fun r => setRotatePivot_step H t5 _ _ _ _ r)
  have r6 := (c6 r5).1
  obtain ⟨t7, h7, c7⟩ := sweepCall_step .rotatePivotTranslate t6 _ _
    (setRotatePivotTranslation_total H t6 _ _ r6)
    (fun r => setRotatePivotTranslation_step H t6 _ _ _ r)
  have r7 := (c7 r6).1
  obtain ⟨t8, h8, c8⟩ := sweepCall_step .rotate t7 _ _
    (rotateToQuaternion_total H t7 _ _ r7)
    (fun r => rotateToQuaternion_step H t7 _ _ _ r)
  have r8 := (c8 r7).1
  obtain ⟨t9, h9, c9⟩ := sweepCall_step .rotateAxis t8 _ _
    (setRotateOrientation_total H t8 _ _ _ r8)
    (fun r => setRotateOrientation_step H t8 _ _ _ _ r)
  refine ⟨t1, t2, t3, t4, t5, t6, t7, t8, t9, ⟨⟨h1, c1⟩, ⟨h2, c2⟩, ⟨h3, c3⟩, ⟨h4, c4⟩,
    ⟨h5, c5⟩, ⟨h6, c6⟩, ⟨h7, c7⟩, ⟨h8, c8⟩, ⟨h9, c9⟩⟩, ?_⟩
  unfold reconcileComponents
  rw [h1, Option.some_bind, h2, Option.some_bind, h3, Option.some_bind, h4, Option.some_bind,
    h5, Option.some_bind, h6, Option.some_bind, h7, Option.some_bind, h8, Option.some_bind, h9]

theorem channelData_vector (X : TfToken) (t t' : TransformationMatrix)
    (h : channelData X t' = channelData X t) :
    (X = .translate → t'.translationValue = t.translationValue ∧
      t'.m_translationFromUsd = t.m_translationFromUsd ∧
      t'.translateLocked = t.translateLocked) ∧
    (X = .scale → t'.scaleValue = t.scaleValue ∧ t'.m_scaleFromUsd = t.m_scaleFromUsd ∧
      t'.scaleLocked = t.scaleLocked) ∧
    (X = .shear → t'.shearValue = t.shearValue ∧ t'.m_shearFromUsd = t.m_shearFromUsd ∧
      t'.shearLocked = t.shearLocked) ∧
    (X = .scalePivot → t'.scalePivotValue = t.scalePivotValue ∧
      t'.m_scalePivotFromUsd = t.m_scalePivotFromUsd) ∧
    (X = .scalePivotTranslate →
      t'.scalePivotTranslationValue = t.scalePivotTranslationValue ∧
      t'.m_scalePivotTranslationFromUsd = t.m_scalePivotTranslationFromUsd) ∧
    (X = .rotatePivot → t'.rotatePivotValue = t.rotatePivotValue ∧
      t'.m_rotatePivotFromUsd = t.m_rotatePivotFromUsd) ∧
    (X = .rotatePivotTranslate →
      t'.rotatePivotTranslationValue = t.rotatePivotTranslationValue ∧
      t'.m_rotatePivotTranslationFromUsd = t.m_rotatePivotTranslationFromUsd) ∧
    (X = .rotate → t'.rotationValue = t.rotationValue ∧
      t'.m_rotationFromUsd = t.m_rotationFromUsd ∧ t'.rotateLocked = t.rotateLocked) ∧
    (X = .rotateAxis → t'.rotateOrientationValue = t.rotateOrientationValue ∧
      t'.m_rotateOrientationTweak = t.m_rotateOrientationTweak) := by
  refine ⟨?_, ?_, ?_, ?_, ?_, ?_, ?_, ?_, ?_⟩ <;> intro hX <;> subst hX <;>
    simp only [channelData, Prod.mk.injEq, List.cons.injEq, and_true, true_and] at h
  · exact ⟨h.1.1, h.1.2.1, h.2⟩
  · exact ⟨h.1.1, h.1.2.1, h.2⟩
  · exact ⟨h.1.1, h.1.2.1, h.2⟩
  · exact ⟨h.1, h.2.1⟩
  · exact ⟨h.1, h.2.1⟩
  · exact ⟨h.1, h.2.1⟩
  · exact ⟨h.1, h.2.1⟩
  · exact ⟨h.1.1, h.1.2.1, h.2⟩
  · exact ⟨h.1, h.2.2⟩

/-- A statement of the sweep whose condition holds ends in the state its setter returns. -/
theorem sweepCall_run (t t' r : TransformationMatrix) (cond : Bool) (st : MStatus)
    (setter : Option (MStatus × TransformationMatrix))
    (h : t.sweepCall cond setter = some t') (hc : cond = true) (hs : setter = some (st, r)) :
    t' = r := by
  rw [sweepCall, hc, hs] at h
  simpa using h.symm

/-- A channel that is ready for the write is swept: its presence flag is set or its live value
differs from the identity. -/
theorem vectorReady_swept (s : TransformationMatrix) (X : TfToken) (ty : XformOpType)
    (ident live : MVector)
    (read : UsdStage → MVector → UsdGeomXformOp → UsdTimeCode → Bool × MVector)
    (op : UsdGeomXformOp) (vty : UsdDataType)
    (h : VectorReady s X ty ident live read op vty) :
    (hasFlag s.m_flags (presenceFlagOf X) || decide (live ≠ ident)) = true := by
  rcases h with ⟨hfl, _⟩ | ⟨_, _, _, _, _, hch⟩
  · rw [hfl]; rfl
  · have : live ≠ ident := by
      intro e
      rw [e, MVector.isEquivalent_refl] at hch
      exact absurd hch (by decide)
    simp [this]

theorem sweep_translate_holds (H : Host) (s0 t1 t2 t3 t4 t5 t6 t7 t8 t9 : TransformationMatrix)
    (hr : SweepReady s0) (hrun : SweepRun H s0 t1 t2 t3 t4 t5 t6 t7 t8 t9)
    (hav : s0.pushToPrimAvailable = true) (op : UsdGeomXformOp) (vty : UsdDataType)
    (hl : s0.translateLocked = false)
    (hg : s0.translationValue.isEquivalent s0.m_translationFromUsd = false)
    (hrd : VectorReady s0 .translate .TypeTranslate MVector.zero s0.translationValue readVector op vty) :
    t9.translationValue = s0.translationValue ∧ VectorHeld H t9 .translate readVector op vty s0.translationValue := by
  obtain ⟨⟨h1, c1⟩, ⟨h2, c2⟩, ⟨h3, c3⟩, ⟨h4, c4⟩, ⟨h5, c5⟩, ⟨h6, c6⟩, ⟨h7, c7⟩, ⟨h8, c8⟩,
    ⟨h9, c9⟩⟩ := hrun
  have r0 := hr
  have r1 := (c1 r0).1
  have r2 := (c2 r1).1
  have r3 := (c3 r2).1
  have r4 := (c4 r3).1
  have r5 := (c5 r4).1
  have r6 := (c6 r5).1
  have r7 := (c7 r6).1
  have r8 := (c8 r7).1
  have r9 := (c9 r8).1
  have pre : SweepKept .translate s0 s0 :=
    (sweepKept_refl _ _ r0)
  have post : SweepKept .translate t1 t9 :=
    (sweepKept_trans (sweepKept_trans (sweepKept_trans (sweepKept_trans (sweepKept_trans (sweepKept_trans (sweepKept_trans (sweepKept_trans (sweepKept_refl _ _ r1)
      (sweepKept_of_step c2 r1 (by decide)))
      (sweepKept_of_step c3 r2 (by decide)))
      (sweepKept_of_step c4 r3 (by decide)))
      (sweepKept_of_step c5 r4 (by decide)))
      (sweepKept_of_step c6 r5 (by decide)))
      (sweepKept_of_step c7 r6 (by decide)))
      (sweepKept_of_step c8 r7 (by decide)))
      (sweepKept_of_step c9 r8 (by decide)))
  obtain ⟨dl, df, dk⟩ := (channelData_vector .translate s0 s0 pre.2.2.2.2.2.2.1).1 rfl
  have hrd' := vectorReady_kept (sweepKept_getTimeCode pre) pre.2.2.2.2.2.2 r0 .TypeTranslate _ _ readVector readVector_attr_congr op vty hrd
  rw [← dl] at hrd'
  obtain ⟨r, hset, hlive, hheld⟩ := translateTo_holds H s0 op vty r0
    (by rw [sweepKept_available pre]; exact hav) (by rw [dk]; exact hl)
    (by rw [dl, df]; exact hg) hrd'
  have e := sweepCall_run s0 t1 r _ _ _ h1
    (vectorReady_swept s0 .translate .TypeTranslate MVector.zero _ readVector op vty hrd') hset
  subst e
  obtain ⟨pl, _, _⟩ := (channelData_vector .translate t1 t9 post.2.2.2.2.2.2.1).1 rfl
  rw [dl] at hlive hheld
  exact ⟨pl.trans hlive, vectorHeld_kept (sweepKept_getTimeCode post) post.2.2.2.2.2.2 r1 H readVector readVector_attr_congr op vty _
    hheld⟩

theorem sweep_scale_holds (H : Host) (s0 t1 t2 t3 t4 t5 t6 t7 t8 t9 : TransformationMatrix)
    (hr : SweepReady s0) (hrun : SweepRun H s0 t1 t2 t3 t4 t5 t6 t7 t8 t9)
    (hav : s0.pushToPrimAvailable = true) (op : UsdGeomXformOp) (vty : UsdDataType)
    (hl : s0.scaleLocked = false)
    (hg : s0.scaleValue.isEquivalent s0.m_scaleFromUsd = false)
    (hrd : VectorReady s0 .scale .TypeScale MVector.one s0.scaleValue readVector op vty) :
    t9.scaleValue = s0.scaleValue ∧ VectorHeld H t9 .scale readVector op vty s0.scaleValue := by
  obtain ⟨⟨h1, c1⟩, ⟨h2, c2⟩, ⟨h3, c3⟩, ⟨h4, c4⟩, ⟨h5, c5⟩, ⟨h6, c6⟩, ⟨h7, c7⟩, ⟨h8, c8⟩,
    ⟨h9, c9⟩⟩ := hrun
  have r0 := hr
  have r1 := (c1 r0).1
  have r2 := (c2 r1).1
  have r3 := (c3 r2).1
  have r4 := (c4 r3).1
  have r5 := (c5 r4).1
  have r6 := (c6 r5).1
  have r7 := (c7 r6).1
  have r8 := (c8 r7).1
  have r9 := (c9 r8).1
  have pre : SweepKept .scale s0 t1 :=
    (sweepKept_trans (sweepKept_refl _ _ r0)
      (sweepKept_of_step c1 r0 (by decide)))
  have post : SweepKept .scale t2 t9 :=
    (sweepKept_trans (sweepKept_trans (sweepKept_trans (sweepKept_trans (sweepKept_trans (sweepKept_trans (sweepKept_trans (sweepKept_refl _ _ r2)
      (sweepKept_of_step c3 r2 (by decide)))
      (sweepKept_of_step c4 r3 (by decide)))
      (sweepKept_of_step c5 r4 (by decide)))
      (sweepKept_of_step c6 r5 (by decide)))
      (sweepKept_of_step c7 r6 (by decide)))
      (sweepKept_of_step c8 r7 (by decide)))
      (sweepKept_of_step c9 r8 (by decide)))
  obtain ⟨dl, df, dk⟩ := (channelData_vector .scale s0 t1 pre.2.2.2.2.2.2.1).2.1 rfl
  have hrd' := vectorReady_kept (sweepKept_getTimeCode pre) pre.2.2.2.2.2.2 r0 .TypeScale _ _ readVector readVector_attr_congr op vty hrd
  rw [← dl] at hrd'
  obtain ⟨r, hset, hlive, hheld⟩ := scaleTo_holds H t1 op vty r1
    (by rw [sweepKept_available pre]; exact hav) (by rw [dk]; exact hl)
    (by rw [dl, df]; exact hg) hrd'
  have e := sweepCall_run t1 t2 r _ _ _ h2
    (vectorReady_swept t1 .scale .TypeScale MVector.one _ readVector op vty hrd') hset
  subst e
  obtain ⟨pl, _, _⟩ := (channelData_vector .scale t2 t9 post.2.2.2.2.2.2.1).2.1 rfl
  rw [dl] at hlive hheld
  exact ⟨pl.trans hlive, vectorHeld_kept (sweepKept_getTimeCode post) post.2.2.2.2.2.2 r2 H readVector readVector_attr_congr op vty _
    hheld⟩

theorem sweep_scalePivot_holds (H : Host) (s0 t1 t2 t3 t4 t5 t6 t7 t8 t9 : TransformationMatrix)
    (hr : SweepReady s0) (hrun : SweepRun H s0 t1 t2 t3 t4 t5 t6 t7 t8 t9)
    (hav : s0.pushToPrimAvailable = true) (op : UsdGeomXformOp) (vty : UsdDataType)
    (hg : hasFlag s0.m_flags (presenceFlagOf .scalePivot) = true →
      s0.scalePivotValue.isEquivalent s0.m_scalePivotFromUsd = false)
    (hrd : VectorReady s0 .scalePivot .TypeTranslate MVector.zero s0.scalePivotValue readPoint op vty) :
    t9.scalePivotValue = s0.scalePivotValue ∧ VectorHeld H t9 .scalePivot readPoint op vty s0.scalePivotValue := by
  obtain ⟨⟨h1, c1⟩, ⟨h2, c2⟩, ⟨h3, c3⟩, ⟨h4, c4⟩, ⟨h5, c5⟩, ⟨h6, c6⟩, ⟨h7, c7⟩, ⟨h8, c8⟩,
    ⟨h9, c9⟩⟩ := hrun
  have r0 := hr
  have r1 := (c1 r0).1
  have r2 := (c2 r1).1
  have r3 := (c3 r2).1
  have r4 := (c4 r3).1
  have r5 := (c5 r4).1
  have r6 := (c6 r5).1
  have r7 := (c7 r6).1
  have r8 := (c8 r7).1
  have r9 := (c9 r8).1
  have pre : SweepKept .scalePivot s0 t3 :=
    (sweepKept_trans (sweepKept_trans (sweepKept_trans (sweepKept_refl _ _ r0)
      (sweepKept_of_step c1 r0 (by decide)))
      (sweepKept_of_step c2 r1 (by decide)))
      (sweepKept_of_step c3 r2 (by decide)))
  have post : SweepKept .scalePivot t4 t9 :=
    (sweepKept_trans (sweepKept_trans (sweepKept_trans (sweepKept_trans (sweepKept_trans (sweepKept_refl _ _ r4)
      (sweepKept_of_step c5 r4 (by decide)))
      (sweepKept_of_step c6 r5 (by decide)))
      (sweepKept_of_step c7 r6 (by decide)))
      (sweepKept_of_step c8 r7 (by decide)))
      (sweepKept_of_step c9 r8 (by decide)))
  obtain ⟨dl, df⟩ := (channelData_vector .scalePivot s0 t3 pre.2.2.2.2.2.2.1).2.2.2.1 rfl
  have hrd' := vectorReady_kept (sweepKept_getTimeCode pre) pre.2.2.2.2.2.2 r0 .TypeTranslate _ _ readPoint readPoint_attr_congr op vty hrd
  rw [← dl] at hrd'
  obtain ⟨r, hset, hlive, hheld⟩ := setScalePivot_holds H t3 op vty r3
    (by rw [sweepKept_available pre]; exact hav)
    (fun hf => by rw [dl, df]; exact hg (pre.2.2.2.2.2.2.2.1.symm.trans hf)) hrd'
  have e := sweepCall_run t3 t4 r _ _ _ h4
    (vectorReady_swept t3 .scalePivot .TypeTranslate MVector.zero _ readPoint op vty hrd') hset
  subst e
  obtain ⟨pl, _⟩ := (channelData_vector .scalePivot t4 t9 post.2.2.2.2.2.2.1).2.2.2.1 rfl
  rw [dl] at hlive hheld
  exact ⟨pl.trans hlive, vectorHeld_kept (sweepKept_getTimeCode post) post.2.2.2.2.2.2 r4 H readPoint readPoint_attr_congr op vty _
    hheld⟩

theorem sweep_scalePivotTranslate_holds (H : Host) (s0 t1 t2 t3 t4 t5 t6 t7 t8 t9 : TransformationMatrix)
    (hr : SweepReady s0) (hrun : SweepRun H s0 t1 t2 t3 t4 t5 t6 t7 t8 t9)
    (hav : s0.pushToPrimAvailable = true) (op : UsdGeomXformOp) (vty : UsdDataType)
    (hg : s0.scalePivotTranslationValue.isEquivalent s0.m_scalePivotTranslationFromUsd = false)
    (hrd : VectorReady s0 .scalePivotTranslate .TypeTranslate MVector.zero s0.scalePivotTranslationValue readVector op vty) :
    t9.scalePivotTranslationValue = s0.scalePivotTranslationValue ∧ VectorHeld H t9 .scalePivotTranslate readVector op vty s0.scalePivotTranslationValue := by
  obtain ⟨⟨h1, c1⟩, ⟨h2, c2⟩, ⟨h3, c3⟩, ⟨h4, c4⟩, ⟨h5, c5⟩, ⟨h6, c6⟩, ⟨h7, c7⟩, ⟨h8, c8⟩,
    ⟨h9, c9⟩⟩ := hrun
  have r0 := hr
  have r1 := (c1 r0).1
  have r2 := (c2 r1).1
  have r3 := (c3 r2).1
  have r4 := (c4 r3).1
  have r5 := (c5 r4).1
  have r6 := (c6 r5).1
  have r7 := (c7 r6).1
  have r8 := (c8 r7).1
  have r9 := (c9 r8).1
  have pre : SweepKept .scalePivotTranslate s0 t4 :=
    (sweepKept_trans (sweepKept_trans (sweepKept_trans (sweepKept_trans (sweepKept_refl _ _ r0)
      (sweepKept_of_step c1 r0 (by decide)))
      (sweepKept_of_step c2 r1 (by decide)))
      (sweepKept_of_step c3 r2 (by decide)))
      (sweepKept_of_step c4 r3 (by decide)))
  have post : SweepKept .scalePivotTranslate t5 t9 :=
    (sweepKept_trans (sweepKept_trans (sweepKept_trans (sweepKept_trans (sweepKept_refl _ _ r5)
      (sweepKept_of_step c6 r5 (by decide)))
      (sweepKept_of_step c7 r6 (by decide)))
      (sweepKept_of_step c8 r7 (by decide)))
      (sweepKept_of_step c9 r8 (by decide)))
  obtain ⟨dl, df⟩ := (channelData_vector .scalePivotTranslate s0 t4 pre.2.2.2.2.2.2.1).2.2.2.2.1 rfl
  have hrd' := vectorReady_kept (sweepKept_getTimeCode pre) pre.2.2.2.2.2.2 r0 .TypeTranslate _ _ readVector readVector_attr_congr op vty hrd
  rw [← dl] at hrd'
  obtain ⟨r, hset, hlive, hheld⟩ := setScalePivotTranslation_holds H t4 op vty r4
    (by rw [sweepKept_available pre]; exact hav)
    (by rw [dl, df]; exact hg) hrd'
  have e := sweepCall_run t4 t5 r _ _ _ h5
    (vectorReady_swept t4 .scalePivotTranslate .TypeTranslate MVector.zero _ readVector op vty hrd') hset
  subst e
  obtain ⟨pl, _⟩ := (channelData_vector .scalePivotTranslate t5 t9 post.2.2.2.2.2.2.1).2.2.2.2.1 rfl
  rw [dl] at hlive hheld
  exact ⟨pl.trans hlive, vectorHeld_kept (sweepKept_getTimeCode post) post.2.2.2.2.2.2 r5 H readVector readVector_attr_congr op vty _
    hheld⟩

theorem sweep_rotatePivot_holds (H : Host) (s0 t1 t2 t3 t4 t5 t6 t7 t8 t9 : TransformationMatrix)
    (hr : SweepReady s0) (hrun : SweepRun H s0 t1 t2 t3 t4 t5 t6 t7 t8 t9)
    (hav : s0.pushToPrimAvailable = true) (op : UsdGeomXformOp) (vty : UsdDataType)
    (hg : hasFlag s0.m_flags (presenceFlagOf .rotatePivot) = true →
      s0.rotatePivotValue.isEquivalent s0.m_rotatePivotFromUsd = false)
    (hrd : VectorReady s0 .rotatePivot .TypeTranslate MVector.zero s0.rotatePivotValue readPoint op vty) :
    t9.rotatePivotValue = s0.rotatePivotValue ∧ VectorHeld H t9 .rotatePivot readPoint op vty s0.rotatePivotValue := by
  obtain ⟨⟨h1, c1⟩, ⟨h2, c2⟩, ⟨h3, c3⟩, ⟨h4, c4⟩, ⟨h5, c5⟩, ⟨h6, c6⟩, ⟨h7, c7⟩, ⟨h8, c8⟩,
    ⟨h9, c9⟩⟩ := hrun
  have r0 := hr
  have r1 := (c1 r0).1
  have r2 := (c2 r1).1
  have r3 := (c3 r2).1
  have r4 := (c4 r3).1
  have r5 := (c5 r4).1
  have r6 := (c6 r5).1
  have r7 := (c7 r6).1
  have r8 := (c8 r7).1
  have r9 := (c9 r8).1
  have pre : SweepKept .rotatePivot s0 t5 :=
    (sweepKept_trans (sweepKept_trans (sweepKept_trans (sweepKept_trans (sweepKept_trans (sweepKept_refl _ _ r0)
      (sweepKept_of_step c1 r0 (by decide)))
      (sweepKept_of_step c2 r1 (by decide)))
      (sweepKept_of_step c3 r2 (by decide)))
      (sweepKept_of_step c4 r3 (by decide)))
      (sweepKept_of_step c5 r4 (by decide)))
  have post : SweepKept .rotatePivot t6 t9 :=
    (sweepKept_trans (sweepKept_trans (sweepKept_trans (sweepKept_refl _ _ r6)
      (sweepKept_of_step c7 r6 (by decide)))
      (sweepKept_of_step c8 r7 (by decide)))
      (sweepKept_of_step c9 r8 (by decide)))
  obtain ⟨dl, df⟩ := (channelData_vector .rotatePivot s0 t5 pre.2.2.2.2.2.2.1).2.2.2.2.2.1 rfl
  have hrd' := vectorReady_kept (sweepKept_getTimeCode pre) pre.2.2.2.2.2.2 r0 .TypeTranslate _ _ readPoint readPoint_attr_congr op vty hrd
  rw [← dl] at hrd'
  obtain ⟨r, hset, hlive, hheld⟩ := setRotatePivot_holds H t5 op vty r5
    (by rw [sweepKept_available pre]; exact hav)
    (fun hf => by rw [dl, df]; exact hg (pre.2.2.2.2.2.2.2.1.symm.trans hf)) hrd'
  have e := sweepCall_run t5 t6 r _ _ _ h6
    (vectorReady_swept t5 .rotatePivot .TypeTranslate MVector.zero _ readPoint op vty hrd') hset
  subst e
  obtain ⟨pl, _⟩ := (channelData_vector .rotatePivot t6 t9 post.2.2.2.2.2.2.1).2.2.2.2.2.1 rfl
  rw [dl] at hlive hheld
  exact ⟨pl.trans hlive, vectorHeld_kept (sweepKept_getTimeCode post) post.2.2.2.2.2.2 r6 H readPoint readPoint_attr_congr op vty _
    hheld⟩

theorem sweep_rotatePivotTranslate_holds (H : Host) (s0 t1 t2 t3 t4 t5 t6 t7 t8 t9 : TransformationMatrix)
    (hr : SweepReady s0) (hrun : SweepRun H s0 t1 t2 t3 t4 t5 t6 t7 t8 t9)
    (hav : s0.pushToPrimAvailable = true) (op : UsdGeomXformOp) (vty : UsdDataType)
    (hg : s0.rotatePivotTranslationValue.isEquivalent s0.m_rotatePivotTranslationFromUsd = false)
    (hrd : VectorReady s0 .rotatePivotTranslate .TypeTranslate MVector.zero s0.rotatePivotTranslationValue readVector op vty) :
    t9.rotatePivotTranslationValue = s0.rotatePivotTranslationValue ∧ VectorHeld H t9 .rotatePivotTranslate readVector op vty s0.rotatePivotTranslationValue := by
  obtain ⟨⟨h1, c1⟩, ⟨h2, c2⟩, ⟨h3, c3⟩, ⟨h4, c4⟩, ⟨h5, c5⟩, ⟨h6, c6⟩, ⟨h7, c7⟩, ⟨h8, c8⟩,
    ⟨h9, c9⟩⟩ := hrun
  have r0 := hr
  have r1 := (c1 r0).1
  have r2 := (c2 r1).1
  have r3 := (c3 r2).1
  have r4 := (c4 r3).1
  have r5 := (c5 r4).1
  have r6 := (c6 r5).1
  have r7 := (c7 r6).1
  have r8 := (c8 r7).1
  have r9 := (c9 r8).1
  have pre : SweepKept .rotatePivotTranslate s0 t6 :=
    (sweepKept_trans (sweepKept_trans (sweepKept_trans (sweepKept_trans (sweepKept_trans (sweepKept_trans (sweepKept_refl _ _ r0)
      (sweepKept_of_step c1 r0 (by decide)))
      (sweepKept_of_step c2 r1 (by decide)))
      (sweepKept_of_step c3 r2 (by decide)))
      (sweepKept_of_step c4 r3 (by decide)))
      (sweepKept_of_step c5 r4 (by decide)))
      (sweepKept_of_step c6 r5 (by decide)))
  have post : SweepKept .rotatePivotTranslate t7 t9 :=
    (sweepKept_trans (sweepKept_trans (sweepKept_refl _ _ r7)
      (sweepKept_of_step c8 r7 (by decide)))
      (sweepKept_of_step c9 r8 (by decide)))
  obtain ⟨dl, df⟩ := (channelData_vector .rotatePivotTranslate s0 t6 pre.2.2.2.2.2.2.1).2.2.2.2.2.2.1 rfl
  have hrd' := vectorReady_kept (sweepKept_getTimeCode pre) pre.2.2.2.2.2.2 r0 .TypeTranslate _ _ readVector readVector_attr_congr op vty hrd
  rw [← dl] at hrd'
  obtain ⟨r, hset, hlive, hheld⟩ := setRotatePivotTranslation_holds H t6 op vty r6
    (by rw [sweepKept_available pre]; exact hav)
    (by rw [dl, df]; exact hg) hrd'
  have e := sweepCall_run t6 t7 r _ _ _ h7
    (vectorReady_swept t6 .rotatePivotTranslate .TypeTranslate MVector.zero _ readVector op vty hrd') hset
  subst e
  obtain ⟨pl, _⟩ := (channelData_vector .rotatePivotTranslate t7 t9 post.2.2.2.2.2.2.1).2.2.2.2.2.2.1 rfl
  rw [dl] at hlive hheld
  exact ⟨pl.trans hlive, vectorHeld_kept (sweepKept_getTimeCode post) post.2.2.2.2.2.2 r7 H readVector readVector_attr_congr op vty _
    hheld⟩

theorem sweep_shear_holds (H : Host) (s0 t1 t2 t3 t4 t5 t6 t7 t8 t9 : TransformationMatrix)
    (hr : SweepReady s0) (hrun : SweepRun H s0 t1 t2 t3 t4 t5 t6 t7 t8 t9)
    (hav : s0.pushToPrimAvailable = true) (op : UsdGeomXformOp)
    (hl : s0.shearLocked = false)
    (hg : s0.shearValue.isEquivalent s0.m_shearFromUsd = false)
    (hrd : ShearReady s0 op) :
    t9.shearValue = s0.shearValue ∧ ShearHeld t9 op s0.shearValue := by
  obtain ⟨⟨h1, c1⟩, ⟨h2, c2⟩, ⟨h3, c3⟩, ⟨h4, c4⟩, ⟨h5, c5⟩, ⟨h6, c6⟩, ⟨h7, c7⟩, ⟨h8, c8⟩,
    ⟨h9, c9⟩⟩ := hrun
  have r0 := hr
  have r1 := (c1 r0).1
  have r2 := (c2 r1).1
  have r3 := (c3 r2).1
  have r4 := (c4 r3).1
  have r5 := (c5 r4).1
  have r6 := (c6 r5).1
  have r7 := (c7 r6).1
  have r8 := (c8 r7).1
  have r9 := (c9 r8).1
  have pre : SweepKept .shear s0 t2 :=
    (sweepKept_trans (sweepKept_trans (sweepKept_refl _ _ r0)
      (sweepKept_of_step c1 r0 (by decide)))
      (sweepKept_of_step c2 r1 (by decide)))
  have post : SweepKept .shear t3 t9 :=
    (sweepKept_trans (sweepKept_trans (sweepKept_trans (sweepKept_trans (sweepKept_trans (sweepKept_trans (sweepKept_refl _ _ r3)
      (sweepKept_of_step c4 r3 (by decide)))
      (sweepKept_of_step c5 r4 (by decide)))
      (sweepKept_of_step c6 r5 (by decide)))
      (sweepKept_of_step c7 r6 (by decide)))
      (sweepKept_of_step c8 r7 (by decide)))
      (sweepKept_of_step c9 r8 (by decide)))
  obtain ⟨dl, df, dk⟩ := (channelData_vector .shear s0 t2 pre.2.2.2.2.2.2.1).2.2.1 rfl
  have hrd' := shearReady_kept (sweepKept_getTimeCode pre) pre.2.2.2.2.2.2 r0 op dl hrd
  obtain ⟨r, hset, hlive, hheld⟩ := shearTo_holds H t2 op r2
    (by rw [sweepKept_available pre]; exact hav) (by rw [dk]; exact hl)
    (by rw [dl, df]; exact hg) hrd'
  have hc : (t2.primHasShear || decide (t2.shearValue ≠ MVector.zero)) = true := by
    rcases hrd' with ⟨hfl, _⟩ | ⟨_, hne, _⟩
    · simp only [primHasShear]
      rw [show hasFlag t2.m_flags kPrimHasShear = true from hfl]; rfl
    · simp [hne]
  have e := sweepCall_run t2 t3 r _ _ _ h3 hc hset
  subst e
  obtain ⟨pl, _, _⟩ := (channelData_vector .shear t3 t9 post.2.2.2.2.2.2.1).2.2.1 rfl
  rw [dl] at hlive hheld
  exact ⟨pl.trans hlive, shearHeld_kept (sweepKept_getTimeCode post) post.2.2.2.2.2.2 r3 op _ hheld⟩

theorem sweep_rotate_holds (H : Host) (s0 t1 t2 t3 t4 t5 t6 t7 t8 t9 : TransformationMatrix)
    (hr : SweepReady s0) (hrun : SweepRun H s0 t1 t2 t3 t4 t5 t6 t7 t8 t9)
    (hav : s0.pushToPrimAvailable = true) (op : UsdGeomXformOp) (vty : UsdDataType)
    (o : RotationOrder) (hl : s0.rotateLocked = false)
    (hw : s0.m_enableUsdWriteback = true)
    (hg : (H.asEulerRotation (H.asQuaternion s0.rotationValue)).isEquivalent
      s0.m_rotationFromUsd = false)
    (hrd : RotationReady H s0 (H.asEulerRotation (H.asQuaternion s0.rotationValue)) op vty o) :
    t9.rotationValue = H.asEulerRotation (H.asQuaternion s0.rotationValue) ∧
    RotationHeld H t9 op vty o (H.asEulerRotation (H.asQuaternion s0.rotationValue)) := by
  obtain ⟨⟨h1, c1⟩, ⟨h2, c2⟩, ⟨h3, c3⟩, ⟨h4, c4⟩, ⟨h5, c5⟩, ⟨h6, c6⟩, ⟨h7, c7⟩, ⟨h8, c8⟩,
    ⟨h9, c9⟩⟩ := hrun
  have r0 := hr
  have r1 := (c1 r0).1
  have r2 := (c2 r1).1
  have r3 := (c3 r2).1
  have r4 := (c4 r3).1
  have r5 := (c5 r4).1
  have r6 := (c6 r5).1
  have r7 := (c7 r6).1
  have r8 := (c8 r7).1
  have r9 := (c9 r8).1
  have pre : SweepKept .rotate s0 t7 :=
    (sweepKept_trans (sweepKept_trans (sweepKept_trans (sweepKept_trans (sweepKept_trans (sweepKept_trans (sweepKept_trans (sweepKept_refl _ _ r0)
      (sweepKept_of_step c1 r0 (by decide)))
      (sweepKept_of_step c2 r1 (by decide)))
      (sweepKept_of_step c3 r2 (by decide)))
      (sweepKept_of_step c4 r3 (by decide)))
      (sweepKept_of_step c5 r4 (by decide)))
      (sweepKept_of_step c6 r5 (by decide)))
      (sweepKept_of_step c7 r6 (by decide)))
  have post : SweepKept .rotate t8 t9 :=
    (sweepKept_trans (sweepKept_refl _ _ r8)
      (sweepKept_of_step c9 r8 (by decide)))
  obtain ⟨dl, df, dk⟩ :=
    (channelData_vector .rotate s0 t7 pre.2.2.2.2.2.2.1).2.2.2.2.2.2.2.1 rfl
  have hrd' := rotationReady_kept (sweepKept_getTimeCode pre) pre.2.2.2.2.2.2 r0 H _ op vty o dl hrd
  rw [← dl] at hrd'
  obtain ⟨r, hset, hlive, hheld⟩ := rotateToQuaternion_holds H t7 op vty o r7
    (by rw [sweepKept_available pre]; exact hav) (by rw [dk]; exact hl)
    (by rw [pre.2.2.2.2.2.1]; exact hw)
    (by rw [dl, df]; exact hg) hrd'
  have hc : (t7.primHasRotation ||
      decide (H.asQuaternion t7.rotationValue ≠ MQuaternion.identity)) = true := by
    rcases hrd' with ⟨hfl, _⟩ | ⟨_, hne, _⟩
    · simp only [primHasRotation]
      rw [show hasFlag t7.m_flags kPrimHasRotation = true from hfl]; rfl
    · simp [hne]
  have e := sweepCall_run t7 t8 r _ _ _ h8 hc hset
  subst e
  obtain ⟨pl, _, _⟩ :=
    (channelData_vector .rotate t8 t9 post.2.2.2.2.2.2.1).2.2.2.2.2.2.2.1 rfl
  rw [dl] at hlive hheld
  exact ⟨pl.trans hlive, rotationHeld_kept (sweepKept_getTimeCode post) post.2.2.2.2.2.2 r8 H op vty o _ hheld⟩

theorem sweep_rotateAxis_holds (H : Host)
    (s0 t1 t2 t3 t4 t5 t6 t7 t8 t9 : TransformationMatrix)
    (hr : SweepReady s0) (hrun : SweepRun H s0 t1 t2 t3 t4 t5 t6 t7 t8 t9)
    (hav : s0.pushToPrimAvailable = true) (op : UsdGeomXformOp) (vty : UsdDataType)
    (hw : s0.m_enableUsdWriteback = true)
    (hrd : RotateAxisReady H s0
      (s0.rotateOrientationValue.mul s0.m_rotateOrientationTweak.inverse) op vty) :
    t9.rotateOrientationValue = s0.rotateOrientationValue ∧
    RotateAxisHeld H t9 op vty
      (s0.rotateOrientationValue.mul s0.m_rotateOrientationTweak.inverse) := by
  obtain ⟨⟨h1, c1⟩, ⟨h2, c2⟩, ⟨h3, c3⟩, ⟨h4, c4⟩, ⟨h5, c5⟩, ⟨h6, c6⟩, ⟨h7, c7⟩, ⟨h8, c8⟩,
    ⟨h9, c9⟩⟩ := hrun
  have r0 := hr
  have r1 := (c1 r0).1
  have r2 := (c2 r1).1
  have r3 := (c3 r2).1
  have r4 := (c4 r3).1
  have r5 := (c5 r4).1
  have r6 := (c6 r5).1
  have r7 := (c7 r6).1
  have r8 := (c8 r7).1
  have r9 := (c9 r8).1
  have pre : SweepKept .rotateAxis s0 t8 :=
    (sweepKept_trans (sweepKept_trans (sweepKept_trans (sweepKept_trans (sweepKept_trans (sweepKept_trans (sweepKept_trans (sweepKept_trans (sweepKept_refl _ _ r0)
      (sweepKept_of_step c1 r0 (by decide)))
      (sweepKept_of_step c2 r1 (by decide)))
      (sweepKept_of_step c3 r2 (by decide)))
      (sweepKept_of_step c4 r3 (by decide)))
      (sweepKept_of_step c5 r4 (by decide)))
      (sweepKept_of_step c6 r5 (by decide)))
      (sweepKept_of_step c7 r6 (by decide)))
      (sweepKept_of_step c8 r7 (by decide)))
  have post : SweepKept .rotateAxis t9 t9 :=
    (sweepKept_refl _ _ r9)
  obtain ⟨dl, dt⟩ :=
    (channelData_vector .rotateAxis s0 t8 pre.2.2.2.2.2.2.1).2.2.2.2.2.2.2.2 rfl
  have hrd' := rotateAxisReady_kept (sweepKept_getTimeCode pre) pre.2.2.2.2.2.2 r0 H _ op vty dl hrd
  rw [← dl, ← dt] at hrd'
  obtain ⟨r, hset, hlive, _, hheld⟩ := setRotateOrientation_holds H t8 op vty r8
    (by rw [sweepKept_available pre]; exact hav)
    (by rw [pre.2.2.2.2.2.1]; exact hw) hrd'
  have hc : (t8.primHasRotateAxes ||
      decide (t8.rotateOrientationValue ≠ MQuaternion.identity)) = true := by
    rcases hrd' with ⟨hfl, _⟩ | ⟨_, hne, _⟩
    · simp only [primHasRotateAxes]
      rw [show hasFlag t8.m_flags kPrimHasRotateAxes = true from hfl]; rfl
    · simp [hne]
  have e := sweepCall_run t8 t9 r _ _ _ h9 hc hset
  subst e
  rw [dl, dt] at hheld
  exact ⟨hlive.trans dl, hheld⟩

/-- Setting the write-back preference keeps every channel, the current time code and
`SweepReady`, and makes write-back available on a valid prim. -/
theorem enable_kept (s : TransformationMatrix) :
    (∀ X, ChannelKept X s { s with m_flags := setFlag s.m_flags kPushToPrimEnabled }) ∧
    ({ s with m_flags := setFlag s.m_flags kPushToPrimEnabled } :
      TransformationMatrix).getTimeCode = s.getTimeCode ∧
    (SweepReady s → SweepReady { s with m_flags := setFlag s.m_flags kPushToPrimEnabled }) ∧
    (s.primValid = true →
      ({ s with m_flags := setFlag s.m_flags kPushToPrimEnabled } :
        TransformationMatrix).pushToPrimAvailable = true) := by
  refine ⟨fun X => ⟨?_, ?_, rfl, fun _ => rfl, fun h => h⟩, ?_, ?_, ?_⟩
  · cases X <;> rfl
  · exact hasFlag_setFlag_other _ _ _ (by rw [Nat.land_comm]; exact presenceFlagOf_push X)
  · simp only [getTimeCode, readAnimatedValues]
    rw [hasFlag_setFlag_other _ _ _ (by decide)]
  · intro hr
    refine ⟨hr.1, hr.2.1, hr.2.2.1, ?_, ?_⟩
    · exact (hasFlag_setFlag_other _ _ _ (by decide)).trans hr.2.2.2.1
    · exact (hasFlag_setFlag_other _ _ _ (by decide)).trans hr.2.2.2.2
  · intro hv
    simp only [pushToPrimAvailable, pushToPrimEnabled, hv, Bool.and_true]
    exact hasFlag_setFlag_self _ _ (by decide)

/-- The per-component sweep of `enablePushToPrim(true)` on a valid prim at the default time
code, on an engine that is `SweepReady`: the call returns, and every channel that is unlocked,
whose live value is not within tolerance of the value last read from the prim and that can take
the write ends with its operator holding the live value. -/
theorem enablePushToPrim_components (H : Host) (s : TransformationMatrix)
    (hv : s.primValid = true) (ht : s.getTimeCode = .Default) (hr : SweepReady s) :
    ∃ r, s.enablePushToPrim H .kSuccess true = some r ∧ SweepReady r ∧
      (∀ op vty, s.translateLocked = false →
        s.translationValue.isEquivalent s.m_translationFromUsd = false →
        VectorReady s .translate .TypeTranslate MVector.zero s.translationValue readVector
          op vty →
        r.translationValue = s.translationValue ∧
        VectorHeld H r .translate readVector op vty s.translationValue) ∧
      (∀ op vty, s.scaleLocked = false →
        s.scaleValue.isEquivalent s.m_scaleFromUsd = false →
        VectorReady s .scale .TypeScale MVector.one s.scaleValue readVector op vty →
        r.scaleValue = s.scaleValue ∧ VectorHeld H r .scale readVector op vty s.scaleValue) ∧
      (∀ op, s.shearLocked = false →
        s.shearValue.isEquivalent s.m_shearFromUsd = false → ShearReady s op →
        r.shearValue = s.shearValue ∧ ShearHeld r op s.shearValue) ∧
      (∀ op vty,
        (s.primHasScalePivot = true →
          s.scalePivotValue.isEquivalent s.m_scalePivotFromUsd = false) →
        VectorReady s .scalePivot .TypeTranslate MVector.zero s.scalePivotValue readPoint
          op vty →
        r.scalePivotValue = s.scalePivotValue ∧
        VectorHeld H r .scalePivot readPoint op vty s.scalePivotValue) ∧
      (∀ op vty,
        s.scalePivotTranslationValue.isEquivalent s.m_scalePivotTranslationFromUsd = false →
        VectorReady s .scalePivotTranslate .TypeTranslate MVector.zero
          s.scalePivotTranslationValue readVector op vty →
        r.scalePivotTranslationValue = s.scalePivotTranslationValue ∧
        VectorHeld H r .scalePivotTranslate readVector op vty s.scalePivotTranslationValue) ∧
      (∀ op vty,
        (s.primHasRotatePivot = true →
          s.rotatePivotValue.isEquivalent s.m_rotatePivotFromUsd = false) →
        VectorReady s .rotatePivot .TypeTranslate MVector.zero s.rotatePivotValue readPoint
          op vty →
        r.rotatePivotValue = s.rotatePivotValue ∧
        VectorHeld H r .rotatePivot readPoint op vty s.rotatePivotValue) ∧
      (∀ op vty,
        s.rotatePivotTranslationValue.isEquivalent s.m_rotatePivotTranslationFromUsd = false →
        VectorReady s .rotatePivotTranslate .TypeTranslate MVector.zero
          s.rotatePivotTranslationValue readVector op vty →
        r.rotatePivotTranslationValue = s.rotatePivotTranslationValue ∧
        VectorHeld H r .rotatePivotTranslate readVector op vty
          s.rotatePivotTranslationValue) ∧
      (∀ op vty o, s.rotateLocked = false → s.m_enableUsdWriteback = true →
        (H.asEulerRotation (H.asQuaternion s.rotationValue)).isEquivalent s.m_rotationFromUsd
          = false →
        RotationReady H s (H.asEulerRotation (H.asQuaternion s.rotationValue)) op vty o →
        r.rotationValue = H.asEulerRotation (H.asQuaternion s.rotationValue) ∧
        RotationHeld H r op vty o (H.asEulerRotation (H.asQuaternion s.rotationValue))) ∧
      (∀ op vty, s.m_enableUsdWriteback = true →
        RotateAxisReady H s (s.rotateOrientationValue.mul s.m_rotateOrientationTweak.inverse)
          op vty →
        r.rotateOrientationValue = s.rotateOrientationValue ∧
        RotateAxisHeld H r op vty
          (s.rotateOrientationValue.mul s.m_rotateOrientationTweak.inverse)) := by
  obtain ⟨hk, htc, hsr, hav⟩ := enable_kept s
  have hr0 := hsr hr
  have hav0 := hav hv
  obtain ⟨t1, t2, t3, t4, t5, t6, t7, t8, t9, hrun, hrc⟩ := reconcileComponents_steps H _ hr0
  have hr9 : SweepReady t9 := by
    obtain ⟨⟨_, c1⟩, ⟨_, c2⟩, ⟨_, c3⟩, ⟨_, c4⟩, ⟨_, c5⟩, ⟨_, c6⟩, ⟨_, c7⟩, ⟨_, c8⟩,
      ⟨_, c9⟩⟩ := hrun
    exact (c9 (c8 (c7 (c6 (c5 (c4 (c3 (c2 (c1 hr0).1).1).1).1).1).1).1).1).1
  refine ⟨t9, ?_, hr9, ?_, ?_, ?_, ?_, ?_, ?_, ?_, ?_, ?_⟩
  · rw [enablePushToPrim_true, if_neg (by rw [hv]; decide), if_pos ht, if_pos hr.2.2.2.2]
    exact hrc
  · intro op vty hl hg hrd
    exact sweep_translate_holds H _ t1 t2 t3 t4 t5 t6 t7 t8 t9 hr0 hrun hav0 op vty hl hg
      (vectorReady_kept htc (hk _) hr _ _ _ _ readVector_attr_congr op vty hrd)
  · intro op vty hl hg hrd
    exact sweep_scale_holds H _ t1 t2 t3 t4 t5 t6 t7 t8 t9 hr0 hrun hav0 op vty hl hg
      (vectorReady_kept htc (hk _) hr _ _ _ _ readVector_attr_congr op vty hrd)
  · intro op hl hg hrd
    exact sweep_shear_holds H _ t1 t2 t3 t4 t5 t6 t7 t8 t9 hr0 hrun hav0 op hl hg
      (shearReady_kept htc (hk _) hr op rfl hrd)
  · intro op vty hg hrd
    exact sweep_scalePivot_holds H _ t1 t2 t3 t4 t5 t6 t7 t8 t9 hr0 hrun hav0 op vty
      (fun hf => hg (((hk .scalePivot).2.1).symm.trans hf))
      (vectorReady_kept htc (hk _) hr _ _ _ _ readPoint_attr_congr op vty hrd)
  · intro op vty hg hrd
    exact sweep_scalePivotTranslate_holds H _ t1 t2 t3 t4 t5 t6 t7 t8 t9 hr0 hrun hav0 op vty
      hg (vectorReady_kept htc (hk _) hr _ _ _ _ readVector_attr_congr op vty hrd)
  · intro op vty hg hrd
    exact sweep_rotatePivot_holds H _ t1 t2 t3 t4 t5 t6 t7 t8 t9 hr0 hrun hav0 op vty
      (fun hf => hg (((hk .rotatePivot).2.1).symm.trans hf))
      (vectorReady_kept htc (hk _) hr _ _ _ _ readPoint_attr_congr op vty hrd)
  · intro op vty hg hrd
    exact sweep_rotatePivotTranslate_holds H _ t1 t2 t3 t4 t5 t6 t7 t8 t9 hr0 hrun hav0 op vty
      hg (vectorReady_kept htc (hk _) hr _ _ _ _ readVector_attr_congr op vty hrd)
  · intro op vty o hl hw hg hrd
    exact sweep_rotate_holds H _ t1 t2 t3 t4 t5 t6 t7 t8 t9 hr0 hrun hav0 op vty o hl hw hg
      (rotationReady_kept htc (hk _) hr H _ op vty o rfl hrd)
  · intro op vty hw hrd
    exact sweep_rotateAxis_holds H _ t1 t2 t3 t4 t5 t6 t7 t8 t9 hr0 hrun hav0 op vty hw
      (rotateAxisReady_kept htc (hk _) hr H _ op vty rfl hrd)

theorem zip_filter_dropNamed {α : Type} (nm : TfToken) :
    ∀ (ops : List UsdMayaXformOpClassification) (xs : List α),
      (ops.filter (fun c => decide (c.name ≠ nm))).zip (dropNamed nm ops xs)
        = (ops.zip xs).filter (fun p => decide (p.1.name ≠ nm))
  | [], xs => by simp [dropNamed]
  | a :: l, [] => by simp [dropNamed]
  | a :: l, x :: xs => by
    have ih := zip_filter_dropNamed nm l xs
    unfold dropNamed at ih ⊢
    simp only [List.zip_cons_cons, List.filter_cons]
    by_cases ha : a.name = nm
    · simp only [ha, ne_eq, not_true_eq_false, decide_False, Bool.false_eq_true, if_false]
      exact ih
    · simp only [ha, ne_eq, not_false_eq_true, decide_True, if_true, List.map_cons,
        List.zip_cons_cons]
      rw [ih]

/-- After the combined pivot has been removed from an engine that could split it, the operator
lists are as the insertions want them. -/
theorem removeOp_pivot_ready (s r : TransformationMatrix) (hs : SplitReady s)
    (hm : s.pushPrimToMatrix = false)
    (h : s.removeOp .pivot kPrimHasPivot = some (.kSuccess, r)) :
    SweepReady r ∧ r.primValid = s.primValid ∧
    r.pushToPrimAvailable = s.pushToPrimAvailable ∧
    r.primHasScalePivot = s.primHasScalePivot ∧ r.primHasRotatePivot = s.primHasRotatePivot ∧
    channels r = channels s ∧
    (∀ op ∈ r.stage.xformOpOrder, op.name ≠ .scalePivot) := by
  obtain ⟨y1, y2, y3, y4, y5⟩ := hs
  obtain ⟨r', hrem, r1, r2, r3, r4, r5, r6, r7, r8, r9, r10⟩ :=
    removeOp_spec s .pivot kPrimHasPivot y2 y3 y1
  rw [h] at hrem
  simp only [Option.some.injEq, Prod.mk.injEq, true_and] at hrem
  subst hrem
  refine ⟨⟨r7, r8, ?_, ?_, ?_⟩, r2, ?_, ?_, ?_, channels_removeOp _ _ _ _ _ h, ?_⟩
  · intro p hp
    rw [r5, r6, zip_filter_dropNamed] at hp
    exact y4 p (List.mem_filter.1 hp).1
  · show hasFlag r.m_flags kPrimHasPivot = false
    rw [r4]; exact hasFlag_clearFlag_self _ _ (by decide)
  · show hasFlag r.m_flags kPushPrimToMatrix = false
    rw [r4, hasFlag_clearFlag_other _ _ _ (by decide) (by decide)]; exact hm
  · exact pushToPrimAvailable_congr _ _
      (by rw [r4]; exact hasFlag_clearFlag_other _ _ _ (by decide) (by decide)) r2
  · show hasFlag r.m_flags kPrimHasScalePivot = hasFlag s.m_flags kPrimHasScalePivot
    rw [r4]; exact hasFlag_clearFlag_other _ _ _ (by decide) (by decide)
  · show hasFlag r.m_flags kPrimHasRotatePivot = hasFlag s.m_flags kPrimHasRotatePivot
    rw [r4]; exact hasFlag_clearFlag_other _ _ _ (by decide) (by decide)
  · intro op hop
    rw [r9, r6] at hop
    exact y5 op (mem_dropNamed _ _ _ _ hop)

/-- On consistent operator lists the lockstep walk finds an operator under every name that an
operator of `m_xformops` carries. -/
theorem findOp_isSome_of_mem (t : TransformationMatrix) (hr : SweepReady t) (nm : TfToken)
    (h : ∃ op ∈ t.m_xformops, op.name = nm) : (t.findOp nm).isSome = true := by
  obtain ⟨op, hop, hn⟩ := h
  obtain ⟨k, hk, hget⟩ := List.getElem_of_mem hop
  have hk' : k < t.m_orderedOps.length := by rw [← hr.1]; exact hk
  have hmem : (t.m_orderedOps[k], op) ∈ t.m_orderedOps.zip t.m_xformops := by
    rw [List.mem_iff_getElem]
    refine ⟨k, by simp [List.length_zip, hk, hk'], ?_⟩
    simp [List.getElem_zip, hget]
  have hname := hr.2.2.1 _ hmem
  simp only at hname
  unfold findOp
  rw [Option.isSome_map']
  rw [List.find?_isSome]
  exact ⟨_, hmem, by simp [← hname, hn]⟩
/-- A scale-pivot push that changes nothing while the setter's gate is open found the store
holding the live value; it changes nothing either in a state that keeps the channel. -/
theorem pushScalePivotToPrim_kept_fix (H : Host) (t t' : TransformationMatrix)
    (hk : ChannelKept .scalePivot t t') (htc : t'.getTimeCode = t.getTimeCode)
    (hr : SweepReady t) (hsome : (t.findOp .scalePivot).isSome = true)
    (hfix : t.pushScalePivotToPrim H = t)
    (hgate : t.scalePivotValue.isEquivalent t.m_scalePivotFromUsd = false) :
    t'.pushScalePivotToPrim H = t' := by
  obtain ⟨hd, _, hf, _, _⟩ := id hk
  obtain ⟨hv, hu⟩ := (channelData_vector .scalePivot t t' hd).2.2.2.1 rfl
  cases hop : t.findOp .scalePivot with
  | none => rw [hop] at hsome; exact absurd hsome (by simp)
  | some op =>
    have hname := findOp_name t hr _ op hop
    have hattr := channelKept_attr hk op hname
    have hread := readPoint_attr_congr t.stage t'.stage op hattr MVector.zero t.getTimeCode
    simp only [pushScalePivotToPrim, hop, internal_readPoint] at hfix
    simp only [pushScalePivotToPrim, hf, hop, internal_readPoint, htc, hread, hv]
    by_cases hc : (!(readPoint t.stage MVector.zero op t.getTimeCode).2.isEquivalent
        t.scalePivotValue) = true
    · rw [if_pos hc] at hfix
      have := congrArg (fun u : TransformationMatrix => u.m_scalePivotFromUsd) hfix
      simp only at this
      rw [← this, MVector.isEquivalent_refl] at hgate
      exact absurd hgate (by simp)
    · rw [if_neg hc]
/-- A scale-pivot push that finds its operator keeps the flags and the live value, and ends
either where it began or with the fromUsd value at the live one. -/
theorem pushScalePivotToPrim_found (H : Host) (t : TransformationMatrix) (v : MPoint)
    (h1 : t.scalePivotValue = v) (h2 : t.m_scalePivotTweak = v.sub t.m_scalePivotFromUsd)
    (hsome : (t.findOp .scalePivot).isSome = true) :
    (t.pushScalePivotToPrim H).m_flags = t.m_flags ∧
    (t.pushScalePivotToPrim H).scalePivotValue = v ∧
    (t.pushScalePivotToPrim H).m_scalePivotTweak
      = v.sub (t.pushScalePivotToPrim H).m_scalePivotFromUsd ∧
    (t.pushScalePivotToPrim H = t ∨ (t.pushScalePivotToPrim H).m_scalePivotFromUsd = v) := by
  rcases pushScalePivotToPrim_cases H t with e | ⟨st1, e⟩ | ⟨hnone, _⟩
  · rw [e]; exact ⟨rfl, h1, h2, Or.inl rfl⟩
  · rw [e]
    refine ⟨rfl, h1, ?_, Or.inr h1⟩
    show MVector.zero = v.sub t.scalePivotValue
    rw [h1, MVector.sub_self]
  · rw [hnone] at hsome; exact absurd hsome (by simp)

theorem pushRotatePivotToPrim_found (H : Host) (t : TransformationMatrix) (v : MPoint)
    (h1 : t.rotatePivotValue = v) (h2 : t.m_rotatePivotTweak = v.sub t.m_rotatePivotFromUsd)
    (hsome : (t.findOp .rotatePivot).isSome = true) :
    (t.pushRotatePivotToPrim H).m_flags = t.m_flags ∧
    (t.pushRotatePivotToPrim H).rotatePivotValue = v ∧
    (t.pushRotatePivotToPrim H).m_rotatePivotTweak
      = v.sub (t.pushRotatePivotToPrim H).m_rotatePivotFromUsd ∧
    (t.pushRotatePivotToPrim H = t ∨ (t.pushRotatePivotToPrim H).m_rotatePivotFromUsd = v) := by
  rcases pushRotatePivotToPrim_cases H t with e | ⟨st1, e⟩ | ⟨hnone, _⟩
  · rw [e]; exact ⟨rfl, h1, h2, Or.inl rfl⟩
  · rw [e]
    refine ⟨rfl, h1, ?_, Or.inr h1⟩
    show MVector.zero = v.sub t.rotatePivotValue
    rw [h1, MVector.sub_self]
  · rw [hnone] at hsome; exact absurd hsome (by simp)

/-- The two insertion blocks of the pivot split, seen from `setScalePivot`: however the
insertions end, a second `setScalePivot` with the same point has nothing left to do. -/
theorem insertPivotOps_scale_settles (H : Host) (r : TransformationMatrix) (sp : MPoint)
    (st : MStatus) (s3 : TransformationMatrix) (hr : SweepReady r)
    (hns : r.primHasScalePivot = false)
    (g1 : r.scalePivotValue = sp) (g2 : r.m_scalePivotTweak = sp.sub r.m_scalePivotFromUsd)
    (h : r.insertPivotOps H true true = some (st, s3)) :
    SweepReady s3 ∧ s3.pushToPrimAvailable = r.pushToPrimAvailable ∧
    s3.scalePivotValue = sp ∧ s3.m_scalePivotTweak = sp.sub s3.m_scalePivotFromUsd ∧
    ((st = .kFailure ∧ s3.primHasScalePivot = false ∧
        s3.insertScalePivotOp = some (.kFailure, s3)) ∨
      (s3.primHasScalePivot = true ∧
        (sp.isEquivalent s3.m_scalePivotFromUsd = false → s3.pushScalePivotToPrim H = s3))) := by
  simp only [insertPivotOps, insertScalePivotOp, insertRotatePivotOp, if_true] at h
  cases hi : r.insertOp .TypeTranslate .PrecisionFloat .scalePivot kPrimHasScalePivot false with
  | none => rw [hi] at h; exact absurd h (by simp)
  | some q =>
    obtain ⟨sti, si⟩ := q
    rw [hi] at h
    obtain ⟨hr1, hv1, ht1, hp1, hra1, _, _⟩ :=
      channelStep_insertOp r _ _ .scalePivot false sti si (by decide) hi hr
    have hw := withStructureOf_insertOp _ _ _ _ _ _ _ _ hi
    have hsi1 : si.scalePivotValue = sp := by rw [hw]; exact g1
    have hsi2 : si.m_scalePivotTweak = sp.sub si.m_scalePivotFromUsd := by rw [hw]; exact g2
    cases sti with
    | kFailure =>
      simp only [Option.some.injEq, Prod.mk.injEq] at h
      obtain ⟨h1, h2⟩ := h
      subst h1 h2
      refine ⟨hr1, pushToPrimAvailable_congr _ _ hp1 hv1, hsi1, hsi2, Or.inl ⟨rfl, ?_, ?_⟩⟩
      · show hasFlag si.m_flags kPrimHasScalePivot = false
        rw [insertOp_fail_flags _ _ _ _ _ _ _ hi]; exact hns
      · exact insertOp_fail_again _ _ _ _ _ _ _ hi
    | kSuccess =>
      simp only at h
      have hsome : (si.findOp .scalePivot).isSome = true :=
        findOp_isSome_of_mem si hr1 .scalePivot (insertOp_success_spec _ _ _ _ _ _ _ hi).2.1
      obtain ⟨f1, f2, f3, f4⟩ := pushScalePivotToPrim_found H si sp hsi1 hsi2 hsome
      obtain ⟨hr2, hv2, ht2, hp2, hra2, _, _⟩ := channelStep_pushScalePivotToPrim H si hr1
      have hstep3 : ChannelStep .rotatePivot (si.pushScalePivotToPrim H) s3 :=
        pivotBlock_step .rotatePivot (by decide) (si.pushScalePivotToPrim H)
          (fun u => u.pushRotatePivotToPrim H) (st, s3) (channelStep_pushRotatePivotToPrim H) h
      obtain ⟨hr3, hv3, ht3, hp3, hra3, _, hk3⟩ := hstep3 hr2
      have hk := hk3 .scalePivot (by decide)
      obtain ⟨hd, hfl, hfo, _, _⟩ := id hk
      obtain ⟨dv, du⟩ := (channelData_vector .scalePivot _ _ hd).2.2.2.1 rfl
      have dt : s3.m_scalePivotTweak = (si.pushScalePivotToPrim H).m_scalePivotTweak := by
        simp only [channelData, Prod.mk.injEq, List.cons.injEq, and_true] at hd
        exact hd.2.2
      refine ⟨hr3, ?_, by rw [dv, f2], by rw [dt, du, f3], Or.inr ⟨?_, ?_⟩⟩
      · exact (pushToPrimAvailable_congr _ _ hp3 hv3).trans
          ((pushToPrimAvailable_congr _ _ hp2 hv2).trans
            (pushToPrimAvailable_congr _ _ hp1 hv1))
      · show hasFlag s3.m_flags kPrimHasScalePivot = true
        have : hasFlag s3.m_flags kPrimHasScalePivot
            = hasFlag (si.pushScalePivotToPrim H).m_flags kPrimHasScalePivot := hfl
        rw [this, f1, (insertOp_success_frame _ _ _ _ _ _ _ hi).1]
        exact hasFlag_setFlag_self _ _ (by decide)
      · intro hg
        rw [du] at hg
        rcases f4 with e | e
        · have hsome' : ((si.pushScalePivotToPrim H).findOp .scalePivot).isSome = true := by
            rw [e]; exact hsome
          refine pushScalePivotToPrim_kept_fix H _ s3 hk
            (getTimeCode_congr _ _ hra3 ht3) hr2 hsome' (by rw [e, e]) ?_
          rw [f2]; exact hg
        · rw [e, MVector.isEquivalent_refl] at hg
          exact absurd hg (by simp)
/-- The two insertion blocks of the pivot split, seen from `setRotatePivot` on a prim that has
no scale-pivot operator yet: however the insertion of the rotate pivot ends, a second
`setRotatePivot` with the same point has nothing left to do. -/
theorem insertPivotOps_rotate_settles (H : Host) (r : TransformationMatrix) (pivot : MPoint)
    (st : MStatus) (s3 : TransformationMatrix) (hr : SweepReady r) (hv : r.primValid = true)
    (hfresh : ∀ op ∈ r.stage.xformOpOrder, op.name ≠ .scalePivot)
    (hnr : r.primHasRotatePivot = false)
    (g1 : r.rotatePivotValue = pivot)
    (g2 : r.m_rotatePivotTweak = pivot.sub r.m_rotatePivotFromUsd)
    (h : r.insertPivotOps H true true = some (st, s3)) :
    SweepReady s3 ∧ s3.pushToPrimAvailable = r.pushToPrimAvailable ∧
    s3.rotatePivotValue = pivot ∧
    s3.m_rotatePivotTweak = pivot.sub s3.m_rotatePivotFromUsd ∧
    ((st = .kFailure ∧ s3.primHasRotatePivot = false ∧
        s3.insertRotatePivotOp = some (.kFailure, s3)) ∨
      (s3.primHasRotatePivot = true ∧
        (pivot.isEquivalent s3.m_rotatePivotFromUsd = false →
          s3.pushRotatePivotToPrim H = s3))) := by
  simp only [insertPivotOps, insertScalePivotOp, insertRotatePivotOp, if_true] at h
  obtain ⟨si, hi⟩ := insertOp_accepted r .TypeTranslate .PrecisionFloat .scalePivot
    kPrimHasScalePivot false ⟨.scalePivot, .TypeTranslate, false⟩ (by decide) rfl
    (fun _ => ⟨⟨.scalePivot, .TypeTranslate, true⟩, by decide, rfl⟩) hr.1 hr.2.1 hv
    (by decide) hfresh
  rw [hi] at h
  simp only at h
  have hstep1 : ChannelStep .scalePivot r (si.pushScalePivotToPrim H) :=
    channelStep_trans (channelStep_insertOp r _ _ .scalePivot false _ si (by decide) hi)
      (channelStep_pushScalePivotToPrim H si)
  obtain ⟨hr2, hv2, ht2, hp2, hra2, _, hk2⟩ := hstep1 hr
  obtain ⟨hd, hfl, _, _, _⟩ := hk2 .rotatePivot (by decide)
  obtain ⟨dv, du⟩ := (channelData_vector .rotatePivot _ _ hd).2.2.2.2.2.1 rfl
  have dt : (si.pushScalePivotToPrim H).m_rotatePivotTweak = r.m_rotatePivotTweak := by
    simp only [channelData, Prod.mk.injEq, List.cons.injEq, and_true] at hd
    exact hd.2.2
  have hav2 : (si.pushScalePivotToPrim H).pushToPrimAvailable = r.pushToPrimAvailable :=
    pushToPrimAvailable_congr _ _ hp2 hv2
  cases hj : (si.pushScalePivotToPrim H).insertOp .TypeTranslate .PrecisionFloat .rotatePivot
      kPrimHasRotatePivot false with
  | none => rw [hj] at h; exact absurd h (by simp)
  | some q =>
    obtain ⟨stj, sr⟩ := q
    rw [hj] at h
    obtain ⟨hr3, hv3, ht3, hp3, hra3, _, _⟩ :=
      channelStep_insertOp _ _ _ .rotatePivot false stj sr (by decide) hj hr2
    have hw := withStructureOf_insertOp _ _ _ _ _ _ _ _ hj
    have hsr1 : sr.rotatePivotValue = pivot := by rw [hw]; exact dv.trans g1
    have hsr2 : sr.m_rotatePivotTweak = pivot.sub sr.m_rotatePivotFromUsd := by
      rw [hw]
      show (si.pushScalePivotToPrim H).m_rotatePivotTweak
        = pivot.sub (si.pushScalePivotToPrim H).m_rotatePivotFromUsd
      rw [dt, du]; exact g2
    have hav3 : sr.pushToPrimAvailable = r.pushToPrimAvailable :=
      (pushToPrimAvailable_congr _ _ hp3 hv3).trans hav2
    cases stj with
    | kFailure =>
      simp only [Option.some.injEq, Prod.mk.injEq] at h
      obtain ⟨h1, h2⟩ := h
      subst h1 h2
      refine ⟨hr3, hav3, hsr1, hsr2, Or.inl ⟨rfl, ?_, insertOp_fail_again _ _ _ _ _ _ _ hj⟩⟩
      show hasFlag sr.m_flags kPrimHasRotatePivot = false
      rw [insertOp_fail_flags _ _ _ _ _ _ _ hj]
      exact hfl.trans hnr
    | kSuccess =>
      simp only [Option.some.injEq, Prod.mk.injEq] at h
      obtain ⟨h1, h2⟩ := h
      subst h1 h2
      have hsome : (sr.findOp .rotatePivot).isSome = true :=
        findOp_isSome_of_mem sr hr3 .rotatePivot (insertOp_success_spec _ _ _ _ _ _ _ hj).2.1
      obtain ⟨f1, f2, f3, f4⟩ := pushRotatePivotToPrim_found H sr pivot hsr1 hsr2 hsome
      obtain ⟨hr4, hv4, _, hp4, _, _, _⟩ := channelStep_pushRotatePivotToPrim H sr hr3
      refine ⟨hr4, (pushToPrimAvailable_congr _ _ hp4 hv4).trans hav3, f2, f3, Or.inr ⟨?_, ?_⟩⟩
      · show hasFlag (sr.pushRotatePivotToPrim H).m_flags kPrimHasRotatePivot = true
        rw [f1, (insertOp_success_frame _ _ _ _ _ _ _ hj).1]
        exact hasFlag_setFlag_self _ _ (by decide)
      · intro hg
        rcases f4 with e | e
        · rw [e, e]
        · rw [e, MVector.isEquivalent_refl] at hg
          exact absurd hg (by simp)
theorem setScalePivot_fixpoint (H : Host) (s : TransformationMatrix) (sp : MPoint)
    (space : MSpace) (balance : Bool)
    (hT : ∀ op, s.findOp .transform = some op → op.isInverseOp = false)
    (hPv : ∀ op, s.findOp .pivot = some op → op.isInverseOp = false)
    (hsplit : s.primHasPivot = true → SplitReady s)
    (st : MStatus) (s3 : TransformationMatrix)
    (h : s.setScalePivot H .kSuccess sp space balance = some (st, s3)) :
    ∃ st', s3.setScalePivot H .kSuccess sp space balance = some (st', s3) := by
  obtain ⟨tail, htail⟩ : ∃ f : TransformationMatrix → Option (MStatus × TransformationMatrix),
      ∀ t, f t = (if t.pushToPrimAvailable = true then
        (if (!t.primHasScalePivot && (!t.pushPrimToMatrix && decide (sp ≠ MVector.zero))) = true
          then t.insertAndPushPivotOp H .scalePivot
        else if (!sp.isEquivalent t.m_scalePivotFromUsd) = true
          then some (MStatus.kSuccess, t.pushScalePivotToPrim H)
        else some (MStatus.kSuccess, t))
      else some (MStatus.kSuccess, t)) := ⟨_, fun _ => rfl⟩
  have hstep : ∀ t : TransformationMatrix,
      t.setScalePivot H .kSuccess sp space balance = tail { t with
        toMPxTransformationMatrix := { t.toMPxTransformationMatrix with scalePivotValue := sp }
        m_scalePivotTweak := sp.sub t.m_scalePivotFromUsd } := by
    intro t
    rw [htail]
    simp only [setScalePivot, baseSetScalePivot, MStatus.toBool, if_true]
  -- conditions that only look at the flags and the prim
  have hcond : ∀ t t' : TransformationMatrix, t'.m_flags = t.m_flags →
      t'.primValid = t.primValid →
      t'.pushToPrimAvailable = t.pushToPrimAvailable ∧
      t'.primHasScalePivot = t.primHasScalePivot ∧
      t'.pushPrimToMatrix = t.pushPrimToMatrix ∧
      t'.primHasPivot = t.primHasPivot := by
    intro t t' hf hv
    exact ⟨pushToPrimAvailable_congr _ _ (by rw [hf]) hv,
      by simp only [primHasScalePivot, hf], by simp only [pushPrimToMatrix, hf],
      by simp only [primHasPivot, hf]⟩
  -- a state in which nothing has to be inserted and a push changes nothing
  have settled : ∀ t : TransformationMatrix, t.pushToPrimAvailable = true →
      (!t.primHasScalePivot && (!t.pushPrimToMatrix && decide (sp ≠ MVector.zero))) = false →
      ((!sp.isEquivalent t.m_scalePivotFromUsd) = true → t.pushScalePivotToPrim H = t) →
      tail t = some (.kSuccess, t) := by
    intro t hav hno hpush
    rw [htail, if_pos hav, if_neg (by rw [hno]; simp)]
    by_cases hg : (!sp.isEquivalent t.m_scalePivotFromUsd) = true
    · rw [if_pos hg, hpush hg]
    · rw [if_neg hg]
  have main : ∀ s1 : TransformationMatrix,
      s1.scalePivotValue = sp → s1.m_scalePivotTweak = sp.sub s1.m_scalePivotFromUsd →
      (∀ op, s1.findOp .transform = some op → op.isInverseOp = false) →
      (∀ op, s1.findOp .pivot = some op → op.isInverseOp = false) →
      (s1.primHasPivot = true → SplitReady s1) →
      tail s1 = some (st, s3) →
      (∃ st', tail s3 = some (st', s3)) ∧
        (s3.scalePivotValue = sp ∧ s3.m_scalePivotTweak = sp.sub s3.m_scalePivotFromUsd) := by
    intro s1 g1 g2 gT gP gS h1
    rw [htail] at h1
    by_cases hav : s1.pushToPrimAvailable = true
    · rw [if_pos hav] at h1
      by_cases hx : (!s1.primHasScalePivot && (!s1.pushPrimToMatrix &&
          decide (sp ≠ MVector.zero))) = true
      · rw [if_pos hx] at h1
        by_cases hp : s1.primHasPivot = true
        · by_cases heq : s1.scalePivotValue = s1.rotatePivotValue
          · -- the combined operator is written
            simp only [insertAndPushPivotOp, ne_eq, not_true_eq_false, false_and, if_false, hp,
              if_true, heq, Option.some.injEq, Prod.mk.injEq] at h1
            obtain ⟨f1, f2, f3, f4, _⟩ := pushPivotToPrim_frame H s1
            obtain ⟨k1, k2, k3, k4⟩ := hcond s1 _ f1 f2
            have hidem := pushPivotToPrim_idem H s1 gT gP
            have hsv : (s1.pushPivotToPrim H).scalePivotValue = s1.scalePivotValue := by
              show (s1.pushPivotToPrim H).toMPxTransformationMatrix.scalePivotValue = _
              rw [f3]
            have hrv : (s1.pushPivotToPrim H).rotatePivotValue = s1.rotatePivotValue := by
              show (s1.pushPivotToPrim H).toMPxTransformationMatrix.rotatePivotValue = _
              rw [f3]
            rw [← h1.2]
            refine ⟨⟨.kSuccess, ?_⟩, by rw [hsv]; exact g1, ?_⟩
            · rw [htail, k1, if_pos hav, k2, k3, if_pos hx]
              simp only [insertAndPushPivotOp, ne_eq, not_true_eq_false, false_and, if_false, k4,
                hp, if_true, hsv, hrv, heq, hidem]
            · rcases f4 with e | ⟨e1, e2⟩
              · rw [e, g1]
              · rw [e1, e2]; exact g2
          · -- the combined operator is split
            have hvalid : s1.primValid = true := by
              simp only [pushToPrimAvailable, Bool.and_eq_true] at hav
              exact hav.2
            have hx3 : s1.primHasScalePivot = false ∧ s1.pushPrimToMatrix = false ∧
                decide (sp ≠ MVector.zero) = true := by
              simpa [Bool.and_eq_true] using hx
            obtain ⟨hns, hm, hnz⟩ := hx3
            obtain ⟨y1, y2, y3, y4, y5⟩ := gS hp
            obtain ⟨r, hrem, _⟩ := removeOp_spec s1 .pivot kPrimHasPivot y2 y3 y1
            obtain ⟨q1, q2, q3, q4, q5, q6, q7⟩ :=
              removeOp_pivot_ready s1 r (gS hp) hm hrem
            obtain ⟨c0, c1, c2, c3, c4⟩ := channels_fields _ _ q6
            simp only [insertAndPushPivotOp, ne_eq, not_true_eq_false, false_and, and_false,
              if_false, hp, if_true, heq, hrem] at h1
            have hr1 : r.scalePivotValue = sp := by
              show r.toMPxTransformationMatrix.scalePivotValue = _
              rw [c0]; exact g1
            have hr2 : r.m_scalePivotTweak = sp.sub r.m_scalePivotFromUsd := by
              rw [c2, c1]; exact g2
            obtain ⟨z1, z2, z3, z4, z5⟩ :=
              insertPivotOps_scale_settles H r sp st s3 q1 (q4.trans hns) hr1 hr2 h1
            have hav3 : s3.pushToPrimAvailable = true := z2.trans (q3.trans hav)
            refine ⟨?_, z3, z4⟩
            rcases z5 with ⟨_, hno, hfail⟩ | ⟨hhas, hpush⟩
            · refine ⟨.kFailure, ?_⟩
              have hc : (!s3.primHasScalePivot && (!s3.pushPrimToMatrix &&
                  decide (sp ≠ MVector.zero))) = true := by
                rw [hno, z1.2.2.2.2, hnz]; rfl
              rw [htail, if_pos hav3, if_pos hc, insertAndPushPivotOp_scale H s3 z1.2.2.2.1]
              simp only [insertPivotOps, if_true, Bool.false_eq_true, if_false,
                insertScalePivotOp] at hfail ⊢
              rw [hfail]
            · refine ⟨.kSuccess, settled s3 hav3 (by rw [hhas]; rfl) (fun hg => hpush ?_)⟩
              simpa using hg
        · -- only the scale-pivot pair is inserted
          have hp' : s1.primHasPivot = false := by simpa using hp
          simp only [insertAndPushPivotOp, ne_eq, not_true_eq_false, false_and, if_false, hp',
            Bool.false_eq_true, decide_True, Bool.not_true, insertPivotOps, if_true,
            insertScalePivotOp] at h1
          cases hi : s1.insertOp .TypeTranslate .PrecisionFloat .scalePivot kPrimHasScalePivot
              false with
          | none => rw [hi] at h1; exact absurd h1 (by simp)
          | some r =>
            obtain ⟨sti, si⟩ := r
            rw [hi] at h1
            have hw := withStructureOf_insertOp _ _ _ _ _ _ _ _ hi
            have hv' : si.primValid = s1.primValid := primValid_withStructureOf _ _ hw
            have hsi1 : si.scalePivotValue = sp := by rw [hw]; exact g1
            have hsi2 : si.m_scalePivotTweak = sp.sub si.m_scalePivotFromUsd := by
              rw [hw]; exact g2
            cases sti with
            | kFailure =>
              simp only [Option.some.injEq, Prod.mk.injEq] at h1
              have hf := insertOp_fail_flags _ _ _ _ _ _ _ hi
              obtain ⟨k1, k2, k3, k4⟩ := hcond s1 si hf hv'
              have hagain := insertOp_fail_again _ _ _ _ _ _ _ hi
              rw [← h1.2]
              refine ⟨⟨.kFailure, ?_⟩, hsi1, hsi2⟩
              rw [htail, k1, if_pos hav, k2, k3, if_pos hx]
              simp only [insertAndPushPivotOp, ne_eq, not_true_eq_false, false_and, if_false, k4,
                hp', Bool.false_eq_true, decide_True, Bool.not_true, insertPivotOps, if_true,
                insertScalePivotOp, hagain]
            | kSuccess =>
              simp only [Option.some.injEq, Prod.mk.injEq] at h1
              obtain ⟨hf, hfind⟩ := insertOp_success_frame _ _ _ _ _ _ _ hi
              have hTi : ∀ op, si.findOp .transform = some op → op.isInverseOp = false := by
                intro op hop
                rw [hfind .transform (by decide)] at hop
                exact gT op hop
              obtain ⟨e1, e2, e3, e4, e5⟩ := pushScalePivotToPrim_settles H si sp hsi1 hsi2 hTi
              rw [← h1.2]
              refine ⟨⟨.kSuccess, ?_⟩, e3, e4⟩
              apply settled _ _ _ e5
              · exact (pushToPrimAvailable_congr _ _
                  (by rw [e1, hf]; exact hasFlag_setFlag_other _ _ _ (by decide))
                  (by rw [e2, hv'])).trans hav
              · have : (s1.insertOp .TypeTranslate .PrecisionFloat .scalePivot
                    kPrimHasScalePivot false).isSome = true := by rw [hi]; rfl
                have hh : (si.pushScalePivotToPrim H).primHasScalePivot = true := by
                  simp only [primHasScalePivot, e1, hf]
                  exact hasFlag_setFlag_self _ _ (by decide)
                rw [hh]; rfl
      · -- nothing to insert
        have hx' : (!s1.primHasScalePivot && (!s1.pushPrimToMatrix &&
            decide (sp ≠ MVector.zero))) = false := by simpa using hx
        rw [if_neg hx] at h1
        by_cases hg : (!sp.isEquivalent s1.m_scalePivotFromUsd) = true
        · rw [if_pos hg] at h1
          simp only [Option.some.injEq, Prod.mk.injEq] at h1
          obtain ⟨e1, e2, e3, e4, e5⟩ := pushScalePivotToPrim_settles H s1 sp g1 g2 gT
          obtain ⟨k1, k2, k3, k4⟩ := hcond s1 _ e1 e2
          rw [← h1.2]
          refine ⟨⟨.kSuccess, ?_⟩, e3, e4⟩
          exact settled _ (by rw [k1]; exact hav) (by rw [k2, k3]; exact hx') e5
        · rw [if_neg hg] at h1
          simp only [Option.some.injEq, Prod.mk.injEq] at h1
          rw [← h1.2]
          exact ⟨⟨.kSuccess, settled s1 hav hx' (fun hg' => absurd hg' hg)⟩, g1, g2⟩
    · rw [if_neg hav] at h1
      simp only [Option.some.injEq, Prod.mk.injEq] at h1
      rw [← h1.2]
      refine ⟨⟨.kSuccess, ?_⟩, g1, g2⟩
      rw [htail, if_neg hav]
  rw [hstep s] at h
  obtain ⟨⟨st', hfix⟩, hP⟩ := main { s with
      toMPxTransformationMatrix := { s.toMPxTransformationMatrix with scalePivotValue := sp }
      m_scalePivotTweak := sp.sub s.m_scalePivotFromUsd } rfl rfl hT hPv hsplit h
  refine ⟨st', ?_⟩
  rw [hstep s3, setScalePivot_prep_fix sp s3 hP.1 hP.2]
  exact hfix

theorem setRotatePivot_fixpoint (H : Host) (s : TransformationMatrix) (pivot : MPoint)
    (space : MSpace) (balance : Bool)
    (hT : ∀ op, s.findOp .transform = some op → op.isInverseOp = false)
    (hPv : ∀ op, s.findOp .pivot = some op → op.isInverseOp = false)
    (hsplit : s.primHasPivot = true → SplitReady s)
    (st : MStatus) (s3 : TransformationMatrix)
    (h : s.setRotatePivot H .kSuccess pivot space balance = some (st, s3)) :
    ∃ st', s3.setRotatePivot H .kSuccess pivot space balance = some (st', s3) := by
  obtain ⟨tail, htail⟩ : ∃ f : TransformationMatrix → Option (MStatus × TransformationMatrix),
      ∀ t, f t = (if t.pushToPrimAvailable = true then
        (if (!t.primHasRotatePivot && (!t.pushPrimToMatrix && decide (pivot ≠ MVector.zero))) = true
          then t.insertAndPushPivotOp H .rotatePivot
        else if (!pivot.isEquivalent t.m_rotatePivotFromUsd) = true
          then some (MStatus.kSuccess, t.pushRotatePivotToPrim H)
        else some (MStatus.kSuccess, t))
      else some (MStatus.kSuccess, t)) := ⟨_, fun _ => rfl⟩
  have hstep : ∀ t : TransformationMatrix,
      t.setRotatePivot H .kSuccess pivot space balance = tail { t with
        toMPxTransformationMatrix := { t.toMPxTransformationMatrix with rotatePivotValue := pivot }
        m_rotatePivotTweak := pivot.sub t.m_rotatePivotFromUsd } := by
    intro t
    rw [htail]
    simp only [setRotatePivot, baseSetRotatePivot, MStatus.toBool, if_true]
  -- conditions that only look at the flags and the prim
  have hcond : ∀ t t' : TransformationMatrix, t'.m_flags = t.m_flags →
      t'.primValid = t.primValid →
      t'.pushToPrimAvailable = t.pushToPrimAvailable ∧
      t'.primHasRotatePivot = t.primHasRotatePivot ∧
      t'.pushPrimToMatrix = t.pushPrimToMatrix ∧
      t'.primHasPivot = t.primHasPivot := by
    intro t t' hf hv
    exact ⟨pushToPrimAvailable_congr _ _ (by rw [hf]) hv,
      by simp only [primHasRotatePivot, hf], by simp only [pushPrimToMatrix, hf],
      by simp only [primHasPivot, hf]⟩
  -- a state in which nothing has to be inserted and a push changes nothing
  have settled : ∀ t : TransformationMatrix, t.pushToPrimAvailable = true →
      (!t.primHasRotatePivot && (!t.pushPrimToMatrix && decide (pivot ≠ MVector.zero))) = false →
      ((!pivot.isEquivalent t.m_rotatePivotFromUsd) = true → t.pushRotatePivotToPrim H = t) →
      tail t = some (.kSuccess, t) := by
    intro t hav hno hpush
    rw [htail, if_pos hav, if_neg (by rw [hno]; simp)]
    by_cases hg : (!pivot.isEquivalent t.m_rotatePivotFromUsd) = true
    · rw [if_pos hg, hpush hg]
    · rw [if_neg hg]
  have main : ∀ s1 : TransformationMatrix,
      s1.rotatePivotValue = pivot → s1.m_rotatePivotTweak = pivot.sub s1.m_rotatePivotFromUsd →
      (∀ op, s1.findOp .transform = some op → op.isInverseOp = false) →
      (∀ op, s1.findOp .pivot = some op → op.isInverseOp = false) →
      (s1.primHasPivot = true → SplitReady s1) →
      tail s1 = some (st, s3) →
      (∃ st', tail s3 = some (st', s3)) ∧
        (s3.rotatePivotValue = pivot ∧ s3.m_rotatePivotTweak = pivot.sub s3.m_rotatePivotFromUsd) := by
    intro s1 g1 g2 gT gP gS h1
    rw [htail] at h1
    by_cases hav : s1.pushToPrimAvailable = true
    · rw [if_pos hav] at h1
      by_cases hx : (!s1.primHasRotatePivot && (!s1.pushPrimToMatrix &&
          decide (pivot ≠ MVector.zero))) = true
      · rw [if_pos hx] at h1
        by_cases hp : s1.primHasPivot = true
        · by_cases heq : s1.scalePivotValue = s1.rotatePivotValue
          · -- the combined operator is written
            simp only [insertAndPushPivotOp, ne_eq, not_true_eq_false, and_false, if_false,
              reduceCtorEq, decide_False, Bool.not_false, hp,
              if_true, heq, Option.some.injEq, Prod.mk.injEq] at h1
            obtain ⟨f1, f2, f3, _, f4⟩ := pushPivotToPrim_frame H s1
            obtain ⟨k1, k2, k3, k4⟩ := hcond s1 _ f1 f2
            have hidem := pushPivotToPrim_idem H s1 gT gP
            have hrv : (s1.pushPivotToPrim H).scalePivotValue = s1.scalePivotValue := by
              show (s1.pushPivotToPrim H).toMPxTransformationMatrix.scalePivotValue = _
              rw [f3]
            have hsv : (s1.pushPivotToPrim H).rotatePivotValue = s1.rotatePivotValue := by
              show (s1.pushPivotToPrim H).toMPxTransformationMatrix.rotatePivotValue = _
              rw [f3]
            rw [← h1.2]
            refine ⟨⟨.kSuccess, ?_⟩, by rw [hsv]; exact g1, ?_⟩
            · rw [htail, k1, if_pos hav, k2, k3, if_pos hx]
              simp only [insertAndPushPivotOp, ne_eq, not_true_eq_false, and_false, if_false,
              reduceCtorEq, decide_False, Bool.not_false, k4,
                hp, if_true, hsv, hrv, heq, hidem]
            · rcases f4 with e | ⟨e1, e2⟩
              · rw [e, g1]
              · rw [e1, e2]; exact g2
          · -- the combined operator is split
            have hvalid : s1.primValid = true := by
              simp only [pushToPrimAvailable, Bool.and_eq_true] at hav
              exact hav.2
            have hx3 : s1.primHasRotatePivot = false ∧ s1.pushPrimToMatrix = false ∧
                decide (pivot ≠ MVector.zero) = true := by
              simpa [Bool.and_eq_true] using hx
            obtain ⟨hns, hm, hnz⟩ := hx3
            obtain ⟨y1, y2, y3, y4, y5⟩ := gS hp
            obtain ⟨r, hrem, _⟩ := removeOp_spec s1 .pivot kPrimHasPivot y2 y3 y1
            obtain ⟨q1, q2, q3, q4, q5, q6, q7⟩ :=
              removeOp_pivot_ready s1 r (gS hp) hm hrem
            obtain ⟨c0, c1, c2, c3, c4⟩ := channels_fields _ _ q6
            simp only [insertAndPushPivotOp, ne_eq, not_true_eq_false, false_and, and_false,
              if_false, hp, if_true, heq, hrem] at h1
            have hr1 : r.rotatePivotValue = pivot := by
              show r.toMPxTransformationMatrix.rotatePivotValue = _
              rw [c0]; exact g1
            have hr2 : r.m_rotatePivotTweak = pivot.sub r.m_rotatePivotFromUsd := by
              rw [c4, c3]; exact g2
            obtain ⟨z1, z2, z3, z4, z5⟩ :=
              insertPivotOps_rotate_settles H r pivot st s3 q1 (q2.trans hvalid) q7
                (q5.trans hns) hr1 hr2 h1
            have hav3 : s3.pushToPrimAvailable = true := z2.trans (q3.trans hav)
            refine ⟨?_, z3, z4⟩
            rcases z5 with ⟨_, hno, hfail⟩ | ⟨hhas, hpush⟩
            · refine ⟨.kFailure, ?_⟩
              have hc : (!s3.primHasRotatePivot && (!s3.pushPrimToMatrix &&
                  decide (pivot ≠ MVector.zero))) = true := by
                rw [hno, z1.2.2.2.2, hnz]; rfl
              rw [htail, if_pos hav3, if_pos hc, insertAndPushPivotOp_rotate H s3 z1.2.2.2.1]
              simp only [insertPivotOps, if_true, Bool.false_eq_true, if_false,
                insertRotatePivotOp] at hfail ⊢
              rw [hfail]
            · refine ⟨.kSuccess, settled s3 hav3 (by rw [hhas]; rfl) (fun hg => hpush ?_)⟩
              simpa using hg
        · -- only the rotate-pivot pair is inserted
          have hp' : s1.primHasPivot = false := by simpa using hp
          simp only [insertAndPushPivotOp, ne_eq, not_true_eq_false, and_false, if_false,
              reduceCtorEq, decide_False, Bool.not_false, hp',
            Bool.false_eq_true, decide_True, Bool.not_true, insertPivotOps, if_true,
            insertRotatePivotOp] at h1
          cases hi : s1.insertOp .TypeTranslate .PrecisionFloat .rotatePivot kPrimHasRotatePivot
              false with
          | none => rw [hi] at h1; exact absurd h1 (by simp)
          | some r =>
            obtain ⟨sti, si⟩ := r
            rw [hi] at h1
            have hw := withStructureOf_insertOp _ _ _ _ _ _ _ _ hi
            have hv' : si.primValid = s1.primValid := primValid_withStructureOf _ _ hw
            have hsi1 : si.rotatePivotValue = pivot := by rw [hw]; exact g1
            have hsi2 : si.m_rotatePivotTweak = pivot.sub si.m_rotatePivotFromUsd := by
              rw [hw]; exact g2
            cases sti with
            | kFailure =>
              simp only [Option.some.injEq, Prod.mk.injEq] at h1
              have hf := insertOp_fail_flags _ _ _ _ _ _ _ hi
              obtain ⟨k1, k2, k3, k4⟩ := hcond s1 si hf hv'
              have hagain := insertOp_fail_again _ _ _ _ _ _ _ hi
              rw [← h1.2]
              refine ⟨⟨.kFailure, ?_⟩, hsi1, hsi2⟩
              rw [htail, k1, if_pos hav, k2, k3, if_pos hx]
              simp only [insertAndPushPivotOp, ne_eq, not_true_eq_false, and_false, if_false,
              reduceCtorEq, decide_False, Bool.not_false, k4,
                hp', Bool.false_eq_true, decide_True, Bool.not_true, insertPivotOps, if_true,
                insertRotatePivotOp, hagain]
            | kSuccess =>
              simp only [Option.some.injEq, Prod.mk.injEq] at h1
              obtain ⟨hf, hfind⟩ := insertOp_success_frame _ _ _ _ _ _ _ hi
              have hTi : ∀ op, si.findOp .transform = some op → op.isInverseOp = false := by
                intro op hop
                rw [hfind .transform (by decide)] at hop
                exact gT op hop
              obtain ⟨e1, e2, e3, e4, e5⟩ := pushRotatePivotToPrim_settles H si pivot hsi1 hsi2 hTi
              rw [← h1.2]
              refine ⟨⟨.kSuccess, ?_⟩, e3, e4⟩
              apply settled _ _ _ e5
              · exact (pushToPrimAvailable_congr _ _
                  (by rw [e1, hf]; exact hasFlag_setFlag_other _ _ _ (by decide))
                  (by rw [e2, hv'])).trans hav
              · have : (s1.insertOp .TypeTranslate .PrecisionFloat .rotatePivot
                    kPrimHasRotatePivot false).isSome = true := by rw [hi]; rfl
                have hh : (si.pushRotatePivotToPrim H).primHasRotatePivot = true := by
                  simp only [primHasRotatePivot, e1, hf]
                  exact hasFlag_setFlag_self _ _ (by decide)
                rw [hh]; rfl
      · -- nothing to insert
        have hx' : (!s1.primHasRotatePivot && (!s1.pushPrimToMatrix &&
            decide (pivot ≠ MVector.zero))) = false := by simpa using hx
        rw [if_neg hx] at h1
        by_cases hg : (!pivot.isEquivalent s1.m_rotatePivotFromUsd) = true
        · rw [if_pos hg] at h1
          simp only [Option.some.injEq, Prod.mk.injEq] at h1
          obtain ⟨e1, e2, e3, e4, e5⟩ := pushRotatePivotToPrim_settles H s1 pivot g1 g2 gT
          obtain ⟨k1, k2, k3, k4⟩ := hcond s1 _ e1 e2
          rw [← h1.2]
          refine ⟨⟨.kSuccess, ?_⟩, e3, e4⟩
          exact settled _ (by rw [k1]; exact hav) (by rw [k2, k3]; exact hx') e5
        · rw [if_neg hg] at h1
          simp only [Option.some.injEq, Prod.mk.injEq] at h1
          rw [← h1.2]
          exact ⟨⟨.kSuccess, settled s1 hav hx' (fun hg' => absurd hg' hg)⟩, g1, g2⟩
    · rw [if_neg hav] at h1
      simp only [Option.some.injEq, Prod.mk.injEq] at h1
      rw [← h1.2]
      refine ⟨⟨.kSuccess, ?_⟩, g1, g2⟩
      rw [htail, if_neg hav]
  rw [hstep s] at h
  obtain ⟨⟨st', hfix⟩, hP⟩ := main { s with
      toMPxTransformationMatrix := { s.toMPxTransformationMatrix with rotatePivotValue := pivot }
      m_rotatePivotTweak := pivot.sub s.m_rotatePivotFromUsd } rfl rfl hT hPv hsplit h
  refine ⟨st', ?_⟩
  rw [hstep s3, setRotatePivot_prep_fix pivot s3 hP.1 hP.2]
  exact hfix

/-! ## Setter idempotence on a failing base class (C2) -/

theorem setIfChanged_eq_self (st : UsdStage) (op : UsdGeomXformOp) (val : VtValue)
    (g tc : UsdTimeCode) (h : (setIfChanged st op val g tc).2 = st) :
    op.Get st g = some val := by
  unfold setIfChanged at h
  by_contra hne
  rw [if_pos hne] at h
  have := congrArg (fun s : UsdStage => s.journal.length) h
  simp only [journal_Set, List.length_append, List.length_singleton] at this
  omega

/-- A guarded write that leaves a store as it is leaves every store as it is that holds the
same attribute for the operator. -/
theorem setIfChanged_fixed_congr (st st' : UsdStage) (op : UsdGeomXformOp) (val : VtValue)
    (tc : UsdTimeCode) (hattr : op.GetAttr st' = op.GetAttr st)
    (h : (setIfChanged st op val tc tc).2 = st) : (setIfChanged st' op val tc tc).2 = st' := by
  have hg := setIfChanged_eq_self st op val tc tc h
  have hget : op.Get st' tc = op.Get st tc := by simp only [UsdGeomXformOp.Get, hattr]
  rw [setIfChanged_fixed st' op val tc (hget.trans hg)]

theorem pushPoint_fixed_congr (H : Host) (st st' : UsdStage) (v : MPoint) (op : UsdGeomXformOp)
    (tc : UsdTimeCode) (hattr : op.GetAttr st' = op.GetAttr st)
    (h : (pushPoint H st v op tc).2 = st) : (pushPoint H st' v op tc).2 = st' := by
  obtain ⟨hty, hgate, _⟩ := store_congr st st' op hattr
  unfold pushPoint at h ⊢
  rw [hgate, hty]
  by_cases hg : timeSampleGate st op tc = true
  · rw [if_pos hg]
  · rw [if_neg hg] at h ⊢
    cases hT : op.GetTypeName st <;> rw [hT] at h <;> simp only at h ⊢ <;>
      first
        | rfl
        | exact setIfChanged_fixed_congr st st' op _ tc hattr h

theorem pushShear_idem (st : UsdStage) (v : MVector) (op : UsdGeomXformOp)
    (tc : UsdTimeCode) (hinv : op.isInverseOp = false) :
    (pushShear (pushShear st v op tc).2 v op tc).2 = (pushShear st v op tc).2 := by
  by_cases hg : timeSampleGate st op tc = true
  · simp [pushShear, hg]
  · cases ha : op.GetAttr st with
    | none => simp [pushShear, UsdGeomXformOp.GetTypeName, ha]
    | some a =>
      cases hty : op.GetTypeName st with
      | kMatrix4d =>
        obtain ⟨g1, g2, _⟩ := setIfChanged_spec st op (.matrix (shearMatrix v)) tc hinv a ha
        have e : (pushShear st v op tc).2
            = (setIfChanged st op (.matrix (shearMatrix v)) tc tc).2 := by
          simp [pushShear, hg, hty]
        rw [e]
        unfold pushShear
        split_ifs
        · rfl
        · rw [g2, hty]
          simp only
          rw [setIfChanged_fixed _ _ _ _ g1]
      | _ => simp [pushShear, hg, hty]

theorem setIfChanged_there (st : UsdStage) (op : UsdGeomXformOp) (val : VtValue)
    (tc : UsdTimeCode) (hinv : op.isInverseOp = false)
    (hty : op.GetTypeName st ≠ .kUnknown) :
    op.Get (setIfChanged st op val tc tc).2 tc = some val ∧
    op.GetTypeName (setIfChanged st op val tc tc).2 = op.GetTypeName st := by
  cases ha : op.GetAttr st with
  | none => simp [UsdGeomXformOp.GetTypeName, ha] at hty
  | some a =>
    obtain ⟨g1, g2, _⟩ := setIfChanged_spec st op val tc hinv a ha
    exact ⟨g1, g2⟩

/-- At the default time the single-axis rotate codec compares and writes at the same time, so
a second write of the same angle changes nothing. -/
theorem pushDouble_idem (H : Host) (st : UsdStage) (x : ℚ) (op : UsdGeomXformOp)
    (hinv : op.isInverseOp = false) :
    pushDouble H (pushDouble H st x op .Default) x op .Default
      = pushDouble H st x op .Default := by
  by_cases hg : timeSampleGate st op .Default = true
  · simp [pushDouble, hg]
  · have key : ∀ val : VtValue, op.GetTypeName st ≠ .kUnknown →
        pushDouble H st x op .Default = (setIfChanged st op val .Default .Default).2 →
        (op.GetTypeName st = .kHalf → val = .scalar (H.toHalf x)) →
        (op.GetTypeName st = .kFloat → val = .scalar (H.toFloat x)) →
        (op.GetTypeName st = .kDouble → val = .scalar x) →
        (op.GetTypeName st = .kInt → val = .scalar (H.toInt x)) →
        pushDouble H (pushDouble H st x op .Default) x op .Default
          = pushDouble H st x op .Default := by
      intro val hne e h1 h2 h3 h4
      obtain ⟨g1, g2⟩ := setIfChanged_there st op val .Default hinv hne
      rw [e]
      unfold pushDouble
      split_ifs
      · rfl
      · rw [g2]
        cases hty : op.GetTypeName st <;> simp only [] <;> first
          | rfl
          | (rw [setIfChanged_fixed _ _ _ _ (by first
              | rw [← h1 hty]; exact g1
              | rw [← h2 hty]; exact g1
              | rw [← h3 hty]; exact g1
              | rw [← h4 hty]; exact g1)])
    cases hty : op.GetTypeName st with
    | kHalf =>
      exact key (.scalar (H.toHalf x)) (by rw [hty]; decide) (by simp [pushDouble, hg, hty])
        (fun _ => rfl) (fun h => by rw [hty] at h; cases h) (fun h => by rw [hty] at h; cases h)
        (fun h => by rw [hty] at h; cases h)
    | kFloat =>
      exact key (.scalar (H.toFloat x)) (by rw [hty]; decide) (by simp [pushDouble, hg, hty])
        (fun h => by rw [hty] at h; cases h) (fun _ => rfl) (fun h => by rw [hty] at h; cases h)
        (fun h => by rw [hty] at h; cases h)
    | kDouble =>
      exact key (.scalar x) (by rw [hty]; decide) (by simp [pushDouble, hg, hty])
        (fun h => by rw [hty] at h; cases h) (fun h => by rw [hty] at h; cases h) (fun _ => rfl)
        (fun h => by rw [hty] at h; cases h)
    | kInt =>
      exact key (.scalar (H.toInt x)) (by rw [hty]; decide) (by simp [pushDouble, hg, hty])
        (fun h => by rw [hty] at h; cases h) (fun h => by rw [hty] at h; cases h)
        (fun h => by rw [hty] at h; cases h) (fun _ => rfl)
    | _ => simp [pushDouble, hg, hty]

/-- Writing a rotation twice writes it once: after `pushRotation` the stored value passes the
comparison of a second `pushRotation` with the same value, for an operator that is no inverted
twin and is either not a single-axis rotation or written at the default time. -/
theorem pushRotation_idem (H : Host) (st : UsdStage) (v : MEulerRotation)
    (op : UsdGeomXformOp) (tc : UsdTimeCode) (hinv : op.isInverseOp = false)
    (hax : (op.opType ≠ .TypeRotateX ∧ op.opType ≠ .TypeRotateY ∧ op.opType ≠ .TypeRotateZ) ∨
      tc = .Default) :
    (pushRotation H (pushRotation H st v op tc).2 v op tc).2 = (pushRotation H st v op tc).2 := by
  by_cases hg : timeSampleGate st op tc = true
  · simp [pushRotation, hg]
  · have single : ∀ x : ℚ, tc = .Default →
        (pushRotation H st v op tc).2 = pushDouble H st x op tc →
        (∀ st', (pushRotation H st' v op tc).2 = st' ∨
          (pushRotation H st' v op tc).2 = pushDouble H st' x op tc) →
        (pushRotation H (pushRotation H st v op tc).2 v op tc).2
          = (pushRotation H st v op tc).2 := by
      intro x htc e hall
      rw [e]
      rcases hall (pushDouble H st x op tc) with h | h
      · exact h
      · rw [h, htc]; exact pushDouble_idem H st x op hinv
    have three : (pushRotation H st v op tc).2
          = (pushVector H st (MVector.scale ⟨v.x, v.y, v.z⟩ radToDeg) op tc).2 →
        (∀ st', (pushRotation H st' v op tc).2 = st' ∨
          (pushRotation H st' v op tc).2
            = (pushVector H st' (MVector.scale ⟨v.x, v.y, v.z⟩ radToDeg) op tc).2) →
        (pushRotation H (pushRotation H st v op tc).2 v op tc).2
          = (pushRotation H st v op tc).2 := by
      intro e hall
      rw [e]
      rcases hall (pushVector H st (MVector.scale ⟨v.x, v.y, v.z⟩ radToDeg) op tc).2 with h | h
      · exact h
      · rw [h]; exact pushVector_idem H st _ op tc hinv
    have hall : ∀ (ty : XformOpType), op.opType = ty → ∀ st' : UsdStage,
        timeSampleGate st' op tc = true → (pushRotation H st' v op tc).2 = st' := by
      intro ty _ st' hg'
      simp [pushRotation, hg']
    cases hty : op.opType with
    | TypeRotateX =>
      rcases hax with ⟨h, _⟩ | htc
      · exact absurd hty h
      · refine single (v.x * radToDeg) htc (by simp [pushRotation, hg, hty]) (fun st' => ?_)
        by_cases hg' : timeSampleGate st' op tc = true
        · exact Or.inl (hall _ hty st' hg')
        · exact Or.inr (by simp [pushRotation, hg', hty])
    | TypeRotateY =>
      rcases hax with ⟨_, h, _⟩ | htc
      · exact absurd hty h
      · refine single (v.y * radToDeg) htc (by simp [pushRotation, hg, hty]) (fun st' => ?_)
        by_cases hg' : timeSampleGate st' op tc = true
        · exact Or.inl (hall _ hty st' hg')
        · exact Or.inr (by simp [pushRotation, hg', hty])
    | TypeRotateZ =>
      rcases hax with ⟨_, _, h⟩ | htc
      · exact absurd hty h
      · refine single (v.z * radToDeg) htc (by simp [pushRotation, hg, hty]) (fun st' => ?_)
        by_cases hg' : timeSampleGate st' op tc = true
        · exact Or.inl (hall _ hty st' hg')
        · exact Or.inr (by simp [pushRotation, hg', hty])
    | TypeRotateXYZ | TypeRotateXZY | TypeRotateYXZ | TypeRotateYZX | TypeRotateZXY
    | TypeRotateZYX =>
      refine three (by simp [pushRotation, hg, hty]) (fun st' => ?_)
      by_cases hg' : timeSampleGate st' op tc = true
      · exact Or.inl (hall _ hty st' hg')
      · exact Or.inr (by simp [pushRotation, hg', hty])
    | _ => simp [pushRotation, hg, hty]

theorem find_zip_insertIdx_pair {α β : Type} (P : α → Bool) (c1 c2 : α) (x1 x2 : β)
    (y : α × β) (hP : P c1 = true) :
    ∀ (p1 p2 : ℕ) (l1 : List α) (l2 : List β), p1 ≤ p2 → p2 ≤ l1.length → p2 ≤ l2.length →
      (((l1.insertIdx p2 c2).insertIdx p1 c1).zip
        ((l2.insertIdx p2 x2).insertIdx p1 x1)).find? (fun pr => P pr.1) = some y →
      y = (c1, x1) ∨ (l1.zip l2).find? (fun pr => P pr.1) = some y
  | 0, _, l1, l2, _, _, _, h => by
    simp only [List.insertIdx_zero, List.zip_cons_cons, List.find?_cons, hP,
      Option.some.injEq] at h
    exact Or.inl h.symm
  | p1 + 1, 0, _, _, h12, _, _, _ => by omega
  | p1 + 1, p2 + 1, [], _, _, h1, _, _ => by simp at h1
  | p1 + 1, p2 + 1, _ :: _, [], _, _, h2, _ => by simp at h2
  | p1 + 1, p2 + 1, a :: l1, b :: l2, h12, h1, h2, h => by
    simp only [List.insertIdx_succ_cons, List.zip_cons_cons, List.find?_cons] at h ⊢
    cases ha : P a
    · rw [ha] at h
      simp only
      exact find_zip_insertIdx_pair P c1 c2 x1 x2 y hP p1 p2 l1 l2 (by omega)
        (by simpa using h1) (by simpa using h2) h
    · rw [ha] at h
      exact Or.inr h

/-- After a successful insertion, the operator the lockstep walk finds under the inserted name
is not an inverted twin if the one it found before was not: the primary member of a pair is
inserted ahead of its twin. -/
theorem insertOp_found_primary (s : TransformationMatrix) (ty : XformOpType) (pr : Precision)
    (nm : TfToken) (flag : Flags) (beg : Bool) (s' : TransformationMatrix)
    (h : s.insertOp ty pr nm flag beg = some (.kSuccess, s'))
    (hs : ∀ op, s.findOp nm = some op → op.isInverseOp = false) (op : UsdGeomXformOp)
    (hfound : s'.findOp nm = some op) : op.isInverseOp = false := by
  obtain ⟨b1, b2, b3, b4⟩ := buildOrderedOpMayaIndices_frame s
  rcases insertOp_cases s ty pr nm flag beg .kSuccess s' h with
    ⟨hp, _⟩ | ⟨hp, r2, s1, h1, ⟨_, hst, _⟩ | ⟨hr2, r1, s2, h2, ⟨_, hst, _⟩ | ⟨hr1, _, e⟩⟩⟩
  · rcases insertOp_single_found s ty pr nm flag beg s' hp h op hfound with e | e
    · rw [e]
    · exact hs op e
  · exact absurd hst (by simp)
  · exact absurd hst (by simp)
  · obtain ⟨c2, hc2, hh | ⟨p2, hp2, hq2, l1, l2, l3, _, hs1⟩⟩ := addOp_cases _ _ _ _ _ _ _ _ h1
    · exact absurd hh.1 hr2
    obtain ⟨c1, hc1, hh | ⟨p1, hp1, hq1, m1, m2, m3, _, hs2⟩⟩ := addOp_cases _ _ _ _ _ _ _ _ h2
    · exact absurd hh.1 hr1
    have hname := (mayaStack_name nm c1).1 hc1
    have hinv := mayaStack_primary nm c1 hc1
    have hle : p1 ≤ p2 := by
      rw [hq1]
      cases beg with
      | true => simp
      | false =>
        simp only [Bool.false_eq_true, if_false]
        rw [hs1]
        simp only [findOpInsertPos]
        apply findIdx_le_of_getElem _ _ p2 (by rw [List.length_insertIdx _ _ l3]; omega)
        rw [List.getElem_insertIdx_self _ _ _ l3]
        exact le_of_lt (mayaStack_pair_lt nm hp)
    rw [e] at hfound
    have hfound' : s2.findOp nm = some op := hfound
    rw [hs2, hs1] at hfound'
    simp only [findOp, Option.map_eq_some'] at hfound'
    obtain ⟨y, hy, hy2⟩ := hfound'
    rcases find_zip_insertIdx_pair (fun c => decide (c.name = nm)) c1 c2 _ _ y
        (by simp [hname]) p1 p2 _ _ hle l1 l2 hy with e1 | e1
    · rw [← hy2, e1, hinv]
    · rw [b1, b2] at e1
      exact hs op (by simp only [findOp, e1, Option.map_some', hy2])

/-- Removing the operators of one name leaves the operator the lockstep walk finds under every
other name. -/
theorem findOp_removeOp_other (s r : TransformationMatrix) (nm X : TfToken) (flag : Flags)
    (hx : s.m_xformops.length = s.m_orderedOps.length)
    (hidx : s.m_orderedOpMayaIndices = [] ∨
      s.m_orderedOpMayaIndices.length = s.m_orderedOps.length)
    (hcount : countNamed nm s.m_orderedOps = 1 ∨ countNamed nm s.m_orderedOps = 2)
    (h : s.removeOp nm flag = some (.kSuccess, r)) (hX : X ≠ nm) :
    r.findOp X = s.findOp X := by
  obtain ⟨r', hrem, _, _, _, _, r5, r6, _⟩ := removeOp_spec s nm flag hx hidx hcount
  rw [h] at hrem
  simp only [Option.some.injEq, Prod.mk.injEq, true_and] at hrem
  subst hrem
  simp only [findOp, r5, r6, zip_filter_dropNamed, List.find?_filter]
  have hfun : (fun a : UsdMayaXformOpClassification × UsdGeomXformOp =>
      decide (decide (a.1.name ≠ nm) = true ∧ decide (a.1.name = X) = true))
      = (fun p => decide (p.1.name = X)) := by
    funext p
    by_cases hp : p.1.name = X
    · simp [hp, hX]
    · simp [hp]
  rw [hfun]

theorem pushTranslateToPrim_idem (H : Host) (t : TransformationMatrix)
    (hT : ∀ op, t.findOp .transform = some op → op.isInverseOp = false)
    (hX : ∀ op, t.findOp .translate = some op → op.isInverseOp = false) :
    (t.pushTranslateToPrim H).pushTranslateToPrim H = t.pushTranslateToPrim H := by
  cases hf : t.findOp .translate with
  | none =>
    have e : t.pushTranslateToPrim H
        = (if t.m_enableUsdWriteback = true then t.pushTransformToPrim H else t) := by
      simp only [pushTranslateToPrim, hf]
    rw [e]
    have hnone' : findOp (if t.m_enableUsdWriteback = true then t.pushTransformToPrim H
        else t) .translate = none := by
      rw [writeback_stage H t]; exact hf
    simp only [pushTranslateToPrim, hnone']
    exact writeback_idem H t hT
  | some op =>
    by_cases hg : (!(t.internal_readVector MVector.zero op).2.isEquivalent t.translationValue) = true
    · have e : t.pushTranslateToPrim H = { t with
          stage := (pushVector H t.stage t.translationValue op t.getTimeCode).2,
          m_translationFromUsd := t.translationValue,
          m_translationTweak := MVector.zero } := by
        simp only [pushTranslateToPrim, hf, hg, if_true, internal_pushVector]
      rw [e]
      have hf' : findOp { t with
          stage := (pushVector H t.stage t.translationValue op t.getTimeCode).2,
          m_translationFromUsd := t.translationValue,
          m_translationTweak := MVector.zero } .translate = some op := hf
      simp only [pushTranslateToPrim, hf']
      split
      · simp only [internal_pushVector]
        have := pushVector_idem H t.stage t.translationValue op t.getTimeCode (hX op hf)
        exact congrArg (fun st => { t with
          stage := st,
          m_translationFromUsd := t.translationValue,
          m_translationTweak := MVector.zero }) this
      · rfl
    · have e : t.pushTranslateToPrim H = t := by
        simp only [pushTranslateToPrim, hf, hg, Bool.false_eq_true, if_false]
      rw [e, e]

theorem pushScaleToPrim_idem (H : Host) (t : TransformationMatrix)
    (hT : ∀ op, t.findOp .transform = some op → op.isInverseOp = false)
    (hX : ∀ op, t.findOp .scale = some op → op.isInverseOp = false) :
    (t.pushScaleToPrim H).pushScaleToPrim H = t.pushScaleToPrim H := by
  cases hf : t.findOp .scale with
  | none =>
    have e : t.pushScaleToPrim H
        = (if t.m_enableUsdWriteback = true then t.pushTransformToPrim H else t) := by
      simp only [pushScaleToPrim, hf]
    rw [e]
    have hnone' : findOp (if t.m_enableUsdWriteback = true then t.pushTransformToPrim H
        else t) .scale = none := by
      rw [writeback_stage H t]; exact hf
    simp only [pushScaleToPrim, hnone']
    exact writeback_idem H t hT
  | some op =>
    by_cases hg : (!(t.internal_readVector MVector.one op).2.isEquivalent t.scaleValue) = true
    · have e : t.pushScaleToPrim H = { t with
          stage := (pushVector H t.stage t.scaleValue op t.getTimeCode).2,
          m_scaleFromUsd := t.scaleValue,
          m_scaleTweak := MVector.zero } := by
        simp only [pushScaleToPrim, hf, hg, if_true, internal_pushVector]
      rw [e]
      have hf' : findOp { t with
          stage := (pushVector H t.stage t.scaleValue op t.getTimeCode).2,
          m_scaleFromUsd := t.scaleValue,
          m_scaleTweak := MVector.zero } .scale = some op := hf
      simp only [pushScaleToPrim, hf']
      split
      · simp only [internal_pushVector]
        have := pushVector_idem H t.stage t.scaleValue op t.getTimeCode (hX op hf)
        exact congrArg (fun st => { t with
          stage := st,
          m_scaleFromUsd := t.scaleValue,
          m_scaleTweak := MVector.zero }) this
      · rfl
    · have e : t.pushScaleToPrim H = t := by
        simp only [pushScaleToPrim, hf, hg, Bool.false_eq_true, if_false]
      rw [e, e]

theorem pushScalePivotTranslateToPrim_idem (H : Host) (t : TransformationMatrix)
    (hT : ∀ op, t.findOp .transform = some op → op.isInverseOp = false)
    (hX : ∀ op, t.findOp .scalePivotTranslate = some op → op.isInverseOp = false) :
    (t.pushScalePivotTranslateToPrim H).pushScalePivotTranslateToPrim H = t.pushScalePivotTranslateToPrim H := by
  cases hf : t.findOp .scalePivotTranslate with
  | none =>
    have e : t.pushScalePivotTranslateToPrim H
        = (if t.m_enableUsdWriteback = true then t.pushTransformToPrim H else t) := by
      simp only [pushScalePivotTranslateToPrim, hf]
    rw [e]
    have hnone' : findOp (if t.m_enableUsdWriteback = true then t.pushTransformToPrim H
        else t) .scalePivotTranslate = none := by
      rw [writeback_stage H t]; exact hf
    simp only [pushScalePivotTranslateToPrim, hnone']
    exact writeback_idem H t hT
  | some op =>
    by_cases hg : (!(t.internal_readVector MVector.zero op).2.isEquivalent t.scalePivotTranslationValue) = true
    · have e : t.pushScalePivotTranslateToPrim H = { t with
          stage := (pushVector H t.stage t.scalePivotTranslationValue op t.getTimeCode).2,
          m_scalePivotTranslationFromUsd := t.scalePivotTranslationValue,
          m_scalePivotTranslationTweak := MVector.zero } := by
        simp only [pushScalePivotTranslateToPrim, hf, hg, if_true, internal_pushVector]
      rw [e]
      have hf' : findOp { t with
          stage := (pushVector H t.stage t.scalePivotTranslationValue op t.getTimeCode).2,
          m_scalePivotTranslationFromUsd := t.scalePivotTranslationValue,
          m_scalePivotTranslationTweak := MVector.zero } .scalePivotTranslate = some op := hf
      simp only [pushScalePivotTranslateToPrim, hf']
      split
      · simp only [internal_pushVector]
        have := pushVector_idem H t.stage t.scalePivotTranslationValue op t.getTimeCode (hX op hf)
        exact congrArg (fun st => { t with
          stage := st,
          m_scalePivotTranslationFromUsd := t.scalePivotTranslationValue,
          m_scalePivotTranslationTweak := MVector.zero }) this
      · rfl
    · have e : t.pushScalePivotTranslateToPrim H = t := by
        simp only [pushScalePivotTranslateToPrim, hf, hg, Bool.false_eq_true, if_false]
      rw [e, e]

theorem pushRotatePivotTranslateToPrim_idem (H : Host) (t : TransformationMatrix)
    (hT : ∀ op, t.findOp .transform = some op → op.isInverseOp = false)
    (hX : ∀ op, t.findOp .rotatePivotTranslate = some op → op.isInverseOp = false) :
    (t.pushRotatePivotTranslateToPrim H).pushRotatePivotTranslateToPrim H = t.pushRotatePivotTranslateToPrim H := by
  cases hf : t.findOp .rotatePivotTranslate with
  | none =>
    have e : t.pushRotatePivotTranslateToPrim H
        = (if t.m_enableUsdWriteback = true then t.pushTransformToPrim H else t) := by
      simp only [pushRotatePivotTranslateToPrim, hf]
    rw [e]
    have hnone' : findOp (if t.m_enableUsdWriteback = true then t.pushTransformToPrim H
        else t) .rotatePivotTranslate = none := by
      rw [writeback_stage H t]; exact hf
    simp only [pushRotatePivotTranslateToPrim, hnone']
    exact writeback_idem H t hT
  | some op =>
    by_cases hg : (!(t.internal_readVector MVector.zero op).2.isEquivalent t.rotatePivotTranslationValue) = true
    · have e : t.pushRotatePivotTranslateToPrim H = { t with
          stage := (pushPoint H t.stage t.rotatePivotTranslationValue op t.getTimeCode).2,
          m_rotatePivotTranslationFromUsd := t.rotatePivotTranslationValue,
          m_rotatePivotTranslationTweak := MVector.zero } := by
        simp only [pushRotatePivotTranslateToPrim, hf, hg, if_true, internal_pushPoint]
      rw [e]
      have hf' : findOp { t with
          stage := (pushPoint H t.stage t.rotatePivotTranslationValue op t.getTimeCode).2,
          m_rotatePivotTranslationFromUsd := t.rotatePivotTranslationValue,
          m_rotatePivotTranslationTweak := MVector.zero } .rotatePivotTranslate = some op := hf
      simp only [pushRotatePivotTranslateToPrim, hf']
      split
      · simp only [internal_pushPoint]
        have := pushPoint_idem H t.stage t.rotatePivotTranslationValue op t.getTimeCode (hX op hf)
        exact congrArg (fun st => { t with
          stage := st,
          m_rotatePivotTranslationFromUsd := t.rotatePivotTranslationValue,
          m_rotatePivotTranslationTweak := MVector.zero }) this
      · rfl
    · have e : t.pushRotatePivotTranslateToPrim H = t := by
        simp only [pushRotatePivotTranslateToPrim, hf, hg, Bool.false_eq_true, if_false]
      rw [e, e]

theorem pushScalePivotToPrim_idem (H : Host) (t : TransformationMatrix)
    (hT : ∀ op, t.findOp .transform = some op → op.isInverseOp = false)
    (hX : ∀ op, t.findOp .scalePivot = some op → op.isInverseOp = false) :
    (t.pushScalePivotToPrim H).pushScalePivotToPrim H = t.pushScalePivotToPrim H := by
  cases hf : t.findOp .scalePivot with
  | none =>
    have e : t.pushScalePivotToPrim H
        = (if t.m_enableUsdWriteback = true then t.pushTransformToPrim H else t) := by
      simp only [pushScalePivotToPrim, hf]
    rw [e]
    have hnone' : findOp (if t.m_enableUsdWriteback = true then t.pushTransformToPrim H
        else t) .scalePivot = none := by
      rw [writeback_stage H t]; exact hf
    simp only [pushScalePivotToPrim, hnone']
    exact writeback_idem H t hT
  | some op =>
    by_cases hg : (!(t.internal_readPoint MVector.zero op).2.isEquivalent t.scalePivotValue) = true
    · have e : t.pushScalePivotToPrim H = { t with
          stage := (pushPoint H t.stage t.scalePivotValue op t.getTimeCode).2,
          m_scalePivotFromUsd := t.scalePivotValue,
          m_scalePivotTweak := MVector.zero } := by
        simp only [pushScalePivotToPrim, hf, hg, if_true, internal_pushPoint]
      rw [e]
      have hf' : findOp { t with
          stage := (pushPoint H t.stage t.scalePivotValue op t.getTimeCode).2,
          m_scalePivotFromUsd := t.scalePivotValue,
          m_scalePivotTweak := MVector.zero } .scalePivot = some op := hf
      simp only [pushScalePivotToPrim, hf']
      split
      · simp only [internal_pushPoint]
        have := pushPoint_idem H t.stage t.scalePivotValue op t.getTimeCode (hX op hf)
        exact congrArg (fun st => { t with
          stage := st,
          m_scalePivotFromUsd := t.scalePivotValue,
          m_scalePivotTweak := MVector.zero }) this
      · rfl
    · have e : t.pushScalePivotToPrim H = t := by
        simp only [pushScalePivotToPrim, hf, hg, Bool.false_eq_true, if_false]
      rw [e, e]

theorem pushRotatePivotToPrim_idem (H : Host) (t : TransformationMatrix)
    (hT : ∀ op, t.findOp .transform = some op → op.isInverseOp = false)
    (hX : ∀ op, t.findOp .rotatePivot = some op → op.isInverseOp = false) :
    (t.pushRotatePivotToPrim H).pushRotatePivotToPrim H = t.pushRotatePivotToPrim H := by
  cases hf : t.findOp .rotatePivot with
  | none =>
    have e : t.pushRotatePivotToPrim H
        = (if t.m_enableUsdWriteback = true then t.pushTransformToPrim H else t) := by
      simp only [pushRotatePivotToPrim, hf]
    rw [e]
    have hnone' : findOp (if t.m_enableUsdWriteback = true then t.pushTransformToPrim H
        else t) .rotatePivot = none := by
      rw [writeback_stage H t]; exact hf
    simp only [pushRotatePivotToPrim, hnone']
    exact writeback_idem H t hT
  | some op =>
    by_cases hg : (!(t.internal_readPoint MVector.zero op).2.isEquivalent t.rotatePivotValue) = true
    · have e : t.pushRotatePivotToPrim H = { t with
          stage := (pushPoint H t.stage t.rotatePivotValue op t.getTimeCode).2,
          m_rotatePivotFromUsd := t.rotatePivotValue,
          m_rotatePivotTweak := MVector.zero } := by
        simp only [pushRotatePivotToPrim, hf, hg, if_true, internal_pushPoint]
      rw [e]
      have hf' : findOp { t with
          stage := (pushPoint H t.stage t.rotatePivotValue op t.getTimeCode).2,
          m_rotatePivotFromUsd := t.rotatePivotValue,
          m_rotatePivotTweak := MVector.zero } .rotatePivot = some op := hf
      simp only [pushRotatePivotToPrim, hf']
      split
      · simp only [internal_pushPoint]
        have := pushPoint_idem H t.stage t.rotatePivotValue op t.getTimeCode (hX op hf)
        exact congrArg (fun st => { t with
          stage := st,
          m_rotatePivotFromUsd := t.rotatePivotValue,
          m_rotatePivotTweak := MVector.zero }) this
      · rfl
    · have e : t.pushRotatePivotToPrim H = t := by
        simp only [pushRotatePivotToPrim, hf, hg, Bool.false_eq_true, if_false]
      rw [e, e]

theorem pushRotateToPrim_idem (H : Host) (t : TransformationMatrix)
    (hT : ∀ op, t.findOp .transform = some op → op.isInverseOp = false)
    (hX : ∀ op, t.findOp .rotate = some op → op.isInverseOp = false)
    (hax : ∀ op, t.findOp .rotate = some op →
      (op.opType ≠ .TypeRotateX ∧ op.opType ≠ .TypeRotateY ∧ op.opType ≠ .TypeRotateZ) ∨
        t.getTimeCode = .Default) :
    (t.pushRotateToPrim H).pushRotateToPrim H = t.pushRotateToPrim H := by
  cases hf : t.findOp .rotate with
  | none =>
    have e : t.pushRotateToPrim H
        = (if t.m_enableUsdWriteback = true then t.pushTransformToPrim H else t) := by
      simp only [pushRotateToPrim, hf]
    rw [e]
    have hnone' : findOp (if t.m_enableUsdWriteback = true then t.pushTransformToPrim H
        else t) .rotate = none := by
      rw [writeback_stage H t]; exact hf
    simp only [pushRotateToPrim, hnone']
    exact writeback_idem H t hT
  | some op =>
    by_cases hg : (!(t.internal_readRotation ⟨0, 0, 0, .kXYZ⟩ op).2.isEquivalent t.rotationValue) = true
    · have e : t.pushRotateToPrim H = { t with
          stage := (pushRotation H t.stage t.rotationValue op t.getTimeCode).2,
          m_rotationFromUsd := t.rotationValue,
          m_rotationTweak := ⟨0, 0, 0, .kXYZ⟩ } := by
        simp only [pushRotateToPrim, hf, hg, if_true, internal_pushRotation]
      rw [e]
      have hf' : findOp { t with
          stage := (pushRotation H t.stage t.rotationValue op t.getTimeCode).2,
          m_rotationFromUsd := t.rotationValue,
          m_rotationTweak := ⟨0, 0, 0, .kXYZ⟩ } .rotate = some op := hf
      simp only [pushRotateToPrim, hf']
      split
      · simp only [internal_pushRotation]
        have := pushRotation_idem H t.stage t.rotationValue op t.getTimeCode (hX op hf)
          (hax op hf)
        exact congrArg (fun st => { t with
          stage := st,
          m_rotationFromUsd := t.rotationValue,
          m_rotationTweak := ⟨0, 0, 0, .kXYZ⟩ }) this
      · rfl
    · have e : t.pushRotateToPrim H = t := by
        simp only [pushRotateToPrim, hf, hg, Bool.false_eq_true, if_false]
      rw [e, e]

theorem pushShearToPrim_idem (H : Host) (t : TransformationMatrix)
    (hT : ∀ op, t.findOp .transform = some op → op.isInverseOp = false)
    (hX : ∀ op, t.findOp .shear = some op → op.isInverseOp = false) :
    (t.pushShearToPrim H).pushShearToPrim H = t.pushShearToPrim H := by
  cases hf : t.findOp .shear with
  | none =>
    have e : t.pushShearToPrim H
        = (if t.m_enableUsdWriteback = true then t.pushTransformToPrim H else t) := by
      simp only [pushShearToPrim, hf]
    rw [e]
    have hnone' : findOp (if t.m_enableUsdWriteback = true then t.pushTransformToPrim H
        else t) .shear = none := by
      rw [writeback_stage H t]; exact hf
    simp only [pushShearToPrim, hnone']
    exact writeback_idem H t hT
  | some op =>
    have e : t.pushShearToPrim H = { t with
        stage := (pushShear t.stage t.shearValue op t.getTimeCode).2,
        m_shearFromUsd := t.shearValue,
        m_shearTweak := MVector.zero } := by
      simp only [pushShearToPrim, hf, internal_pushShear]
    rw [e]
    have hf' : findOp { t with
        stage := (pushShear t.stage t.shearValue op t.getTimeCode).2,
        m_shearFromUsd := t.shearValue,
        m_shearTweak := MVector.zero } .shear = some op := hf
    simp only [pushShearToPrim, hf', internal_pushShear]
    have := pushShear_idem t.stage t.shearValue op t.getTimeCode (hX op hf)
    exact congrArg (fun st => { t with
      stage := st,
      m_shearFromUsd := t.shearValue,
      m_shearTweak := MVector.zero }) this

theorem translateTo_fixpoint_failed (H : Host) (s : TransformationMatrix) (v : MVector)
    (space : MSpace)
    (hwf : ∀ op, s.findOp .transform = some op → op.isInverseOp = false)
    (hown : ∀ op, s.findOp .translate = some op → op.isInverseOp = false)
    (st : MStatus) (s3 : TransformationMatrix)
    (h : s.translateTo H .kFailure v space = some (st, s3)) :
    ∃ st', s3.translateTo H .kFailure v space = some (st', s3) := by
  by_cases hl : s.translateLocked = true
  · simp only [translateTo, hl, if_true, baseTranslateTo, MStatus.toBool, Option.some.injEq,
      Prod.mk.injEq, Bool.false_eq_true, if_false] at h
    rw [← h.2]
    exact ⟨.kFailure, by
      simp only [translateTo, hl, if_true, baseTranslateTo, MStatus.toBool, Bool.false_eq_true,
        if_false]⟩
  · have hl' : s.translateLocked = false := by simpa using hl
    have hstep : ∀ t : TransformationMatrix, t.translateLocked = false →
        t.translateTo H .kFailure v space =
          (fun t : TransformationMatrix =>
            if t.pushToPrimAvailable = true then
              match (if t.primHasTranslation = true then some (MStatus.kSuccess, t)
                else if (!t.pushPrimToMatrix && decide (v ≠ MVector.zero)) = true
                  then t.insertTranslateOp else some (MStatus.kSuccess, t)) with
              | none => none
              | some (.kFailure, s2) => some (MStatus.kFailure, s2)
              | some (.kSuccess, s2) =>
                if (!v.isEquivalent s2.m_translationFromUsd) = true
                  then some (MStatus.kFailure, s2.pushTranslateToPrim H)
                  else some (MStatus.kFailure, s2)
            else some (MStatus.kFailure, t)) t := by
      intro t ht
      simp only [translateTo, baseTranslateTo, MStatus.toBool, Bool.false_eq_true, if_false]
      rw [if_neg (by rw [ht]; simp)]
    rw [hstep s hl'] at h
    obtain ⟨⟨st', hfix⟩, hP⟩ := setter_tail_fixpoint
      (fun t => t.translateLocked = false)
      (fun t => t.translateLocked = false ∧
        (∀ op, t.findOp .transform = some op → op.isInverseOp = false) ∧
        (∀ op, t.findOp .translate = some op → op.isInverseOp = false))
      (fun t => t.pushToPrimAvailable) (fun t => t.primHasTranslation)
      (fun t => !t.pushPrimToMatrix && decide (v ≠ MVector.zero))
      (fun t => t.insertTranslateOp)
      (fun t => !v.isEquivalent t.m_translationFromUsd)
      (pushTranslateToPrim H) .kFailure
      (fun t hG => hG.1)
      (by
        intro t t' hG hi
        have hw := withStructureOf_insertOp _ _ _ _ _ _ _ _ hi
        obtain ⟨hf, hfind⟩ := insertOp_success_frame _ _ _ _ _ _ _ hi
        refine ⟨⟨?_, ?_, ?_⟩, ?_, ?_⟩
        · rw [hw]; exact hG.1
        · intro op hop
          rw [hfind .transform (by decide)] at hop
          exact hG.2.1 op hop
        · exact insertOp_found_primary _ _ _ _ _ _ _ hi hG.2.2
        · exact pushToPrimAvailable_congr _ _
            (by rw [hf]; exact hasFlag_setFlag_other _ _ _ (by decide))
            (primValid_withStructureOf _ _ hw)
        · show hasFlag t'.m_flags kPrimHasTranslation = true
          rw [hf]; exact hasFlag_setFlag_self _ _ (by decide))
      (by
        intro t t' hG hi
        have hw := withStructureOf_insertOp _ _ _ _ _ _ _ _ hi
        have hf := insertOp_fail_flags _ _ _ _ _ _ _ hi
        refine ⟨?_, ?_, ?_, ?_, insertOp_fail_again _ _ _ _ _ _ _ hi⟩
        · rw [hw]; exact hG.1
        · exact pushToPrimAvailable_congr _ _ (by rw [hf]) (primValid_withStructureOf _ _ hw)
        · show hasFlag t'.m_flags _ = hasFlag t.m_flags _
          rw [hf]
        · show (!hasFlag t'.m_flags _ && _) = (!hasFlag t.m_flags _ && _)
          rw [hf])
      (by
        intro t hG
        obtain ⟨g1, g4, g5⟩ := hG
        rcases pushTranslateToPrim_cases H t with e | ⟨st1, e⟩ | ⟨_, e⟩
        · rw [e]; exact ⟨⟨g1, g4, g5⟩, rfl, rfl, rfl⟩
        · rw [e]; exact ⟨⟨g1, g4, g5⟩, rfl, rfl, rfl⟩
        · rw [e, writeback_stage H t]
          exact ⟨⟨g1, g4, g5⟩, rfl, rfl, rfl⟩)
      (fun t hG _ _ => pushTranslateToPrim_idem H t hG.2.1 hG.2.2)
      _ (fun t => rfl)
      s ⟨hl', hwf, hown⟩ st s3 h
    refine ⟨st', ?_⟩
    rw [hstep s3 hP]
    exact hfix

theorem scaleTo_fixpoint_failed (H : Host) (s : TransformationMatrix) (v : MVector)
    (space : MSpace)
    (hwf : ∀ op, s.findOp .transform = some op → op.isInverseOp = false)
    (hown : ∀ op, s.findOp .scale = some op → op.isInverseOp = false)
    (st : MStatus) (s3 : TransformationMatrix)
    (h : s.scaleTo H .kFailure v space = some (st, s3)) :
    ∃ st', s3.scaleTo H .kFailure v space = some (st', s3) := by
  by_cases hl : s.scaleLocked = true
  · simp only [scaleTo, hl, if_true, baseScaleTo, MStatus.toBool, Option.some.injEq,
      Prod.mk.injEq, Bool.false_eq_true, if_false] at h
    rw [← h.2]
    exact ⟨.kFailure, by
      simp only [scaleTo, hl, if_true, baseScaleTo, MStatus.toBool, Bool.false_eq_true,
        if_false]⟩
  · have hl' : s.scaleLocked = false := by simpa using hl
    have hstep : ∀ t : TransformationMatrix, t.scaleLocked = false →
        t.scaleTo H .kFailure v space =
          (fun t : TransformationMatrix =>
            if t.pushToPrimAvailable = true then
              match (if t.primHasScale = true then some (MStatus.kSuccess, t)
                else if (!t.pushPrimToMatrix && decide (v ≠ MVector.one)) = true
                  then t.insertScaleOp else some (MStatus.kSuccess, t)) with
              | none => none
              | some (.kFailure, s2) => some (MStatus.kFailure, s2)
              | some (.kSuccess, s2) =>
                if (!v.isEquivalent s2.m_scaleFromUsd) = true
                  then some (MStatus.kFailure, s2.pushScaleToPrim H)
                  else some (MStatus.kFailure, s2)
            else some (MStatus.kFailure, t)) t := by
      intro t ht
      simp only [scaleTo, baseScaleTo, MStatus.toBool, Bool.false_eq_true, if_false]
      rw [if_neg (by rw [ht]; simp)]
    rw [hstep s hl'] at h
    obtain ⟨⟨st', hfix⟩, hP⟩ := setter_tail_fixpoint
      (fun t => t.scaleLocked = false)
      (fun t => t.scaleLocked = false ∧
        (∀ op, t.findOp .transform = some op → op.isInverseOp = false) ∧
        (∀ op, t.findOp .scale = some op → op.isInverseOp = false))
      (fun t => t.pushToPrimAvailable) (fun t => t.primHasScale)
      (fun t => !t.pushPrimToMatrix && decide (v ≠ MVector.one))
      (fun t => t.insertScaleOp)
      (fun t => !v.isEquivalent t.m_scaleFromUsd)
      (pushScaleToPrim H) .kFailure
      (fun t hG => hG.1)
      (by
        intro t t' hG hi
        have hw := withStructureOf_insertOp _ _ _ _ _ _ _ _ hi
        obtain ⟨hf, hfind⟩ := insertOp_success_frame _ _ _ _ _ _ _ hi
        refine ⟨⟨?_, ?_, ?_⟩, ?_, ?_⟩
        · rw [hw]; exact hG.1
        · intro op hop
          rw [hfind .transform (by decide)] at hop
          exact hG.2.1 op hop
        · exact insertOp_found_primary _ _ _ _ _ _ _ hi hG.2.2
        · exact pushToPrimAvailable_congr _ _
            (by rw [hf]; exact hasFlag_setFlag_other _ _ _ (by decide))
            (primValid_withStructureOf _ _ hw)
        · show hasFlag t'.m_flags kPrimHasScale = true
          rw [hf]; exact hasFlag_setFlag_self _ _ (by decide))
      (by
        intro t t' hG hi
        have hw := withStructureOf_insertOp _ _ _ _ _ _ _ _ hi
        have hf := insertOp_fail_flags _ _ _ _ _ _ _ hi
        refine ⟨?_, ?_, ?_, ?_, insertOp_fail_again _ _ _ _ _ _ _ hi⟩
        · rw [hw]; exact hG.1
        · exact pushToPrimAvailable_congr _ _ (by rw [hf]) (primValid_withStructureOf _ _ hw)
        · show hasFlag t'.m_flags _ = hasFlag t.m_flags _
          rw [hf]
        · show (!hasFlag t'.m_flags _ && _) = (!hasFlag t.m_flags _ && _)
          rw [hf])
      (by
        intro t hG
        obtain ⟨g1, g4, g5⟩ := hG
        rcases pushScaleToPrim_cases H t with e | ⟨st1, e⟩ | ⟨_, e⟩
        · rw [e]; exact ⟨⟨g1, g4, g5⟩, rfl, rfl, rfl⟩
        · rw [e]; exact ⟨⟨g1, g4, g5⟩, rfl, rfl, rfl⟩
        · rw [e, writeback_stage H t]
          exact ⟨⟨g1, g4, g5⟩, rfl, rfl, rfl⟩)
      (fun t hG _ _ => pushScaleToPrim_idem H t hG.2.1 hG.2.2)
      _ (fun t => rfl)
      s ⟨hl', hwf, hown⟩ st s3 h
    refine ⟨st', ?_⟩
    rw [hstep s3 hP]
    exact hfix

theorem shearTo_fixpoint_failed (H : Host) (s : TransformationMatrix) (v : MVector)
    (space : MSpace)
    (hwf : ∀ op, s.findOp .transform = some op → op.isInverseOp = false)
    (hown : ∀ op, s.findOp .shear = some op → op.isInverseOp = false)
    (st : MStatus) (s3 : TransformationMatrix)
    (h : s.shearTo H .kFailure v space = some (st, s3)) :
    ∃ st', s3.shearTo H .kFailure v space = some (st', s3) := by
  by_cases hl : s.shearLocked = true
  · simp only [shearTo, hl, if_true, baseShearTo, MStatus.toBool, Option.some.injEq,
      Prod.mk.injEq, Bool.false_eq_true, if_false] at h
    rw [← h.2]
    exact ⟨.kFailure, by
      simp only [shearTo, hl, if_true, baseShearTo, MStatus.toBool, Bool.false_eq_true,
        if_false]⟩
  · have hl' : s.shearLocked = false := by simpa using hl
    have hstep : ∀ t : TransformationMatrix, t.shearLocked = false →
        t.shearTo H .kFailure v space =
          (fun t : TransformationMatrix =>
            if t.pushToPrimAvailable = true then
              match (if t.primHasShear = true then some (MStatus.kSuccess, t)
                else if (!t.pushPrimToMatrix && decide (v ≠ MVector.zero)) = true
                  then t.insertShearOp else some (MStatus.kSuccess, t)) with
              | none => none
              | some (.kFailure, s2) => some (MStatus.kFailure, s2)
              | some (.kSuccess, s2) =>
                if (!v.isEquivalent s2.m_shearFromUsd) = true
                  then some (MStatus.kFailure, s2.pushShearToPrim H)
                  else some (MStatus.kFailure, s2)
            else some (MStatus.kFailure, t)) t := by
      intro t ht
      simp only [shearTo, baseShearTo, MStatus.toBool, Bool.false_eq_true, if_false]
      rw [if_neg (by rw [ht]; simp)]
    rw [hstep s hl'] at h
    obtain ⟨⟨st', hfix⟩, hP⟩ := setter_tail_fixpoint
      (fun t => t.shearLocked = false)
      (fun t => t.shearLocked = false ∧
        (∀ op, t.findOp .transform = some op → op.isInverseOp = false) ∧
        (∀ op, t.findOp .shear = some op → op.isInverseOp = false))
      (fun t => t.pushToPrimAvailable) (fun t => t.primHasShear)
      (fun t => !t.pushPrimToMatrix && decide (v ≠ MVector.zero))
      (fun t => t.insertShearOp)
      (fun t => !v.isEquivalent t.m_shearFromUsd)
      (pushShearToPrim H) .kFailure
      (fun t hG => hG.1)
      (by
        intro t t' hG hi
        have hw := withStructureOf_insertOp _ _ _ _ _ _ _ _ hi
        obtain ⟨hf, hfind⟩ := insertOp_success_frame _ _ _ _ _ _ _ hi
        refine ⟨⟨?_, ?_, ?_⟩, ?_, ?_⟩
        · rw [hw]; exact hG.1
        · intro op hop
          rw [hfind .transform (by decide)] at hop
          exact hG.2.1 op hop
        · exact insertOp_found_primary _ _ _ _ _ _ _ hi hG.2.2
        · exact pushToPrimAvailable_congr _ _
            (by rw [hf]; exact hasFlag_setFlag_other _ _ _ (by decide))
            (primValid_withStructureOf _ _ hw)
        · show hasFlag t'.m_flags kPrimHasShear = true
          rw [hf]; exact hasFlag_setFlag_self _ _ (by decide))
      (by
        intro t t' hG hi
        have hw := withStructureOf_insertOp _ _ _ _ _ _ _ _ hi
        have hf := insertOp_fail_flags _ _ _ _ _ _ _ hi
        refine ⟨?_, ?_, ?_, ?_, insertOp_fail_again _ _ _ _ _ _ _ hi⟩
        · rw [hw]; exact hG.1
        · exact pushToPrimAvailable_congr _ _ (by rw [hf]) (primValid_withStructureOf _ _ hw)
        · show hasFlag t'.m_flags _ = hasFlag t.m_flags _
          rw [hf]
        · show (!hasFlag t'.m_flags _ && _) = (!hasFlag t.m_flags _ && _)
          rw [hf])
      (by
        intro t hG
        obtain ⟨g1, g4, g5⟩ := hG
        rcases pushShearToPrim_cases H t with e | ⟨st1, e⟩ | ⟨_, e⟩
        · rw [e]; exact ⟨⟨g1, g4, g5⟩, rfl, rfl, rfl⟩
        · rw [e]; exact ⟨⟨g1, g4, g5⟩, rfl, rfl, rfl⟩
        · rw [e, writeback_stage H t]
          exact ⟨⟨g1, g4, g5⟩, rfl, rfl, rfl⟩)
      (fun t hG _ _ => pushShearToPrim_idem H t hG.2.1 hG.2.2)
      _ (fun t => rfl)
      s ⟨hl', hwf, hown⟩ st s3 h
    refine ⟨st', ?_⟩
    rw [hstep s3 hP]
    exact hfix

theorem setScalePivotTranslation_fixpoint_failed (H : Host) (s : TransformationMatrix) (v : MVector)
    (space : MSpace)
    (hwf : ∀ op, s.findOp .transform = some op → op.isInverseOp = false)
    (hown : ∀ op, s.findOp .scalePivotTranslate = some op → op.isInverseOp = false)
    (st : MStatus) (s3 : TransformationMatrix)
    (h : s.setScalePivotTranslation H .kFailure v space = some (st, s3)) :
    ∃ st', s3.setScalePivotTranslation H .kFailure v space = some (st', s3) := by
  have hstep : ∀ t : TransformationMatrix,
      t.setScalePivotTranslation H .kFailure v space =
        (fun t : TransformationMatrix =>
          if t.pushToPrimAvailable = true then
            match (if t.primHasScalePivotTranslate = true then some (MStatus.kSuccess, t)
              else if (!t.pushPrimToMatrix && decide (v ≠ MVector.zero)) = true
                then t.insertScalePivotTranslationOp else some (MStatus.kSuccess, t)) with
            | none => none
            | some (.kFailure, s2) => some (MStatus.kFailure, s2)
            | some (.kSuccess, s2) =>
              if (!v.isEquivalent s2.m_scalePivotTranslationFromUsd) = true
                then some (MStatus.kFailure, s2.pushScalePivotTranslateToPrim H)
                else some (MStatus.kFailure, s2)
          else some (MStatus.kFailure, t)) t := by
    intro t
    simp only [setScalePivotTranslation, baseSetScalePivotTranslation, MStatus.toBool, Bool.false_eq_true, if_false]
  rw [hstep s] at h
  obtain ⟨⟨st', hfix⟩, _⟩ := setter_tail_fixpoint
    (fun _ => True)
    (fun t => (∀ op, t.findOp .transform = some op → op.isInverseOp = false) ∧
      (∀ op, t.findOp .scalePivotTranslate = some op → op.isInverseOp = false))
    (fun t => t.pushToPrimAvailable) (fun t => t.primHasScalePivotTranslate)
    (fun t => !t.pushPrimToMatrix && decide (v ≠ MVector.zero))
    (fun t => t.insertScalePivotTranslationOp)
    (fun t => !v.isEquivalent t.m_scalePivotTranslationFromUsd)
    (pushScalePivotTranslateToPrim H) .kFailure
    (fun _ _ => trivial)
    (by
      intro t t' hG hi
      have hw := withStructureOf_insertOp _ _ _ _ _ _ _ _ hi
      obtain ⟨hf, hfind⟩ := insertOp_success_frame _ _ _ _ _ _ _ hi
      refine ⟨⟨?_, ?_⟩, ?_, ?_⟩
      · intro op hop
        rw [hfind .transform (by decide)] at hop
        exact hG.1 op hop
      · exact insertOp_found_primary _ _ _ _ _ _ _ hi hG.2
      · exact pushToPrimAvailable_congr _ _
          (by rw [hf]; exact hasFlag_setFlag_other _ _ _ (by decide))
          (primValid_withStructureOf _ _ hw)
      · show hasFlag t'.m_flags kPrimHasScalePivotTranslate = true
        rw [hf]; exact hasFlag_setFlag_self _ _ (by decide))
    (by
      intro t t' hG hi
      have hw := withStructureOf_insertOp _ _ _ _ _ _ _ _ hi
      have hf := insertOp_fail_flags _ _ _ _ _ _ _ hi
      refine ⟨trivial, ?_, ?_, ?_, insertOp_fail_again _ _ _ _ _ _ _ hi⟩
      · exact pushToPrimAvailable_congr _ _ (by rw [hf]) (primValid_withStructureOf _ _ hw)
      · show hasFlag t'.m_flags _ = hasFlag t.m_flags _
        rw [hf]
      · show (!hasFlag t'.m_flags _ && _) = (!hasFlag t.m_flags _ && _)
        rw [hf])
    (by
      intro t hG
      obtain ⟨g4, g5⟩ := hG
      rcases pushScalePivotTranslateToPrim_cases H t with e | ⟨st1, e⟩ | ⟨_, e⟩
      · rw [e]; exact ⟨⟨g4, g5⟩, rfl, rfl, rfl⟩
      · rw [e]; exact ⟨⟨g4, g5⟩, rfl, rfl, rfl⟩
      · rw [e, writeback_stage H t]
        exact ⟨⟨g4, g5⟩, rfl, rfl, rfl⟩)
    (fun t hG _ _ => pushScalePivotTranslateToPrim_idem H t hG.1 hG.2)
    _ (fun t => rfl)
    s ⟨hwf, hown⟩ st s3 h
  refine ⟨st', ?_⟩
  rw [hstep s3]
  exact hfix

theorem setRotatePivotTranslation_fixpoint_failed (H : Host) (s : TransformationMatrix) (v : MVector)
    (space : MSpace)
    (hwf : ∀ op, s.findOp .transform = some op → op.isInverseOp = false)
    (hown : ∀ op, s.findOp .rotatePivotTranslate = some op → op.isInverseOp = false)
    (st : MStatus) (s3 : TransformationMatrix)
    (h : s.setRotatePivotTranslation H .kFailure v space = some (st, s3)) :
    ∃ st', s3.setRotatePivotTranslation H .kFailure v space = some (st', s3) := by
  have hstep : ∀ t : TransformationMatrix,
      t.setRotatePivotTranslation H .kFailure v space =
        (fun t : TransformationMatrix =>
          if t.pushToPrimAvailable = true then
            match (if t.primHasRotatePivotTranslate = true then some (MStatus.kSuccess, t)
              else if (!t.pushPrimToMatrix && decide (v ≠ MVector.zero)) = true
                then t.insertRotatePivotTranslationOp else some (MStatus.kSuccess, t)) with
            | none => none
            | some (.kFailure, s2) => some (MStatus.kFailure, s2)
            | some (.kSuccess, s2) =>
              if (!v.isEquivalent s2.m_rotatePivotTranslationFromUsd) = true
                then some (MStatus.kFailure, s2.pushRotatePivotTranslateToPrim H)
                else some (MStatus.kFailure, s2)
          else some (MStatus.kFailure, t)) t := by
    intro t
    simp only [setRotatePivotTranslation, baseSetRotatePivotTranslation, MStatus.toBool, Bool.false_eq_true, if_false]
  rw [hstep s] at h
  obtain ⟨⟨st', hfix⟩, _⟩ := setter_tail_fixpoint
    (fun _ => True)
    (fun t => (∀ op, t.findOp .transform = some op → op.isInverseOp = false) ∧
      (∀ op, t.findOp .rotatePivotTranslate = some op → op.isInverseOp = false))
    (fun t => t.pushToPrimAvailable) (fun t => t.primHasRotatePivotTranslate)
    (fun t => !t.pushPrimToMatrix && decide (v ≠ MVector.zero))
    (fun t => t.insertRotatePivotTranslationOp)
    (fun t => !v.isEquivalent t.m_rotatePivotTranslationFromUsd)
    (pushRotatePivotTranslateToPrim H) .kFailure
    (fun _ _ => trivial)
    (by
      intro t t' hG hi
      have hw := withStructureOf_insertOp _ _ _ _ _ _ _ _ hi
      obtain ⟨hf, hfind⟩ := insertOp_success_frame _ _ _ _ _ _ _ hi
      refine ⟨⟨?_, ?_⟩, ?_, ?_⟩
      · intro op hop
        rw [hfind .transform (by decide)] at hop
        exact hG.1 op hop
      · exact insertOp_found_primary _ _ _ _ _ _ _ hi hG.2
      · exact pushToPrimAvailable_congr _ _
          (by rw [hf]; exact hasFlag_setFlag_other _ _ _ (by decide))
          (primValid_withStructureOf _ _ hw)
      · show hasFlag t'.m_flags kPrimHasRotatePivotTranslate = true
        rw [hf]; exact hasFlag_setFlag_self _ _ (by decide))
    (by
      intro t t' hG hi
      have hw := withStructureOf_insertOp _ _ _ _ _ _ _ _ hi
      have hf := insertOp_fail_flags _ _ _ _ _ _ _ hi
      refine ⟨trivial, ?_, ?_, ?_, insertOp_fail_again _ _ _ _ _ _ _ hi⟩
      · exact pushToPrimAvailable_congr _ _ (by rw [hf]) (primValid_withStructureOf _ _ hw)
      · show hasFlag t'.m_flags _ = hasFlag t.m_flags _
        rw [hf]
      · show (!hasFlag t'.m_flags _ && _) = (!hasFlag t.m_flags _ && _)
        rw [hf])
    (by
      intro t hG
      obtain ⟨g4, g5⟩ := hG
      rcases pushRotatePivotTranslateToPrim_cases H t with e | ⟨st1, e⟩ | ⟨_, e⟩
      · rw [e]; exact ⟨⟨g4, g5⟩, rfl, rfl, rfl⟩
      · rw [e]; exact ⟨⟨g4, g5⟩, rfl, rfl, rfl⟩
      · rw [e, writeback_stage H t]
        exact ⟨⟨g4, g5⟩, rfl, rfl, rfl⟩)
    (fun t hG _ _ => pushRotatePivotTranslateToPrim_idem H t hG.1 hG.2)
    _ (fun t => rfl)
    s ⟨hwf, hown⟩ st s3 h
  refine ⟨st', ?_⟩
  rw [hstep s3]
  exact hfix

theorem rotateOpType_three_axis (o : RotationOrder) :
    rotateOpType o ≠ .TypeRotateX ∧ rotateOpType o ≠ .TypeRotateY ∧
      rotateOpType o ≠ .TypeRotateZ := by
  cases o <;> exact ⟨by decide, by decide, by decide⟩

theorem rotateTo_fixpoint_failed (H : Host) (s : TransformationMatrix) (e : MEulerRotation)
    (space : MSpace)
    (hwf : ∀ op, s.findOp .transform = some op → op.isInverseOp = false)
    (hown : ∀ op, s.findOp .rotate = some op → op.isInverseOp = false)
    (hax : ∀ op, s.findOp .rotate = some op →
      (op.opType ≠ .TypeRotateX ∧ op.opType ≠ .TypeRotateY ∧ op.opType ≠ .TypeRotateZ) ∨
        s.getTimeCode = .Default)
    (st : MStatus) (s3 : TransformationMatrix)
    (h : s.rotateTo H .kFailure e space = some (st, s3)) :
    ∃ st', s3.rotateTo H .kFailure e space = some (st', s3) := by
  by_cases hl : s.rotateLocked = true
  · simp only [rotateTo, hl, if_true, baseRotateTo, MStatus.toBool, Option.some.injEq,
      Prod.mk.injEq, Bool.false_eq_true, if_false] at h
    rw [← h.2]
    exact ⟨.kFailure, by
      simp only [rotateTo, hl, if_true, baseRotateTo, MStatus.toBool, Bool.false_eq_true,
        if_false]⟩
  · have hl' : s.rotateLocked = false := by simpa using hl
    have hstep : ∀ t : TransformationMatrix, t.rotateLocked = false →
        t.rotateTo H .kFailure e space =
          (fun t : TransformationMatrix =>
            if t.pushToPrimAvailable = true then
              match (if t.primHasRotation = true then some (MStatus.kSuccess, t)
                else if (!t.pushPrimToMatrix && decide (e ≠ ⟨0, 0, 0, .kXYZ⟩)) = true
                  then t.insertRotateOp else some (MStatus.kSuccess, t)) with
              | none => none
              | some (.kFailure, s2) => some (MStatus.kFailure, s2)
              | some (.kSuccess, s2) =>
                if (s2.m_enableUsdWriteback && !e.isEquivalent s2.m_rotationFromUsd) = true
                  then some (MStatus.kFailure, s2.pushRotateToPrim H)
                  else some (MStatus.kFailure, s2)
            else some (MStatus.kFailure, t)) t := by
      intro t ht
      simp only [rotateTo, baseRotateTo, MStatus.toBool, Bool.false_eq_true, if_false]
      rw [if_neg (by rw [ht]; simp)]
      refine if_congr Iff.rfl (status_match_congr _ _ _ ?_) rfl
      intro s2
      by_cases h1 : s2.m_enableUsdWriteback = true
      · simp only [h1, if_true, Bool.true_and]
      · simp only [h1, if_false, Bool.false_eq_true, Bool.false_and]
    rw [hstep s hl'] at h
    obtain ⟨⟨st', hfix⟩, hP⟩ := setter_tail_fixpoint
      (fun t => t.rotateLocked = false)
      (fun t => t.rotateLocked = false ∧
        (∀ op, t.findOp .transform = some op → op.isInverseOp = false) ∧
        (∀ op, t.findOp .rotate = some op → op.isInverseOp = false) ∧
        (∀ op, t.findOp .rotate = some op →
          (op.opType ≠ .TypeRotateX ∧ op.opType ≠ .TypeRotateY ∧
            op.opType ≠ .TypeRotateZ) ∨ t.getTimeCode = .Default))
      (fun t => t.pushToPrimAvailable) (fun t => t.primHasRotation)
      (fun t => !t.pushPrimToMatrix && decide (e ≠ ⟨0, 0, 0, .kXYZ⟩))
      (fun t => t.insertRotateOp)
      (fun t => t.m_enableUsdWriteback && !e.isEquivalent t.m_rotationFromUsd)
      (pushRotateToPrim H) .kFailure
      (fun t hG => hG.1)
      (by
        intro t t' hG hi
        have hw := withStructureOf_insertOp _ _ _ _ _ _ _ _ hi
        obtain ⟨hf, hfind⟩ := insertOp_success_frame _ _ _ _ _ _ _ hi
        refine ⟨⟨?_, ?_, ?_, ?_⟩, ?_, ?_⟩
        · rw [hw]; exact hG.1
        · intro op hop
          rw [hfind .transform (by decide)] at hop
          exact hG.2.1 op hop
        · exact insertOp_found_primary _ _ _ _ _ _ _ hi hG.2.2.1
        · intro op hop
          rcases insertOp_single_found _ _ _ _ _ _ _ (by decide) hi op hop with e1 | e1
          · left; rw [e1]; exact rotateOpType_three_axis _
          · rcases hG.2.2.2 op e1 with h1 | h1
            · exact Or.inl h1
            · right
              rw [← h1]
              exact getTimeCode_congr _ _
                (by rw [hf]; exact hasFlag_setFlag_other _ _ _ (by decide))
                (by rw [hw]; rfl)
        · exact pushToPrimAvailable_congr _ _
            (by rw [hf]; exact hasFlag_setFlag_other _ _ _ (by decide))
            (primValid_withStructureOf _ _ hw)
        · show hasFlag t'.m_flags kPrimHasRotation = true
          rw [hf]; exact hasFlag_setFlag_self _ _ (by decide))
      (by
        intro t t' hG hi
        have hw := withStructureOf_insertOp _ _ _ _ _ _ _ _ hi
        have hf := insertOp_fail_flags _ _ _ _ _ _ _ hi
        have hagain := insertOp_fail_again _ _ _ _ _ _ _ hi
        have hrv : t'.rotationValue = t.rotationValue := by rw [hw]; rfl
        refine ⟨?_, ?_, ?_, ?_, ?_⟩
        · rw [hw]; exact hG.1
        · exact pushToPrimAvailable_congr _ _ (by rw [hf]) (primValid_withStructureOf _ _ hw)
        · show hasFlag t'.m_flags _ = hasFlag t.m_flags _
          rw [hf]
        · show (!hasFlag t'.m_flags _ && _) = (!hasFlag t.m_flags _ && _)
          rw [hf]
        · show t'.insertOp (rotateOpType t'.rotationValue.order) _ _ _ _ = _
          rw [hrv]; exact hagain)
      (by
        intro t hG
        obtain ⟨g1, g4, g5, g6⟩ := hG
        rcases pushRotateToPrim_cases H t with e1 | ⟨st1, e1⟩ | ⟨_, e1⟩
        · rw [e1]; exact ⟨⟨g1, g4, g5, g6⟩, rfl, rfl, rfl⟩
        · rw [e1]; exact ⟨⟨g1, g4, g5, g6⟩, rfl, rfl, rfl⟩
        · rw [e1, writeback_stage H t]
          exact ⟨⟨g1, g4, g5, g6⟩, rfl, rfl, rfl⟩)
      (fun t hG _ _ => pushRotateToPrim_idem H t hG.2.1 hG.2.2.1 hG.2.2.2)
      _ (fun t => rfl)
      s ⟨hl', hwf, hown, hax⟩ st s3 h
    refine ⟨st', ?_⟩
    rw [hstep s3 hP]
    exact hfix

theorem rotateToQuaternion_fixpoint_failed (H : Host) (s : TransformationMatrix)
    (q : MQuaternion) (space : MSpace)
    (hwf : ∀ op, s.findOp .transform = some op → op.isInverseOp = false)
    (st : MStatus) (s3 : TransformationMatrix)
    (h : s.rotateToQuaternion H .kFailure q space = some (st, s3)) :
    ∃ st', s3.rotateToQuaternion H .kFailure q space = some (st', s3) := by
  by_cases hl : s.rotateLocked = true
  · simp only [rotateToQuaternion, hl, if_true, baseRotateTo, MStatus.toBool,
      Option.some.injEq, Prod.mk.injEq, Bool.false_eq_true, if_false] at h
    rw [← h.2]
    exact ⟨.kFailure, by
      simp only [rotateToQuaternion, hl, if_true, baseRotateTo, MStatus.toBool,
        Bool.false_eq_true, if_false]⟩
  · have hl' : s.rotateLocked = false := by simpa using hl
    have hstep : ∀ t : TransformationMatrix, t.rotateLocked = false →
        t.rotateToQuaternion H .kFailure q space =
          (fun t : TransformationMatrix =>
            if t.pushToPrimAvailable = true then
              match (if t.primHasRotation = true then some (MStatus.kSuccess, t)
                else if (!t.pushPrimToMatrix && decide (q ≠ MQuaternion.identity)) = true
                  then t.insertRotateOp else some (MStatus.kSuccess, t)) with
              | none => none
              | some (.kFailure, s2) => some (MStatus.kFailure, s2)
              | some (.kSuccess, s2) =>
                if (s2.m_enableUsdWriteback &&
                    !s2.rotationValue.isEquivalent s2.m_rotationFromUsd) = true
                  then some (MStatus.kFailure, s2.pushRotateToPrim H)
                  else some (MStatus.kFailure, s2)
            else some (MStatus.kFailure, t)) t := by
      intro t ht
      simp only [rotateToQuaternion, baseRotateTo, MStatus.toBool, Bool.false_eq_true,
        if_false]
      rw [if_neg (by rw [ht]; simp)]
      refine if_congr Iff.rfl (status_match_congr _ _ _ ?_) rfl
      intro s2
      by_cases h1 : s2.m_enableUsdWriteback = true
      · simp only [h1, if_true, Bool.true_and]
      · simp only [h1, if_false, Bool.false_eq_true, Bool.false_and]
    rw [hstep s hl'] at h
    obtain ⟨⟨st', hfix⟩, hP⟩ := setter_tail_fixpoint
      (fun t => t.rotateLocked = false)
      (fun t => t.rotateLocked = false ∧
        (∀ op, t.findOp .transform = some op → op.isInverseOp = false))
      (fun t => t.pushToPrimAvailable) (fun t => t.primHasRotation)
      (fun t => !t.pushPrimToMatrix && decide (q ≠ MQuaternion.identity))
      (fun t => t.insertRotateOp)
      (fun t => t.m_enableUsdWriteback && !t.rotationValue.isEquivalent t.m_rotationFromUsd)
      (pushRotateToPrim H) .kFailure
      (fun t hG => hG.1)
      (by
        intro t t' hG hi
        have hw := withStructureOf_insertOp _ _ _ _ _ _ _ _ hi
        obtain ⟨hf, hfind⟩ := insertOp_success_frame _ _ _ _ _ _ _ hi
        refine ⟨⟨?_, ?_⟩, ?_, ?_⟩
        · rw [hw]; exact hG.1
        · intro op hop
          rw [hfind .transform (by decide)] at hop
          exact hG.2 op hop
        · exact pushToPrimAvailable_congr _ _
            (by rw [hf]; exact hasFlag_setFlag_other _ _ _ (by decide))
            (primValid_withStructureOf _ _ hw)
        · show hasFlag t'.m_flags kPrimHasRotation = true
          rw [hf]; exact hasFlag_setFlag_self _ _ (by decide))
      (by
        intro t t' hG hi
        have hw := withStructureOf_insertOp _ _ _ _ _ _ _ _ hi
        have hf := insertOp_fail_flags _ _ _ _ _ _ _ hi
        have hagain := insertOp_fail_again _ _ _ _ _ _ _ hi
        have hrv : t'.rotationValue = t.rotationValue := by rw [hw]; rfl
        refine ⟨?_, ?_, ?_, ?_, ?_⟩
        · rw [hw]; exact hG.1
        · exact pushToPrimAvailable_congr _ _ (by rw [hf]) (primValid_withStructureOf _ _ hw)
        · show hasFlag t'.m_flags _ = hasFlag t.m_flags _
          rw [hf]
        · show (!hasFlag t'.m_flags _ && _) = (!hasFlag t.m_flags _ && _)
          rw [hf]
        · show t'.insertOp (rotateOpType t'.rotationValue.order) _ _ _ _ = _
          rw [hrv]; exact hagain)
      (by
        intro t hG
        obtain ⟨g1, g4⟩ := hG
        rcases pushRotateToPrim_cases H t with e1 | ⟨st1, e1⟩ | ⟨_, e1⟩
        · rw [e1]; exact ⟨⟨g1, g4⟩, rfl, rfl, rfl⟩
        · rw [e1]; exact ⟨⟨g1, g4⟩, rfl, rfl, rfl⟩
        · rw [e1, writeback_stage H t]
          exact ⟨⟨g1, g4⟩, rfl, rfl, rfl⟩)
      (by
        intro t hG hc hc2
        obtain ⟨g1, g4⟩ := hG
        rcases pushRotateToPrim_cases H t with e1 | ⟨st1, e1⟩ | ⟨hnone, e1⟩
        · rw [e1, e1]
        · rw [e1] at hc2
          simp only [MEulerRotation.isEquivalent_self, Bool.not_true, Bool.and_false,
            Bool.false_eq_true] at hc2
        · rw [e1]
          have hnone' : findOp (if t.m_enableUsdWriteback = true then t.pushTransformToPrim H
              else t) .rotate = none := by
            rw [writeback_stage H t]; exact hnone
          simp only [pushRotateToPrim, hnone']
          exact writeback_idem H t g4)
      _ (fun t => rfl)
      s ⟨hl', hwf⟩ st s3 h
    refine ⟨st', ?_⟩
    rw [hstep s3 hP]
    exact hfix

theorem setRotateOrientation_failed_aux (H : Host) (s : TransformationMatrix) (ins : Bool)
    (hT : ∀ op, s.findOp .transform = some op → op.isInverseOp = false)
    (hA : ∀ op, s.findOp .rotateAxis = some op → op.isInverseOp = false)
    (st : MStatus) (s3 : TransformationMatrix)
    (h : (fun t : TransformationMatrix =>
        if t.pushToPrimAvailable = true then
          match (if t.primHasRotateAxes = true then some (MStatus.kSuccess, t)
            else if (!t.pushPrimToMatrix && ins) = true
              then t.insertRotateAxesOp else some (MStatus.kSuccess, t)) with
          | none => none
          | some (.kFailure, s2) => some (MStatus.kFailure, s2)
          | some (.kSuccess, s2) =>
            if s2.m_enableUsdWriteback = true
              then some (MStatus.kFailure, s2.pushRotateAxisToPrim H)
              else some (MStatus.kFailure, s2)
        else some (MStatus.kFailure, t)) s = some (st, s3)) :
    ∃ st', (fun t : TransformationMatrix =>
        if t.pushToPrimAvailable = true then
          match (if t.primHasRotateAxes = true then some (MStatus.kSuccess, t)
            else if (!t.pushPrimToMatrix && ins) = true
              then t.insertRotateAxesOp else some (MStatus.kSuccess, t)) with
          | none => none
          | some (.kFailure, s2) => some (MStatus.kFailure, s2)
          | some (.kSuccess, s2) =>
            if s2.m_enableUsdWriteback = true
              then some (MStatus.kFailure, s2.pushRotateAxisToPrim H)
              else some (MStatus.kFailure, s2)
        else some (MStatus.kFailure, t)) s3 = some (st', s3) :=
  (setter_tail_fixpoint
    (fun _ => True)
    (fun t => (∀ op, t.findOp .transform = some op → op.isInverseOp = false) ∧
      (∀ op, t.findOp .rotateAxis = some op → op.isInverseOp = false))
    (fun t => t.pushToPrimAvailable) (fun t => t.primHasRotateAxes)
    (fun t => !t.pushPrimToMatrix && ins)
    (fun t => t.insertRotateAxesOp)
    (fun t => t.m_enableUsdWriteback)
    (pushRotateAxisToPrim H) .kFailure
    (fun _ _ => trivial)
    (by
      intro t t' hG hi
      have hw := withStructureOf_insertOp _ _ _ _ _ _ _ _ hi
      obtain ⟨hf, hfind⟩ := insertOp_success_frame _ _ _ _ _ _ _ hi
      refine ⟨⟨?_, ?_⟩, ?_, ?_⟩
      · intro op hop
        rw [hfind .transform (by decide)] at hop
        exact hG.1 op hop
      · exact insertOp_found_primary _ _ _ _ _ _ _ hi hG.2
      · exact pushToPrimAvailable_congr _ _
          (by rw [hf]; exact hasFlag_setFlag_other _ _ _ (by decide))
          (primValid_withStructureOf _ _ hw)
      · show hasFlag t'.m_flags kPrimHasRotateAxes = true
        rw [hf]; exact hasFlag_setFlag_self _ _ (by decide))
    (by
      intro t t' hG hi
      have hw := withStructureOf_insertOp _ _ _ _ _ _ _ _ hi
      have hf := insertOp_fail_flags _ _ _ _ _ _ _ hi
      refine ⟨trivial, ?_, ?_, ?_, insertOp_fail_again _ _ _ _ _ _ _ hi⟩
      · exact pushToPrimAvailable_congr _ _ (by rw [hf]) (primValid_withStructureOf _ _ hw)
      · show hasFlag t'.m_flags _ = hasFlag t.m_flags _
        rw [hf]
      · show (!hasFlag t'.m_flags _ && _) = (!hasFlag t.m_flags _ && _)
        rw [hf])
    (by
      intro t hG
      rw [pushRotateAxisToPrim_stage H t]
      exact ⟨hG, rfl, rfl, rfl⟩)
    (by
      intro t hG _ _
      exact pushRotateAxisToPrim_idem H t hG.1 hG.2)
    _ (fun t => rfl)
    s ⟨hT, hA⟩ st s3 h).1

theorem setRotateOrientation_fixpoint_failed (H : Host) (s : TransformationMatrix)
    (q : MQuaternion) (space : MSpace) (balance : Bool)
    (hT : ∀ op, s.findOp .transform = some op → op.isInverseOp = false)
    (hA : ∀ op, s.findOp .rotateAxis = some op → op.isInverseOp = false)
    (st : MStatus) (s3 : TransformationMatrix)
    (h : s.setRotateOrientation H .kFailure q space balance = some (st, s3)) :
    ∃ st', s3.setRotateOrientation H .kFailure q space balance = some (st', s3) := by
  have hstep : ∀ t : TransformationMatrix,
      t.setRotateOrientation H .kFailure q space balance =
        (fun t : TransformationMatrix =>
          if t.pushToPrimAvailable = true then
            match (if t.primHasRotateAxes = true then some (MStatus.kSuccess, t)
              else if (!t.pushPrimToMatrix && decide (q ≠ MQuaternion.identity)) = true
                then t.insertRotateAxesOp else some (MStatus.kSuccess, t)) with
            | none => none
            | some (.kFailure, s2) => some (MStatus.kFailure, s2)
            | some (.kSuccess, s2) =>
              if s2.m_enableUsdWriteback = true
                then some (MStatus.kFailure, s2.pushRotateAxisToPrim H)
                else some (MStatus.kFailure, s2)
          else some (MStatus.kFailure, t)) t := by
    intro t
    simp only [setRotateOrientation, baseSetRotateOrientation, MStatus.toBool,
      Bool.false_eq_true, if_false]
  rw [hstep s] at h
  obtain ⟨st', hfix⟩ := setRotateOrientation_failed_aux H s _ hT hA st s3 h
  exact ⟨st', by rw [hstep s3]; exact hfix⟩

theorem setRotateOrientationEuler_fixpoint_failed (H : Host) (s : TransformationMatrix)
    (e : MEulerRotation) (space : MSpace) (balance : Bool)
    (hT : ∀ op, s.findOp .transform = some op → op.isInverseOp = false)
    (hA : ∀ op, s.findOp .rotateAxis = some op → op.isInverseOp = false)
    (st : MStatus) (s3 : TransformationMatrix)
    (h : s.setRotateOrientationEuler H .kFailure e space balance = some (st, s3)) :
    ∃ st', s3.setRotateOrientationEuler H .kFailure e space balance = some (st', s3) := by
  have hstep : ∀ t : TransformationMatrix,
      t.setRotateOrientationEuler H .kFailure e space balance =
        (fun t : TransformationMatrix =>
          if t.pushToPrimAvailable = true then
            match (if t.primHasRotateAxes = true then some (MStatus.kSuccess, t)
              else if (!t.pushPrimToMatrix && decide (e ≠ ⟨0, 0, 0, .kXYZ⟩)) = true
                then t.insertRotateAxesOp else some (MStatus.kSuccess, t)) with
            | none => none
            | some (.kFailure, s2) => some (MStatus.kFailure, s2)
            | some (.kSuccess, s2) =>
              if s2.m_enableUsdWriteback = true
                then some (MStatus.kFailure, s2.pushRotateAxisToPrim H)
                else some (MStatus.kFailure, s2)
          else some (MStatus.kFailure, t)) t := by
    intro t
    simp only [setRotateOrientationEuler, baseSetRotateOrientation, MStatus.toBool,
      Bool.false_eq_true, if_false]
  rw [hstep s] at h
  obtain ⟨st', hfix⟩ := setRotateOrientation_failed_aux H s _ hT hA st s3 h
  exact ⟨st', by rw [hstep s3]; exact hfix⟩

/-- A scale-pivot push that changes nothing changes nothing either in a state that keeps the
channel. -/
theorem pushScalePivotToPrim_kept (H : Host) (t t' : TransformationMatrix)
    (hk : ChannelKept .scalePivot t t') (htc : t'.getTimeCode = t.getTimeCode)
    (hr : SweepReady t) (hsome : (t.findOp .scalePivot).isSome = true)
    (hfix : t.pushScalePivotToPrim H = t) : t'.pushScalePivotToPrim H = t' := by
  obtain ⟨hd, _, hf, _, _⟩ := id hk
  obtain ⟨hv, hu⟩ := (channelData_vector .scalePivot t t' hd).2.2.2.1 rfl
  have ht : t'.m_scalePivotTweak = t.m_scalePivotTweak := by
    simp only [channelData, Prod.mk.injEq, List.cons.injEq, and_true] at hd
    exact hd.2.2
  cases hop : t.findOp .scalePivot with
  | none => rw [hop] at hsome; exact absurd hsome (by simp)
  | some op =>
    have hname := findOp_name t hr _ op hop
    have hattr := channelKept_attr hk op hname
    have hread := readPoint_attr_congr t.stage t'.stage op hattr MVector.zero t.getTimeCode
    simp only [pushScalePivotToPrim, hop, internal_readPoint, internal_pushPoint] at hfix
    simp only [pushScalePivotToPrim, hf, hop, internal_readPoint, internal_pushPoint, htc,
      hread, hv]
    by_cases hc : (!(readPoint t.stage MVector.zero op t.getTimeCode).2.isEquivalent
        t.scalePivotValue) = true
    · rw [if_pos hc] at hfix ⊢
      have e1 := congrArg (fun u : TransformationMatrix => u.stage) hfix
      have e2 := congrArg (fun u : TransformationMatrix => u.m_scalePivotFromUsd) hfix
      have e3 := congrArg (fun u : TransformationMatrix => u.m_scalePivotTweak) hfix
      simp only at e1 e2 e3
      rw [pushPoint_fixed_congr H t.stage t'.stage _ op _ hattr e1, e2, e3, ← hu, ← ht]
    · rw [if_neg hc]

/-- The two insertion blocks of the pivot split, seen from `setScalePivot` on a failing base
class: however the insertions end, a second `setScalePivot` has nothing left to do. -/
theorem insertPivotOps_scale_settles_failed (H : Host) (r : TransformationMatrix)
    (st : MStatus) (s3 : TransformationMatrix) (hr : SweepReady r)
    (hns : r.primHasScalePivot = false)
    (hT : ∀ op, r.findOp .transform = some op → op.isInverseOp = false)
    (hown : ∀ op, r.findOp .scalePivot = some op → op.isInverseOp = false)
    (h : r.insertPivotOps H true true = some (st, s3)) :
    SweepReady s3 ∧ s3.pushToPrimAvailable = r.pushToPrimAvailable ∧
    ((st = .kFailure ∧ s3.primHasScalePivot = false ∧
        s3.insertScalePivotOp = some (.kFailure, s3)) ∨
      (s3.primHasScalePivot = true ∧ s3.pushScalePivotToPrim H = s3)) := by
  simp only [insertPivotOps, insertScalePivotOp, insertRotatePivotOp, if_true] at h
  cases hi : r.insertOp .TypeTranslate .PrecisionFloat .scalePivot kPrimHasScalePivot false with
  | none => rw [hi] at h; exact absurd h (by simp)
  | some q =>
    obtain ⟨sti, si⟩ := q
    rw [hi] at h
    obtain ⟨hr1, hv1, ht1, hp1, hra1, _, _⟩ :=
      channelStep_insertOp r _ _ .scalePivot false sti si (by decide) hi hr
    cases sti with
    | kFailure =>
      simp only [Option.some.injEq, Prod.mk.injEq] at h
      obtain ⟨h1, h2⟩ := h
      subst h1 h2
      refine ⟨hr1, pushToPrimAvailable_congr _ _ hp1 hv1, Or.inl ⟨rfl, ?_, ?_⟩⟩
      · show hasFlag si.m_flags kPrimHasScalePivot = false
        rw [insertOp_fail_flags _ _ _ _ _ _ _ hi]; exact hns
      · exact insertOp_fail_again _ _ _ _ _ _ _ hi
    | kSuccess =>
      simp only at h
      obtain ⟨hfl, hfind⟩ := insertOp_success_frame _ _ _ _ _ _ _ hi
      have hsome : (si.findOp .scalePivot).isSome = true :=
        findOp_isSome_of_mem si hr1 .scalePivot (insertOp_success_spec _ _ _ _ _ _ _ hi).2.1
      have hTi : ∀ op, si.findOp .transform = some op → op.isInverseOp = false := by
        intro op hop
        rw [hfind .transform (by decide)] at hop
        exact hT op hop
      have hidem := pushScalePivotToPrim_idem H si hTi
        (insertOp_found_primary _ _ _ _ _ _ _ hi hown)
      obtain ⟨hr2, hv2, ht2, hp2, hra2, _, _⟩ := channelStep_pushScalePivotToPrim H si hr1
      have hflags : (si.pushScalePivotToPrim H).m_flags = si.m_flags := by
        rcases pushScalePivotToPrim_cases H si with e | ⟨st1, e⟩ | ⟨hnone, _⟩
        · rw [e]
        · rw [e]
        · rw [hnone] at hsome; exact absurd hsome (by simp)
      have hsome2 : ((si.pushScalePivotToPrim H).findOp .scalePivot).isSome = true := by
        rcases pushScalePivotToPrim_cases H si with e | ⟨st1, e⟩ | ⟨hnone, _⟩
        · rw [e]; exact hsome
        · rw [e]; exact hsome
        · rw [hnone] at hsome; exact absurd hsome (by simp)
      have hstep3 : ChannelStep .rotatePivot (si.pushScalePivotToPrim H) s3 :=
        pivotBlock_step .rotatePivot (by decide) (si.pushScalePivotToPrim H)
          (fun u => u.pushRotatePivotToPrim H) (st, s3) (channelStep_pushRotatePivotToPrim H) h
      obtain ⟨hr3, hv3, ht3, hp3, hra3, _, hk3⟩ := hstep3 hr2
      have hk := hk3 .scalePivot (by decide)
      refine ⟨hr3, ?_, Or.inr ⟨?_, ?_⟩⟩
      · exact (pushToPrimAvailable_congr _ _ hp3 hv3).trans
          ((pushToPrimAvailable_congr _ _ hp2 hv2).trans
            (pushToPrimAvailable_congr _ _ hp1 hv1))
      · show hasFlag s3.m_flags kPrimHasScalePivot = true
        have : hasFlag s3.m_flags kPrimHasScalePivot
            = hasFlag (si.pushScalePivotToPrim H).m_flags kPrimHasScalePivot := hk.2.1
        rw [this, hflags, hfl]
        exact hasFlag_setFlag_self _ _ (by decide)
      · exact pushScalePivotToPrim_kept H _ s3 hk (getTimeCode_congr _ _ hra3 ht3) hr2 hsome2
          hidem

/-- The two insertion blocks of the pivot split, seen from `setRotatePivot` on a failing base
class and a prim that has no scale-pivot operator yet. -/
theorem insertPivotOps_rotate_settles_failed (H : Host) (r : TransformationMatrix)
    (st : MStatus) (s3 : TransformationMatrix) (hr : SweepReady r) (hv : r.primValid = true)
    (hfresh : ∀ op ∈ r.stage.xformOpOrder, op.name ≠ .scalePivot)
    (hnr : r.primHasRotatePivot = false)
    (hT : ∀ op, r.findOp .transform = some op → op.isInverseOp = false)
    (hown : ∀ op, r.findOp .rotatePivot = some op → op.isInverseOp = false)
    (h : r.insertPivotOps H true true = some (st, s3)) :
    SweepReady s3 ∧ s3.pushToPrimAvailable = r.pushToPrimAvailable ∧
    ((st = .kFailure ∧ s3.primHasRotatePivot = false ∧
        s3.insertRotatePivotOp = some (.kFailure, s3)) ∨
      (s3.primHasRotatePivot = true ∧ s3.pushRotatePivotToPrim H = s3)) := by
  simp only [insertPivotOps, insertScalePivotOp, insertRotatePivotOp, if_true] at h
  obtain ⟨si, hi⟩ := insertOp_accepted r .TypeTranslate .PrecisionFloat .scalePivot
    kPrimHasScalePivot false ⟨.scalePivot, .TypeTranslate, false⟩ (by decide) rfl
    (fun _ => ⟨⟨.scalePivot, .TypeTranslate, true⟩, by decide, rfl⟩) hr.1 hr.2.1 hv
    (by decide) hfresh
  rw [hi] at h
  simp only at h
  have hstep1 : ChannelStep .scalePivot r (si.pushScalePivotToPrim H) :=
    channelStep_trans (channelStep_insertOp r _ _ .scalePivot false _ si (by decide) hi)
      (channelStep_pushScalePivotToPrim H si)
  obtain ⟨hr2, hv2, ht2, hp2, hra2, _, hk2⟩ := hstep1 hr
  obtain ⟨_, hfl, hfo, _, _⟩ := hk2 .rotatePivot (by decide)
  obtain ⟨_, _, hfoT, _, _⟩ := hk2 .transform (by decide)
  have hav2 : (si.pushScalePivotToPrim H).pushToPrimAvailable = r.pushToPrimAvailable :=
    pushToPrimAvailable_congr _ _ hp2 hv2
  cases hj : (si.pushScalePivotToPrim H).insertOp .TypeTranslate .PrecisionFloat .rotatePivot
      kPrimHasRotatePivot false with
  | none => rw [hj] at h; exact absurd h (by simp)
  | some q =>
    obtain ⟨stj, sr⟩ := q
    rw [hj] at h
    obtain ⟨hr3, hv3, ht3, hp3, hra3, _, _⟩ :=
      channelStep_insertOp _ _ _ .rotatePivot false stj sr (by decide) hj hr2
    have hav3 : sr.pushToPrimAvailable = r.pushToPrimAvailable :=
      (pushToPrimAvailable_congr _ _ hp3 hv3).trans hav2
    cases stj with
    | kFailure =>
      simp only [Option.some.injEq, Prod.mk.injEq] at h
      obtain ⟨h1, h2⟩ := h
      subst h1 h2
      refine ⟨hr3, hav3, Or.inl ⟨rfl, ?_, insertOp_fail_again _ _ _ _ _ _ _ hj⟩⟩
      show hasFlag sr.m_flags kPrimHasRotatePivot = false
      rw [insertOp_fail_flags _ _ _ _ _ _ _ hj]
      exact hfl.trans hnr
    | kSuccess =>
      simp only [Option.some.injEq, Prod.mk.injEq] at h
      obtain ⟨h1, h2⟩ := h
      subst h1 h2
      obtain ⟨hflj, hfindj⟩ := insertOp_success_frame _ _ _ _ _ _ _ hj
      have hsome : (sr.findOp .rotatePivot).isSome = true :=
        findOp_isSome_of_mem sr hr3 .rotatePivot (insertOp_success_spec _ _ _ _ _ _ _ hj).2.1
      have hTr : ∀ op, sr.findOp .transform = some op → op.isInverseOp = false := by
        intro op hop
        rw [hfindj .transform (by decide), hfoT] at hop
        exact hT op hop
      have hownr : ∀ op, sr.findOp .rotatePivot = some op → op.isInverseOp = false :=
        insertOp_found_primary _ _ _ _ _ _ _ hj (by rw [hfo]; exact hown)
      obtain ⟨hr4, hv4, _, hp4, _, _, _⟩ := channelStep_pushRotatePivotToPrim H sr hr3
      refine ⟨hr4, (pushToPrimAvailable_congr _ _ hp4 hv4).trans hav3, Or.inr ⟨?_, ?_⟩⟩
      · show hasFlag (sr.pushRotatePivotToPrim H).m_flags kPrimHasRotatePivot = true
        have hflags : (sr.pushRotatePivotToPrim H).m_flags = sr.m_flags := by
          rcases pushRotatePivotToPrim_cases H sr with e | ⟨st1, e⟩ | ⟨hnone, _⟩
          · rw [e]
          · rw [e]
          · rw [hnone] at hsome; exact absurd hsome (by simp)
        rw [hflags, hflj]
        exact hasFlag_setFlag_self _ _ (by decide)
      · exact pushRotatePivotToPrim_idem H sr hTr hownr

theorem pushScalePivotToPrim_flags (H : Host) (t : TransformationMatrix) :
    (t.pushScalePivotToPrim H).m_flags = t.m_flags ∧
    (t.pushScalePivotToPrim H).primValid = t.primValid := by
  rcases pushScalePivotToPrim_cases H t with e | ⟨st1, e⟩ | ⟨_, e⟩
  · rw [e]; exact ⟨rfl, rfl⟩
  · rw [e]; exact ⟨rfl, rfl⟩
  · rw [e, writeback_stage H t]; exact ⟨rfl, rfl⟩

theorem setScalePivot_fixpoint_failed (H : Host) (s : TransformationMatrix) (sp : MPoint)
    (space : MSpace) (balance : Bool)
    (hT : ∀ op, s.findOp .transform = some op → op.isInverseOp = false)
    (hPv : ∀ op, s.findOp .pivot = some op → op.isInverseOp = false)
    (hsplit : s.primHasPivot = true → SplitReady s)
    (hown : ∀ op, s.findOp .scalePivot = some op → op.isInverseOp = false)
    (st : MStatus) (s3 : TransformationMatrix)
    (h : s.setScalePivot H .kFailure sp space balance = some (st, s3)) :
    ∃ st', s3.setScalePivot H .kFailure sp space balance = some (st', s3) := by
  obtain ⟨tail, htail⟩ : ∃ f : TransformationMatrix → Option (MStatus × TransformationMatrix),
      ∀ t, f t = (if t.pushToPrimAvailable = true then
        (if (!t.primHasScalePivot && (!t.pushPrimToMatrix && decide (sp ≠ MVector.zero))) = true
          then t.insertAndPushPivotOp H .scalePivot
        else if (!sp.isEquivalent t.m_scalePivotFromUsd) = true
          then some (MStatus.kFailure, t.pushScalePivotToPrim H)
        else some (MStatus.kFailure, t))
      else some (MStatus.kFailure, t)) := ⟨_, fun _ => rfl⟩
  have hstep : ∀ t : TransformationMatrix,
      t.setScalePivot H .kFailure sp space balance = tail t := by
    intro t
    rw [htail]
    simp only [setScalePivot, baseSetScalePivot, MStatus.toBool, Bool.false_eq_true, if_false]
  -- conditions that only look at the flags and the prim
  have hcond : ∀ t t' : TransformationMatrix, t'.m_flags = t.m_flags →
      t'.primValid = t.primValid →
      t'.pushToPrimAvailable = t.pushToPrimAvailable ∧
      t'.primHasScalePivot = t.primHasScalePivot ∧
      t'.pushPrimToMatrix = t.pushPrimToMatrix ∧
      t'.primHasPivot = t.primHasPivot := by
    intro t t' hf hv
    exact ⟨pushToPrimAvailable_congr _ _ (by rw [hf]) hv,
      by simp only [primHasScalePivot, hf], by simp only [pushPrimToMatrix, hf],
      by simp only [primHasPivot, hf]⟩
  -- a state in which nothing has to be inserted and a push changes nothing
  have settled : ∀ t : TransformationMatrix, t.pushToPrimAvailable = true →
      (!t.primHasScalePivot && (!t.pushPrimToMatrix && decide (sp ≠ MVector.zero))) = false →
      t.pushScalePivotToPrim H = t → tail t = some (.kFailure, t) := by
    intro t hav hno hpush
    rw [htail, if_pos hav, if_neg (by rw [hno]; simp)]
    by_cases hg : (!sp.isEquivalent t.m_scalePivotFromUsd) = true
    · rw [if_pos hg, hpush]
    · rw [if_neg hg]
  rw [hstep s, htail] at h
  refine Exists.imp (fun st' hfix => by rw [hstep s3]; exact hfix) ?_
  by_cases hav : s.pushToPrimAvailable = true
  · rw [if_pos hav] at h
    by_cases hx : (!s.primHasScalePivot && (!s.pushPrimToMatrix &&
        decide (sp ≠ MVector.zero))) = true
    · rw [if_pos hx] at h
      by_cases hp : s.primHasPivot = true
      · by_cases heq : s.scalePivotValue = s.rotatePivotValue
        · -- the combined operator is written
          simp only [insertAndPushPivotOp, ne_eq, not_true_eq_false, false_and, if_false, hp,
            if_true, heq, Option.some.injEq, Prod.mk.injEq] at h
          obtain ⟨f1, f2, f3, _, _⟩ := pushPivotToPrim_frame H s
          obtain ⟨k1, k2, k3, k4⟩ := hcond s _ f1 f2
          have hidem := pushPivotToPrim_idem H s hT hPv
          have hsv : (s.pushPivotToPrim H).scalePivotValue = s.scalePivotValue := by
            show (s.pushPivotToPrim H).toMPxTransformationMatrix.scalePivotValue = _
            rw [f3]
          have hrv : (s.pushPivotToPrim H).rotatePivotValue = s.rotatePivotValue := by
            show (s.pushPivotToPrim H).toMPxTransformationMatrix.rotatePivotValue = _
            rw [f3]
          rw [← h.2]
          refine ⟨.kSuccess, ?_⟩
          rw [htail, k1, if_pos hav, k2, k3, if_pos hx]
          simp only [insertAndPushPivotOp, ne_eq, not_true_eq_false, false_and, if_false, k4,
            hp, if_true, hsv, hrv, heq, hidem]
        · -- the combined operator is split
          have hx3 : s.primHasScalePivot = false ∧ s.pushPrimToMatrix = false ∧
              decide (sp ≠ MVector.zero) = true := by
            simpa [Bool.and_eq_true] using hx
          obtain ⟨hns, hm, hnz⟩ := hx3
          obtain ⟨y1, y2, y3, y4, y5⟩ := hsplit hp
          obtain ⟨r, hrem, _⟩ := removeOp_spec s .pivot kPrimHasPivot y2 y3 y1
          obtain ⟨q1, q2, q3, q4, q5, q6, q7⟩ :=
            removeOp_pivot_ready s r (hsplit hp) hm hrem
          have hfo := findOp_removeOp_other s r .pivot
          simp only [insertAndPushPivotOp, ne_eq, not_true_eq_false, false_and, and_false,
            if_false, hp, if_true, heq, hrem] at h
          obtain ⟨z1, z2, z5⟩ :=
            insertPivotOps_scale_settles_failed H r st s3 q1 (q4.trans hns)
              (by rw [hfo .transform kPrimHasPivot y2 y3 y1 hrem (by decide)]; exact hT)
              (by rw [hfo .scalePivot kPrimHasPivot y2 y3 y1 hrem (by decide)]; exact hown) h
          have hav3 : s3.pushToPrimAvailable = true := z2.trans (q3.trans hav)
          rcases z5 with ⟨_, hno, hfail⟩ | ⟨hhas, hpush⟩
          · refine ⟨.kFailure, ?_⟩
            have hc : (!s3.primHasScalePivot && (!s3.pushPrimToMatrix &&
                decide (sp ≠ MVector.zero))) = true := by
              rw [hno, z1.2.2.2.2, hnz]; rfl
            rw [htail, if_pos hav3, if_pos hc, insertAndPushPivotOp_scale H s3 z1.2.2.2.1]
            simp only [insertPivotOps, if_true, Bool.false_eq_true, if_false,
              insertScalePivotOp] at hfail ⊢
            rw [hfail]
          · exact ⟨.kFailure, settled s3 hav3 (by rw [hhas]; rfl) hpush⟩
      · -- only the scale-pivot pair is inserted
        have hp' : s.primHasPivot = false := by simpa using hp
        simp only [insertAndPushPivotOp, ne_eq, not_true_eq_false, false_and, if_false, hp',
          Bool.false_eq_true, decide_True, Bool.not_true, insertPivotOps, if_true,
          insertScalePivotOp] at h
        cases hi : s.insertOp .TypeTranslate .PrecisionFloat .scalePivot kPrimHasScalePivot
            false with
        | none => rw [hi] at h; exact absurd h (by simp)
        | some r =>
          obtain ⟨sti, si⟩ := r
          rw [hi] at h
          have hw := withStructureOf_insertOp _ _ _ _ _ _ _ _ hi
          have hv' : si.primValid = s.primValid := primValid_withStructureOf _ _ hw
          cases sti with
          | kFailure =>
            simp only [Option.some.injEq, Prod.mk.injEq] at h
            have hf := insertOp_fail_flags _ _ _ _ _ _ _ hi
            obtain ⟨k1, k2, k3, k4⟩ := hcond s si hf hv'
            have hagain := insertOp_fail_again _ _ _ _ _ _ _ hi
            rw [← h.2]
            refine ⟨.kFailure, ?_⟩
            rw [htail, k1, if_pos hav, k2, k3, if_pos hx]
            simp only [insertAndPushPivotOp, ne_eq, not_true_eq_false, false_and, if_false, k4,
              hp', Bool.false_eq_true, decide_True, Bool.not_true, insertPivotOps, if_true,
              insertScalePivotOp, hagain]
          | kSuccess =>
            simp only [Option.some.injEq, Prod.mk.injEq] at h
            obtain ⟨hf, hfind⟩ := insertOp_success_frame _ _ _ _ _ _ _ hi
            have hTi : ∀ op, si.findOp .transform = some op → op.isInverseOp = false := by
              intro op hop
              rw [hfind .transform (by decide)] at hop
              exact hT op hop
            obtain ⟨e1, e2⟩ := pushScalePivotToPrim_flags H si
            rw [← h.2]
            refine ⟨.kFailure, settled _ ?_ ?_ (pushScalePivotToPrim_idem H si hTi
              (insertOp_found_primary _ _ _ _ _ _ _ hi hown))⟩
            · exact (pushToPrimAvailable_congr _ _
                (by rw [e1, hf]; exact hasFlag_setFlag_other _ _ _ (by decide))
                (by rw [e2, hv'])).trans hav
            · have hh : (si.pushScalePivotToPrim H).primHasScalePivot = true := by
                simp only [primHasScalePivot, e1, hf]
                exact hasFlag_setFlag_self _ _ (by decide)
              rw [hh]; rfl
    · -- nothing to insert
      have hx' : (!s.primHasScalePivot && (!s.pushPrimToMatrix &&
          decide (sp ≠ MVector.zero))) = false := by simpa using hx
      rw [if_neg hx] at h
      by_cases hg : (!sp.isEquivalent s.m_scalePivotFromUsd) = true
      · rw [if_pos hg] at h
        simp only [Option.some.injEq, Prod.mk.injEq] at h
        obtain ⟨e1, e2⟩ := pushScalePivotToPrim_flags H s
        obtain ⟨k1, k2, k3, k4⟩ := hcond s _ e1 e2
        rw [← h.2]
        exact ⟨.kFailure, settled _ (by rw [k1]; exact hav) (by rw [k2, k3]; exact hx')
          (pushScalePivotToPrim_idem H s hT hown)⟩
      · rw [if_neg hg] at h
        simp only [Option.some.injEq, Prod.mk.injEq] at h
        rw [← h.2]
        refine ⟨.kFailure, ?_⟩
        rw [htail, if_pos hav, if_neg hx, if_neg hg]
  · rw [if_neg hav] at h
    simp only [Option.some.injEq, Prod.mk.injEq] at h
    rw [← h.2]
    refine ⟨.kFailure, ?_⟩
    rw [htail, if_neg hav]

theorem pushRotatePivotToPrim_flags (H : Host) (t : TransformationMatrix) :
    (t.pushRotatePivotToPrim H).m_flags = t.m_flags ∧
    (t.pushRotatePivotToPrim H).primValid = t.primValid := by
  rcases pushRotatePivotToPrim_cases H t with e | ⟨st1, e⟩ | ⟨_, e⟩
  · rw [e]; exact ⟨rfl, rfl⟩
  · rw [e]; exact ⟨rfl, rfl⟩
  · rw [e, writeback_stage H t]; exact ⟨rfl, rfl⟩

theorem setRotatePivot_fixpoint_failed (H : Host) (s : TransformationMatrix) (pivot : MPoint)
    (space : MSpace) (balance : Bool)
    (hT : ∀ op, s.findOp .transform = some op → op.isInverseOp = false)
    (hPv : ∀ op, s.findOp .pivot = some op → op.isInverseOp = false)
    (hsplit : s.primHasPivot = true → SplitReady s)
    (hown : ∀ op, s.findOp .rotatePivot = some op → op.isInverseOp = false)
    (st : MStatus) (s3 : TransformationMatrix)
    (h : s.setRotatePivot H .kFailure pivot space balance = some (st, s3)) :
    ∃ st', s3.setRotatePivot H .kFailure pivot space balance = some (st', s3) := by
  obtain ⟨tail, htail⟩ : ∃ f : TransformationMatrix → Option (MStatus × TransformationMatrix),
      ∀ t, f t = (if t.pushToPrimAvailable = true then
        (if (!t.primHasRotatePivot && (!t.pushPrimToMatrix && decide (pivot ≠ MVector.zero))) = true
          then t.insertAndPushPivotOp H .rotatePivot
        else if (!pivot.isEquivalent t.m_rotatePivotFromUsd) = true
          then some (MStatus.kFailure, t.pushRotatePivotToPrim H)
        else some (MStatus.kFailure, t))
      else some (MStatus.kFailure, t)) := ⟨_, fun _ => rfl⟩
  have hstep : ∀ t : TransformationMatrix,
      t.setRotatePivot H .kFailure pivot space balance = tail t := by
    intro t
    rw [htail]
    simp only [setRotatePivot, baseSetRotatePivot, MStatus.toBool, Bool.false_eq_true, if_false]
  -- conditions that only look at the flags and the prim
  have hcond : ∀ t t' : TransformationMatrix, t'.m_flags = t.m_flags →
      t'.primValid = t.primValid →
      t'.pushToPrimAvailable = t.pushToPrimAvailable ∧
      t'.primHasRotatePivot = t.primHasRotatePivot ∧
      t'.pushPrimToMatrix = t.pushPrimToMatrix ∧
      t'.primHasPivot = t.primHasPivot := by
    intro t t' hf hv
    exact ⟨pushToPrimAvailable_congr _ _ (by rw [hf]) hv,
      by simp only [primHasRotatePivot, hf], by simp only [pushPrimToMatrix, hf],
      by simp only [primHasPivot, hf]⟩
  -- a state in which nothing has to be inserted and a push changes nothing
  have settled : ∀ t : TransformationMatrix, t.pushToPrimAvailable = true →
      (!t.primHasRotatePivot && (!t.pushPrimToMatrix && decide (pivot ≠ MVector.zero))) = false →
      t.pushRotatePivotToPrim H = t → tail t = some (.kFailure, t) := by
    intro t hav hno hpush
    rw [htail, if_pos hav, if_neg (by rw [hno]; simp)]
    by_cases hg : (!pivot.isEquivalent t.m_rotatePivotFromUsd) = true
    · rw [if_pos hg, hpush]
    · rw [if_neg hg]
  rw [hstep s, htail] at h
  refine Exists.imp (fun st' hfix => by rw [hstep s3]; exact hfix) ?_
  by_cases hav : s.pushToPrimAvailable = true
  · rw [if_pos hav] at h
    by_cases hx : (!s.primHasRotatePivot && (!s.pushPrimToMatrix &&
        decide (pivot ≠ MVector.zero))) = true
    · rw [if_pos hx] at h
      by_cases hp : s.primHasPivot = true
      · by_cases heq : s.scalePivotValue = s.rotatePivotValue
        · -- the combined operator is written
          simp only [insertAndPushPivotOp, ne_eq, not_true_eq_false, and_false, if_false,
            reduceCtorEq, decide_False, Bool.not_false, hp,
            if_true, heq, Option.some.injEq, Prod.mk.injEq] at h
          obtain ⟨f1, f2, f3, _, _⟩ := pushPivotToPrim_frame H s
          obtain ⟨k1, k2, k3, k4⟩ := hcond s _ f1 f2
          have hidem := pushPivotToPrim_idem H s hT hPv
          have hsv : (s.pushPivotToPrim H).scalePivotValue = s.scalePivotValue := by
            show (s.pushPivotToPrim H).toMPxTransformationMatrix.scalePivotValue = _
            rw [f3]
          have hrv : (s.pushPivotToPrim H).rotatePivotValue = s.rotatePivotValue := by
            show (s.pushPivotToPrim H).toMPxTransformationMatrix.rotatePivotValue = _
            rw [f3]
          rw [← h.2]
          refine ⟨.kSuccess, ?_⟩
          rw [htail, k1, if_pos hav, k2, k3, if_pos hx]
          simp only [insertAndPushPivotOp, ne_eq, not_true_eq_false, and_false, if_false,
            reduceCtorEq, decide_False, Bool.not_false, k4,
            hp, if_true, hsv, hrv, heq, hidem]
        · -- the combined operator is split
          have hvalid : s.primValid = true := by
            simp only [pushToPrimAvailable, Bool.and_eq_true] at hav
            exact hav.2
          have hx3 : s.primHasRotatePivot = false ∧ s.pushPrimToMatrix = false ∧
              decide (pivot ≠ MVector.zero) = true := by
            simpa [Bool.and_eq_true] using hx
          obtain ⟨hns, hm, hnz⟩ := hx3
          obtain ⟨y1, y2, y3, y4, y5⟩ := hsplit hp
          obtain ⟨r, hrem, _⟩ := removeOp_spec s .pivot kPrimHasPivot y2 y3 y1
          obtain ⟨q1, q2, q3, q4, q5, q6, q7⟩ :=
            removeOp_pivot_ready s r (hsplit hp) hm hrem
          have hfo := findOp_removeOp_other s r .pivot
          simp only [insertAndPushPivotOp, ne_eq, not_true_eq_false, false_and, and_false,
            if_false, hp, if_true, heq, hrem] at h
          obtain ⟨z1, z2, z5⟩ :=
            insertPivotOps_rotate_settles_failed H r st s3 q1 (q2.trans hvalid) q7
              (q5.trans hns)
              (by rw [hfo .transform kPrimHasPivot y2 y3 y1 hrem (by decide)]; exact hT)
              (by rw [hfo .rotatePivot kPrimHasPivot y2 y3 y1 hrem (by decide)]; exact hown) h
          have hav3 : s3.pushToPrimAvailable = true := z2.trans (q3.trans hav)
          rcases z5 with ⟨_, hno, hfail⟩ | ⟨hhas, hpush⟩
          · refine ⟨.kFailure, ?_⟩
            have hc : (!s3.primHasRotatePivot && (!s3.pushPrimToMatrix &&
                decide (pivot ≠ MVector.zero))) = true := by
              rw [hno, z1.2.2.2.2, hnz]; rfl
            rw [htail, if_pos hav3, if_pos hc, insertAndPushPivotOp_rotate H s3 z1.2.2.2.1]
            simp only [insertPivotOps, if_true, Bool.false_eq_true, if_false,
              insertRotatePivotOp] at hfail ⊢
            rw [hfail]
          · exact ⟨.kFailure, settled s3 hav3 (by rw [hhas]; rfl) hpush⟩
      · -- only the rotate-pivot pair is inserted
        have hp' : s.primHasPivot = false := by simpa using hp
        simp only [insertAndPushPivotOp, ne_eq, not_true_eq_false, and_false, if_false,
          reduceCtorEq, decide_False, Bool.not_false, hp',
          Bool.false_eq_true, decide_True, Bool.not_true, insertPivotOps, if_true,
          insertRotatePivotOp] at h
        cases hi : s.insertOp .TypeTranslate .PrecisionFloat .rotatePivot kPrimHasRotatePivot
            false with
        | none => rw [hi] at h; exact absurd h (by simp)
        | some r =>
          obtain ⟨sti, si⟩ := r
          rw [hi] at h
          have hw := withStructureOf_insertOp _ _ _ _ _ _ _ _ hi
          have hv' : si.primValid = s.primValid := primValid_withStructureOf _ _ hw
          cases sti with
          | kFailure =>
            simp only [Option.some.injEq, Prod.mk.injEq] at h
            have hf := insertOp_fail_flags _ _ _ _ _ _ _ hi
            obtain ⟨k1, k2, k3, k4⟩ := hcond s si hf hv'
            have hagain := insertOp_fail_again _ _ _ _ _ _ _ hi
            rw [← h.2]
            refine ⟨.kFailure, ?_⟩
            rw [htail, k1, if_pos hav, k2, k3, if_pos hx]
            simp only [insertAndPushPivotOp, ne_eq, not_true_eq_false, and_false, if_false,
              reduceCtorEq, decide_False, Bool.not_false, k4,
              hp', Bool.false_eq_true, decide_True, Bool.not_true, insertPivotOps, if_true,
              insertRotatePivotOp, hagain]
          | kSuccess =>
            simp only [Option.some.injEq, Prod.mk.injEq] at h
            obtain ⟨hf, hfind⟩ := insertOp_success_frame _ _ _ _ _ _ _ hi
            have hTi : ∀ op, si.findOp .transform = some op → op.isInverseOp = false := by
              intro op hop
              rw [hfind .transform (by decide)] at hop
              exact hT op hop
            obtain ⟨e1, e2⟩ := pushRotatePivotToPrim_flags H si
            rw [← h.2]
            refine ⟨.kFailure, settled _ ?_ ?_ (pushRotatePivotToPrim_idem H si hTi
              (insertOp_found_primary _ _ _ _ _ _ _ hi hown))⟩
            · exact (pushToPrimAvailable_congr _ _
                (by rw [e1, hf]; exact hasFlag_setFlag_other _ _ _ (by decide))
                (by rw [e2, hv'])).trans hav
            · have hh : (si.pushRotatePivotToPrim H).primHasRotatePivot = true := by
                simp only [primHasRotatePivot, e1, hf]
                exact hasFlag_setFlag_self _ _ (by decide)
              rw [hh]; rfl
    · -- nothing to insert
      have hx' : (!s.primHasRotatePivot && (!s.pushPrimToMatrix &&
          decide (pivot ≠ MVector.zero))) = false := by simpa using hx
      rw [if_neg hx] at h
      by_cases hg : (!pivot.isEquivalent s.m_rotatePivotFromUsd) = true
      · rw [if_pos hg] at h
        simp only [Option.some.injEq, Prod.mk.injEq] at h
        obtain ⟨e1, e2⟩ := pushRotatePivotToPrim_flags H s
        obtain ⟨k1, k2, k3, k4⟩ := hcond s _ e1 e2
        rw [← h.2]
        exact ⟨.kFailure, settled _ (by rw [k1]; exact hav) (by rw [k2, k3]; exact hx')
          (pushRotatePivotToPrim_idem H s hT hown)⟩
      · rw [if_neg hg] at h
        simp only [Option.some.injEq, Prod.mk.injEq] at h
        rw [← h.2]
        refine ⟨.kFailure, ?_⟩
        rw [htail, if_pos hav, if_neg hx, if_neg hg]
  · rw [if_neg hav] at h
    simp only [Option.some.injEq, Prod.mk.injEq] at h
    rw [← h.2]
    refine ⟨.kFailure, ?_⟩
    rw [htail, if_neg hav]

end ALUsdMaya
